import Mathlib

set_option linter.unusedSectionVars false
set_option linter.unusedVariables false

/-!
# SSE Forward / Backward engines of the `hmm3` plugin

A shallow embedding of `impl_sse/fwdback.cpp` (and the parts of
`impl_sse/p7_oprofile.cpp` it relies on).  Floats are an arbitrary carrier
`α` with the arithmetic the code uses; the theorems about exact arithmetic
instantiate `α` with a linearly ordered field (the reals).  SSE registers
are four lanes of `α`; pointers into the striped tables are indices.
-/

namespace Hmmer3

/-! ## Status codes, SSE registers and intrinsics -/

/-- Easel status codes returned by the functions modelled here. -/
inductive Status where
  | eslOK
  | eslFAIL
  | eslEMEM
  | eslEINVAL
  | eslERANGE
  | eslCANCELED
  | eslECORRUPT
  | eslEAMBIGUOUS
  deriving DecidableEq, Repr

/-- An `__m128` register: four float lanes. -/
abbrev M128 (α : Type) := Fin 4 → α

/-- An `__m128` register used as a comparison mask (all-ones / all-zeros per lane). -/
abbrev Mask128 := Fin 4 → Bool

/-- The C library functions on floats the engines call. -/
structure LibM (α : Type) where
  isnan : α → Bool
  isinf : α → Int
  log : α → α

section Intrinsics

variable {α : Type}

def mm_setzero_ps [Zero α] : M128 α := fun _ => 0

def mm_set1_ps (x : α) : M128 α := fun _ => x

def mm_add_ps [Add α] (a b : M128 α) : M128 α := fun z => a z + b z

def mm_mul_ps [Mul α] (a b : M128 α) : M128 α := fun z => a z * b z

/-- Lane 0 from `b`, lanes 1..3 from `a`. -/
def mm_move_ss (a b : M128 α) : M128 α := fun z => if z = 0 then b 0 else a z

/-- The immediate built by the `_MM_SHUFFLE(z, y, x, w)` macro. -/
def MM_SHUFFLE (z y x w : Nat) : Nat := z * 64 + y * 16 + x * 4 + w

/-- Lanes 0, 1 are selected from `a`, lanes 2, 3 from `b`, two bits of `imm` each. -/
def mm_shuffle_ps (a b : M128 α) (imm : Nat) : M128 α := fun z =>
  match z with
  | 0 => a (Fin.ofNat (imm % 4))
  | 1 => a (Fin.ofNat (imm / 4 % 4))
  | 2 => b (Fin.ofNat (imm / 16 % 4))
  | 3 => b (Fin.ofNat (imm / 64 % 4))

/-- Store of the lowest lane. -/
def mm_store_ss (a : M128 α) : α := a 0

def mm_cmpgt_ps [LT α] [DecidableRel (fun (x y : α) => x < y)] (a b : M128 α) : Mask128 :=
  fun z => decide (b z < a z)

/-- Bitwise or, on comparison masks. -/
def mm_or_ps (a b : Mask128) : Mask128 := fun z => a z || b z

/-- Sign bits of the four lanes packed into an integer. -/
def mm_movemask_ps (a : Mask128) : Nat :=
  (a 0).toNat + 2 * (a 1).toNat + 4 * (a 2).toNat + 8 * (a 3).toNat

/-- Modelled from the spec: `esl_sse_rightshift_ps(a, b)` of `esl_sse.h`, which
is not part of the sources at hand; it shifts the lanes of `a` up by one
("4,8,12,x becomes x,4,8,12") and shifts lane 0 of `b` on. -/
def esl_sse_rightshift_ps (a b : M128 α) : M128 α := fun z =>
  match z with
  | 0 => b 0
  | 1 => a 0
  | 2 => a 1
  | 3 => a 2

end Intrinsics

/-! ## Loops -/

/-- The loop `for (q = 0; q < n; q++) body`. -/
def forUp {σ : Type} (n : Nat) (body : Nat → σ → σ) (s : σ) : σ :=
  match n with
  | 0 => s
  | k + 1 => body k (forUp k body s)

/-- The loop `for (q = n-1; q >= 0; q--) body`. -/
def forDown {σ : Type} (n : Nat) (body : Nat → σ → σ) (s : σ) : σ :=
  match n with
  | 0 => s
  | k + 1 => forDown k body (body k s)

/-! ## The optimized profile and the DP matrix -/

/-- Alignment modes of a profile (`hmmer.h`). -/
inductive p7_mode where
  | p7_NO_MODE
  | p7_LOCAL
  | p7_GLOCAL
  | p7_UNILOCAL
  | p7_UNIGLOCAL
  deriving DecidableEq, Repr

/-- Special states that have float-track parameters `xf`. -/
inductive p7o_xstates_e where
  | p7O_E
  | p7O_N
  | p7O_J
  | p7O_C
  deriving DecidableEq, Repr

/-- The two transitions of a special state. -/
inductive p7o_xtransitions_e where
  | p7O_MOVE
  | p7O_LOOP
  deriving DecidableEq, Repr

export p7o_xstates_e (p7O_E p7O_N p7O_J p7O_C)
export p7o_xtransitions_e (p7O_MOVE p7O_LOOP)
export p7_mode (p7_NO_MODE p7_LOCAL p7_GLOCAL p7_UNILOCAL p7_UNIGLOCAL)
export Status (eslOK eslFAIL eslEMEM eslEINVAL eslERANGE eslCANCELED eslECORRUPT eslEAMBIGUOUS)

/-- The float (Forward/Backward) track of `P7_OPROFILE`, with the fields the
engines read: `rfv[x][q]` striped match odds ratios, `tfv[j]` striped
transition odds ratios, `xf[s][t]` special-state parameters. -/
structure P7_OPROFILE (α : Type) where
  rfv : Nat → Nat → M128 α
  tfv : Nat → M128 α
  xf : p7o_xstates_e → p7o_xtransitions_e → α
  M : Nat
  mode : p7_mode

/-- Cells of the special-state trace `xmx`, one set per sequence position. -/
inductive p7x_xcells_e where
  | p7X_E
  | p7X_N
  | p7X_J
  | p7X_B
  | p7X_C
  | p7X_SCALE
  deriving DecidableEq, Repr

export p7x_xcells_e (p7X_E p7X_N p7X_J p7X_B p7X_C p7X_SCALE)

/-- One row of the main DP matrix: for each block `q` the Match, Delete and
Insert vectors (what the `MMO`, `DMO`, `IMO` macros address). -/
structure DPRow (α : Type) where
  mmo : Nat → M128 α
  dmo : Nat → M128 α
  imo : Nat → M128 α

/-- The fields of `P7_OMX` the engines use.  `dpf` maps a row index to a row,
`xmx i c` is `xmx[i*p7X_NXCELLS + c]`. -/
structure P7_OMX (α : Type) where
  M : Nat
  L : Nat
  dpf : Nat → DPRow α
  xmx : Nat → p7x_xcells_e → α
  totscale : α
  has_own_scales : Bool

section Access

variable {α : Type}

/-- Read `MMO(dp, q)`, where `dp` is row `r` of `dpf`. -/
def MMO (dpf : Nat → DPRow α) (r q : Nat) : M128 α := (dpf r).mmo q

def DMO (dpf : Nat → DPRow α) (r q : Nat) : M128 α := (dpf r).dmo q

def IMO (dpf : Nat → DPRow α) (r q : Nat) : M128 α := (dpf r).imo q

/-- The store `MMO(dp, q) = v`, where `dp` is row `r` of `dpf`. -/
def setMMO (dpf : Nat → DPRow α) (r q : Nat) (v : M128 α) : Nat → DPRow α :=
  Function.update dpf r { dpf r with mmo := Function.update (dpf r).mmo q v }

def setDMO (dpf : Nat → DPRow α) (r q : Nat) (v : M128 α) : Nat → DPRow α :=
  Function.update dpf r { dpf r with dmo := Function.update (dpf r).dmo q v }

def setIMO (dpf : Nat → DPRow α) (r q : Nat) (v : M128 α) : Nat → DPRow α :=
  Function.update dpf r { dpf r with imo := Function.update (dpf r).imo q v }

/-- The store `xmx[i*p7X_NXCELLS + c] = v`. -/
def setX (xmx : Nat → p7x_xcells_e → α) (i : Nat) (c : p7x_xcells_e) (v : α) :
    Nat → p7x_xcells_e → α :=
  Function.update xmx i (Function.update (xmx i) c v)

end Access

/-- The function `p7_oprofile_IsLocal`. -/
def p7_oprofile_IsLocal {α : Type} (om : P7_OPROFILE α) : Bool :=
  if om.mode = p7_LOCAL ∨ om.mode = p7_UNILOCAL then true else false

/-! ## forward_engine -/

/-- The local variables of `forward_engine`, together with the matrix `ox`
being filled.  `dpc`, `dpp` are row indices into `ox.dpf`; `rp` is an offset
into `om.rfv[dsq[i]]` and `tp` an offset into `om.tfv`. -/
structure FwdVars (α : Type) where
  ox : P7_OMX α
  mpv : M128 α
  dpv : M128 α
  ipv : M128 α
  sv : M128 α
  dcv : M128 α
  xEv : M128 α
  xBv : M128 α
  cv : Mask128
  xN : α
  xE : α
  xB : α
  xC : α
  xJ : α
  dpc : Nat
  dpp : Nat
  rp : Nat
  tp : Nat

section Forward

variable {α : Type} [Zero α] [One α] [Add α] [Mul α] [Div α] [NatCast α]
  [LT α] [DecidableRel (fun (x y : α) => x < y)] [DecidableEq α]

/-- Body of the loop clearing row `dpc`: `MMO = IMO = DMO = zerov`. -/
def fwd_init_body (dpc : Nat) (q : Nat) (ox : P7_OMX α) : P7_OMX α :=
  let zerov : M128 α := mm_setzero_ps
  let ox := { ox with dpf := setDMO ox.dpf dpc q zerov }
  let ox := { ox with dpf := setIMO ox.dpf dpc q zerov }
  { ox with dpf := setMMO ox.dpf dpc q zerov }

/-- The initialization of `forward_engine` (everything before the loop over
sequence positions). -/
def fwd_init (L : Nat) (Q : Nat) (om : P7_OPROFILE α) (ox : P7_OMX α) : FwdVars α :=
  let dpc := 0
  let ox := { ox with M := om.M }
  let ox := { ox with L := L }
  let ox := { ox with has_own_scales := true }
  let zerov : M128 α := mm_setzero_ps
  let ox := forUp Q (fwd_init_body dpc) ox
  let ox := { ox with xmx := setX ox.xmx 0 p7X_E 0 }
  let xE : α := 0
  let ox := { ox with xmx := setX ox.xmx 0 p7X_N 1 }
  let xN : α := 1
  let ox := { ox with xmx := setX ox.xmx 0 p7X_J 0 }
  let xJ : α := 0
  let ox := { ox with xmx := setX ox.xmx 0 p7X_B (om.xf p7O_N p7O_MOVE) }
  let xB : α := om.xf p7O_N p7O_MOVE
  let ox := { ox with xmx := setX ox.xmx 0 p7X_C 0 }
  let xC : α := 0
  let ox := { ox with xmx := setX ox.xmx 0 p7X_SCALE 1 }
  let ox := { ox with totscale := 0 }
  { ox := ox, mpv := zerov, dpv := zerov, ipv := zerov, sv := zerov, dcv := zerov,
    xEv := zerov, xBv := zerov, cv := fun _ => false,
    xN := xN, xE := xE, xB := xB, xC := xC, xJ := xJ,
    dpc := dpc, dpp := dpc, rp := 0, tp := 0 }

/-- Body of the main loop over blocks `q` for residue `x = dsq[i]`:
new Match and Insert vectors, delayed store of the M->D part of Delete. -/
def fwd_main_body (om : P7_OPROFILE α) (x : Nat) (q : Nat) (s : FwdVars α) : FwdVars α :=
  let sv := mm_mul_ps s.xBv (om.tfv s.tp)
  let tp := s.tp + 1
  let sv := mm_add_ps sv (mm_mul_ps s.mpv (om.tfv tp))
  let tp := tp + 1
  let sv := mm_add_ps sv (mm_mul_ps s.ipv (om.tfv tp))
  let tp := tp + 1
  let sv := mm_add_ps sv (mm_mul_ps s.dpv (om.tfv tp))
  let tp := tp + 1
  let sv := mm_mul_ps sv (om.rfv x s.rp)
  let rp := s.rp + 1
  let xEv := mm_add_ps s.xEv sv
  let mpv := MMO s.ox.dpf s.dpp q
  let dpv := DMO s.ox.dpf s.dpp q
  let ipv := IMO s.ox.dpf s.dpp q
  let dpf := setMMO s.ox.dpf s.dpc q sv
  let dpf := setDMO dpf s.dpc q s.dcv
  let dcv := mm_mul_ps sv (om.tfv tp)
  let tp := tp + 1
  let sv := mm_mul_ps mpv (om.tfv tp)
  let tp := tp + 1
  let dpf := setIMO dpf s.dpc q (mm_add_ps sv (mm_mul_ps ipv (om.tfv tp)))
  let tp := tp + 1
  { s with ox := { s.ox with dpf := dpf }, mpv := mpv, dpv := dpv, ipv := ipv,
           sv := sv, dcv := dcv, xEv := xEv, rp := rp, tp := tp }

/-- Body of the first delete pass: M->D and D->D paths, extending `DMO(q)`. -/
def fwd_dd_first_body (om : P7_OPROFILE α) (q : Nat) (s : FwdVars α) : FwdVars α :=
  let dpf := setDMO s.ox.dpf s.dpc q (mm_add_ps s.dcv (DMO s.ox.dpf s.dpc q))
  let dcv := mm_mul_ps (DMO dpf s.dpc q) (om.tfv s.tp)
  let tp := s.tp + 1
  { s with ox := { s.ox with dpf := dpf }, dcv := dcv, tp := tp }

/-- Body of an extra delete pass of the fully serialized version. -/
def fwd_dd_serial_body (om : P7_OPROFILE α) (q : Nat) (s : FwdVars α) : FwdVars α :=
  let dpf := setDMO s.ox.dpf s.dpc q (mm_add_ps s.dcv (DMO s.ox.dpf s.dpc q))
  let dcv := mm_mul_ps s.dcv (om.tfv s.tp)
  let tp := s.tp + 1
  { s with ox := { s.ox with dpf := dpf }, dcv := dcv, tp := tp }

/-- Body of an extra delete pass of the version that tracks in `cv` whether
any `DMO(q)` increased. -/
def fwd_dd_par_body (om : P7_OPROFILE α) (q : Nat) (s : FwdVars α) : FwdVars α :=
  let sv := mm_add_ps s.dcv (DMO s.ox.dpf s.dpc q)
  let cv := mm_or_ps s.cv (mm_cmpgt_ps sv (DMO s.ox.dpf s.dpc q))
  let dpf := setDMO s.ox.dpf s.dpc q sv
  let dcv := mm_mul_ps s.dcv (om.tfv s.tp)
  let tp := s.tp + 1
  { s with ox := { s.ox with dpf := dpf }, sv := sv, cv := cv, dcv := dcv, tp := tp }

/-- The loop `for (j = 1; j < 4; j++)` of the fully serialized version, with
`n` passes to go. -/
def fwd_dd_serial (Q : Nat) (om : P7_OPROFILE α) (n : Nat) (s : FwdVars α) : FwdVars α :=
  match n with
  | 0 => s
  | k + 1 =>
    let zerov : M128 α := mm_setzero_ps
    let s := { s with dcv := esl_sse_rightshift_ps s.dcv zerov }
    let s := { s with tp := 7 * Q }
    let s := forUp Q (fwd_dd_serial_body om) s
    fwd_dd_serial Q om k s

/-- The loop `for (j = 1; j < 4; j++)` of the slightly parallelized version,
with `n` passes to go; it is left as soon as a pass changed no `DMO(q)`. -/
def fwd_dd_par (Q : Nat) (om : P7_OPROFILE α) (n : Nat) (s : FwdVars α) : FwdVars α :=
  match n with
  | 0 => s
  | k + 1 =>
    let zerov : M128 α := mm_setzero_ps
    let s := { s with dcv := esl_sse_rightshift_ps s.dcv zerov }
    let s := { s with tp := 7 * Q }
    let s := { s with cv := fun _ => false }
    let s := forUp Q (fwd_dd_par_body om) s
    if mm_movemask_ps s.cv = 0 then s else fwd_dd_par Q om k s

/-- Start of row `i`: the row pointers, the table pointers and the registers
are set up; the previous row's last block is shifted into `mpv`, `dpv`, `ipv`. -/
def fwd_row_begin (do_full : Bool) (Q : Nat) (i : Nat) (s : FwdVars α) : FwdVars α :=
  let zerov : M128 α := mm_setzero_ps
  let s := { s with dpp := s.dpc, dpc := do_full.toNat * i, rp := 0, tp := 0,
                    dcv := mm_setzero_ps, xEv := mm_setzero_ps, xBv := mm_set1_ps s.xB }
  { s with mpv := esl_sse_rightshift_ps (MMO s.ox.dpf s.dpp (Q - 1)) zerov,
           dpv := esl_sse_rightshift_ps (DMO s.ox.dpf s.dpp (Q - 1)) zerov,
           ipv := esl_sse_rightshift_ps (IMO s.ox.dpf s.dpp (Q - 1)) zerov }

/-- The first delete pass: the carried `dcv` is shifted, `DMO(dpc,0)` is
cleared, and one complete DD path is run. -/
def fwd_dd_first (Q : Nat) (om : P7_OPROFILE α) (s : FwdVars α) : FwdVars α :=
  let zerov : M128 α := mm_setzero_ps
  let s := { s with dcv := esl_sse_rightshift_ps s.dcv zerov,
                    ox := { s.ox with dpf := setDMO s.ox.dpf s.dpc 0 zerov },
                    tp := 7 * Q }
  forUp Q (fwd_dd_first_body om) s

/-- The remaining delete passes: fully serialized on small models, with the
early exit on large ones. -/
def fwd_dd_rest (Q : Nat) (om : P7_OPROFILE α) (s : FwdVars α) : FwdVars α :=
  if om.M < 100 then fwd_dd_serial Q om 3 s else fwd_dd_par Q om 3 s

/-- Body of the loop adding the Delete vectors to `xEv`. -/
def fwd_collect_body (q : Nat) (s : FwdVars α) : FwdVars α :=
  { s with xEv := mm_add_ps (DMO s.ox.dpf s.dpc q) s.xEv }

/-- The Delete vectors are added to `xEv`, which is then summed horizontally
into `xE`. -/
def fwd_collect_E (Q : Nat) (s : FwdVars α) : FwdVars α :=
  let s := forUp Q fwd_collect_body s
  let s := { s with xEv := mm_add_ps s.xEv (mm_shuffle_ps s.xEv s.xEv (MM_SHUFFLE 0 3 2 1)) }
  let s := { s with xEv := mm_add_ps s.xEv (mm_shuffle_ps s.xEv s.xEv (MM_SHUFFLE 1 0 3 2)) }
  { s with xE := mm_store_ss s.xEv }

/-- The update of the special states N, C, J, B, in this order. -/
def fwd_specials (om : P7_OPROFILE α) (s : FwdVars α) : FwdVars α :=
  let s := { s with xN := s.xN * om.xf p7O_N p7O_LOOP }
  let s := { s with xC := (s.xC * om.xf p7O_C p7O_LOOP) + (s.xE * om.xf p7O_E p7O_MOVE) }
  let s := { s with xJ := (s.xJ * om.xf p7O_J p7O_LOOP) + (s.xE * om.xf p7O_E p7O_LOOP) }
  { s with xB := (s.xJ * om.xf p7O_J p7O_MOVE) + (s.xN * om.xf p7O_N p7O_MOVE) }

/-- Row `i` of `forward_engine` up to and including the update of the
special states (everything before the sparse rescaling). -/
def fwd_row_compute (do_full : Bool) (dsq : Nat → Nat) (Q : Nat) (om : P7_OPROFILE α)
    (i : Nat) (s : FwdVars α) : FwdVars α :=
  let s := fwd_row_begin do_full Q i s
  let s := forUp Q (fwd_main_body om (dsq i)) s
  let s := fwd_dd_first Q om s
  let s := fwd_dd_rest Q om s
  let s := fwd_collect_E Q s
  fwd_specials om s

/-- Body of the loop multiplying the row `dpc` by the splatted `xEv`. -/
def fwd_scale_body (q : Nat) (s : FwdVars α) : FwdVars α :=
  let dpf := setMMO s.ox.dpf s.dpc q (mm_mul_ps (MMO s.ox.dpf s.dpc q) s.xEv)
  let dpf := setDMO dpf s.dpc q (mm_mul_ps (DMO dpf s.dpc q) s.xEv)
  let dpf := setIMO dpf s.dpc q (mm_mul_ps (IMO dpf s.dpc q) s.xEv)
  { s with ox := { s.ox with dpf := dpf } }

/-- The rescaling event: the special states and the row `dpc` are divided by
`xE`, which becomes the scale factor of row `i`. -/
def fwd_rescale_event (lm : LibM α) (Q : Nat) (i : Nat) (s : FwdVars α) : FwdVars α :=
  let s := { s with xN := s.xN / s.xE, xC := s.xC / s.xE, xJ := s.xJ / s.xE,
                    xB := s.xB / s.xE, xEv := mm_set1_ps (1 / s.xE) }
  let s := forUp Q fwd_scale_body s
  let s := { s with ox := { s.ox with xmx := setX s.ox.xmx i p7X_SCALE s.xE } }
  let s := { s with ox := { s.ox with totscale := s.ox.totscale + lm.log s.xE } }
  { s with xE := 1 }

/-- Storage of the special states of row `i`. -/
def fwd_store (i : Nat) (s : FwdVars α) : FwdVars α :=
  let xmx := setX s.ox.xmx i p7X_E s.xE
  let xmx := setX xmx i p7X_N s.xN
  let xmx := setX xmx i p7X_J s.xJ
  let xmx := setX xmx i p7X_B s.xB
  let xmx := setX xmx i p7X_C s.xC
  { s with ox := { s.ox with xmx := xmx } }

/-- The sparse rescaling of row `i` and the storage of its special states. -/
def fwd_row_rescale (lm : LibM α) (Q : Nat) (i : Nat) (s : FwdVars α) : FwdVars α :=
  let s :=
    if ((10000 : Nat) : α) < s.xE then fwd_rescale_event lm Q i s
    else { s with ox := { s.ox with xmx := setX s.ox.xmx i p7X_SCALE 1 } }
  fwd_store i s

/-- One pass of the body of the loop over sequence positions, after the
cancellation check. -/
def fwd_row (lm : LibM α) (do_full : Bool) (dsq : Nat → Nat) (Q : Nat) (om : P7_OPROFILE α)
    (i : Nat) (s : FwdVars α) : FwdVars α :=
  fwd_row_rescale lm Q i (fwd_row_compute do_full dsq Q om i s)

/-- The loop `for (i = 1; i <= n; i++)` of `forward_engine`.  `cancelFlag i` is
the value of `ti.cancelFlag` read at the checkpoint of position `i`; the loop
is left with `eslCANCELED` at the first position where it is set. -/
def fwd_rows (lm : LibM α) (cancelFlag : Nat → Bool) (do_full : Bool) (dsq : Nat → Nat)
    (Q : Nat) (om : P7_OPROFILE α) (n : Nat) (s : FwdVars α) :
    Except (Status × FwdVars α) (FwdVars α) :=
  match n with
  | 0 => .ok s
  | k + 1 =>
    match fwd_rows lm cancelFlag do_full dsq Q om k s with
    | .error e => .error e
    | .ok s =>
      if cancelFlag (k + 1) then .error (eslCANCELED, s)
      else .ok (fwd_row lm do_full dsq Q om (k + 1) s)

/-- The function `forward_engine`.  `p7O_NQF` is the macro of `impl_sse.h`
giving the number of float vectors for a model length; `opt_sc` tells whether
the caller passed a non-NULL `opt_sc`.  The result is the returned status, the
matrix, and the score written to `*opt_sc` (if any). -/
def forward_engine (p7O_NQF : Nat → Nat) (lm : LibM α) (cancelFlag : Nat → Bool)
    (do_full : Bool) (dsq : Nat → Nat) (L : Nat) (om : P7_OPROFILE α) (ox : P7_OMX α)
    (opt_sc : Bool) : Status × P7_OMX α × Option α :=
  let Q := p7O_NQF om.M
  let s := fwd_init L Q om ox
  match fwd_rows lm cancelFlag do_full dsq Q om L s with
  | .error (st, s) => (st, s.ox, none)
  | .ok s =>
    if lm.isnan s.xC then (eslERANGE, s.ox, none)
    else if 0 < L ∧ s.xC = 0 then (eslERANGE, s.ox, none)
    else if lm.isinf s.xC = 1 then (eslERANGE, s.ox, none)
    else
      (eslOK, s.ox,
        if opt_sc then some (s.ox.totscale + lm.log (s.xC * om.xf p7O_C p7O_MOVE)) else none)

end Forward

/-! ## backward_engine -/

/-- The local variables of `backward_engine`, together with the matrix `bck`
being filled.  `dpc`, `dpp` are row indices into `bck.dpf`; `rp` is an offset
into `om.rfv[dsq[i+1]]` and `tp` an offset into `om.tfv`. -/
structure BckVars (α : Type) where
  bck : P7_OMX α
  mpv : M128 α
  ipv : M128 α
  dpv : M128 α
  mcv : M128 α
  dcv : M128 α
  tmmv : M128 α
  timv : M128 α
  tdmv : M128 α
  xBv : M128 α
  xEv : M128 α
  xN : α
  xE : α
  xB : α
  xC : α
  xJ : α
  dpc : Nat
  dpp : Nat
  rp : Nat
  tp : Nat

section Backward

variable {α : Type} [Zero α] [One α] [Add α] [Mul α] [Div α] [NatCast α]
  [LT α] [DecidableRel (fun (x y : α) => x < y)] [DecidableEq α]

/-- The two-instruction left shift used throughout `backward_engine`:
`_mm_move_ss(v, zerov)` followed by `_mm_shuffle_ps(v, v, _MM_SHUFFLE(0,3,2,1))`. -/
def bck_leftshift (v : M128 α) : M128 α :=
  let zerov : M128 α := mm_setzero_ps
  let v := mm_move_ss v zerov
  mm_shuffle_ps v v (MM_SHUFFLE 0 3 2 1)

/-- Body of a delete pass that extends the stored `DMO(q)` (first segment). -/
def bck_dd_first_body (om : P7_OPROFILE α) (q : Nat) (s : BckVars α) : BckVars α :=
  let dcv := mm_mul_ps s.dpv (om.tfv s.tp)
  let tp := s.tp - 1
  let dpf := setDMO s.bck.dpf s.dpc q (mm_add_ps (DMO s.bck.dpf s.dpc q) dcv)
  let dpv := DMO dpf s.dpc q
  { s with bck := { s.bck with dpf := dpf }, dcv := dcv, dpv := dpv, tp := tp }

/-- Body of a delete pass that only extends the DD component `dcv`. -/
def bck_dd_body (om : P7_OPROFILE α) (q : Nat) (s : BckVars α) : BckVars α :=
  let dcv := mm_mul_ps s.dcv (om.tfv s.tp)
  let tp := s.tp - 1
  let dpf := setDMO s.bck.dpf s.dpc q (mm_add_ps (DMO s.bck.dpf s.dpc q) dcv)
  { s with bck := { s.bck with dpf := dpf }, dcv := dcv, tp := tp }

/-- The loop `for (j = 1; j < 4; j++)` over the extra delete passes, with `n`
passes to go, as written in the initialization of row L (the table pointer
is reset before the shift). -/
def bck_dd_passes (Q : Nat) (om : P7_OPROFILE α) (n : Nat) (s : BckVars α) : BckVars α :=
  match n with
  | 0 => s
  | k + 1 =>
    let s := { s with tp := 8 * Q - 1 }
    let s := { s with dcv := bck_leftshift s.dcv }
    let s := forDown Q (bck_dd_body om) s
    bck_dd_passes Q om k s

/-- Body of the pass adding the M->D paths. -/
def bck_md_body (om : P7_OPROFILE α) (q : Nat) (s : BckVars α) : BckVars α :=
  let dpf := setMMO s.bck.dpf s.dpc q
    (mm_add_ps (MMO s.bck.dpf s.dpc q) (mm_mul_ps s.dcv (om.tfv s.tp)))
  let tp := s.tp - 7
  let dcv := DMO dpf s.dpc q
  { s with bck := { s.bck with dpf := dpf }, dcv := dcv, tp := tp }

/-- The pass adding the M->D paths to the row `dpc`. -/
def bck_md (Q : Nat) (om : P7_OPROFILE α) (s : BckVars α) : BckVars α :=
  let s := { s with tp := 7 * Q - 3 }
  let s := { s with dcv := bck_leftshift (DMO s.bck.dpf s.dpc 0) }
  forDown Q (bck_md_body om) s

/-- Body of the loop multiplying the row `dpc` by the splatted vector `v`. -/
def bck_scale_body (v : M128 α) (q : Nat) (s : BckVars α) : BckVars α :=
  let dpf := setMMO s.bck.dpf s.dpc q (mm_mul_ps (MMO s.bck.dpf s.dpc q) v)
  let dpf := setDMO dpf s.dpc q (mm_mul_ps (DMO dpf s.dpc q) v)
  let dpf := setIMO dpf s.dpc q (mm_mul_ps (IMO dpf s.dpc q) v)
  { s with bck := { s.bck with dpf := dpf } }

/-- The multiplication of the row `dpc` by the splatted vector `v`. -/
def bck_scale_row (Q : Nat) (v : M128 α) (s : BckVars α) : BckVars α :=
  forUp Q (bck_scale_body v) s

/-- Storage of the special states of row `i`. -/
def bck_store (i : Nat) (s : BckVars α) : BckVars α :=
  let xmx := setX s.bck.xmx i p7X_E s.xE
  let xmx := setX xmx i p7X_N s.xN
  let xmx := setX xmx i p7X_J s.xJ
  let xmx := setX xmx i p7X_B s.xB
  let xmx := setX xmx i p7X_C s.xC
  { s with bck := { s.bck with xmx := xmx } }

/-- Body of the loop `MMO(dpc,q) = DMO(dpc,q) = xEv`. -/
def bck_init_md_body (dpc : Nat) (xEv : M128 α) (q : Nat) (bck : P7_OMX α) : P7_OMX α :=
  let bck := { bck with dpf := setDMO bck.dpf dpc q xEv }
  { bck with dpf := setMMO bck.dpf dpc q xEv }

/-- Body of the loop `IMO(dpc,q) = zerov`. -/
def bck_init_i_body (dpc : Nat) (q : Nat) (bck : P7_OMX α) : P7_OMX α :=
  let zerov : M128 α := mm_setzero_ps
  { bck with dpf := setIMO bck.dpf dpc q zerov }

/-- The initialization of row L, before its delete passes. -/
def bck_init_begin (do_full : Bool) (L : Nat) (Q : Nat) (om : P7_OPROFILE α)
    (bck : P7_OMX α) : BckVars α :=
  let bck := { bck with M := om.M, L := L, has_own_scales := false }
  let dpc := L * do_full.toNat
  let xJ : α := 0
  let xB : α := 0
  let xN : α := 0
  let xC : α := om.xf p7O_C p7O_MOVE
  let xE : α := xC * om.xf p7O_E p7O_MOVE
  let xEv : M128 α := mm_set1_ps xE
  let zerov : M128 α := mm_setzero_ps
  let dcv := zerov
  let bck := forUp Q (bck_init_md_body dpc xEv) bck
  let bck := forUp Q (bck_init_i_body dpc) bck
  { bck := bck, mpv := zerov, ipv := zerov, dpv := zerov, mcv := zerov, dcv := dcv,
    tmmv := zerov, timv := zerov, tdmv := zerov, xBv := zerov, xEv := xEv,
    xN := xN, xE := xE, xB := xB, xC := xC, xJ := xJ,
    dpc := dpc, dpp := dpc, rp := 0, tp := 0 }

/-- The delete and match-delete passes of row L. -/
def bck_init_dd (Q : Nat) (om : P7_OPROFILE α) (s : BckVars α) : BckVars α :=
  let s := { s with tp := 8 * Q - 1 }
  let s := { s with dpv := bck_leftshift (DMO s.bck.dpf s.dpc (Q - 1)) }
  let s := forDown Q (bck_dd_first_body om) s
  let s := bck_dd_passes Q om 3 s
  bck_md Q om s

/-- The rescaling of row L with the scale factor of the Forward matrix, and
the storage of row L's special states. -/
def bck_init_rescale (lm : LibM α) (L : Nat) (Q : Nat) (fwd : P7_OMX α)
    (s : BckVars α) : BckVars α :=
  let s :=
    if 1 < fwd.xmx L p7X_SCALE then
      let s := { s with xE := s.xE / fwd.xmx L p7X_SCALE,
                        xN := s.xN / fwd.xmx L p7X_SCALE,
                        xC := s.xC / fwd.xmx L p7X_SCALE,
                        xJ := s.xJ / fwd.xmx L p7X_SCALE,
                        xB := s.xB / fwd.xmx L p7X_SCALE,
                        xEv := mm_set1_ps (1 / fwd.xmx L p7X_SCALE) }
      bck_scale_row Q s.xEv s
    else s
  let s := { s with bck := { s.bck with xmx := setX s.bck.xmx L p7X_SCALE (fwd.xmx L p7X_SCALE) } }
  let s := { s with bck := { s.bck with totscale := lm.log (s.bck.xmx L p7X_SCALE) } }
  bck_store L s

/-- Everything `backward_engine` does before the main recursion. -/
def bck_init (lm : LibM α) (do_full : Bool) (L : Nat) (Q : Nat) (om : P7_OPROFILE α)
    (fwd : P7_OMX α) (bck : P7_OMX α) : BckVars α :=
  bck_init_rescale lm L Q fwd (bck_init_dd Q om (bck_init_begin do_full L Q om bck))

/-- Phase 1 set-up of row `i`: the row and table pointers, the left-shifted
first transition quads and the precalculated `mpv`. -/
def bck_row_begin (do_full : Bool) (dsq : Nat → Nat) (Q : Nat) (om : P7_OPROFILE α)
    (i : Nat) (s : BckVars α) : BckVars α :=
  let zerov : M128 α := mm_setzero_ps
  let s := { s with dpc := i * do_full.toNat, dpp := (i + 1) * do_full.toNat,
                    rp := Q - 1, tp := 7 * Q - 1 }
  let s := { s with tmmv := bck_leftshift (om.tfv 1), timv := bck_leftshift (om.tfv 2),
                    tdmv := bck_leftshift (om.tfv 3) }
  let s := { s with mpv := mm_mul_ps (MMO s.bck.dpf s.dpp 0) (om.rfv (dsq (i + 1)) 0) }
  { s with mpv := bck_leftshift s.mpv, xBv := zerov }

/-- Body of the phase 1 loop over blocks `q` (backwards stride), for residue
`x = dsq[i+1]`. -/
def bck_main_body (om : P7_OPROFILE α) (x : Nat) (q : Nat) (s : BckVars α) : BckVars α :=
  let ipv := IMO s.bck.dpf s.dpp q
  let dpf := setIMO s.bck.dpf s.dpc q
    (mm_add_ps (mm_mul_ps ipv (om.tfv s.tp)) (mm_mul_ps s.mpv s.timv))
  let tp := s.tp - 1
  let dpf := setDMO dpf s.dpc q (mm_mul_ps s.mpv s.tdmv)
  let mcv := mm_add_ps (mm_mul_ps ipv (om.tfv tp)) (mm_mul_ps s.mpv s.tmmv)
  let tp := tp - 2
  let mpv := mm_mul_ps (MMO dpf s.dpp q) (om.rfv x s.rp)
  let rp := s.rp - 1
  let dpf := setMMO dpf s.dpc q mcv
  let tdmv := om.tfv tp
  let tp := tp - 1
  let timv := om.tfv tp
  let tp := tp - 1
  let tmmv := om.tfv tp
  let tp := tp - 1
  let xBv := mm_add_ps s.xBv (mm_mul_ps mpv (om.tfv tp))
  let tp := tp - 1
  { s with bck := { s.bck with dpf := dpf }, ipv := ipv, mcv := mcv, mpv := mpv,
           tdmv := tdmv, timv := timv, tmmv := tmmv, xBv := xBv, rp := rp, tp := tp }

/-- Phase 2: horizontal sum of `xBv` into `xB`, then the special states
C, J, N, E, in this order. -/
def bck_specials (om : P7_OPROFILE α) (s : BckVars α) : BckVars α :=
  let s := { s with xBv := mm_add_ps s.xBv (mm_shuffle_ps s.xBv s.xBv (MM_SHUFFLE 0 3 2 1)) }
  let s := { s with xBv := mm_add_ps s.xBv (mm_shuffle_ps s.xBv s.xBv (MM_SHUFFLE 1 0 3 2)) }
  let s := { s with xB := mm_store_ss s.xBv }
  let s := { s with xC := s.xC * om.xf p7O_C p7O_LOOP }
  let s := { s with xJ := (s.xB * om.xf p7O_J p7O_MOVE) + (s.xJ * om.xf p7O_J p7O_LOOP) }
  let s := { s with xN := (s.xB * om.xf p7O_N p7O_MOVE) + (s.xN * om.xf p7O_N p7O_LOOP) }
  let s := { s with xE := (s.xC * om.xf p7O_E p7O_MOVE) + (s.xJ * om.xf p7O_E p7O_LOOP) }
  { s with xEv := mm_set1_ps s.xE }

/-- Body of the phase 3 loop: {MD}->E paths and one step of the D->D paths. -/
def bck_phase3_body (om : P7_OPROFILE α) (q : Nat) (s : BckVars α) : BckVars α :=
  let dcv := mm_mul_ps s.dpv (om.tfv s.tp)
  let tp := s.tp - 1
  let dpf := setDMO s.bck.dpf s.dpc q (mm_add_ps (DMO s.bck.dpf s.dpc q) (mm_add_ps dcv s.xEv))
  let dpv := DMO dpf s.dpc q
  let dpf := setMMO dpf s.dpc q (mm_add_ps (MMO dpf s.dpc q) s.xEv)
  { s with bck := { s.bck with dpf := dpf }, dcv := dcv, dpv := dpv, tp := tp }

/-- Phase 3 of row `i`. -/
def bck_phase3 (Q : Nat) (om : P7_OPROFILE α) (s : BckVars α) : BckVars α :=
  let s := { s with tp := 8 * Q - 1 }
  let s := { s with dpv := mm_add_ps (DMO s.bck.dpf s.dpc 0) s.xEv }
  let s := { s with dpv := bck_leftshift s.dpv }
  forDown Q (bck_phase3_body om) s

/-- Phase 4 of row `i`: the loop `for (j = 1; j < 4; j++)` over the extra
delete passes, with `n` passes to go (here the shift comes before the reset
of the table pointer). -/
def bck_phase4 (Q : Nat) (om : P7_OPROFILE α) (n : Nat) (s : BckVars α) : BckVars α :=
  match n with
  | 0 => s
  | k + 1 =>
    let s := { s with dcv := bck_leftshift s.dcv }
    let s := { s with tp := 8 * Q - 1 }
    let s := forDown Q (bck_dd_body om) s
    bck_phase4 Q om k s

/-- Row `i` of the main recursion up to and including phase 5 (everything
before the sparse rescaling). -/
def bck_row_compute (do_full : Bool) (dsq : Nat → Nat) (Q : Nat) (om : P7_OPROFILE α)
    (i : Nat) (s : BckVars α) : BckVars α :=
  let s := bck_row_begin do_full dsq Q om i s
  let s := forDown Q (bck_main_body om (dsq (i + 1))) s
  let s := bck_specials om s
  let s := bck_phase3 Q om s
  let s := bck_phase4 Q om 3 s
  bck_md Q om s

/-- The choice of the scale factor of row `i`: the engine switches to its own
scale factors once `xB` exceeds 1e16 and stays there. -/
def bck_choose_scale (fwd : P7_OMX α) (i : Nat) (s : BckVars α) : BckVars α :=
  let s :=
    if ((10000000000000000 : Nat) : α) < s.xB then
      { s with bck := { s.bck with has_own_scales := true } }
    else s
  if s.bck.has_own_scales then
    let sc : α := if ((10000 : Nat) : α) < s.xB then s.xB else 1
    { s with bck := { s.bck with xmx := setX s.bck.xmx i p7X_SCALE sc } }
  else
    { s with bck := { s.bck with xmx := setX s.bck.xmx i p7X_SCALE (fwd.xmx i p7X_SCALE) } }

/-- The division of row `i` by its scale factor, when that is above 1. -/
def bck_apply_scale (lm : LibM α) (Q : Nat) (i : Nat) (s : BckVars α) : BckVars α :=
  if 1 < s.bck.xmx i p7X_SCALE then
    let s := { s with xE := s.xE / s.bck.xmx i p7X_SCALE }
    let s := { s with xN := s.xN / s.bck.xmx i p7X_SCALE }
    let s := { s with xJ := s.xJ / s.bck.xmx i p7X_SCALE }
    let s := { s with xB := s.xB / s.bck.xmx i p7X_SCALE }
    let s := { s with xC := s.xC / s.bck.xmx i p7X_SCALE }
    let s := { s with xBv := mm_set1_ps (1 / s.bck.xmx i p7X_SCALE) }
    let s := bck_scale_row Q s.xBv s
    { s with bck := { s.bck with totscale := s.bck.totscale + lm.log (s.bck.xmx i p7X_SCALE) } }
  else s

/-- The sparse rescaling of row `i` and the storage of its special states. -/
def bck_row_rescale (lm : LibM α) (Q : Nat) (fwd : P7_OMX α) (i : Nat)
    (s : BckVars α) : BckVars α :=
  bck_store i (bck_apply_scale lm Q i (bck_choose_scale fwd i s))

/-- One pass of the body of the main recursion, after the cancellation check. -/
def bck_row (lm : LibM α) (do_full : Bool) (dsq : Nat → Nat) (Q : Nat) (om : P7_OPROFILE α)
    (fwd : P7_OMX α) (i : Nat) (s : BckVars α) : BckVars α :=
  bck_row_rescale lm Q fwd i (bck_row_compute do_full dsq Q om i s)

/-- The loop `for (i = n; i >= 1; i--)` of `backward_engine` (entered with
`n = L-1`).  `cancelFlag i` is the value of `ti.cancelFlag` read at the
checkpoint of position `i`. -/
def bck_rows (lm : LibM α) (cancelFlag : Nat → Bool) (do_full : Bool) (dsq : Nat → Nat)
    (Q : Nat) (om : P7_OPROFILE α) (fwd : P7_OMX α) (n : Nat) (s : BckVars α) :
    Except (Status × BckVars α) (BckVars α) :=
  match n with
  | 0 => .ok s
  | k + 1 =>
    if cancelFlag (k + 1) then .error (eslCANCELED, s)
    else bck_rows lm cancelFlag do_full dsq Q om fwd k (bck_row lm do_full dsq Q om fwd (k + 1) s)

/-- Body of the termination loop: B->Mk contributions of row 1. -/
def bck_term_body (om : P7_OPROFILE α) (x : Nat) (q : Nat) (s : BckVars α) : BckVars α :=
  let mpv := mm_mul_ps (MMO s.bck.dpf s.dpp q) (om.rfv x s.rp)
  let rp := s.rp + 1
  let mpv := mm_mul_ps mpv (om.tfv s.tp)
  let tp := s.tp + 7
  let xBv := mm_add_ps s.xBv mpv
  { s with mpv := mpv, xBv := xBv, rp := rp, tp := tp }

/-- Termination at `i = 0`, where only the N and B states are reachable, and
the storage of row 0. -/
def bck_term (do_full : Bool) (dsq : Nat → Nat) (Q : Nat) (om : P7_OPROFILE α)
    (s : BckVars α) : BckVars α :=
  let zerov : M128 α := mm_setzero_ps
  let s := { s with dpp := 1 * do_full.toNat, tp := 0, rp := 0, xBv := zerov }
  let s := forUp Q (bck_term_body om (dsq 1)) s
  let s := { s with xBv := mm_add_ps s.xBv (mm_shuffle_ps s.xBv s.xBv (MM_SHUFFLE 0 3 2 1)) }
  let s := { s with xBv := mm_add_ps s.xBv (mm_shuffle_ps s.xBv s.xBv (MM_SHUFFLE 1 0 3 2)) }
  let s := { s with xB := mm_store_ss s.xBv }
  let s := { s with xN := (s.xB * om.xf p7O_N p7O_MOVE) + (s.xN * om.xf p7O_N p7O_LOOP) }
  let xmx := setX s.bck.xmx 0 p7X_B s.xB
  let xmx := setX xmx 0 p7X_C 0
  let xmx := setX xmx 0 p7X_J 0
  let xmx := setX xmx 0 p7X_N s.xN
  let xmx := setX xmx 0 p7X_E 0
  let xmx := setX xmx 0 p7X_SCALE 1
  { s with bck := { s.bck with xmx := xmx } }

/-- The function `backward_engine`.  `fwd` is the filled Forward matrix, the
other arguments are as for `forward_engine`. -/
def backward_engine (p7O_NQF : Nat → Nat) (lm : LibM α) (cancelFlag : Nat → Bool)
    (do_full : Bool) (dsq : Nat → Nat) (L : Nat) (om : P7_OPROFILE α) (fwd : P7_OMX α)
    (bck : P7_OMX α) (opt_sc : Bool) : Status × P7_OMX α × Option α :=
  let Q := p7O_NQF om.M
  let s := bck_init lm do_full L Q om fwd bck
  match bck_rows lm cancelFlag do_full dsq Q om fwd (L - 1) s with
  | .error (st, s) => (st, s.bck, none)
  | .ok s =>
    let s := bck_term do_full dsq Q om s
    if lm.isnan s.xN then (eslERANGE, s.bck, none)
    else if 0 < L ∧ s.xN = 0 then (eslERANGE, s.bck, none)
    else if lm.isinf s.xN = 1 then (eslERANGE, s.bck, none)
    else (eslOK, s.bck, if opt_sc then some (s.bck.totscale + lm.log s.xN) else none)

end Backward

/-! ## The wrapper API -/

section Wrappers

variable {α : Type} [Zero α] [One α] [Add α] [Mul α] [Div α] [NatCast α]
  [LT α] [DecidableRel (fun (x y : α) => x < y)] [DecidableEq α]

/-- Allocation fields of `P7_OMX` read by the argument checks of the wrappers
(`allocQ4`, `validR`, `allocXR`). -/
structure OmxAlloc where
  allocQ4 : Nat
  validR : Nat
  allocXR : Nat

/-- The function `p7_Forward`.  `p7_DEBUGGING` tells whether that configuration
macro is defined: the argument checks are compiled only if it is. -/
def p7_Forward (p7_DEBUGGING : Bool) (p7O_NQF : Nat → Nat) (lm : LibM α)
    (cancelFlag : Nat → Bool) (dsq : Nat → Nat) (L : Nat) (om : P7_OPROFILE α)
    (al : OmxAlloc) (ox : P7_OMX α) (opt_sc : Bool) : Status × P7_OMX α × Option α :=
  if p7_DEBUGGING ∧ al.allocQ4 * 4 < om.M then (eslEINVAL, ox, none)
  else if p7_DEBUGGING ∧ al.validR ≤ L then (eslEINVAL, ox, none)
  else if p7_DEBUGGING ∧ al.allocXR ≤ L then (eslEINVAL, ox, none)
  else if p7_DEBUGGING ∧ ¬ p7_oprofile_IsLocal om then (eslEINVAL, ox, none)
  else forward_engine p7O_NQF lm cancelFlag true dsq L om ox opt_sc

/-- The function `p7_ForwardParser`. -/
def p7_ForwardParser (p7_DEBUGGING : Bool) (p7O_NQF : Nat → Nat) (lm : LibM α)
    (cancelFlag : Nat → Bool) (dsq : Nat → Nat) (L : Nat) (om : P7_OPROFILE α)
    (al : OmxAlloc) (ox : P7_OMX α) (opt_sc : Bool) : Status × P7_OMX α × Option α :=
  if p7_DEBUGGING ∧ al.allocQ4 * 4 < om.M then (eslEINVAL, ox, none)
  else if p7_DEBUGGING ∧ al.validR < 1 then (eslEINVAL, ox, none)
  else if p7_DEBUGGING ∧ al.allocXR ≤ L then (eslEINVAL, ox, none)
  else if p7_DEBUGGING ∧ ¬ p7_oprofile_IsLocal om then (eslEINVAL, ox, none)
  else forward_engine p7O_NQF lm cancelFlag false dsq L om ox opt_sc

/-- The function `p7_Backward`. -/
def p7_Backward (p7_DEBUGGING : Bool) (p7O_NQF : Nat → Nat) (lm : LibM α)
    (cancelFlag : Nat → Bool) (dsq : Nat → Nat) (L : Nat) (om : P7_OPROFILE α)
    (fwd : P7_OMX α) (al : OmxAlloc) (bck : P7_OMX α) (opt_sc : Bool) :
    Status × P7_OMX α × Option α :=
  if p7_DEBUGGING ∧ al.allocQ4 * 4 < om.M then (eslEINVAL, bck, none)
  else if p7_DEBUGGING ∧ al.validR ≤ L then (eslEINVAL, bck, none)
  else if p7_DEBUGGING ∧ al.allocXR ≤ L then (eslEINVAL, bck, none)
  else if p7_DEBUGGING ∧ L ≠ fwd.L then (eslEINVAL, bck, none)
  else if p7_DEBUGGING ∧ ¬ p7_oprofile_IsLocal om then (eslEINVAL, bck, none)
  else backward_engine p7O_NQF lm cancelFlag true dsq L om fwd bck opt_sc

/-- The function `p7_BackwardParser`. -/
def p7_BackwardParser (p7_DEBUGGING : Bool) (p7O_NQF : Nat → Nat) (lm : LibM α)
    (cancelFlag : Nat → Bool) (dsq : Nat → Nat) (L : Nat) (om : P7_OPROFILE α)
    (fwd : P7_OMX α) (al : OmxAlloc) (bck : P7_OMX α) (opt_sc : Bool) :
    Status × P7_OMX α × Option α :=
  if p7_DEBUGGING ∧ al.allocQ4 * 4 < om.M then (eslEINVAL, bck, none)
  else if p7_DEBUGGING ∧ al.validR < 1 then (eslEINVAL, bck, none)
  else if p7_DEBUGGING ∧ al.allocXR ≤ L then (eslEINVAL, bck, none)
  else if p7_DEBUGGING ∧ L ≠ fwd.L then (eslEINVAL, bck, none)
  else if p7_DEBUGGING ∧ ¬ p7_oprofile_IsLocal om then (eslEINVAL, bck, none)
  else backward_engine p7O_NQF lm cancelFlag false dsq L om fwd bck opt_sc

end Wrappers

/-! ## Iterated rows (the loops without the cancellation check) -/

section States

variable {α : Type} [Zero α] [One α] [Add α] [Mul α] [Div α] [NatCast α]
  [LT α] [DecidableRel (fun (x y : α) => x < y)] [DecidableEq α]

/-- The variables of `forward_engine` after rows `1..n` when no cancellation
is observed. -/
def fwd_state (lm : LibM α) (do_full : Bool) (dsq : Nat → Nat) (Q : Nat)
    (om : P7_OPROFILE α) (s : FwdVars α) : Nat → FwdVars α
  | 0 => s
  | k + 1 => fwd_row lm do_full dsq Q om (k + 1) (fwd_state lm do_full dsq Q om s k)

/-- The variables of row `i` of `forward_engine` just before its sparse
rescaling (`i >= 1`), when no cancellation is observed. -/
def fwd_pre (lm : LibM α) (do_full : Bool) (dsq : Nat → Nat) (Q : Nat)
    (om : P7_OPROFILE α) (s : FwdVars α) (i : Nat) : FwdVars α :=
  fwd_row_compute do_full dsq Q om i (fwd_state lm do_full dsq Q om s (i - 1))

/-- The body of the loop over positions with the sparse rescaling step
removed: the scale factor of row `i` is 1 and the special states are stored
as computed. -/
def fwd_row_noscale (i : Nat) (s : FwdVars α) : FwdVars α :=
  fwd_store i { s with ox := { s.ox with xmx := setX s.ox.xmx i p7X_SCALE 1 } }

/-- The variables after rows `1..n` of the recursion of `forward_engine` with
the rescaling step removed. -/
def fwd_state_unscaled (do_full : Bool) (dsq : Nat → Nat) (Q : Nat)
    (om : P7_OPROFILE α) (s : FwdVars α) : Nat → FwdVars α
  | 0 => s
  | k + 1 => fwd_row_noscale (k + 1)
      (fwd_row_compute do_full dsq Q om (k + 1) (fwd_state_unscaled do_full dsq Q om s k))

/-- The variables of `backward_engine` after `k` passes of the main recursion,
that is after rows `L-1, .., L-k`, when no cancellation is observed; `s` holds
the variables after the initialization of row `L`. -/
def bck_state (lm : LibM α) (do_full : Bool) (dsq : Nat → Nat) (Q : Nat)
    (om : P7_OPROFILE α) (fwd : P7_OMX α) (L : Nat) (s : BckVars α) : Nat → BckVars α
  | 0 => s
  | k + 1 => bck_row lm do_full dsq Q om fwd (L - 1 - k)
      (bck_state lm do_full dsq Q om fwd L s k)

/-- The variables of `backward_engine` once row `i` is done (`1 <= i <= L`). -/
def bck_at (lm : LibM α) (do_full : Bool) (dsq : Nat → Nat) (Q : Nat)
    (om : P7_OPROFILE α) (fwd : P7_OMX α) (L : Nat) (s : BckVars α) (i : Nat) : BckVars α :=
  bck_state lm do_full dsq Q om fwd L s (L - i)

/-- The variables of row `i` of `backward_engine` just before its sparse
rescaling (`1 <= i <= L-1`). -/
def bck_pre (lm : LibM α) (do_full : Bool) (dsq : Nat → Nat) (Q : Nat)
    (om : P7_OPROFILE α) (fwd : P7_OMX α) (L : Nat) (s : BckVars α) (i : Nat) : BckVars α :=
  bck_row_compute do_full dsq Q om i (bck_at lm do_full dsq Q om fwd L s (i + 1))

end States

/-! ## The row of forward_engine as a function of the previous row -/

section ForwardPure

variable {α : Type} [Zero α] [One α] [Add α] [Mul α] [Div α] [NatCast α]
  [LT α] [DecidableRel (fun (x y : α) => x < y)] [DecidableEq α]

/-- The previous-row vector held in `mpv` (resp. `dpv`, `ipv`) when block `q`
is computed: the shifted last block for `q = 0`, block `q-1` otherwise. -/
def fwd_prev (Q : Nat) (v : Nat → M128 α) (q : Nat) : M128 α :=
  if q = 0 then esl_sse_rightshift_ps (v (Q - 1)) mm_setzero_ps else v (q - 1)

/-- The new Match vector of block `q`, from the previous row `P`, the Begin
value `xB` and the residue `x`. -/
def fwd_pure_M (om : P7_OPROFILE α) (x Q : Nat) (xB : α) (P : DPRow α) (q : Nat) : M128 α :=
  mm_mul_ps
    (mm_add_ps
      (mm_add_ps
        (mm_add_ps (mm_mul_ps (mm_set1_ps xB) (om.tfv (7 * q)))
          (mm_mul_ps (fwd_prev Q P.mmo q) (om.tfv (7 * q + 1))))
        (mm_mul_ps (fwd_prev Q P.imo q) (om.tfv (7 * q + 2))))
      (mm_mul_ps (fwd_prev Q P.dmo q) (om.tfv (7 * q + 3))))
    (om.rfv x q)

/-- The new Insert vector of block `q`. -/
def fwd_pure_I (om : P7_OPROFILE α) (P : DPRow α) (q : Nat) : M128 α :=
  mm_add_ps (mm_mul_ps (P.mmo q) (om.tfv (7 * q + 5))) (mm_mul_ps (P.imo q) (om.tfv (7 * q + 6)))

/-- The value of `dcv` when block `q` of the main loop is entered: zero at
first, then the M->D part computed in block `q-1`. -/
def fwd_pure_Y (om : P7_OPROFILE α) (x Q : Nat) (xB : α) (P : DPRow α) (q : Nat) : M128 α :=
  if q = 0 then mm_setzero_ps
  else mm_mul_ps (fwd_pure_M om x Q xB P (q - 1)) (om.tfv (7 * (q - 1) + 4))

/-- The value of `xEv` after `n` blocks of the main loop. -/
def fwd_pure_xEv (om : P7_OPROFILE α) (x Q : Nat) (xB : α) (P : DPRow α) : Nat → M128 α
  | 0 => mm_setzero_ps
  | n + 1 => mm_add_ps (fwd_pure_xEv om x Q xB P n) (fwd_pure_M om x Q xB P n)

/-- The value of `dcv` when block `q` of the first delete pass is entered,
where `Y` holds the Delete vectors before the pass and `c0` is the shifted
carry. -/
def fwd_dd_c (om : P7_OPROFILE α) (Q : Nat) (Y : Nat → M128 α) (c0 : M128 α) : Nat → M128 α
  | 0 => c0
  | q + 1 => mm_mul_ps (mm_add_ps (fwd_dd_c om Q Y c0 q) (Y q)) (om.tfv (7 * Q + q))

/-- The value of `dcv` when block `q` of an extra delete pass is entered,
where `e0` is the shifted carry of the pass before. -/
def fwd_dd_e (om : P7_OPROFILE α) (Q : Nat) (e0 : M128 α) : Nat → M128 α
  | 0 => e0
  | q + 1 => mm_mul_ps (fwd_dd_e om Q e0 q) (om.tfv (7 * Q + q))

/-- The value of `cv` after `n` blocks of an extra delete pass of the
parallelized version. -/
def fwd_dd_cv (om : P7_OPROFILE α) (Q : Nat) (D : Nat → M128 α) (e0 : M128 α) : Nat → Mask128
  | 0 => fun _ => false
  | n + 1 => mm_or_ps (fwd_dd_cv om Q D e0 n)
      (mm_cmpgt_ps (mm_add_ps (fwd_dd_e om Q e0 n) (D n)) (D n))

/-- The Delete vectors and `dcv` after the first delete pass. -/
def fwd_pure_first (om : P7_OPROFILE α) (x Q : Nat) (xB : α) (P : DPRow α) :
    (Nat → M128 α) × M128 α :=
  let Y := fwd_pure_Y om x Q xB P
  let c0 := esl_sse_rightshift_ps (Y Q) mm_setzero_ps
  (fun q => mm_add_ps (fwd_dd_c om Q Y c0 q) (Y q), fwd_dd_c om Q Y c0 Q)

/-- One extra delete pass on the Delete vectors `D` with carry `dcv`. -/
def fwd_pure_pass (om : P7_OPROFILE α) (Q : Nat) (Dc : (Nat → M128 α) × M128 α) :
    (Nat → M128 α) × M128 α :=
  let e0 := esl_sse_rightshift_ps Dc.2 mm_setzero_ps
  (fun q => mm_add_ps (fwd_dd_e om Q e0 q) (Dc.1 q), fwd_dd_e om Q e0 Q)

/-- The extra passes of the fully serialized version, `n` to go. -/
def fwd_pure_serial (om : P7_OPROFILE α) (Q : Nat) :
    Nat → (Nat → M128 α) × M128 α → (Nat → M128 α) × M128 α
  | 0, Dc => Dc
  | n + 1, Dc => fwd_pure_serial om Q n (fwd_pure_pass om Q Dc)

/-- The extra passes of the parallelized version, `n` to go. -/
def fwd_pure_par (om : P7_OPROFILE α) (Q : Nat) :
    Nat → (Nat → M128 α) × M128 α → (Nat → M128 α) × M128 α
  | 0, Dc => Dc
  | n + 1, Dc =>
    if mm_movemask_ps (fwd_dd_cv om Q Dc.1 (esl_sse_rightshift_ps Dc.2 mm_setzero_ps) Q) = 0
    then fwd_pure_pass om Q Dc
    else fwd_pure_par om Q n (fwd_pure_pass om Q Dc)

/-- The final Delete vectors of the row. -/
def fwd_pure_D (om : P7_OPROFILE α) (x Q : Nat) (xB : α) (P : DPRow α) : Nat → M128 α :=
  if om.M < 100 then (fwd_pure_serial om Q 3 (fwd_pure_first om x Q xB P)).1
  else (fwd_pure_par om Q 3 (fwd_pure_first om x Q xB P)).1

/-- The value of `xEv` after the Delete vectors of `n` blocks were added. -/
def fwd_pure_xEvD (D : Nat → M128 α) (v : M128 α) : Nat → M128 α
  | 0 => v
  | n + 1 => mm_add_ps (D n) (fwd_pure_xEvD D v n)

/-- The horizontal sum as the engines compute it. -/
def hsum (v : M128 α) : α :=
  let v := mm_add_ps v (mm_shuffle_ps v v (MM_SHUFFLE 0 3 2 1))
  let v := mm_add_ps v (mm_shuffle_ps v v (MM_SHUFFLE 1 0 3 2))
  mm_store_ss v

/-- The End value of the row before rescaling. -/
def fwd_pure_xE (om : P7_OPROFILE α) (x Q : Nat) (xB : α) (P : DPRow α) : α :=
  hsum (fwd_pure_xEvD (fwd_pure_D om x Q xB P) (fwd_pure_xEv om x Q xB P Q) Q)

end ForwardPure

/-! ## Rows along the chain of nodes, and the pairing of Forward with Backward -/

section PairingDefs

variable {α : Type}

/-- The value at the next position of a chain of length `T`, zero past the end. -/
def shl [Zero α] (T : Nat) (h : Nat → α) (n : Nat) : α := if n + 1 < T then h (n + 1) else 0

/-- The value at the previous position of a chain, zero before the start. -/
def shr [Zero α] (a : Nat → α) (n : Nat) : α := if n = 0 then 0 else a (n - 1)

/-- The transition odds ratios of `tfv`, by position along the chain of nodes:
`BM`, `MM`, `IM`, `DM` lead into the node, `MD`, `MI`, `II`, `DD` leave it. -/
structure ChainT (α : Type) where
  BM : Nat → α
  MM : Nat → α
  IM : Nat → α
  DM : Nat → α
  MD : Nat → α
  MI : Nat → α
  II : Nat → α
  DD : Nat → α

/-- One row of a DP matrix by position along the chain of nodes, with its
special states. -/
structure FlatRow (α : Type) where
  M : Nat → α
  I : Nat → α
  D : Nat → α
  N : α
  J : α
  C : α
  B : α
  E : α

variable [CommRing α]

/-- The relations inside one Forward row: the Delete chain, the End state and
the Begin state. -/
def FwdRowOK (T : Nat) (t : ChainT α) (xf : p7o_xstates_e → p7o_xtransitions_e → α)
    (f : FlatRow α) : Prop :=
  (∀ n, n < T → f.D n = shr (fun m => f.M m * t.MD m + f.D m * t.DD m) n) ∧
  f.E = ∑ n in Finset.range T, (f.M n + f.D n) ∧
  f.B = f.J * xf p7O_J p7O_MOVE + f.N * xf p7O_N p7O_MOVE

/-- Row `g` is the Forward row that follows row `f`, for a residue with match
odds ratios `e` (the End value of `g` is not constrained here). -/
def FwdStep (T : Nat) (t : ChainT α) (xf : p7o_xstates_e → p7o_xtransitions_e → α)
    (e : Nat → α) (f g : FlatRow α) : Prop :=
  (∀ n, n < T → g.M n
    = (f.B * t.BM n + shr f.M n * t.MM n + shr f.I n * t.IM n + shr f.D n * t.DM n) * e n) ∧
  (∀ n, n < T → g.I n = f.M n * t.MI n + f.I n * t.II n) ∧
  g.N = f.N * xf p7O_N p7O_LOOP ∧
  g.C = f.C * xf p7O_C p7O_LOOP + g.E * xf p7O_E p7O_MOVE ∧
  g.J = f.J * xf p7O_J p7O_LOOP + g.E * xf p7O_E p7O_LOOP

/-- The relation inside one Backward row that the pairing uses. -/
def BckRowOK (xf : p7o_xstates_e → p7o_xtransitions_e → α) (c : FlatRow α) : Prop :=
  c.E = c.C * xf p7O_E p7O_MOVE + c.J * xf p7O_E p7O_LOOP

/-- Row `b` is the Backward row that precedes row `c`, for a residue with
match odds ratios `e` emitted between them. -/
def BckStep (T : Nat) (t : ChainT α) (xf : p7o_xstates_e → p7o_xtransitions_e → α)
    (e : Nat → α) (c b : FlatRow α) : Prop :=
  (∀ n, n < T → b.I n = c.I n * t.II n + shl T (fun m => c.M m * e m * t.IM m) n) ∧
  b.B = ∑ n in Finset.range T, c.M n * e n * t.BM n ∧
  b.C = c.C * xf p7O_C p7O_LOOP ∧
  b.J = b.B * xf p7O_J p7O_MOVE + c.J * xf p7O_J p7O_LOOP ∧
  b.N = b.B * xf p7O_N p7O_MOVE + c.N * xf p7O_N p7O_LOOP ∧
  b.E = b.C * xf p7O_E p7O_MOVE + b.J * xf p7O_E p7O_LOOP ∧
  (∀ n, n < T → b.D n
    = shl T (fun m => c.M m * e m * t.DM m) n + b.E + t.DD n * shl T b.D n) ∧
  (∀ n, n < T → b.M n
    = c.I n * t.MI n + shl T (fun m => c.M m * e m * t.MM m) n + b.E + t.MD n * shl T b.D n)

/-- The pairing of a Forward row with a Backward row of the same position. -/
def pairing (T : Nat) (f b : FlatRow α) : α :=
  ∑ n in Finset.range T, (f.M n * b.M n + f.I n * b.I n)
    + f.N * b.N + f.J * b.J + f.C * b.C - f.E * b.E

/-- Row `g` is row `f` multiplied by `k`. -/
def FlatScaled (T : Nat) (k : α) (f g : FlatRow α) : Prop :=
  (∀ n, n < T → g.M n = k * f.M n ∧ g.I n = k * f.I n ∧ g.D n = k * f.D n) ∧
  g.N = k * f.N ∧ g.J = k * f.J ∧ g.C = k * f.C ∧ g.B = k * f.B ∧ g.E = k * f.E

end PairingDefs

/-! ## Striped tables read along the chain of nodes -/

section FlatDefs

variable {α : Type}

/-- The entry for position `n` (counted from 0) of a striped table of `Q`
vectors: lane `n / Q` of vector `n % Q`. -/
def flat (Q : Nat) (v : Nat → M128 α) (n : Nat) : α := v (n % Q) (Fin.ofNat (n / Q))

/-- The transition odds ratios of the profile along the chain of nodes. -/
def om_chain (Q : Nat) (om : P7_OPROFILE α) : ChainT α :=
  { BM := flat Q (fun q => om.tfv (7 * q))
    MM := flat Q (fun q => om.tfv (7 * q + 1))
    IM := flat Q (fun q => om.tfv (7 * q + 2))
    DM := flat Q (fun q => om.tfv (7 * q + 3))
    MD := flat Q (fun q => om.tfv (7 * q + 4))
    MI := flat Q (fun q => om.tfv (7 * q + 5))
    II := flat Q (fun q => om.tfv (7 * q + 6))
    DD := flat Q (fun q => om.tfv (7 * Q + q)) }

/-- The current row and the special states of `forward_engine`, along the
chain of nodes. -/
def fwd_flat (Q : Nat) (s : FwdVars α) : FlatRow α :=
  { M := flat Q (s.ox.dpf s.dpc).mmo
    I := flat Q (s.ox.dpf s.dpc).imo
    D := flat Q (s.ox.dpf s.dpc).dmo
    N := s.xN
    J := s.xJ
    C := s.xC
    B := s.xB
    E := s.xE }

/-- The current row and the special states of `backward_engine`, along the
chain of nodes. -/
def bck_flat (Q : Nat) (s : BckVars α) : FlatRow α :=
  { M := flat Q (s.bck.dpf s.dpc).mmo
    I := flat Q (s.bck.dpf s.dpc).imo
    D := flat Q (s.bck.dpf s.dpc).dmo
    N := s.xN
    J := s.xJ
    C := s.xC
    B := s.xB
    E := s.xE }

end FlatDefs

section FlatDefs2

variable {α : Type} [Zero α] [One α] [Add α] [Mul α] [Div α] [NatCast α]
  [LT α] [DecidableRel (fun (x y : α) => x < y)] [DecidableEq α]

/-- The vector of the next node for block `q` in a loop with backwards stride:
block `q+1`, or the left-shifted block 0 for the last block. -/
def bck_next (Q : Nat) (v : Nat → M128 α) (q : Nat) : M128 α :=
  if q + 1 = Q then bck_leftshift (v 0) else v (q + 1)

end FlatDefs2

/-! ## The Delete chain of a Forward row -/

section ForwardChainDefs

variable {α : Type} [Zero α] [One α] [Add α] [Mul α] [Div α] [NatCast α]
  [LT α] [DecidableRel (fun (x y : α) => x < y)] [DecidableEq α]

/-- What the delete passes of a Forward row have established after `j` extra
passes, for Delete vectors `Dc.1` with carry `Dc.2` and M->D parts `Y`: the
chain is closed inside every lane; across lanes it is closed up to the carry
still to be added; and the carry has died out in the lanes below `j`. -/
def FwdDDInv (om : P7_OPROFILE α) (Q : Nat) (Y : Nat → M128 α) (j : Nat)
    (Dc : (Nat → M128 α) × M128 α) : Prop :=
  (∀ q, q + 1 < Q → ∀ z, Dc.1 (q + 1) z = Y (q + 1) z + Dc.1 q z * om.tfv (7 * Q + q) z) ∧
  (∀ z, Dc.1 0 z + esl_sse_rightshift_ps Dc.2 mm_setzero_ps z
    = esl_sse_rightshift_ps
        (mm_add_ps (Y Q) (mm_mul_ps (Dc.1 (Q - 1)) (om.tfv (7 * Q + (Q - 1))))) mm_setzero_ps z) ∧
  (∀ z : Fin 4, z.val < j → Dc.2 z = 0)

/-- The Delete chain is closed: inside every lane and across lanes. -/
def FwdDDFinal (om : P7_OPROFILE α) (Q : Nat) (Y : Nat → M128 α) (D : Nat → M128 α) : Prop :=
  (∀ q, q + 1 < Q → ∀ z, D (q + 1) z = Y (q + 1) z + D q z * om.tfv (7 * Q + q) z) ∧
  (∀ z, D 0 z
    = esl_sse_rightshift_ps
        (mm_add_ps (Y Q) (mm_mul_ps (D (Q - 1)) (om.tfv (7 * Q + (Q - 1))))) mm_setzero_ps z)

end ForwardChainDefs


section NonnegDefs

variable {α : Type} [LinearOrderedField α]

/-- All odds ratios of the float track are non-negative (as `fb_conversion`
builds them). -/
def OmNonneg (om : P7_OPROFILE α) : Prop :=
  (∀ x q z, 0 ≤ om.rfv x q z) ∧ (∀ j z, 0 ≤ om.tfv j z) ∧ (∀ s t, 0 ≤ om.xf s t)

/-- The first `Q` blocks of a row hold non-negative values. -/
def RowNonneg (Q : Nat) (P : DPRow α) : Prop :=
  ∀ q, q < Q → ∀ z, 0 ≤ P.mmo q z ∧ 0 ≤ P.dmo q z ∧ 0 ≤ P.imo q z

/-- The current row and the special states of `forward_engine` are
non-negative. -/
def FwdNonneg (Q : Nat) (s : FwdVars α) : Prop :=
  RowNonneg Q (s.ox.dpf s.dpc) ∧ 0 ≤ s.xB ∧ 0 ≤ s.xN ∧ 0 ≤ s.xJ ∧ 0 ≤ s.xC

/-- Delete vectors and their carry are non-negative. -/
def DcNonneg (Q : Nat) (Dc : (Nat → M128 α) × M128 α) : Prop :=
  (∀ q, q < Q → ∀ z, 0 ≤ Dc.1 q z) ∧ ∀ z, 0 ≤ Dc.2 z

end NonnegDefs

/-! ## Invariants of the loops of backward_engine -/

section BackwardInvDefs

variable {α : Type} [LinearOrderedField α]

/-- The precalculated product `M(i+1,k) * e(M_k, x_{i+1})` of block `q`. -/
def bck_Me (om : P7_OPROFILE α) (x : Nat) (P : DPRow α) (q : Nat) : M128 α :=
  mm_mul_ps (P.mmo q) (om.rfv x q)

/-- The vector carried in a register of a loop with backwards stride once the
blocks `q >= n` are done: the left-shifted block 0 before the first block,
block `n` afterwards. -/
def bck_carry (Q : Nat) (v : Nat → M128 α) (n : Nat) : M128 α :=
  if n = Q then bck_leftshift (v 0) else v n

/-- Invariant of the phase 1 loop of a Backward row with the blocks `q >= n`
done: `P` is the row `i+1` the loop reads, `s0` the variables at loop entry. -/
def BckMainInv (om : P7_OPROFILE α) (x Q : Nat) (P : DPRow α) (s0 : BckVars α)
    (n : Nat) (s : BckVars α) : Prop :=
  s.tp = 7 * n - 1 ∧ s.rp = n - 1 ∧ s.dpc = s0.dpc ∧ s.dpp = s0.dpp ∧
  s.mpv = bck_carry Q (bck_Me om x P) n ∧
  s.tmmv = bck_carry Q (fun q => om.tfv (7 * q + 1)) n ∧
  s.timv = bck_carry Q (fun q => om.tfv (7 * q + 2)) n ∧
  s.tdmv = bck_carry Q (fun q => om.tfv (7 * q + 3)) n ∧
  (∀ z, s.xBv z = ∑ q in Finset.Ico n Q, bck_Me om x P q z * om.tfv (7 * q) z) ∧
  (∀ q, n ≤ q → q < Q →
    IMO s.bck.dpf s0.dpc q
      = mm_add_ps (mm_mul_ps (P.imo q) (om.tfv (7 * q + 6)))
          (mm_mul_ps (bck_next Q (bck_Me om x P) q) (bck_next Q (fun r => om.tfv (7 * r + 2)) q)) ∧
    DMO s.bck.dpf s0.dpc q
      = mm_mul_ps (bck_next Q (bck_Me om x P) q) (bck_next Q (fun r => om.tfv (7 * r + 3)) q) ∧
    MMO s.bck.dpf s0.dpc q
      = mm_add_ps (mm_mul_ps (P.imo q) (om.tfv (7 * q + 5)))
          (mm_mul_ps (bck_next Q (bck_Me om x P) q)
            (bck_next Q (fun r => om.tfv (7 * r + 1)) q))) ∧
  (∀ r q, (r ≠ s0.dpc ∨ q < n) →
    MMO s.bck.dpf r q = MMO s0.bck.dpf r q ∧
    DMO s.bck.dpf r q = DMO s0.bck.dpf r q ∧
    IMO s.bck.dpf r q = IMO s0.bck.dpf r q)

end BackwardInvDefs

section BackwardInvDefs2

variable {α : Type} [LinearOrderedField α]

/-- Invariant of the phase 3 loop with the blocks `q >= n` done; `s0` holds
the variables at loop entry. -/
def BckP3Inv (om : P7_OPROFILE α) (Q : Nat) (s0 : BckVars α) (n : Nat) (s : BckVars α) : Prop :=
  s.tp = 7 * Q + n - 1 ∧ s.dpc = s0.dpc ∧ s.xEv = s0.xEv ∧
  s.dpv = (if n = Q then s0.dpv else DMO s.bck.dpf s0.dpc n) ∧
  (n < Q → ∀ z, DMO s.bck.dpf s0.dpc n z
    = DMO s0.bck.dpf s0.dpc n z + (s.dcv z + s0.xEv z)) ∧
  (∀ q, n ≤ q → q < Q → ∀ z,
    DMO s.bck.dpf s0.dpc q z
      = DMO s0.bck.dpf s0.dpc q z
        + ((if q + 1 = Q then s0.dpv z else DMO s.bck.dpf s0.dpc (q + 1) z)
            * om.tfv (7 * Q + q) z + s0.xEv z) ∧
    MMO s.bck.dpf s0.dpc q z = MMO s0.bck.dpf s0.dpc q z + s0.xEv z) ∧
  (∀ r q, (r ≠ s0.dpc ∨ q < n) →
    MMO s.bck.dpf r q = MMO s0.bck.dpf r q ∧ DMO s.bck.dpf r q = DMO s0.bck.dpf r q) ∧
  (∀ r q, IMO s.bck.dpf r q = IMO s0.bck.dpf r q)

/-- Invariant of an extra delete pass with the blocks `q >= n` done; `s0`
holds the variables at loop entry (its `dcv` is the shifted carry). -/
def BckPassInv (om : P7_OPROFILE α) (Q : Nat) (s0 : BckVars α) (n : Nat) (s : BckVars α) :
    Prop :=
  s.tp = 7 * Q + n - 1 ∧ s.dpc = s0.dpc ∧
  (n = Q → s.dcv = s0.dcv) ∧
  (n < Q → ∀ z, DMO s.bck.dpf s0.dpc n z = DMO s0.bck.dpf s0.dpc n z + s.dcv z) ∧
  (∀ z, s0.dcv z = 0 → s.dcv z = 0) ∧
  (∀ q, n ≤ q → q < Q → ∀ z,
    DMO s.bck.dpf s0.dpc q z
      = DMO s0.bck.dpf s0.dpc q z
        + om.tfv (7 * Q + q) z
          * (if q + 1 = Q then s0.dcv z
             else DMO s.bck.dpf s0.dpc (q + 1) z - DMO s0.bck.dpf s0.dpc (q + 1) z)) ∧
  (∀ r q, (r ≠ s0.dpc ∨ q < n) → DMO s.bck.dpf r q = DMO s0.bck.dpf r q) ∧
  (∀ r q, MMO s.bck.dpf r q = MMO s0.bck.dpf r q ∧ IMO s.bck.dpf r q = IMO s0.bck.dpf r q)

/-- Invariant of the pass adding the M->D paths with the blocks `q >= n`
done; `s0` holds the variables at loop entry. -/
def BckMDInv (om : P7_OPROFILE α) (Q : Nat) (s0 : BckVars α) (n : Nat) (s : BckVars α) : Prop :=
  s.tp = 7 * n - 3 ∧ s.dpc = s0.dpc ∧
  s.dcv = (if n = Q then s0.dcv else DMO s0.bck.dpf s0.dpc n) ∧
  (∀ q, n ≤ q → q < Q →
    MMO s.bck.dpf s0.dpc q
      = mm_add_ps (MMO s0.bck.dpf s0.dpc q)
          (mm_mul_ps (if q + 1 = Q then s0.dcv else DMO s0.bck.dpf s0.dpc (q + 1))
            (om.tfv (7 * q + 4)))) ∧
  (∀ r q, (r ≠ s0.dpc ∨ q < n) → MMO s.bck.dpf r q = MMO s0.bck.dpf r q) ∧
  (∀ r q, DMO s.bck.dpf r q = DMO s0.bck.dpf r q ∧ IMO s.bck.dpf r q = IMO s0.bck.dpf r q)

end BackwardInvDefs2

section BackwardInvDefs3

variable {α : Type} [LinearOrderedField α]

/-- What the delete passes of a Backward row have established after `j` extra
passes, for Delete vectors `D` with carry `c` and source terms `G`: the chain
is closed inside every lane; across lanes it is closed up to the carry still
to be added; and the carry has died out in the top `j` lanes. -/
def BckDDInv (om : P7_OPROFILE α) (Q : Nat) (G D : Nat → M128 α) (c : M128 α) (j : Nat) :
    Prop :=
  (∀ q, q + 1 < Q → ∀ z, D q z = G q z + om.tfv (7 * Q + q) z * D (q + 1) z) ∧
  (∀ z, D (Q - 1) z + om.tfv (7 * Q + (Q - 1)) z * bck_leftshift c z
    = G (Q - 1) z + om.tfv (7 * Q + (Q - 1)) z * bck_leftshift (D 0) z) ∧
  (∀ z : Fin 4, 4 ≤ z.val + j → c z = 0)

/-- The Delete vectors of the current row and `dcv` satisfy `BckDDInv`. -/
def BckDDState (om : P7_OPROFILE α) (Q : Nat) (G : Nat → M128 α) (j : Nat) (s : BckVars α) :
    Prop :=
  BckDDInv om Q G (fun q => DMO s.bck.dpf s.dpc q) s.dcv j

/-- Two sets of variables agree outside the Delete vectors of the current row. -/
def BckSameButD (s t : BckVars α) : Prop :=
  t.dpc = s.dpc ∧
  (∀ r q, r ≠ s.dpc → DMO t.bck.dpf r q = DMO s.bck.dpf r q) ∧
  (∀ r q, MMO t.bck.dpf r q = MMO s.bck.dpf r q ∧ IMO t.bck.dpf r q = IMO s.bck.dpf r q)

end BackwardInvDefs3

section BackwardInvDefs4

variable {α : Type} [LinearOrderedField α]

/-- Invariant of the first delete pass of row L with the blocks `q >= n`
done; `s0` holds the variables at loop entry. -/
def BckFirstInv (om : P7_OPROFILE α) (Q : Nat) (s0 : BckVars α) (n : Nat) (s : BckVars α) :
    Prop :=
  s.tp = 7 * Q + n - 1 ∧ s.dpc = s0.dpc ∧
  s.dpv = (if n = Q then s0.dpv else DMO s.bck.dpf s0.dpc n) ∧
  (n < Q → ∀ z, DMO s.bck.dpf s0.dpc n z = DMO s0.bck.dpf s0.dpc n z + s.dcv z) ∧
  (∀ q, n ≤ q → q < Q → ∀ z,
    DMO s.bck.dpf s0.dpc q z
      = DMO s0.bck.dpf s0.dpc q z
        + (if q + 1 = Q then s0.dpv z else DMO s.bck.dpf s0.dpc (q + 1) z)
          * om.tfv (7 * Q + q) z) ∧
  (∀ r q, (r ≠ s0.dpc ∨ q < n) → DMO s.bck.dpf r q = DMO s0.bck.dpf r q) ∧
  (∀ r q, MMO s.bck.dpf r q = MMO s0.bck.dpf r q ∧ IMO s.bck.dpf r q = IMO s0.bck.dpf r q)

end BackwardInvDefs4

/-! ## Parsing mode against full mode -/

section ParserDefs

variable {α : Type}

/-- Two rows hold the same Match, Delete and Insert vectors in the blocks
`q < Q`. -/
def RowAgree (Q : Nat) (P P1 : DPRow α) : Prop :=
  ∀ q, q < Q → P.mmo q = P1.mmo q ∧ P.dmo q = P1.dmo q ∧ P.imo q = P1.imo q

/-- Two pairs of Delete vectors and carry agree in the blocks `q < Q` and in
the carry. -/
def PairAgree (Q : Nat) (A B : (Nat → M128 α) × M128 α) : Prop :=
  A.2 = B.2 ∧ ∀ q, q < Q → A.1 q = B.1 q

/-- The variables of two runs of `forward_engine` agree after row `n`: the
special-state registers, `totscale`, the rows `0..n` of the trace, and the
blocks `q < Q` of the current rows. -/
def FwdSame (Q n : Nat) (s t : FwdVars α) : Prop :=
  s.xN = t.xN ∧ s.xC = t.xC ∧ s.xJ = t.xJ ∧ s.xB = t.xB ∧ s.xE = t.xE ∧
  s.ox.totscale = t.ox.totscale ∧
  (∀ j, j ≤ n → s.ox.xmx j = t.ox.xmx j) ∧
  RowAgree Q (s.ox.dpf s.dpc) (t.ox.dpf t.dpc)

end ParserDefs

/-! ## C floats in exact arithmetic -/

/-- A C `float` in exact arithmetic: a finite value, an infinity or a NaN.
Rounding errors and the sign of zero are left out. -/
inductive Flt (α : Type) where
  | fin (x : α)
  | pinf
  | ninf
  | nan
  deriving DecidableEq

section FltOps

variable {α : Type} [LinearOrderedField α] [FloorRing α]

/-- Unary minus. -/
def Flt.neg : Flt α → Flt α
  | .fin x => .fin (-x)
  | .pinf => .ninf
  | .ninf => .pinf
  | .nan => .nan

/-- The sign of a finite value times an infinity; zero times an infinity is
a NaN. -/
def Flt.signed (x : α) (pos : Bool) : Flt α :=
  if 0 < x then (if pos then .pinf else .ninf)
  else if x < 0 then (if pos then .ninf else .pinf)
  else .nan

/-- The product `a * b`. -/
def Flt.mul : Flt α → Flt α → Flt α
  | .fin x, .fin y => .fin (x * y)
  | .fin x, .pinf => Flt.signed x true
  | .fin x, .ninf => Flt.signed x false
  | .pinf, .fin y => Flt.signed y true
  | .ninf, .fin y => Flt.signed y false
  | .pinf, .pinf => .pinf
  | .pinf, .ninf => .ninf
  | .ninf, .pinf => .ninf
  | .ninf, .ninf => .pinf
  | .nan, _ => .nan
  | _, .nan => .nan

/-- The quotient `a / b`; a nonzero value over zero is an infinity, zero over
zero a NaN. -/
def Flt.div : Flt α → Flt α → Flt α
  | .fin x, .fin y => if y = 0 then Flt.signed x true else .fin (x / y)
  | .fin _, .pinf => .fin 0
  | .fin _, .ninf => .fin 0
  | .pinf, .fin y => if 0 ≤ y then .pinf else .ninf
  | .ninf, .fin y => if 0 ≤ y then .ninf else .pinf
  | .pinf, .pinf => .nan
  | .pinf, .ninf => .nan
  | .ninf, .pinf => .nan
  | .ninf, .ninf => .nan
  | .nan, _ => .nan
  | _, .nan => .nan

/-- The comparison `a < b`; false as soon as a NaN is involved. -/
def Flt.lt : Flt α → Flt α → Bool
  | .fin x, .fin y => decide (x < y)
  | .fin _, .pinf => true
  | .ninf, .fin _ => true
  | .ninf, .pinf => true
  | _, _ => false

/-- The comparison `a <= b`; false as soon as a NaN is involved. -/
def Flt.le : Flt α → Flt α → Bool
  | .fin x, .fin y => decide (x ≤ y)
  | .fin _, .pinf => true
  | .ninf, .fin _ => true
  | .ninf, .pinf => true
  | .pinf, .pinf => true
  | .ninf, .ninf => true
  | _, _ => false

/-- The comparison `a > b`. -/
def Flt.gt (a b : Flt α) : Bool := Flt.lt b a

/-- The comparison `a >= b`. -/
def Flt.ge (a b : Flt α) : Bool := Flt.le b a

/-- The conversion of an integer to a float. -/
def Flt.ofInt (i : Int) : Flt α := .fin (i : α)

/-- The nearest integer, halfway cases away from zero. -/
def roundHalfAway (x : α) : Int :=
  if 0 ≤ x then ⌊x + 1 / 2⌋ else -⌊-x + 1 / 2⌋

/-- The C library function `roundf`: the nearest integer, halfway cases away
from zero; infinities and NaN are returned as they are. -/
def roundf : Flt α → Flt α
  | .fin x => .fin ((roundHalfAway x : Int) : α)
  | .pinf => .pinf
  | .ninf => .ninf
  | .nan => .nan

/-- The conversion of a float to an integer: truncation toward zero.  The
conversion of an infinity or a NaN, which C leaves undefined, gives 0. -/
def Flt.toInt : Flt α → Int
  | .fin x => if 0 ≤ x then ⌊x⌋ else ⌈x⌉
  | _ => 0

/-- The cast `(uint8_t) f`: the low eight bits of the truncated value. -/
def cast_uint8 (f : Flt α) : Nat := (Flt.toInt f % 256).toNat

/-- An integer reduced to the range of `int16_t`. -/
def wrap_int16 (i : Int) : Int := (i + 32768) % 65536 - 32768

/-- The cast `(int16_t) f`: the low sixteen bits of the truncated value. -/
def cast_int16 (f : Flt α) : Int := wrap_int16 (Flt.toInt f)

/-- The macro `ESL_MAX(a, b)` on floats. -/
def ESL_MAX (a b : Flt α) : Flt α := if Flt.gt a b then a else b

end FltOps
/-! ## Alphabets, generic profiles and the complete optimized profile -/

/-- Alphabet types (`esl_alphabet.h`). -/
inductive esl_alphabet_type where
  | eslUNKNOWN
  | eslRNA
  | eslDNA
  | eslAMINO
  | eslCOINS
  | eslDICE
  | eslNONSTANDARD
  deriving DecidableEq, Repr

export esl_alphabet_type (eslUNKNOWN eslRNA eslDNA eslAMINO eslCOINS eslDICE eslNONSTANDARD)

/-- The digital code `eslDSQ_ILLEGAL` (`esl_alphabet.h`). -/
def eslDSQ_ILLEGAL : Nat := 254

/-- The object `ESL_ALPHABET`.  `sym` is the internal alphabet string, `inmap`
the 128-entry input map, `degen[x][y]` and `ndegen[x]` the degeneracy map;
`complement` is `none` for a NULL pointer. -/
structure ESL_ALPHABET where
  type : esl_alphabet_type
  K : Nat
  Kp : Nat
  sym : List Char
  inmap : Nat → Nat
  degen : Nat → Nat → Nat
  ndegen : Nat → Nat
  complement : Option (Nat → Nat)

/-- The store `t[x][y] = v` into a two-level table. -/
def set2 {β : Type} (t : Nat → Nat → β) (x y : Nat) (v : β) : Nat → Nat → β :=
  Function.update t x (Function.update (t x) y v)

/-- The store `t[s][u] = v` into a table of special-state parameters. -/
def set2x {β : Type} (t : p7o_xstates_e → p7o_xtransitions_e → β) (s : p7o_xstates_e)
    (u : p7o_xtransitions_e) (v : β) : p7o_xstates_e → p7o_xtransitions_e → β :=
  Function.update t s (Function.update (t s) u v)

/-- The function `esl_alphabet_CreateCustom`; `none` is the NULL it returns on
a bad argument or when an allocation fails (`alloc_ok = false`). -/
def esl_alphabet_CreateCustom (alloc_ok : Bool) (alphabet : List Char) (K Kp : Nat) :
    Option ESL_ALPHABET :=
  if alphabet.length ≠ Kp then none
  else if Kp < K + 4 then none
  else if alloc_ok = false then none
  else
    let inmap : Nat → Nat := forUp 128 (fun c m => Function.update m c eslDSQ_ILLEGAL) (fun _ => 0)
    let inmap := forUp Kp (fun x m => Function.update m (alphabet.getD x (Char.ofNat 0)).toNat x) inmap
    let nd : (Nat → Nat) × (Nat → Nat → Nat) := (fun _ => 0, fun _ _ => 0)
    let nd := forUp Kp (fun x nd =>
      let ndegen := Function.update nd.1 x 0
      let degen := forUp K (fun y d => set2 d x y 0) nd.2
      (ndegen, degen)) nd
    let nd := forUp K (fun x nd => (Function.update nd.1 x 1, set2 nd.2 x x 1)) nd
    let ndegen := Function.update nd.1 (Kp - 3) K
    let degen := forUp K (fun x d => set2 d (Kp - 3) x 1) nd.2
    some { type := eslNONSTANDARD, K := K, Kp := Kp, sym := alphabet, inmap := inmap,
           degen := degen, ndegen := ndegen, complement := none }

/-- Transition scores of a node in a generic profile, in the order of
`enum p7p_tsc_e` (`hmmer.h`). -/
inductive p7p_tsc_e where
  | p7P_MM
  | p7P_IM
  | p7P_DM
  | p7P_BM
  | p7P_MD
  | p7P_DD
  | p7P_MI
  | p7P_II
  deriving DecidableEq, Repr

export p7p_tsc_e (p7P_MM p7P_IM p7P_DM p7P_BM p7P_MD p7P_DD p7P_MI p7P_II)

/-- The value of a `p7p_tsc_e` constant. -/
def p7p_tsc_e.toNat : p7p_tsc_e → Nat
  | p7P_MM => 0
  | p7P_IM => 1
  | p7P_DM => 2
  | p7P_BM => 3
  | p7P_MD => 4
  | p7P_DD => 5
  | p7P_MI => 6
  | p7P_II => 7

/-- Transitions of a node in an optimized profile, in the order of
`enum p7o_tsc_e` (`impl_sse.h`): the seven transitions stored block by block
and the DD transition stored at the end. -/
inductive p7o_tsc_e where
  | p7O_BM
  | p7O_MM
  | p7O_IM
  | p7O_DM
  | p7O_MD
  | p7O_MI
  | p7O_II
  | p7O_DD
  deriving DecidableEq, Repr

export p7o_tsc_e (p7O_BM p7O_MM p7O_IM p7O_DM p7O_MD p7O_MI p7O_II p7O_DD)

/-- The value of a `p7o_tsc_e` constant. -/
def p7o_tsc_e.toNat : p7o_tsc_e → Nat
  | p7O_BM => 0
  | p7O_MM => 1
  | p7O_IM => 2
  | p7O_DM => 3
  | p7O_MD => 4
  | p7O_MI => 5
  | p7O_II => 6
  | p7O_DD => 7

/-- Special states of a generic profile (`enum p7p_xstates_e`). -/
inductive p7p_xstates_e where
  | p7P_E
  | p7P_N
  | p7P_J
  | p7P_C
  deriving DecidableEq, Repr

/-- Transitions of a special state of a generic profile
(`enum p7p_xtransitions_e`). -/
inductive p7p_xtransitions_e where
  | p7P_LOOP
  | p7P_MOVE
  deriving DecidableEq, Repr

export p7p_xstates_e (p7P_E p7P_N p7P_J p7P_C)
export p7p_xtransitions_e (p7P_LOOP p7P_MOVE)

/-- The generic profile `P7_PROFILE` (`hmmer.h`): `tsc` the transition scores,
`rsc[x]` the interleaved match and insert emission scores of residue `x`,
`xsc` the special-state scores; strings are `none` for NULL. -/
structure P7_PROFILE (α : Type) where
  tsc : Nat → Flt α
  rsc : Nat → Nat → Flt α
  xsc : p7p_xstates_e → p7p_xtransitions_e → Flt α
  mode : p7_mode
  L : Nat
  M : Nat
  nj : Flt α
  name : Option (List Char)
  acc : Option (List Char)
  desc : Option (List Char)
  rf : List Char
  cs : List Char
  consensus : List Char
  evparam : Nat → Flt α
  cutoff : Nat → Flt α
  compo : Nat → Flt α
  abc : ESL_ALPHABET

/-- The constant `p7P_NR`: emission scores per node and residue. -/
def p7P_NR : Nat := 2

/-- The constant `p7P_NTRANS`: transition scores per node. -/
def p7P_NTRANS : Nat := 8

/-- The macro `p7P_MSC(gm, k, x)`: the match emission score of residue `x` at
node `k`. -/
def p7P_MSC {α : Type} (gm : P7_PROFILE α) (k x : Nat) : Flt α := gm.rsc x (k * p7P_NR + 0)

/-- The macro `p7P_TSC(gm, k, s)`: the transition score `s` of node `k`. -/
def p7P_TSC {α : Type} (gm : P7_PROFILE α) (k : Nat) (s : p7p_tsc_e) : Flt α :=
  gm.tsc (k * p7P_NTRANS + s.toNat)

/-- The complete object `P7_OPROFILE` with its byte (MSV), word (Viterbi) and
float (Forward/Backward) tracks.  (The structure `P7_OPROFILE` above is the
part of the float track that the engines read.)  Bytes are naturals, words
are integers; `rbv[x][q]`, `rwv[x][q]`, `rfv[x][q]`, `twv[j]`, `tfv[j]` are
vectors of 16, 8 and 4 lanes. -/
structure P7_OM (α : Type) where
  rbv : Nat → Nat → Fin 16 → Nat
  tbm_b : Nat
  tec_b : Nat
  tjb_b : Nat
  scale_b : Flt α
  base_b : Nat
  bias_b : Nat
  rwv : Nat → Nat → Fin 8 → Int
  twv : Nat → Fin 8 → Int
  xw : p7o_xstates_e → p7o_xtransitions_e → Int
  scale_w : Flt α
  base_w : Int
  ddbound_w : Int
  ncj_roundoff : Flt α
  rfv : Nat → Nat → M128 (Flt α)
  tfv : Nat → M128 (Flt α)
  xf : p7o_xstates_e → p7o_xtransitions_e → Flt α
  allocQ16 : Nat
  allocQ8 : Nat
  allocQ4 : Nat
  offs : Nat → Int
  evparam : Nat → Flt α
  cutoff : Nat → Flt α
  compo : Nat → Flt α
  name : Option (List Char)
  acc : Option (List Char)
  desc : Option (List Char)
  rf : List Char
  cs : List Char
  consensus : List Char
  abc : ESL_ALPHABET
  L : Nat
  M : Nat
  allocM : Nat
  mode : p7_mode
  nj : Flt α
  clone : Nat

/-- Macros, constants and library functions of headers that are not part of
the sources at hand (`impl_sse.h`, `hmmer.h`, `easel.h`, `esl_sse.h`,
`math.h`): the numbers of vectors for a model length, the constant ln 2, the
array sizes and `UNSET` values, `logf`, `expf` and the vector `esl_sse_expf`. -/
structure Headers (α : Type) where
  p7O_NQB : Nat → Nat
  p7O_NQW : Nat → Nat
  p7O_NQF : Nat → Nat
  eslCONST_LOG2 : Flt α
  logf : Flt α → Flt α
  expf : Flt α → Flt α
  esl_sse_expf : M128 (Flt α) → M128 (Flt α)
  p7_NOFFSETS : Nat
  p7_NEVPARAM : Nat
  p7_NCUTOFFS : Nat
  p7_MAXABET : Nat
  p7_EVPARAM_UNSET : Flt α
  p7_CUTOFF_UNSET : Flt α
  p7_COMPO_UNSET : Flt α

section Quantization

variable {α : Type} [LinearOrderedField α] [FloorRing α]

/-- The function `p7_oprofile_Create`.  `uninit` holds the contents of the
freshly allocated memory, `none` is the NULL returned when an allocation
fails (`alloc_ok = false`). -/
def p7_oprofile_Create (h : Headers α) (alloc_ok : Bool) (uninit : P7_OM α) (allocM : Nat)
    (abc : ESL_ALPHABET) : Option (P7_OM α) :=
  let nqb := h.p7O_NQB allocM
  let nqw := h.p7O_NQW allocM
  let nqf := h.p7O_NQF allocM
  if alloc_ok = false then none
  else
    let om := { uninit with clone := 0 }
    let om := { om with allocQ16 := nqb, allocQ8 := nqw, allocQ4 := nqf }
    let om := { om with tbm_b := 0, tec_b := 0, tjb_b := 0, scale_b := .fin 0, base_b := 0,
                        bias_b := 0 }
    let om := { om with scale_w := .fin 0, base_w := 0, ddbound_w := 0, ncj_roundoff := .fin 0 }
    let om := forUp h.p7_NOFFSETS
      (fun x (om : P7_OM α) => { om with offs := Function.update om.offs x (-1) }) om
    let om := forUp h.p7_NEVPARAM
      (fun x (om : P7_OM α) =>
        { om with evparam := Function.update om.evparam x h.p7_EVPARAM_UNSET }) om
    let om := forUp h.p7_NCUTOFFS
      (fun x (om : P7_OM α) =>
        { om with cutoff := Function.update om.cutoff x h.p7_CUTOFF_UNSET }) om
    let om := forUp h.p7_MAXABET
      (fun x (om : P7_OM α) =>
        { om with compo := Function.update om.compo x h.p7_COMPO_UNSET }) om
    let om := { om with name := none, acc := none, desc := none }
    let om := { om with rf := [], cs := [], consensus := [] }
    some { om with abc := abc, L := 0, M := 0, allocM := allocM, mode := p7_NO_MODE,
                   nj := .fin 0 }

/-- The function `biased_byteify`. -/
def biased_byteify (om : P7_OM α) (sc : Flt α) : Nat :=
  let sc := Flt.mul (.fin (-1)) (roundf (Flt.mul om.scale_b sc))
  let b := (if Flt.gt sc (Flt.ofInt (255 - (om.bias_b : Int))) then 255
            else cast_uint8 sc + om.bias_b) % 256
  b

/-- The function `unbiased_byteify`. -/
def unbiased_byteify (om : P7_OM α) (sc : Flt α) : Nat :=
  let sc := Flt.mul (.fin (-1)) (roundf (Flt.mul om.scale_b sc))
  let b := (if Flt.gt sc (.fin 255) then 255 else cast_uint8 sc) % 256
  b

/-- The function `wordify`. -/
def wordify (om : P7_OM α) (sc : Flt α) : Int :=
  let sc := roundf (Flt.mul om.scale_w sc)
  if Flt.ge sc (.fin 32767) then 32767
  else if Flt.le sc (.fin (-32768)) then -32768
  else cast_int16 sc

/-- Modelled from the spec: `esl_vec_FMax(vec, n)` of `esl_vectorops`, which
is not part of the sources at hand; it returns the largest of the `n` values
of `vec`. -/
def esl_vec_FMax (vec : Nat → Flt α) (n : Nat) : Flt α :=
  forUp (n - 1) (fun i best => if Flt.gt (vec (i + 1)) best then vec (i + 1) else best) (vec 0)

/-- Body of the loop over blocks `q` of `mf_conversion` for residue `x`: the
sixteen match costs of block `q` are stored in `rbv[x][q]`. -/
def mf_stripe_body (gm : P7_PROFILE α) (nq x : Nat) (q : Nat) (om : P7_OM α) : P7_OM α :=
  let k := q + 1
  let tmp : Fin 16 → Nat := fun z =>
    if k + z.val * nq ≤ gm.M then biased_byteify om (p7P_MSC gm (k + z.val * nq) x) else 255
  { om with rbv := set2 om.rbv x q tmp }

/-- The function `mf_conversion`. -/
def mf_conversion (h : Headers α) (gm : P7_PROFILE α) (om : P7_OM α) : Status × P7_OM α :=
  let M := gm.M
  let nq := h.p7O_NQB M
  let max : Flt α := .fin 0
  if om.allocQ16 < nq then (eslEINVAL, om)
  else
    let max := forUp gm.abc.K
      (fun x max => ESL_MAX max (esl_vec_FMax (gm.rsc x) ((M + 1) * 2))) max
    let om := { om with scale_b := Flt.div (.fin 3) h.eslCONST_LOG2 }
    let om := { om with base_b := 190 }
    let om := { om with bias_b := unbiased_byteify om (Flt.mul (.fin (-1)) max) }
    let om := forUp gm.abc.Kp (fun x om => forUp nq (mf_stripe_body gm nq x) om) om
    let om := { om with tbm_b := unbiased_byteify om (h.logf (Flt.div (.fin 2)
                          (Flt.mul (Flt.ofInt (gm.M : Int)) (Flt.ofInt ((gm.M : Int) + 1))))) }
    let om := { om with tec_b := unbiased_byteify om (h.logf (.fin (1 / 2))) }
    let om := { om with tjb_b := unbiased_byteify om
                          (h.logf (Flt.div (.fin 3) (Flt.ofInt ((gm.L : Int) + 3)))) }
    (eslOK, om)

/-- Body of the loop over blocks `q` of `vf_conversion` for residue `x`. -/
def vf_stripe_body (gm : P7_PROFILE α) (nq x : Nat) (q : Nat) (om : P7_OM α) : P7_OM α :=
  let k := q + 1
  let tmp : Fin 8 → Int := fun z =>
    if k + z.val * nq ≤ gm.M then wordify om (p7P_MSC gm (k + z.val * nq) x) else -32768
  { om with rwv := set2 om.rwv x q tmp }

/-- The `switch` over the seven non-DD transitions `t = p7O_BM .. p7O_II`
(the values 0 to 6) of `vf_conversion`: the transition of the generic
profile, the base node `kb` and the largest value allowed. -/
def vf_switch (t k : Nat) : p7p_tsc_e × Nat × Int :=
  match t with
  | 0 => (p7P_BM, k - 1, 0)
  | 1 => (p7P_MM, k - 1, 0)
  | 2 => (p7P_IM, k - 1, 0)
  | 3 => (p7P_DM, k - 1, 0)
  | 4 => (p7P_MD, k, 0)
  | 5 => (p7P_MI, k, 0)
  | _ => (p7P_II, k, -1)

/-- Body of the loop over the transitions `t` of block `q` of
`vf_conversion`; the state is the profile and the counter `j`. -/
def vf_trans_body (gm : P7_PROFILE α) (nq q : Nat) (t : Nat) (s : P7_OM α × Nat) :
    P7_OM α × Nat :=
  let k := q + 1
  let tg := (vf_switch t k).1
  let kb := (vf_switch t k).2.1
  let maxval := (vf_switch t k).2.2
  let tmp : Fin 8 → Int := fun z =>
    let val : Int :=
      if kb + z.val * nq < gm.M then wordify s.1 (p7P_TSC gm (kb + z.val * nq) tg) else -32768
    if val ≤ maxval then val else maxval
  ({ s.1 with twv := Function.update s.1.twv s.2 tmp }, s.2 + 1)

/-- Body of the loop over blocks `q` storing the DD transitions of
`vf_conversion`. -/
def vf_dd_body (gm : P7_PROFILE α) (nq : Nat) (q : Nat) (s : P7_OM α × Nat) : P7_OM α × Nat :=
  let k := q + 1
  let tmp : Fin 8 → Int := fun z =>
    if k + z.val * nq < gm.M then wordify s.1 (p7P_TSC gm (k + z.val * nq) p7P_DD) else -32768
  ({ s.1 with twv := Function.update s.1.twv s.2 tmp }, s.2 + 1)

/-- Body of the loop `for (k = 2; k < M-1; k++)` of `vf_conversion` that
finds the DD bound; `ddbound_w` is an `int16_t`. -/
def vf_ddbound_body (gm : P7_PROFILE α) (i : Nat) (om : P7_OM α) : P7_OM α :=
  let k := i + 2
  let ddtmp : Int := wordify om (p7P_TSC gm k p7P_DD)
  let ddtmp := ddtmp + wordify om (p7P_TSC gm (k + 1) p7P_DM)
  let ddtmp := ddtmp - wordify om (p7P_TSC gm (k + 1) p7P_BM)
  { om with ddbound_w := wrap_int16 (if om.ddbound_w > ddtmp then om.ddbound_w else ddtmp) }

/-- The function `vf_conversion`. -/
def vf_conversion (h : Headers α) (gm : P7_PROFILE α) (om : P7_OM α) : Status × P7_OM α :=
  let M := gm.M
  let nq := h.p7O_NQW M
  if om.allocQ8 < nq then (eslEINVAL, om)
  else
    let om := { om with scale_w := Flt.div (.fin 500) h.eslCONST_LOG2 }
    let om := { om with base_w := 12000 }
    let om := forUp gm.abc.Kp (fun x om => forUp nq (vf_stripe_body gm nq x) om) om
    let s : P7_OM α × Nat := (om, 0)
    let s := forUp nq (fun q s => forUp 7 (vf_trans_body gm nq q) s) s
    let s := forUp nq (vf_dd_body gm nq) s
    let om := s.1
    let om := { om with xw := set2x om.xw p7O_E p7O_LOOP (wordify om (gm.xsc p7P_E p7P_LOOP)) }
    let om := { om with xw := set2x om.xw p7O_E p7O_MOVE (wordify om (gm.xsc p7P_E p7P_MOVE)) }
    let om := { om with xw := set2x om.xw p7O_N p7O_MOVE (wordify om (gm.xsc p7P_N p7P_MOVE)) }
    let om := { om with xw := set2x om.xw p7O_N p7O_LOOP 0 }
    let om := { om with xw := set2x om.xw p7O_C p7O_MOVE (wordify om (gm.xsc p7P_C p7P_MOVE)) }
    let om := { om with xw := set2x om.xw p7O_C p7O_LOOP 0 }
    let om := { om with xw := set2x om.xw p7O_J p7O_MOVE (wordify om (gm.xsc p7P_J p7P_MOVE)) }
    let om := { om with xw := set2x om.xw p7O_J p7O_LOOP 0 }
    let om := { om with ncj_roundoff := .fin 0 }
    let om := { om with ddbound_w := -32768 }
    let om := forUp (M - 1 - 2) (vf_ddbound_body gm) om
    (eslOK, om)

/-- Body of the loop over blocks `q` of `fb_conversion` for residue `x`. -/
def fb_stripe_body (h : Headers α) (gm : P7_PROFILE α) (nq x : Nat) (q : Nat) (om : P7_OM α) :
    P7_OM α :=
  let k := q + 1
  let tmp : M128 (Flt α) := fun z =>
    if k + z.val * nq ≤ gm.M then p7P_MSC gm (k + z.val * nq) x else Flt.neg .pinf
  { om with rfv := set2 om.rfv x q (h.esl_sse_expf tmp) }

/-- The `switch` over the seven non-DD transitions of `fb_conversion`. -/
def fb_switch (t k : Nat) : p7p_tsc_e × Nat :=
  match t with
  | 0 => (p7P_BM, k - 1)
  | 1 => (p7P_MM, k - 1)
  | 2 => (p7P_IM, k - 1)
  | 3 => (p7P_DM, k - 1)
  | 4 => (p7P_MD, k)
  | 5 => (p7P_MI, k)
  | _ => (p7P_II, k)

/-- Body of the loop over the transitions `t` of block `q` of
`fb_conversion`. -/
def fb_trans_body (h : Headers α) (gm : P7_PROFILE α) (nq q : Nat) (t : Nat)
    (s : P7_OM α × Nat) : P7_OM α × Nat :=
  let k := q + 1
  let tg := (fb_switch t k).1
  let kb := (fb_switch t k).2
  let tmp : M128 (Flt α) := fun z =>
    if kb + z.val * nq < gm.M then p7P_TSC gm (kb + z.val * nq) tg else Flt.neg .pinf
  ({ s.1 with tfv := Function.update s.1.tfv s.2 (h.esl_sse_expf tmp) }, s.2 + 1)

/-- Body of the loop over blocks `q` storing the DD transitions of
`fb_conversion`. -/
def fb_dd_body (h : Headers α) (gm : P7_PROFILE α) (nq : Nat) (q : Nat) (s : P7_OM α × Nat) :
    P7_OM α × Nat :=
  let k := q + 1
  let tmp : M128 (Flt α) := fun z =>
    if k + z.val * nq < gm.M then p7P_TSC gm (k + z.val * nq) p7P_DD else Flt.neg .pinf
  ({ s.1 with tfv := Function.update s.1.tfv s.2 (h.esl_sse_expf tmp) }, s.2 + 1)

/-- The function `fb_conversion`. -/
def fb_conversion (h : Headers α) (gm : P7_PROFILE α) (om : P7_OM α) : Status × P7_OM α :=
  let M := gm.M
  let nq := h.p7O_NQF M
  if om.allocQ4 < nq then (eslEINVAL, om)
  else
    let om := forUp gm.abc.Kp (fun x om => forUp nq (fb_stripe_body h gm nq x) om) om
    let s : P7_OM α × Nat := (om, 0)
    let s := forUp nq (fun q s => forUp 7 (fb_trans_body h gm nq q) s) s
    let s := forUp nq (fb_dd_body h gm nq) s
    let om := s.1
    let om := { om with xf := set2x om.xf p7O_E p7O_LOOP (h.expf (gm.xsc p7P_E p7P_LOOP)) }
    let om := { om with xf := set2x om.xf p7O_E p7O_MOVE (h.expf (gm.xsc p7P_E p7P_MOVE)) }
    let om := { om with xf := set2x om.xf p7O_N p7O_LOOP (h.expf (gm.xsc p7P_N p7P_LOOP)) }
    let om := { om with xf := set2x om.xf p7O_N p7O_MOVE (h.expf (gm.xsc p7P_N p7P_MOVE)) }
    let om := { om with xf := set2x om.xf p7O_C p7O_LOOP (h.expf (gm.xsc p7P_C p7P_LOOP)) }
    let om := { om with xf := set2x om.xf p7O_C p7O_MOVE (h.expf (gm.xsc p7P_C p7P_MOVE)) }
    let om := { om with xf := set2x om.xf p7O_J p7O_LOOP (h.expf (gm.xsc p7P_J p7P_LOOP)) }
    let om := { om with xf := set2x om.xf p7O_J p7O_MOVE (h.expf (gm.xsc p7P_J p7P_MOVE)) }
    (eslOK, om)

/-- Modelled from the spec: `esl_strdup(s, -1, &dup)` of `easel`, which is not
part of the sources at hand; it duplicates a string (NULL gives NULL) and
fails with `eslEMEM`, leaving NULL, when the allocation fails
(`alloc_ok = false`). -/
def esl_strdup (alloc_ok : Bool) (s : Option (List Char)) : Status × Option (List Char) :=
  match s with
  | none => (eslOK, none)
  | some t => if alloc_ok then (eslOK, some t) else (eslEMEM, none)

/-- The function `p7_oprofile_Convert`.  `mem 0`, `mem 1`, `mem 2` tell
whether the three string duplications find memory.  The result is the
returned status and the contents of `om` afterwards. -/
def p7_oprofile_Convert (h : Headers α) (mem : Nat → Bool) (gm : P7_PROFILE α) (om : P7_OM α) :
    Status × P7_OM α :=
  if gm.abc.type ≠ om.abc.type then (eslEINVAL, om)
  else if om.allocM < gm.M then (eslEINVAL, om)
  else
    let r := mf_conversion h gm om
    if r.1 ≠ eslOK then r
    else
      let r := vf_conversion h gm r.2
      if r.1 ≠ eslOK then r
      else
        let r := fb_conversion h gm r.2
        if r.1 ≠ eslOK then r
        else
          let om := r.2
          let d := esl_strdup (mem 0) gm.name
          let om := { om with name := d.2 }
          if d.1 ≠ eslOK then (d.1, om)
          else
            let d := esl_strdup (mem 1) gm.acc
            let om := { om with acc := d.2 }
            if d.1 ≠ eslOK then (d.1, om)
            else
              let d := esl_strdup (mem 2) gm.desc
              let om := { om with desc := d.2 }
              if d.1 ≠ eslOK then (d.1, om)
              else
                let om := { om with rf := gm.rf }
                let om := { om with cs := gm.cs }
                let om := { om with consensus := gm.consensus }
                let om := forUp h.p7_NEVPARAM (fun z (om : P7_OM α) =>
                  { om with evparam := Function.update om.evparam z (gm.evparam z) }) om
                let om := forUp h.p7_NCUTOFFS (fun z (om : P7_OM α) =>
                  { om with cutoff := Function.update om.cutoff z (gm.cutoff z) }) om
                let om := forUp h.p7_MAXABET (fun z (om : P7_OM α) =>
                  { om with compo := Function.update om.compo z (gm.compo z) }) om
                let om := { om with mode := gm.mode }
                let om := { om with L := gm.L }
                let om := { om with M := gm.M }
                let om := { om with nj := gm.nj }
                (eslOK, om)

end Quantization
/-! ## What the conversions store, as functions of the generic profile -/

section QuantPure

variable {α : Type} [LinearOrderedField α] [FloorRing α]

/-- The value of `biased_byteify` as a function of the scale and the bias it
reads from the profile. -/
def biased_cost (scale_b : Flt α) (bias_b : Nat) (sc : Flt α) : Nat :=
  let sc := Flt.mul (.fin (-1)) (roundf (Flt.mul scale_b sc))
  (if Flt.gt sc (Flt.ofInt (255 - (bias_b : Int))) then 255 else cast_uint8 sc + bias_b) % 256

/-- The value of `unbiased_byteify` as a function of the scale it reads. -/
def unbiased_cost (scale_b : Flt α) (sc : Flt α) : Nat :=
  let sc := Flt.mul (.fin (-1)) (roundf (Flt.mul scale_b sc))
  (if Flt.gt sc (.fin 255) then 255 else cast_uint8 sc) % 256

/-- The value of `wordify` as a function of the scale it reads. -/
def word_cost (scale_w : Flt α) (sc : Flt α) : Int :=
  let sc := roundf (Flt.mul scale_w sc)
  if Flt.ge sc (.fin 32767) then 32767
  else if Flt.le sc (.fin (-32768)) then -32768
  else cast_int16 sc

/-- The scale `scale_b` set by `mf_conversion`. -/
def mf_scale (h : Headers α) : Flt α := Flt.div (.fin 3) h.eslCONST_LOG2

/-- The value `max` found by the first loop of `mf_conversion`. -/
def mf_max (gm : P7_PROFILE α) : Flt α :=
  forUp gm.abc.K (fun x max => ESL_MAX max (esl_vec_FMax (gm.rsc x) ((gm.M + 1) * 2))) (.fin 0)

/-- The bias `bias_b` set by `mf_conversion`. -/
def mf_bias (h : Headers α) (gm : P7_PROFILE α) : Nat :=
  unbiased_cost (mf_scale h) (Flt.mul (.fin (-1)) (mf_max gm))

/-- The vector stored in `rbv[x][q]` by `mf_conversion`. -/
def mf_rbv (h : Headers α) (gm : P7_PROFILE α) (x q : Nat) : Fin 16 → Nat := fun z =>
  if q + 1 + z.val * h.p7O_NQB gm.M ≤ gm.M then
    biased_cost (mf_scale h) (mf_bias h gm) (p7P_MSC gm (q + 1 + z.val * h.p7O_NQB gm.M) x)
  else 255

/-- The profile left by a successful `mf_conversion`. -/
def mf_fill (h : Headers α) (gm : P7_PROFILE α) (om : P7_OM α) : P7_OM α :=
  { om with
    scale_b := mf_scale h
    base_b := 190
    bias_b := mf_bias h gm
    rbv := fun x q => if x < gm.abc.Kp ∧ q < h.p7O_NQB gm.M then mf_rbv h gm x q else om.rbv x q
    tbm_b := unbiased_cost (mf_scale h) (h.logf (Flt.div (.fin 2)
      (Flt.mul (Flt.ofInt (gm.M : Int)) (Flt.ofInt ((gm.M : Int) + 1)))))
    tec_b := unbiased_cost (mf_scale h) (h.logf (.fin (1 / 2)))
    tjb_b := unbiased_cost (mf_scale h) (h.logf (Flt.div (.fin 3) (Flt.ofInt ((gm.L : Int) + 3)))) }

/-- The scale `scale_w` set by `vf_conversion`. -/
def vf_scale (h : Headers α) : Flt α := Flt.div (.fin 500) h.eslCONST_LOG2

/-- The vector stored in `rwv[x][q]` by `vf_conversion`. -/
def vf_rwv (h : Headers α) (gm : P7_PROFILE α) (x q : Nat) : Fin 8 → Int := fun z =>
  if q + 1 + z.val * h.p7O_NQW gm.M ≤ gm.M then
    word_cost (vf_scale h) (p7P_MSC gm (q + 1 + z.val * h.p7O_NQW gm.M) x)
  else -32768

/-- The vector stored by `vf_conversion` for transition `t` of block `q`, that
is in `twv[7*q + t]`. -/
def vf_twv (h : Headers α) (gm : P7_PROFILE α) (q t : Nat) : Fin 8 → Int := fun z =>
  let val : Int :=
    if (vf_switch t (q + 1)).2.1 + z.val * h.p7O_NQW gm.M < gm.M then
      word_cost (vf_scale h)
        (p7P_TSC gm ((vf_switch t (q + 1)).2.1 + z.val * h.p7O_NQW gm.M) (vf_switch t (q + 1)).1)
    else -32768
  if val ≤ (vf_switch t (q + 1)).2.2 then val else (vf_switch t (q + 1)).2.2

/-- The DD vector stored by `vf_conversion` for block `q`. -/
def vf_ddv (h : Headers α) (gm : P7_PROFILE α) (q : Nat) : Fin 8 → Int := fun z =>
  if q + 1 + z.val * h.p7O_NQW gm.M < gm.M then
    word_cost (vf_scale h) (p7P_TSC gm (q + 1 + z.val * h.p7O_NQW gm.M) p7P_DD)
  else -32768

/-- One step of the loop of `vf_conversion` that finds the DD bound, on the
value of `ddbound_w`. -/
def vf_ddbound_upd (h : Headers α) (gm : P7_PROFILE α) (i : Nat) (d : Int) : Int :=
  wrap_int16
    (if d > word_cost (vf_scale h) (p7P_TSC gm (i + 2) p7P_DD)
            + word_cost (vf_scale h) (p7P_TSC gm (i + 2 + 1) p7P_DM)
            - word_cost (vf_scale h) (p7P_TSC gm (i + 2 + 1) p7P_BM)
     then d
     else word_cost (vf_scale h) (p7P_TSC gm (i + 2) p7P_DD)
            + word_cost (vf_scale h) (p7P_TSC gm (i + 2 + 1) p7P_DM)
            - word_cost (vf_scale h) (p7P_TSC gm (i + 2 + 1) p7P_BM))

/-- The special-state words set by `vf_conversion`. -/
def vf_xw (h : Headers α) (gm : P7_PROFILE α) : p7o_xstates_e → p7o_xtransitions_e → Int
  | p7O_E, p7O_LOOP => word_cost (vf_scale h) (gm.xsc p7P_E p7P_LOOP)
  | p7O_E, p7O_MOVE => word_cost (vf_scale h) (gm.xsc p7P_E p7P_MOVE)
  | p7O_N, p7O_MOVE => word_cost (vf_scale h) (gm.xsc p7P_N p7P_MOVE)
  | p7O_N, p7O_LOOP => 0
  | p7O_C, p7O_MOVE => word_cost (vf_scale h) (gm.xsc p7P_C p7P_MOVE)
  | p7O_C, p7O_LOOP => 0
  | p7O_J, p7O_MOVE => word_cost (vf_scale h) (gm.xsc p7P_J p7P_MOVE)
  | p7O_J, p7O_LOOP => 0

/-- The profile left by a successful `vf_conversion`. -/
def vf_fill (h : Headers α) (gm : P7_PROFILE α) (om : P7_OM α) : P7_OM α :=
  { om with
    scale_w := vf_scale h
    base_w := 12000
    rwv := fun x q => if x < gm.abc.Kp ∧ q < h.p7O_NQW gm.M then vf_rwv h gm x q else om.rwv x q
    twv := fun i =>
      if 7 * h.p7O_NQW gm.M ≤ i ∧ i < 7 * h.p7O_NQW gm.M + h.p7O_NQW gm.M then
        vf_ddv h gm (i - 7 * h.p7O_NQW gm.M)
      else if i < 7 * h.p7O_NQW gm.M then vf_twv h gm (i / 7) (i % 7)
      else om.twv i
    xw := vf_xw h gm
    ncj_roundoff := .fin 0
    ddbound_w := forUp (gm.M - 1 - 2) (vf_ddbound_upd h gm) (-32768) }

/-- The vector stored in `rfv[x][q]` by `fb_conversion`. -/
def fb_rfv (h : Headers α) (gm : P7_PROFILE α) (x q : Nat) : M128 (Flt α) :=
  h.esl_sse_expf (fun z =>
    if q + 1 + z.val * h.p7O_NQF gm.M ≤ gm.M then p7P_MSC gm (q + 1 + z.val * h.p7O_NQF gm.M) x
    else Flt.neg .pinf)

/-- The vector stored by `fb_conversion` for transition `t` of block `q`, that
is in `tfv[7*q + t]`. -/
def fb_tfv (h : Headers α) (gm : P7_PROFILE α) (q t : Nat) : M128 (Flt α) :=
  h.esl_sse_expf (fun z =>
    if (fb_switch t (q + 1)).2 + z.val * h.p7O_NQF gm.M < gm.M then
      p7P_TSC gm ((fb_switch t (q + 1)).2 + z.val * h.p7O_NQF gm.M) (fb_switch t (q + 1)).1
    else Flt.neg .pinf)

/-- The DD vector stored by `fb_conversion` for block `q`. -/
def fb_ddv (h : Headers α) (gm : P7_PROFILE α) (q : Nat) : M128 (Flt α) :=
  h.esl_sse_expf (fun z =>
    if q + 1 + z.val * h.p7O_NQF gm.M < gm.M then
      p7P_TSC gm (q + 1 + z.val * h.p7O_NQF gm.M) p7P_DD
    else Flt.neg .pinf)

/-- The special-state odds ratios set by `fb_conversion`. -/
def fb_xf (h : Headers α) (gm : P7_PROFILE α) : p7o_xstates_e → p7o_xtransitions_e → Flt α
  | p7O_E, p7O_LOOP => h.expf (gm.xsc p7P_E p7P_LOOP)
  | p7O_E, p7O_MOVE => h.expf (gm.xsc p7P_E p7P_MOVE)
  | p7O_N, p7O_LOOP => h.expf (gm.xsc p7P_N p7P_LOOP)
  | p7O_N, p7O_MOVE => h.expf (gm.xsc p7P_N p7P_MOVE)
  | p7O_C, p7O_LOOP => h.expf (gm.xsc p7P_C p7P_LOOP)
  | p7O_C, p7O_MOVE => h.expf (gm.xsc p7P_C p7P_MOVE)
  | p7O_J, p7O_LOOP => h.expf (gm.xsc p7P_J p7P_LOOP)
  | p7O_J, p7O_MOVE => h.expf (gm.xsc p7P_J p7P_MOVE)

/-- The profile left by a successful `fb_conversion`. -/
def fb_fill (h : Headers α) (gm : P7_PROFILE α) (om : P7_OM α) : P7_OM α :=
  { om with
    rfv := fun x q => if x < gm.abc.Kp ∧ q < h.p7O_NQF gm.M then fb_rfv h gm x q else om.rfv x q
    tfv := fun i =>
      if 7 * h.p7O_NQF gm.M ≤ i ∧ i < 7 * h.p7O_NQF gm.M + h.p7O_NQF gm.M then
        fb_ddv h gm (i - 7 * h.p7O_NQF gm.M)
      else if i < 7 * h.p7O_NQF gm.M then fb_tfv h gm (i / 7) (i % 7)
      else om.tfv i
    xf := fb_xf h gm }

/-- The annotation and the scalar fields copied at the end of a successful
`p7_oprofile_Convert`. -/
def copy_fill (h : Headers α) (gm : P7_PROFILE α) (om : P7_OM α) : P7_OM α :=
  { om with
    name := gm.name
    acc := gm.acc
    desc := gm.desc
    rf := gm.rf
    cs := gm.cs
    consensus := gm.consensus
    evparam := fun z => if z < h.p7_NEVPARAM then gm.evparam z else om.evparam z
    cutoff := fun z => if z < h.p7_NCUTOFFS then gm.cutoff z else om.cutoff z
    compo := fun z => if z < h.p7_MAXABET then gm.compo z else om.compo z
    mode := gm.mode
    L := gm.L
    M := gm.M
    nj := gm.nj }

/-- The profile left by a successful `p7_oprofile_Convert`. -/
def convert_fill (h : Headers α) (gm : P7_PROFILE α) (om : P7_OM α) : P7_OM α :=
  copy_fill h gm (fb_fill h gm (vf_fill h gm (mf_fill h gm om)))

/-- The allocation fields of an optimized profile are those that
`p7_oprofile_Create` sets for `allocM` nodes. -/
def OmAllocated (h : Headers α) (om : P7_OM α) : Prop :=
  om.allocQ16 = h.p7O_NQB om.allocM ∧ om.allocQ8 = h.p7O_NQW om.allocM ∧
  om.allocQ4 = h.p7O_NQF om.allocM

/-- The macros giving the numbers of vectors are monotone in the model
length. -/
def HeadersMono (h : Headers α) : Prop :=
  Monotone h.p7O_NQB ∧ Monotone h.p7O_NQW ∧ Monotone h.p7O_NQF

/-- The three tracks of a successful conversion, before the annotation is
copied. -/
def tracks_fill (h : Headers α) (gm : P7_PROFILE α) (om : P7_OM α) : P7_OM α :=
  fb_fill h gm (vf_fill h gm (mf_fill h gm om))

/-- The string duplications of `p7_oprofile_Convert` all succeed. -/
def StrdupOK (mem : Nat → Bool) (gm : P7_PROFILE α) : Prop :=
  (gm.name = none ∨ mem 0 = true) ∧ (gm.acc = none ∨ mem 1 = true) ∧
  (gm.desc = none ∨ mem 2 = true)

/-- A float that is a score: a finite value or minus infinity. -/
def IsScore (f : Flt α) : Prop := f = .ninf ∨ ∃ s : α, f = .fin s

end QuantPure
/-! ## Small concrete inputs for the conversions -/

section DemoQuant

/-- Headers for examples over the rationals, with the vector counts and array
sizes of HMMER and a rational stand-in for ln 2; `logf` and `expf` are
constant stand-ins. -/
def demo_headers : Headers ℚ :=
  { p7O_NQB := fun M => max 2 ((M - 1) / 16 + 1)
    p7O_NQW := fun M => max 2 ((M - 1) / 8 + 1)
    p7O_NQF := fun M => max 2 ((M - 1) / 4 + 1)
    eslCONST_LOG2 := .fin (693147 / 1000000)
    logf := fun _ => .ninf
    expf := fun _ => .fin 0
    esl_sse_expf := fun _ _ => .fin 0
    p7_NOFFSETS := 3
    p7_NEVPARAM := 6
    p7_NCUTOFFS := 6
    p7_MAXABET := 20
    p7_EVPARAM_UNSET := .fin (-99999)
    p7_CUTOFF_UNSET := .fin (-99999)
    p7_COMPO_UNSET := .fin (-1) }

/-- An alphabet record of type `t` with base size `K` and total size `Kp`. -/
def demo_abc (t : esl_alphabet_type) (K Kp : Nat) : ESL_ALPHABET :=
  { type := t, K := K, Kp := Kp, sym := [], inmap := fun _ => 0, degen := fun _ _ => 0,
    ndegen := fun _ => 0, complement := none }

/-- The custom alphabet made by `esl_alphabet_CreateCustom` from the string
`sym` (the empty record stands for NULL). -/
def demo_custom (sym : List Char) (K Kp : Nat) : ESL_ALPHABET :=
  (esl_alphabet_CreateCustom true sym K Kp).getD (demo_abc eslUNKNOWN 0 0)

/-- Freshly allocated memory for an optimized profile, here holding zeros. -/
def demo_uninit : P7_OM ℚ :=
  { rbv := fun _ _ _ => 0, tbm_b := 0, tec_b := 0, tjb_b := 0, scale_b := .fin 0, base_b := 0,
    bias_b := 0, rwv := fun _ _ _ => 0, twv := fun _ _ => 0, xw := fun _ _ => 0,
    scale_w := .fin 0, base_w := 0, ddbound_w := 0, ncj_roundoff := .fin 0,
    rfv := fun _ _ _ => .fin 0, tfv := fun _ _ => .fin 0, xf := fun _ _ => .fin 0,
    allocQ16 := 0, allocQ8 := 0, allocQ4 := 0, offs := fun _ => 0, evparam := fun _ => .fin 0,
    cutoff := fun _ => .fin 0, compo := fun _ => .fin 0, name := none, acc := none,
    desc := none, rf := [], cs := [], consensus := [], abc := demo_abc eslUNKNOWN 0 0,
    L := 0, M := 0, allocM := 0, mode := p7_NO_MODE, nj := .fin 0, clone := 0 }

/-- The optimized profile made by `p7_oprofile_Create` for `allocM` nodes and
the alphabet `abc`. -/
def demo_created (allocM : Nat) (abc : ESL_ALPHABET) : P7_OM ℚ :=
  (p7_oprofile_Create demo_headers true demo_uninit allocM abc).getD demo_uninit

/-- A generic profile of two nodes in local mode over the alphabet `abc`, with
the emission scores `rsc`; all transition scores are 0 and it carries no
annotation. -/
def demo_gm (abc : ESL_ALPHABET) (rsc : Nat → Nat → Flt ℚ) : P7_PROFILE ℚ :=
  { tsc := fun _ => .fin 0, rsc := rsc, xsc := fun _ _ => .fin 0, mode := p7_LOCAL, L := 100,
    M := 2, nj := .fin 0, name := none, acc := none, desc := none, rf := [], cs := [],
    consensus := [], evparam := fun _ => .fin 0, cutoff := fun _ => .fin 0,
    compo := fun _ => .fin 0, abc := abc }

/-- Emission scores for the two-node example: the match score of residue 0 at
node 1 is 60, every other score is 0. -/
def demo_rsc_high : Nat → Nat → Flt ℚ :=
  fun x i => if x = 0 ∧ i = 2 then .fin 60 else .fin 0

end DemoQuant

/-! ## Length and mode reconfiguration -/

section FltArith

variable {α : Type} [LinearOrderedField α] [FloorRing α]

/-- The sum `a + b`; the sum of opposite infinities is a NaN. -/
def Flt.add : Flt α → Flt α → Flt α
  | .fin x, .fin y => .fin (x + y)
  | .fin _, .pinf => .pinf
  | .fin _, .ninf => .ninf
  | .pinf, .fin _ => .pinf
  | .ninf, .fin _ => .ninf
  | .pinf, .pinf => .pinf
  | .ninf, .ninf => .ninf
  | .pinf, .ninf => .nan
  | .ninf, .pinf => .nan
  | .nan, _ => .nan
  | _, .nan => .nan

/-- The difference `a - b`. -/
def Flt.sub (a b : Flt α) : Flt α := Flt.add a (Flt.neg b)

/-- The comparison `a != b` of C: true as soon as a NaN is involved. -/
def Flt.ne (a b : Flt α) : Bool :=
  match a, b with
  | .nan, _ => true
  | _, .nan => true
  | a, b => decide (a ≠ b)

end FltArith

section Reconfig

variable {α : Type} [LinearOrderedField α] [FloorRing α]

/-- The function `p7_oprofile_ReconfigMSVLength`; lengths are natural
numbers. -/
def p7_oprofile_ReconfigMSVLength (h : Headers α) (om : P7_OM α) (L : Nat) :
    Status × P7_OM α :=
  let om := { om with
    tjb_b := unbiased_byteify om (h.logf (Flt.div (.fin 3) (Flt.ofInt ((L : Int) + 3)))) }
  (eslOK, om)

/-- The function `p7_oprofile_ReconfigRestLength`.  A chained assignment
`a = b = c = v` stores into `c`, then `b`, then `a`. -/
def p7_oprofile_ReconfigRestLength (h : Headers α) (om : P7_OM α) (L wholeSz : Nat) :
    Status × P7_OM α :=
  let pmove := Flt.div (Flt.add (.fin 2) om.nj)
    (Flt.add (Flt.add (Flt.ofInt (wholeSz : Int)) (.fin 2)) om.nj)
  let ploop := Flt.sub (.fin 1) pmove
  let om := { om with xf := set2x om.xf p7O_J p7O_LOOP ploop }
  let om := { om with xf := set2x om.xf p7O_C p7O_LOOP ploop }
  let om := { om with xf := set2x om.xf p7O_N p7O_LOOP ploop }
  let om := { om with xf := set2x om.xf p7O_J p7O_MOVE pmove }
  let om := { om with xf := set2x om.xf p7O_C p7O_MOVE pmove }
  let om := { om with xf := set2x om.xf p7O_N p7O_MOVE pmove }
  let w := wordify om (h.logf pmove)
  let om := { om with xw := set2x om.xw p7O_J p7O_MOVE w }
  let om := { om with xw := set2x om.xw p7O_C p7O_MOVE w }
  let om := { om with xw := set2x om.xw p7O_N p7O_MOVE w }
  let om := { om with L := L }
  (eslOK, om)

/-- The function `p7_oprofile_ReconfigLength`. -/
def p7_oprofile_ReconfigLength (h : Headers α) (om : P7_OM α) (L wholeSeqSz : Nat) :
    Status × P7_OM α :=
  let r := p7_oprofile_ReconfigMSVLength h om wholeSeqSz
  if r.1 ≠ eslOK then r
  else
    let r := p7_oprofile_ReconfigRestLength h r.2 L wholeSeqSz
    if r.1 ≠ eslOK then r
    else (eslOK, r.2)

/-- The function `p7_oprofile_ReconfigMultihit`. -/
def p7_oprofile_ReconfigMultihit (h : Headers α) (om : P7_OM α) (L wholeSz : Nat) :
    Status × P7_OM α :=
  let om := { om with xf := set2x om.xf p7O_E p7O_MOVE (.fin (1 / 2)) }
  let om := { om with xf := set2x om.xf p7O_E p7O_LOOP (.fin (1 / 2)) }
  let om := { om with nj := .fin 1 }
  let om := { om with xw := set2x om.xw p7O_E p7O_MOVE (wordify om (Flt.neg h.eslCONST_LOG2)) }
  let om := { om with xw := set2x om.xw p7O_E p7O_LOOP (wordify om (Flt.neg h.eslCONST_LOG2)) }
  p7_oprofile_ReconfigLength h om L wholeSz

/-- The function `p7_oprofile_ReconfigUnihit`. -/
def p7_oprofile_ReconfigUnihit (h : Headers α) (om : P7_OM α) (L wholeSz : Nat) :
    Status × P7_OM α :=
  let om := { om with xf := set2x om.xf p7O_E p7O_MOVE (.fin 1) }
  let om := { om with xf := set2x om.xf p7O_E p7O_LOOP (.fin 0) }
  let om := { om with nj := .fin 0 }
  let om := { om with xw := set2x om.xw p7O_E p7O_MOVE 0 }
  let om := { om with xw := set2x om.xw p7O_E p7O_LOOP (-32768) }
  p7_oprofile_ReconfigLength h om L wholeSz

end Reconfig

section ReconfigFrameDef

variable {α : Type}

/-- The tables and parameters of `om` that a reconfiguration of the length or
of the hit mode leaves as they are in `om1`: the striped emission and
transition tables, the scales, bases and bounds of the byte and word tracks,
the model size and mode, and the word-track LOOP costs of N, C and J. -/
def ReconfigFrame (om om1 : P7_OM α) : Prop :=
  om1.rbv = om.rbv ∧ om1.rwv = om.rwv ∧ om1.rfv = om.rfv ∧ om1.twv = om.twv ∧
  om1.tfv = om.tfv ∧ om1.tbm_b = om.tbm_b ∧ om1.tec_b = om.tec_b ∧
  om1.scale_b = om.scale_b ∧ om1.base_b = om.base_b ∧ om1.bias_b = om.bias_b ∧
  om1.scale_w = om.scale_w ∧ om1.base_w = om.base_w ∧ om1.ddbound_w = om.ddbound_w ∧
  om1.M = om.M ∧ om1.allocM = om.allocM ∧ om1.mode = om.mode ∧
  om1.xw p7O_N p7O_LOOP = om.xw p7O_N p7O_LOOP ∧
  om1.xw p7O_C p7O_LOOP = om.xw p7O_C p7O_LOOP ∧
  om1.xw p7O_J p7O_LOOP = om.xw p7O_J p7O_LOOP

end ReconfigFrameDef
/-! ## The quantities named by the statements about the conversions -/

section ConversionNames

variable {α : Type} [LinearOrderedField α] [FloorRing α]

/-- The sum `wordify(tDD(k)) + wordify(tDM(k+1)) - wordify(tBM(k+1))` that the
loop of `vf_conversion` over `k` forms in `ddtmp`. -/
def dd_sum (om : P7_OM α) (gm : P7_PROFILE α) (k : Nat) : Int :=
  wordify om (p7P_TSC gm k p7P_DD) + wordify om (p7P_TSC gm (k + 1) p7P_DM)
    - wordify om (p7P_TSC gm (k + 1) p7P_BM)

/-- The special state of a generic profile with the same name as a special
state of an optimized profile. -/
def xstate_gm : p7o_xstates_e → p7p_xstates_e
  | p7O_E => p7P_E
  | p7O_N => p7P_N
  | p7O_J => p7P_J
  | p7O_C => p7P_C

/-- The transition of a generic profile with the same name as a transition of
a special state of an optimized profile. -/
def xtrans_gm : p7o_xtransitions_e → p7p_xtransitions_e
  | p7O_MOVE => p7P_MOVE
  | p7O_LOOP => p7P_LOOP

end ConversionNames

section DemoBound

/-- Transition scores in which every score is 0 except the entry score
`tBM` of node 3, which is minus infinity. -/
def demo_tsc_dd : Nat → Flt ℚ :=
  fun i => if i = 3 * p7P_NTRANS + p7p_tsc_e.toNat p7P_BM then .ninf else .fin 0

/-- A generic profile of four nodes over the alphabet `abc` with the
transition scores `tsc`; all emission scores are 0. -/
def demo_gm4 (abc : ESL_ALPHABET) (tsc : Nat → Flt ℚ) : P7_PROFILE ℚ :=
  { demo_gm abc (fun _ _ => .fin 0) with M := 4, tsc := tsc }

end DemoBound
/-! ## p7_oprofile_Compare -/

/-- Library functions of easel that `p7_oprofile_Compare` calls and that are
not part of the sources at hand: `esl_FCompare(a, b, tol)`,
`esl_vec_FCompare(v1, v2, n, tol)` and `esl_strcmp(s1, s2)` (NULL is
`none`). -/
structure EaselCmp (α : Type) where
  esl_FCompare : Flt α → Flt α → Flt α → Status
  esl_vec_FCompare : (Nat → Flt α) → (Nat → Flt α) → Nat → Flt α → Status
  esl_strcmp : Option (List Char) → Option (List Char) → Int

section Compare

variable {α : Type} [LinearOrderedField α] [FloorRing α]

/-- A loop `for (i = 0; i < n; i++) if (bad(i)) ESL_FAIL(...)`: whether the
function is left with a failure inside the loop. -/
def cmp_any (n : Nat) (bad : Nat → Bool) : Bool :=
  forUp n (fun i found => found || bad i) false

/-- Such a loop over the lanes of a vector. -/
def cmp_lanes {n : Nat} (bad : Fin n → Bool) : Bool :=
  cmp_any n (fun r => if hr : r < n then bad ⟨r, hr⟩ else false)

/-- The special state with the number `x` (`p7O_E = 0`, `p7O_N = 1`,
`p7O_J = 2`, `p7O_C = 3`). -/
def xstate_of (x : Nat) : p7o_xstates_e :=
  match x with
  | 0 => p7O_E
  | 1 => p7O_N
  | 2 => p7O_J
  | _ => p7O_C

/-- The special-state transition with the number `y` (`p7O_MOVE = 0`,
`p7O_LOOP = 1`). -/
def xtrans_of (y : Nat) : p7o_xtransitions_e :=
  match y with
  | 0 => p7O_MOVE
  | _ => p7O_LOOP

/-- The constant `p7O_NXSTATES`. -/
def p7O_NXSTATES : Nat := 4

/-- The constant `p7O_NXTRANS`. -/
def p7O_NXTRANS : Nat := 2

/-- The function `p7_oprofile_Compare`; the result is the status returned (the
message left in `errmsg` is not modelled). -/
def p7_oprofile_Compare (h : Headers α) (lib : EaselCmp α) (om1 om2 : P7_OM α)
    (tol : Flt α) : Status :=
  let Q4 := h.p7O_NQF om1.M
  let Q8 := h.p7O_NQW om1.M
  let Q16 := h.p7O_NQB om1.M
  if om1.mode ≠ om2.mode then eslFAIL
  else if om1.L ≠ om2.L then eslFAIL
  else if om1.M ≠ om2.M then eslFAIL
  else if Flt.ne om1.nj om2.nj then eslFAIL
  else if om1.abc.type ≠ om2.abc.type then eslFAIL
  else if cmp_any om1.abc.Kp (fun x => cmp_any Q16 (fun q =>
      cmp_lanes (fun r : Fin 16 => decide (om1.rbv x q r ≠ om2.rbv x q r)))) then eslFAIL
  else if om1.tbm_b ≠ om2.tbm_b then eslFAIL
  else if om1.tec_b ≠ om2.tec_b then eslFAIL
  else if om1.tjb_b ≠ om2.tjb_b then eslFAIL
  else if Flt.ne om1.scale_b om2.scale_b then eslFAIL
  else if om1.base_b ≠ om2.base_b then eslFAIL
  else if om1.bias_b ≠ om2.bias_b then eslFAIL
  else if cmp_any om1.abc.Kp (fun x => cmp_any Q8 (fun q =>
      cmp_lanes (fun r : Fin 8 => decide (om1.rwv x q r ≠ om2.rwv x q r)))) then eslFAIL
  else if cmp_any (8 * Q16) (fun q =>
      cmp_lanes (fun r : Fin 8 => decide (om1.twv q r ≠ om2.twv q r))) then eslFAIL
  else if cmp_any p7O_NXSTATES (fun x => cmp_any p7O_NXTRANS (fun y =>
      decide (om1.xw (xstate_of x) (xtrans_of y) ≠ om2.xw (xstate_of x) (xtrans_of y))))
    then eslFAIL
  else if Flt.ne om1.scale_w om2.scale_w then eslFAIL
  else if om1.base_w ≠ om2.base_w then eslFAIL
  else if om1.ddbound_w ≠ om2.ddbound_w then eslFAIL
  else if cmp_any om1.abc.Kp (fun x => cmp_any Q4 (fun q =>
      cmp_lanes (fun r : Fin 4 =>
        decide (lib.esl_FCompare (om1.rfv x q r) (om2.rfv x q r) tol ≠ eslOK)))) then eslFAIL
  else if cmp_any (8 * Q4) (fun q =>
      cmp_lanes (fun r : Fin 4 => Flt.ne (om1.tfv q r) (om2.tfv q r))) then eslFAIL
  else if cmp_any p7O_NXSTATES (fun x =>
      decide (lib.esl_vec_FCompare (fun y => om1.xf (xstate_of x) (xtrans_of y))
        (fun y => om2.xf (xstate_of x) (xtrans_of y)) p7O_NXTRANS tol ≠ eslOK)) then eslFAIL
  else if cmp_any h.p7_NOFFSETS (fun x => decide (om1.offs x ≠ om2.offs x)) then eslFAIL
  else if lib.esl_strcmp om1.name om2.name ≠ 0 then eslFAIL
  else if lib.esl_strcmp om1.acc om2.acc ≠ 0 then eslFAIL
  else if lib.esl_strcmp om1.desc om2.desc ≠ 0 then eslFAIL
  else if lib.esl_strcmp (some om1.rf) (some om2.rf) ≠ 0 then eslFAIL
  else if lib.esl_strcmp (some om1.cs) (some om2.cs) ≠ 0 then eslFAIL
  else if lib.esl_strcmp (some om1.consensus) (some om2.consensus) ≠ 0 then eslFAIL
  else if lib.esl_vec_FCompare om1.evparam om2.evparam h.p7_NEVPARAM tol ≠ eslOK then eslFAIL
  else if lib.esl_vec_FCompare om1.cutoff om2.cutoff h.p7_NCUTOFFS tol ≠ eslOK then eslFAIL
  else if lib.esl_vec_FCompare om1.compo om2.compo h.p7_MAXABET tol ≠ eslOK then eslFAIL
  else eslOK

end Compare

section DemoCompare

/-- Stand-ins for the comparison functions of easel: exact equality. -/
def demo_cmp : EaselCmp ℚ :=
  { esl_FCompare := fun a b _ => if a = b then eslOK else eslFAIL
    esl_vec_FCompare := fun a b n _ => if ∀ i, i < n → a i = b i then eslOK else eslFAIL
    esl_strcmp := fun a b => if a = b then 0 else 1 }

/-- An optimized profile of 17 nodes over a DNA-type alphabet whose tables and
parameters are all 0. -/
def demo_om17 : P7_OM ℚ :=
  { demo_uninit with M := 17, allocM := 17, abc := demo_abc eslDNA 4 18 }

/-- The same profile with the lanes of the word-track transition vector
`twv[16]` set to 1. -/
def demo_om17_changed : P7_OM ℚ :=
  { demo_om17 with twv := Function.update demo_om17.twv 16 (fun _ => 1) }

end DemoCompare
/-! ## esl_abc_Digitize -/

/-- The digital code `eslDSQ_SENTINEL` (`esl_alphabet.h`). -/
def eslDSQ_SENTINEL : Nat := 255

/-- The digital code `eslDSQ_IGNORED` (`esl_alphabet.h`). -/
def eslDSQ_IGNORED : Nat := 253

/-- Modelled from the spec: the macro `esl_abc_XIsValid(a, x)` of
`esl_alphabet.h`, which is not part of the sources at hand; a digital code is
valid when it is below `Kp`. -/
def esl_abc_XIsValid (a : ESL_ALPHABET) (x : Nat) : Bool := decide (x < a.Kp)

/-- Modelled from the spec: the macro `esl_abc_XGetUnknown(a)` of
`esl_alphabet.h`, which is not part of the sources at hand; the code of the
unknown residue is `Kp - 3`, an `int`. -/
def esl_abc_XGetUnknown (a : ESL_ALPHABET) : Int := (a.Kp : Int) - 3

/-- The local variables of `esl_abc_Digitize` and the array `dsq` it fills. -/
structure DigitizeVars where
  status : Status
  j : Nat
  dsq : Nat → Nat

/-- Body of the loop of `esl_abc_Digitize` for the character `c = seq[i]`; a
value stored into `dsq` is reduced to a byte (`ESL_DSQ` is `uint8_t`). -/
def esl_abc_Digitize_body (a : ESL_ALPHABET) (c : Char) (s : DigitizeVars) : DigitizeVars :=
  let x := a.inmap c.toNat
  if x = eslDSQ_IGNORED then s
  else
    let s : DigitizeVars :=
      if esl_abc_XIsValid a x then { s with dsq := Function.update s.dsq s.j x }
      else
        { s with
          status := eslEINVAL
          dsq := Function.update s.dsq s.j (esl_abc_XGetUnknown a % 256).toNat }
    { s with j := s.j + 1 }

/-- The function `esl_abc_Digitize`; `seq` holds the characters before the
terminating NUL, `dsq` is the caller's array.  The result is the status and
the array. -/
def esl_abc_Digitize (a : ESL_ALPHABET) (seq : List Char) (dsq : Nat → Nat) :
    Status × (Nat → Nat) :=
  let s : DigitizeVars :=
    { status := eslOK, j := 1, dsq := Function.update dsq 0 eslDSQ_SENTINEL }
  let s := seq.foldl (fun s c => esl_abc_Digitize_body a c s) s
  (s.status, Function.update s.dsq s.j eslDSQ_SENTINEL)

/-- The characters of `seq` that the input map does not ignore, in order. -/
def kept_chars (a : ESL_ALPHABET) (seq : List Char) : List Char :=
  seq.filter (fun c => decide (a.inmap c.toNat ≠ eslDSQ_IGNORED))

/-- The digital code of a kept character: its input-map code if that is valid
(below `Kp`), and the code `Kp - 3` of the unknown residue otherwise. -/
def digit_of (a : ESL_ALPHABET) (c : Char) : Nat :=
  if a.inmap c.toNat < a.Kp then a.inmap c.toNat else a.Kp - 3
/-! ## The progress written by backward_engine -/

section Progress

variable {α : Type} [LinearOrderedField α] [FloorRing α]

/-- The value written to `ti.progress` at the checkpoint of position `i`:
`progressStart + (int)(((double)percentBorder / L) * i)`, in exact
arithmetic. -/
def progress_at (progressStart percentBorder : Int) (L i : Nat) : Int :=
  progressStart
    + Flt.toInt (Flt.mul (Flt.div (Flt.ofInt percentBorder : Flt α) (Flt.ofInt (L : Int)))
        (Flt.ofInt (i : Int)))

/-- The successive values written to `ti.progress` by the main recursion
`for (i = n; i >= 1; i--)` of `backward_engine` (entered with `n = L-1`): the
value of position `i` is written before the cancellation flag is read, and
the loop is left at the first position where the flag is set. -/
def bck_progress_writes (cancelFlag : Nat → Bool) (progressStart percentBorder : Int)
    (L : Nat) (n : Nat) : List Int :=
  match n with
  | 0 => []
  | k + 1 =>
    progress_at (α := α) progressStart percentBorder L (k + 1) ::
      (if cancelFlag (k + 1) then []
       else bck_progress_writes cancelFlag progressStart percentBorder L k)

end Progress

/-! ## The standard alphabets -/

/-- Modelled from the spec: the macro `esl_abc_XIsCanonical(a, x)` of
`esl_alphabet.h`, which is not part of the sources at hand; a digital code is
canonical when it is below `K`. -/
def esl_abc_XIsCanonical (a : ESL_ALPHABET) (x : Nat) : Bool := decide (x < a.K)

/-- Modelled from the spec: the macro `esl_abc_XIsResidue(a, x)` of
`esl_alphabet.h`, which is not part of the sources at hand; a digital code is
a residue when it is canonical (below `K`) or degenerate (above `K` and below
`Kp - 2`). -/
def esl_abc_XIsResidue (a : ESL_ALPHABET) (x : Nat) : Bool :=
  decide (x < a.K) || (decide (a.K < x) && decide ((x : Int) < (a.Kp : Int) - 2))

/-- Modelled from the spec: the macro `esl_abc_CIsValid(a, c)` of
`esl_alphabet.h`, which is not part of the sources at hand; a character is
valid when it is one of the 128 characters of the input map and its code is
below `Kp`. -/
def esl_abc_CIsValid (a : ESL_ALPHABET) (c : Nat) : Bool :=
  decide (c < 128) && decide (a.inmap c < a.Kp)

/-- The C library function `strchr` on the characters of a string before its
terminating NUL: the position of the first occurrence of `c` (the position of
the terminator for the NUL character), `none` for the NULL pointer. -/
def strchr (s : List Char) (c : Char) : Option Nat :=
  if c = Char.ofNat 0 then some s.length
  else if s.indexOf c < s.length then some (s.indexOf c) else none

/-- The C library function `toupper` in the C locale, on character codes. -/
def toupper (c : Nat) : Nat := if 97 ≤ c ∧ c ≤ 122 then c - 32 else c

/-- The function `esl_alphabet_SetEquiv`; the position found is stored as an
`ESL_DSQ` (a byte). -/
def esl_alphabet_SetEquiv (a : ESL_ALPHABET) (sym c : Char) : Status × ESL_ALPHABET :=
  if (strchr a.sym sym).isSome then (eslEINVAL, a)
  else
    match strchr a.sym c with
    | none => (eslEINVAL, a)
    | some sp =>
      let x := sp % 256
      (eslOK, { a with inmap := Function.update a.inmap sym.toNat x })

/-- Body of the loop `for (lc = 'a'; lc <= 'z'; lc++)` of
`esl_alphabet_SetCaseInsensitive`, for `lc = 'a' + i`; once the exception has
been thrown the function has returned and nothing more is done. -/
def esl_alphabet_SetCaseInsensitive_body (i : Nat) (s : Status × ESL_ALPHABET) :
    Status × ESL_ALPHABET :=
  if s.1 ≠ eslOK then s
  else
    let a := s.2
    let lc := 97 + i
    let uc := toupper lc
    if esl_abc_CIsValid a lc && !esl_abc_CIsValid a uc then
      (eslOK, { a with inmap := Function.update a.inmap uc (a.inmap lc) })
    else if esl_abc_CIsValid a uc && !esl_abc_CIsValid a lc then
      (eslOK, { a with inmap := Function.update a.inmap lc (a.inmap uc) })
    else if esl_abc_CIsValid a lc && esl_abc_CIsValid a uc
        && decide (a.inmap uc ≠ a.inmap lc) then
      (eslECORRUPT, a)
    else s

/-- The function `esl_alphabet_SetCaseInsensitive`. -/
def esl_alphabet_SetCaseInsensitive (a : ESL_ALPHABET) : Status × ESL_ALPHABET :=
  forUp 26 esl_alphabet_SetCaseInsensitive_body (eslOK, a)

/-- Body of the loop `while (*ds != 0)` of `esl_alphabet_SetDegeneracy` for
the character `d = *ds` and the code `x` of the degenerate symbol; once an
exception has been thrown the function has returned. -/
def esl_alphabet_SetDegeneracy_body (x : Nat) (d : Char) (s : Status × ESL_ALPHABET) :
    Status × ESL_ALPHABET :=
  if s.1 ≠ eslOK then s
  else
    let a := s.2
    match strchr a.sym d with
    | none => (eslEINVAL, a)
    | some sp =>
      let y := sp % 256
      if !esl_abc_XIsCanonical a y then (eslEINVAL, a)
      else
        (eslOK, { a with degen := set2 a.degen x y 1
                         ndegen := Function.update a.ndegen x (a.ndegen x + 1) })

/-- The function `esl_alphabet_SetDegeneracy`; `ds` holds the characters
before the terminating NUL. -/
def esl_alphabet_SetDegeneracy (a : ESL_ALPHABET) (c : Char) (ds : List Char) :
    Status × ESL_ALPHABET :=
  match strchr a.sym c with
  | none => (eslEINVAL, a)
  | some sp =>
    let x := sp % 256
    if (x : Int) = (a.Kp : Int) - 3 then (eslEINVAL, a)
    else if x < a.K + 1 ∨ (a.Kp : Int) - 2 ≤ (x : Int) then (eslEINVAL, a)
    else ds.foldl (fun s d => esl_alphabet_SetDegeneracy_body x d s) (eslOK, a)

/-- The function `define_complementarity`.  `alloc_ok` tells whether the
allocation of the table succeeds and `fresh` is the content of the memory it
hands out; the seventeen assignments `complement[0..16]` follow. -/
def define_complementarity (alloc_ok : Bool) (fresh : Nat → Nat) (a : ESL_ALPHABET) :
    Status × ESL_ALPHABET :=
  if alloc_ok = false then (eslEMEM, { a with complement := none })
  else
    let c := fresh
    let c := Function.update c 0 3
    let c := Function.update c 1 2
    let c := Function.update c 2 1
    let c := Function.update c 3 0
    let c := Function.update c 4 4
    let c := Function.update c 5 6
    let c := Function.update c 6 5
    let c := Function.update c 7 8
    let c := Function.update c 8 7
    let c := Function.update c 9 9
    let c := Function.update c 10 10
    let c := Function.update c 11 14
    let c := Function.update c 12 13
    let c := Function.update c 13 12
    let c := Function.update c 14 11
    let c := Function.update c 15 15
    let c := Function.update c 16 16
    (eslOK, { a with complement := some c })

/-- The function `create_rna`; the statuses of the calls that set up the
input map and the degeneracies are not looked at.  `alloc_ok` and `compl_ok`
tell whether the allocations of the alphabet and of the complement table
succeed. -/
def create_rna (alloc_ok compl_ok : Bool) (fresh : Nat → Nat) : Option ESL_ALPHABET :=
  match esl_alphabet_CreateCustom alloc_ok "ACGU-RYMKSWHBVDN*~".toList 4 18 with
  | none => none
  | some a =>
    let a := { a with type := eslRNA }
    let a := (esl_alphabet_SetEquiv a 'T' 'U').2
    let a := (esl_alphabet_SetEquiv a 'X' 'N').2
    let a := (esl_alphabet_SetEquiv a '_' '-').2
    let a := (esl_alphabet_SetEquiv a '.' '-').2
    let a := (esl_alphabet_SetCaseInsensitive a).2
    let a := (esl_alphabet_SetDegeneracy a 'R' "AG".toList).2
    let a := (esl_alphabet_SetDegeneracy a 'Y' "CU".toList).2
    let a := (esl_alphabet_SetDegeneracy a 'M' "AC".toList).2
    let a := (esl_alphabet_SetDegeneracy a 'K' "GU".toList).2
    let a := (esl_alphabet_SetDegeneracy a 'S' "CG".toList).2
    let a := (esl_alphabet_SetDegeneracy a 'W' "AU".toList).2
    let a := (esl_alphabet_SetDegeneracy a 'H' "ACU".toList).2
    let a := (esl_alphabet_SetDegeneracy a 'B' "CGU".toList).2
    let a := (esl_alphabet_SetDegeneracy a 'V' "ACG".toList).2
    let a := (esl_alphabet_SetDegeneracy a 'D' "AGU".toList).2
    let r := define_complementarity compl_ok fresh a
    if r.1 ≠ eslOK then none else some r.2

/-- The function `create_dna`, with the arguments of `create_rna`. -/
def create_dna (alloc_ok compl_ok : Bool) (fresh : Nat → Nat) : Option ESL_ALPHABET :=
  match esl_alphabet_CreateCustom alloc_ok "ACGT-RYMKSWHBVDN*~".toList 4 18 with
  | none => none
  | some a =>
    let a := { a with type := eslDNA }
    let a := (esl_alphabet_SetEquiv a 'U' 'T').2
    let a := (esl_alphabet_SetEquiv a 'X' 'N').2
    let a := (esl_alphabet_SetEquiv a '_' '-').2
    let a := (esl_alphabet_SetEquiv a '.' '-').2
    let a := (esl_alphabet_SetCaseInsensitive a).2
    let a := (esl_alphabet_SetDegeneracy a 'R' "AG".toList).2
    let a := (esl_alphabet_SetDegeneracy a 'Y' "CT".toList).2
    let a := (esl_alphabet_SetDegeneracy a 'M' "AC".toList).2
    let a := (esl_alphabet_SetDegeneracy a 'K' "GT".toList).2
    let a := (esl_alphabet_SetDegeneracy a 'S' "CG".toList).2
    let a := (esl_alphabet_SetDegeneracy a 'W' "AT".toList).2
    let a := (esl_alphabet_SetDegeneracy a 'H' "ACT".toList).2
    let a := (esl_alphabet_SetDegeneracy a 'B' "CGT".toList).2
    let a := (esl_alphabet_SetDegeneracy a 'V' "ACG".toList).2
    let a := (esl_alphabet_SetDegeneracy a 'D' "AGT".toList).2
    let r := define_complementarity compl_ok fresh a
    if r.1 ≠ eslOK then none else some r.2

/-- The function `create_amino`. -/
def create_amino (alloc_ok : Bool) : Option ESL_ALPHABET :=
  match esl_alphabet_CreateCustom alloc_ok "ACDEFGHIKLMNPQRSTVWY-BJZOUX*~".toList 20 29 with
  | none => none
  | some a =>
    let a := { a with type := eslAMINO }
    let a := (esl_alphabet_SetEquiv a '_' '-').2
    let a := (esl_alphabet_SetEquiv a '.' '-').2
    let a := (esl_alphabet_SetCaseInsensitive a).2
    let a := (esl_alphabet_SetDegeneracy a 'B' "ND".toList).2
    let a := (esl_alphabet_SetDegeneracy a 'J' "IL".toList).2
    let a := (esl_alphabet_SetDegeneracy a 'Z' "QE".toList).2
    let a := (esl_alphabet_SetDegeneracy a 'U' "C".toList).2
    let a := (esl_alphabet_SetDegeneracy a 'O' "K".toList).2
    some a

/-- The function `create_coins`. -/
def create_coins (alloc_ok : Bool) : Option ESL_ALPHABET :=
  match esl_alphabet_CreateCustom alloc_ok "HT-X*~".toList 2 6 with
  | none => none
  | some a =>
    let a := { a with type := eslCOINS }
    let a := (esl_alphabet_SetEquiv a '_' '-').2
    let a := (esl_alphabet_SetEquiv a '.' '-').2
    let a := (esl_alphabet_SetCaseInsensitive a).2
    some a

/-- The function `create_dice`; the type it stores is `eslCOINS`, as in the
source. -/
def create_dice (alloc_ok : Bool) : Option ESL_ALPHABET :=
  match esl_alphabet_CreateCustom alloc_ok "123456-X*~".toList 6 10 with
  | none => none
  | some a =>
    let a := { a with type := eslCOINS }
    let a := (esl_alphabet_SetEquiv a '_' '-').2
    let a := (esl_alphabet_SetEquiv a '.' '-').2
    let a := (esl_alphabet_SetCaseInsensitive a).2
    some a

/-- The function `esl_alphabet_Create`; `none` is the NULL it returns for an
unrecognized type or when a constructor fails. -/
def esl_alphabet_Create (alloc_ok compl_ok : Bool) (fresh : Nat → Nat)
    (type : esl_alphabet_type) : Option ESL_ALPHABET :=
  match type with
  | .eslRNA => create_rna alloc_ok compl_ok fresh
  | .eslDNA => create_dna alloc_ok compl_ok fresh
  | .eslAMINO => create_amino alloc_ok
  | .eslCOINS => create_coins alloc_ok
  | .eslDICE => create_dice alloc_ok
  | _ => none

/-! ## esl_abc_Textize, esl_abc_CreateDsq and esl_abc_dsqcat -/

/-- The function `esl_abc_Textize`; `seq` is the caller's buffer, `L` the
length (a negative length, for which the loop does not run, is 0 here).  A
code beyond the end of `sym` reads the NUL character. -/
def esl_abc_Textize (a : ESL_ALPHABET) (dsq : Nat → Nat) (L : Nat) (seq : Nat → Char) :
    Status × (Nat → Char) :=
  let seq := forUp L (fun i seq =>
    Function.update seq i (a.sym.getD (dsq (i + 1)) (Char.ofNat 0))) seq
  (eslOK, Function.update seq L (Char.ofNat 0))

/-- The function `esl_abc_CreateDsq`; `seq` holds the characters before the
terminating NUL, `alloc_ok` tells whether the allocation succeeds, `fresh` is
the content of the memory it hands out and `ret_null` tells whether the
caller passed a NULL `ret_dsq`.  The result is the status and the pointer
written to `*ret_dsq` (`none` for NULL, also when nothing is written). -/
def esl_abc_CreateDsq (a : ESL_ALPHABET) (alloc_ok : Bool) (fresh : Nat → Nat)
    (seq : List Char) (ret_null : Bool) : Status × Option (Nat → Nat) :=
  if alloc_ok = false then (eslEMEM, none)
  else
    let r := esl_abc_Digitize a seq fresh
    if ret_null then (r.1, none) else (r.1, some r.2)

/-- The search `while (dsq[n+1] != eslDSQ_SENTINEL) n++` of `esl_abc_dsqlen`
from `n` on, for at most `fuel` cells; `none` when no sentinel is found. -/
def esl_abc_dsqlen_from (dsq : Nat → Nat) : Nat → Nat → Option Nat
  | 0, _ => none
  | fuel + 1, n =>
    if dsq (n + 1) ≠ eslDSQ_SENTINEL then esl_abc_dsqlen_from dsq fuel (n + 1) else some n

/-- The function `esl_abc_dsqlen`. -/
def esl_abc_dsqlen (fuel : Nat) (dsq : Nat → Nat) : Option Nat :=
  esl_abc_dsqlen_from dsq fuel 0

/-- The variables of the loop of `esl_abc_dsqcat` and the array it fills. -/
structure DsqcatVars where
  status : Status
  xpos : Nat
  dsq : Nat → Nat

/-- Body of the loop of `esl_abc_dsqcat` for the character `c = s[cpos]`; a
value stored into `dsq` is reduced to a byte (`ESL_DSQ` is `uint8_t`). -/
def esl_abc_dsqcat_body (a : ESL_ALPHABET) (c : Char) (v : DsqcatVars) : DsqcatVars :=
  let x := a.inmap c.toNat
  if esl_abc_XIsValid a x then
    { v with dsq := Function.update v.dsq v.xpos x, xpos := v.xpos + 1 }
  else if x = eslDSQ_IGNORED then v
  else
    { v with
      dsq := Function.update v.dsq v.xpos (esl_abc_XGetUnknown a % 256).toNat
      xpos := v.xpos + 1
      status := eslEINVAL }

/-- The function `esl_abc_dsqcat`.  `dsq` and `L` are the values of `*dsq` and
`*L` on entry, `s` the text (`none` for NULL), `n` its announced length;
`alloc_ok` and `fresh` describe the allocation as for `esl_abc_CreateDsq` (a
reallocation keeps the array), `fuel` bounds the search of `esl_abc_dsqlen`.
The result is the status with the values of `*dsq` and `*L` on return; it is
`none` when the sentinel is not found or a NULL text is read. -/
def esl_abc_dsqcat (a : ESL_ALPHABET) (alloc_ok : Bool) (fresh : Nat → Nat) (fuel : Nat)
    (dsq : Option (Nat → Nat)) (L : Int) (s : Option (List Char)) (n : Int) :
    Option (Status × Option (Nat → Nat) × Int) :=
  let newL : Option Int :=
    if L < 0 then
      match dsq with
      | none => some 0
      | some d => (esl_abc_dsqlen fuel d).map (fun k => (k : Int))
    else some L
  match newL with
  | none => none
  | some newL =>
    let n : Int :=
      if n < 0 then
        match s with
        | none => 0
        | some t => (t.length : Int)
      else n
    if n = 0 then some (eslOK, dsq, newL)
    else if alloc_ok = false then some (eslEMEM, dsq, newL)
    else
      let d : Nat → Nat :=
        match dsq with
        | none => Function.update fresh 0 eslDSQ_SENTINEL
        | some d => d
      match s with
      | none => none
      | some t =>
        let v : DsqcatVars := { status := eslOK, xpos := (newL + 1).toNat, dsq := d }
        let v := t.foldl (fun v c => esl_abc_dsqcat_body a c v) v
        some (v.status, some (Function.update v.dsq v.xpos eslDSQ_SENTINEL),
          (v.xpos : Int) - 1)

/-! ## esl_abc_GuessAlphabet and esl_abc_Match -/

/-- An integer reduced to the range of `int` (32 bits). -/
def wrap_int32 (i : Int) : Int := (i + 2147483648) % 4294967296 - 2147483648

/-- An integer reduced to the range of `int64_t`. -/
def wrap_int64 (i : Int) : Int :=
  (i + 9223372036854775808) % 18446744073709551616 - 9223372036854775808

/-- The loop `for (i = 0; letters[i] != 0; i++) { x = ct[letters[i] - 'A'];
if (x > 0) { n += x; xs++; } }` of `esl_abc_GuessAlphabet`: `x` is an `int`
that receives an `int64_t` count, `n` an `int64_t`.  The result is `(n, xs)`. -/
def guess_tally (ct : Nat → Int) (letters : List Char) : Int × Int :=
  letters.foldl (fun (s : Int × Int) c =>
    let x := wrap_int32 (ct (c.toNat - 65))
    if 0 < x then (wrap_int64 (s.1 + x), wrap_int32 (s.2 + 1)) else s) (0, 0)

/-- The function `esl_abc_GuessAlphabet`; `ct[0..25]` are `int64_t` counts.
The result is the status and the type written to `*ret_type`.  The variable
`xn` keeps the value 0 it is initialized with. -/
def esl_abc_GuessAlphabet (ct : Nat → Int) : Status × esl_alphabet_type :=
  let n : Int := forUp 26 (fun i n => wrap_int64 (n + ct i)) 0
  let t1 := guess_tally ct "EFIJLOPQZ".toList
  let t2 := guess_tally ct "ACG".toList
  let t3 := guess_tally ct "DHKMRSVWY".toList
  let n1 := t1.1
  let x1 := t1.2
  let n2 := t2.1
  let x2 := t2.2
  let n3 := t3.1
  let x3 := t3.2
  let xn : Int := 0
  let nt := ct (84 - 65)
  let xt : Int := if 0 < nt then 1 else 0
  let nu := ct (85 - 65)
  let xu : Int := if 0 < nu then 1 else 0
  let nx := ct (88 - 65)
  let nn := ct (78 - 65)
  let type : esl_alphabet_type :=
    if n ≤ 10 then eslUNKNOWN
    else if 0 < n1 then eslAMINO
    else if wrap_int64 (wrap_int64 (n2 + nt) + nn) = n ∧ wrap_int32 (x2 + xt) = 4 then eslDNA
    else if wrap_int64 (wrap_int64 (n2 + nu) + nn) = n ∧ wrap_int32 (x2 + xu) = 4 then eslRNA
    else if wrap_int64 (wrap_int64 (wrap_int64 (wrap_int64 (wrap_int64 (n1 + n2) + n3) + nn)
          + nt) + nx) = n ∧ n2 < n3
        ∧ 15 ≤ wrap_int32 (wrap_int32 (wrap_int32 (wrap_int32 (x1 + x2) + x3) + xn) + xt) then
      eslAMINO
    else eslUNKNOWN
  if type = eslUNKNOWN then (eslEAMBIGUOUS, type) else (eslOK, type)

section MatchDef

variable {α : Type} [LinearOrderedField α] [FloorRing α]

/-- The variables `prob`, `sx`, `sy` of `esl_abc_Match`. -/
structure MatchVars (α : Type) where
  prob : Flt α
  sx : Flt α
  sy : Flt α

/-- Body of the loops over `i` of `esl_abc_Match`, with `w = p[i]` in the
first loop and `w = uniformp` in the second; the third test reads
`degen[x][i]` twice, as the source does. -/
def esl_abc_Match_body (abc : ESL_ALPHABET) (x y : Nat) (w : Nat → Flt α) (i : Nat)
    (v : MatchVars α) : MatchVars α :=
  let v := if abc.degen x i ≠ 0 then { v with sx := Flt.add v.sx (w i) } else v
  let v := if abc.degen y i ≠ 0 then { v with sy := Flt.add v.sy (w i) } else v
  if abc.degen x i ≠ 0 ∧ abc.degen x i ≠ 0 then
    { v with prob := Flt.add v.prob (Flt.mul (w i) (w i)) }
  else v

/-- The function `esl_abc_Match`, with doubles in exact arithmetic; `p` is
`none` for a NULL vector.  The second test reads `x` twice, as the source
does. -/
def esl_abc_Match (abc : ESL_ALPHABET) (x y : Nat) (p : Option (Nat → Flt α)) : Flt α :=
  if esl_abc_XIsCanonical abc x && esl_abc_XIsCanonical abc y then
    (if x = y then .fin 1 else .fin 0)
  else if !esl_abc_XIsResidue abc x || !esl_abc_XIsResidue abc x then .fin 0
  else
    match p with
    | some p =>
      let v : MatchVars α := { prob := .fin 0, sx := .fin 0, sy := .fin 0 }
      let v := forUp abc.K (esl_abc_Match_body abc x y p) v
      Flt.div v.prob (Flt.mul v.sx v.sy)
    | none =>
      let uniformp : Flt α := Flt.div (.fin 1) (Flt.ofInt (abc.K : Int))
      let v : MatchVars α := { prob := .fin 0, sx := .fin 0, sy := .fin 0 }
      let v := forUp abc.K (esl_abc_Match_body abc x y (fun _ => uniformp)) v
      Flt.div v.prob (Flt.mul v.sx v.sy)

end MatchDef
/-! ## Small concrete inputs for the alphabet functions -/

/-- Letter counts with `2^32` occurrences of the letter E and no other
letter. -/
def demo_ct_E : Nat → Int := fun i => if i = 4 then 4294967296 else 0

/-- What the round trip through `esl_abc_Digitize` and `esl_abc_Textize` needs
of an alphabet with `Kp` codes, internal symbols `sym` and input map `inmap`:
`3 <= Kp <= 258`, no character of the input map is ignored, and every
internal symbol is a 7-bit character whose code is valid and is the position
of the symbol itself. -/
def RoundTripOK (Kp : Nat) (sym : List Char) (inmap : Nat → Nat) : Prop :=
  3 ≤ Kp ∧ Kp ≤ 258 ∧ (∀ c, c < 128 → inmap c ≠ eslDSQ_IGNORED) ∧
  ∀ c, c ∈ sym → c.toNat < 128 ∧ inmap c.toNat < Kp ∧ sym.getD (inmap c.toNat) (Char.ofNat 0) = c

instance (Kp : Nat) (sym : List Char) (inmap : Nat → Nat) : Decidable (RoundTripOK Kp sym inmap) := by
  unfold RoundTripOK
  infer_instance

/-- An alphabet of 254 codes made by `esl_alphabet_CreateCustom`, in which the
character B has the code 253. -/
def demo_abc254 : ESL_ALPHABET :=
  (esl_alphabet_CreateCustom true (List.replicate 253 (Char.ofNat 65) ++ [Char.ofNat 66]) 4 254).getD
    (demo_abc eslUNKNOWN 0 0)

/-! ## A toy model whose emissions depend on the residue code -/

section DemoCodes

/-- The toy model `demo_om` with a table `rfv` of 18 rows: the match odds
ratio is 1 for the codes `0..17`; an index beyond the table reads zeros. -/
def demo_om_codes (p : ℚ) : P7_OPROFILE ℚ :=
  { rfv := fun x _ _ => if x < 18 then 1 else 0
    tfv := fun j _ => if j = 0 then 1 else 0
    xf := fun _ _ => p
    M := 4
    mode := p7_LOCAL }

/-- The digital sequence of length 0: the two sentinels. -/
def demo_dsq_empty : Nat → Nat := fun _ => eslDSQ_SENTINEL

/-- The array `demo_dsq_empty` with the code 0 at position 1. -/
def demo_dsq_other : Nat → Nat := fun i => if i = 1 then 0 else eslDSQ_SENTINEL

end DemoCodes
/-! ## Nodes of a striped row -/

section NodeDefs

variable {α : Type} [Zero α]

/-- The value held for node `k` in a striped table of `Q` vectors: lane
`(k-1) / Q` of vector `(k-1) % Q`; node 0, which does not exist, holds 0. -/
def node_val (Q : Nat) (v : Nat → M128 α) (k : Nat) : α :=
  if k = 0 then 0 else v ((k - 1) % Q) (Fin.ofNat ((k - 1) / Q))

end NodeDefs

section DemoNodes

/-- A three-node toy model in one vector: lane 3 is padding, with match odds
ratio 0; only the B->Mk transitions are open. -/
def demo_om3 : P7_OPROFILE ℚ :=
  { rfv := fun _ _ z => if z.val < 3 then 1 else 0
    tfv := fun j _ => if j = 0 then 1 else 0
    xf := fun _ _ => 1
    M := 3
    mode := p7_LOCAL }

end DemoNodes
/-! ## The float track as the engines read it -/

section EngineView

variable {α : Type} [LinearOrderedField α] [FloorRing α]

/-- The number held by a float; an infinity or a NaN, which the exact
carriers of the engines do not have, reads 0. -/
def Flt.val : Flt α → α
  | .fin x => x
  | _ => 0

/-- The float track of a complete optimized profile as the model of
`forward_engine` and `backward_engine` takes it: the same tables `rfv`, `tfv`,
`xf` with their entries as numbers, and the fields `M` and `mode`. -/
def om_engine (om : P7_OM α) : P7_OPROFILE α :=
  { rfv := fun x q z => Flt.val (om.rfv x q z)
    tfv := fun j z => Flt.val (om.tfv j z)
    xf := fun s t => Flt.val (om.xf s t)
    M := om.M
    mode := om.mode }

end EngineView

section DemoExp

/-- The values of a stand-in for `expf` that is 0 at minus infinity and 1
elsewhere, as `expf` is on the scores minus infinity and 0. -/
def demo_exp : Flt ℚ → ℚ
  | .ninf => 0
  | _ => 1

/-- The headers `demo_headers` with `demo_exp` for `expf`, lane by lane in
the vector version. -/
def demo_headers_exp : Headers ℚ :=
  { demo_headers with
    expf := fun s => .fin (demo_exp s)
    esl_sse_expf := fun v z => .fin (demo_exp (v z)) }

end DemoExp

/-! ## Small concrete inputs -/

section Demo

variable {α : Type} [Zero α] [One α]

/-- A four-node toy model (one block of four lanes): every match odds ratio
is 1, only the B->Mk transitions (which are `tfv[0]`) are open, and every
special-state parameter is `p`. -/
def demo_om (p : α) (mode : p7_mode) : P7_OPROFILE α :=
  { rfv := fun _ _ _ => 1
    tfv := fun j _ => if j = 0 then 1 else 0
    xf := fun _ _ => p
    M := 4
    mode := mode }

/-- A matrix with arbitrary previous contents. -/
def demo_ox : P7_OMX α :=
  { M := 0
    L := 0
    dpf := fun _ => { mmo := fun _ _ => 0, dmo := fun _ _ => 0, imo := fun _ _ => 0 }
    xmx := fun _ _ => 0
    totscale := 0
    has_own_scales := false }

/-- The number of float vectors used with the toy model: one. -/
def demo_NQF : Nat → Nat := fun _ => 1

/-- A math library for exact carriers: nothing is NaN or infinite. -/
def demo_lm (log : α → α) : LibM α :=
  { isnan := fun _ => false
    isinf := fun _ => 0
    log := log }

end Demo

/-! ## Basic facts about the loops -/

section LoopFacts

variable {σ : Type}

theorem forUp_succ (n : Nat) (body : Nat → σ → σ) (s : σ) :
    forUp (n + 1) body s = body n (forUp n body s) := rfl

theorem forUp_zero (body : Nat → σ → σ) (s : σ) : forUp 0 body s = s := rfl

theorem forDown_succ (n : Nat) (body : Nat → σ → σ) (s : σ) :
    forDown (n + 1) body s = forDown n body (body n s) := rfl

theorem forDown_zero (body : Nat → σ → σ) (s : σ) : forDown 0 body s = s := rfl

/-- A projection that no iteration changes is unchanged by the loop. -/
theorem forUp_proj {β : Type} (f : σ → β) (body : Nat → σ → σ)
    (h : ∀ q s, f (body q s) = f s) (n : Nat) (s : σ) :
    f (forUp n body s) = f s := by
  induction n with
  | zero => rfl
  | succ k ih => rw [forUp_succ, h, ih]

theorem forDown_proj {β : Type} (f : σ → β) (body : Nat → σ → σ)
    (h : ∀ q s, f (body q s) = f s) (n : Nat) (s : σ) :
    f (forDown n body s) = f s := by
  induction n generalizing s with
  | zero => rfl
  | succ k ih => rw [forDown_succ, ih, h]

/-- Loop invariants for the ascending loop. -/
theorem forUp_induction (Inv : Nat → σ → Prop) (body : Nat → σ → σ) (n : Nat) (s : σ)
    (h0 : Inv 0 s) (hstep : ∀ q t, q < n → Inv q t → Inv (q + 1) (body q t)) :
    Inv n (forUp n body s) := by
  have key : ∀ m, m ≤ n → Inv m (forUp m body s) := by
    intro m
    induction m with
    | zero => intro _; exact h0
    | succ k ih =>
      intro hk
      rw [forUp_succ]
      exact hstep k _ (Nat.lt_of_succ_le hk) (ih (Nat.le_of_succ_le hk))
  exact key n le_rfl

/-- Loop invariants for the descending loop. -/
theorem forDown_induction (Inv : Nat → σ → Prop) (body : Nat → σ → σ) (n : Nat) (s : σ)
    (h0 : Inv n s) (hstep : ∀ q t, q < n → Inv (q + 1) t → Inv q (body q t)) :
    Inv 0 (forDown n body s) := by
  induction n generalizing s with
  | zero => exact h0
  | succ k ih =>
    rw [forDown_succ]
    apply ih
    · exact hstep k s (Nat.lt_succ_self k) h0
    · intro q t hq hI
      exact hstep q t (Nat.lt_succ_of_lt hq) hI

end LoopFacts

section ForwardControl

variable {α : Type} [Zero α] [One α] [Add α] [Mul α] [Div α] [NatCast α]
  [LT α] [DecidableRel (fun (x y : α) => x < y)] [DecidableEq α]

/-- Without a cancellation in `1..n` the loop over positions runs to the end
and yields the iterated rows. -/
theorem fwd_rows_of_no_cancel (lm : LibM α) (cancelFlag : Nat → Bool) (do_full : Bool)
    (dsq : Nat → Nat) (Q : Nat) (om : P7_OPROFILE α) (s : FwdVars α) (n : Nat)
    (h : ∀ i, 1 ≤ i → i ≤ n → cancelFlag i = false) :
    fwd_rows lm cancelFlag do_full dsq Q om n s
      = .ok (fwd_state lm do_full dsq Q om s n) := by
  induction n with
  | zero => rfl
  | succ k ih =>
    have hk : ∀ i, 1 ≤ i → i ≤ k → cancelFlag i = false :=
      fun i h1 h2 => h i h1 (Nat.le_succ_of_le h2)
    have hc : cancelFlag (k + 1) = false := h (k + 1) (Nat.succ_le_succ (Nat.zero_le k)) le_rfl
    simp [fwd_rows, ih hk, hc, fwd_state]

/-- With a cancellation somewhere in `1..n` the loop is left with
`eslCANCELED`, at the first such position. -/
theorem fwd_rows_of_cancel (lm : LibM α) (cancelFlag : Nat → Bool) (do_full : Bool)
    (dsq : Nat → Nat) (Q : Nat) (om : P7_OPROFILE α) (s : FwdVars α) (n i : Nat)
    (hi1 : 1 ≤ i) (hin : i ≤ n) (hc : cancelFlag i = true)
    (hfirst : ∀ j, 1 ≤ j → j < i → cancelFlag j = false) :
    fwd_rows lm cancelFlag do_full dsq Q om n s
      = .error (eslCANCELED, fwd_state lm do_full dsq Q om s (i - 1)) := by
  induction n with
  | zero => omega
  | succ k ih =>
    rcases Nat.lt_or_ge i (k + 1) with hlt | hge
    · have := ih (Nat.lt_succ_iff.mp hlt)
      simp [fwd_rows, this]
    · have hik : i = k + 1 := le_antisymm hin hge
      subst hik
      have hno : ∀ j, 1 ≤ j → j ≤ k → cancelFlag j = false :=
        fun j h1 h2 => hfirst j h1 (Nat.lt_succ_of_le h2)
      simp [fwd_rows, fwd_rows_of_no_cancel lm cancelFlag do_full dsq Q om s k hno, hc]

/-- The loop over positions ends either normally with the iterated rows or
with `eslCANCELED`. -/
theorem fwd_rows_cases (lm : LibM α) (cancelFlag : Nat → Bool) (do_full : Bool)
    (dsq : Nat → Nat) (Q : Nat) (om : P7_OPROFILE α) (s : FwdVars α) (n : Nat) :
    ((∀ i, 1 ≤ i → i ≤ n → cancelFlag i = false) ∧
      fwd_rows lm cancelFlag do_full dsq Q om n s
        = .ok (fwd_state lm do_full dsq Q om s n)) ∨
    (∃ i, 1 ≤ i ∧ i ≤ n ∧ cancelFlag i = true ∧
      fwd_rows lm cancelFlag do_full dsq Q om n s
        = .error (eslCANCELED, fwd_state lm do_full dsq Q om s (i - 1))) := by
  by_cases h : ∀ i, 1 ≤ i → i ≤ n → cancelFlag i = false
  · exact Or.inl ⟨h, fwd_rows_of_no_cancel lm cancelFlag do_full dsq Q om s n h⟩
  · right
    have hex : ∃ i, (1 ≤ i ∧ i ≤ n) ∧ cancelFlag i = true := by
      by_contra hne
      apply h
      intro i h1 h2
      by_contra hc
      exact hne ⟨i, ⟨h1, h2⟩, by simpa using hc⟩
    classical
    let i := Nat.find hex
    have hi : (1 ≤ i ∧ i ≤ n) ∧ cancelFlag i = true := Nat.find_spec hex
    have hmin : ∀ j, 1 ≤ j → j < i → cancelFlag j = false := by
      intro j h1 h2
      have := Nat.find_min hex h2
      by_contra hc
      exact this ⟨⟨h1, by omega⟩, by simpa using hc⟩
    exact ⟨i, hi.1.1, hi.1.2, hi.2,
      fwd_rows_of_cancel lm cancelFlag do_full dsq Q om s n i hi.1.1 hi.1.2 hi.2 hmin⟩

@[simp] theorem setX_apply (xmx : Nat → p7x_xcells_e → α) (i : Nat) (c : p7x_xcells_e) (v : α)
    (j : Nat) (d : p7x_xcells_e) :
    setX xmx i c v j d = if j = i ∧ d = c then v else xmx j d := by
  unfold setX
  by_cases hj : j = i
  · subst hj
    by_cases hd : d = c
    · subst hd; simp
    · simp [hd]
  · simp [hj]

/-- After the storage of row `i` the register `xC` is unchanged and row `i` of
the trace holds the five special-state registers. -/
theorem fwd_store_xmx (i : Nat) (s : FwdVars α) :
    (fwd_store i s).xC = s.xC ∧ (fwd_store i s).xN = s.xN ∧ (fwd_store i s).xJ = s.xJ ∧
    (fwd_store i s).xB = s.xB ∧ (fwd_store i s).xE = s.xE ∧
    (fwd_store i s).ox.xmx i p7X_C = s.xC ∧ (fwd_store i s).ox.xmx i p7X_N = s.xN ∧
    (fwd_store i s).ox.xmx i p7X_J = s.xJ ∧ (fwd_store i s).ox.xmx i p7X_B = s.xB ∧
    (fwd_store i s).ox.xmx i p7X_E = s.xE ∧
    (fwd_store i s).ox.xmx i p7X_SCALE = s.ox.xmx i p7X_SCALE ∧
    (fwd_store i s).ox.totscale = s.ox.totscale ∧
    (∀ j, j ≠ i → (fwd_store i s).ox.xmx j = s.ox.xmx j) := by
  refine ⟨rfl, rfl, rfl, rfl, rfl, ?_, ?_, ?_, ?_, ?_, ?_, rfl, ?_⟩ <;>
    try (simp [fwd_store])
  intro j hj
  funext d
  simp [fwd_store, hj]

/-- The final register `xC` is the C value stored in row `n` of the trace. -/
theorem fwd_state_xC_stored (lm : LibM α) (do_full : Bool) (dsq : Nat → Nat) (Q L : Nat)
    (om : P7_OPROFILE α) (ox : P7_OMX α) (n : Nat) :
    (fwd_state lm do_full dsq Q om (fwd_init L Q om ox) n).ox.xmx n p7X_C
      = (fwd_state lm do_full dsq Q om (fwd_init L Q om ox) n).xC := by
  cases n with
  | zero => simp [fwd_state, fwd_init]
  | succ k =>
    simp only [fwd_state, fwd_row, fwd_row_rescale]
    exact ((fwd_store_xmx (k + 1) _).2.2.2.2.2.1).trans (fwd_store_xmx (k + 1) _).1.symm

end ForwardControl

/-! ## What a row of forward_engine does to the special states -/

section ForwardFrame

variable {α : Type} [Zero α] [One α] [Add α] [Mul α] [Div α] [NatCast α]
  [LT α] [DecidableRel (fun (x y : α) => x < y)] [DecidableEq α]

/-- The part of the variables that the block loops of a row never touch. -/
def fwd_frame (s : FwdVars α) :
    (Nat → p7x_xcells_e → α) × α × Bool × Nat × Nat × α × α × α × α × Nat × Nat :=
  (s.ox.xmx, s.ox.totscale, s.ox.has_own_scales, s.ox.M, s.ox.L, s.xN, s.xC, s.xJ, s.xB,
   s.dpc, s.dpp)

theorem fwd_frame_main (om : P7_OPROFILE α) (x : Nat) (n : Nat) (s : FwdVars α) :
    fwd_frame (forUp n (fwd_main_body om x) s) = fwd_frame s :=
  forUp_proj fwd_frame (fwd_main_body om x) (fun _ _ => rfl) n s

theorem fwd_frame_dd_first (Q : Nat) (om : P7_OPROFILE α) (s : FwdVars α) :
    fwd_frame (fwd_dd_first Q om s) = fwd_frame s := by
  unfold fwd_dd_first
  exact (forUp_proj fwd_frame (fwd_dd_first_body om) (fun _ _ => rfl) Q _).trans rfl

theorem fwd_frame_dd_serial (Q : Nat) (om : P7_OPROFILE α) (n : Nat) (s : FwdVars α) :
    fwd_frame (fwd_dd_serial Q om n s) = fwd_frame s := by
  induction n generalizing s with
  | zero => rfl
  | succ k ih =>
    unfold fwd_dd_serial
    rw [ih]
    exact (forUp_proj fwd_frame (fwd_dd_serial_body om) (fun _ _ => rfl) Q _).trans rfl

theorem fwd_frame_dd_par (Q : Nat) (om : P7_OPROFILE α) (n : Nat) (s : FwdVars α) :
    fwd_frame (fwd_dd_par Q om n s) = fwd_frame s := by
  induction n generalizing s with
  | zero => rfl
  | succ k ih =>
    unfold fwd_dd_par
    simp only
    split_ifs
    · exact (forUp_proj fwd_frame (fwd_dd_par_body om) (fun _ _ => rfl) Q _).trans rfl
    · rw [ih]
      exact (forUp_proj fwd_frame (fwd_dd_par_body om) (fun _ _ => rfl) Q _).trans rfl

theorem fwd_frame_dd_rest (Q : Nat) (om : P7_OPROFILE α) (s : FwdVars α) :
    fwd_frame (fwd_dd_rest Q om s) = fwd_frame s := by
  unfold fwd_dd_rest
  split_ifs
  · exact fwd_frame_dd_serial Q om 3 s
  · exact fwd_frame_dd_par Q om 3 s

theorem fwd_frame_collect_E (Q : Nat) (s : FwdVars α) :
    fwd_frame (fwd_collect_E Q s) = fwd_frame s := by
  unfold fwd_collect_E
  exact (forUp_proj fwd_frame fwd_collect_body (fun _ _ => rfl) Q s)

/-- The state of row `i` just before the special states are updated. -/
def fwd_row_vectors (do_full : Bool) (dsq : Nat → Nat) (Q : Nat) (om : P7_OPROFILE α)
    (i : Nat) (s : FwdVars α) : FwdVars α :=
  fwd_collect_E Q (fwd_dd_rest Q om (fwd_dd_first Q om
    (forUp Q (fwd_main_body om (dsq i)) (fwd_row_begin do_full Q i s))))

theorem fwd_row_compute_eq (do_full : Bool) (dsq : Nat → Nat) (Q : Nat) (om : P7_OPROFILE α)
    (i : Nat) (s : FwdVars α) :
    fwd_row_compute do_full dsq Q om i s
      = fwd_specials om (fwd_row_vectors do_full dsq Q om i s) := rfl

theorem fwd_frame_row_vectors (do_full : Bool) (dsq : Nat → Nat) (Q : Nat)
    (om : P7_OPROFILE α) (i : Nat) (s : FwdVars α) :
    fwd_frame (fwd_row_vectors do_full dsq Q om i s)
      = (s.ox.xmx, s.ox.totscale, s.ox.has_own_scales, s.ox.M, s.ox.L, s.xN, s.xC, s.xJ, s.xB,
         do_full.toNat * i, s.dpc) := by
  unfold fwd_row_vectors
  rw [fwd_frame_collect_E, fwd_frame_dd_rest, fwd_frame_dd_first, fwd_frame_main]
  rfl

/-- Row `i` before rescaling: the trace and `totscale` are untouched, and the
special states are updated from the new `xE` in the order N, C, J, B. -/
theorem fwd_row_compute_specials (do_full : Bool) (dsq : Nat → Nat) (Q : Nat)
    (om : P7_OPROFILE α) (i : Nat) (s : FwdVars α) :
    (fwd_row_compute do_full dsq Q om i s).ox.xmx = s.ox.xmx ∧
    (fwd_row_compute do_full dsq Q om i s).ox.totscale = s.ox.totscale ∧
    (fwd_row_compute do_full dsq Q om i s).ox.has_own_scales = s.ox.has_own_scales ∧
    (fwd_row_compute do_full dsq Q om i s).dpc = do_full.toNat * i ∧
    (fwd_row_compute do_full dsq Q om i s).dpp = s.dpc ∧
    (fwd_row_compute do_full dsq Q om i s).xN = s.xN * om.xf p7O_N p7O_LOOP ∧
    (fwd_row_compute do_full dsq Q om i s).xC
      = (s.xC * om.xf p7O_C p7O_LOOP)
        + ((fwd_row_compute do_full dsq Q om i s).xE * om.xf p7O_E p7O_MOVE) ∧
    (fwd_row_compute do_full dsq Q om i s).xJ
      = (s.xJ * om.xf p7O_J p7O_LOOP)
        + ((fwd_row_compute do_full dsq Q om i s).xE * om.xf p7O_E p7O_LOOP) ∧
    (fwd_row_compute do_full dsq Q om i s).xB
      = ((fwd_row_compute do_full dsq Q om i s).xJ * om.xf p7O_J p7O_MOVE)
        + ((fwd_row_compute do_full dsq Q om i s).xN * om.xf p7O_N p7O_MOVE) ∧
    (fwd_row_compute do_full dsq Q om i s).ox.dpf
      = (fwd_row_vectors do_full dsq Q om i s).ox.dpf ∧
    (fwd_row_compute do_full dsq Q om i s).xE = (fwd_row_vectors do_full dsq Q om i s).xE := by
  have h := fwd_frame_row_vectors do_full dsq Q om i s
  simp only [fwd_frame, Prod.mk.injEq] at h
  obtain ⟨h1, h2, h3, _, _, h6, h7, h8, h9, h10, h11⟩ := h
  rw [fwd_row_compute_eq]
  refine ⟨h1, h2, h3, h10, h11, ?_, ?_, ?_, ?_, rfl, rfl⟩
  · show (fwd_row_vectors do_full dsq Q om i s).xN * _ = _
    rw [h6]
  · show (fwd_row_vectors do_full dsq Q om i s).xC * _ + _ = _
    rw [h7]; rfl
  · show (fwd_row_vectors do_full dsq Q om i s).xJ * _ + _ = _
    rw [h8]; rfl
  · rfl

end ForwardFrame

/-! ## Reads and writes of matrix cells -/

section Cells

variable {α : Type}

@[simp] theorem MMO_setMMO (dpf : Nat → DPRow α) (r q : Nat) (v : M128 α) (r1 q1 : Nat) :
    MMO (setMMO dpf r q v) r1 q1 = if r1 = r ∧ q1 = q then v else MMO dpf r1 q1 := by
  unfold MMO setMMO
  by_cases h1 : r1 = r
  · subst h1
    by_cases h2 : q1 = q
    · subst h2; simp
    · simp [h2]
  · simp [h1]

@[simp] theorem DMO_setDMO (dpf : Nat → DPRow α) (r q : Nat) (v : M128 α) (r1 q1 : Nat) :
    DMO (setDMO dpf r q v) r1 q1 = if r1 = r ∧ q1 = q then v else DMO dpf r1 q1 := by
  unfold DMO setDMO
  by_cases h1 : r1 = r
  · subst h1
    by_cases h2 : q1 = q
    · subst h2; simp
    · simp [h2]
  · simp [h1]

@[simp] theorem IMO_setIMO (dpf : Nat → DPRow α) (r q : Nat) (v : M128 α) (r1 q1 : Nat) :
    IMO (setIMO dpf r q v) r1 q1 = if r1 = r ∧ q1 = q then v else IMO dpf r1 q1 := by
  unfold IMO setIMO
  by_cases h1 : r1 = r
  · subst h1
    by_cases h2 : q1 = q
    · subst h2; simp
    · simp [h2]
  · simp [h1]

@[simp] theorem MMO_setDMO (dpf : Nat → DPRow α) (r q : Nat) (v : M128 α) (r1 q1 : Nat) :
    MMO (setDMO dpf r q v) r1 q1 = MMO dpf r1 q1 := by
  unfold MMO setDMO
  by_cases h1 : r1 = r
  · subst h1; simp
  · simp [h1]

@[simp] theorem MMO_setIMO (dpf : Nat → DPRow α) (r q : Nat) (v : M128 α) (r1 q1 : Nat) :
    MMO (setIMO dpf r q v) r1 q1 = MMO dpf r1 q1 := by
  unfold MMO setIMO
  by_cases h1 : r1 = r
  · subst h1; simp
  · simp [h1]

@[simp] theorem DMO_setMMO (dpf : Nat → DPRow α) (r q : Nat) (v : M128 α) (r1 q1 : Nat) :
    DMO (setMMO dpf r q v) r1 q1 = DMO dpf r1 q1 := by
  unfold DMO setMMO
  by_cases h1 : r1 = r
  · subst h1; simp
  · simp [h1]

@[simp] theorem DMO_setIMO (dpf : Nat → DPRow α) (r q : Nat) (v : M128 α) (r1 q1 : Nat) :
    DMO (setIMO dpf r q v) r1 q1 = DMO dpf r1 q1 := by
  unfold DMO setIMO
  by_cases h1 : r1 = r
  · subst h1; simp
  · simp [h1]

@[simp] theorem IMO_setMMO (dpf : Nat → DPRow α) (r q : Nat) (v : M128 α) (r1 q1 : Nat) :
    IMO (setMMO dpf r q v) r1 q1 = IMO dpf r1 q1 := by
  unfold IMO setMMO
  by_cases h1 : r1 = r
  · subst h1; simp
  · simp [h1]

@[simp] theorem IMO_setDMO (dpf : Nat → DPRow α) (r q : Nat) (v : M128 α) (r1 q1 : Nat) :
    IMO (setDMO dpf r q v) r1 q1 = IMO dpf r1 q1 := by
  unfold IMO setDMO
  by_cases h1 : r1 = r
  · subst h1; simp
  · simp [h1]

/-- Two matrices agree when all their cells do. -/
theorem dpf_ext (f g : Nat → DPRow α)
    (hM : ∀ r q, MMO f r q = MMO g r q) (hD : ∀ r q, DMO f r q = DMO g r q)
    (hI : ∀ r q, IMO f r q = IMO g r q) : f = g := by
  funext r
  have h1 : (f r).mmo = (g r).mmo := funext (fun q => hM r q)
  have h2 : (f r).dmo = (g r).dmo := funext (fun q => hD r q)
  have h3 : (f r).imo = (g r).imo := funext (fun q => hI r q)
  cases hf : f r
  cases hg : g r
  simp_all

end Cells

section ForwardRescale

variable {α : Type} [Zero α] [One α] [Add α] [Mul α] [Div α] [NatCast α]
  [LT α] [DecidableRel (fun (x y : α) => x < y)] [DecidableEq α]

/-- The part of the variables untouched by the loop that scales row `dpc`. -/
def fwd_frame_scale (s : FwdVars α) :
    (Nat → p7x_xcells_e → α) × α × Bool × α × α × α × α × α × Nat × M128 α :=
  (s.ox.xmx, s.ox.totscale, s.ox.has_own_scales, s.xN, s.xC, s.xJ, s.xB, s.xE, s.dpc, s.xEv)

theorem fwd_scale_loop_frame (n : Nat) (s : FwdVars α) :
    fwd_frame_scale (forUp n fwd_scale_body s) = fwd_frame_scale s :=
  forUp_proj fwd_frame_scale fwd_scale_body (fun _ _ => rfl) n s

/-- The loop that scales row `dpc`: the cells of blocks `q < n` of that row are
multiplied by `xEv`, every other cell is unchanged. -/
theorem fwd_scale_loop_cells (n : Nat) (s : FwdVars α) (r q : Nat) :
    MMO (forUp n fwd_scale_body s).ox.dpf r q
      = (if r = s.dpc ∧ q < n then mm_mul_ps (MMO s.ox.dpf r q) s.xEv else MMO s.ox.dpf r q) ∧
    DMO (forUp n fwd_scale_body s).ox.dpf r q
      = (if r = s.dpc ∧ q < n then mm_mul_ps (DMO s.ox.dpf r q) s.xEv else DMO s.ox.dpf r q) ∧
    IMO (forUp n fwd_scale_body s).ox.dpf r q
      = (if r = s.dpc ∧ q < n then mm_mul_ps (IMO s.ox.dpf r q) s.xEv
         else IMO s.ox.dpf r q) := by
  induction n with
  | zero => simp [forUp]
  | succ k ih =>
    have hf := fwd_scale_loop_frame k s
    simp only [fwd_frame_scale, Prod.mk.injEq] at hf
    obtain ⟨_, _, _, _, _, _, _, _, hdpc, hxEv⟩ := hf
    obtain ⟨ihM, ihD, ihI⟩ := ih
    rw [forUp_succ]
    simp only [fwd_scale_body, MMO_setMMO, MMO_setDMO, MMO_setIMO, DMO_setMMO, DMO_setDMO,
      DMO_setIMO, IMO_setMMO, IMO_setDMO, IMO_setIMO, hdpc, hxEv, ihM, ihD, ihI]
    by_cases hr : r = s.dpc
    · by_cases hq : q = k
      · subst hq; subst hr; simp [ihM, ihD, ihI]
      · by_cases hlt : q < k
        · have : q < k + 1 := Nat.lt_succ_of_lt hlt
          simp [hr, hq, hlt, this]
        · have : ¬ q < k + 1 := by omega
          simp [hr, hq, hlt, this]
    · simp [hr]

/-- The result of the sparse rescaling and storage of row `i`, when the End
value exceeds the threshold. -/
theorem fwd_row_rescale_event (lm : LibM α) (Q i : Nat) (s : FwdVars α)
    (h : ((10000 : Nat) : α) < s.xE) :
    (fwd_row_rescale lm Q i s).ox.xmx i p7X_SCALE = s.xE ∧
    (fwd_row_rescale lm Q i s).ox.totscale = s.ox.totscale + lm.log s.xE ∧
    (fwd_row_rescale lm Q i s).xE = 1 ∧
    (fwd_row_rescale lm Q i s).xN = s.xN / s.xE ∧
    (fwd_row_rescale lm Q i s).xC = s.xC / s.xE ∧
    (fwd_row_rescale lm Q i s).xJ = s.xJ / s.xE ∧
    (fwd_row_rescale lm Q i s).xB = s.xB / s.xE ∧
    (fwd_row_rescale lm Q i s).dpc = s.dpc ∧
    (fwd_row_rescale lm Q i s).ox.has_own_scales = s.ox.has_own_scales ∧
    (∀ j, j ≠ i → (fwd_row_rescale lm Q i s).ox.xmx j = s.ox.xmx j) ∧
    (∀ r q, MMO (fwd_row_rescale lm Q i s).ox.dpf r q
      = if r = s.dpc ∧ q < Q then mm_mul_ps (MMO s.ox.dpf r q) (mm_set1_ps (1 / s.xE))
        else MMO s.ox.dpf r q) ∧
    (∀ r q, DMO (fwd_row_rescale lm Q i s).ox.dpf r q
      = if r = s.dpc ∧ q < Q then mm_mul_ps (DMO s.ox.dpf r q) (mm_set1_ps (1 / s.xE))
        else DMO s.ox.dpf r q) ∧
    (∀ r q, IMO (fwd_row_rescale lm Q i s).ox.dpf r q
      = if r = s.dpc ∧ q < Q then mm_mul_ps (IMO s.ox.dpf r q) (mm_set1_ps (1 / s.xE))
        else IMO s.ox.dpf r q) := by
  have hf := fwd_scale_loop_frame Q
    { s with xN := s.xN / s.xE, xC := s.xC / s.xE, xJ := s.xJ / s.xE,
             xB := s.xB / s.xE, xEv := mm_set1_ps (1 / s.xE) }
  simp only [fwd_frame_scale, Prod.mk.injEq] at hf
  obtain ⟨h1, h2, h3, h4, h5, h6, h7, h8, h9, h10⟩ := hf
  have hc := fwd_scale_loop_cells Q
    { s with xN := s.xN / s.xE, xC := s.xC / s.xE, xJ := s.xJ / s.xE,
             xB := s.xB / s.xE, xEv := mm_set1_ps (1 / s.xE) }
  simp only [fwd_row_rescale, h, if_true, fwd_rescale_event]
  refine ⟨?_, ?_, ?_, ?_, ?_, ?_, ?_, ?_, ?_, ?_, ?_, ?_, ?_⟩
  · simp [fwd_store, h8]
  · simp [fwd_store, h2, h8]
  · simp [fwd_store]
  · simp [fwd_store, h4]
  · simp [fwd_store, h5]
  · simp [fwd_store, h6]
  · simp [fwd_store, h7]
  · simp [fwd_store, h9]
  · simp [fwd_store, h3]
  · intro j hj
    funext d
    simp [fwd_store, hj, h1]
  · intro r q
    simpa [fwd_store] using (hc r q).1
  · intro r q
    simpa [fwd_store] using (hc r q).2.1
  · intro r q
    simpa [fwd_store] using (hc r q).2.2

/-- The result of the sparse rescaling and storage of row `i`, when the End
value does not exceed the threshold. -/
theorem fwd_row_rescale_none (lm : LibM α) (Q i : Nat) (s : FwdVars α)
    (h : ¬ ((10000 : Nat) : α) < s.xE) :
    (fwd_row_rescale lm Q i s).ox.xmx i p7X_SCALE = 1 ∧
    (fwd_row_rescale lm Q i s).ox.totscale = s.ox.totscale ∧
    (fwd_row_rescale lm Q i s).xE = s.xE ∧
    (fwd_row_rescale lm Q i s).xN = s.xN ∧
    (fwd_row_rescale lm Q i s).xC = s.xC ∧
    (fwd_row_rescale lm Q i s).xJ = s.xJ ∧
    (fwd_row_rescale lm Q i s).xB = s.xB ∧
    (fwd_row_rescale lm Q i s).dpc = s.dpc ∧
    (fwd_row_rescale lm Q i s).ox.has_own_scales = s.ox.has_own_scales ∧
    (∀ j, j ≠ i → (fwd_row_rescale lm Q i s).ox.xmx j = s.ox.xmx j) ∧
    (fwd_row_rescale lm Q i s).ox.dpf = s.ox.dpf := by
  simp only [fwd_row_rescale, h, if_false]
  refine ⟨?_, rfl, rfl, rfl, rfl, rfl, rfl, rfl, rfl, ?_, rfl⟩
  · simp [fwd_store]
  · intro j hj
    funext d
    simp [fwd_store, hj]

/-- After row `i` is rescaled and stored, row `i` of the trace holds the five
special-state registers. -/
theorem fwd_row_rescale_stored (lm : LibM α) (Q i : Nat) (s : FwdVars α) :
    (fwd_row_rescale lm Q i s).ox.xmx i p7X_E = (fwd_row_rescale lm Q i s).xE ∧
    (fwd_row_rescale lm Q i s).ox.xmx i p7X_N = (fwd_row_rescale lm Q i s).xN ∧
    (fwd_row_rescale lm Q i s).ox.xmx i p7X_J = (fwd_row_rescale lm Q i s).xJ ∧
    (fwd_row_rescale lm Q i s).ox.xmx i p7X_B = (fwd_row_rescale lm Q i s).xB ∧
    (fwd_row_rescale lm Q i s).ox.xmx i p7X_C = (fwd_row_rescale lm Q i s).xC := by
  unfold fwd_row_rescale
  simp only
  have h := fwd_store_xmx i
    (if ((10000 : Nat) : α) < s.xE then fwd_rescale_event lm Q i s
     else { s with ox := { s.ox with xmx := setX s.ox.xmx i p7X_SCALE 1 } })
  obtain ⟨h1, h2, h3, h4, h5, h6, h7, h8, h9, h10, _⟩ := h
  exact ⟨h10.trans h5.symm, h7.trans h2.symm, h8.trans h3.symm, h9.trans h4.symm,
    h6.trans h1.symm⟩

end ForwardRescale

/-! ## The main loop of a row of forward_engine -/

section ForwardMain

variable {α : Type} [Zero α] [One α] [Add α] [Mul α] [Div α] [NatCast α]
  [LT α] [DecidableRel (fun (x y : α) => x < y)] [DecidableEq α]

/-- Invariant of the main loop after `n` blocks, started in `s0` whose previous
row is `P`: pointers and registers are as the pure functions say, the blocks
below `n` of row `dpc` hold the new values, and everything else is as in
`s0` (in particular the blocks of the previous row that are still to be read,
also when previous and current row are the same). -/
def FwdMainInv (om : P7_OPROFILE α) (x Q : Nat) (xB : α) (P : DPRow α) (s0 : FwdVars α)
    (n : Nat) (s : FwdVars α) : Prop :=
  s.tp = 7 * n ∧ s.rp = n ∧ s.dpc = s0.dpc ∧ s.dpp = s0.dpp ∧ s.xBv = mm_set1_ps xB ∧
  s.mpv = fwd_prev Q P.mmo n ∧ s.dpv = fwd_prev Q P.dmo n ∧ s.ipv = fwd_prev Q P.imo n ∧
  s.dcv = fwd_pure_Y om x Q xB P n ∧ s.xEv = fwd_pure_xEv om x Q xB P n ∧
  (∀ q, q < n →
    MMO s.ox.dpf s0.dpc q = fwd_pure_M om x Q xB P q ∧
    DMO s.ox.dpf s0.dpc q = fwd_pure_Y om x Q xB P q ∧
    IMO s.ox.dpf s0.dpc q = fwd_pure_I om P q) ∧
  (∀ r q, (r ≠ s0.dpc ∨ n ≤ q) →
    MMO s.ox.dpf r q = MMO s0.ox.dpf r q ∧
    DMO s.ox.dpf r q = DMO s0.ox.dpf r q ∧
    IMO s.ox.dpf r q = IMO s0.ox.dpf r q)

theorem fwd_prev_succ (Q : Nat) (v : Nat → M128 α) (n : Nat) : fwd_prev Q v (n + 1) = v n := by
  simp [fwd_prev]

theorem fwd_main_step (om : P7_OPROFILE α) (x Q : Nat) (xB : α) (s0 : FwdVars α)
    (n : Nat) (s : FwdVars α)
    (h : FwdMainInv om x Q xB (s0.ox.dpf s0.dpp) s0 n s) :
    FwdMainInv om x Q xB (s0.ox.dpf s0.dpp) s0 (n + 1) (fwd_main_body om x n s) := by
  obtain ⟨htp, hrp, hdpc, hdpp, hxBv, hmpv, hdpv, hipv, hdcv, hxEv, hdone, hrest⟩ := h
  have hold := hrest s0.dpp n (Or.inr le_rfl)
  have hM : fwd_pure_M om x Q xB (s0.ox.dpf s0.dpp) n
      = mm_mul_ps
          (mm_add_ps
            (mm_add_ps
              (mm_add_ps (mm_mul_ps s.xBv (om.tfv s.tp))
                (mm_mul_ps s.mpv (om.tfv (s.tp + 1))))
              (mm_mul_ps s.ipv (om.tfv (s.tp + 1 + 1))))
            (mm_mul_ps s.dpv (om.tfv (s.tp + 1 + 1 + 1))))
          (om.rfv x s.rp) := by
    rw [htp, hrp, hxBv, hmpv, hdpv, hipv]; rfl
  refine ⟨?_, ?_, hdpc, hdpp, hxBv, ?_, ?_, ?_, ?_, ?_, ?_, ?_⟩
  · show s.tp + 1 + 1 + 1 + 1 + 1 + 1 + 1 = 7 * (n + 1)
    omega
  · show s.rp + 1 = n + 1
    omega
  · show MMO s.ox.dpf s.dpp n = _
    rw [fwd_prev_succ, hdpp, hold.1]; rfl
  · show DMO s.ox.dpf s.dpp n = _
    rw [fwd_prev_succ, hdpp, hold.2.1]; rfl
  · show IMO s.ox.dpf s.dpp n = _
    rw [fwd_prev_succ, hdpp, hold.2.2]; rfl
  · show mm_mul_ps _ (om.tfv (s.tp + 1 + 1 + 1 + 1)) = _
    rw [← hM]
    simp [fwd_pure_Y, htp]
  · show mm_add_ps s.xEv _ = _
    rw [← hM, hxEv]; rfl
  · intro q hq
    simp only [fwd_main_body, MMO_setMMO, MMO_setDMO, MMO_setIMO, DMO_setMMO, DMO_setDMO,
      DMO_setIMO, IMO_setMMO, IMO_setDMO, IMO_setIMO, hdpc, true_and]
    by_cases hqn : q = n
    · subst hqn
      rw [← hM]
      simp only [if_true]
      refine ⟨trivial, hdcv, ?_⟩
      rw [hdpp, hold.1, hold.2.2, htp]
      rfl
    · have hlt : q < n := by omega
      simp only [hqn, if_false]
      exact hdone q hlt
  · intro r q hrq
    simp only [fwd_main_body, MMO_setMMO, MMO_setDMO, MMO_setIMO, DMO_setMMO, DMO_setDMO,
      DMO_setIMO, IMO_setMMO, IMO_setDMO, IMO_setIMO, hdpc]
    have hne : ¬ (r = s0.dpc ∧ q = n) := by
      rintro ⟨h1, h2⟩
      rcases hrq with h | h
      · exact h h1
      · omega
    simp only [hne, if_false]
    exact hrest r q (by rcases hrq with h | h; exact Or.inl h; exact Or.inr (by omega))

/-- The main loop of row `i`, started from the variables `s` left by row
`i-1`: the blocks of the current row hold the pure Match, Insert and M->D
values computed from the previous row, whether or not the two rows share
their storage. -/
theorem fwd_main_spec (do_full : Bool) (om : P7_OPROFILE α) (x Q i : Nat) (s : FwdVars α) :
    FwdMainInv om x Q s.xB (s.ox.dpf s.dpc) (fwd_row_begin do_full Q i s) Q
      (forUp Q (fwd_main_body om x) (fwd_row_begin do_full Q i s)) := by
  have hP : (fwd_row_begin do_full Q i s).ox.dpf (fwd_row_begin do_full Q i s).dpp
      = s.ox.dpf s.dpc := rfl
  rw [← hP]
  apply forUp_induction
    (FwdMainInv om x Q s.xB
      ((fwd_row_begin do_full Q i s).ox.dpf (fwd_row_begin do_full Q i s).dpp)
      (fwd_row_begin do_full Q i s))
  · refine ⟨rfl, rfl, rfl, rfl, rfl, rfl, rfl, rfl, rfl, rfl, ?_, ?_⟩
    · intro q hq; omega
    · intro r q _; exact ⟨rfl, rfl, rfl⟩
  · intro q t _ hI
    exact fwd_main_step om x Q s.xB (fwd_row_begin do_full Q i s) q t hI

end ForwardMain

/-! ## The delete passes of a row of forward_engine -/

section ForwardDD

variable {α : Type} [Zero α] [One α] [Add α] [Mul α] [Div α] [NatCast α]
  [LT α] [DecidableRel (fun (x y : α) => x < y)] [DecidableEq α]

/-- What the delete passes leave alone: the special states and the trace, the
row pointers, `xEv`, all Match and Insert cells, and the Delete cells outside
the blocks `q < Q` of row `dpc`. -/
def FwdDDKeep (Q : Nat) (s0 s : FwdVars α) : Prop :=
  fwd_frame s = fwd_frame s0 ∧ s.xEv = s0.xEv ∧
  (∀ r q, MMO s.ox.dpf r q = MMO s0.ox.dpf r q ∧ IMO s.ox.dpf r q = IMO s0.ox.dpf r q) ∧
  (∀ r q, (r ≠ s0.dpc ∨ Q ≤ q) → DMO s.ox.dpf r q = DMO s0.ox.dpf r q)

theorem FwdDDKeep.refl (Q : Nat) (s : FwdVars α) : FwdDDKeep Q s s :=
  ⟨rfl, rfl, fun _ _ => ⟨rfl, rfl⟩, fun _ _ _ => rfl⟩

theorem FwdDDKeep.trans {Q : Nat} {s0 s1 s2 : FwdVars α}
    (h1 : FwdDDKeep Q s0 s1) (h2 : FwdDDKeep Q s1 s2) : FwdDDKeep Q s0 s2 := by
  obtain ⟨a1, a2, a3, a4⟩ := h1
  obtain ⟨b1, b2, b3, b4⟩ := h2
  have hdpc : s1.dpc = s0.dpc := by
    have := congrArg (fun t => t.2.2.2.2.2.2.2.2.2.1) a1
    exact this
  refine ⟨b1.trans a1, b2.trans a2, ?_, ?_⟩
  · intro r q
    exact ⟨(b3 r q).1.trans (a3 r q).1, (b3 r q).2.trans (a3 r q).2⟩
  · intro r q h
    exact (b4 r q (by rw [hdpc]; exact h)).trans (a4 r q h)

theorem FwdDDKeep.dpc {Q : Nat} {s0 s : FwdVars α} (h : FwdDDKeep Q s0 s) : s.dpc = s0.dpc :=
  congrArg (fun t => t.2.2.2.2.2.2.2.2.2.1) h.1

/-- Invariant of the first delete pass after `n` blocks, entered in `s1`. -/
def FwdFirstInv (om : P7_OPROFILE α) (Q : Nat) (s1 : FwdVars α) (n : Nat) (s : FwdVars α) :
    Prop :=
  s.tp = 7 * Q + n ∧
  s.dcv = fwd_dd_c om Q (fun q => DMO s1.ox.dpf s1.dpc q) s1.dcv n ∧
  (∀ q, q < n → DMO s.ox.dpf s1.dpc q
    = mm_add_ps (fwd_dd_c om Q (fun q => DMO s1.ox.dpf s1.dpc q) s1.dcv q)
        (DMO s1.ox.dpf s1.dpc q)) ∧
  (∀ r q, (r ≠ s1.dpc ∨ n ≤ q) → DMO s.ox.dpf r q = DMO s1.ox.dpf r q) ∧
  fwd_frame s = fwd_frame s1 ∧ s.xEv = s1.xEv ∧
  (∀ r q, MMO s.ox.dpf r q = MMO s1.ox.dpf r q ∧ IMO s.ox.dpf r q = IMO s1.ox.dpf r q)

theorem fwd_first_loop (om : P7_OPROFILE α) (Q : Nat) (s1 : FwdVars α) (h1 : s1.tp = 7 * Q) :
    FwdFirstInv om Q s1 Q (forUp Q (fwd_dd_first_body om) s1) := by
  apply forUp_induction (FwdFirstInv om Q s1)
  · refine ⟨by rw [h1]; rfl, rfl, ?_, fun _ _ _ => rfl, rfl, rfl, fun _ _ => ⟨rfl, rfl⟩⟩
    intro q hq; omega
  · intro n t _ hI
    obtain ⟨htp, hdcv, hdone, hrest, hfr, hxEv, hMI⟩ := hI
    have hdpc : t.dpc = s1.dpc := congrArg (fun t => t.2.2.2.2.2.2.2.2.2.1) hfr
    have hcell : DMO t.ox.dpf s1.dpc n = DMO s1.ox.dpf s1.dpc n := hrest _ _ (Or.inr le_rfl)
    refine ⟨?_, ?_, ?_, ?_, hfr, hxEv, ?_⟩
    · show t.tp + 1 = _
      omega
    · show mm_mul_ps (DMO (setDMO t.ox.dpf t.dpc n _) t.dpc n) (om.tfv t.tp) = _
      simp only [DMO_setDMO, and_self, if_true, hdpc, hcell, hdcv, htp, fwd_dd_c]
    · intro q hq
      show DMO (setDMO t.ox.dpf t.dpc n _) s1.dpc q = _
      simp only [DMO_setDMO, hdpc, true_and]
      by_cases hqn : q = n
      · subst hqn
        simp only [if_true, hcell, hdcv]
      · simp only [hqn, if_false]
        exact hdone q (by omega)
    · intro r q hrq
      show DMO (setDMO t.ox.dpf t.dpc n _) r q = _
      simp only [DMO_setDMO, hdpc]
      have hne : ¬ (r = s1.dpc ∧ q = n) := by
        rintro ⟨h1, h2⟩
        rcases hrq with h | h
        · exact h h1
        · omega
      simp only [hne, if_false]
      exact hrest r q (by rcases hrq with h | h; exact Or.inl h; exact Or.inr (by omega))
    · intro r q
      show MMO (setDMO t.ox.dpf t.dpc n _) r q = _ ∧ IMO (setDMO t.ox.dpf t.dpc n _) r q = _
      simp only [MMO_setDMO, IMO_setDMO]
      exact hMI r q

/-- Invariant of an extra delete pass after `n` blocks, entered in `s1`; the
parallelized version also tracks `cv`. -/
def FwdPassInv (om : P7_OPROFILE α) (Q : Nat) (s1 : FwdVars α) (n : Nat) (s : FwdVars α) :
    Prop :=
  s.tp = 7 * Q + n ∧
  s.dcv = fwd_dd_e om Q s1.dcv n ∧
  (∀ q, q < n → DMO s.ox.dpf s1.dpc q
    = mm_add_ps (fwd_dd_e om Q s1.dcv q) (DMO s1.ox.dpf s1.dpc q)) ∧
  (∀ r q, (r ≠ s1.dpc ∨ n ≤ q) → DMO s.ox.dpf r q = DMO s1.ox.dpf r q) ∧
  fwd_frame s = fwd_frame s1 ∧ s.xEv = s1.xEv ∧
  (∀ r q, MMO s.ox.dpf r q = MMO s1.ox.dpf r q ∧ IMO s.ox.dpf r q = IMO s1.ox.dpf r q)

theorem fwd_serial_loop (om : P7_OPROFILE α) (Q : Nat) (s1 : FwdVars α) (h1 : s1.tp = 7 * Q) :
    FwdPassInv om Q s1 Q (forUp Q (fwd_dd_serial_body om) s1) := by
  apply forUp_induction (FwdPassInv om Q s1)
  · refine ⟨by rw [h1]; rfl, rfl, ?_, fun _ _ _ => rfl, rfl, rfl, fun _ _ => ⟨rfl, rfl⟩⟩
    intro q hq; omega
  · intro n t _ hI
    obtain ⟨htp, hdcv, hdone, hrest, hfr, hxEv, hMI⟩ := hI
    have hdpc : t.dpc = s1.dpc := congrArg (fun t => t.2.2.2.2.2.2.2.2.2.1) hfr
    have hcell : DMO t.ox.dpf s1.dpc n = DMO s1.ox.dpf s1.dpc n := hrest _ _ (Or.inr le_rfl)
    refine ⟨?_, ?_, ?_, ?_, hfr, hxEv, ?_⟩
    · show t.tp + 1 = _
      omega
    · show mm_mul_ps t.dcv (om.tfv t.tp) = _
      simp only [hdcv, htp, fwd_dd_e]
    · intro q hq
      show DMO (setDMO t.ox.dpf t.dpc n _) s1.dpc q = _
      simp only [DMO_setDMO, hdpc, true_and]
      by_cases hqn : q = n
      · subst hqn
        simp only [if_true, hcell, hdcv]
      · simp only [hqn, if_false]
        exact hdone q (by omega)
    · intro r q hrq
      show DMO (setDMO t.ox.dpf t.dpc n _) r q = _
      simp only [DMO_setDMO, hdpc]
      have hne : ¬ (r = s1.dpc ∧ q = n) := by
        rintro ⟨h1, h2⟩
        rcases hrq with h | h
        · exact h h1
        · omega
      simp only [hne, if_false]
      exact hrest r q (by rcases hrq with h | h; exact Or.inl h; exact Or.inr (by omega))
    · intro r q
      show MMO (setDMO t.ox.dpf t.dpc n _) r q = _ ∧ IMO (setDMO t.ox.dpf t.dpc n _) r q = _
      simp only [MMO_setDMO, IMO_setDMO]
      exact hMI r q

theorem fwd_par_loop (om : P7_OPROFILE α) (Q : Nat) (s1 : FwdVars α) (h1 : s1.tp = 7 * Q)
    (hcv : s1.cv = fun _ => false) :
    FwdPassInv om Q s1 Q (forUp Q (fwd_dd_par_body om) s1) ∧
    (forUp Q (fwd_dd_par_body om) s1).cv
      = fwd_dd_cv om Q (fun q => DMO s1.ox.dpf s1.dpc q) s1.dcv Q := by
  apply forUp_induction (fun n s => FwdPassInv om Q s1 n s ∧
      s.cv = fwd_dd_cv om Q (fun q => DMO s1.ox.dpf s1.dpc q) s1.dcv n)
  · refine ⟨⟨by rw [h1]; rfl, rfl, ?_, fun _ _ _ => rfl, rfl, rfl, fun _ _ => ⟨rfl, rfl⟩⟩, hcv⟩
    intro q hq; omega
  · intro n t _ hI
    obtain ⟨⟨htp, hdcv, hdone, hrest, hfr, hxEv, hMI⟩, hcvn⟩ := hI
    have hdpc : t.dpc = s1.dpc := congrArg (fun t => t.2.2.2.2.2.2.2.2.2.1) hfr
    have hcell : DMO t.ox.dpf s1.dpc n = DMO s1.ox.dpf s1.dpc n := hrest _ _ (Or.inr le_rfl)
    refine ⟨⟨?_, ?_, ?_, ?_, hfr, hxEv, ?_⟩, ?_⟩
    · show t.tp + 1 = _
      omega
    · show mm_mul_ps t.dcv (om.tfv t.tp) = _
      simp only [hdcv, htp, fwd_dd_e]
    · intro q hq
      show DMO (setDMO t.ox.dpf t.dpc n _) s1.dpc q = _
      simp only [DMO_setDMO, hdpc, true_and]
      by_cases hqn : q = n
      · subst hqn
        simp only [if_true, hcell, hdcv]
      · simp only [hqn, if_false]
        exact hdone q (by omega)
    · intro r q hrq
      show DMO (setDMO t.ox.dpf t.dpc n _) r q = _
      simp only [DMO_setDMO, hdpc]
      have hne : ¬ (r = s1.dpc ∧ q = n) := by
        rintro ⟨h1, h2⟩
        rcases hrq with h | h
        · exact h h1
        · omega
      simp only [hne, if_false]
      exact hrest r q (by rcases hrq with h | h; exact Or.inl h; exact Or.inr (by omega))
    · intro r q
      show MMO (setDMO t.ox.dpf t.dpc n _) r q = _ ∧ IMO (setDMO t.ox.dpf t.dpc n _) r q = _
      simp only [MMO_setDMO, IMO_setDMO]
      exact hMI r q
    · show mm_or_ps t.cv (mm_cmpgt_ps (mm_add_ps t.dcv (DMO t.ox.dpf t.dpc n))
          (DMO t.ox.dpf t.dpc n)) = _
      simp only [hcvn, hdcv, hdpc, hcell, fwd_dd_cv]

theorem fwd_dd_c_congr (om : P7_OPROFILE α) (Q : Nat) (Y Y1 : Nat → M128 α) (c0 : M128 α)
    (n : Nat) (h : ∀ q, q < n → Y q = Y1 q) :
    fwd_dd_c om Q Y c0 n = fwd_dd_c om Q Y1 c0 n := by
  induction n with
  | zero => rfl
  | succ k ih =>
    simp only [fwd_dd_c]
    rw [ih (fun q hq => h q (Nat.lt_succ_of_lt hq)), h k (Nat.lt_succ_self k)]

theorem fwd_dd_cv_congr (om : P7_OPROFILE α) (Q : Nat) (D D1 : Nat → M128 α) (e0 : M128 α)
    (n : Nat) (h : ∀ q, q < n → D q = D1 q) :
    fwd_dd_cv om Q D e0 n = fwd_dd_cv om Q D1 e0 n := by
  induction n with
  | zero => rfl
  | succ k ih =>
    simp only [fwd_dd_cv]
    rw [ih (fun q hq => h q (Nat.lt_succ_of_lt hq)), h k (Nat.lt_succ_self k)]

/-- The Delete blocks of row `dpc` and the carry `dcv` are the pair `Dc`. -/
def FwdDDRel (Q : Nat) (s : FwdVars α) (Dc : (Nat → M128 α) × M128 α) : Prop :=
  s.dcv = Dc.2 ∧ ∀ q, q < Q → DMO s.ox.dpf s.dpc q = Dc.1 q

/-- The first delete pass computes `fwd_pure_first`. -/
theorem fwd_dd_first_spec (om : P7_OPROFILE α) (x Q : Nat) (xB : α) (P : DPRow α)
    (s : FwdVars α) (hQ : 0 < Q) (hdcv : s.dcv = fwd_pure_Y om x Q xB P Q)
    (hcells : ∀ q, q < Q → DMO s.ox.dpf s.dpc q = fwd_pure_Y om x Q xB P q) :
    FwdDDRel Q (fwd_dd_first Q om s) (fwd_pure_first om x Q xB P) ∧
    FwdDDKeep Q s (fwd_dd_first Q om s) := by
  have hloop := fwd_first_loop om Q
    { s with dcv := esl_sse_rightshift_ps s.dcv mm_setzero_ps,
             ox := { s.ox with dpf := setDMO s.ox.dpf s.dpc 0 mm_setzero_ps },
             tp := 7 * Q } rfl
  obtain ⟨_, hd, hdone, hrest, hfr, hxEv, hMI⟩ := hloop
  simp only at hd hdone hrest hfr hxEv hMI
  have hY : ∀ q, q < Q →
      DMO (setDMO s.ox.dpf s.dpc 0 mm_setzero_ps) s.dpc q = fwd_pure_Y om x Q xB P q := by
    intro q hq
    simp only [DMO_setDMO, true_and]
    by_cases h0 : q = 0
    · subst h0; simp [fwd_pure_Y]
    · simp only [h0, if_false]; exact hcells q hq
  have hdpc : (fwd_dd_first Q om s).dpc = s.dpc := by
    have := congrArg (fun t => t.2.2.2.2.2.2.2.2.2.1) hfr
    exact this
  have hc : ∀ n, n ≤ Q →
      fwd_dd_c om Q (fun q => DMO (setDMO s.ox.dpf s.dpc 0 mm_setzero_ps) s.dpc q)
          (esl_sse_rightshift_ps s.dcv mm_setzero_ps) n
        = fwd_dd_c om Q (fwd_pure_Y om x Q xB P)
            (esl_sse_rightshift_ps (fwd_pure_Y om x Q xB P Q) mm_setzero_ps) n := by
    intro n hn
    rw [hdcv]
    exact fwd_dd_c_congr om Q _ _ _ n (fun q hq => hY q (by omega))
  refine ⟨⟨?_, ?_⟩, ⟨hfr, hxEv, ?_, ?_⟩⟩
  · show (fwd_dd_first Q om s).dcv = _
    unfold fwd_dd_first
    rw [hd, hc Q le_rfl]
    rfl
  · intro q hq
    rw [hdpc]
    unfold fwd_dd_first
    rw [hdone q hq, hc q (le_of_lt hq), hY q hq]
    rfl
  · intro r q
    have := hMI r q
    simp only [MMO_setDMO, IMO_setDMO] at this
    exact this
  · intro r q hrq
    unfold fwd_dd_first
    rw [hrest r q hrq]
    simp only [DMO_setDMO]
    have hne : ¬ (r = s.dpc ∧ q = 0) := by
      rintro ⟨h1, h2⟩
      rcases hrq with h | h
      · exact h h1
      · omega
    simp only [hne, if_false]

/-- An extra pass of the fully serialized version computes `fwd_pure_pass`. -/
theorem fwd_serial_pass_spec (om : P7_OPROFILE α) (Q : Nat) (s : FwdVars α)
    (Dc : (Nat → M128 α) × M128 α) (h : FwdDDRel Q s Dc) :
    FwdDDRel Q (forUp Q (fwd_dd_serial_body om)
        { s with dcv := esl_sse_rightshift_ps s.dcv mm_setzero_ps, tp := 7 * Q })
      (fwd_pure_pass om Q Dc) ∧
    FwdDDKeep Q s (forUp Q (fwd_dd_serial_body om)
        { s with dcv := esl_sse_rightshift_ps s.dcv mm_setzero_ps, tp := 7 * Q }) := by
  obtain ⟨hdcv, hcells⟩ := h
  have hloop := fwd_serial_loop om Q
    { s with dcv := esl_sse_rightshift_ps s.dcv mm_setzero_ps, tp := 7 * Q } rfl
  obtain ⟨_, hd, hdone, hrest, hfr, hxEv, hMI⟩ := hloop
  simp only at hd hdone hrest hfr hxEv hMI
  have hdpc := congrArg (fun t => t.2.2.2.2.2.2.2.2.2.1) hfr
  simp only [fwd_frame] at hdpc
  refine ⟨⟨?_, ?_⟩, ⟨hfr, hxEv, hMI, hrest⟩⟩
  · rw [hd, hdcv]; rfl
  · intro q hq
    rw [hdpc, hdone q hq, hcells q hq, hdcv]
    rfl

/-- An extra pass of the parallelized version computes `fwd_pure_pass`, and
its `cv` is the mask `fwd_dd_cv`. -/
theorem fwd_par_pass_spec (om : P7_OPROFILE α) (Q : Nat) (s : FwdVars α)
    (Dc : (Nat → M128 α) × M128 α) (h : FwdDDRel Q s Dc) :
    FwdDDRel Q (forUp Q (fwd_dd_par_body om)
        { s with dcv := esl_sse_rightshift_ps s.dcv mm_setzero_ps, tp := 7 * Q,
                 cv := fun _ => false })
      (fwd_pure_pass om Q Dc) ∧
    FwdDDKeep Q s (forUp Q (fwd_dd_par_body om)
        { s with dcv := esl_sse_rightshift_ps s.dcv mm_setzero_ps, tp := 7 * Q,
                 cv := fun _ => false }) ∧
    (forUp Q (fwd_dd_par_body om)
        { s with dcv := esl_sse_rightshift_ps s.dcv mm_setzero_ps, tp := 7 * Q,
                 cv := fun _ => false }).cv
      = fwd_dd_cv om Q Dc.1 (esl_sse_rightshift_ps Dc.2 mm_setzero_ps) Q := by
  obtain ⟨hdcv, hcells⟩ := h
  have hloop := fwd_par_loop om Q
    { s with dcv := esl_sse_rightshift_ps s.dcv mm_setzero_ps, tp := 7 * Q,
             cv := fun _ => false } rfl rfl
  obtain ⟨⟨_, hd, hdone, hrest, hfr, hxEv, hMI⟩, hcv⟩ := hloop
  simp only at hd hdone hrest hfr hxEv hMI hcv
  have hdpc := congrArg (fun t => t.2.2.2.2.2.2.2.2.2.1) hfr
  simp only [fwd_frame] at hdpc
  refine ⟨⟨?_, ?_⟩, ⟨hfr, hxEv, hMI, hrest⟩, ?_⟩
  · rw [hd, hdcv]; rfl
  · intro q hq
    rw [hdpc, hdone q hq, hcells q hq, hdcv]
    rfl
  · rw [hcv, hdcv]
    exact fwd_dd_cv_congr om Q _ _ _ Q (fun q hq => hcells q hq)

theorem fwd_dd_serial_spec (om : P7_OPROFILE α) (Q n : Nat) (s : FwdVars α)
    (Dc : (Nat → M128 α) × M128 α) (h : FwdDDRel Q s Dc) :
    FwdDDRel Q (fwd_dd_serial Q om n s) (fwd_pure_serial om Q n Dc) ∧
    FwdDDKeep Q s (fwd_dd_serial Q om n s) := by
  induction n generalizing s Dc with
  | zero => exact ⟨h, FwdDDKeep.refl Q s⟩
  | succ k ih =>
    have hp := fwd_serial_pass_spec om Q s Dc h
    have hk := ih _ _ hp.1
    exact ⟨hk.1, FwdDDKeep.trans hp.2 hk.2⟩

theorem fwd_dd_par_spec (om : P7_OPROFILE α) (Q n : Nat) (s : FwdVars α)
    (Dc : (Nat → M128 α) × M128 α) (h : FwdDDRel Q s Dc) :
    FwdDDRel Q (fwd_dd_par Q om n s) (fwd_pure_par om Q n Dc) ∧
    FwdDDKeep Q s (fwd_dd_par Q om n s) := by
  induction n generalizing s Dc with
  | zero => exact ⟨h, FwdDDKeep.refl Q s⟩
  | succ k ih =>
    have hp := fwd_par_pass_spec om Q s Dc h
    obtain ⟨hp1, hp2, hp3⟩ := hp
    unfold fwd_dd_par fwd_pure_par
    simp only
    rw [hp3]
    split_ifs with hbr
    · exact ⟨hp1, hp2⟩
    · have hk := ih _ _ hp1
      exact ⟨hk.1, FwdDDKeep.trans hp2 hk.2⟩

/-- All delete passes together compute `fwd_pure_D`. -/
theorem fwd_dd_spec (om : P7_OPROFILE α) (x Q : Nat) (xB : α) (P : DPRow α)
    (s : FwdVars α) (hQ : 0 < Q) (hdcv : s.dcv = fwd_pure_Y om x Q xB P Q)
    (hcells : ∀ q, q < Q → DMO s.ox.dpf s.dpc q = fwd_pure_Y om x Q xB P q) :
    (∀ q, q < Q → DMO (fwd_dd_rest Q om (fwd_dd_first Q om s)).ox.dpf s.dpc q
      = fwd_pure_D om x Q xB P q) ∧
    FwdDDKeep Q s (fwd_dd_rest Q om (fwd_dd_first Q om s)) := by
  obtain ⟨h1, k1⟩ := fwd_dd_first_spec om x Q xB P s hQ hdcv hcells
  have hd1 : (fwd_dd_first Q om s).dpc = s.dpc := k1.dpc
  unfold fwd_dd_rest fwd_pure_D
  split_ifs with hM
  · obtain ⟨h2, k2⟩ := fwd_dd_serial_spec om Q 3 _ _ h1
    refine ⟨?_, FwdDDKeep.trans k1 k2⟩
    intro q hq
    have := h2.2 q hq
    rw [k2.dpc, hd1] at this
    exact this
  · obtain ⟨h2, k2⟩ := fwd_dd_par_spec om Q 3 _ _ h1
    refine ⟨?_, FwdDDKeep.trans k1 k2⟩
    intro q hq
    have := h2.2 q hq
    rw [k2.dpc, hd1] at this
    exact this

theorem fwd_pure_xEvD_congr (D D1 : Nat → M128 α) (v : M128 α) (n : Nat)
    (h : ∀ q, q < n → D q = D1 q) : fwd_pure_xEvD D v n = fwd_pure_xEvD D1 v n := by
  induction n with
  | zero => rfl
  | succ k ih =>
    simp only [fwd_pure_xEvD]
    rw [ih (fun q hq => h q (Nat.lt_succ_of_lt hq)), h k (Nat.lt_succ_self k)]

/-- The collection of the End value: the matrix is untouched and `xE` is the
horizontal sum of `xEv` plus all Delete vectors of the row. -/
theorem fwd_collect_spec (Q : Nat) (s : FwdVars α) (D : Nat → M128 α)
    (hD : ∀ q, q < Q → DMO s.ox.dpf s.dpc q = D q) :
    (fwd_collect_E Q s).xE = hsum (fwd_pure_xEvD D s.xEv Q) ∧
    (fwd_collect_E Q s).ox.dpf = s.ox.dpf := by
  have hloop : (forUp Q fwd_collect_body s).xEv
        = fwd_pure_xEvD (fun q => DMO s.ox.dpf s.dpc q) s.xEv Q ∧
      (forUp Q fwd_collect_body s).ox.dpf = s.ox.dpf ∧
      (forUp Q fwd_collect_body s).dpc = s.dpc := by
    apply forUp_induction (fun n (t : FwdVars α) =>
      t.xEv = fwd_pure_xEvD (fun q => DMO s.ox.dpf s.dpc q) s.xEv n ∧
      t.ox.dpf = s.ox.dpf ∧ t.dpc = s.dpc) fwd_collect_body Q s
    · exact ⟨rfl, rfl, rfl⟩
    · intro n t _ hI
      obtain ⟨h1, h2, h3⟩ := hI
      refine ⟨?_, h2, h3⟩
      show mm_add_ps (DMO t.ox.dpf t.dpc n) t.xEv = _
      rw [h1, h2, h3]
      rfl
  obtain ⟨h1, h2, _⟩ := hloop
  constructor
  · show hsum (forUp Q fwd_collect_body s).xEv = _
    rw [h1]
    exact congrArg hsum (fwd_pure_xEvD_congr _ _ _ Q hD)
  · exact h2

/-- Row `i` up to the End value, started from the variables `s` left by row
`i-1` whose row `dpc` is `P`: the blocks `q < Q` of the current row hold the
pure Match, Delete and Insert vectors, every other cell of the matrix is
untouched, and `xE` is the pure End value. -/
theorem fwd_row_vectors_spec (do_full : Bool) (dsq : Nat → Nat) (Q : Nat)
    (om : P7_OPROFILE α) (i : Nat) (s : FwdVars α) (hQ : 0 < Q) :
    (∀ q, q < Q →
      MMO (fwd_row_vectors do_full dsq Q om i s).ox.dpf (do_full.toNat * i) q
        = fwd_pure_M om (dsq i) Q s.xB (s.ox.dpf s.dpc) q ∧
      DMO (fwd_row_vectors do_full dsq Q om i s).ox.dpf (do_full.toNat * i) q
        = fwd_pure_D om (dsq i) Q s.xB (s.ox.dpf s.dpc) q ∧
      IMO (fwd_row_vectors do_full dsq Q om i s).ox.dpf (do_full.toNat * i) q
        = fwd_pure_I om (s.ox.dpf s.dpc) q) ∧
    (∀ r q, (r ≠ do_full.toNat * i ∨ Q ≤ q) →
      MMO (fwd_row_vectors do_full dsq Q om i s).ox.dpf r q = MMO s.ox.dpf r q ∧
      DMO (fwd_row_vectors do_full dsq Q om i s).ox.dpf r q = DMO s.ox.dpf r q ∧
      IMO (fwd_row_vectors do_full dsq Q om i s).ox.dpf r q = IMO s.ox.dpf r q) ∧
    (fwd_row_vectors do_full dsq Q om i s).xE
      = fwd_pure_xE om (dsq i) Q s.xB (s.ox.dpf s.dpc) := by
  have hmain := fwd_main_spec do_full om (dsq i) Q i s
  obtain ⟨_, _, hdpc, _, _, _, _, _, hdcv, hxEv, hdone, hrest⟩ := hmain
  have hdpc0 : (fwd_row_begin do_full Q i s).dpc = do_full.toNat * i := rfl
  rw [hdpc0] at hdpc hdone hrest
  have hdd := fwd_dd_spec om (dsq i) Q s.xB (s.ox.dpf s.dpc)
    (forUp Q (fwd_main_body om (dsq i)) (fwd_row_begin do_full Q i s)) hQ hdcv
    (fun q hq => by rw [hdpc]; exact (hdone q hq).2.1)
  obtain ⟨hD, hkeep⟩ := hdd
  rw [hdpc] at hD
  obtain ⟨_, kxEv, kMI, kD⟩ := hkeep
  rw [hdpc] at kD
  have hdpc2 : (fwd_dd_rest Q om (fwd_dd_first Q om
      (forUp Q (fwd_main_body om (dsq i)) (fwd_row_begin do_full Q i s)))).dpc
        = do_full.toNat * i := by
    have := FwdDDKeep.dpc (fwd_dd_spec om (dsq i) Q s.xB (s.ox.dpf s.dpc)
      (forUp Q (fwd_main_body om (dsq i)) (fwd_row_begin do_full Q i s)) hQ hdcv
      (fun q hq => by rw [hdpc]; exact (hdone q hq).2.1)).2
    rw [this, hdpc]
  have hcol := fwd_collect_spec Q (fwd_dd_rest Q om (fwd_dd_first Q om
      (forUp Q (fwd_main_body om (dsq i)) (fwd_row_begin do_full Q i s))))
    (fwd_pure_D om (dsq i) Q s.xB (s.ox.dpf s.dpc))
    (fun q hq => by rw [hdpc2]; exact hD q hq)
  obtain ⟨cE, cdpf⟩ := hcol
  have hv : (fwd_row_vectors do_full dsq Q om i s).ox.dpf
      = (fwd_dd_rest Q om (fwd_dd_first Q om
          (forUp Q (fwd_main_body om (dsq i)) (fwd_row_begin do_full Q i s)))).ox.dpf := cdpf
  refine ⟨?_, ?_, ?_⟩
  · intro q hq
    rw [hv]
    refine ⟨?_, hD q hq, ?_⟩
    · rw [(kMI _ _).1]; exact (hdone q hq).1
    · rw [(kMI _ _).2]; exact (hdone q hq).2.2
  · intro r q hrq
    rw [hv]
    refine ⟨?_, ?_, ?_⟩
    · rw [(kMI _ _).1]; exact (hrest r q hrq).1
    · rw [kD r q hrq]; exact (hrest r q hrq).2.1
    · rw [(kMI _ _).2]; exact (hrest r q hrq).2.2
  · show (fwd_collect_E Q _).xE = _
    rw [cE, kxEv, hxEv]
    rfl

end ForwardDD

/-! ## The trace of special states along the rows -/

section ForwardTrace

variable {α : Type} [Zero α] [One α] [Add α] [Mul α] [Div α] [NatCast α]
  [LT α] [DecidableRel (fun (x y : α) => x < y)] [DecidableEq α]

/-- Row `i` leaves the other rows of the trace alone. -/
theorem fwd_row_xmx_other (lm : LibM α) (do_full : Bool) (dsq : Nat → Nat) (Q : Nat)
    (om : P7_OPROFILE α) (i : Nat) (s : FwdVars α) (j : Nat) (hj : j ≠ i) :
    (fwd_row lm do_full dsq Q om i s).ox.xmx j = s.ox.xmx j := by
  unfold fwd_row
  have hc := (fwd_row_compute_specials do_full dsq Q om i s).1
  by_cases h : ((10000 : Nat) : α) < (fwd_row_compute do_full dsq Q om i s).xE
  · rw [(fwd_row_rescale_event lm Q i _ h).2.2.2.2.2.2.2.2.2.1 j hj, hc]
  · rw [(fwd_row_rescale_none lm Q i _ h).2.2.2.2.2.2.2.2.2.1 j hj, hc]

/-- Row `i` of the trace is final once row `i` has been processed. -/
theorem fwd_state_xmx_stable (lm : LibM α) (do_full : Bool) (dsq : Nat → Nat) (Q : Nat)
    (om : P7_OPROFILE α) (s : FwdVars α) (i n : Nat) (h : i ≤ n) :
    (fwd_state lm do_full dsq Q om s n).ox.xmx i
      = (fwd_state lm do_full dsq Q om s i).ox.xmx i := by
  induction n with
  | zero =>
    have : i = 0 := Nat.le_zero.mp h
    subst this; rfl
  | succ k ih =>
    rcases Nat.lt_or_ge i (k + 1) with hlt | hge
    · have hik : i ≤ k := Nat.lt_succ_iff.mp hlt
      rw [← ih hik]
      show (fwd_row lm do_full dsq Q om (k + 1) _).ox.xmx i = _
      exact fwd_row_xmx_other lm do_full dsq Q om (k + 1) _ i (by omega)
    · have : i = k + 1 := le_antisymm h hge
      subst this; rfl

/-- The row pointer `dpc` after row `n`. -/
theorem fwd_state_dpc (lm : LibM α) (do_full : Bool) (dsq : Nat → Nat) (Q L : Nat)
    (om : P7_OPROFILE α) (ox : P7_OMX α) (n : Nat) :
    (fwd_state lm do_full dsq Q om (fwd_init L Q om ox) n).dpc = do_full.toNat * n := by
  cases n with
  | zero => simp [fwd_state, fwd_init]
  | succ k =>
    show (fwd_row_rescale lm Q (k + 1) (fwd_row_compute do_full dsq Q om (k + 1) _)).dpc = _
    have hc := (fwd_row_compute_specials do_full dsq Q om (k + 1)
      (fwd_state lm do_full dsq Q om (fwd_init L Q om ox) k)).2.2.2.1
    by_cases h : ((10000 : Nat) : α) < (fwd_row_compute do_full dsq Q om (k + 1)
      (fwd_state lm do_full dsq Q om (fwd_init L Q om ox) k)).xE
    · rw [(fwd_row_rescale_event lm Q (k + 1) _ h).2.2.2.2.2.2.2.1, hc]
    · rw [(fwd_row_rescale_none lm Q (k + 1) _ h).2.2.2.2.2.2.2.1, hc]

/-- In a run without cancellation the matrix returned by `forward_engine` is
the one reached after `L` rows. -/
theorem forward_engine_ox (p7O_NQF : Nat → Nat) (lm : LibM α)
    (cancelFlag : Nat → Bool) (do_full : Bool) (dsq : Nat → Nat) (L : Nat)
    (om : P7_OPROFILE α) (ox : P7_OMX α) (opt_sc : Bool)
    (hnc : ∀ i, 1 ≤ i → i ≤ L → cancelFlag i = false) :
    (forward_engine p7O_NQF lm cancelFlag do_full dsq L om ox opt_sc).2.1
      = (fwd_state lm do_full dsq (p7O_NQF om.M) om
          (fwd_init L (p7O_NQF om.M) om ox) L).ox := by
  have h := fwd_rows_of_no_cancel lm cancelFlag do_full dsq (p7O_NQF om.M) om
    (fwd_init L (p7O_NQF om.M) om ox) L hnc
  simp only [forward_engine, h]
  split_ifs <;> rfl

/-- A call that returns `eslOK` saw no cancellation. -/
theorem forward_engine_ok_no_cancel (p7O_NQF : Nat → Nat) (lm : LibM α)
    (cancelFlag : Nat → Bool) (do_full : Bool) (dsq : Nat → Nat) (L : Nat)
    (om : P7_OPROFILE α) (ox : P7_OMX α) (opt_sc : Bool)
    (hok : (forward_engine p7O_NQF lm cancelFlag do_full dsq L om ox opt_sc).1 = eslOK) :
    ∀ i, 1 ≤ i → i ≤ L → cancelFlag i = false := by
  rcases fwd_rows_cases lm cancelFlag do_full dsq (p7O_NQF om.M) om
    (fwd_init L (p7O_NQF om.M) om ox) L with ⟨h, _⟩ | ⟨i, _, _, _, h⟩
  · exact h
  · simp [forward_engine, h] at hok

/-- What a call that returns `eslOK` did: no cancellation was seen, the final
C value passed the three range tests, and the score is computed from the
variables reached after `L` rows. -/
theorem forward_engine_ok (p7O_NQF : Nat → Nat) (lm : LibM α)
    (cancelFlag : Nat → Bool) (do_full : Bool) (dsq : Nat → Nat) (L : Nat)
    (om : P7_OPROFILE α) (ox : P7_OMX α) (opt_sc : Bool)
    (hok : (forward_engine p7O_NQF lm cancelFlag do_full dsq L om ox opt_sc).1 = eslOK) :
    (forward_engine p7O_NQF lm cancelFlag do_full dsq L om ox opt_sc).2.1
      = (fwd_state lm do_full dsq (p7O_NQF om.M) om (fwd_init L (p7O_NQF om.M) om ox) L).ox ∧
    (forward_engine p7O_NQF lm cancelFlag do_full dsq L om ox opt_sc).2.2
      = (if opt_sc then
          some ((fwd_state lm do_full dsq (p7O_NQF om.M) om
                  (fwd_init L (p7O_NQF om.M) om ox) L).ox.totscale
            + lm.log ((fwd_state lm do_full dsq (p7O_NQF om.M) om
                  (fwd_init L (p7O_NQF om.M) om ox) L).xC * om.xf p7O_C p7O_MOVE))
         else none) ∧
    ¬ (0 < L ∧ (fwd_state lm do_full dsq (p7O_NQF om.M) om
        (fwd_init L (p7O_NQF om.M) om ox) L).xC = 0) := by
  have hnc := forward_engine_ok_no_cancel p7O_NQF lm cancelFlag do_full dsq L om ox opt_sc hok
  have h := fwd_rows_of_no_cancel lm cancelFlag do_full dsq (p7O_NQF om.M) om
    (fwd_init L (p7O_NQF om.M) om ox) L hnc
  simp only [forward_engine, h] at hok ⊢
  split_ifs at hok ⊢ with h1 h2 h3 <;> simp_all

/-- In exact arithmetic, with a library that classifies nothing as NaN or
infinite, a run without cancellation returns `eslOK` as soon as the final C
value is not zero. -/
theorem forward_engine_ok_of_ne_zero (p7O_NQF : Nat → Nat) (lm : LibM α)
    (cancelFlag : Nat → Bool) (do_full : Bool) (dsq : Nat → Nat) (L : Nat)
    (om : P7_OPROFILE α) (ox : P7_OMX α) (opt_sc : Bool)
    (hnc : ∀ i, 1 ≤ i → i ≤ L → cancelFlag i = false)
    (hnan : ∀ x, lm.isnan x = false) (hinf : ∀ x, lm.isinf x ≠ 1)
    (hC : (fwd_state lm do_full dsq (p7O_NQF om.M) om
        (fwd_init L (p7O_NQF om.M) om ox) L).xC ≠ 0) :
    (forward_engine p7O_NQF lm cancelFlag do_full dsq L om ox opt_sc).1 = eslOK := by
  have h := fwd_rows_of_no_cancel lm cancelFlag do_full dsq (p7O_NQF om.M) om
    (fwd_init L (p7O_NQF om.M) om ox) L hnc
  simp only [forward_engine, h]
  simp [hnan, hinf, hC]

end ForwardTrace

/-! ## Claims about control flow and error reporting -/

section ControlClaims

variable {α : Type} [Zero α] [One α] [Add α] [Mul α] [Div α] [NatCast α]
  [LT α] [DecidableRel (fun (x y : α) => x < y)] [DecidableEq α]

/-- C7: for every sequence length `L >= 1`, if the cancellation flag is already
set at the first checkpoint, `forward_engine` returns `eslCANCELED` at
position 1, with the matrix as the initialization left it, and does not write
the score. -/
theorem C7_forward_cancelled_at_entry (p7O_NQF : Nat → Nat) (lm : LibM α)
    (cancelFlag : Nat → Bool) (do_full : Bool) (dsq : Nat → Nat) (L : Nat)
    (om : P7_OPROFILE α) (ox : P7_OMX α) (opt_sc : Bool)
    (hL : 1 ≤ L) (hset : cancelFlag 1 = true) :
    forward_engine p7O_NQF lm cancelFlag do_full dsq L om ox opt_sc
      = (eslCANCELED, (fwd_init L (p7O_NQF om.M) om ox).ox, none) := by
  have h := fwd_rows_of_cancel lm cancelFlag do_full dsq (p7O_NQF om.M) om
    (fwd_init L (p7O_NQF om.M) om ox) L 1 le_rfl hL hset (fun j h1 h2 => by omega)
  simp [forward_engine, h, fwd_state]

/-- Witness for C7: the toy model, a sequence of length 3, the flag set. -/
theorem C7_forward_cancelled_at_entry_witness :
    (1 ≤ 3 ∧ (fun _ : Nat => true) 1 = true) ∧
    forward_engine demo_NQF (demo_lm (fun x : ℚ => x)) (fun _ => true) true (fun _ => 0) 3
        (demo_om (1 : ℚ) p7_LOCAL) demo_ox true
      = (eslCANCELED, (fwd_init 3 (demo_NQF (demo_om (1 : ℚ) p7_LOCAL).M)
          (demo_om (1 : ℚ) p7_LOCAL) demo_ox).ox, none) :=
  ⟨⟨by decide, rfl⟩,
   C7_forward_cancelled_at_entry demo_NQF (demo_lm (fun x : ℚ => x)) (fun _ => true) true
      (fun _ => 0) 3 (demo_om (1 : ℚ) p7_LOCAL) demo_ox true (by decide) rfl⟩

/-- C5: in a run without cancellation, `forward_engine` returns `eslERANGE`
exactly when the final C value (the one stored in row `L`) is NaN, or is 0
with `L > 0`, or has `isinf` equal to 1; then no score is written.  In every
other case it returns `eslOK` and the score written (when `opt_sc` is not
NULL) is `totscale + log(xC * xf[C][MOVE])`, unclamped. -/
theorem C5_forward_range_error (p7O_NQF : Nat → Nat) (lm : LibM α)
    (cancelFlag : Nat → Bool) (do_full : Bool) (dsq : Nat → Nat) (L : Nat)
    (om : P7_OPROFILE α) (ox : P7_OMX α) (opt_sc : Bool)
    (hnc : ∀ i, 1 ≤ i → i ≤ L → cancelFlag i = false) :
    ((forward_engine p7O_NQF lm cancelFlag do_full dsq L om ox opt_sc).1 = eslERANGE ↔
      (lm.isnan ((forward_engine p7O_NQF lm cancelFlag do_full dsq L om ox opt_sc).2.1.xmx
          L p7X_C) = true ∨
       (0 < L ∧ (forward_engine p7O_NQF lm cancelFlag do_full dsq L om ox opt_sc).2.1.xmx
          L p7X_C = 0) ∨
       lm.isinf ((forward_engine p7O_NQF lm cancelFlag do_full dsq L om ox opt_sc).2.1.xmx
          L p7X_C) = 1)) ∧
    ((forward_engine p7O_NQF lm cancelFlag do_full dsq L om ox opt_sc).1 = eslERANGE →
      (forward_engine p7O_NQF lm cancelFlag do_full dsq L om ox opt_sc).2.2 = none) ∧
    ((forward_engine p7O_NQF lm cancelFlag do_full dsq L om ox opt_sc).1 ≠ eslERANGE →
      (forward_engine p7O_NQF lm cancelFlag do_full dsq L om ox opt_sc).1 = eslOK ∧
      (forward_engine p7O_NQF lm cancelFlag do_full dsq L om ox opt_sc).2.2 =
        if opt_sc then
          some ((forward_engine p7O_NQF lm cancelFlag do_full dsq L om ox opt_sc).2.1.totscale
            + lm.log ((forward_engine p7O_NQF lm cancelFlag do_full dsq L om ox opt_sc).2.1.xmx
                L p7X_C * om.xf p7O_C p7O_MOVE))
        else none) := by
  have h := fwd_rows_of_no_cancel lm cancelFlag do_full dsq (p7O_NQF om.M) om
    (fwd_init L (p7O_NQF om.M) om ox) L hnc
  have hx := fwd_state_xC_stored lm do_full dsq (p7O_NQF om.M) L om ox L
  simp only [forward_engine, h]
  by_cases h1 : lm.isnan (fwd_state lm do_full dsq (p7O_NQF om.M) om
      (fwd_init L (p7O_NQF om.M) om ox) L).xC = true
  · simp [h1, hx]
  · by_cases h2 : 0 < L ∧ (fwd_state lm do_full dsq (p7O_NQF om.M) om
        (fwd_init L (p7O_NQF om.M) om ox) L).xC = 0
    · simp [h1, h2, hx]
    · by_cases h3 : lm.isinf (fwd_state lm do_full dsq (p7O_NQF om.M) om
          (fwd_init L (p7O_NQF om.M) om ox) L).xC = 1
      · simp [h1, h2, h3, hx]
      · simp [h1, h2, h3, hx]

/-- The engines only ever return `eslOK`, `eslERANGE` or `eslCANCELED`. -/
theorem forward_engine_status (p7O_NQF : Nat → Nat) (lm : LibM α)
    (cancelFlag : Nat → Bool) (do_full : Bool) (dsq : Nat → Nat) (L : Nat)
    (om : P7_OPROFILE α) (ox : P7_OMX α) (opt_sc : Bool) :
    (forward_engine p7O_NQF lm cancelFlag do_full dsq L om ox opt_sc).1 = eslOK ∨
    (forward_engine p7O_NQF lm cancelFlag do_full dsq L om ox opt_sc).1 = eslERANGE ∨
    (forward_engine p7O_NQF lm cancelFlag do_full dsq L om ox opt_sc).1 = eslCANCELED := by
  rcases fwd_rows_cases lm cancelFlag do_full dsq (p7O_NQF om.M) om
    (fwd_init L (p7O_NQF om.M) om ox) L with ⟨_, h⟩ | ⟨i, _, _, _, h⟩
  · simp only [forward_engine, h]
    split_ifs <;> simp
  · simp [forward_engine, h]

theorem bck_rows_error (lm : LibM α) (cancelFlag : Nat → Bool) (do_full : Bool)
    (dsq : Nat → Nat) (Q : Nat) (om : P7_OPROFILE α) (fwd : P7_OMX α) (n : Nat)
    (s : BckVars α) (e : Status × BckVars α)
    (h : bck_rows lm cancelFlag do_full dsq Q om fwd n s = .error e) : e.1 = eslCANCELED := by
  induction n generalizing s with
  | zero => simp [bck_rows] at h
  | succ k ih =>
    by_cases hc : cancelFlag (k + 1) = true
    · simp [bck_rows, hc] at h
      rw [← h]
    · simp [bck_rows, hc] at h
      exact ih _ h

theorem backward_engine_status (p7O_NQF : Nat → Nat) (lm : LibM α)
    (cancelFlag : Nat → Bool) (do_full : Bool) (dsq : Nat → Nat) (L : Nat)
    (om : P7_OPROFILE α) (fwd bck : P7_OMX α) (opt_sc : Bool) :
    (backward_engine p7O_NQF lm cancelFlag do_full dsq L om fwd bck opt_sc).1 = eslOK ∨
    (backward_engine p7O_NQF lm cancelFlag do_full dsq L om fwd bck opt_sc).1 = eslERANGE ∨
    (backward_engine p7O_NQF lm cancelFlag do_full dsq L om fwd bck opt_sc).1 = eslCANCELED := by
  cases h : bck_rows lm cancelFlag do_full dsq (p7O_NQF om.M) om fwd (L - 1)
      (bck_init lm do_full L (p7O_NQF om.M) om fwd bck) with
  | error e =>
    have := bck_rows_error lm cancelFlag do_full dsq (p7O_NQF om.M) om fwd (L - 1) _ e h
    obtain ⟨st, s⟩ := e
    simp only at this
    simp [backward_engine, h, this]
  | ok s =>
    simp only [backward_engine, h]
    split_ifs <;> simp

/-- C8 (as the claim states it, refuted): with `L = 1` and the cancellation flag
set at every checkpoint, `backward_engine` does not return `eslCANCELED`: its
main recursion runs over positions `L-1 .. 1`, which is empty. -/
theorem C8_backward_not_cancelled_at_L1 :
    (backward_engine demo_NQF (demo_lm (fun x : ℚ => x)) (fun _ => true) true (fun _ => 0) 1
      (demo_om (1 : ℚ) p7_LOCAL) demo_ox demo_ox true).1 ≠ eslCANCELED := by
  cases h : bck_rows (demo_lm (fun x : ℚ => x)) (fun _ => true) true (fun _ => 0)
      (demo_NQF (demo_om (1 : ℚ) p7_LOCAL).M) (demo_om (1 : ℚ) p7_LOCAL) demo_ox (1 - 1)
      (bck_init (demo_lm (fun x : ℚ => x)) true 1 (demo_NQF (demo_om (1 : ℚ) p7_LOCAL).M)
        (demo_om (1 : ℚ) p7_LOCAL) demo_ox demo_ox) with
  | error e => simp [bck_rows] at h
  | ok s =>
    simp only [backward_engine, h]
    split_ifs <;> simp

/-- C8 (amended): for every `L >= 2`, if the cancellation flag is set at the
first checkpoint of `backward_engine` (position `L-1`), the call returns
`eslCANCELED` with the matrix as the initialization of row `L` left it and
writes no score; for `L <= 1` the flag is never read, so the result does not
depend on it. -/
theorem C8_backward_cancelled_at_entry (p7O_NQF : Nat → Nat) (lm : LibM α)
    (cancelFlag : Nat → Bool) (do_full : Bool) (dsq : Nat → Nat) (L : Nat)
    (om : P7_OPROFILE α) (fwd bck : P7_OMX α) (opt_sc : Bool) :
    (2 ≤ L → cancelFlag (L - 1) = true →
      backward_engine p7O_NQF lm cancelFlag do_full dsq L om fwd bck opt_sc
        = (eslCANCELED, (bck_init lm do_full L (p7O_NQF om.M) om fwd bck).bck, none)) ∧
    (L ≤ 1 →
      backward_engine p7O_NQF lm cancelFlag do_full dsq L om fwd bck opt_sc
        = backward_engine p7O_NQF lm (fun _ => false) do_full dsq L om fwd bck opt_sc) := by
  constructor
  · intro hL hset
    obtain ⟨k, hk⟩ : ∃ k, L - 1 = k + 1 := ⟨L - 2, by omega⟩
    rw [hk] at hset
    simp [backward_engine, hk, bck_rows, hset]
  · intro hL
    have h0 : L - 1 = 0 := by omega
    simp [backward_engine, h0, bck_rows]

/-- Witness for C8 (amended): a run with `L = 2` and the flag set. -/
theorem C8_backward_cancelled_at_entry_witness :
    (2 ≤ 2 ∧ (fun _ : Nat => true) (2 - 1) = true) ∧
    backward_engine demo_NQF (demo_lm (fun x : ℚ => x)) (fun _ => true) true (fun _ => 0) 2
        (demo_om (1 : ℚ) p7_LOCAL) demo_ox demo_ox true
      = (eslCANCELED, (bck_init (demo_lm (fun x : ℚ => x)) true 2
          (demo_NQF (demo_om (1 : ℚ) p7_LOCAL).M) (demo_om (1 : ℚ) p7_LOCAL)
          demo_ox demo_ox).bck, none) :=
  ⟨⟨le_rfl, rfl⟩,
   (C8_backward_cancelled_at_entry demo_NQF (demo_lm (fun x : ℚ => x)) (fun _ => true) true
      (fun _ => 0) 2 (demo_om (1 : ℚ) p7_LOCAL) demo_ox demo_ox true).1 le_rfl rfl⟩

/-- C9 (as the claim states it, refuted): in a build without `p7_DEBUGGING`
none of the four wrappers returns `eslEINVAL` for the toy model in glocal
mode, which is not a local mode. -/
theorem C9_nonlocal_not_rejected :
    p7_oprofile_IsLocal (demo_om (1 : ℚ) p7_GLOCAL) = false ∧
    (p7_Forward false demo_NQF (demo_lm (fun x : ℚ => x)) (fun _ => false) (fun _ => 0) 1
      (demo_om (1 : ℚ) p7_GLOCAL) ⟨1, 2, 2⟩ demo_ox true).1 ≠ eslEINVAL ∧
    (p7_ForwardParser false demo_NQF (demo_lm (fun x : ℚ => x)) (fun _ => false) (fun _ => 0) 1
      (demo_om (1 : ℚ) p7_GLOCAL) ⟨1, 2, 2⟩ demo_ox true).1 ≠ eslEINVAL ∧
    (p7_Backward false demo_NQF (demo_lm (fun x : ℚ => x)) (fun _ => false) (fun _ => 0) 1
      (demo_om (1 : ℚ) p7_GLOCAL) demo_ox ⟨1, 2, 2⟩ demo_ox true).1 ≠ eslEINVAL ∧
    (p7_BackwardParser false demo_NQF (demo_lm (fun x : ℚ => x)) (fun _ => false) (fun _ => 0) 1
      (demo_om (1 : ℚ) p7_GLOCAL) demo_ox ⟨1, 2, 2⟩ demo_ox true).1 ≠ eslEINVAL := by
  refine ⟨by decide, ?_, ?_, ?_, ?_⟩
  · rcases forward_engine_status demo_NQF (demo_lm (fun x : ℚ => x)) (fun _ => false) true
      (fun _ => 0) 1 (demo_om (1 : ℚ) p7_GLOCAL) demo_ox true with h | h | h <;>
      simp [p7_Forward, h]
  · rcases forward_engine_status demo_NQF (demo_lm (fun x : ℚ => x)) (fun _ => false) false
      (fun _ => 0) 1 (demo_om (1 : ℚ) p7_GLOCAL) demo_ox true with h | h | h <;>
      simp [p7_ForwardParser, h]
  · rcases backward_engine_status demo_NQF (demo_lm (fun x : ℚ => x)) (fun _ => false) true
      (fun _ => 0) 1 (demo_om (1 : ℚ) p7_GLOCAL) demo_ox demo_ox true with h | h | h <;>
      simp [p7_Backward, h]
  · rcases backward_engine_status demo_NQF (demo_lm (fun x : ℚ => x)) (fun _ => false) false
      (fun _ => 0) 1 (demo_om (1 : ℚ) p7_GLOCAL) demo_ox demo_ox true with h | h | h <;>
      simp [p7_BackwardParser, h]

/-- C9 (amended): in a build with `p7_DEBUGGING` each of `p7_Forward`,
`p7_ForwardParser`, `p7_Backward`, `p7_BackwardParser` returns `eslEINVAL` for
a model that is not in a local mode, leaving the matrix untouched and writing
no score; in a build without it they make no check and return what the
engine returns. -/
theorem C9_wrappers_local_mode_check (p7O_NQF : Nat → Nat) (lm : LibM α)
    (cancelFlag : Nat → Bool) (dsq : Nat → Nat) (L : Nat) (om : P7_OPROFILE α)
    (fwd : P7_OMX α) (al : OmxAlloc) (ox : P7_OMX α) (opt_sc : Bool)
    (hnl : p7_oprofile_IsLocal om = false) :
    p7_Forward true p7O_NQF lm cancelFlag dsq L om al ox opt_sc = (eslEINVAL, ox, none) ∧
    p7_ForwardParser true p7O_NQF lm cancelFlag dsq L om al ox opt_sc = (eslEINVAL, ox, none) ∧
    p7_Backward true p7O_NQF lm cancelFlag dsq L om fwd al ox opt_sc = (eslEINVAL, ox, none) ∧
    p7_BackwardParser true p7O_NQF lm cancelFlag dsq L om fwd al ox opt_sc
      = (eslEINVAL, ox, none) ∧
    p7_Forward false p7O_NQF lm cancelFlag dsq L om al ox opt_sc
      = forward_engine p7O_NQF lm cancelFlag true dsq L om ox opt_sc ∧
    p7_ForwardParser false p7O_NQF lm cancelFlag dsq L om al ox opt_sc
      = forward_engine p7O_NQF lm cancelFlag false dsq L om ox opt_sc ∧
    p7_Backward false p7O_NQF lm cancelFlag dsq L om fwd al ox opt_sc
      = backward_engine p7O_NQF lm cancelFlag true dsq L om fwd ox opt_sc ∧
    p7_BackwardParser false p7O_NQF lm cancelFlag dsq L om fwd al ox opt_sc
      = backward_engine p7O_NQF lm cancelFlag false dsq L om fwd ox opt_sc := by
  refine ⟨?_, ?_, ?_, ?_, ?_, ?_, ?_, ?_⟩
  · simp only [p7_Forward, hnl]; split_ifs <;> simp_all
  · simp only [p7_ForwardParser, hnl]; split_ifs <;> simp_all
  · simp only [p7_Backward, hnl]; split_ifs <;> simp_all
  · simp only [p7_BackwardParser, hnl]; split_ifs <;> simp_all
  · simp [p7_Forward]
  · simp [p7_ForwardParser]
  · simp [p7_Backward]
  · simp [p7_BackwardParser]

/-- Witness for C9 (amended): the toy model in glocal mode. -/
theorem C9_wrappers_local_mode_check_witness :
    p7_oprofile_IsLocal (demo_om (1 : ℚ) p7_GLOCAL) = false ∧
    p7_Forward true demo_NQF (demo_lm (fun x : ℚ => x)) (fun _ => false) (fun _ => 0) 1
      (demo_om (1 : ℚ) p7_GLOCAL) ⟨1, 2, 2⟩ demo_ox true = (eslEINVAL, demo_ox, none) :=
  ⟨by decide,
   (C9_wrappers_local_mode_check demo_NQF (demo_lm (fun x : ℚ => x)) (fun _ => false)
      (fun _ => 0) 1 (demo_om (1 : ℚ) p7_GLOCAL) demo_ox ⟨1, 2, 2⟩ demo_ox true (by decide)).1⟩

/-- C6 (as the claim states it, refuted): over the extended reals, with the
logarithm that is minus infinity at 0, the empty sequence gets `eslOK` and
the score minus infinity, which is not finite. -/
theorem C6_empty_sequence_score_not_finite :
    (forward_engine (α := EReal) demo_NQF
        { isnan := fun _ => false
          isinf := fun x => if x = ⊤ then 1 else if x = ⊥ then -1 else 0
          log := fun x => if x = 0 then ⊥ else ((Real.log x.toReal : ℝ) : EReal) }
        (fun _ => false) true (fun _ => 0) 0 (demo_om (1 : EReal) p7_LOCAL) demo_ox true).1
      = eslOK ∧
    (forward_engine (α := EReal) demo_NQF
        { isnan := fun _ => false
          isinf := fun x => if x = ⊤ then 1 else if x = ⊥ then -1 else 0
          log := fun x => if x = 0 then ⊥ else ((Real.log x.toReal : ℝ) : EReal) }
        (fun _ => false) true (fun _ => 0) 0 (demo_om (1 : EReal) p7_LOCAL) demo_ox true).2.2
      = some ⊥ := by
  constructor <;> simp [forward_engine, fwd_rows, fwd_init, demo_om]

/-- C6 (amended): for the empty sequence and any model, provided the library
does not classify 0 as NaN or infinite, `forward_engine` returns `eslOK`
without entering the loop, and the score it writes is
`0 + log(0 * xf[C][MOVE])`, the logarithm of zero. -/
theorem C6_empty_sequence (p7O_NQF : Nat → Nat) (lm : LibM α)
    (cancelFlag : Nat → Bool) (do_full : Bool) (dsq : Nat → Nat)
    (om : P7_OPROFILE α) (ox : P7_OMX α) (opt_sc : Bool)
    (hnan : lm.isnan 0 = false) (hinf : lm.isinf 0 ≠ 1) :
    forward_engine p7O_NQF lm cancelFlag do_full dsq 0 om ox opt_sc
      = (eslOK, (fwd_init 0 (p7O_NQF om.M) om ox).ox,
          if opt_sc then some (0 + lm.log (0 * om.xf p7O_C p7O_MOVE)) else none) := by
  have hC : (fwd_init 0 (p7O_NQF om.M) om ox).xC = 0 := rfl
  have hT : (fwd_init 0 (p7O_NQF om.M) om ox).ox.totscale = 0 := rfl
  simp only [forward_engine, fwd_rows, hC, hT, hnan]
  simp [hinf]

/-- Witness for C6 (amended): the toy model over the rationals. -/
theorem C6_empty_sequence_witness :
    ((demo_lm (fun x : ℚ => x)).isnan 0 = false ∧ (demo_lm (fun x : ℚ => x)).isinf 0 ≠ 1) ∧
    forward_engine demo_NQF (demo_lm (fun x : ℚ => x)) (fun _ => false) true (fun _ => 0) 0
        (demo_om (1 : ℚ) p7_LOCAL) demo_ox true
      = (eslOK, (fwd_init 0 (demo_NQF (demo_om (1 : ℚ) p7_LOCAL).M)
          (demo_om (1 : ℚ) p7_LOCAL) demo_ox).ox,
          if true then some (0 + (demo_lm (fun x : ℚ => x)).log
            (0 * (demo_om (1 : ℚ) p7_LOCAL).xf p7O_C p7O_MOVE)) else none) :=
  ⟨⟨rfl, by decide⟩,
   C6_empty_sequence demo_NQF (demo_lm (fun x : ℚ => x)) (fun _ => false) true (fun _ => 0)
      (demo_om (1 : ℚ) p7_LOCAL) demo_ox true rfl (by decide)⟩

end ControlClaims

/-! ## A row of forward_engine is homogeneous in the previous row -/

section ForwardHomogeneous

variable {α : Type} [LinearOrderedField α]

theorem cast_threshold : ((10000 : Nat) : α) = 10000 := by norm_num

/-- The vector `b` is `c` times the vector `a`, lane by lane. -/
def VScaled (c : α) (a b : M128 α) : Prop := ∀ z, b z = c * a z

theorem VScaled.add {c : α} {a b a1 b1 : M128 α} (h : VScaled c a b) (h1 : VScaled c a1 b1) :
    VScaled c (mm_add_ps a a1) (mm_add_ps b b1) := by
  intro z
  simp only [mm_add_ps, h z, h1 z]
  ring

theorem VScaled.mul_const {c : α} {a b : M128 α} (h : VScaled c a b) (t : M128 α) :
    VScaled c (mm_mul_ps a t) (mm_mul_ps b t) := by
  intro z
  simp only [mm_mul_ps, h z]
  ring

theorem VScaled.rightshift {c : α} {a b : M128 α} (h : VScaled c a b) :
    VScaled c (esl_sse_rightshift_ps a mm_setzero_ps) (esl_sse_rightshift_ps b mm_setzero_ps) := by
  intro z
  fin_cases z
  · simp [esl_sse_rightshift_ps, mm_setzero_ps]
  · exact h 0
  · exact h 1
  · exact h 2

theorem VScaled.zero (c : α) : VScaled c (mm_setzero_ps : M128 α) mm_setzero_ps := by
  intro z
  simp [mm_setzero_ps]

theorem VScaled.set1 (c x : α) : VScaled c (mm_set1_ps x) (mm_set1_ps (c * x)) := by
  intro z
  rfl

theorem VScaled.hsum {c : α} {a b : M128 α} (h : VScaled c a b) : hsum b = c * hsum a := by
  have e0 : (Fin.ofNat (MM_SHUFFLE 0 3 2 1 % 4) : Fin 4) = 1 := rfl
  have e1 : (Fin.ofNat (MM_SHUFFLE 0 3 2 1 / 4 % 4) : Fin 4) = 2 := rfl
  have e2 : (Fin.ofNat (MM_SHUFFLE 0 3 2 1 / 16 % 4) : Fin 4) = 3 := rfl
  have e3 : (Fin.ofNat (MM_SHUFFLE 0 3 2 1 / 64 % 4) : Fin 4) = 0 := rfl
  have f0 : (Fin.ofNat (MM_SHUFFLE 1 0 3 2 % 4) : Fin 4) = 2 := rfl
  simp only [Hmmer3.hsum, mm_store_ss, mm_add_ps, mm_shuffle_ps, e0, e1, e2, e3, f0, h 0, h 1,
    h 2, h 3]
  ring

/-- The rows `PS` and `PU` agree up to the factor `c` on the blocks `q < Q`. -/
def RowScaled (c : α) (Q : Nat) (PS PU : DPRow α) : Prop :=
  ∀ q, q < Q → VScaled c (PS.mmo q) (PU.mmo q) ∧ VScaled c (PS.dmo q) (PU.dmo q) ∧
    VScaled c (PS.imo q) (PU.imo q)

theorem fwd_prev_scaled {c : α} {Q : Nat} {v w : Nat → M128 α} (hQ : 0 < Q)
    (h : ∀ q, q < Q → VScaled c (v q) (w q)) (q : Nat) (hq : q < Q) :
    VScaled c (fwd_prev Q v q) (fwd_prev Q w q) := by
  unfold fwd_prev
  split_ifs with h0
  · exact (h (Q - 1) (by omega)).rightshift
  · exact h (q - 1) (by omega)

theorem fwd_pure_M_scaled (om : P7_OPROFILE α) (x Q : Nat) (xB c : α) (PS PU : DPRow α)
    (hQ : 0 < Q) (h : RowScaled c Q PS PU) (q : Nat) (hq : q < Q) :
    VScaled c (fwd_pure_M om x Q xB PS q) (fwd_pure_M om x Q (c * xB) PU q) := by
  unfold fwd_pure_M
  have hm := fwd_prev_scaled hQ (fun q hq => (h q hq).1) q hq
  have hd := fwd_prev_scaled hQ (fun q hq => (h q hq).2.1) q hq
  have hi := fwd_prev_scaled hQ (fun q hq => (h q hq).2.2) q hq
  exact (((((VScaled.set1 c xB).mul_const _).add (hm.mul_const _)).add
    (hi.mul_const _)).add (hd.mul_const _)).mul_const _

theorem fwd_pure_I_scaled (om : P7_OPROFILE α) (Q : Nat) (c : α) (PS PU : DPRow α)
    (h : RowScaled c Q PS PU) (q : Nat) (hq : q < Q) :
    VScaled c (fwd_pure_I om PS q) (fwd_pure_I om PU q) := by
  unfold fwd_pure_I
  exact ((h q hq).1.mul_const _).add ((h q hq).2.2.mul_const _)

theorem fwd_pure_Y_scaled (om : P7_OPROFILE α) (x Q : Nat) (xB c : α) (PS PU : DPRow α)
    (hQ : 0 < Q) (h : RowScaled c Q PS PU) (q : Nat) (hq : q ≤ Q) :
    VScaled c (fwd_pure_Y om x Q xB PS q) (fwd_pure_Y om x Q (c * xB) PU q) := by
  unfold fwd_pure_Y
  split_ifs with h0
  · exact VScaled.zero c
  · exact (fwd_pure_M_scaled om x Q xB c PS PU hQ h (q - 1) (by omega)).mul_const _

theorem fwd_pure_xEv_scaled (om : P7_OPROFILE α) (x Q : Nat) (xB c : α) (PS PU : DPRow α)
    (hQ : 0 < Q) (h : RowScaled c Q PS PU) (n : Nat) (hn : n ≤ Q) :
    VScaled c (fwd_pure_xEv om x Q xB PS n) (fwd_pure_xEv om x Q (c * xB) PU n) := by
  induction n with
  | zero => exact VScaled.zero c
  | succ k ih =>
    simp only [fwd_pure_xEv]
    exact (ih (by omega)).add (fwd_pure_M_scaled om x Q xB c PS PU hQ h k (by omega))

/-- The pairs (Delete blocks, carry) agree up to the factor `c`. -/
def PairScaled (c : α) (Q : Nat) (A B : (Nat → M128 α) × M128 α) : Prop :=
  VScaled c A.2 B.2 ∧ ∀ q, q < Q → VScaled c (A.1 q) (B.1 q)

theorem fwd_dd_c_scaled (om : P7_OPROFILE α) (Q : Nat) (c : α) (Y Y1 : Nat → M128 α)
    (c0 c1 : M128 α) (hY : ∀ q, q < Q → VScaled c (Y q) (Y1 q)) (h0 : VScaled c c0 c1)
    (n : Nat) (hn : n ≤ Q) :
    VScaled c (fwd_dd_c om Q Y c0 n) (fwd_dd_c om Q Y1 c1 n) := by
  induction n with
  | zero => exact h0
  | succ k ih =>
    simp only [fwd_dd_c]
    exact ((ih (by omega)).add (hY k (by omega))).mul_const _

theorem fwd_dd_e_scaled (om : P7_OPROFILE α) (Q : Nat) (c : α) (e0 e1 : M128 α)
    (h0 : VScaled c e0 e1) (n : Nat) :
    VScaled c (fwd_dd_e om Q e0 n) (fwd_dd_e om Q e1 n) := by
  induction n with
  | zero => exact h0
  | succ k ih =>
    simp only [fwd_dd_e]
    exact ih.mul_const _

theorem fwd_pure_first_scaled (om : P7_OPROFILE α) (x Q : Nat) (xB c : α) (PS PU : DPRow α)
    (hQ : 0 < Q) (h : RowScaled c Q PS PU) :
    PairScaled c Q (fwd_pure_first om x Q xB PS) (fwd_pure_first om x Q (c * xB) PU) := by
  have hY := fun q (hq : q ≤ Q) => fwd_pure_Y_scaled om x Q xB c PS PU hQ h q hq
  have hc := fun n (hn : n ≤ Q) => fwd_dd_c_scaled om Q c _ _ _ _
    (fun q hq => hY q (le_of_lt hq)) (hY Q le_rfl).rightshift n hn
  exact ⟨hc Q le_rfl, fun q hq => (hc q (le_of_lt hq)).add (hY q (le_of_lt hq))⟩

theorem fwd_pure_pass_scaled (om : P7_OPROFILE α) (Q : Nat) (c : α)
    (A B : (Nat → M128 α) × M128 α) (h : PairScaled c Q A B) :
    PairScaled c Q (fwd_pure_pass om Q A) (fwd_pure_pass om Q B) := by
  have he := fun n => fwd_dd_e_scaled om Q c _ _ h.1.rightshift n
  exact ⟨he Q, fun q hq => (he q).add (h.2 q hq)⟩

theorem fwd_pure_serial_scaled (om : P7_OPROFILE α) (Q : Nat) (c : α) (n : Nat)
    (A B : (Nat → M128 α) × M128 α) (h : PairScaled c Q A B) :
    PairScaled c Q (fwd_pure_serial om Q n A) (fwd_pure_serial om Q n B) := by
  induction n generalizing A B with
  | zero => exact h
  | succ k ih => exact ih _ _ (fwd_pure_pass_scaled om Q c A B h)

theorem fwd_dd_cv_scaled (om : P7_OPROFILE α) (Q : Nat) (c : α) (hc : 0 < c)
    (D D1 : Nat → M128 α) (e0 e1 : M128 α) (hD : ∀ q, q < Q → VScaled c (D q) (D1 q))
    (h0 : VScaled c e0 e1) (n : Nat) (hn : n ≤ Q) :
    fwd_dd_cv om Q D1 e1 n = fwd_dd_cv om Q D e0 n := by
  induction n with
  | zero => rfl
  | succ k ih =>
    have hcmp : mm_cmpgt_ps (mm_add_ps (fwd_dd_e om Q e1 k) (D1 k)) (D1 k)
        = mm_cmpgt_ps (mm_add_ps (fwd_dd_e om Q e0 k) (D k)) (D k) := by
      funext z
      have he := fwd_dd_e_scaled om Q c e0 e1 h0 k z
      have hd := hD k (by omega) z
      have key : c * D k z < c * fwd_dd_e om Q e0 k z + c * D k z ↔
          D k z < fwd_dd_e om Q e0 k z + D k z := by
        rw [← mul_add]
        exact mul_lt_mul_left hc
      show decide (D1 k z < fwd_dd_e om Q e1 k z + D1 k z)
        = decide (D k z < fwd_dd_e om Q e0 k z + D k z)
      rw [he, hd]
      exact decide_eq_decide.mpr key
    simp only [fwd_dd_cv]
    rw [ih (by omega), hcmp]

theorem fwd_pure_par_scaled (om : P7_OPROFILE α) (Q : Nat) (c : α) (hc : 0 < c) (n : Nat)
    (A B : (Nat → M128 α) × M128 α) (h : PairScaled c Q A B) :
    PairScaled c Q (fwd_pure_par om Q n A) (fwd_pure_par om Q n B) := by
  induction n generalizing A B with
  | zero => exact h
  | succ k ih =>
    unfold fwd_pure_par
    rw [fwd_dd_cv_scaled om Q c hc A.1 B.1 _ _ h.2 h.1.rightshift Q le_rfl]
    split_ifs
    · exact fwd_pure_pass_scaled om Q c A B h
    · exact ih _ _ (fwd_pure_pass_scaled om Q c A B h)

theorem fwd_pure_D_scaled (om : P7_OPROFILE α) (x Q : Nat) (xB c : α) (hc : 0 < c)
    (PS PU : DPRow α) (hQ : 0 < Q) (h : RowScaled c Q PS PU) (q : Nat) (hq : q < Q) :
    VScaled c (fwd_pure_D om x Q xB PS q) (fwd_pure_D om x Q (c * xB) PU q) := by
  unfold fwd_pure_D
  have h1 := fwd_pure_first_scaled om x Q xB c PS PU hQ h
  split_ifs
  · exact (fwd_pure_serial_scaled om Q c 3 _ _ h1).2 q hq
  · exact (fwd_pure_par_scaled om Q c hc 3 _ _ h1).2 q hq

theorem fwd_pure_xEvD_scaled (c : α) (Q : Nat) (D D1 : Nat → M128 α) (v v1 : M128 α)
    (hD : ∀ q, q < Q → VScaled c (D q) (D1 q)) (hv : VScaled c v v1) (n : Nat) (hn : n ≤ Q) :
    VScaled c (fwd_pure_xEvD D v n) (fwd_pure_xEvD D1 v1 n) := by
  induction n with
  | zero => exact hv
  | succ k ih =>
    simp only [fwd_pure_xEvD]
    exact (hD k (by omega)).add (ih (by omega))

theorem fwd_pure_xE_scaled (om : P7_OPROFILE α) (x Q : Nat) (xB c : α) (hc : 0 < c)
    (PS PU : DPRow α) (hQ : 0 < Q) (h : RowScaled c Q PS PU) :
    fwd_pure_xE om x Q (c * xB) PU = c * fwd_pure_xE om x Q xB PS := by
  unfold fwd_pure_xE
  exact (fwd_pure_xEvD_scaled c Q _ _ _ _
    (fun q hq => fwd_pure_D_scaled om x Q xB c hc PS PU hQ h q hq)
    (fwd_pure_xEv_scaled om x Q xB c PS PU hQ h Q le_rfl) Q le_rfl).hsum

end ForwardHomogeneous

/-! ## The rescaled rows against the rows without rescaling -/

section ForwardScaledRel

variable {α : Type} [LinearOrderedField α]

/-- The variables `U` are `c` times the variables `S`: special states and the
blocks `q < Q` of the current row. -/
def FwdScaledRel (c : α) (Q : Nat) (S U : FwdVars α) : Prop :=
  U.xN = c * S.xN ∧ U.xC = c * S.xC ∧ U.xJ = c * S.xJ ∧ U.xB = c * S.xB ∧
  U.dpc = S.dpc ∧ RowScaled c Q (S.ox.dpf S.dpc) (U.ox.dpf U.dpc)

/-- Pure description of row `i` before rescaling. -/
theorem fwd_row_compute_spec (do_full : Bool) (dsq : Nat → Nat) (Q : Nat)
    (om : P7_OPROFILE α) (i : Nat) (s : FwdVars α) (hQ : 0 < Q) :
    (fwd_row_compute do_full dsq Q om i s).xE
      = fwd_pure_xE om (dsq i) Q s.xB (s.ox.dpf s.dpc) ∧
    (fwd_row_compute do_full dsq Q om i s).dpc = do_full.toNat * i ∧
    (∀ q, q < Q →
      MMO (fwd_row_compute do_full dsq Q om i s).ox.dpf (do_full.toNat * i) q
        = fwd_pure_M om (dsq i) Q s.xB (s.ox.dpf s.dpc) q ∧
      DMO (fwd_row_compute do_full dsq Q om i s).ox.dpf (do_full.toNat * i) q
        = fwd_pure_D om (dsq i) Q s.xB (s.ox.dpf s.dpc) q ∧
      IMO (fwd_row_compute do_full dsq Q om i s).ox.dpf (do_full.toNat * i) q
        = fwd_pure_I om (s.ox.dpf s.dpc) q) := by
  have hv := fwd_row_vectors_spec do_full dsq Q om i s hQ
  have hs := fwd_row_compute_specials do_full dsq Q om i s
  obtain ⟨_, _, _, hdpc, _, _, _, _, _, hdpf, hxE⟩ := hs
  refine ⟨by rw [hxE]; exact hv.2.2, hdpc, ?_⟩
  intro q hq
  rw [hdpf]
  exact hv.1 q hq

/-- One row before rescaling keeps the factor between the two runs, and the
End values differ by the same factor. -/
theorem fwd_row_compute_scaled (do_full : Bool) (dsq : Nat → Nat) (Q : Nat)
    (om : P7_OPROFILE α) (i : Nat) (c : α) (hc : 0 < c) (hQ : 0 < Q) (S U : FwdVars α)
    (h : FwdScaledRel c Q S U) :
    FwdScaledRel c Q (fwd_row_compute do_full dsq Q om i S)
      (fwd_row_compute do_full dsq Q om i U) ∧
    (fwd_row_compute do_full dsq Q om i U).xE
      = c * (fwd_row_compute do_full dsq Q om i S).xE := by
  obtain ⟨hN, hC, hJ, hB, hdpc, hrow⟩ := h
  obtain ⟨sE, sdpc, scell⟩ := fwd_row_compute_spec do_full dsq Q om i S hQ
  obtain ⟨uE, udpc, ucell⟩ := fwd_row_compute_spec do_full dsq Q om i U hQ
  obtain ⟨_, _, _, _, _, sN, sC, sJ, sB, _, _⟩ := fwd_row_compute_specials do_full dsq Q om i S
  obtain ⟨_, _, _, _, _, uN, uC, uJ, uB, _, _⟩ := fwd_row_compute_specials do_full dsq Q om i U
  have hE : (fwd_row_compute do_full dsq Q om i U).xE
      = c * (fwd_row_compute do_full dsq Q om i S).xE := by
    rw [uE, sE, hB]
    exact fwd_pure_xE_scaled om (dsq i) Q S.xB c hc _ _ hQ hrow
  have hN2 : (fwd_row_compute do_full dsq Q om i U).xN
      = c * (fwd_row_compute do_full dsq Q om i S).xN := by
    rw [uN, sN, hN]; ring
  have hJ2 : (fwd_row_compute do_full dsq Q om i U).xJ
      = c * (fwd_row_compute do_full dsq Q om i S).xJ := by
    rw [uJ, sJ, hJ, hE]; ring
  refine ⟨⟨hN2, ?_, hJ2, ?_, by rw [udpc, sdpc], ?_⟩, hE⟩
  · rw [uC, sC, hC, hE]; ring
  · rw [uB, sB, hJ2, hN2]; ring
  · intro q hq
    rw [udpc, sdpc]
    obtain ⟨s1, s2, s3⟩ := scell q hq
    obtain ⟨u1, u2, u3⟩ := ucell q hq
    refine ⟨?_, ?_, ?_⟩
    · show VScaled c (MMO _ _ q) (MMO _ _ q)
      rw [s1, u1, hB]
      exact fwd_pure_M_scaled om (dsq i) Q S.xB c _ _ hQ hrow q hq
    · show VScaled c (DMO _ _ q) (DMO _ _ q)
      rw [s2, u2, hB]
      exact fwd_pure_D_scaled om (dsq i) Q S.xB c hc _ _ hQ hrow q hq
    · show VScaled c (IMO _ _ q) (IMO _ _ q)
      rw [s3, u3]
      exact fwd_pure_I_scaled om Q c _ _ hrow q hq

theorem scaled_div (c x e : α) (he : e ≠ 0) : c * x = c * e * (x / e) := by
  field_simp
  ring

theorem scaled_mul_inv (c x e : α) (he : e ≠ 0) : c * x = c * e * (x * (1 / e)) := by
  field_simp
  ring

/-- The row without rescaling stores what was computed, with scale factor 1. -/
theorem fwd_row_noscale_spec (i : Nat) (s : FwdVars α) :
    (fwd_row_noscale i s).ox.xmx i p7X_SCALE = 1 ∧
    (fwd_row_noscale i s).xE = s.xE ∧ (fwd_row_noscale i s).xN = s.xN ∧
    (fwd_row_noscale i s).xC = s.xC ∧ (fwd_row_noscale i s).xJ = s.xJ ∧
    (fwd_row_noscale i s).xB = s.xB ∧ (fwd_row_noscale i s).dpc = s.dpc ∧
    (fwd_row_noscale i s).ox.dpf = s.ox.dpf ∧
    (fwd_row_noscale i s).ox.xmx i p7X_E = s.xE ∧ (fwd_row_noscale i s).ox.xmx i p7X_N = s.xN ∧
    (fwd_row_noscale i s).ox.xmx i p7X_J = s.xJ ∧ (fwd_row_noscale i s).ox.xmx i p7X_B = s.xB ∧
    (fwd_row_noscale i s).ox.xmx i p7X_C = s.xC := by
  refine ⟨?_, rfl, rfl, rfl, rfl, rfl, rfl, rfl, ?_, ?_, ?_, ?_, ?_⟩ <;>
    simp [fwd_row_noscale, fwd_store]

/-- One full row: the factor between the two runs is multiplied by the scale
factor stored for the row. -/
theorem fwd_row_scaled (lm : LibM α) (do_full : Bool) (dsq : Nat → Nat) (Q : Nat)
    (om : P7_OPROFILE α) (i : Nat) (c : α) (hc : 0 < c) (hQ : 0 < Q) (S U : FwdVars α)
    (h : FwdScaledRel c Q S U) :
    FwdScaledRel (c * (fwd_row lm do_full dsq Q om i S).ox.xmx i p7X_SCALE) Q
      (fwd_row lm do_full dsq Q om i S)
      (fwd_row_noscale i (fwd_row_compute do_full dsq Q om i U)) ∧
    (fwd_row_noscale i (fwd_row_compute do_full dsq Q om i U)).xE
      = c * (fwd_row lm do_full dsq Q om i S).ox.xmx i p7X_SCALE
          * (fwd_row lm do_full dsq Q om i S).xE ∧
    0 < (fwd_row lm do_full dsq Q om i S).ox.xmx i p7X_SCALE := by
  obtain ⟨⟨hN, hC, hJ, hB, hdpc, hrow⟩, hE⟩ :=
    fwd_row_compute_scaled do_full dsq Q om i c hc hQ S U h
  obtain ⟨_, nE, nN, nC, nJ, nB, ndpc, ndpf, _⟩ :=
    fwd_row_noscale_spec i (fwd_row_compute do_full dsq Q om i U)
  unfold fwd_row
  by_cases hev : ((10000 : Nat) : α) < (fwd_row_compute do_full dsq Q om i S).xE
  · obtain ⟨e1, _, e3, e4, e5, e6, e7, e8, _, _, eM, eD, eI⟩ :=
      fwd_row_rescale_event lm Q i _ hev
    have hpos : (0 : α) < (fwd_row_compute do_full dsq Q om i S).xE := by
      rw [cast_threshold] at hev
      linarith
    have hne : (fwd_row_compute do_full dsq Q om i S).xE ≠ 0 := ne_of_gt hpos
    rw [e1]
    refine ⟨⟨?_, ?_, ?_, ?_, ?_, ?_⟩, ?_, hpos⟩
    · rw [nN, e4, hN]; exact scaled_div _ _ _ hne
    · rw [nC, e5, hC]; exact scaled_div _ _ _ hne
    · rw [nJ, e6, hJ]; exact scaled_div _ _ _ hne
    · rw [nB, e7, hB]; exact scaled_div _ _ _ hne
    · rw [ndpc, e8, hdpc]
    · intro q hq
      rw [ndpc, ndpf, e8]
      obtain ⟨r1, r2, r3⟩ := hrow q hq
      refine ⟨?_, ?_, ?_⟩
      · intro z
        show MMO _ _ q z = _ * MMO _ _ q z
        rw [eM]
        simp only [hq, and_self, if_true, mm_mul_ps, mm_set1_ps]
        have := r1 z
        simp only [MMO] at this ⊢
        rw [this]; exact scaled_mul_inv _ _ _ hne
      · intro z
        show DMO _ _ q z = _ * DMO _ _ q z
        rw [eD]
        simp only [hq, and_self, if_true, mm_mul_ps, mm_set1_ps]
        have := r2 z
        simp only [DMO] at this ⊢
        rw [this]; exact scaled_mul_inv _ _ _ hne
      · intro z
        show IMO _ _ q z = _ * IMO _ _ q z
        rw [eI]
        simp only [hq, and_self, if_true, mm_mul_ps, mm_set1_ps]
        have := r3 z
        simp only [IMO] at this ⊢
        rw [this]; exact scaled_mul_inv _ _ _ hne
    · rw [nE, e3, hE]; ring
  · obtain ⟨e1, _, e3, e4, e5, e6, e7, e8, _, _, e11⟩ := fwd_row_rescale_none lm Q i _ hev
    rw [e1]
    refine ⟨⟨?_, ?_, ?_, ?_, ?_, ?_⟩, ?_, one_pos⟩
    · rw [nN, e4, hN]; ring
    · rw [nC, e5, hC]; ring
    · rw [nJ, e6, hJ]; ring
    · rw [nB, e7, hB]; ring
    · rw [ndpc, e8, hdpc]
    · rw [ndpc, ndpf, e8, e11, mul_one]
      exact hrow
    · rw [nE, e3, hE]; ring

/-- The product of the scale factors stored for rows `1..n`. -/
theorem fwd_state_scaled (lm : LibM α) (do_full : Bool) (dsq : Nat → Nat) (Q : Nat)
    (om : P7_OPROFILE α) (s0 : FwdVars α) (hQ : 0 < Q) (n : Nat) :
    0 < (∏ j in Finset.Icc 1 n, (fwd_state lm do_full dsq Q om s0 j).ox.xmx j p7X_SCALE) ∧
    FwdScaledRel
      (∏ j in Finset.Icc 1 n, (fwd_state lm do_full dsq Q om s0 j).ox.xmx j p7X_SCALE) Q
      (fwd_state lm do_full dsq Q om s0 n) (fwd_state_unscaled do_full dsq Q om s0 n) ∧
    (1 ≤ n → (fwd_state_unscaled do_full dsq Q om s0 n).xE
      = (∏ j in Finset.Icc 1 n, (fwd_state lm do_full dsq Q om s0 j).ox.xmx j p7X_SCALE)
          * (fwd_state lm do_full dsq Q om s0 n).xE) := by
  induction n with
  | zero =>
    refine ⟨by simp, ?_, by intro h; omega⟩
    simp only [Finset.Icc_eq_empty_of_lt Nat.zero_lt_one, Finset.prod_empty, fwd_state,
      fwd_state_unscaled]
    refine ⟨by ring, by ring, by ring, by ring, rfl, ?_⟩
    intro q _
    exact ⟨fun z => by ring, fun z => by ring, fun z => by ring⟩
  | succ k ih =>
    obtain ⟨hpos, hrel, _⟩ := ih
    have hstep := fwd_row_scaled lm do_full dsq Q om (k + 1) _ hpos hQ _ _ hrel
    obtain ⟨h1, h2, h3⟩ := hstep
    rw [Finset.prod_Icc_succ_top (Nat.succ_le_succ (Nat.zero_le k))]
    exact ⟨mul_pos hpos h3, h1, fun _ => h2⟩

/-- Row `n` of the trace holds the special-state registers reached after row
`n`. -/
theorem fwd_state_stored (lm : LibM α) (do_full : Bool) (dsq : Nat → Nat) (Q L : Nat)
    (om : P7_OPROFILE α) (ox : P7_OMX α) (n : Nat) :
    (fwd_state lm do_full dsq Q om (fwd_init L Q om ox) n).ox.xmx n p7X_N
      = (fwd_state lm do_full dsq Q om (fwd_init L Q om ox) n).xN ∧
    (fwd_state lm do_full dsq Q om (fwd_init L Q om ox) n).ox.xmx n p7X_J
      = (fwd_state lm do_full dsq Q om (fwd_init L Q om ox) n).xJ ∧
    (fwd_state lm do_full dsq Q om (fwd_init L Q om ox) n).ox.xmx n p7X_B
      = (fwd_state lm do_full dsq Q om (fwd_init L Q om ox) n).xB ∧
    (fwd_state lm do_full dsq Q om (fwd_init L Q om ox) n).ox.xmx n p7X_C
      = (fwd_state lm do_full dsq Q om (fwd_init L Q om ox) n).xC := by
  cases n with
  | zero => simp [fwd_state, fwd_init]
  | succ k =>
    obtain ⟨_, h2, h3, h4, h5⟩ := fwd_row_rescale_stored lm Q (k + 1)
      (fwd_row_compute do_full dsq Q om (k + 1)
        (fwd_state lm do_full dsq Q om (fwd_init L Q om ox) k))
    exact ⟨h2, h3, h4, h5⟩

theorem fwd_state_unscaled_stored (do_full : Bool) (dsq : Nat → Nat) (Q L : Nat)
    (om : P7_OPROFILE α) (ox : P7_OMX α) (n : Nat) :
    (fwd_state_unscaled do_full dsq Q om (fwd_init L Q om ox) n).ox.xmx n p7X_N
      = (fwd_state_unscaled do_full dsq Q om (fwd_init L Q om ox) n).xN ∧
    (fwd_state_unscaled do_full dsq Q om (fwd_init L Q om ox) n).ox.xmx n p7X_J
      = (fwd_state_unscaled do_full dsq Q om (fwd_init L Q om ox) n).xJ ∧
    (fwd_state_unscaled do_full dsq Q om (fwd_init L Q om ox) n).ox.xmx n p7X_B
      = (fwd_state_unscaled do_full dsq Q om (fwd_init L Q om ox) n).xB ∧
    (fwd_state_unscaled do_full dsq Q om (fwd_init L Q om ox) n).ox.xmx n p7X_C
      = (fwd_state_unscaled do_full dsq Q om (fwd_init L Q om ox) n).xC := by
  cases n with
  | zero => simp [fwd_state_unscaled, fwd_init]
  | succ k =>
    obtain ⟨_, h2, h3, h4, h5, h6, _, _, _, h10, h11, h12, h13⟩ := fwd_row_noscale_spec (k + 1)
      (fwd_row_compute do_full dsq Q om (k + 1)
        (fwd_state_unscaled do_full dsq Q om (fwd_init L Q om ox) k))
    exact ⟨h10.trans h3.symm, h11.trans h5.symm, h12.trans h6.symm, h13.trans h4.symm⟩

end ForwardScaledRel

/-! ## The main recursion of backward_engine and its scale factors -/

section BackwardTrace

variable {α : Type} [Zero α] [One α] [Add α] [Mul α] [Div α] [NatCast α]
  [LT α] [DecidableRel (fun (x y : α) => x < y)] [DecidableEq α]

theorem bck_at_step (lm : LibM α) (do_full : Bool) (dsq : Nat → Nat) (Q : Nat)
    (om : P7_OPROFILE α) (fwd : P7_OMX α) (L : Nat) (s : BckVars α) (i : Nat)
    (h1 : 1 ≤ i) (h2 : i + 1 ≤ L) :
    bck_at lm do_full dsq Q om fwd L s i
      = bck_row lm do_full dsq Q om fwd i (bck_at lm do_full dsq Q om fwd L s (i + 1)) := by
  unfold bck_at
  obtain ⟨k, hk⟩ : ∃ k, L - i = k + 1 := ⟨L - i - 1, by omega⟩
  have hk2 : L - (i + 1) = k := by omega
  have hi : L - 1 - k = i := by omega
  rw [hk, hk2]
  show bck_row lm do_full dsq Q om fwd (L - 1 - k) _ = _
  rw [hi]

/-- Without a cancellation in `1..n`, the main recursion entered after `L-1-n`
passes runs to the end. -/
theorem bck_rows_of_no_cancel (lm : LibM α) (cancelFlag : Nat → Bool) (do_full : Bool)
    (dsq : Nat → Nat) (Q : Nat) (om : P7_OPROFILE α) (fwd : P7_OMX α) (L : Nat)
    (s : BckVars α) (n : Nat) (hn : n ≤ L - 1)
    (h : ∀ i, 1 ≤ i → i ≤ n → cancelFlag i = false) :
    bck_rows lm cancelFlag do_full dsq Q om fwd n
        (bck_state lm do_full dsq Q om fwd L s (L - 1 - n))
      = .ok (bck_state lm do_full dsq Q om fwd L s (L - 1)) := by
  induction n with
  | zero => simp [bck_rows]
  | succ k ih =>
    have hc : cancelFlag (k + 1) = false := h (k + 1) (by omega) le_rfl
    have hstep : bck_row lm do_full dsq Q om fwd (k + 1)
        (bck_state lm do_full dsq Q om fwd L s (L - 1 - (k + 1)))
        = bck_state lm do_full dsq Q om fwd L s (L - 1 - k) := by
      obtain ⟨j, hj⟩ : ∃ j, L - 1 - k = j + 1 := ⟨L - 1 - k - 1, by omega⟩
      have hj2 : L - 1 - (k + 1) = j := by omega
      have hj3 : L - 1 - j = k + 1 := by omega
      rw [hj, hj2]
      show _ = bck_row lm do_full dsq Q om fwd (L - 1 - j) _
      rw [hj3]
    simp only [bck_rows, hc]
    rw [hstep]
    exact ih (by omega) (fun i h1 h2 => h i h1 (by omega))

/-- The part of the variables that the block loops of a row never touch. -/
def bck_frame (s : BckVars α) :
    (Nat → p7x_xcells_e → α) × α × Bool × Nat × Nat × α × α × α × α × α × Nat × Nat :=
  (s.bck.xmx, s.bck.totscale, s.bck.has_own_scales, s.bck.M, s.bck.L, s.xN, s.xC, s.xJ, s.xB,
   s.xE, s.dpc, s.dpp)

/-- The part of the matrix that is not the main DP table. -/
def bck_frame_x (s : BckVars α) : (Nat → p7x_xcells_e → α) × α × Bool :=
  (s.bck.xmx, s.bck.totscale, s.bck.has_own_scales)

theorem bck_frame_x_phase4 (Q : Nat) (om : P7_OPROFILE α) (n : Nat) (s : BckVars α) :
    bck_frame (bck_phase4 Q om n s) = bck_frame s := by
  induction n generalizing s with
  | zero => rfl
  | succ k ih =>
    unfold bck_phase4
    rw [ih]
    exact (forDown_proj bck_frame (bck_dd_body om) (fun _ _ => rfl) Q _).trans rfl

theorem bck_frame_md (Q : Nat) (om : P7_OPROFILE α) (s : BckVars α) :
    bck_frame (bck_md Q om s) = bck_frame s := by
  unfold bck_md
  exact (forDown_proj bck_frame (bck_md_body om) (fun _ _ => rfl) Q _).trans rfl

theorem bck_frame_phase3 (Q : Nat) (om : P7_OPROFILE α) (s : BckVars α) :
    bck_frame (bck_phase3 Q om s) = bck_frame s := by
  unfold bck_phase3
  exact (forDown_proj bck_frame (bck_phase3_body om) (fun _ _ => rfl) Q _).trans rfl

/-- Row `i` before rescaling leaves the trace, `totscale` and the flag
`has_own_scales` as they were. -/
theorem bck_row_compute_frame_x (do_full : Bool) (dsq : Nat → Nat) (Q : Nat)
    (om : P7_OPROFILE α) (i : Nat) (s : BckVars α) :
    bck_frame_x (bck_row_compute do_full dsq Q om i s) = bck_frame_x s := by
  unfold bck_row_compute
  simp only
  have h1 := bck_frame_md Q om (bck_phase4 Q om 3 (bck_phase3 Q om (bck_specials om
    (forDown Q (bck_main_body om (dsq (i + 1))) (bck_row_begin do_full dsq Q om i s)))))
  have h2 := bck_frame_x_phase4 Q om 3 (bck_phase3 Q om (bck_specials om
    (forDown Q (bck_main_body om (dsq (i + 1))) (bck_row_begin do_full dsq Q om i s))))
  have h3 := bck_frame_phase3 Q om (bck_specials om
    (forDown Q (bck_main_body om (dsq (i + 1))) (bck_row_begin do_full dsq Q om i s)))
  have h4 : bck_frame_x (forDown Q (bck_main_body om (dsq (i + 1)))
      (bck_row_begin do_full dsq Q om i s)) = bck_frame_x s :=
    (forDown_proj bck_frame_x (bck_main_body om (dsq (i + 1))) (fun _ _ => rfl) Q _).trans rfl
  have hx : ∀ a b : BckVars α, bck_frame a = bck_frame b → bck_frame_x a = bck_frame_x b := by
    intro a b hab
    simp only [bck_frame, Prod.mk.injEq] at hab
    simp only [bck_frame_x, Prod.mk.injEq]
    exact ⟨hab.1, hab.2.1, hab.2.2.1⟩
  rw [hx _ _ h1, hx _ _ h2, hx _ _ h3]
  exact h4

theorem bck_scale_row_frame (Q : Nat) (v : M128 α) (s : BckVars α) :
    bck_frame (bck_scale_row Q v s) = bck_frame s :=
  forUp_proj bck_frame (bck_scale_body v) (fun _ _ => rfl) Q s

/-- The sparse rescaling of row `i`: the scale factor stored, the flag, and
the other rows of the trace. -/
theorem bck_row_rescale_spec (lm : LibM α) (Q : Nat) (fwd : P7_OMX α) (i : Nat)
    (s : BckVars α) :
    (bck_row_rescale lm Q fwd i s).bck.has_own_scales
      = (s.bck.has_own_scales || decide (((10000000000000000 : Nat) : α) < s.xB)) ∧
    (bck_row_rescale lm Q fwd i s).bck.xmx i p7X_SCALE
      = (if (s.bck.has_own_scales || decide (((10000000000000000 : Nat) : α) < s.xB)) = true
         then (if ((10000 : Nat) : α) < s.xB then s.xB else 1)
         else fwd.xmx i p7X_SCALE) ∧
    (∀ j, j ≠ i → (bck_row_rescale lm Q fwd i s).bck.xmx j = s.bck.xmx j) := by
  have hch : (bck_choose_scale fwd i s).bck.has_own_scales
        = (s.bck.has_own_scales || decide (((10000000000000000 : Nat) : α) < s.xB)) ∧
      (bck_choose_scale fwd i s).bck.xmx i p7X_SCALE
        = (if (s.bck.has_own_scales || decide (((10000000000000000 : Nat) : α) < s.xB)) = true
           then (if ((10000 : Nat) : α) < s.xB then s.xB else 1)
           else fwd.xmx i p7X_SCALE) ∧
      (∀ j, j ≠ i → (bck_choose_scale fwd i s).bck.xmx j = s.bck.xmx j) := by
    unfold bck_choose_scale
    by_cases h16 : ((10000000000000000 : Nat) : α) < s.xB
    · simp only [h16, if_true, decide_True, Bool.or_true]
      refine ⟨trivial, by simp, ?_⟩
      intro j hj; funext d; simp [hj]
    · simp only [h16, if_false, decide_False, Bool.or_false]
      by_cases hown : s.bck.has_own_scales = true
      · simp only [hown, if_true]
        refine ⟨trivial, by simp, ?_⟩
        intro j hj; funext d; simp [hj]
      · have hf : s.bck.has_own_scales = false := by simpa using hown
        simp only [hf]
        refine ⟨by simp, by simp, ?_⟩
        intro j hj; funext d; simp [hj]
  have hap : bck_frame_x (bck_apply_scale lm Q i (bck_choose_scale fwd i s))
        = ((bck_choose_scale fwd i s).bck.xmx,
           (bck_apply_scale lm Q i (bck_choose_scale fwd i s)).bck.totscale,
           (bck_choose_scale fwd i s).bck.has_own_scales) := by
    unfold bck_apply_scale
    split_ifs
    · simp only [bck_frame_x, Prod.mk.injEq]
      have := bck_scale_row_frame Q
        (mm_set1_ps (1 / (bck_choose_scale fwd i s).bck.xmx i p7X_SCALE))
        { bck_choose_scale fwd i s with
          xE := (bck_choose_scale fwd i s).xE / (bck_choose_scale fwd i s).bck.xmx i p7X_SCALE,
          xN := (bck_choose_scale fwd i s).xN / (bck_choose_scale fwd i s).bck.xmx i p7X_SCALE,
          xJ := (bck_choose_scale fwd i s).xJ / (bck_choose_scale fwd i s).bck.xmx i p7X_SCALE,
          xB := (bck_choose_scale fwd i s).xB / (bck_choose_scale fwd i s).bck.xmx i p7X_SCALE,
          xC := (bck_choose_scale fwd i s).xC / (bck_choose_scale fwd i s).bck.xmx i p7X_SCALE,
          xBv := mm_set1_ps (1 / (bck_choose_scale fwd i s).bck.xmx i p7X_SCALE) }
      simp only [bck_frame, Prod.mk.injEq] at this
      exact ⟨this.1, trivial, this.2.2.1⟩
    · rfl
  simp only [bck_frame_x, Prod.mk.injEq] at hap
  obtain ⟨a1, _, a3⟩ := hap
  obtain ⟨c1, c2, c3⟩ := hch
  unfold bck_row_rescale
  refine ⟨?_, ?_, ?_⟩
  · show (bck_apply_scale lm Q i (bck_choose_scale fwd i s)).bck.has_own_scales = _
    rw [a3, c1]
  · simp only [bck_store, setX_apply]
    simp only [reduceCtorEq, and_false, if_false, a1]
    exact c2
  · intro j hj
    funext d
    simp only [bck_store, setX_apply, hj, false_and, if_false, a1]
    exact congrFun (c3 j hj) d

theorem bck_frame_dd_passes (Q : Nat) (om : P7_OPROFILE α) (n : Nat) (s : BckVars α) :
    bck_frame (bck_dd_passes Q om n s) = bck_frame s := by
  induction n generalizing s with
  | zero => rfl
  | succ k ih =>
    unfold bck_dd_passes
    rw [ih]
    exact (forDown_proj bck_frame (bck_dd_body om) (fun _ _ => rfl) Q _).trans rfl

/-- The initialization of row `L`: the scale factor of row `L` is the one of
the Forward matrix, and `has_own_scales` is FALSE. -/
theorem bck_init_spec (lm : LibM α) (do_full : Bool) (L Q : Nat) (om : P7_OPROFILE α)
    (fwd bck : P7_OMX α) :
    (bck_init lm do_full L Q om fwd bck).bck.xmx L p7X_SCALE = fwd.xmx L p7X_SCALE ∧
    (bck_init lm do_full L Q om fwd bck).bck.has_own_scales = false := by
  have hb : (bck_init_begin do_full L Q om bck).bck.has_own_scales = false := by
    unfold bck_init_begin
    simp only
    rw [forUp_proj (fun b : P7_OMX α => b.has_own_scales) (bck_init_i_body (L * do_full.toNat))
      (fun _ _ => rfl) Q,
      forUp_proj (fun b : P7_OMX α => b.has_own_scales)
        (bck_init_md_body (L * do_full.toNat) _) (fun _ _ => rfl) Q]
  have hdd : (bck_init_dd Q om (bck_init_begin do_full L Q om bck)).bck.has_own_scales
      = false := by
    unfold bck_init_dd
    simp only
    have h1 := bck_frame_md Q om (bck_dd_passes Q om 3 (forDown Q (bck_dd_first_body om)
      { bck_init_begin do_full L Q om bck with
        tp := 8 * Q - 1,
        dpv := bck_leftshift (DMO (bck_init_begin do_full L Q om bck).bck.dpf
          (bck_init_begin do_full L Q om bck).dpc (Q - 1)) }))
    have h2 := bck_frame_dd_passes Q om 3 (forDown Q (bck_dd_first_body om)
      { bck_init_begin do_full L Q om bck with
        tp := 8 * Q - 1,
        dpv := bck_leftshift (DMO (bck_init_begin do_full L Q om bck).bck.dpf
          (bck_init_begin do_full L Q om bck).dpc (Q - 1)) })
    have h3 := forDown_proj bck_frame (bck_dd_first_body om) (fun _ _ => rfl) Q
      { bck_init_begin do_full L Q om bck with
        tp := 8 * Q - 1,
        dpv := bck_leftshift (DMO (bck_init_begin do_full L Q om bck).bck.dpf
          (bck_init_begin do_full L Q om bck).dpc (Q - 1)) }
    have := (h1.trans h2).trans h3
    simp only [bck_frame, Prod.mk.injEq] at this
    rw [this.2.2.1]
    exact hb
  unfold bck_init bck_init_rescale
  simp only
  constructor
  · simp [bck_store]
  · show (if 1 < fwd.xmx L p7X_SCALE then _ else _ : BckVars α).bck.has_own_scales = false
    split_ifs
    · have := bck_scale_row_frame Q (mm_set1_ps (1 / fwd.xmx L p7X_SCALE))
        { bck_init_dd Q om (bck_init_begin do_full L Q om bck) with
          xE := (bck_init_dd Q om (bck_init_begin do_full L Q om bck)).xE / fwd.xmx L p7X_SCALE,
          xN := (bck_init_dd Q om (bck_init_begin do_full L Q om bck)).xN / fwd.xmx L p7X_SCALE,
          xC := (bck_init_dd Q om (bck_init_begin do_full L Q om bck)).xC / fwd.xmx L p7X_SCALE,
          xJ := (bck_init_dd Q om (bck_init_begin do_full L Q om bck)).xJ / fwd.xmx L p7X_SCALE,
          xB := (bck_init_dd Q om (bck_init_begin do_full L Q om bck)).xB / fwd.xmx L p7X_SCALE,
          xEv := mm_set1_ps (1 / fwd.xmx L p7X_SCALE) }
      simp only [bck_frame, Prod.mk.injEq] at this
      rw [this.2.2.1]
      exact hdd
    · exact hdd

/-- The termination writes row 0 of the trace only and leaves the flag. -/
theorem bck_term_spec (do_full : Bool) (dsq : Nat → Nat) (Q : Nat) (om : P7_OPROFILE α)
    (s : BckVars α) :
    (bck_term do_full dsq Q om s).bck.has_own_scales = s.bck.has_own_scales ∧
    (∀ j, j ≠ 0 → (bck_term do_full dsq Q om s).bck.xmx j = s.bck.xmx j) := by
  have hl := forUp_proj bck_frame_x (bck_term_body om (dsq 1)) (fun _ _ => rfl) Q
    { s with dpp := 1 * do_full.toNat, tp := 0, rp := 0, xBv := mm_setzero_ps }
  simp only [bck_frame_x, Prod.mk.injEq] at hl
  obtain ⟨l1, _, l3⟩ := hl
  unfold bck_term
  simp only
  refine ⟨l3, ?_⟩
  intro j hj
  funext d
  simp only [setX_apply, hj, false_and, if_false]
  rw [l1]

/-- In a run without cancellation the matrix returned by `backward_engine` is
the one reached after the termination step. -/
theorem backward_engine_bck (p7O_NQF : Nat → Nat) (lm : LibM α)
    (cancelFlag : Nat → Bool) (do_full : Bool) (dsq : Nat → Nat) (L : Nat)
    (om : P7_OPROFILE α) (fwd bck : P7_OMX α) (opt_sc : Bool)
    (hnc : ∀ i, 1 ≤ i → i ≤ L - 1 → cancelFlag i = false) :
    (backward_engine p7O_NQF lm cancelFlag do_full dsq L om fwd bck opt_sc).2.1
      = (bck_term do_full dsq (p7O_NQF om.M) om
          (bck_state lm do_full dsq (p7O_NQF om.M) om fwd L
            (bck_init lm do_full L (p7O_NQF om.M) om fwd bck) (L - 1))).bck := by
  have h := bck_rows_of_no_cancel lm cancelFlag do_full dsq (p7O_NQF om.M) om fwd L
    (bck_init lm do_full L (p7O_NQF om.M) om fwd bck) (L - 1) le_rfl hnc
  rw [Nat.sub_self] at h
  simp only [backward_engine, bck_state] at h ⊢
  rw [h]
  simp only
  split_ifs <;> rfl

/-- Row `i` leaves the other rows of the trace alone. -/
theorem bck_row_xmx_other (lm : LibM α) (do_full : Bool) (dsq : Nat → Nat) (Q : Nat)
    (om : P7_OPROFILE α) (fwd : P7_OMX α) (i : Nat) (s : BckVars α) (j : Nat) (hj : j ≠ i) :
    (bck_row lm do_full dsq Q om fwd i s).bck.xmx j = s.bck.xmx j := by
  unfold bck_row
  rw [(bck_row_rescale_spec lm Q fwd i _).2.2 j hj]
  have := bck_row_compute_frame_x do_full dsq Q om i s
  simp only [bck_frame_x, Prod.mk.injEq] at this
  rw [this.1]

/-- Row `i` of the trace is final once row `i` has been processed: the later
passes, which handle lower rows, do not touch it. -/
theorem bck_state_xmx_stable (lm : LibM α) (do_full : Bool) (dsq : Nat → Nat) (Q : Nat)
    (om : P7_OPROFILE α) (fwd : P7_OMX α) (L : Nat) (s : BckVars α) (k n i : Nat)
    (hkn : k ≤ n) (hn : n ≤ L - 1) (hi : L - k ≤ i) :
    (bck_state lm do_full dsq Q om fwd L s n).bck.xmx i
      = (bck_state lm do_full dsq Q om fwd L s k).bck.xmx i := by
  induction n with
  | zero =>
    have : k = 0 := Nat.le_zero.mp hkn
    subst this; rfl
  | succ m ih =>
    rcases Nat.lt_or_ge k (m + 1) with hlt | hge
    · rw [← ih (by omega) (by omega)]
      show (bck_row lm do_full dsq Q om fwd (L - 1 - m) _).bck.xmx i = _
      exact bck_row_xmx_other lm do_full dsq Q om fwd _ _ i (by omega)
    · have : k = m + 1 := le_antisymm hkn hge
      subst this; rfl

/-- The latch: after `k` passes `has_own_scales` is TRUE exactly when one of
the rows handled so far had a Begin value above 1e16, and the scale factor
of the row handled last was chosen accordingly. -/
theorem bck_state_latch (lm : LibM α) (do_full : Bool) (dsq : Nat → Nat) (Q : Nat)
    (om : P7_OPROFILE α) (fwd : P7_OMX α) (L : Nat) (s : BckVars α)
    (hs : s.bck.has_own_scales = false) (hL : 1 ≤ L) (k : Nat) (hk : k ≤ L - 1) :
    ((bck_state lm do_full dsq Q om fwd L s k).bck.has_own_scales = true ↔
      ∃ j, L - k ≤ j ∧ j ≤ L - 1 ∧
        ((10000000000000000 : Nat) : α) < (bck_pre lm do_full dsq Q om fwd L s j).xB) ∧
    (1 ≤ k →
      (bck_state lm do_full dsq Q om fwd L s k).bck.xmx (L - k) p7X_SCALE
        = if (bck_state lm do_full dsq Q om fwd L s k).bck.has_own_scales = true
          then (if ((10000 : Nat) : α) < (bck_pre lm do_full dsq Q om fwd L s (L - k)).xB
                then (bck_pre lm do_full dsq Q om fwd L s (L - k)).xB else 1)
          else fwd.xmx (L - k) p7X_SCALE) := by
  induction k with
  | zero =>
    refine ⟨?_, by intro h; omega⟩
    simp only [bck_state, hs]
    constructor
    · intro h; exact absurd h (by simp)
    · rintro ⟨j, h1, h2, _⟩
      exfalso
      omega
  | succ m ih =>
    have hrow : L - 1 - m = L - (m + 1) := by omega
    have hle1 : L - (m + 1) ≤ L - 1 := by omega
    have hle2 : ∀ j, L - m ≤ j → L - (m + 1) ≤ j := fun j hj => by omega
    have hle3 : ∀ j, L - (m + 1) ≤ j → j < L - m → j = L - (m + 1) :=
      fun j h1 h2 => by omega
    have hidx : L - (L - (m + 1) + 1) = m := by omega
    obtain ⟨ih1, _⟩ := ih (by omega)
    have hpre : bck_pre lm do_full dsq Q om fwd L s (L - (m + 1))
        = bck_row_compute do_full dsq Q om (L - (m + 1))
            (bck_state lm do_full dsq Q om fwd L s m) := by
      unfold bck_pre bck_at
      rw [hidx]
    have hst : bck_state lm do_full dsq Q om fwd L s (m + 1)
        = bck_row_rescale lm Q fwd (L - (m + 1))
            (bck_pre lm do_full dsq Q om fwd L s (L - (m + 1))) := by
      rw [hpre]
      show bck_row lm do_full dsq Q om fwd (L - 1 - m) _ = _
      rw [hrow]
      rfl
    obtain ⟨r1, r2, _⟩ := bck_row_rescale_spec lm Q fwd (L - (m + 1))
      (bck_pre lm do_full dsq Q om fwd L s (L - (m + 1)))
    have hfx := bck_row_compute_frame_x do_full dsq Q om (L - (m + 1))
      (bck_state lm do_full dsq Q om fwd L s m)
    simp only [bck_frame_x, Prod.mk.injEq] at hfx
    have hown : (bck_pre lm do_full dsq Q om fwd L s (L - (m + 1))).bck.has_own_scales
        = (bck_state lm do_full dsq Q om fwd L s m).bck.has_own_scales := by
      rw [hpre]; exact hfx.2.2
    have hflag : (bck_state lm do_full dsq Q om fwd L s (m + 1)).bck.has_own_scales
        = ((bck_state lm do_full dsq Q om fwd L s m).bck.has_own_scales ||
            decide (((10000000000000000 : Nat) : α)
              < (bck_pre lm do_full dsq Q om fwd L s (L - (m + 1))).xB)) := by
      rw [hst, r1, hown]
    constructor
    · rw [hflag, Bool.or_eq_true, ih1, decide_eq_true_eq]
      constructor
      · intro hor
        rcases hor with hex | h
        · obtain ⟨j, h1, h2, h3⟩ := hex
          exact ⟨j, hle2 j h1, h2, h3⟩
        · exact ⟨L - (m + 1), le_rfl, hle1, h⟩
      · intro hex
        obtain ⟨j, h1, h2, h3⟩ := hex
        rcases Nat.lt_or_ge j (L - m) with hlt | hge
        · have hj : j = L - (m + 1) := hle3 j h1 hlt
          rw [hj] at h3
          exact Or.inr h3
        · exact Or.inl ⟨j, hge, h2, h3⟩
    · intro _
      rw [hflag]
      rw [hst, r2, hown]

/-- The main recursion in general: entered after `L-1-n` passes it stops after
`k` passes in all, either at the end (`k = L-1`) or at the first cancellation
checkpoint that reads TRUE; every row `i` above which no checkpoint read TRUE
has been handled by then. -/
theorem bck_rows_cases (lm : LibM α) (cancelFlag : Nat → Bool) (do_full : Bool)
    (dsq : Nat → Nat) (Q : Nat) (om : P7_OPROFILE α) (fwd : P7_OMX α) (L : Nat)
    (s : BckVars α) (n : Nat) (hn : n ≤ L - 1) :
    ∃ k, k ≤ L - 1 ∧
      (∀ i, 1 ≤ i → (∀ j, i ≤ j → j ≤ n → cancelFlag j = false) → L - k ≤ i) ∧
      (bck_rows lm cancelFlag do_full dsq Q om fwd n
          (bck_state lm do_full dsq Q om fwd L s (L - 1 - n))
        = .ok (bck_state lm do_full dsq Q om fwd L s k) ∨
       bck_rows lm cancelFlag do_full dsq Q om fwd n
          (bck_state lm do_full dsq Q om fwd L s (L - 1 - n))
        = .error (eslCANCELED, bck_state lm do_full dsq Q om fwd L s k)) := by
  induction n with
  | zero =>
    refine ⟨L - 1, le_rfl, fun i hi _ => by omega, Or.inl ?_⟩
    simp [bck_rows]
  | succ m ih =>
    have hstep : bck_row lm do_full dsq Q om fwd (m + 1)
        (bck_state lm do_full dsq Q om fwd L s (L - 1 - (m + 1)))
        = bck_state lm do_full dsq Q om fwd L s (L - 1 - m) := by
      obtain ⟨j, hj⟩ : ∃ j, L - 1 - m = j + 1 := ⟨L - 1 - m - 1, by omega⟩
      have hj2 : L - 1 - (m + 1) = j := by omega
      have hj3 : L - 1 - j = m + 1 := by omega
      rw [hj, hj2]
      show _ = bck_row lm do_full dsq Q om fwd (L - 1 - j) _
      rw [hj3]
    have harith : ∀ i, m + 1 < i → L - (L - 1 - (m + 1)) ≤ i := fun i hi => by omega
    by_cases hc : cancelFlag (m + 1) = true
    · refine ⟨L - 1 - (m + 1), Nat.sub_le _ _, ?_, Or.inr ?_⟩
      · intro i hi hreach
        rcases Nat.lt_or_ge (m + 1) i with hlt | hge
        · exact harith i hlt
        · have := hreach (m + 1) hge le_rfl
          rw [hc] at this
          exact absurd this (by simp)
      · simp only [bck_rows, hc, if_true]
    · have hc2 : cancelFlag (m + 1) = false := by simpa using hc
      obtain ⟨k, hk1, hk2, hk3⟩ := ih (Nat.le_of_succ_le hn)
      refine ⟨k, hk1, ?_, ?_⟩
      · intro i hi hreach
        exact hk2 i hi (fun j h1 h2 => hreach j h1 (Nat.le_succ_of_le h2))
      · simp only [bck_rows, hc2]
        rw [hstep]
        exact hk3

/-- The matrix returned by `backward_engine` agrees, outside row 0 of the
trace, with the one reached after some number `k` of passes, and every row
above which no cancellation checkpoint read TRUE is among the rows handled. -/
theorem backward_engine_cases (p7O_NQF : Nat → Nat) (lm : LibM α)
    (cancelFlag : Nat → Bool) (do_full : Bool) (dsq : Nat → Nat) (L : Nat)
    (om : P7_OPROFILE α) (fwd bck : P7_OMX α) (opt_sc : Bool) :
    ∃ k, k ≤ L - 1 ∧
      (∀ i, 1 ≤ i → (∀ j, i ≤ j → j ≤ L - 1 → cancelFlag j = false) → L - k ≤ i) ∧
      (backward_engine p7O_NQF lm cancelFlag do_full dsq L om fwd bck opt_sc).2.1.has_own_scales
        = (bck_state lm do_full dsq (p7O_NQF om.M) om fwd L
            (bck_init lm do_full L (p7O_NQF om.M) om fwd bck) k).bck.has_own_scales ∧
      (∀ j, j ≠ 0 →
        (backward_engine p7O_NQF lm cancelFlag do_full dsq L om fwd bck opt_sc).2.1.xmx j
        = (bck_state lm do_full dsq (p7O_NQF om.M) om fwd L
            (bck_init lm do_full L (p7O_NQF om.M) om fwd bck) k).bck.xmx j) := by
  obtain ⟨k, hk1, hk2, hk3⟩ := bck_rows_cases lm cancelFlag do_full dsq (p7O_NQF om.M) om fwd L
    (bck_init lm do_full L (p7O_NQF om.M) om fwd bck) (L - 1) le_rfl
  rw [Nat.sub_self] at hk3
  refine ⟨k, hk1, hk2, ?_⟩
  rcases hk3 with h | h
  · obtain ⟨t1, t2⟩ := bck_term_spec do_full dsq (p7O_NQF om.M) om
      (bck_state lm do_full dsq (p7O_NQF om.M) om fwd L
        (bck_init lm do_full L (p7O_NQF om.M) om fwd bck) k)
    simp only [backward_engine, bck_state] at h ⊢
    rw [h]
    simp only
    split_ifs <;> exact ⟨t1, t2⟩
  · simp only [backward_engine, bck_state] at h ⊢
    rw [h]
    exact ⟨rfl, fun _ _ => rfl⟩

/-- Claim C10.  In `backward_engine` the source of the scale factors is latched.
Write `xB j` for the Begin value of row `j` before its rescaling, and call a row
*handled* when no cancellation checkpoint at or above it read TRUE.  For
`L >= 1`: row `L` takes the scale factor of the Forward matrix; a handled row
`i` in `1..L-1` takes the Forward scale factor as long as no row `j` with
`i <= j <= L-1` had `xB j > 1e16`; once such a row exists, `has_own_scales` is
TRUE on return and the scale factor of row `i` is `xB i` if `xB i > 1e4` and 1
otherwise.  In particular, if `has_own_scales` is FALSE on return, the scale
factors of all handled rows `1..L` are those of the Forward matrix. -/
theorem C10_backward_scale_latch (p7O_NQF : Nat → Nat) (lm : LibM α)
    (cancelFlag : Nat → Bool) (do_full : Bool) (dsq : Nat → Nat) (L : Nat)
    (om : P7_OPROFILE α) (fwd bck : P7_OMX α) (opt_sc : Bool) (hL : 1 ≤ L) :
    (backward_engine p7O_NQF lm cancelFlag do_full dsq L om fwd bck opt_sc).2.1.xmx L p7X_SCALE
      = fwd.xmx L p7X_SCALE ∧
    (∀ i, 1 ≤ i → i ≤ L - 1 → (∀ j, i ≤ j → j ≤ L - 1 → cancelFlag j = false) →
      ((¬ ∃ j, i ≤ j ∧ j ≤ L - 1 ∧ ((10000000000000000 : Nat) : α)
            < (bck_pre lm do_full dsq (p7O_NQF om.M) om fwd L
                (bck_init lm do_full L (p7O_NQF om.M) om fwd bck) j).xB) →
        (backward_engine p7O_NQF lm cancelFlag do_full dsq L om fwd bck opt_sc).2.1.xmx i
            p7X_SCALE = fwd.xmx i p7X_SCALE) ∧
      ((∃ j, i ≤ j ∧ j ≤ L - 1 ∧ ((10000000000000000 : Nat) : α)
            < (bck_pre lm do_full dsq (p7O_NQF om.M) om fwd L
                (bck_init lm do_full L (p7O_NQF om.M) om fwd bck) j).xB) →
        (backward_engine p7O_NQF lm cancelFlag do_full dsq L om fwd bck
            opt_sc).2.1.has_own_scales = true ∧
        (backward_engine p7O_NQF lm cancelFlag do_full dsq L om fwd bck opt_sc).2.1.xmx i
            p7X_SCALE
          = if ((10000 : Nat) : α) < (bck_pre lm do_full dsq (p7O_NQF om.M) om fwd L
                (bck_init lm do_full L (p7O_NQF om.M) om fwd bck) i).xB
            then (bck_pre lm do_full dsq (p7O_NQF om.M) om fwd L
                (bck_init lm do_full L (p7O_NQF om.M) om fwd bck) i).xB
            else 1)) ∧
    ((backward_engine p7O_NQF lm cancelFlag do_full dsq L om fwd bck
        opt_sc).2.1.has_own_scales = false →
      ∀ i, 1 ≤ i → i ≤ L → (∀ j, i ≤ j → j ≤ L - 1 → cancelFlag j = false) →
        (backward_engine p7O_NQF lm cancelFlag do_full dsq L om fwd bck opt_sc).2.1.xmx i
            p7X_SCALE = fwd.xmx i p7X_SCALE) := by
  obtain ⟨k, hk1, hk2, hown, hx⟩ :=
    backward_engine_cases p7O_NQF lm cancelFlag do_full dsq L om fwd bck opt_sc
  obtain ⟨i1, i2⟩ := bck_init_spec lm do_full L (p7O_NQF om.M) om fwd bck
  have hrowL : (backward_engine p7O_NQF lm cancelFlag do_full dsq L om fwd bck
      opt_sc).2.1.xmx L p7X_SCALE = fwd.xmx L p7X_SCALE := by
    rw [hx L (Nat.pos_iff_ne_zero.mp hL),
      bck_state_xmx_stable lm do_full dsq (p7O_NQF om.M) om fwd L _ 0 k L (Nat.zero_le _) hk1
        (Nat.sub_le _ _)]
    exact i1
  have hrow : ∀ i, 1 ≤ i → i ≤ L - 1 → (∀ j, i ≤ j → j ≤ L - 1 → cancelFlag j = false) →
      ((backward_engine p7O_NQF lm cancelFlag do_full dsq L om fwd bck opt_sc).2.1.xmx i
          p7X_SCALE
        = if (bck_state lm do_full dsq (p7O_NQF om.M) om fwd L
              (bck_init lm do_full L (p7O_NQF om.M) om fwd bck) (L - i)).bck.has_own_scales
              = true
          then (if ((10000 : Nat) : α) < (bck_pre lm do_full dsq (p7O_NQF om.M) om fwd L
                  (bck_init lm do_full L (p7O_NQF om.M) om fwd bck) i).xB
                then (bck_pre lm do_full dsq (p7O_NQF om.M) om fwd L
                  (bck_init lm do_full L (p7O_NQF om.M) om fwd bck) i).xB else 1)
          else fwd.xmx i p7X_SCALE) ∧
      ((bck_state lm do_full dsq (p7O_NQF om.M) om fwd L
          (bck_init lm do_full L (p7O_NQF om.M) om fwd bck) (L - i)).bck.has_own_scales = true ↔
        ∃ j, i ≤ j ∧ j ≤ L - 1 ∧ ((10000000000000000 : Nat) : α)
            < (bck_pre lm do_full dsq (p7O_NQF om.M) om fwd L
                (bck_init lm do_full L (p7O_NQF om.M) om fwd bck) j).xB) := by
    intro i h1 h2 hreach
    have hki : L - k ≤ i := hk2 i h1 hreach
    have a1 : L - i ≤ k := by omega
    have a2 : L - (L - i) ≤ i := by omega
    have a3 : L - (L - i) = i := by omega
    have a4 : L - i ≤ L - 1 := by omega
    have a5 : 1 ≤ L - i := by omega
    have a6 : i ≠ 0 := by omega
    obtain ⟨l1, l2⟩ := bck_state_latch lm do_full dsq (p7O_NQF om.M) om fwd L
      (bck_init lm do_full L (p7O_NQF om.M) om fwd bck) i2 hL (L - i) a4
    rw [a3] at l1
    have l3 := l2 a5
    rw [a3] at l3
    refine ⟨?_, l1⟩
    rw [hx i a6, bck_state_xmx_stable lm do_full dsq (p7O_NQF om.M) om fwd L _ (L - i) k i a1 hk1 a2]
    exact l3
  have hmono : ∀ i, 1 ≤ i → i ≤ L - 1 → (∀ j, i ≤ j → j ≤ L - 1 → cancelFlag j = false) →
      (∃ j, i ≤ j ∧ j ≤ L - 1 ∧ ((10000000000000000 : Nat) : α)
            < (bck_pre lm do_full dsq (p7O_NQF om.M) om fwd L
                (bck_init lm do_full L (p7O_NQF om.M) om fwd bck) j).xB) →
      (backward_engine p7O_NQF lm cancelFlag do_full dsq L om fwd bck
        opt_sc).2.1.has_own_scales = true := by
    intro i h1 h2 hreach hex
    have hki : L - k ≤ i := hk2 i h1 hreach
    obtain ⟨j, j1, j2, j3⟩ := hex
    rw [hown, (bck_state_latch lm do_full dsq (p7O_NQF om.M) om fwd L
      (bck_init lm do_full L (p7O_NQF om.M) om fwd bck) i2 hL k hk1).1]
    exact ⟨j, le_trans hki j1, j2, j3⟩
  refine ⟨hrowL, ?_, ?_⟩
  · intro i h1 h2 hreach
    obtain ⟨r1, r2⟩ := hrow i h1 h2 hreach
    constructor
    · intro hno
      rw [r1, if_neg (fun h => hno (r2.mp h))]
    · intro hex
      refine ⟨hmono i h1 h2 hreach hex, ?_⟩
      rw [r1, if_pos (r2.mpr hex)]
  · intro hfalse i h1 h2 hreach
    rcases Nat.lt_or_ge i L with hlt | hge
    · have h3 : i ≤ L - 1 := Nat.le_sub_one_of_lt hlt
      obtain ⟨r1, r2⟩ := hrow i h1 h3 hreach
      have hno : ¬ (bck_state lm do_full dsq (p7O_NQF om.M) om fwd L
          (bck_init lm do_full L (p7O_NQF om.M) om fwd bck) (L - i)).bck.has_own_scales
          = true := by
        intro h
        have := hmono i h1 h3 hreach (r2.mp h)
        rw [hfalse] at this
        exact absurd this (by simp)
      rw [r1, if_neg hno]
    · have : i = L := le_antisymm h2 hge
      rw [this]
      exact hrowL

/-- Claim C10, checked on a toy model with `L = 2`. -/
theorem C10_backward_scale_latch_witness :
    1 ≤ 2 ∧
    (backward_engine demo_NQF (demo_lm (fun x : ℚ => x)) (fun _ => false) true (fun _ => 0) 2
        (demo_om (1 : ℚ) p7_LOCAL) demo_ox demo_ox true).2.1.xmx 2 p7X_SCALE
      = (demo_ox : P7_OMX ℚ).xmx 2 p7X_SCALE :=
  ⟨by decide,
   (C10_backward_scale_latch demo_NQF (demo_lm (fun x : ℚ => x)) (fun _ => false) true
      (fun _ => 0) 2 (demo_om (1 : ℚ) p7_LOCAL) demo_ox demo_ox true (by decide)).1⟩

end BackwardTrace

/-! ## The pairing of a Forward row with a Backward row -/

section Pairing

variable {α : Type} [CommRing α]

theorem sum_shift (T : Nat) (a h : Nat → α) :
    ∑ n in Finset.range T, a n * shl T h n = ∑ n in Finset.range T, shr a n * h n := by
  cases T with
  | zero => simp
  | succ k =>
    rw [Finset.sum_range_succ, Finset.sum_range_succ']
    have h1 : shl (k + 1) h k = 0 := by simp [shl]
    have h2 : shr a 0 = 0 := by simp [shr]
    rw [h1, h2, mul_zero, zero_mul, add_zero, add_zero]
    apply Finset.sum_congr rfl
    intro n hn
    rw [Finset.mem_range] at hn
    simp [shl, shr, hn]

/-- Summation by parts along the Delete chain: the M->D paths of a Forward
row against a Backward Delete chain `bD` with source terms `bD n - DD n * bD (n+1)`. -/
theorem sum_delete_chain (T : Nat) (t : ChainT α) (xf : p7o_xstates_e → p7o_xtransitions_e → α)
    (f : FlatRow α) (hf : FwdRowOK T t xf f) (bD : Nat → α) :
    ∑ n in Finset.range T, f.M n * (t.MD n * shl T bD n)
      = ∑ n in Finset.range T, f.D n * (bD n - t.DD n * shl T bD n) := by
  obtain ⟨hD, _, _⟩ := hf
  have h1 : ∑ n in Finset.range T, f.M n * (t.MD n * shl T bD n)
      = ∑ n in Finset.range T, (fun m => f.M m * t.MD m) n * shl T bD n :=
    Finset.sum_congr rfl (fun n _ => by ring)
  have h2 : ∑ n in Finset.range T, f.D n * (t.DD n * shl T bD n)
      = ∑ n in Finset.range T, (fun m => f.D m * t.DD m) n * shl T bD n :=
    Finset.sum_congr rfl (fun n _ => by ring)
  have h3 : ∑ n in Finset.range T, f.D n * bD n
      = ∑ n in Finset.range T, (shr (fun m => f.M m * t.MD m) n * bD n
          + shr (fun m => f.D m * t.DD m) n * bD n) := by
    apply Finset.sum_congr rfl
    intro n hn
    rw [Finset.mem_range] at hn
    rw [hD n hn]
    unfold shr
    split_ifs <;> ring
  have h4 : ∑ n in Finset.range T, f.D n * (bD n - t.DD n * shl T bD n)
      = ∑ n in Finset.range T, f.D n * bD n
        - ∑ n in Finset.range T, f.D n * (t.DD n * shl T bD n) := by
    rw [← Finset.sum_sub_distrib]
    exact Finset.sum_congr rfl (fun n _ => by ring)
  rw [h4, h1, h2, h3, Finset.sum_add_distrib, sum_shift, sum_shift]
  ring

theorem pairing_step (T : Nat) (t : ChainT α) (xf : p7o_xstates_e → p7o_xtransitions_e → α)
    (e : Nat → α) (f g c b : FlatRow α)
    (hf : FwdRowOK T t xf f) (hg : FwdStep T t xf e f g)
    (hc : BckRowOK xf c) (hb : BckStep T t xf e c b) :
    pairing T f b = pairing T g c := by
  have hdel := sum_delete_chain T t xf f hf b.D
  obtain ⟨hD, hE, hB⟩ := hf
  obtain ⟨gM, gI, gN, gC, gJ⟩ := hg
  obtain ⟨bI, bB, bC, bJ, bN, bE, bD, bM⟩ := hb
  unfold BckRowOK at hc
  -- the six sums the two sides are made of
  have s1 : ∑ n in Finset.range T, f.M n * b.M n
      = ∑ n in Finset.range T, f.M n * (c.I n * t.MI n)
        + ∑ n in Finset.range T, f.M n * shl T (fun m => c.M m * e m * t.MM m) n
        + b.E * ∑ n in Finset.range T, f.M n
        + ∑ n in Finset.range T, f.M n * (t.MD n * shl T b.D n) := by
    rw [Finset.mul_sum, ← Finset.sum_add_distrib, ← Finset.sum_add_distrib,
      ← Finset.sum_add_distrib]
    apply Finset.sum_congr rfl
    intro n hn
    rw [Finset.mem_range] at hn
    rw [bM n hn]; ring
  have s2 : ∑ n in Finset.range T, f.D n * (b.D n - t.DD n * shl T b.D n)
      = ∑ n in Finset.range T, f.D n * shl T (fun m => c.M m * e m * t.DM m) n
        + b.E * ∑ n in Finset.range T, f.D n := by
    rw [Finset.mul_sum, ← Finset.sum_add_distrib]
    apply Finset.sum_congr rfl
    intro n hn
    rw [Finset.mem_range] at hn
    rw [bD n hn]; ring
  have s3 : ∑ n in Finset.range T, f.I n * b.I n
      = ∑ n in Finset.range T, f.I n * (c.I n * t.II n)
        + ∑ n in Finset.range T, f.I n * shl T (fun m => c.M m * e m * t.IM m) n := by
    rw [← Finset.sum_add_distrib]
    apply Finset.sum_congr rfl
    intro n hn
    rw [Finset.mem_range] at hn
    rw [bI n hn]; ring
  have s4 : ∑ n in Finset.range T, g.M n * c.M n
      = f.B * b.B
        + ∑ n in Finset.range T, shr f.M n * (fun m => c.M m * e m * t.MM m) n
        + ∑ n in Finset.range T, shr f.I n * (fun m => c.M m * e m * t.IM m) n
        + ∑ n in Finset.range T, shr f.D n * (fun m => c.M m * e m * t.DM m) n := by
    rw [bB, Finset.mul_sum, ← Finset.sum_add_distrib, ← Finset.sum_add_distrib,
      ← Finset.sum_add_distrib]
    apply Finset.sum_congr rfl
    intro n hn
    rw [Finset.mem_range] at hn
    rw [gM n hn]; ring
  have s5 : ∑ n in Finset.range T, g.I n * c.I n
      = ∑ n in Finset.range T, f.M n * (c.I n * t.MI n)
        + ∑ n in Finset.range T, f.I n * (c.I n * t.II n) := by
    rw [← Finset.sum_add_distrib]
    apply Finset.sum_congr rfl
    intro n hn
    rw [Finset.mem_range] at hn
    rw [gI n hn]; ring
  have s6 : ∑ n in Finset.range T, (f.M n + f.D n)
      = ∑ n in Finset.range T, f.M n + ∑ n in Finset.range T, f.D n :=
    Finset.sum_add_distrib
  unfold pairing
  rw [Finset.sum_add_distrib, Finset.sum_add_distrib, s1, s3, s4, s5, hdel, s2,
    sum_shift, sum_shift, sum_shift, hE, s6, gN, gC, gJ, bN, bJ, bC, bE, hc, hB]
  ring

/-- The pairing at the last row: a Backward row that only holds the paths to
the end pairs with a Forward row to `C * bC`. -/
theorem pairing_last (T : Nat) (t : ChainT α) (xf : p7o_xstates_e → p7o_xtransitions_e → α)
    (f b : FlatRow α) (hf : FwdRowOK T t xf f)
    (bM : ∀ n, n < T → b.M n = b.E + t.MD n * shl T b.D n)
    (bD : ∀ n, n < T → b.D n = b.E + t.DD n * shl T b.D n)
    (bI : ∀ n, n < T → b.I n = 0) (bN : b.N = 0) (bJ : b.J = 0) :
    pairing T f b = f.C * b.C := by
  have hdel := sum_delete_chain T t xf f hf b.D
  obtain ⟨hD, hE, hB⟩ := hf
  have s1 : ∑ n in Finset.range T, (f.M n * b.M n + f.I n * b.I n)
      = b.E * ∑ n in Finset.range T, f.M n
        + ∑ n in Finset.range T, f.M n * (t.MD n * shl T b.D n) := by
    rw [Finset.mul_sum, ← Finset.sum_add_distrib]
    apply Finset.sum_congr rfl
    intro n hn
    rw [Finset.mem_range] at hn
    rw [bM n hn, bI n hn]; ring
  have s2 : ∑ n in Finset.range T, f.D n * (b.D n - t.DD n * shl T b.D n)
      = b.E * ∑ n in Finset.range T, f.D n := by
    rw [Finset.mul_sum]
    apply Finset.sum_congr rfl
    intro n hn
    rw [Finset.mem_range] at hn
    rw [bD n hn]; ring
  unfold pairing
  rw [s1, hdel, s2, hE, Finset.sum_add_distrib, bN, bJ]
  ring

/-- The pairing at the first row: the Forward row that follows the initial row
pairs with a Backward row to the value that the termination step computes. -/
theorem pairing_first (T : Nat) (t : ChainT α) (xf : p7o_xstates_e → p7o_xtransitions_e → α)
    (e : Nat → α) (f g c : FlatRow α) (hg : FwdStep T t xf e f g) (hc : BckRowOK xf c)
    (fM : ∀ n, n < T → f.M n = 0) (fI : ∀ n, n < T → f.I n = 0) (fD : ∀ n, n < T → f.D n = 0)
    (fN : f.N = 1) (fJ : f.J = 0) (fC : f.C = 0) (fB : f.B = xf p7O_N p7O_MOVE) :
    pairing T g c
      = (∑ n in Finset.range T, c.M n * e n * t.BM n) * xf p7O_N p7O_MOVE
        + c.N * xf p7O_N p7O_LOOP := by
  obtain ⟨gM, gI, gN, gC, gJ⟩ := hg
  unfold BckRowOK at hc
  have hshr : ∀ (a : Nat → α), (∀ n, n < T → a n = 0) → ∀ n, n < T → shr a n = 0 := by
    intro a ha n hn
    unfold shr
    split_ifs
    · rfl
    · exact ha (n - 1) (by omega)
  have s1 : ∑ n in Finset.range T, (g.M n * c.M n + g.I n * c.I n)
      = (∑ n in Finset.range T, c.M n * e n * t.BM n) * xf p7O_N p7O_MOVE := by
    rw [Finset.sum_mul]
    apply Finset.sum_congr rfl
    intro n hn
    rw [Finset.mem_range] at hn
    rw [gM n hn, gI n hn, hshr f.M fM n hn, hshr f.I fI n hn, hshr f.D fD n hn, fM n hn,
      fI n hn, fB]
    ring
  unfold pairing
  rw [s1, gN, gC, gJ, fN, fJ, fC, hc]
  ring

theorem pairing_scaled_left (T : Nat) (k : α) (f g b : FlatRow α) (h : FlatScaled T k f g) :
    pairing T g b = k * pairing T f b := by
  obtain ⟨hc, hN, hJ, hC, _, hE⟩ := h
  unfold pairing
  rw [hN, hJ, hC, hE]
  have : ∑ n in Finset.range T, (g.M n * b.M n + g.I n * b.I n)
      = k * ∑ n in Finset.range T, (f.M n * b.M n + f.I n * b.I n) := by
    rw [Finset.mul_sum]
    apply Finset.sum_congr rfl
    intro n hn
    rw [Finset.mem_range] at hn
    obtain ⟨h1, h2, _⟩ := hc n hn
    rw [h1, h2]; ring
  rw [this]; ring

theorem pairing_scaled_right (T : Nat) (k : α) (f b c : FlatRow α) (h : FlatScaled T k b c) :
    pairing T f c = k * pairing T f b := by
  obtain ⟨hc, hN, hJ, hC, _, hE⟩ := h
  unfold pairing
  rw [hN, hJ, hC, hE]
  have : ∑ n in Finset.range T, (f.M n * c.M n + f.I n * c.I n)
      = k * ∑ n in Finset.range T, (f.M n * b.M n + f.I n * b.I n) := by
    rw [Finset.mul_sum]
    apply Finset.sum_congr rfl
    intro n hn
    rw [Finset.mem_range] at hn
    obtain ⟨h1, h2, _⟩ := hc n hn
    rw [h1, h2]; ring
  rw [this]; ring

theorem fwdRowOK_scaled (T : Nat) (t : ChainT α) (xf : p7o_xstates_e → p7o_xtransitions_e → α)
    (k : α) (f g : FlatRow α) (hf : FwdRowOK T t xf f) (h : FlatScaled T k f g) :
    FwdRowOK T t xf g := by
  obtain ⟨hD, hE, hB⟩ := hf
  obtain ⟨hc, hN, hJ, hC, hB2, hE2⟩ := h
  refine ⟨?_, ?_, ?_⟩
  · intro n hn
    rw [(hc n hn).2.2, hD n hn]
    unfold shr
    split_ifs with h0
    · ring
    · have hn1 : n - 1 < T := by omega
      show k * (f.M (n - 1) * t.MD (n - 1) + f.D (n - 1) * t.DD (n - 1))
        = g.M (n - 1) * t.MD (n - 1) + g.D (n - 1) * t.DD (n - 1)
      rw [(hc (n - 1) hn1).1, (hc (n - 1) hn1).2.2]; ring
  · rw [hE2, hE, Finset.mul_sum]
    apply Finset.sum_congr rfl
    intro n hn
    rw [Finset.mem_range] at hn
    rw [(hc n hn).1, (hc n hn).2.2]; ring
  · rw [hB2, hJ, hN, hB]; ring

theorem bckRowOK_scaled (T : Nat) (xf : p7o_xstates_e → p7o_xtransitions_e → α)
    (k : α) (b c : FlatRow α) (hb : BckRowOK xf b) (h : FlatScaled T k b c) :
    BckRowOK xf c := by
  obtain ⟨_, _, hJ, hC, _, hE⟩ := h
  unfold BckRowOK at hb ⊢
  rw [hE, hJ, hC, hb]; ring

end Pairing

/-! ## Facts about striped tables -/

section FlatFacts

variable {α : Type} [LinearOrderedField α]

theorem flat_mk (Q : Nat) (v : Nat → M128 α) (z q : Nat) (hz : z < 4) (hq : q < Q) :
    flat Q v (z * Q + q) = v q ⟨z, hz⟩ := by
  have hQ : 0 < Q := Nat.lt_of_le_of_lt (Nat.zero_le q) hq
  have h1 : (z * Q + q) % Q = q := by
    rw [Nat.add_comm, Nat.add_mul_mod_self_right, Nat.mod_eq_of_lt hq]
  have h2 : (z * Q + q) / Q = z := by
    rw [Nat.add_comm, Nat.add_mul_div_right _ _ hQ, Nat.div_eq_of_lt hq, Nat.zero_add]
  unfold flat
  rw [h1, h2]
  congr 1
  exact Fin.ext (Nat.mod_eq_of_lt hz)

theorem flat_decomp (Q n : Nat) (hn : n < 4 * Q) :
    ∃ z q, z < 4 ∧ q < Q ∧ n = z * Q + q := by
  have hQ : 0 < Q := by omega
  refine ⟨n / Q, n % Q, ?_, Nat.mod_lt n hQ, ?_⟩
  · exact (Nat.div_lt_iff_lt_mul hQ).mpr hn
  · rw [Nat.mul_comm]; exact (Nat.div_add_mod n Q).symm

theorem shr_flat (Q : Nat) (v : Nat → M128 α) (z q : Nat) (hz : z < 4) (hq : q < Q) :
    shr (flat Q v) (z * Q + q) = fwd_prev Q v q ⟨z, hz⟩ := by
  have hQ : 0 < Q := Nat.lt_of_le_of_lt (Nat.zero_le q) hq
  unfold shr fwd_prev
  rcases Nat.eq_zero_or_pos q with hq0 | hq0
  · subst hq0
    rcases Nat.eq_zero_or_pos z with hz0 | hz0
    · subst hz0
      simp [esl_sse_rightshift_ps, mm_setzero_ps]
    · obtain ⟨y, rfl⟩ : ∃ y, z = y + 1 := ⟨z - 1, by omega⟩
      have hne : (y + 1) * Q + 0 ≠ 0 := by
        have : 0 < (y + 1) * Q := Nat.mul_pos (Nat.succ_pos y) hQ
        omega
      have hidx : (y + 1) * Q + 0 - 1 = y * Q + (Q - 1) := by
        rw [Nat.succ_mul]; omega
      have hy : y < 3 := by omega
      rw [if_neg hne, if_pos rfl, hidx, flat_mk Q v y (Q - 1) (by omega) (by omega)]
      interval_cases y <;> rfl
  · have hne : z * Q + q ≠ 0 := by omega
    have hidx : z * Q + q - 1 = z * Q + (q - 1) := by omega
    rw [if_neg hne, if_neg (by omega), hidx, flat_mk Q v z (q - 1) hz (by omega)]

theorem shl_flat (Q : Nat) (v : Nat → M128 α) (z q : Nat) (hz : z < 4) (hq : q < Q) :
    shl (4 * Q) (flat Q v) (z * Q + q) = bck_next Q v q ⟨z, hz⟩ := by
  have hQ : 0 < Q := Nat.lt_of_le_of_lt (Nat.zero_le q) hq
  unfold shl bck_next
  by_cases hlast : q + 1 = Q
  · rw [if_pos hlast]
    have hidx : z * Q + q + 1 = (z + 1) * Q + 0 := by
      rw [Nat.succ_mul]; omega
    by_cases hz3 : z + 1 < 4
    · have hlt : z * Q + q + 1 < 4 * Q := by
        rw [hidx, Nat.add_zero]
        exact Nat.mul_lt_mul_of_lt_of_le hz3 le_rfl hQ
      rw [if_pos hlt, hidx, flat_mk Q v (z + 1) 0 hz3 hQ]
      interval_cases z <;> first | rfl | omega
    · have hz3b : z = 3 := by omega
      subst hz3b
      have hge : ¬ (3 * Q + q + 1 < 4 * Q) := by omega
      rw [if_neg hge]
      rfl
  · rw [if_neg hlast]
    have hlt : z * Q + q + 1 < 4 * Q := by
      have : z * Q ≤ 3 * Q := Nat.mul_le_mul_right Q (by omega)
      omega
    have hidx : z * Q + q + 1 = z * Q + (q + 1) := by omega
    rw [if_pos hlt, hidx, flat_mk Q v z (q + 1) hz (by omega)]

/-- A sum along the chain of nodes, block by block. -/
theorem sum_flat (Q : Nat) (g : Nat → α) :
    ∑ n in Finset.range (4 * Q), g n
      = ∑ q in Finset.range Q,
          (g (0 * Q + q) + g (1 * Q + q) + g (2 * Q + q) + g (3 * Q + q)) := by
  have h4 : 4 * Q = Q + Q + Q + Q := by omega
  rw [h4, Finset.sum_range_add, Finset.sum_range_add, Finset.sum_range_add,
    Finset.sum_add_distrib, Finset.sum_add_distrib, Finset.sum_add_distrib]
  congr 1
  · congr 1
    · congr 1
      · exact Finset.sum_congr rfl (fun q _ => by rw [Nat.zero_mul, Nat.zero_add])
      · exact Finset.sum_congr rfl (fun q _ => by rw [Nat.one_mul])
    · exact Finset.sum_congr rfl (fun q _ => by rw [Nat.two_mul])
  · exact Finset.sum_congr rfl (fun q _ => by congr 1; omega)

theorem hsum_eq (v : M128 α) : hsum v = v 0 + v 1 + v 2 + v 3 := by
  have e1 : (Fin.ofNat (MM_SHUFFLE 0 3 2 1 % 4) : Fin 4) = 1 := rfl
  have e2 : (Fin.ofNat (MM_SHUFFLE 1 0 3 2 % 4) : Fin 4) = 2 := rfl
  have e3 : (Fin.ofNat (MM_SHUFFLE 0 3 2 1 / 16 % 4) : Fin 4) = 3 := rfl
  simp only [hsum, mm_store_ss, mm_add_ps, mm_shuffle_ps, e1, e2, e3]
  ring

/-- The horizontal sums of the blocks of a striped table add up to the sum
along the chain. -/
theorem sum_flat_lanes (Q : Nat) (v : Nat → M128 α) :
    ∑ n in Finset.range (4 * Q), flat Q v n
      = ∑ q in Finset.range Q, (v q 0 + v q 1 + v q 2 + v q 3) := by
  rw [sum_flat]
  apply Finset.sum_congr rfl
  intro q hq
  rw [Finset.mem_range] at hq
  rw [flat_mk Q v 0 q (by omega) hq, flat_mk Q v 1 q (by omega) hq,
    flat_mk Q v 2 q (by omega) hq, flat_mk Q v 3 q (by omega) hq]
  rfl

end FlatFacts

/-! ## The toy model, evaluated -/

section DemoFacts

variable {α : Type} [LinearOrderedField α]

/-- The initialization clears the blocks `q < Q` of row 0. -/
theorem fwd_init_cells (L Q : Nat) (om : P7_OPROFILE α) (ox : P7_OMX α) (q : Nat)
    (hq : q < Q) :
    MMO (fwd_init L Q om ox).ox.dpf 0 q = mm_setzero_ps ∧
    DMO (fwd_init L Q om ox).ox.dpf 0 q = mm_setzero_ps ∧
    IMO (fwd_init L Q om ox).ox.dpf 0 q = mm_setzero_ps := by
  have hloop : ∀ n, ∀ q, q < n →
      MMO (forUp n (fwd_init_body (α := α) 0)
        { ox with M := om.M, L := L, has_own_scales := true }).dpf 0 q = mm_setzero_ps ∧
      DMO (forUp n (fwd_init_body (α := α) 0)
        { ox with M := om.M, L := L, has_own_scales := true }).dpf 0 q = mm_setzero_ps ∧
      IMO (forUp n (fwd_init_body (α := α) 0)
        { ox with M := om.M, L := L, has_own_scales := true }).dpf 0 q = mm_setzero_ps := by
    intro n
    induction n with
    | zero => intro q hq; omega
    | succ k ih =>
      intro q hq
      rw [forUp_succ]
      simp only [fwd_init_body, MMO_setMMO, MMO_setDMO, MMO_setIMO, DMO_setMMO, DMO_setDMO,
        DMO_setIMO, IMO_setMMO, IMO_setDMO, IMO_setIMO, true_and]
      by_cases hqk : q = k
      · simp [hqk]
      · simp only [hqk, if_false]
        exact ih q (by omega)
  exact hloop Q q hq

/-- The End value of a row of the toy model computed from a cleared row. -/
theorem demo_xE (x : Nat) (p : α) (mode : p7_mode) (P : DPRow α)
    (hM : P.mmo 0 = mm_setzero_ps) (hD : P.dmo 0 = mm_setzero_ps)
    (hI : P.imo 0 = mm_setzero_ps) :
    fwd_pure_xE (demo_om p mode) x 1 p P = 4 * p := by
  have e0 : (Fin.ofNat (MM_SHUFFLE 0 3 2 1 % 4) : Fin 4) = 1 := rfl
  have e1 : (Fin.ofNat (MM_SHUFFLE 0 3 2 1 / 4 % 4) : Fin 4) = 2 := rfl
  have e2 : (Fin.ofNat (MM_SHUFFLE 0 3 2 1 / 16 % 4) : Fin 4) = 3 := rfl
  have e3 : (Fin.ofNat (MM_SHUFFLE 0 3 2 1 / 64 % 4) : Fin 4) = 0 := rfl
  have f0 : (Fin.ofNat (MM_SHUFFLE 1 0 3 2 % 4) : Fin 4) = 2 := rfl
  simp [fwd_pure_xE, fwd_pure_D, fwd_pure_first, fwd_pure_serial, fwd_pure_pass,
    fwd_pure_xEvD, fwd_pure_xEv, fwd_pure_M, fwd_pure_Y, fwd_dd_c, fwd_dd_e, fwd_prev, hM, hD,
    hI, demo_om, hsum, mm_store_ss, mm_add_ps, mm_mul_ps, mm_shuffle_ps, mm_set1_ps,
    mm_setzero_ps, esl_sse_rightshift_ps, e0, e1, e2, e3, f0]
  ring

/-- Row 1 of the toy model before rescaling: the End value and the C value
are 4. -/
theorem demo_row1 (do_full : Bool) (dsq : Nat → Nat) (mode : p7_mode) (ox : P7_OMX α) :
    (fwd_row_compute do_full dsq 1 (demo_om (1 : α) mode) 1
      (fwd_init 1 1 (demo_om (1 : α) mode) ox)).xE = 4 ∧
    (fwd_row_compute do_full dsq 1 (demo_om (1 : α) mode) 1
      (fwd_init 1 1 (demo_om (1 : α) mode) ox)).xC = 4 := by
  obtain ⟨cM, cD, cI⟩ := fwd_init_cells 1 1 (demo_om (1 : α) mode) ox 0 Nat.zero_lt_one
  have hE : (fwd_row_compute do_full dsq 1 (demo_om (1 : α) mode) 1
      (fwd_init 1 1 (demo_om (1 : α) mode) ox)).xE = 4 := by
    rw [(fwd_row_compute_spec do_full dsq 1 (demo_om (1 : α) mode) 1 _ Nat.zero_lt_one).1]
    have := demo_xE (dsq 1) (1 : α) mode
      ((fwd_init 1 1 (demo_om (1 : α) mode) ox).ox.dpf (fwd_init 1 1 (demo_om (1 : α) mode) ox).dpc)
      cM cD cI
    rw [mul_one] at this
    exact this
  refine ⟨hE, ?_⟩
  rw [(fwd_row_compute_specials do_full dsq 1 (demo_om (1 : α) mode) 1 _).2.2.2.2.2.2.1, hE]
  simp [fwd_init, demo_om]

/-- After row 1 of the toy model the C value is 4, with and without the
rescaling step. -/
theorem demo_state1 (lm : LibM α) (do_full : Bool) (dsq : Nat → Nat) (mode : p7_mode)
    (ox : P7_OMX α) :
    (fwd_state lm do_full dsq 1 (demo_om (1 : α) mode)
      (fwd_init 1 1 (demo_om (1 : α) mode) ox) 1).xC = 4 ∧
    (fwd_state_unscaled do_full dsq 1 (demo_om (1 : α) mode)
      (fwd_init 1 1 (demo_om (1 : α) mode) ox) 1).xC = 4 := by
  obtain ⟨hE, hC⟩ := demo_row1 do_full dsq mode ox
  constructor
  · have hst : fwd_state lm do_full dsq 1 (demo_om (1 : α) mode)
        (fwd_init 1 1 (demo_om (1 : α) mode) ox) 1
        = fwd_row_rescale lm 1 1 (fwd_row_compute do_full dsq 1 (demo_om (1 : α) mode) 1
            (fwd_init 1 1 (demo_om (1 : α) mode) ox)) := rfl
    rw [hst]
    have hno : ¬ ((10000 : Nat) : α) < (fwd_row_compute do_full dsq 1 (demo_om (1 : α) mode) 1
        (fwd_init 1 1 (demo_om (1 : α) mode) ox)).xE := by
      rw [hE, cast_threshold]; norm_num
    rw [(fwd_row_rescale_none lm 1 1 _ hno).2.2.2.2.1, hC]
  · have hst : fwd_state_unscaled do_full dsq 1 (demo_om (1 : α) mode)
        (fwd_init 1 1 (demo_om (1 : α) mode) ox) 1
        = fwd_row_noscale 1 (fwd_row_compute do_full dsq 1 (demo_om (1 : α) mode) 1
            (fwd_init 1 1 (demo_om (1 : α) mode) ox)) := rfl
    rw [hst, (fwd_row_noscale_spec 1 _).2.2.2.1, hC]

/-- The toy model on a sequence of length 1, with an exact library:
`forward_engine` returns `eslOK`. -/
theorem demo_forward_ok (log : α → α) (do_full : Bool) (dsq : Nat → Nat) (mode : p7_mode)
    (ox : P7_OMX α) (opt_sc : Bool) :
    (forward_engine demo_NQF (demo_lm log) (fun _ => false) do_full dsq 1
      (demo_om (1 : α) mode) ox opt_sc).1 = eslOK := by
  apply forward_engine_ok_of_ne_zero demo_NQF (demo_lm log) (fun _ => false) do_full dsq 1
    (demo_om (1 : α) mode) ox opt_sc (fun _ _ _ => rfl) (fun _ => rfl)
  · intro x
    show (0 : Int) ≠ 1
    decide
  · have := (demo_state1 (demo_lm log) do_full dsq mode ox).1
    show (fwd_state (demo_lm log) do_full dsq 1 (demo_om (1 : α) mode)
      (fwd_init 1 1 (demo_om (1 : α) mode) ox) 1).xC ≠ 0
    rw [this]
    norm_num

end DemoFacts

/-! ## Claims about sparse rescaling in forward_engine -/

section ForwardScaleClaims

variable {α : Type} [LinearOrderedField α]

/-- Every scale factor stored by `forward_engine` is 1 or exceeds 1e4. -/
theorem fwd_state_scale_cases (lm : LibM α) (do_full : Bool) (dsq : Nat → Nat) (Q L : Nat)
    (om : P7_OPROFILE α) (ox : P7_OMX α) (n : Nat) :
    (fwd_state lm do_full dsq Q om (fwd_init L Q om ox) n).ox.xmx n p7X_SCALE = 1 ∨
    10000 < (fwd_state lm do_full dsq Q om (fwd_init L Q om ox) n).ox.xmx n p7X_SCALE := by
  cases n with
  | zero => left; simp [fwd_state, fwd_init]
  | succ k =>
    show (fwd_row_rescale lm Q (k + 1) (fwd_row_compute do_full dsq Q om (k + 1) _)).ox.xmx
        (k + 1) p7X_SCALE = 1 ∨ _ <
      (fwd_row_rescale lm Q (k + 1) (fwd_row_compute do_full dsq Q om (k + 1) _)).ox.xmx
        (k + 1) p7X_SCALE
    by_cases h : ((10000 : Nat) : α) < (fwd_row_compute do_full dsq Q om (k + 1)
      (fwd_state lm do_full dsq Q om (fwd_init L Q om ox) k)).xE
    · right
      rw [(fwd_row_rescale_event lm Q (k + 1) _ h).1]
      rwa [cast_threshold] at h
    · left
      exact (fwd_row_rescale_none lm Q (k + 1) _ h).1

/-- C4: in a run without cancellation, for every position `i` in `1..L`, the
scale factor stored for row `i` is the End value `E_i` computed for that row
when `E_i > 1e4`, and then E is stored as 1 and the stored N, C, J, B and the
Match/Delete/Insert lanes of the row are the computed ones divided by `E_i`;
otherwise the scale factor is 1 and the computed values are stored untouched.
Hence every scale factor of rows `0..L` is 1 or above 1e4, and at least 1. -/
theorem C4_forward_scale_factors (p7O_NQF : Nat → Nat) (lm : LibM α)
    (cancelFlag : Nat → Bool) (do_full : Bool) (dsq : Nat → Nat) (L : Nat)
    (om : P7_OPROFILE α) (ox : P7_OMX α) (opt_sc : Bool)
    (hnc : ∀ i, 1 ≤ i → i ≤ L → cancelFlag i = false) :
    let Q := p7O_NQF om.M
    let res := (forward_engine p7O_NQF lm cancelFlag do_full dsq L om ox opt_sc).2.1
    (∀ i, 1 ≤ i → i ≤ L →
      let pre := fwd_pre lm do_full dsq Q om (fwd_init L Q om ox) i
      let post := fwd_state lm do_full dsq Q om (fwd_init L Q om ox) i
      (10000 < pre.xE →
        res.xmx i p7X_SCALE = pre.xE ∧ res.xmx i p7X_E = 1 ∧
        res.xmx i p7X_N = pre.xN / pre.xE ∧ res.xmx i p7X_C = pre.xC / pre.xE ∧
        res.xmx i p7X_J = pre.xJ / pre.xE ∧ res.xmx i p7X_B = pre.xB / pre.xE ∧
        ∀ q, q < Q → ∀ z,
          MMO post.ox.dpf (do_full.toNat * i) q z
            = MMO pre.ox.dpf (do_full.toNat * i) q z / pre.xE ∧
          DMO post.ox.dpf (do_full.toNat * i) q z
            = DMO pre.ox.dpf (do_full.toNat * i) q z / pre.xE ∧
          IMO post.ox.dpf (do_full.toNat * i) q z
            = IMO pre.ox.dpf (do_full.toNat * i) q z / pre.xE) ∧
      (¬ 10000 < pre.xE →
        res.xmx i p7X_SCALE = 1 ∧ res.xmx i p7X_E = pre.xE ∧
        res.xmx i p7X_N = pre.xN ∧ res.xmx i p7X_C = pre.xC ∧
        res.xmx i p7X_J = pre.xJ ∧ res.xmx i p7X_B = pre.xB ∧
        post.ox.dpf = pre.ox.dpf)) ∧
    (∀ j, j ≤ L →
      (res.xmx j p7X_SCALE = 1 ∨ 10000 < res.xmx j p7X_SCALE) ∧ 1 ≤ res.xmx j p7X_SCALE) := by
  intro Q res
  have hres : res = (fwd_state lm do_full dsq Q om (fwd_init L Q om ox) L).ox :=
    forward_engine_ox p7O_NQF lm cancelFlag do_full dsq L om ox opt_sc hnc
  constructor
  · intro i h1 hL pre post
    have hst : res.xmx i = post.ox.xmx i := by
      rw [hres]
      exact fwd_state_xmx_stable lm do_full dsq Q om _ i L hL
    obtain ⟨k, rfl⟩ : ∃ k, i = k + 1 := ⟨i - 1, by omega⟩
    have hpost : post = fwd_row_rescale lm Q (k + 1) pre := rfl
    have hdpc : pre.dpc = do_full.toNat * (k + 1) :=
      (fwd_row_compute_specials do_full dsq Q om (k + 1) _).2.2.2.1
    have hstored := fwd_row_rescale_stored lm Q (k + 1) pre
    rw [← hpost] at hstored
    obtain ⟨sE, sN, sJ, sB, sC⟩ := hstored
    constructor
    · intro hgt
      have hgt2 : ((10000 : Nat) : α) < pre.xE := by rwa [cast_threshold]
      have ev := fwd_row_rescale_event lm Q (k + 1) pre hgt2
      rw [← hpost] at ev
      obtain ⟨e1, _, e3, e4, e5, e6, e7, _, _, _, eM, eD, eI⟩ := ev
      refine ⟨by rw [hst, e1], by rw [hst, sE, e3], by rw [hst, sN, e4], by rw [hst, sC, e5],
        by rw [hst, sJ, e6], by rw [hst, sB, e7], ?_⟩
      intro q hq z
      rw [eM, eD, eI, ← hdpc]
      simp [hq, mm_mul_ps, mm_set1_ps, div_eq_mul_inv]
    · intro hle
      have hle2 : ¬ ((10000 : Nat) : α) < pre.xE := by rwa [cast_threshold]
      have ev := fwd_row_rescale_none lm Q (k + 1) pre hle2
      rw [← hpost] at ev
      obtain ⟨e1, _, e3, e4, e5, e6, e7, _, _, _, e11⟩ := ev
      exact ⟨by rw [hst, e1], by rw [hst, sE, e3], by rw [hst, sN, e4], by rw [hst, sC, e5],
        by rw [hst, sJ, e6], by rw [hst, sB, e7], e11⟩
  · intro j hj
    have hst : res.xmx j = (fwd_state lm do_full dsq Q om (fwd_init L Q om ox) j).ox.xmx j := by
      rw [hres]
      exact fwd_state_xmx_stable lm do_full dsq Q om _ j L hj
    have hc := fwd_state_scale_cases lm do_full dsq Q L om ox j
    rw [← hst] at hc
    refine ⟨hc, ?_⟩
    rcases hc with h | h
    · rw [h]
    · linarith

/-- Witness for C4: a run of the toy model on a sequence of length 1. -/
theorem C4_forward_scale_factors_witness :
    (∀ i, 1 ≤ i → i ≤ 1 → (fun _ : Nat => false) i = false) ∧
    ((forward_engine demo_NQF (demo_lm (fun x : ℚ => x)) (fun _ => false) true (fun _ => 0) 1
        (demo_om (1 : ℚ) p7_LOCAL) demo_ox true).2.1.xmx 1 p7X_SCALE = 1 ∨
     10000 < (forward_engine demo_NQF (demo_lm (fun x : ℚ => x)) (fun _ => false) true
        (fun _ => 0) 1 (demo_om (1 : ℚ) p7_LOCAL) demo_ox true).2.1.xmx 1 p7X_SCALE) :=
  ⟨fun _ _ _ => rfl,
   ((C4_forward_scale_factors demo_NQF (demo_lm (fun x : ℚ => x)) (fun _ => false) true
      (fun _ => 0) 1 (demo_om (1 : ℚ) p7_LOCAL) demo_ox true (fun _ _ _ => rfl)).2 1 le_rfl).1⟩

/-- With a logarithm that vanishes at 1, `totscale` is the sum of the
logarithms of the scale factors stored for rows `1..n`. -/
theorem fwd_state_totscale (lm : LibM α) (hlog1 : lm.log 1 = 0) (do_full : Bool)
    (dsq : Nat → Nat) (Q L : Nat) (om : P7_OPROFILE α) (ox : P7_OMX α) (n : Nat) :
    (fwd_state lm do_full dsq Q om (fwd_init L Q om ox) n).ox.totscale
      = ∑ j in Finset.Icc 1 n,
          lm.log ((fwd_state lm do_full dsq Q om (fwd_init L Q om ox) j).ox.xmx j p7X_SCALE) := by
  induction n with
  | zero => simp [fwd_state, fwd_init]
  | succ k ih =>
    rw [Finset.sum_Icc_succ_top (Nat.succ_le_succ (Nat.zero_le k)), ← ih]
    have hc := (fwd_row_compute_specials do_full dsq Q om (k + 1)
      (fwd_state lm do_full dsq Q om (fwd_init L Q om ox) k)).2.1
    show (fwd_row_rescale lm Q (k + 1) (fwd_row_compute do_full dsq Q om (k + 1) _)).ox.totscale
      = _ + lm.log ((fwd_row_rescale lm Q (k + 1)
          (fwd_row_compute do_full dsq Q om (k + 1) _)).ox.xmx (k + 1) p7X_SCALE)
    by_cases h : ((10000 : Nat) : α) < (fwd_row_compute do_full dsq Q om (k + 1)
      (fwd_state lm do_full dsq Q om (fwd_init L Q om ox) k)).xE
    · obtain ⟨e1, e2, _⟩ := fwd_row_rescale_event lm Q (k + 1) _ h
      rw [e1, e2, hc]
    · obtain ⟨e1, e2, _⟩ := fwd_row_rescale_none lm Q (k + 1) _ h
      rw [e1, e2, hc, hlog1, add_zero]

/-- C1: for every model and sequence on which `forward_engine` returns
`eslOK` (over the reals, with the natural logarithm), the score written is
`totscale + ln(C_L * xf[C][MOVE])`, where `C_L` is the C value stored in row
`L` of the trace, and `totscale` is the sum over `i = 1..L` of the logarithms
of the scale factors stored in rows `1..L`. -/
theorem C1_forward_score (p7O_NQF : Nat → Nat) (lm : LibM ℝ)
    (cancelFlag : Nat → Bool) (do_full : Bool) (dsq : Nat → Nat) (L : Nat)
    (om : P7_OPROFILE ℝ) (ox : P7_OMX ℝ) (opt_sc : Bool)
    (hlog : lm.log = Real.log)
    (hok : (forward_engine p7O_NQF lm cancelFlag do_full dsq L om ox opt_sc).1 = eslOK) :
    (forward_engine p7O_NQF lm cancelFlag do_full dsq L om ox opt_sc).2.2
      = (if opt_sc then
          some ((forward_engine p7O_NQF lm cancelFlag do_full dsq L om ox opt_sc).2.1.totscale
            + Real.log
                ((forward_engine p7O_NQF lm cancelFlag do_full dsq L om ox opt_sc).2.1.xmx
                    L p7X_C * om.xf p7O_C p7O_MOVE))
         else none) ∧
    (forward_engine p7O_NQF lm cancelFlag do_full dsq L om ox opt_sc).2.1.totscale
      = ∑ i in Finset.Icc 1 L,
          Real.log ((forward_engine p7O_NQF lm cancelFlag do_full dsq L om ox opt_sc).2.1.xmx
            i p7X_SCALE) := by
  obtain ⟨hox, hsc, _⟩ := forward_engine_ok p7O_NQF lm cancelFlag do_full dsq L om ox opt_sc hok
  have hx := fwd_state_xC_stored lm do_full dsq (p7O_NQF om.M) L om ox L
  have hlog1 : lm.log 1 = 0 := by rw [hlog]; exact Real.log_one
  constructor
  · rw [hsc, hox, hx, hlog]
  · rw [hox, fwd_state_totscale lm hlog1, hlog]
    apply Finset.sum_congr rfl
    intro j hj
    rw [Finset.mem_Icc] at hj
    rw [fwd_state_xmx_stable lm do_full dsq (p7O_NQF om.M) om _ j L hj.2]

/-- C3: over the reals, in a run without cancellation, every value stored for
row `i` (Match, Delete and Insert lanes, and N, B, C, J) times the product of
the scale factors of rows `1..i` equals the value computed by the same
recursion with the rescaling step removed; consequently, when the call
returns `eslOK`, the unscaled `C_L` is positive and `xf[C][MOVE]` is positive,
the returned score is `ln(C_L_unscaled * xf[C][MOVE])`. -/
theorem C3_sparse_rescaling_exact (p7O_NQF : Nat → Nat) (lm : LibM ℝ)
    (cancelFlag : Nat → Bool) (do_full : Bool) (dsq : Nat → Nat) (L : Nat)
    (om : P7_OPROFILE ℝ) (ox : P7_OMX ℝ) (opt_sc : Bool)
    (hQ : 0 < p7O_NQF om.M)
    (hnc : ∀ i, 1 ≤ i → i ≤ L → cancelFlag i = false) :
    let Q := p7O_NQF om.M
    let res := (forward_engine p7O_NQF lm cancelFlag do_full dsq L om ox opt_sc).2.1
    let S := fwd_state lm do_full dsq Q om (fwd_init L Q om ox)
    let U := fwd_state_unscaled do_full dsq Q om (fwd_init L Q om ox)
    (∀ i, i ≤ L → ∀ q, q < Q → ∀ z,
      MMO (S i).ox.dpf (do_full.toNat * i) q z * (∏ j in Finset.Icc 1 i, res.xmx j p7X_SCALE)
        = MMO (U i).ox.dpf (do_full.toNat * i) q z ∧
      DMO (S i).ox.dpf (do_full.toNat * i) q z * (∏ j in Finset.Icc 1 i, res.xmx j p7X_SCALE)
        = DMO (U i).ox.dpf (do_full.toNat * i) q z ∧
      IMO (S i).ox.dpf (do_full.toNat * i) q z * (∏ j in Finset.Icc 1 i, res.xmx j p7X_SCALE)
        = IMO (U i).ox.dpf (do_full.toNat * i) q z) ∧
    (∀ i, i ≤ L →
      res.xmx i p7X_N * (∏ j in Finset.Icc 1 i, res.xmx j p7X_SCALE) = (U i).ox.xmx i p7X_N ∧
      res.xmx i p7X_B * (∏ j in Finset.Icc 1 i, res.xmx j p7X_SCALE) = (U i).ox.xmx i p7X_B ∧
      res.xmx i p7X_C * (∏ j in Finset.Icc 1 i, res.xmx j p7X_SCALE) = (U i).ox.xmx i p7X_C ∧
      res.xmx i p7X_J * (∏ j in Finset.Icc 1 i, res.xmx j p7X_SCALE) = (U i).ox.xmx i p7X_J) ∧
    (lm.log = Real.log →
      (forward_engine p7O_NQF lm cancelFlag do_full dsq L om ox opt_sc).1 = eslOK →
      0 < (U L).ox.xmx L p7X_C → 0 < om.xf p7O_C p7O_MOVE →
      (forward_engine p7O_NQF lm cancelFlag do_full dsq L om ox opt_sc).2.2
        = if opt_sc then some (Real.log ((U L).ox.xmx L p7X_C * om.xf p7O_C p7O_MOVE))
          else none) := by
  intro Q res S U
  have hres : res = (S L).ox :=
    forward_engine_ox p7O_NQF lm cancelFlag do_full dsq L om ox opt_sc hnc
  have hprod : ∀ i, i ≤ L → (∏ j in Finset.Icc 1 i, res.xmx j p7X_SCALE)
      = ∏ j in Finset.Icc 1 i, (S j).ox.xmx j p7X_SCALE := by
    intro i hi
    apply Finset.prod_congr rfl
    intro j hj
    rw [Finset.mem_Icc] at hj
    rw [hres]
    exact congrFun (fwd_state_xmx_stable lm do_full dsq Q om _ j L (by omega)) p7X_SCALE
  have hrel := fun i => fwd_state_scaled lm do_full dsq Q om (fwd_init L Q om ox) hQ i
  refine ⟨?_, ?_, ?_⟩
  · intro i hi q hq z
    rw [hprod i hi]
    obtain ⟨_, ⟨_, _, _, _, hdpc, hrow⟩, _⟩ := hrel i
    have hS : (S i).dpc = do_full.toNat * i := fwd_state_dpc lm do_full dsq Q L om ox i
    rw [hS] at hdpc hrow
    rw [hdpc] at hrow
    obtain ⟨r1, r2, r3⟩ := hrow q hq
    refine ⟨?_, ?_, ?_⟩
    · have := r1 z
      simp only [MMO]
      rw [this]; ring
    · have := r2 z
      simp only [DMO]
      rw [this]; ring
    · have := r3 z
      simp only [IMO]
      rw [this]; ring
  · intro i hi
    rw [hprod i hi]
    obtain ⟨_, ⟨hN, hC, hJ, hB, _, _⟩, _⟩ := hrel i
    have hst : res.xmx i = (S i).ox.xmx i := by
      rw [hres]
      exact fwd_state_xmx_stable lm do_full dsq Q om _ i L hi
    obtain ⟨sN, sJ, sB, sC⟩ := fwd_state_stored lm do_full dsq Q L om ox i
    obtain ⟨uN, uJ, uB, uC⟩ := fwd_state_unscaled_stored do_full dsq Q L om ox i
    refine ⟨?_, ?_, ?_, ?_⟩
    · rw [hst, sN, uN, hN]; ring
    · rw [hst, sB, uB, hB]; ring
    · rw [hst, sC, uC, hC]; ring
    · rw [hst, sJ, uJ, hJ]; ring
  · intro hlog hok hCpos hmove
    obtain ⟨_, hsc, _⟩ :=
      forward_engine_ok p7O_NQF lm cancelFlag do_full dsq L om ox opt_sc hok
    rw [hsc]
    obtain ⟨hpos, ⟨_, hC, _, _, _, _⟩, _⟩ := hrel L
    obtain ⟨_, _, _, uC⟩ := fwd_state_unscaled_stored do_full dsq Q L om ox L
    have hlog1 : lm.log 1 = 0 := by rw [hlog]; exact Real.log_one
    have htot := fwd_state_totscale lm hlog1 do_full dsq Q L om ox L
    have hsum : (S L).ox.totscale
        = Real.log (∏ j in Finset.Icc 1 L, (S j).ox.xmx j p7X_SCALE) := by
      rw [htot, hlog, Real.log_prod]
      intro j _
      rcases fwd_state_scale_cases lm do_full dsq Q L om ox j with h | h
      · rw [h]; exact one_ne_zero
      · exact ne_of_gt (by linarith)
    have hUC : (U L).xC = (∏ j in Finset.Icc 1 L, (S j).ox.xmx j p7X_SCALE) * (S L).xC := hC
    have hSpos : 0 < (S L).xC := by
      rw [uC, hUC] at hCpos
      exact (mul_pos_iff_of_pos_left hpos).mp hCpos
    split_ifs
    · congr 1
      show (S L).ox.totscale + lm.log ((S L).xC * om.xf p7O_C p7O_MOVE) = _
      rw [hsum, hlog, uC, hUC, ← Real.log_mul (ne_of_gt hpos)
        (ne_of_gt (mul_pos hSpos hmove))]
      congr 1
      ring
    · rfl

/-- Witness for C5: the toy model on a sequence of length 1 is not cancelled,
is not a range error, and gets its score. -/
theorem C5_forward_range_error_witness :
    (∀ i, 1 ≤ i → i ≤ 1 → (fun _ : Nat => false) i = false) ∧
    (forward_engine demo_NQF (demo_lm (fun x : ℚ => x)) (fun _ => false) true (fun _ => 0) 1
      (demo_om (1 : ℚ) p7_LOCAL) demo_ox true).1 = eslOK :=
  ⟨fun _ _ _ => rfl,
   ((C5_forward_range_error demo_NQF (demo_lm (fun x : ℚ => x)) (fun _ => false) true
      (fun _ => 0) 1 (demo_om (1 : ℚ) p7_LOCAL) demo_ox true (fun _ _ _ => rfl)).2.2
      (by rw [demo_forward_ok]; decide)).1⟩

/-- Witness for C1: the toy model on a sequence of length 1, over the reals. -/
theorem C1_forward_score_witness :
    (forward_engine demo_NQF (demo_lm Real.log) (fun _ => false) true (fun _ => 0) 1
      (demo_om (1 : ℝ) p7_LOCAL) demo_ox true).1 = eslOK ∧
    (forward_engine demo_NQF (demo_lm Real.log) (fun _ => false) true (fun _ => 0) 1
      (demo_om (1 : ℝ) p7_LOCAL) demo_ox true).2.1.totscale
      = ∑ i in Finset.Icc 1 1,
          Real.log ((forward_engine demo_NQF (demo_lm Real.log) (fun _ => false) true
            (fun _ => 0) 1 (demo_om (1 : ℝ) p7_LOCAL) demo_ox true).2.1.xmx i p7X_SCALE) :=
  ⟨demo_forward_ok Real.log true (fun _ => 0) p7_LOCAL demo_ox true,
   (C1_forward_score demo_NQF (demo_lm Real.log) (fun _ => false) true (fun _ => 0) 1
      (demo_om (1 : ℝ) p7_LOCAL) demo_ox true rfl
      (demo_forward_ok Real.log true (fun _ => 0) p7_LOCAL demo_ox true)).2⟩

/-- Witness for C3: the toy model on a sequence of length 1, over the reals;
the call returns `eslOK`, the unscaled C value is 4, and the score is
`ln(4 * 1)`. -/
theorem C3_sparse_rescaling_exact_witness :
    (0 < demo_NQF (demo_om (1 : ℝ) p7_LOCAL).M ∧
      ∀ i, 1 ≤ i → i ≤ 1 → (fun _ : Nat => false) i = false) ∧
    (forward_engine demo_NQF (demo_lm Real.log) (fun _ => false) true (fun _ => 0) 1
      (demo_om (1 : ℝ) p7_LOCAL) demo_ox true).2.2
      = some (Real.log
          ((fwd_state_unscaled true (fun _ => 0) (demo_NQF (demo_om (1 : ℝ) p7_LOCAL).M)
            (demo_om (1 : ℝ) p7_LOCAL)
            (fwd_init 1 (demo_NQF (demo_om (1 : ℝ) p7_LOCAL).M) (demo_om (1 : ℝ) p7_LOCAL)
              demo_ox) 1).ox.xmx 1 p7X_C
           * (demo_om (1 : ℝ) p7_LOCAL).xf p7O_C p7O_MOVE)) :=
  ⟨⟨Nat.zero_lt_one, fun _ _ _ => rfl⟩,
   (C3_sparse_rescaling_exact demo_NQF (demo_lm Real.log) (fun _ => false) true (fun _ => 0) 1
      (demo_om (1 : ℝ) p7_LOCAL) demo_ox true Nat.zero_lt_one (fun _ _ _ => rfl)).2.2 rfl
      (demo_forward_ok Real.log true (fun _ => 0) p7_LOCAL demo_ox true)
      (by
        show 0 < (fwd_state_unscaled true (fun _ => 0) 1 (demo_om (1 : ℝ) p7_LOCAL)
          (fwd_init 1 1 (demo_om (1 : ℝ) p7_LOCAL) demo_ox) 1).ox.xmx 1 p7X_C
        rw [(fwd_state_unscaled_stored true (fun _ => 0) 1 1 (demo_om (1 : ℝ) p7_LOCAL)
          demo_ox 1).2.2.2]
        rw [(demo_state1 (demo_lm Real.log) true (fun _ => 0) p7_LOCAL demo_ox).2]
        norm_num)
      (by show (0 : ℝ) < 1; norm_num)⟩

end ForwardScaleClaims

/-! ## The delete passes of forward_engine close the Delete chain -/

section ForwardChain

variable {α : Type} [LinearOrderedField α]

theorem fwd_dd_first_inv (om : P7_OPROFILE α) (x Q : Nat) (xB : α) (P : DPRow α) (hQ : 0 < Q) :
    FwdDDInv om Q (fwd_pure_Y om x Q xB P) 0 (fwd_pure_first om x Q xB P) := by
  obtain ⟨k, rfl⟩ : ∃ k, Q = k + 1 := ⟨Q - 1, by omega⟩
  refine ⟨?_, ?_, ?_⟩
  · intro q _ z
    simp only [fwd_pure_first, fwd_dd_c, mm_add_ps, mm_mul_ps]
    ring
  · intro z
    have hY0 : fwd_pure_Y om x (k + 1) xB P 0 = mm_setzero_ps := by simp [fwd_pure_Y]
    simp only [fwd_pure_first, fwd_dd_c, Nat.add_sub_cancel, hY0]
    fin_cases z <;> simp [esl_sse_rightshift_ps, mm_add_ps, mm_mul_ps, mm_setzero_ps]
  · intro z hz
    exact absurd hz (Nat.not_lt_zero _)

theorem fwd_dd_e_zero (om : P7_OPROFILE α) (Q : Nat) (e0 : M128 α) (z : Fin 4) (h : e0 z = 0)
    (q : Nat) : fwd_dd_e om Q e0 q z = 0 := by
  induction q with
  | zero => exact h
  | succ k ih => simp [fwd_dd_e, mm_mul_ps, ih]

theorem fwd_dd_pass_inv (om : P7_OPROFILE α) (Q : Nat) (Y : Nat → M128 α) (j : Nat)
    (Dc : (Nat → M128 α) × M128 α) (hQ : 0 < Q) (h : FwdDDInv om Q Y j Dc) :
    FwdDDInv om Q Y (j + 1) (fwd_pure_pass om Q Dc) := by
  obtain ⟨k, rfl⟩ : ∃ k, Q = k + 1 := ⟨Q - 1, by omega⟩
  obtain ⟨ha, hb, hc⟩ := h
  refine ⟨?_, ?_, ?_⟩
  · intro q hq z
    simp only [fwd_pure_pass, fwd_dd_e, mm_add_ps, mm_mul_ps]
    rw [ha q hq z]
    ring
  · intro z
    have h0 := hb 0
    have h1 := hb 1
    have h2 := hb 2
    have h3 := hb 3
    simp only [Nat.add_sub_cancel] at h0 h1 h2 h3 ⊢
    simp only [fwd_pure_pass, fwd_dd_e, mm_add_ps, mm_mul_ps, esl_sse_rightshift_ps,
      mm_setzero_ps] at h0 h1 h2 h3 ⊢
    fin_cases z
    · simpa using h0
    · simp only [Fin.mk_one, Fin.isValue] at h1 ⊢
      linear_combination h1
    · simp only [Fin.reduceFinMk, Fin.isValue] at h2 ⊢
      linear_combination h2
    · simp only [Fin.reduceFinMk, Fin.isValue] at h3 ⊢
      linear_combination h3
  · intro z hz
    apply fwd_dd_e_zero
    fin_cases z
    · rfl
    · exact hc 0 (by simp at hz ⊢; omega)
    · exact hc 1 (by simp at hz ⊢; omega)
    · exact hc 2 (by simp at hz ⊢; omega)

theorem fwd_dd_final_of_inv (om : P7_OPROFILE α) (Q : Nat) (Y : Nat → M128 α) (j : Nat)
    (Dc : (Nat → M128 α) × M128 α) (h : FwdDDInv om Q Y j Dc)
    (hc : ∀ z : Fin 4, z.val < 3 → Dc.2 z = 0) :
    FwdDDFinal om Q Y Dc.1 := by
  obtain ⟨ha, hb, _⟩ := h
  refine ⟨ha, ?_⟩
  intro z
  rw [← hb z]
  have c0 := hc 0 (by simp)
  have c1 := hc 1 (by simp)
  have c2 := hc 2 (by simp)
  fin_cases z <;> simp [esl_sse_rightshift_ps, mm_setzero_ps, c0, c1, c2]

theorem fwd_serial_final (om : P7_OPROFILE α) (Q : Nat) (Y : Nat → M128 α) (hQ : 0 < Q)
    (n j : Nat) (Dc : (Nat → M128 α) × M128 α) (h : FwdDDInv om Q Y j Dc) (hj : j + n = 3) :
    FwdDDFinal om Q Y (fwd_pure_serial om Q n Dc).1 := by
  induction n generalizing j Dc with
  | zero =>
    apply fwd_dd_final_of_inv om Q Y j Dc h
    intro z hz
    exact h.2.2 z (by omega)
  | succ k ih =>
    exact ih (j + 1) _ (fwd_dd_pass_inv om Q Y j Dc hQ h) (by omega)

end ForwardChain

section ForwardChainPar

variable {α : Type} [LinearOrderedField α]

theorem movemask_zero (a : Mask128) (h : mm_movemask_ps a = 0) (z : Fin 4) : a z = false := by
  unfold mm_movemask_ps at h
  have h0 : (a 0).toNat = 0 := by omega
  have h1 : (a 1).toNat = 0 := by omega
  have h2 : (a 2).toNat = 0 := by omega
  have h3 : (a 3).toNat = 0 := by omega
  rw [Bool.toNat_eq_zero] at h0 h1 h2 h3
  fin_cases z
  · exact h0
  · exact h1
  · exact h2
  · exact h3

theorem fwd_dd_e_nonneg (om : P7_OPROFILE α) (Q : Nat) (e0 : M128 α) (he : ∀ z, 0 ≤ e0 z)
    (hdd : ∀ j z, 0 ≤ om.tfv j z) (q : Nat) (z : Fin 4) : 0 ≤ fwd_dd_e om Q e0 q z := by
  induction q with
  | zero => exact he z
  | succ k ih => exact mul_nonneg ih (hdd _ z)

theorem rightshift_nonneg (c : M128 α) (hc : ∀ z, 0 ≤ c z) (z : Fin 4) :
    0 ≤ esl_sse_rightshift_ps c mm_setzero_ps z := by
  fin_cases z
  · exact le_rfl
  · exact hc 0
  · exact hc 1
  · exact hc 2

theorem fwd_dd_cv_false (om : P7_OPROFILE α) (Q : Nat) (D : Nat → M128 α) (e0 : M128 α)
    (n : Nat) (z : Fin 4) (h : fwd_dd_cv om Q D e0 n z = false) (q : Nat) (hq : q < n) :
    fwd_dd_e om Q e0 q z ≤ 0 := by
  induction n with
  | zero => exact absurd hq (Nat.not_lt_zero _)
  | succ k ih =>
    simp only [fwd_dd_cv, mm_or_ps, mm_cmpgt_ps, mm_add_ps, Bool.or_eq_false_iff,
      decide_eq_false_iff_not, not_lt] at h
    rcases Nat.lt_or_ge q k with hlt | hge
    · exact ih h.1 hlt
    · have : q = k := by omega
      subst this
      linarith [h.2]

theorem fwd_par_final (om : P7_OPROFILE α) (Q : Nat) (Y : Nat → M128 α) (hQ : 0 < Q)
    (hdd : ∀ j z, 0 ≤ om.tfv j z)
    (n j : Nat) (Dc : (Nat → M128 α) × M128 α) (h : FwdDDInv om Q Y j Dc)
    (hc : ∀ z, 0 ≤ Dc.2 z) (hj : j + n = 3) :
    FwdDDFinal om Q Y (fwd_pure_par om Q n Dc).1 := by
  induction n generalizing j Dc with
  | zero =>
    apply fwd_dd_final_of_inv om Q Y j Dc h
    intro z hz
    exact h.2.2 z (by omega)
  | succ k ih =>
    have hpass := fwd_dd_pass_inv om Q Y j Dc hQ h
    have he : ∀ z, 0 ≤ esl_sse_rightshift_ps Dc.2 mm_setzero_ps z := rightshift_nonneg Dc.2 hc
    unfold fwd_pure_par
    split_ifs with hm
    · apply fwd_dd_final_of_inv om Q Y (j + 1) _ hpass
      intro z _
      apply fwd_dd_e_zero
      have hle := fwd_dd_cv_false om Q Dc.1 _ Q z (movemask_zero _ hm z) 0 hQ
      exact le_antisymm hle (he z)
    · exact ih (j + 1) _ hpass (fun z => fwd_dd_e_nonneg om Q _ he hdd Q z) (by omega)

end ForwardChainPar

/-! ## A Forward row along the chain of nodes -/

section ForwardFlat

variable {α : Type} [LinearOrderedField α]

theorem fwd_prev_nonneg (Q : Nat) (v : Nat → M128 α) (hv : ∀ q, q < Q → ∀ z, 0 ≤ v q z)
    (q : Nat) (hq : q < Q) (z : Fin 4) : 0 ≤ fwd_prev Q v q z := by
  unfold fwd_prev
  split_ifs with h
  · exact rightshift_nonneg _ (hv (Q - 1) (by omega)) z
  · exact hv (q - 1) (by omega) z

theorem fwd_pure_M_nonneg (om : P7_OPROFILE α) (x Q : Nat) (xB : α) (P : DPRow α)
    (hom : OmNonneg om) (hB : 0 ≤ xB) (hP : RowNonneg Q P) (q : Nat) (hq : q < Q) (z : Fin 4) :
    0 ≤ fwd_pure_M om x Q xB P q z := by
  obtain ⟨hr, ht, _⟩ := hom
  have h1 := fwd_prev_nonneg Q P.mmo (fun q hq z => (hP q hq z).1) q hq z
  have h2 := fwd_prev_nonneg Q P.imo (fun q hq z => (hP q hq z).2.2) q hq z
  have h3 := fwd_prev_nonneg Q P.dmo (fun q hq z => (hP q hq z).2.1) q hq z
  simp only [fwd_pure_M, mm_mul_ps, mm_add_ps, mm_set1_ps]
  exact mul_nonneg
    (add_nonneg (add_nonneg (add_nonneg (mul_nonneg hB (ht _ z)) (mul_nonneg h1 (ht _ z)))
      (mul_nonneg h2 (ht _ z))) (mul_nonneg h3 (ht _ z))) (hr x q z)

theorem fwd_pure_I_nonneg (om : P7_OPROFILE α) (Q : Nat) (P : DPRow α)
    (hom : OmNonneg om) (hP : RowNonneg Q P) (q : Nat) (hq : q < Q) (z : Fin 4) :
    0 ≤ fwd_pure_I om P q z := by
  obtain ⟨_, ht, _⟩ := hom
  simp only [fwd_pure_I, mm_mul_ps, mm_add_ps]
  exact add_nonneg (mul_nonneg (hP q hq z).1 (ht _ z)) (mul_nonneg (hP q hq z).2.2 (ht _ z))

theorem fwd_pure_Y_nonneg (om : P7_OPROFILE α) (x Q : Nat) (xB : α) (P : DPRow α)
    (hom : OmNonneg om) (hB : 0 ≤ xB) (hP : RowNonneg Q P) (q : Nat) (hq : q ≤ Q) (z : Fin 4) :
    0 ≤ fwd_pure_Y om x Q xB P q z := by
  unfold fwd_pure_Y
  split_ifs with h
  · exact le_rfl
  · exact mul_nonneg (fwd_pure_M_nonneg om x Q xB P hom hB hP (q - 1) (by omega) z) (hom.2.1 _ z)

theorem fwd_dd_c_nonneg (om : P7_OPROFILE α) (Q : Nat) (Y : Nat → M128 α) (c0 : M128 α)
    (hom : OmNonneg om) (hY : ∀ q, q ≤ Q → ∀ z, 0 ≤ Y q z) (hc : ∀ z, 0 ≤ c0 z)
    (q : Nat) (hq : q ≤ Q) (z : Fin 4) : 0 ≤ fwd_dd_c om Q Y c0 q z := by
  induction q with
  | zero => exact hc z
  | succ k ih =>
    exact mul_nonneg (add_nonneg (ih (by omega)) (hY k (by omega) z)) (hom.2.1 _ z)

theorem fwd_pure_first_nonneg (om : P7_OPROFILE α) (x Q : Nat) (xB : α) (P : DPRow α)
    (hom : OmNonneg om) (hB : 0 ≤ xB) (hP : RowNonneg Q P) :
    DcNonneg Q (fwd_pure_first om x Q xB P) := by
  have hY := fun q hq z => fwd_pure_Y_nonneg om x Q xB P hom hB hP q hq z
  have hc0 := rightshift_nonneg (fwd_pure_Y om x Q xB P Q) (hY Q le_rfl)
  constructor
  · intro q hq z
    exact add_nonneg (fwd_dd_c_nonneg om Q _ _ hom hY hc0 q (by omega) z) (hY q (by omega) z)
  · intro z
    exact fwd_dd_c_nonneg om Q _ _ hom hY hc0 Q le_rfl z

theorem fwd_pure_pass_nonneg (om : P7_OPROFILE α) (Q : Nat) (Dc : (Nat → M128 α) × M128 α)
    (hom : OmNonneg om) (h : DcNonneg Q Dc) : DcNonneg Q (fwd_pure_pass om Q Dc) := by
  have he := rightshift_nonneg Dc.2 h.2
  constructor
  · intro q hq z
    exact add_nonneg (fwd_dd_e_nonneg om Q _ he hom.2.1 q z) (h.1 q hq z)
  · intro z
    exact fwd_dd_e_nonneg om Q _ he hom.2.1 Q z

theorem fwd_pure_serial_nonneg (om : P7_OPROFILE α) (Q : Nat) (hom : OmNonneg om) (n : Nat)
    (Dc : (Nat → M128 α) × M128 α) (h : DcNonneg Q Dc) :
    DcNonneg Q (fwd_pure_serial om Q n Dc) := by
  induction n generalizing Dc with
  | zero => exact h
  | succ k ih => exact ih _ (fwd_pure_pass_nonneg om Q Dc hom h)

theorem fwd_pure_par_nonneg (om : P7_OPROFILE α) (Q : Nat) (hom : OmNonneg om) (n : Nat)
    (Dc : (Nat → M128 α) × M128 α) (h : DcNonneg Q Dc) :
    DcNonneg Q (fwd_pure_par om Q n Dc) := by
  induction n generalizing Dc with
  | zero => exact h
  | succ k ih =>
    unfold fwd_pure_par
    split_ifs
    · exact fwd_pure_pass_nonneg om Q Dc hom h
    · exact ih _ (fwd_pure_pass_nonneg om Q Dc hom h)

theorem fwd_pure_D_nonneg (om : P7_OPROFILE α) (x Q : Nat) (xB : α) (P : DPRow α)
    (hom : OmNonneg om) (hB : 0 ≤ xB) (hP : RowNonneg Q P) (q : Nat) (hq : q < Q) (z : Fin 4) :
    0 ≤ fwd_pure_D om x Q xB P q z := by
  have h1 := fwd_pure_first_nonneg om x Q xB P hom hB hP
  unfold fwd_pure_D
  split_ifs
  · exact (fwd_pure_serial_nonneg om Q hom 3 _ h1).1 q hq z
  · exact (fwd_pure_par_nonneg om Q hom 3 _ h1).1 q hq z

/-- The delete passes close the Delete chain of the row, in both versions. -/
theorem fwd_pure_D_final (om : P7_OPROFILE α) (x Q : Nat) (xB : α) (P : DPRow α)
    (hom : OmNonneg om) (hB : 0 ≤ xB) (hP : RowNonneg Q P) (hQ : 0 < Q) :
    FwdDDFinal om Q (fwd_pure_Y om x Q xB P) (fwd_pure_D om x Q xB P) := by
  have h0 := fwd_dd_first_inv om x Q xB P hQ
  unfold fwd_pure_D
  split_ifs
  · exact fwd_serial_final om Q _ hQ 3 0 _ h0 rfl
  · exact fwd_par_final om Q _ hQ hom.2.1 3 0 _ h0
      (fwd_pure_first_nonneg om x Q xB P hom hB hP).2 rfl

theorem fwd_pure_xEv_lane (om : P7_OPROFILE α) (x Q : Nat) (xB : α) (P : DPRow α) (n : Nat)
    (z : Fin 4) :
    fwd_pure_xEv om x Q xB P n z = ∑ q in Finset.range n, fwd_pure_M om x Q xB P q z := by
  induction n with
  | zero => simp [fwd_pure_xEv, mm_setzero_ps]
  | succ k ih =>
    rw [Finset.sum_range_succ, ← ih]
    rfl

theorem fwd_pure_xEvD_lane (D : Nat → M128 α) (v : M128 α) (n : Nat) (z : Fin 4) :
    fwd_pure_xEvD D v n z = v z + ∑ q in Finset.range n, D q z := by
  induction n with
  | zero => simp [fwd_pure_xEvD]
  | succ k ih =>
    rw [Finset.sum_range_succ]
    show D k z + fwd_pure_xEvD D v k z = _
    rw [ih]; ring

theorem sum_lanes (Q : Nat) (v : Nat → M128 α) :
    ∑ q in Finset.range Q, (v q 0 + v q 1 + v q 2 + v q 3)
      = ∑ q in Finset.range Q, v q 0 + ∑ q in Finset.range Q, v q 1
        + ∑ q in Finset.range Q, v q 2 + ∑ q in Finset.range Q, v q 3 := by
  rw [Finset.sum_add_distrib, Finset.sum_add_distrib, Finset.sum_add_distrib]

/-- The End value of a row is the sum of its Match and Delete values along
the chain. -/
theorem fwd_pure_xE_sum (om : P7_OPROFILE α) (x Q : Nat) (xB : α) (P : DPRow α) :
    fwd_pure_xE om x Q xB P
      = ∑ n in Finset.range (4 * Q),
          (flat Q (fwd_pure_M om x Q xB P) n + flat Q (fwd_pure_D om x Q xB P) n) := by
  rw [Finset.sum_add_distrib, sum_flat_lanes, sum_flat_lanes, sum_lanes, sum_lanes]
  unfold fwd_pure_xE
  rw [hsum_eq]
  simp only [fwd_pure_xEvD_lane, fwd_pure_xEv_lane]
  ring

end ForwardFlat

section ForwardFlatState

variable {α : Type} [LinearOrderedField α]

theorem flat_congr (Q : Nat) (v w : Nat → M128 α) (h : ∀ q, q < Q → v q = w q) (n : Nat)
    (hn : n < 4 * Q) : flat Q v n = flat Q w n := by
  unfold flat
  rw [h (n % Q) (Nat.mod_lt n (by omega))]

theorem shr_congr (T : Nat) (a b : Nat → α) (h : ∀ m, m < T → a m = b m) (n : Nat)
    (hn : n < T) : shr a n = shr b n := by
  unfold shr
  split_ifs
  · rfl
  · exact h (n - 1) (by omega)

theorem shl_congr (T : Nat) (a b : Nat → α) (h : ∀ m, m < T → a m = b m) (n : Nat) :
    shl T a n = shl T b n := by
  unfold shl
  split_ifs with hlt
  · exact h (n + 1) hlt
  · rfl

/-- The closed Delete chain, block by block: every Delete vector is the
previous node's M->D and D->D contribution. -/
theorem fwd_pure_D_prev (om : P7_OPROFILE α) (x Q : Nat) (xB : α) (P : DPRow α)
    (hom : OmNonneg om) (hB : 0 ≤ xB) (hP : RowNonneg Q P) (hQ : 0 < Q)
    (q : Nat) (hq : q < Q) (z : Fin 4) :
    fwd_pure_D om x Q xB P q z
      = fwd_prev Q (fun r => mm_add_ps
          (mm_mul_ps (fwd_pure_M om x Q xB P r) (om.tfv (7 * r + 4)))
          (mm_mul_ps (fwd_pure_D om x Q xB P r) (om.tfv (7 * Q + r)))) q z := by
  obtain ⟨ha, hb⟩ := fwd_pure_D_final om x Q xB P hom hB hP hQ
  unfold fwd_prev
  split_ifs with h0
  · subst h0
    rw [hb z]
    have hY : fwd_pure_Y om x Q xB P Q
        = mm_mul_ps (fwd_pure_M om x Q xB P (Q - 1)) (om.tfv (7 * (Q - 1) + 4)) := by
      unfold fwd_pure_Y
      rw [if_neg (by omega)]
    rw [hY]
  · obtain ⟨k, rfl⟩ : ∃ k, q = k + 1 := ⟨q - 1, by omega⟩
    rw [ha k hq z]
    simp only [fwd_pure_Y, Nat.add_sub_cancel, mm_add_ps]
    rw [if_neg (Nat.succ_ne_zero k)]
    rfl

/-- Row `i` before rescaling, along the chain of nodes: it follows the row
before by the Forward recursion, its Delete chain is closed and its End
value is the sum over the chain. -/
theorem fwd_compute_flat (do_full : Bool) (dsq : Nat → Nat) (Q : Nat)
    (om : P7_OPROFILE α) (i : Nat) (s : FwdVars α) (hQ : 0 < Q)
    (hom : OmNonneg om) (hs : FwdNonneg Q s) :
    FwdStep (4 * Q) (om_chain Q om) om.xf (flat Q (om.rfv (dsq i))) (fwd_flat Q s)
        (fwd_flat Q (fwd_row_compute do_full dsq Q om i s)) ∧
    FwdRowOK (4 * Q) (om_chain Q om) om.xf
        (fwd_flat Q (fwd_row_compute do_full dsq Q om i s)) ∧
    FwdNonneg Q (fwd_row_compute do_full dsq Q om i s) ∧
    0 ≤ (fwd_row_compute do_full dsq Q om i s).xE := by
  obtain ⟨hE, hdpc, hcell⟩ := fwd_row_compute_spec do_full dsq Q om i s hQ
  obtain ⟨_, _, _, _, _, sN, sC, sJ, sB, _, _⟩ := fwd_row_compute_specials do_full dsq Q om i s
  obtain ⟨hrow, hxB, hxN, hxJ, hxC⟩ := hs
  have hMq : ∀ q, q < Q →
      ((fwd_row_compute do_full dsq Q om i s).ox.dpf
        (fwd_row_compute do_full dsq Q om i s).dpc).mmo q
      = fwd_pure_M om (dsq i) Q s.xB (s.ox.dpf s.dpc) q := by
    intro q hq; rw [hdpc]; exact (hcell q hq).1
  have hDq : ∀ q, q < Q →
      ((fwd_row_compute do_full dsq Q om i s).ox.dpf
        (fwd_row_compute do_full dsq Q om i s).dpc).dmo q
      = fwd_pure_D om (dsq i) Q s.xB (s.ox.dpf s.dpc) q := by
    intro q hq; rw [hdpc]; exact (hcell q hq).2.1
  have hIq : ∀ q, q < Q →
      ((fwd_row_compute do_full dsq Q om i s).ox.dpf
        (fwd_row_compute do_full dsq Q om i s).dpc).imo q
      = fwd_pure_I om (s.ox.dpf s.dpc) q := by
    intro q hq; rw [hdpc]; exact (hcell q hq).2.2
  have hM : ∀ n, n < 4 * Q → (fwd_flat Q (fwd_row_compute do_full dsq Q om i s)).M n
      = flat Q (fwd_pure_M om (dsq i) Q s.xB (s.ox.dpf s.dpc)) n :=
    fun n hn => flat_congr Q _ _ hMq n hn
  have hD : ∀ n, n < 4 * Q → (fwd_flat Q (fwd_row_compute do_full dsq Q om i s)).D n
      = flat Q (fwd_pure_D om (dsq i) Q s.xB (s.ox.dpf s.dpc)) n :=
    fun n hn => flat_congr Q _ _ hDq n hn
  have hI : ∀ n, n < 4 * Q → (fwd_flat Q (fwd_row_compute do_full dsq Q om i s)).I n
      = flat Q (fwd_pure_I om (s.ox.dpf s.dpc)) n :=
    fun n hn => flat_congr Q _ _ hIq n hn
  have hEsum : (fwd_row_compute do_full dsq Q om i s).xE
      = ∑ n in Finset.range (4 * Q),
          ((fwd_flat Q (fwd_row_compute do_full dsq Q om i s)).M n
            + (fwd_flat Q (fwd_row_compute do_full dsq Q om i s)).D n) := by
    rw [hE, fwd_pure_xE_sum]
    apply Finset.sum_congr rfl
    intro n hn
    rw [Finset.mem_range] at hn
    rw [hM n hn, hD n hn]
  have hMnn : ∀ q, q < Q → ∀ z, 0 ≤ fwd_pure_M om (dsq i) Q s.xB (s.ox.dpf s.dpc) q z :=
    fun q hq z => fwd_pure_M_nonneg om (dsq i) Q s.xB _ hom hxB hrow q hq z
  have hDnn : ∀ q, q < Q → ∀ z, 0 ≤ fwd_pure_D om (dsq i) Q s.xB (s.ox.dpf s.dpc) q z :=
    fun q hq z => fwd_pure_D_nonneg om (dsq i) Q s.xB _ hom hxB hrow q hq z
  have hEnn : 0 ≤ (fwd_row_compute do_full dsq Q om i s).xE := by
    rw [hEsum]
    apply Finset.sum_nonneg
    intro n hn
    rw [Finset.mem_range] at hn
    rw [hM n hn, hD n hn]
    have hq : n % Q < Q := Nat.mod_lt n hQ
    exact add_nonneg (hMnn _ hq _) (hDnn _ hq _)
  obtain ⟨_, _, hxf⟩ := hom
  have hNnn : 0 ≤ (fwd_row_compute do_full dsq Q om i s).xN := by
    rw [sN]; exact mul_nonneg hxN (hxf _ _)
  have hJnn : 0 ≤ (fwd_row_compute do_full dsq Q om i s).xJ := by
    rw [sJ]; exact add_nonneg (mul_nonneg hxJ (hxf _ _)) (mul_nonneg hEnn (hxf _ _))
  have hCnn : 0 ≤ (fwd_row_compute do_full dsq Q om i s).xC := by
    rw [sC]; exact add_nonneg (mul_nonneg hxC (hxf _ _)) (mul_nonneg hEnn (hxf _ _))
  have hBnn : 0 ≤ (fwd_row_compute do_full dsq Q om i s).xB := by
    rw [sB]; exact add_nonneg (mul_nonneg hJnn (hxf _ _)) (mul_nonneg hNnn (hxf _ _))
  refine ⟨⟨?_, ?_, sN, sC, sJ⟩, ⟨?_, hEsum, sB⟩, ⟨?_, hBnn, hNnn, hJnn, hCnn⟩, hEnn⟩
  · intro n hn
    obtain ⟨z, q, hz, hq, rfl⟩ := flat_decomp Q n hn
    rw [hM _ hn]
    simp only [fwd_flat, om_chain, fun v => flat_mk Q v z q hz hq,
      fun v => shr_flat Q v z q hz hq]
    rfl
  · intro n hn
    obtain ⟨z, q, hz, hq, rfl⟩ := flat_decomp Q n hn
    rw [hI _ hn]
    simp only [fwd_flat, om_chain, fun v => flat_mk Q v z q hz hq]
    rfl
  · intro n hn
    obtain ⟨z, q, hz, hq, rfl⟩ := flat_decomp Q n hn
    rw [hD _ hn, flat_mk Q _ z q hz hq,
      fwd_pure_D_prev om (dsq i) Q s.xB _ ⟨by assumption, by assumption, hxf⟩ hxB hrow hQ q hq,
      ← shr_flat Q _ z q hz hq]
    apply shr_congr (4 * Q) _ _ _ _ hn
    intro m hm
    show flat Q _ m = (fwd_flat Q _).M m * (om_chain Q om).MD m
      + (fwd_flat Q _).D m * (om_chain Q om).DD m
    rw [hM m hm, hD m hm]
    rfl
  · intro q hq z
    rw [hMq q hq, hDq q hq, hIq q hq]
    exact ⟨hMnn q hq z, hDnn q hq z,
      fwd_pure_I_nonneg om Q _ ⟨by assumption, by assumption, hxf⟩ hrow q hq z⟩

end ForwardFlatState

section ForwardFlatTrace

variable {α : Type} [LinearOrderedField α]

/-- The sparse rescaling of a row divides the row and its special states by
the scale factor it stores, which is positive. -/
theorem fwd_rescale_flat (lm : LibM α) (Q i : Nat) (pre : FwdVars α) (hQ : 0 < Q) :
    0 < (fwd_row_rescale lm Q i pre).ox.xmx i p7X_SCALE ∧
    FlatScaled (4 * Q) (1 / (fwd_row_rescale lm Q i pre).ox.xmx i p7X_SCALE)
      (fwd_flat Q pre) (fwd_flat Q (fwd_row_rescale lm Q i pre)) ∧
    (FwdNonneg Q pre → FwdNonneg Q (fwd_row_rescale lm Q i pre)) := by
  by_cases h : ((10000 : Nat) : α) < pre.xE
  · obtain ⟨e1, _, e3, e4, e5, e6, e7, e8, _, _, eM, eD, eI⟩ :=
      fwd_row_rescale_event lm Q i pre h
    have hpos : 0 < pre.xE := by
      rw [cast_threshold] at h
      linarith
    have hne : pre.xE ≠ 0 := ne_of_gt hpos
    have hinv : 0 ≤ 1 / pre.xE := le_of_lt (one_div_pos.mpr hpos)
    rw [e1]
    refine ⟨hpos, ⟨?_, ?_, ?_, ?_, ?_, ?_⟩, ?_⟩
    · intro n hn
      have hq : n % Q < Q := Nat.mod_lt n hQ
      simp only [fwd_flat, flat, e8]
      have m1 := eM pre.dpc (n % Q)
      have d1 := eD pre.dpc (n % Q)
      have i1 := eI pre.dpc (n % Q)
      simp only [MMO, DMO, IMO, hq, and_self, if_true] at m1 d1 i1
      rw [m1, d1, i1]
      simp only [mm_mul_ps, mm_set1_ps]
      refine ⟨by ring, by ring, by ring⟩
    · show (fwd_row_rescale lm Q i pre).xN = _
      rw [e4]; show pre.xN / pre.xE = 1 / pre.xE * pre.xN; ring
    · show (fwd_row_rescale lm Q i pre).xJ = _
      rw [e6]; show pre.xJ / pre.xE = 1 / pre.xE * pre.xJ; ring
    · show (fwd_row_rescale lm Q i pre).xC = _
      rw [e5]; show pre.xC / pre.xE = 1 / pre.xE * pre.xC; ring
    · show (fwd_row_rescale lm Q i pre).xB = _
      rw [e7]; show pre.xB / pre.xE = 1 / pre.xE * pre.xB; ring
    · show (fwd_row_rescale lm Q i pre).xE = _
      rw [e3]; show (1 : α) = 1 / pre.xE * pre.xE
      field_simp
    · rintro ⟨hrow, hB, hN, hJ, hC⟩
      refine ⟨?_, ?_, ?_, ?_, ?_⟩
      · intro q hq z
        rw [e8]
        have m1 := eM pre.dpc q
        have d1 := eD pre.dpc q
        have i1 := eI pre.dpc q
        simp only [MMO, DMO, IMO, hq, and_self, if_true] at m1 d1 i1
        rw [m1, d1, i1]
        simp only [mm_mul_ps, mm_set1_ps]
        exact ⟨mul_nonneg (hrow q hq z).1 hinv, mul_nonneg (hrow q hq z).2.1 hinv,
          mul_nonneg (hrow q hq z).2.2 hinv⟩
      · rw [e7]; exact div_nonneg hB (le_of_lt hpos)
      · rw [e4]; exact div_nonneg hN (le_of_lt hpos)
      · rw [e6]; exact div_nonneg hJ (le_of_lt hpos)
      · rw [e5]; exact div_nonneg hC (le_of_lt hpos)
  · obtain ⟨e1, _, e3, e4, e5, e6, e7, e8, _, _, e11⟩ := fwd_row_rescale_none lm Q i pre h
    rw [e1]
    refine ⟨one_pos, ⟨?_, ?_, ?_, ?_, ?_, ?_⟩, ?_⟩
    · intro n hn
      simp only [fwd_flat, e8, e11]
      refine ⟨by ring, by ring, by ring⟩
    · show (fwd_row_rescale lm Q i pre).xN = _
      rw [e4]; show pre.xN = 1 / 1 * pre.xN; ring
    · show (fwd_row_rescale lm Q i pre).xJ = _
      rw [e6]; show pre.xJ = 1 / 1 * pre.xJ; ring
    · show (fwd_row_rescale lm Q i pre).xC = _
      rw [e5]; show pre.xC = 1 / 1 * pre.xC; ring
    · show (fwd_row_rescale lm Q i pre).xB = _
      rw [e7]; show pre.xB = 1 / 1 * pre.xB; ring
    · show (fwd_row_rescale lm Q i pre).xE = _
      rw [e3]; show pre.xE = 1 / 1 * pre.xE; ring
    · rintro ⟨hrow, hB, hN, hJ, hC⟩
      refine ⟨?_, ?_, ?_, ?_, ?_⟩
      · rw [e8, e11]; exact hrow
      · rw [e7]; exact hB
      · rw [e4]; exact hN
      · rw [e6]; exact hJ
      · rw [e5]; exact hC

/-- Every row of the Forward run is non-negative and has a closed Delete
chain. -/
theorem fwd_state_flat (lm : LibM α) (do_full : Bool) (dsq : Nat → Nat) (Q L : Nat)
    (om : P7_OPROFILE α) (ox : P7_OMX α) (hQ : 0 < Q) (hom : OmNonneg om) (n : Nat) :
    FwdNonneg Q (fwd_state lm do_full dsq Q om (fwd_init L Q om ox) n) ∧
    FwdRowOK (4 * Q) (om_chain Q om) om.xf
      (fwd_flat Q (fwd_state lm do_full dsq Q om (fwd_init L Q om ox) n)) := by
  induction n with
  | zero =>
    have h0 : fwd_state lm do_full dsq Q om (fwd_init L Q om ox) 0 = fwd_init L Q om ox := rfl
    rw [h0]
    have hcell : ∀ q, q < Q →
        ((fwd_init L Q om ox).ox.dpf (fwd_init L Q om ox).dpc).mmo q = mm_setzero_ps ∧
        ((fwd_init L Q om ox).ox.dpf (fwd_init L Q om ox).dpc).dmo q = mm_setzero_ps ∧
        ((fwd_init L Q om ox).ox.dpf (fwd_init L Q om ox).dpc).imo q = mm_setzero_ps :=
      fun q hq => fwd_init_cells L Q om ox q hq
    have hM : ∀ n, n < 4 * Q → (fwd_flat Q (fwd_init L Q om ox)).M n = 0 := by
      intro n hn
      simp only [fwd_flat, flat]
      rw [(hcell (n % Q) (Nat.mod_lt n hQ)).1]; rfl
    have hD : ∀ n, n < 4 * Q → (fwd_flat Q (fwd_init L Q om ox)).D n = 0 := by
      intro n hn
      simp only [fwd_flat, flat]
      rw [(hcell (n % Q) (Nat.mod_lt n hQ)).2.1]; rfl
    constructor
    · refine ⟨?_, hom.2.2 _ _, zero_le_one, le_rfl, le_rfl⟩
      intro q hq z
      rw [(hcell q hq).1, (hcell q hq).2.1, (hcell q hq).2.2]
      exact ⟨le_rfl, le_rfl, le_rfl⟩
    · refine ⟨?_, ?_, ?_⟩
      · intro n hn
        rw [hD n hn]
        unfold shr
        split_ifs
        · rfl
        · show (0 : α) = (fwd_flat Q (fwd_init L Q om ox)).M (n - 1) * _
            + (fwd_flat Q (fwd_init L Q om ox)).D (n - 1) * _
          rw [hM (n - 1) (by omega), hD (n - 1) (by omega)]; ring
      · show (0 : α) = _
        symm
        apply Finset.sum_eq_zero
        intro n hn
        rw [Finset.mem_range] at hn
        rw [hM n hn, hD n hn, add_zero]
      · show om.xf p7O_N p7O_MOVE = 0 * _ + 1 * _
        ring
  | succ k ih =>
    obtain ⟨hnn, _⟩ := ih
    obtain ⟨_, hok, hnn2, _⟩ := fwd_compute_flat do_full dsq Q om (k + 1) _ hQ hom hnn
    obtain ⟨_, hsc, hnn3⟩ := fwd_rescale_flat lm Q (k + 1)
      (fwd_row_compute do_full dsq Q om (k + 1)
        (fwd_state lm do_full dsq Q om (fwd_init L Q om ox) k)) hQ
    exact ⟨hnn3 hnn2, fwdRowOK_scaled (4 * Q) _ _ _ _ _ hok hsc⟩

end ForwardFlatTrace

/-! ## A Backward row, loop by loop -/

section BackwardMain

variable {α : Type} [LinearOrderedField α]

theorem bck_carry_succ (Q : Nat) (v : Nat → M128 α) (q : Nat) :
    bck_carry Q v (q + 1) = bck_next Q v q := rfl

theorem bck_carry_lt (Q : Nat) (v : Nat → M128 α) (q : Nat) (hq : q < Q) :
    bck_carry Q v q = v q := by
  unfold bck_carry
  rw [if_neg (by omega)]

theorem bck_main_step (om : P7_OPROFILE α) (x Q : Nat) (s0 : BckVars α)
    (q : Nat) (hq : q < Q) (s : BckVars α)
    (h : BckMainInv om x Q (s0.bck.dpf s0.dpp) s0 (q + 1) s) :
    BckMainInv om x Q (s0.bck.dpf s0.dpp) s0 q (bck_main_body om x q s) := by
  obtain ⟨htp, hrp, hdpc, hdpp, hmpv, htmmv, htimv, htdmv, hxBv, hdone, hrest⟩ := h
  have hold := hrest s0.dpp q (Or.inr (Nat.lt_succ_self q))
  have htp6 : s.tp = 7 * q + 6 := by omega
  have hrp0 : s.rp = q := by omega
  have hI : IMO s.bck.dpf s.dpp q = (s0.bck.dpf s0.dpp).imo q := by
    rw [hdpp, hold.2.2]; rfl
  have hM : MMO s.bck.dpf s.dpp q = (s0.bck.dpf s0.dpp).mmo q := by
    rw [hdpp, hold.1]; rfl
  have hmpv2 : mm_mul_ps (MMO s.bck.dpf s.dpp q) (om.rfv x s.rp)
      = bck_Me om x (s0.bck.dpf s0.dpp) q := by
    rw [hM, hrp0]; rfl
  refine ⟨?_, ?_, hdpc, hdpp, ?_, ?_, ?_, ?_, ?_, ?_, ?_⟩
  · show s.tp - 1 - 2 - 1 - 1 - 1 - 1 = 7 * q - 1
    omega
  · show s.rp - 1 = q - 1
    omega
  · show mm_mul_ps (MMO _ s.dpp q) (om.rfv x s.rp) = _
    simp only [MMO_setDMO, MMO_setIMO]
    rw [hmpv2, bck_carry_lt Q _ q hq]
  · show om.tfv (s.tp - 1 - 2 - 1 - 1) = _
    rw [bck_carry_lt Q _ q hq, show s.tp - 1 - 2 - 1 - 1 = 7 * q + 1 by omega]
  · show om.tfv (s.tp - 1 - 2 - 1) = _
    rw [bck_carry_lt Q _ q hq, show s.tp - 1 - 2 - 1 = 7 * q + 2 by omega]
  · show om.tfv (s.tp - 1 - 2) = _
    rw [bck_carry_lt Q _ q hq, show s.tp - 1 - 2 = 7 * q + 3 by omega]
  · intro z
    show (mm_add_ps s.xBv (mm_mul_ps (mm_mul_ps (MMO _ s.dpp q) (om.rfv x s.rp))
      (om.tfv (s.tp - 1 - 2 - 1 - 1 - 1)))) z = _
    simp only [MMO_setDMO, MMO_setIMO]
    rw [hmpv2, Finset.sum_eq_sum_Ico_succ_bot hq]
    have : s.tp - 1 - 2 - 1 - 1 - 1 = 7 * q := by omega
    rw [this]
    simp only [mm_add_ps, mm_mul_ps]
    rw [hxBv z]
    ring
  · intro q1 hq1 hq1Q
    simp only [bck_main_body, MMO_setMMO, MMO_setDMO, MMO_setIMO, DMO_setMMO, DMO_setDMO,
      DMO_setIMO, IMO_setMMO, IMO_setDMO, IMO_setIMO, hdpc, true_and]
    by_cases hqq : q1 = q
    · subst hqq
      simp only [if_true]
      rw [hI, hmpv, htimv, htdmv, htmmv, htp6]
      refine ⟨rfl, rfl, ?_⟩
      have : 7 * q1 + 6 - 1 = 7 * q1 + 5 := by omega
      rw [this]
      rfl
    · simp only [hqq, if_false]
      exact hdone q1 (by omega) hq1Q
  · intro r q1 hrq
    simp only [bck_main_body, MMO_setMMO, MMO_setDMO, MMO_setIMO, DMO_setMMO, DMO_setDMO,
      DMO_setIMO, IMO_setMMO, IMO_setDMO, IMO_setIMO, hdpc]
    have hne : ¬ (r = s0.dpc ∧ q1 = q) := by
      rintro ⟨h1, h2⟩
      rcases hrq with h | h
      · exact h h1
      · omega
    simp only [hne, if_false]
    exact hrest r q1 (by rcases hrq with h | h; exact Or.inl h; exact Or.inr (by omega))

/-- Phase 1 of row `i`, started from the variables `s` left by row `i+1`. -/
theorem bck_main_spec (do_full : Bool) (dsq : Nat → Nat) (Q : Nat) (om : P7_OPROFILE α)
    (i : Nat) (s : BckVars α) :
    BckMainInv om (dsq (i + 1)) Q (s.bck.dpf ((i + 1) * do_full.toNat))
      (bck_row_begin do_full dsq Q om i s) 0
      (forDown Q (bck_main_body om (dsq (i + 1))) (bck_row_begin do_full dsq Q om i s)) := by
  have hP : (bck_row_begin do_full dsq Q om i s).bck.dpf (bck_row_begin do_full dsq Q om i s).dpp
      = s.bck.dpf ((i + 1) * do_full.toNat) := rfl
  rw [← hP]
  apply forDown_induction
    (BckMainInv om (dsq (i + 1)) Q
      ((bck_row_begin do_full dsq Q om i s).bck.dpf (bck_row_begin do_full dsq Q om i s).dpp)
      (bck_row_begin do_full dsq Q om i s))
  · refine ⟨rfl, rfl, rfl, rfl, ?_, ?_, ?_, ?_, ?_, ?_, ?_⟩
    · show bck_leftshift _ = bck_carry Q _ Q
      unfold bck_carry
      rw [if_pos rfl]
      rfl
    · show bck_leftshift _ = bck_carry Q _ Q
      unfold bck_carry
      rw [if_pos rfl]
    · show bck_leftshift _ = bck_carry Q _ Q
      unfold bck_carry
      rw [if_pos rfl]
    · show bck_leftshift _ = bck_carry Q _ Q
      unfold bck_carry
      rw [if_pos rfl]
    · intro z
      rw [Finset.Ico_self, Finset.sum_empty]
      rfl
    · intro q h1 h2; omega
    · intro r q _; exact ⟨rfl, rfl, rfl⟩
  · intro q t hq hI
    exact bck_main_step om (dsq (i + 1)) Q (bck_row_begin do_full dsq Q om i s) q hq t hI

end BackwardMain

section BackwardPhases

variable {α : Type} [LinearOrderedField α]

theorem bck_phase3_step (om : P7_OPROFILE α) (Q : Nat) (s0 : BckVars α)
    (q : Nat) (hq : q < Q) (s : BckVars α) (h : BckP3Inv om Q s0 (q + 1) s) :
    BckP3Inv om Q s0 q (bck_phase3_body om q s) := by
  obtain ⟨htp, hdpc, hxEv, hdpv, _, hdone, hrest, hI⟩ := h
  have htp0 : s.tp = 7 * Q + q := by omega
  have holdD : DMO s.bck.dpf s0.dpc q = DMO s0.bck.dpf s0.dpc q :=
    (hrest s0.dpc q (Or.inr (Nat.lt_succ_self q))).2
  have holdM : MMO s.bck.dpf s0.dpc q = MMO s0.bck.dpf s0.dpc q :=
    (hrest s0.dpc q (Or.inr (Nat.lt_succ_self q))).1
  have hnew : ∀ z, DMO (bck_phase3_body om q s).bck.dpf s0.dpc q z
      = DMO s0.bck.dpf s0.dpc q z
        + ((if q + 1 = Q then s0.dpv z else DMO s.bck.dpf s0.dpc (q + 1) z)
            * om.tfv (7 * Q + q) z + s0.xEv z) := by
    intro z
    simp only [bck_phase3_body, DMO_setMMO, DMO_setDMO, hdpc, and_self, if_true]
    rw [holdD, hdpv, htp0, hxEv]
    simp only [mm_add_ps, mm_mul_ps]
    split_ifs <;> rfl
  have hkeep : ∀ q1, q1 ≠ q → DMO (bck_phase3_body om q s).bck.dpf s0.dpc q1
      = DMO s.bck.dpf s0.dpc q1 := by
    intro q1 hne
    simp only [bck_phase3_body, DMO_setMMO, DMO_setDMO, hdpc, hne, and_false, if_false]
  refine ⟨?_, hdpc, hxEv, ?_, ?_, ?_, ?_, ?_⟩
  · show s.tp - 1 = 7 * Q + q - 1
    omega
  · rw [if_neg (by omega)]
    simp only [bck_phase3_body, DMO_setMMO, hdpc]
  · intro _ z
    rw [hnew z]
    simp only [bck_phase3_body, mm_mul_ps, hdpv, htp0]
    split_ifs <;> ring
  · intro q1 hq1 hq1Q z
    by_cases hqq : q1 = q
    · subst hqq
      constructor
      · rw [hnew z, hkeep (q1 + 1) (by omega)]
      · simp only [bck_phase3_body, MMO_setMMO, MMO_setDMO, hdpc, and_self, if_true]
        rw [holdM, hxEv]
        rfl
    · obtain ⟨d1, m1⟩ := hdone q1 (by omega) hq1Q z
      constructor
      · rw [hkeep q1 hqq, hkeep (q1 + 1) (by omega)]
        exact d1
      · simp only [bck_phase3_body, MMO_setMMO, MMO_setDMO, hdpc, hqq, and_false, if_false]
        exact m1
  · intro r q1 hrq
    have hne : ¬ (r = s0.dpc ∧ q1 = q) := by
      rintro ⟨h1, h2⟩
      rcases hrq with h | h
      · exact h h1
      · omega
    simp only [bck_phase3_body, MMO_setMMO, MMO_setDMO, DMO_setMMO, DMO_setDMO, hdpc, hne,
      if_false]
    exact hrest r q1 (by rcases hrq with h | h; exact Or.inl h; exact Or.inr (by omega))
  · intro r q1
    simp only [bck_phase3_body, IMO_setMMO, IMO_setDMO]
    exact hI r q1

theorem bck_phase3_loop (om : P7_OPROFILE α) (Q : Nat) (s0 : BckVars α)
    (htp : s0.tp = 8 * Q - 1) :
    BckP3Inv om Q s0 0 (forDown Q (bck_phase3_body om) s0) := by
  apply forDown_induction (BckP3Inv om Q s0)
  · refine ⟨by omega, rfl, rfl, by rw [if_pos rfl], fun h => absurd h (lt_irrefl Q), ?_, ?_, ?_⟩
    · intro q h1 h2; omega
    · intro r q _; exact ⟨rfl, rfl⟩
    · intro r q; rfl
  · intro q t hq hI
    exact bck_phase3_step om Q s0 q hq t hI

theorem bck_pass_step (om : P7_OPROFILE α) (Q : Nat) (s0 : BckVars α)
    (q : Nat) (hq : q < Q) (s : BckVars α) (h : BckPassInv om Q s0 (q + 1) s) :
    BckPassInv om Q s0 q (bck_dd_body om q s) := by
  obtain ⟨htp, hdpc, hstart, hcur, hzero, hdone, hrest, hMI⟩ := h
  have htp0 : s.tp = 7 * Q + q := by omega
  have holdD : DMO s.bck.dpf s0.dpc q = DMO s0.bck.dpf s0.dpc q :=
    hrest s0.dpc q (Or.inr (Nat.lt_succ_self q))
  have hnew : ∀ z, DMO (bck_dd_body om q s).bck.dpf s0.dpc q z
      = DMO s0.bck.dpf s0.dpc q z + s.dcv z * om.tfv (7 * Q + q) z := by
    intro z
    simp only [bck_dd_body, DMO_setDMO, hdpc, and_self, if_true]
    rw [holdD, htp0]
    rfl
  have hkeep : ∀ q1, q1 ≠ q → DMO (bck_dd_body om q s).bck.dpf s0.dpc q1
      = DMO s.bck.dpf s0.dpc q1 := by
    intro q1 hne
    simp only [bck_dd_body, DMO_setDMO, hdpc, hne, and_false, if_false]
  have hdcv : ∀ z, s.dcv z = (if q + 1 = Q then s0.dcv z
      else DMO s.bck.dpf s0.dpc (q + 1) z - DMO s0.bck.dpf s0.dpc (q + 1) z) := by
    intro z
    split_ifs with hl
    · rw [hstart hl]
    · rw [hcur (by omega) z]; ring
  refine ⟨?_, hdpc, fun h => absurd h (by omega), ?_, ?_, ?_, ?_, ?_⟩
  · show s.tp - 1 = 7 * Q + q - 1
    omega
  · intro _ z
    rw [hnew z]
    simp only [bck_dd_body, mm_mul_ps, htp0]
  · intro z hz
    simp only [bck_dd_body, mm_mul_ps]
    rw [hzero z hz, zero_mul]
  · intro q1 hq1 hq1Q z
    by_cases hqq : q1 = q
    · subst hqq
      rw [hnew z, hkeep (q1 + 1) (by omega), ← hdcv z]
      ring
    · rw [hkeep q1 hqq, hkeep (q1 + 1) (by omega)]
      exact hdone q1 (by omega) hq1Q z
  · intro r q1 hrq
    have hne : ¬ (r = s0.dpc ∧ q1 = q) := by
      rintro ⟨h1, h2⟩
      rcases hrq with h | h
      · exact h h1
      · omega
    simp only [bck_dd_body, DMO_setDMO, hdpc, hne, if_false]
    exact hrest r q1 (by rcases hrq with h | h; exact Or.inl h; exact Or.inr (by omega))
  · intro r q1
    simp only [bck_dd_body, MMO_setDMO, IMO_setDMO]
    exact hMI r q1

theorem bck_pass_loop (om : P7_OPROFILE α) (Q : Nat) (s0 : BckVars α)
    (htp : s0.tp = 8 * Q - 1) :
    BckPassInv om Q s0 0 (forDown Q (bck_dd_body om) s0) := by
  apply forDown_induction (BckPassInv om Q s0)
  · refine ⟨by omega, rfl, fun _ => rfl, fun h => absurd h (lt_irrefl Q), fun _ h => h, ?_, ?_,
      ?_⟩
    · intro q h1 h2; omega
    · intro r q _; rfl
    · intro r q; exact ⟨rfl, rfl⟩
  · intro q t hq hI
    exact bck_pass_step om Q s0 q hq t hI

theorem bck_md_step (om : P7_OPROFILE α) (Q : Nat) (s0 : BckVars α)
    (q : Nat) (hq : q < Q) (s : BckVars α) (h : BckMDInv om Q s0 (q + 1) s) :
    BckMDInv om Q s0 q (bck_md_body om q s) := by
  obtain ⟨htp, hdpc, hdcv, hdone, hrest, hDI⟩ := h
  have htp0 : s.tp = 7 * q + 4 := by omega
  have holdM : MMO s.bck.dpf s0.dpc q = MMO s0.bck.dpf s0.dpc q :=
    hrest s0.dpc q (Or.inr (Nat.lt_succ_self q))
  refine ⟨?_, hdpc, ?_, ?_, ?_, ?_⟩
  · show s.tp - 7 = 7 * q - 3
    omega
  · rw [if_neg (by omega)]
    simp only [bck_md_body, DMO_setMMO, hdpc]
    exact (hDI s0.dpc q).1
  · intro q1 hq1 hq1Q
    by_cases hqq : q1 = q
    · subst hqq
      simp only [bck_md_body, MMO_setMMO, hdpc, and_self, if_true]
      rw [holdM, hdcv, htp0]
    · simp only [bck_md_body, MMO_setMMO, hdpc, hqq, and_false, if_false]
      exact hdone q1 (by omega) hq1Q
  · intro r q1 hrq
    have hne : ¬ (r = s0.dpc ∧ q1 = q) := by
      rintro ⟨h1, h2⟩
      rcases hrq with h | h
      · exact h h1
      · omega
    simp only [bck_md_body, MMO_setMMO, hdpc, hne, if_false]
    exact hrest r q1 (by rcases hrq with h | h; exact Or.inl h; exact Or.inr (by omega))
  · intro r q1
    simp only [bck_md_body, DMO_setMMO, IMO_setMMO]
    exact hDI r q1

theorem bck_md_loop (om : P7_OPROFILE α) (Q : Nat) (s0 : BckVars α)
    (htp : s0.tp = 7 * Q - 3) :
    BckMDInv om Q s0 0 (forDown Q (bck_md_body om) s0) := by
  apply forDown_induction (BckMDInv om Q s0)
  · refine ⟨htp, rfl, by rw [if_pos rfl], ?_, ?_, ?_⟩
    · intro q h1 h2; omega
    · intro r q _; rfl
    · intro r q; exact ⟨rfl, rfl⟩
  · intro q t hq hI
    exact bck_md_step om Q s0 q hq t hI

end BackwardPhases

section BackwardDD

variable {α : Type} [LinearOrderedField α]

theorem bck_leftshift_eq (v : M128 α) (z : Fin 4) :
    bck_leftshift v z = if z = 3 then 0 else v (z + 1) := by
  fin_cases z <;> rfl

theorem fin4_succ_val (z : Fin 4) (h : z ≠ 3) : (z + 1).val = z.val + 1 := by
  fin_cases z
  · rfl
  · rfl
  · rfl
  · exact absurd rfl h

theorem bck_leftshift_add (a b : M128 α) (z : Fin 4) :
    bck_leftshift (mm_add_ps a b) z = bck_leftshift a z + bck_leftshift b z := by
  simp only [bck_leftshift_eq]
  split_ifs
  · rw [add_zero]
  · rfl

theorem bck_leftshift_mul (a b : M128 α) (z : Fin 4) :
    bck_leftshift (mm_mul_ps a b) z = bck_leftshift a z * bck_leftshift b z := by
  simp only [bck_leftshift_eq]
  split_ifs
  · rw [mul_zero]
  · rfl

theorem bck_leftshift_zero (c : M128 α) (j : Nat) (hc : ∀ z : Fin 4, 4 ≤ z.val + j → c z = 0)
    (z : Fin 4) (hz : 4 ≤ z.val + (j + 1)) : bck_leftshift c z = 0 := by
  rw [bck_leftshift_eq]
  split_ifs with h3
  · rfl
  · apply hc
    rw [fin4_succ_val z h3]
    omega

theorem bck_leftshift_congr (a b : M128 α) (h : ∀ z, a z = b z) (z : Fin 4) :
    bck_leftshift a z = bck_leftshift b z := by
  have : a = b := funext h
  rw [this]

theorem bck_next_mul (Q : Nat) (a b : Nat → M128 α) (q : Nat) (z : Fin 4) :
    bck_next Q (fun r => mm_mul_ps (a r) (b r)) q z = bck_next Q a q z * bck_next Q b q z := by
  unfold bck_next
  split_ifs
  · exact bck_leftshift_mul _ _ z
  · rfl

/-- One extra delete pass advances the invariant of the Delete chain. -/
theorem bck_dd_pass_inv (om : P7_OPROFILE α) (Q : Nat) (G : Nat → M128 α) (j : Nat)
    (s s0 : BckVars α) (hQ : 0 < Q) (hbck : s0.bck = s.bck) (hdpc : s0.dpc = s.dpc)
    (hdcv : s0.dcv = bck_leftshift s.dcv) (htp : s0.tp = 8 * Q - 1)
    (h : BckDDState om Q G j s) :
    BckDDState om Q G (j + 1) (forDown Q (bck_dd_body om) s0) ∧
    BckSameButD s (forDown Q (bck_dd_body om) s0) := by
  obtain ⟨_, pdpc, _, pcur, pzero, pdone, prest, pMI⟩ := bck_pass_loop om Q s0 htp
  obtain ⟨ha, hb, hc⟩ := h
  rw [hdpc, hbck] at pcur pdone
  rw [hdpc] at pdpc
  rw [hdpc, hbck] at prest
  rw [hbck] at pMI
  have pcur0 := pcur hQ
  refine ⟨⟨?_, ?_, ?_⟩, pdpc, ?_, pMI⟩
  · intro q hq z
    show DMO _ (forDown Q (bck_dd_body om) s0).dpc q z = _
      + _ * DMO _ (forDown Q (bck_dd_body om) s0).dpc (q + 1) z
    rw [pdpc, pdone q (Nat.zero_le q) (by omega) z, if_neg (by omega)]
    have := ha q hq z
    simp only at this
    rw [this]
    ring
  · intro z
    show DMO (forDown Q (bck_dd_body om) s0).bck.dpf (forDown Q (bck_dd_body om) s0).dpc
          (Q - 1) z
        + om.tfv (7 * Q + (Q - 1)) z * bck_leftshift (forDown Q (bck_dd_body om) s0).dcv z
      = G (Q - 1) z + om.tfv (7 * Q + (Q - 1)) z
        * bck_leftshift (DMO (forDown Q (bck_dd_body om) s0).bck.dpf
            (forDown Q (bck_dd_body om) s0).dpc 0) z
    rw [pdpc, pdone (Q - 1) (Nat.zero_le _) (by omega) z, if_pos (by omega), hdcv]
    have hb1 := hb z
    simp only at hb1
    have hl2 : bck_leftshift (DMO (forDown Q (bck_dd_body om) s0).bck.dpf s.dpc 0) z
        = bck_leftshift (DMO s.bck.dpf s.dpc 0) z
          + bck_leftshift (forDown Q (bck_dd_body om) s0).dcv z := by
      rw [← bck_leftshift_add]
      apply bck_leftshift_congr
      intro y
      rw [pcur0 y]; rfl
    rw [hl2]
    linear_combination hb1
  · intro z hz
    apply pzero z
    rw [hdcv]
    exact bck_leftshift_zero s.dcv j hc z hz
  · intro r q hr
    exact prest r q (Or.inl hr)

theorem bckSameButD_trans {s t u : BckVars α} (h1 : BckSameButD s t) (h2 : BckSameButD t u) :
    BckSameButD s u := by
  obtain ⟨a1, a2, a3⟩ := h1
  obtain ⟨b1, b2, b3⟩ := h2
  refine ⟨b1.trans a1, ?_, ?_⟩
  · intro r q hr
    rw [b2 r q (by rw [a1]; exact hr), a2 r q hr]
  · intro r q
    exact ⟨(b3 r q).1.trans (a3 r q).1, (b3 r q).2.trans (a3 r q).2⟩

/-- The extra delete passes of phase 4. -/
theorem bck_phase4_inv (om : P7_OPROFILE α) (Q : Nat) (G : Nat → M128 α) (hQ : 0 < Q)
    (n j : Nat) (s : BckVars α) (h : BckDDState om Q G j s) :
    BckDDState om Q G (j + n) (bck_phase4 Q om n s) ∧ BckSameButD s (bck_phase4 Q om n s) := by
  induction n generalizing j s with
  | zero => exact ⟨h, rfl, fun _ _ _ => rfl, fun _ _ => ⟨rfl, rfl⟩⟩
  | succ k ih =>
    obtain ⟨p1, p2⟩ := bck_dd_pass_inv om Q G j s
      { s with dcv := bck_leftshift s.dcv, tp := 8 * Q - 1 } hQ rfl rfl rfl rfl h
    obtain ⟨q1, q2⟩ := ih (j + 1) _ p1
    have hj : j + (k + 1) = j + 1 + k := by omega
    rw [hj]
    exact ⟨q1, bckSameButD_trans p2 q2⟩

/-- The extra delete passes of the initialization of row L. -/
theorem bck_dd_passes_inv (om : P7_OPROFILE α) (Q : Nat) (G : Nat → M128 α) (hQ : 0 < Q)
    (n j : Nat) (s : BckVars α) (h : BckDDState om Q G j s) :
    BckDDState om Q G (j + n) (bck_dd_passes Q om n s) ∧
    BckSameButD s (bck_dd_passes Q om n s) := by
  induction n generalizing j s with
  | zero => exact ⟨h, rfl, fun _ _ _ => rfl, fun _ _ => ⟨rfl, rfl⟩⟩
  | succ k ih =>
    obtain ⟨p1, p2⟩ := bck_dd_pass_inv om Q G j s
      { s with tp := 8 * Q - 1, dcv := bck_leftshift s.dcv } hQ rfl rfl rfl rfl h
    obtain ⟨q1, q2⟩ := ih (j + 1) _ p1
    have hj : j + (k + 1) = j + 1 + k := by omega
    rw [hj]
    exact ⟨q1, bckSameButD_trans p2 q2⟩

/-- After three extra passes the Delete chain of a Backward row is closed. -/
theorem bck_dd_closed (om : P7_OPROFILE α) (Q : Nat) (G D : Nat → M128 α) (c : M128 α)
    (h : BckDDInv om Q G D c 3) (q : Nat) (hq : q < Q) (z : Fin 4) :
    D q z = G q z + om.tfv (7 * Q + q) z * bck_next Q D q z := by
  obtain ⟨ha, hb, hc⟩ := h
  unfold bck_next
  split_ifs with hl
  · have hq1 : q = Q - 1 := by omega
    subst hq1
    have hz : bck_leftshift c z = 0 :=
      bck_leftshift_zero c 3 hc z (by omega)
    have := hb z
    rw [hz, mul_zero, add_zero] at this
    exact this
  · exact ha q (by omega) z

end BackwardDD

section BackwardRow

variable {α : Type} [LinearOrderedField α]

/-- Phase 3 establishes the invariant of the Delete chain, with the paths
to E added to the Match and Delete vectors. -/
theorem bck_phase3_spec (om : P7_OPROFILE α) (Q : Nat) (s : BckVars α) (hQ : 0 < Q) :
    BckDDState om Q (fun q => mm_add_ps (DMO s.bck.dpf s.dpc q) s.xEv) 0 (bck_phase3 Q om s) ∧
    (bck_phase3 Q om s).dpc = s.dpc ∧
    (∀ q, q < Q → ∀ z, MMO (bck_phase3 Q om s).bck.dpf s.dpc q z
      = MMO s.bck.dpf s.dpc q z + s.xEv z) ∧
    (∀ r q, IMO (bck_phase3 Q om s).bck.dpf r q = IMO s.bck.dpf r q) ∧
    (∀ r q, r ≠ s.dpc → MMO (bck_phase3 Q om s).bck.dpf r q = MMO s.bck.dpf r q ∧
      DMO (bck_phase3 Q om s).bck.dpf r q = DMO s.bck.dpf r q) := by
  obtain ⟨_, pdpc, _, _, pcur, pdone, prest, pI⟩ := bck_phase3_loop om Q
    { s with tp := 8 * Q - 1,
             dpv := bck_leftshift (mm_add_ps (DMO s.bck.dpf s.dpc 0) s.xEv) } rfl
  have hdef : bck_phase3 Q om s = forDown Q (bck_phase3_body om)
      { s with tp := 8 * Q - 1,
               dpv := bck_leftshift (mm_add_ps (DMO s.bck.dpf s.dpc 0) s.xEv) } := rfl
  rw [← hdef] at pdpc pcur pdone prest pI
  simp only at pdpc pcur pdone prest pI
  have pcur0 := pcur hQ
  refine ⟨⟨?_, ?_, ?_⟩, pdpc, ?_, pI, ?_⟩
  · intro q hq z
    show DMO (bck_phase3 Q om s).bck.dpf (bck_phase3 Q om s).dpc q z
      = mm_add_ps (DMO s.bck.dpf s.dpc q) s.xEv z
        + om.tfv (7 * Q + q) z * DMO (bck_phase3 Q om s).bck.dpf (bck_phase3 Q om s).dpc (q + 1) z
    rw [pdpc, (pdone q (Nat.zero_le q) (by omega) z).1, if_neg (by omega)]
    simp only [mm_add_ps]
    ring
  · intro z
    show DMO (bck_phase3 Q om s).bck.dpf (bck_phase3 Q om s).dpc (Q - 1) z
        + om.tfv (7 * Q + (Q - 1)) z * bck_leftshift (bck_phase3 Q om s).dcv z
      = mm_add_ps (DMO s.bck.dpf s.dpc (Q - 1)) s.xEv z
        + om.tfv (7 * Q + (Q - 1)) z
          * bck_leftshift (DMO (bck_phase3 Q om s).bck.dpf (bck_phase3 Q om s).dpc 0) z
    rw [pdpc, (pdone (Q - 1) (Nat.zero_le _) (by omega) z).1, if_pos (by omega)]
    have hl : bck_leftshift (DMO (bck_phase3 Q om s).bck.dpf s.dpc 0) z
        = bck_leftshift (mm_add_ps (DMO s.bck.dpf s.dpc 0) s.xEv) z
          + bck_leftshift (bck_phase3 Q om s).dcv z := by
      rw [← bck_leftshift_add]
      apply bck_leftshift_congr
      intro y
      rw [pcur0 y]
      simp only [mm_add_ps]
      ring
    rw [hl]
    simp only [mm_add_ps]
    ring
  · intro z hz
    have := z.isLt
    omega
  · intro q hq z
    exact (pdone q (Nat.zero_le q) hq z).2
  · intro r q hr
    exact prest r q (Or.inl hr)

/-- Phases 3 to 5 of a Backward row: the Delete chain is closed, and the
Match vectors receive the paths to E and the M->D paths. -/
theorem bck_tail_cells (om : P7_OPROFILE α) (Q : Nat) (s : BckVars α) (hQ : 0 < Q) :
    (bck_md Q om (bck_phase4 Q om 3 (bck_phase3 Q om s))).dpc = s.dpc ∧
    (∀ r q, IMO (bck_md Q om (bck_phase4 Q om 3 (bck_phase3 Q om s))).bck.dpf r q
      = IMO s.bck.dpf r q) ∧
    (∀ q, q < Q → ∀ z,
      DMO (bck_md Q om (bck_phase4 Q om 3 (bck_phase3 Q om s))).bck.dpf s.dpc q z
        = (DMO s.bck.dpf s.dpc q z + s.xEv z)
          + om.tfv (7 * Q + q) z
            * bck_next Q (fun r =>
                DMO (bck_md Q om (bck_phase4 Q om 3 (bck_phase3 Q om s))).bck.dpf s.dpc r) q z ∧
      MMO (bck_md Q om (bck_phase4 Q om 3 (bck_phase3 Q om s))).bck.dpf s.dpc q z
        = (MMO s.bck.dpf s.dpc q z + s.xEv z)
          + bck_next Q (fun r =>
              DMO (bck_md Q om (bck_phase4 Q om 3 (bck_phase3 Q om s))).bck.dpf s.dpc r) q z
            * om.tfv (7 * q + 4) z) := by
  obtain ⟨h3, d3, m3, i3, _⟩ := bck_phase3_spec om Q s hQ
  obtain ⟨h4, d4, _, mi4⟩ := bck_phase4_inv om Q _ hQ 3 0 (bck_phase3 Q om s) h3
  obtain ⟨_, d5, _, m5, _, di5⟩ := bck_md_loop om Q
    { bck_phase4 Q om 3 (bck_phase3 Q om s) with
      tp := 7 * Q - 3,
      dcv := bck_leftshift (DMO (bck_phase4 Q om 3 (bck_phase3 Q om s)).bck.dpf
        (bck_phase4 Q om 3 (bck_phase3 Q om s)).dpc 0) } rfl
  have hdef : bck_md Q om (bck_phase4 Q om 3 (bck_phase3 Q om s))
      = forDown Q (bck_md_body om)
        { bck_phase4 Q om 3 (bck_phase3 Q om s) with
          tp := 7 * Q - 3,
          dcv := bck_leftshift (DMO (bck_phase4 Q om 3 (bck_phase3 Q om s)).bck.dpf
            (bck_phase4 Q om 3 (bck_phase3 Q om s)).dpc 0) } := rfl
  rw [← hdef] at d5 m5 di5
  simp only at d5 m5 di5
  have hdpc4 : (bck_phase4 Q om 3 (bck_phase3 Q om s)).dpc = s.dpc := d4.trans d3
  rw [hdpc4] at d5 m5
  have hD5 : ∀ q, DMO (bck_md Q om (bck_phase4 Q om 3 (bck_phase3 Q om s))).bck.dpf s.dpc q
      = DMO (bck_phase4 Q om 3 (bck_phase3 Q om s)).bck.dpf s.dpc q :=
    fun q => (di5 s.dpc q).1
  have hclosed := bck_dd_closed om Q _ _ _ h4
  simp only [hdpc4] at hclosed
  have hfun : (fun r => DMO (bck_md Q om (bck_phase4 Q om 3 (bck_phase3 Q om s))).bck.dpf s.dpc r)
      = (fun r => DMO (bck_phase4 Q om 3 (bck_phase3 Q om s)).bck.dpf s.dpc r) :=
    funext hD5
  refine ⟨d5, ?_, ?_⟩
  · intro r q
    rw [(di5 r q).2, (mi4 r q).2, i3 r q]
  · intro q hq z
    rw [hfun, hD5 q]
    constructor
    · rw [hclosed q hq z]
      rfl
    · rw [m5 q (Nat.zero_le q) hq]
      simp only [mm_add_ps, mm_mul_ps]
      rw [(mi4 s.dpc q).1, m3 q hq z]
      rfl

end BackwardRow

section BackwardRowCells

variable {α : Type} [LinearOrderedField α]

theorem bck_main_specials (do_full : Bool) (dsq : Nat → Nat) (Q : Nat) (om : P7_OPROFILE α)
    (i : Nat) (s : BckVars α) :
    (forDown Q (bck_main_body om (dsq (i + 1))) (bck_row_begin do_full dsq Q om i s)).xN = s.xN ∧
    (forDown Q (bck_main_body om (dsq (i + 1))) (bck_row_begin do_full dsq Q om i s)).xC = s.xC ∧
    (forDown Q (bck_main_body om (dsq (i + 1))) (bck_row_begin do_full dsq Q om i s)).xJ
      = s.xJ := by
  have h := forDown_proj (fun t : BckVars α => (t.xN, t.xC, t.xJ))
    (bck_main_body om (dsq (i + 1))) (fun _ _ => rfl) Q (bck_row_begin do_full dsq Q om i s)
  simp only [Prod.mk.injEq] at h
  exact h

/-- Row `i` of `backward_engine` before rescaling, cell by cell, from the row
`P` of position `i+1`. -/
theorem bck_row_compute_cells (do_full : Bool) (dsq : Nat → Nat) (Q : Nat)
    (om : P7_OPROFILE α) (i : Nat) (s : BckVars α) (hQ : 0 < Q) :
    (bck_row_compute do_full dsq Q om i s).dpc = i * do_full.toNat ∧
    (bck_row_compute do_full dsq Q om i s).xB
      = ∑ n in Finset.range (4 * Q),
          flat Q (fun q => mm_mul_ps
            (bck_Me om (dsq (i + 1)) (s.bck.dpf ((i + 1) * do_full.toNat)) q)
            (om.tfv (7 * q))) n ∧
    (bck_row_compute do_full dsq Q om i s).xC = s.xC * om.xf p7O_C p7O_LOOP ∧
    (bck_row_compute do_full dsq Q om i s).xJ
      = (bck_row_compute do_full dsq Q om i s).xB * om.xf p7O_J p7O_MOVE
        + s.xJ * om.xf p7O_J p7O_LOOP ∧
    (bck_row_compute do_full dsq Q om i s).xN
      = (bck_row_compute do_full dsq Q om i s).xB * om.xf p7O_N p7O_MOVE
        + s.xN * om.xf p7O_N p7O_LOOP ∧
    (bck_row_compute do_full dsq Q om i s).xE
      = (bck_row_compute do_full dsq Q om i s).xC * om.xf p7O_E p7O_MOVE
        + (bck_row_compute do_full dsq Q om i s).xJ * om.xf p7O_E p7O_LOOP ∧
    (∀ q, q < Q → ∀ z,
      IMO (bck_row_compute do_full dsq Q om i s).bck.dpf (i * do_full.toNat) q z
        = (s.bck.dpf ((i + 1) * do_full.toNat)).imo q z * om.tfv (7 * q + 6) z
          + bck_next Q (bck_Me om (dsq (i + 1)) (s.bck.dpf ((i + 1) * do_full.toNat))) q z
            * bck_next Q (fun r => om.tfv (7 * r + 2)) q z ∧
      DMO (bck_row_compute do_full dsq Q om i s).bck.dpf (i * do_full.toNat) q z
        = (bck_next Q (bck_Me om (dsq (i + 1)) (s.bck.dpf ((i + 1) * do_full.toNat))) q z
            * bck_next Q (fun r => om.tfv (7 * r + 3)) q z
            + (bck_row_compute do_full dsq Q om i s).xE)
          + om.tfv (7 * Q + q) z
            * bck_next Q (fun r =>
                DMO (bck_row_compute do_full dsq Q om i s).bck.dpf (i * do_full.toNat) r) q z ∧
      MMO (bck_row_compute do_full dsq Q om i s).bck.dpf (i * do_full.toNat) q z
        = ((s.bck.dpf ((i + 1) * do_full.toNat)).imo q z * om.tfv (7 * q + 5) z
            + bck_next Q (bck_Me om (dsq (i + 1)) (s.bck.dpf ((i + 1) * do_full.toNat))) q z
              * bck_next Q (fun r => om.tfv (7 * r + 1)) q z
            + (bck_row_compute do_full dsq Q om i s).xE)
          + bck_next Q (fun r =>
              DMO (bck_row_compute do_full dsq Q om i s).bck.dpf (i * do_full.toNat) r) q z
            * om.tfv (7 * q + 4) z) := by
  have h1 := bck_main_spec do_full dsq Q om i s
  obtain ⟨n1, c1, j1⟩ := bck_main_specials do_full dsq Q om i s
  obtain ⟨s1, hs1⟩ : ∃ s1, s1 = forDown Q (bck_main_body om (dsq (i + 1)))
    (bck_row_begin do_full dsq Q om i s) := ⟨_, rfl⟩
  rw [← hs1] at h1 n1 c1 j1
  have hrc : bck_row_compute do_full dsq Q om i s
      = bck_md Q om (bck_phase4 Q om 3 (bck_phase3 Q om (bck_specials om s1))) := by
    rw [hs1]; rfl
  obtain ⟨_, _, m3, _, _, _, _, _, mB, mdone, _⟩ := h1
  have hdpc1 : s1.dpc = i * do_full.toNat := m3
  have hdpc0 : (bck_row_begin do_full dsq Q om i s).dpc = i * do_full.toNat := rfl
  rw [hdpc0] at mdone
  obtain ⟨t1, t2, t3⟩ := bck_tail_cells om Q (bck_specials om s1) hQ
  have hfr := (bck_frame_md Q om (bck_phase4 Q om 3 (bck_phase3 Q om (bck_specials om s1)))).trans
    ((bck_frame_x_phase4 Q om 3 (bck_phase3 Q om (bck_specials om s1))).trans
      (bck_frame_phase3 Q om (bck_specials om s1)))
  simp only [bck_frame, Prod.mk.injEq] at hfr
  obtain ⟨_, _, _, _, _, fN, fC, fJ, fB, fE, _, _⟩ := hfr
  rw [← hrc] at t1 t2 t3 fN fC fJ fB fE
  have hsdpc : (bck_specials om s1).dpc = i * do_full.toNat := hdpc1
  rw [hsdpc] at t1 t3
  have hsB : (bck_specials om s1).xB = hsum s1.xBv := rfl
  have hsC : (bck_specials om s1).xC = s1.xC * om.xf p7O_C p7O_LOOP := rfl
  have hsJ : (bck_specials om s1).xJ
      = (bck_specials om s1).xB * om.xf p7O_J p7O_MOVE + s1.xJ * om.xf p7O_J p7O_LOOP := rfl
  have hsN : (bck_specials om s1).xN
      = (bck_specials om s1).xB * om.xf p7O_N p7O_MOVE + s1.xN * om.xf p7O_N p7O_LOOP := rfl
  have hsE : (bck_specials om s1).xE
      = (bck_specials om s1).xC * om.xf p7O_E p7O_MOVE
        + (bck_specials om s1).xJ * om.xf p7O_E p7O_LOOP := rfl
  have hsEv : (bck_specials om s1).xEv = mm_set1_ps (bck_specials om s1).xE := rfl
  have hsbck : (bck_specials om s1).bck = s1.bck := rfl
  refine ⟨t1, ?_, ?_, ?_, ?_, ?_, ?_⟩
  · rw [fB, hsB, hsum_eq, mB 0, mB 1, mB 2, mB 3, sum_flat_lanes, sum_lanes]
    simp only [Nat.Ico_zero_eq_range]
    rfl
  · rw [fC, hsC, c1]
  · rw [fJ, fB, hsJ, j1]
  · rw [fN, fB, hsN, n1]
  · rw [fE, fC, fJ, hsE]
  · intro q hq z
    obtain ⟨dI, dD, dM⟩ := mdone q (Nat.zero_le q) hq
    obtain ⟨tD, tM⟩ := t3 q hq z
    refine ⟨?_, ?_, ?_⟩
    · rw [t2, hsbck, dI]; rfl
    · rw [tD, hsbck, dD, hsEv, fE]; rfl
    · rw [tM, hsbck, dM, hsEv, fE]; rfl

end BackwardRowCells

section BackwardStepFlat

variable {α : Type} [LinearOrderedField α]

theorem shl_flat3 (Q : Nat) (a b c : Nat → M128 α) (z q : Nat) (hz : z < 4) (hq : q < Q) :
    shl (4 * Q) (fun m => flat Q a m * flat Q b m * flat Q c m) (z * Q + q)
      = bck_next Q (fun r => mm_mul_ps (a r) (b r)) q ⟨z, hz⟩ * bck_next Q c q ⟨z, hz⟩ := by
  rw [← bck_next_mul]
  exact shl_flat Q (fun r => mm_mul_ps (mm_mul_ps (a r) (b r)) (c r)) z q hz hq

/-- Row `i` before rescaling, along the chain of nodes: it precedes row `i+1`
by the Backward recursion. -/
theorem bck_step_flat (do_full : Bool) (dsq : Nat → Nat) (Q : Nat)
    (om : P7_OPROFILE α) (i : Nat) (s : BckVars α) (hQ : 0 < Q)
    (hdpc : s.dpc = (i + 1) * do_full.toNat) :
    BckStep (4 * Q) (om_chain Q om) om.xf (flat Q (om.rfv (dsq (i + 1)))) (bck_flat Q s)
      (bck_flat Q (bck_row_compute do_full dsq Q om i s)) := by
  obtain ⟨cdpc, cB, cC, cJ, cN, cE, ccell⟩ := bck_row_compute_cells do_full dsq Q om i s hQ
  rw [← hdpc] at cB ccell
  have hfD : ∀ m, m < 4 * Q →
      (bck_flat Q (bck_row_compute do_full dsq Q om i s)).D m
        = flat Q (fun r =>
            DMO (bck_row_compute do_full dsq Q om i s).bck.dpf (i * do_full.toNat) r) m := by
    intro m _
    simp only [bck_flat, cdpc]
    rfl
  refine ⟨?_, ?_, cC, cJ, cN, cE, ?_, ?_⟩
  · intro n hn
    obtain ⟨z, q, hz, hq, rfl⟩ := flat_decomp Q n hn
    obtain ⟨hI, _, _⟩ := ccell q hq ⟨z, hz⟩
    simp only [bck_flat, om_chain, fun v => flat_mk Q v z q hz hq, cdpc]
    rw [shl_flat3 Q _ _ _ z q hz hq]
    exact hI
  · show (bck_row_compute do_full dsq Q om i s).xB = _
    rw [cB]
    rfl
  · intro n hn
    obtain ⟨z, q, hz, hq, rfl⟩ := flat_decomp Q n hn
    obtain ⟨_, hD, _⟩ := ccell q hq ⟨z, hz⟩
    rw [shl_congr (4 * Q) _ _ hfD, shl_flat Q _ z q hz hq]
    simp only [bck_flat, om_chain, fun v => flat_mk Q v z q hz hq, cdpc]
    rw [shl_flat3 Q _ _ _ z q hz hq]
    exact hD
  · intro n hn
    obtain ⟨z, q, hz, hq, rfl⟩ := flat_decomp Q n hn
    obtain ⟨_, _, hM⟩ := ccell q hq ⟨z, hz⟩
    rw [shl_congr (4 * Q) _ _ hfD, shl_flat Q _ z q hz hq]
    simp only [bck_flat, om_chain, fun v => flat_mk Q v z q hz hq, cdpc]
    rw [shl_flat3 Q _ _ _ z q hz hq, mul_comm (om.tfv (7 * q + 4) ⟨z, hz⟩)]
    exact hM

end BackwardStepFlat

section BackwardRescaleFlat

variable {α : Type} [LinearOrderedField α]

/-- The loop that scales row `dpc` by `v`: the cells of blocks `q < n` of that
row are multiplied by `v`, every other cell is unchanged. -/
theorem bck_scale_loop_cells (v : M128 α) (n : Nat) (s : BckVars α) (r q : Nat) :
    MMO (forUp n (bck_scale_body v) s).bck.dpf r q
      = (if r = s.dpc ∧ q < n then mm_mul_ps (MMO s.bck.dpf r q) v else MMO s.bck.dpf r q) ∧
    DMO (forUp n (bck_scale_body v) s).bck.dpf r q
      = (if r = s.dpc ∧ q < n then mm_mul_ps (DMO s.bck.dpf r q) v else DMO s.bck.dpf r q) ∧
    IMO (forUp n (bck_scale_body v) s).bck.dpf r q
      = (if r = s.dpc ∧ q < n then mm_mul_ps (IMO s.bck.dpf r q) v
         else IMO s.bck.dpf r q) := by
  induction n with
  | zero => simp [forUp]
  | succ k ih =>
    have hdpc : (forUp k (bck_scale_body v) s).dpc = s.dpc :=
      forUp_proj (fun t : BckVars α => t.dpc) (bck_scale_body v) (fun _ _ => rfl) k s
    obtain ⟨ihM, ihD, ihI⟩ := ih
    rw [forUp_succ]
    simp only [bck_scale_body, MMO_setMMO, MMO_setDMO, MMO_setIMO, DMO_setMMO, DMO_setDMO,
      DMO_setIMO, IMO_setMMO, IMO_setDMO, IMO_setIMO, hdpc, ihM, ihD, ihI]
    by_cases hr : r = s.dpc
    · by_cases hq : q = k
      · subst hq; subst hr; simp [ihM, ihD, ihI]
      · by_cases hlt : q < k
        · have : q < k + 1 := Nat.lt_succ_of_lt hlt
          simp [hr, hq, hlt, this]
        · have : ¬ q < k + 1 := by omega
          simp [hr, hq, hlt, this]
    · simp [hr]

/-- Division of a row by a scale factor `sc`, when that is 1 or above 1, and
storage of the special states: the row and the special states are divided by
`sc`, and `totscale` grows by `log sc`. -/
theorem bck_apply_scale_flat (lm : LibM α) (hlog1 : lm.log 1 = 0) (Q i : Nat) (t : BckVars α)
    (hQ : 0 < Q) (hsc : t.bck.xmx i p7X_SCALE = 1 ∨ 1 < t.bck.xmx i p7X_SCALE) :
    FlatScaled (4 * Q) (1 / t.bck.xmx i p7X_SCALE) (bck_flat Q t)
      (bck_flat Q (bck_store i (bck_apply_scale lm Q i t))) ∧
    (bck_store i (bck_apply_scale lm Q i t)).bck.totscale
      = t.bck.totscale + lm.log (t.bck.xmx i p7X_SCALE) ∧
    (bck_store i (bck_apply_scale lm Q i t)).dpc = t.dpc ∧
    (bck_store i (bck_apply_scale lm Q i t)).bck.xmx i p7X_SCALE = t.bck.xmx i p7X_SCALE := by
  by_cases h : 1 < t.bck.xmx i p7X_SCALE
  · have hfr := bck_scale_row_frame Q (mm_set1_ps (1 / t.bck.xmx i p7X_SCALE))
      { t with xE := t.xE / t.bck.xmx i p7X_SCALE, xN := t.xN / t.bck.xmx i p7X_SCALE,
               xJ := t.xJ / t.bck.xmx i p7X_SCALE, xB := t.xB / t.bck.xmx i p7X_SCALE,
               xC := t.xC / t.bck.xmx i p7X_SCALE,
               xBv := mm_set1_ps (1 / t.bck.xmx i p7X_SCALE) }
    simp only [bck_frame, Prod.mk.injEq] at hfr
    obtain ⟨f1, f2, _, _, _, fN, fC, fJ, fB, fE, fdpc, _⟩ := hfr
    have hcell := bck_scale_loop_cells (mm_set1_ps (1 / t.bck.xmx i p7X_SCALE)) Q
      { t with xE := t.xE / t.bck.xmx i p7X_SCALE, xN := t.xN / t.bck.xmx i p7X_SCALE,
               xJ := t.xJ / t.bck.xmx i p7X_SCALE, xB := t.xB / t.bck.xmx i p7X_SCALE,
               xC := t.xC / t.bck.xmx i p7X_SCALE,
               xBv := mm_set1_ps (1 / t.bck.xmx i p7X_SCALE) }
    have hdef : bck_apply_scale lm Q i t
        = { bck_scale_row Q (mm_set1_ps (1 / t.bck.xmx i p7X_SCALE))
              { t with xE := t.xE / t.bck.xmx i p7X_SCALE, xN := t.xN / t.bck.xmx i p7X_SCALE,
                       xJ := t.xJ / t.bck.xmx i p7X_SCALE, xB := t.xB / t.bck.xmx i p7X_SCALE,
                       xC := t.xC / t.bck.xmx i p7X_SCALE,
                       xBv := mm_set1_ps (1 / t.bck.xmx i p7X_SCALE) } with
            bck := { (bck_scale_row Q (mm_set1_ps (1 / t.bck.xmx i p7X_SCALE))
              { t with xE := t.xE / t.bck.xmx i p7X_SCALE, xN := t.xN / t.bck.xmx i p7X_SCALE,
                       xJ := t.xJ / t.bck.xmx i p7X_SCALE, xB := t.xB / t.bck.xmx i p7X_SCALE,
                       xC := t.xC / t.bck.xmx i p7X_SCALE,
                       xBv := mm_set1_ps (1 / t.bck.xmx i p7X_SCALE) }).bck with
              totscale := (bck_scale_row Q (mm_set1_ps (1 / t.bck.xmx i p7X_SCALE))
              { t with xE := t.xE / t.bck.xmx i p7X_SCALE, xN := t.xN / t.bck.xmx i p7X_SCALE,
                       xJ := t.xJ / t.bck.xmx i p7X_SCALE, xB := t.xB / t.bck.xmx i p7X_SCALE,
                       xC := t.xC / t.bck.xmx i p7X_SCALE,
                       xBv := mm_set1_ps (1 / t.bck.xmx i p7X_SCALE) }).bck.totscale
                + lm.log ((bck_scale_row Q (mm_set1_ps (1 / t.bck.xmx i p7X_SCALE))
              { t with xE := t.xE / t.bck.xmx i p7X_SCALE, xN := t.xN / t.bck.xmx i p7X_SCALE,
                       xJ := t.xJ / t.bck.xmx i p7X_SCALE, xB := t.xB / t.bck.xmx i p7X_SCALE,
                       xC := t.xC / t.bck.xmx i p7X_SCALE,
                       xBv := mm_set1_ps (1 / t.bck.xmx i p7X_SCALE) }).bck.xmx i p7X_SCALE) } } := by
      unfold bck_apply_scale
      rw [if_pos h]
    rw [hdef]
    unfold bck_scale_row at f1 f2 fN fC fJ fB fE fdpc ⊢
    refine ⟨⟨?_, ?_, ?_, ?_, ?_, ?_⟩, ?_, fdpc, ?_⟩
    · intro n hn
      have hq : n % Q < Q := Nat.mod_lt n hQ
      have c1 := hcell t.dpc (n % Q)
      simp only [hq, and_self, if_true, MMO, DMO, IMO] at c1
      obtain ⟨cM, cD, cI⟩ := c1
      simp only [bck_flat, bck_store, flat, fdpc]
      rw [cM, cD, cI]
      simp only [mm_mul_ps, mm_set1_ps]
      refine ⟨by ring, by ring, by ring⟩
    · exact fN.trans (by show t.xN / _ = 1 / _ * t.xN; ring)
    · exact fJ.trans (by show t.xJ / _ = 1 / _ * t.xJ; ring)
    · exact fC.trans (by show t.xC / _ = 1 / _ * t.xC; ring)
    · exact fB.trans (by show t.xB / _ = 1 / _ * t.xB; ring)
    · exact fE.trans (by show t.xE / _ = 1 / _ * t.xE; ring)
    · show P7_OMX.totscale (BckVars.bck (forUp Q _ _))
        + lm.log (P7_OMX.xmx (BckVars.bck (forUp Q _ _)) i p7X_SCALE) = _
      rw [f1, f2]
    · simp only [bck_store, setX_apply]
      rw [f1]
      simp
  · have h1 : t.bck.xmx i p7X_SCALE = 1 := by
      rcases hsc with h1 | h1
      · exact h1
      · exact absurd h1 h
    have hdef : bck_apply_scale lm Q i t = t := by
      unfold bck_apply_scale
      rw [if_neg h]
    rw [hdef, h1]
    refine ⟨⟨?_, ?_, ?_, ?_, ?_, ?_⟩, ?_, rfl, ?_⟩
    · intro n hn
      simp only [bck_flat, bck_store]
      refine ⟨by ring, by ring, by ring⟩
    · show t.xN = 1 / 1 * t.xN; ring
    · show t.xJ = 1 / 1 * t.xJ; ring
    · show t.xC = 1 / 1 * t.xC; ring
    · show t.xB = 1 / 1 * t.xB; ring
    · show t.xE = 1 / 1 * t.xE; ring
    · show t.bck.totscale = _
      rw [hlog1, add_zero]
    · simp only [bck_store, setX_apply]
      simp [h1]

end BackwardRescaleFlat

section BackwardRescaleRow

variable {α : Type} [LinearOrderedField α]

theorem bck_choose_scale_facts (Q : Nat) (fwd : P7_OMX α) (i : Nat) (s : BckVars α)
    (hf : fwd.xmx i p7X_SCALE = 1 ∨ 1 < fwd.xmx i p7X_SCALE) :
    bck_flat Q (bck_choose_scale fwd i s) = bck_flat Q s ∧
    (bck_choose_scale fwd i s).bck.totscale = s.bck.totscale ∧
    (bck_choose_scale fwd i s).dpc = s.dpc ∧
    ((bck_choose_scale fwd i s).bck.xmx i p7X_SCALE = 1 ∨
      1 < (bck_choose_scale fwd i s).bck.xmx i p7X_SCALE) := by
  have hbig : ((10000 : Nat) : α) < s.xB → (1 : α) < s.xB := by
    intro h
    rw [cast_threshold] at h
    linarith
  have hx : ∀ v : α, setX s.bck.xmx i p7X_SCALE v i p7X_SCALE = v := fun v => by
    simp [setX_apply]
  have hcase : (if ((10000 : Nat) : α) < s.xB then s.xB else 1) = 1 ∨
      1 < (if ((10000 : Nat) : α) < s.xB then s.xB else 1) := by
    split_ifs with h4
    · exact Or.inr (hbig h4)
    · exact Or.inl rfl
  unfold bck_choose_scale
  by_cases h16 : ((10000000000000000 : Nat) : α) < s.xB
  · simp only [h16, if_true]
    refine ⟨?_, ?_, ?_, ?_⟩
    · rfl
    · trivial
    · trivial
    · rw [hx]; exact hcase
  · simp only [h16, if_false]
    by_cases hown : s.bck.has_own_scales = true
    · simp only [hown, if_true]
      refine ⟨?_, ?_, ?_, ?_⟩
      · rfl
      · trivial
      · trivial
      · rw [hx]; exact hcase
    · have hfalse : s.bck.has_own_scales = false := by simpa using hown
      simp only [hfalse]
      refine ⟨?_, ?_, ?_, ?_⟩
      · rfl
      · trivial
      · trivial
      · simp only [Bool.false_eq_true, if_false]
        rw [hx]
        exact hf

/-- The sparse rescaling of row `i` of `backward_engine` divides the row and
its special states by the scale factor it stores, which is positive, and adds
the logarithm of that factor to `totscale`. -/
theorem bck_rescale_flat (lm : LibM α) (hlog1 : lm.log 1 = 0) (Q : Nat) (fwd : P7_OMX α)
    (i : Nat) (pre : BckVars α) (hQ : 0 < Q)
    (hf : fwd.xmx i p7X_SCALE = 1 ∨ 1 < fwd.xmx i p7X_SCALE) :
    0 < (bck_row_rescale lm Q fwd i pre).bck.xmx i p7X_SCALE ∧
    FlatScaled (4 * Q) (1 / (bck_row_rescale lm Q fwd i pre).bck.xmx i p7X_SCALE)
      (bck_flat Q pre) (bck_flat Q (bck_row_rescale lm Q fwd i pre)) ∧
    (bck_row_rescale lm Q fwd i pre).bck.totscale
      = pre.bck.totscale + lm.log ((bck_row_rescale lm Q fwd i pre).bck.xmx i p7X_SCALE) ∧
    (bck_row_rescale lm Q fwd i pre).dpc = pre.dpc := by
  obtain ⟨c1, c2, c3, c4⟩ := bck_choose_scale_facts Q fwd i pre hf
  obtain ⟨a1, a2, a3, a4⟩ := bck_apply_scale_flat lm hlog1 Q i (bck_choose_scale fwd i pre) hQ c4
  have hdef : bck_row_rescale lm Q fwd i pre
      = bck_store i (bck_apply_scale lm Q i (bck_choose_scale fwd i pre)) := rfl
  rw [hdef, a4]
  refine ⟨?_, ?_, ?_, a3.trans c3⟩
  · rcases c4 with h | h
    · rw [h]; exact one_pos
    · linarith
  · rw [← c1]; exact a1
  · rw [a2, c2]

end BackwardRescaleRow

/-! ## Row L of backward_engine -/

section BackwardInit

variable {α : Type} [LinearOrderedField α]

theorem bck_first_step (om : P7_OPROFILE α) (Q : Nat) (s0 : BckVars α)
    (q : Nat) (hq : q < Q) (s : BckVars α) (h : BckFirstInv om Q s0 (q + 1) s) :
    BckFirstInv om Q s0 q (bck_dd_first_body om q s) := by
  obtain ⟨htp, hdpc, hdpv, _, hdone, hrest, hMI⟩ := h
  have htp0 : s.tp = 7 * Q + q := by omega
  have holdD : DMO s.bck.dpf s0.dpc q = DMO s0.bck.dpf s0.dpc q :=
    hrest s0.dpc q (Or.inr (Nat.lt_succ_self q))
  have hnew : ∀ z, DMO (bck_dd_first_body om q s).bck.dpf s0.dpc q z
      = DMO s0.bck.dpf s0.dpc q z
        + (if q + 1 = Q then s0.dpv z else DMO s.bck.dpf s0.dpc (q + 1) z)
          * om.tfv (7 * Q + q) z := by
    intro z
    simp only [bck_dd_first_body, DMO_setDMO, hdpc, and_self, if_true]
    rw [holdD, hdpv, htp0]
    simp only [mm_add_ps, mm_mul_ps]
    split_ifs <;> rfl
  have hkeep : ∀ q1, q1 ≠ q → DMO (bck_dd_first_body om q s).bck.dpf s0.dpc q1
      = DMO s.bck.dpf s0.dpc q1 := by
    intro q1 hne
    simp only [bck_dd_first_body, DMO_setDMO, hdpc, hne, and_false, if_false]
  refine ⟨?_, hdpc, ?_, ?_, ?_, ?_, ?_⟩
  · show s.tp - 1 = 7 * Q + q - 1
    omega
  · rw [if_neg (by omega)]
    simp only [bck_dd_first_body, hdpc]
  · intro _ z
    rw [hnew z]
    simp only [bck_dd_first_body, mm_mul_ps, hdpv, htp0]
    split_ifs <;> rfl
  · intro q1 hq1 hq1Q z
    by_cases hqq : q1 = q
    · subst hqq
      rw [hnew z, hkeep (q1 + 1) (by omega)]
    · rw [hkeep q1 hqq, hkeep (q1 + 1) (by omega)]
      exact hdone q1 (by omega) hq1Q z
  · intro r q1 hrq
    have hne : ¬ (r = s0.dpc ∧ q1 = q) := by
      rintro ⟨h1, h2⟩
      rcases hrq with h | h
      · exact h h1
      · omega
    simp only [bck_dd_first_body, DMO_setDMO, hdpc, hne, if_false]
    exact hrest r q1 (by rcases hrq with h | h; exact Or.inl h; exact Or.inr (by omega))
  · intro r q1
    simp only [bck_dd_first_body, MMO_setDMO, IMO_setDMO]
    exact hMI r q1

theorem bck_first_loop (om : P7_OPROFILE α) (Q : Nat) (s0 : BckVars α)
    (htp : s0.tp = 8 * Q - 1) :
    BckFirstInv om Q s0 0 (forDown Q (bck_dd_first_body om) s0) := by
  apply forDown_induction (BckFirstInv om Q s0)
  · refine ⟨by omega, rfl, by rw [if_pos rfl], fun h => absurd h (lt_irrefl Q), ?_, ?_, ?_⟩
    · intro q h1 h2; omega
    · intro r q _; rfl
    · intro r q; exact ⟨rfl, rfl⟩
  · intro q t hq hI
    exact bck_first_step om Q s0 q hq t hI

/-- The delete and match-delete passes of row L, when all Delete vectors of
the row hold the same vector `v` at entry. -/
theorem bck_init_dd_cells (om : P7_OPROFILE α) (Q : Nat) (s : BckVars α) (hQ : 0 < Q)
    (v : M128 α) (hv : ∀ q, q < Q → DMO s.bck.dpf s.dpc q = v) :
    (bck_init_dd Q om s).dpc = s.dpc ∧
    (∀ r q, IMO (bck_init_dd Q om s).bck.dpf r q = IMO s.bck.dpf r q) ∧
    (∀ q, q < Q → ∀ z,
      DMO (bck_init_dd Q om s).bck.dpf s.dpc q z
        = v z + om.tfv (7 * Q + q) z
            * bck_next Q (fun r => DMO (bck_init_dd Q om s).bck.dpf s.dpc r) q z ∧
      MMO (bck_init_dd Q om s).bck.dpf s.dpc q z
        = MMO s.bck.dpf s.dpc q z
          + bck_next Q (fun r => DMO (bck_init_dd Q om s).bck.dpf s.dpc r) q z
            * om.tfv (7 * q + 4) z) := by
  obtain ⟨s1, hs1⟩ : ∃ s1, s1 = forDown Q (bck_dd_first_body om)
      { s with tp := 8 * Q - 1, dpv := bck_leftshift (DMO s.bck.dpf s.dpc (Q - 1)) } := ⟨_, rfl⟩
  obtain ⟨_, pdpc, _, pcur, pdone, _, pMI⟩ := bck_first_loop om Q
    { s with tp := 8 * Q - 1, dpv := bck_leftshift (DMO s.bck.dpf s.dpc (Q - 1)) } rfl
  rw [← hs1] at pdpc pcur pdone pMI
  simp only at pdpc pcur pdone pMI
  have pcur0 := pcur hQ
  have h0 : BckDDState om Q (fun _ => v) 0 s1 := by
    refine ⟨?_, ?_, ?_⟩
    · intro q hq z
      show DMO s1.bck.dpf s1.dpc q z = v z + om.tfv (7 * Q + q) z * DMO s1.bck.dpf s1.dpc (q + 1) z
      rw [pdpc, pdone q (Nat.zero_le q) (by omega) z, if_neg (by omega), hv q (by omega)]
      ring
    · intro z
      show DMO s1.bck.dpf s1.dpc (Q - 1) z + om.tfv (7 * Q + (Q - 1)) z * bck_leftshift s1.dcv z
        = v z + om.tfv (7 * Q + (Q - 1)) z * bck_leftshift (DMO s1.bck.dpf s1.dpc 0) z
      rw [pdpc, pdone (Q - 1) (Nat.zero_le _) (by omega) z, if_pos (by omega),
        hv (Q - 1) (by omega)]
      have hl : bck_leftshift (DMO s1.bck.dpf s.dpc 0) z
          = bck_leftshift v z + bck_leftshift s1.dcv z := by
        rw [← bck_leftshift_add]
        apply bck_leftshift_congr
        intro y
        rw [pcur0 y, hv 0 hQ]
        rfl
      rw [hl]
      ring
    · intro z hz
      have := z.isLt
      omega
  obtain ⟨h4, d4, _, mi4⟩ := bck_dd_passes_inv om Q _ hQ 3 0 s1 h0
  obtain ⟨_, d5, _, m5, _, di5⟩ := bck_md_loop om Q
    { bck_dd_passes Q om 3 s1 with
      tp := 7 * Q - 3,
      dcv := bck_leftshift (DMO (bck_dd_passes Q om 3 s1).bck.dpf
        (bck_dd_passes Q om 3 s1).dpc 0) } rfl
  have hdef : bck_init_dd Q om s
      = forDown Q (bck_md_body om)
        { bck_dd_passes Q om 3 s1 with
          tp := 7 * Q - 3,
          dcv := bck_leftshift (DMO (bck_dd_passes Q om 3 s1).bck.dpf
            (bck_dd_passes Q om 3 s1).dpc 0) } := by
    rw [hs1]; rfl
  rw [← hdef] at d5 m5 di5
  simp only at d5 m5 di5
  have hdpc4 : (bck_dd_passes Q om 3 s1).dpc = s.dpc := d4.trans pdpc
  rw [hdpc4] at d5 m5
  have hD5 : ∀ q, DMO (bck_init_dd Q om s).bck.dpf s.dpc q
      = DMO (bck_dd_passes Q om 3 s1).bck.dpf s.dpc q :=
    fun q => (di5 s.dpc q).1
  have hclosed := bck_dd_closed om Q _ _ _ h4
  simp only [hdpc4] at hclosed
  have hfun : (fun r => DMO (bck_init_dd Q om s).bck.dpf s.dpc r)
      = (fun r => DMO (bck_dd_passes Q om 3 s1).bck.dpf s.dpc r) :=
    funext hD5
  refine ⟨d5, ?_, ?_⟩
  · intro r q
    rw [(di5 r q).2, (mi4 r q).2, (pMI r q).2]
  · intro q hq z
    rw [hfun, hD5 q]
    constructor
    · rw [hclosed q hq z]
    · rw [m5 q (Nat.zero_le q) hq]
      simp only [mm_add_ps, mm_mul_ps]
      rw [(mi4 s.dpc q).1, (pMI s.dpc q).1]
      rfl

theorem bck_init_md_loop (dpc : Nat) (xEv : M128 α) (b : P7_OMX α) (n : Nat) :
    (∀ q, q < n →
      MMO (forUp n (bck_init_md_body dpc xEv) b).dpf dpc q = xEv ∧
      DMO (forUp n (bck_init_md_body dpc xEv) b).dpf dpc q = xEv) := by
  induction n with
  | zero => intro q hq; omega
  | succ k ih =>
    intro q hq
    rw [forUp_succ]
    simp only [bck_init_md_body, MMO_setMMO, MMO_setDMO, DMO_setMMO, DMO_setDMO, true_and]
    by_cases hqk : q = k
    · simp [hqk]
    · simp only [hqk, if_false]
      exact ih q (by omega)

theorem bck_init_i_loop (dpc : Nat) (b : P7_OMX α) (n : Nat) (r q : Nat) :
    MMO (forUp n (bck_init_i_body dpc) b).dpf r q = MMO b.dpf r q ∧
    DMO (forUp n (bck_init_i_body dpc) b).dpf r q = DMO b.dpf r q ∧
    (r = dpc → q < n → IMO (forUp n (bck_init_i_body dpc) b).dpf r q = mm_setzero_ps) := by
  induction n with
  | zero => exact ⟨rfl, rfl, fun _ h => absurd h (Nat.not_lt_zero q)⟩
  | succ k ih =>
    obtain ⟨i1, i2, i3⟩ := ih
    rw [forUp_succ]
    simp only [bck_init_i_body, MMO_setIMO, DMO_setIMO, IMO_setIMO]
    refine ⟨i1, i2, ?_⟩
    intro hr hq
    by_cases hqk : q = k
    · simp [hqk, hr]
    · simp only [hqk, and_false, if_false]
      exact i3 hr (by omega)

/-- The cells and special states set by the initialization of row L, before
its delete passes. -/
theorem bck_init_begin_cells (do_full : Bool) (L Q : Nat) (om : P7_OPROFILE α)
    (bck : P7_OMX α) :
    (bck_init_begin do_full L Q om bck).dpc = L * do_full.toNat ∧
    (bck_init_begin do_full L Q om bck).xN = 0 ∧
    (bck_init_begin do_full L Q om bck).xJ = 0 ∧
    (bck_init_begin do_full L Q om bck).xC = om.xf p7O_C p7O_MOVE ∧
    (bck_init_begin do_full L Q om bck).xE = om.xf p7O_C p7O_MOVE * om.xf p7O_E p7O_MOVE ∧
    (∀ q, q < Q →
      MMO (bck_init_begin do_full L Q om bck).bck.dpf (L * do_full.toNat) q
        = mm_set1_ps (om.xf p7O_C p7O_MOVE * om.xf p7O_E p7O_MOVE) ∧
      DMO (bck_init_begin do_full L Q om bck).bck.dpf (L * do_full.toNat) q
        = mm_set1_ps (om.xf p7O_C p7O_MOVE * om.xf p7O_E p7O_MOVE) ∧
      IMO (bck_init_begin do_full L Q om bck).bck.dpf (L * do_full.toNat) q
        = mm_setzero_ps) := by
  refine ⟨rfl, rfl, rfl, rfl, rfl, ?_⟩
  intro q hq
  have h1 := bck_init_md_loop (L * do_full.toNat)
    (mm_set1_ps (om.xf p7O_C p7O_MOVE * om.xf p7O_E p7O_MOVE))
    { bck with M := om.M, L := L, has_own_scales := false } Q q hq
  have h2 := bck_init_i_loop (L * do_full.toNat)
    (forUp Q (bck_init_md_body (L * do_full.toNat)
      (mm_set1_ps (om.xf p7O_C p7O_MOVE * om.xf p7O_E p7O_MOVE)))
      { bck with M := om.M, L := L, has_own_scales := false }) Q (L * do_full.toNat) q
  exact ⟨h2.1.trans h1.1, h2.2.1.trans h1.2, h2.2.2 rfl hq⟩

end BackwardInit

section BackwardInitFlat

variable {α : Type} [LinearOrderedField α]

/-- The rescaling of row L divides the row and its special states by the scale
factor of the Forward matrix, when that is 1 or above 1. -/
theorem bck_init_rescale_flat (lm : LibM α) (L Q : Nat) (fwd : P7_OMX α) (pre : BckVars α)
    (hQ : 0 < Q) (hf : fwd.xmx L p7X_SCALE = 1 ∨ 1 < fwd.xmx L p7X_SCALE) :
    FlatScaled (4 * Q) (1 / fwd.xmx L p7X_SCALE) (bck_flat Q pre)
      (bck_flat Q (bck_init_rescale lm L Q fwd pre)) ∧
    (bck_init_rescale lm L Q fwd pre).bck.totscale = lm.log (fwd.xmx L p7X_SCALE) ∧
    (bck_init_rescale lm L Q fwd pre).dpc = pre.dpc := by
  have hpost : bck_flat Q (bck_init_rescale lm L Q fwd pre)
      = bck_flat Q (if 1 < fwd.xmx L p7X_SCALE then
          bck_scale_row Q (mm_set1_ps (1 / fwd.xmx L p7X_SCALE))
            { pre with xE := pre.xE / fwd.xmx L p7X_SCALE,
                       xN := pre.xN / fwd.xmx L p7X_SCALE,
                       xC := pre.xC / fwd.xmx L p7X_SCALE,
                       xJ := pre.xJ / fwd.xmx L p7X_SCALE,
                       xB := pre.xB / fwd.xmx L p7X_SCALE,
                       xEv := mm_set1_ps (1 / fwd.xmx L p7X_SCALE) }
        else pre) := rfl
  have hdpc : (bck_init_rescale lm L Q fwd pre).dpc
      = (if 1 < fwd.xmx L p7X_SCALE then
          bck_scale_row Q (mm_set1_ps (1 / fwd.xmx L p7X_SCALE))
            { pre with xE := pre.xE / fwd.xmx L p7X_SCALE,
                       xN := pre.xN / fwd.xmx L p7X_SCALE,
                       xC := pre.xC / fwd.xmx L p7X_SCALE,
                       xJ := pre.xJ / fwd.xmx L p7X_SCALE,
                       xB := pre.xB / fwd.xmx L p7X_SCALE,
                       xEv := mm_set1_ps (1 / fwd.xmx L p7X_SCALE) }
        else pre).dpc := rfl
  have htot : (bck_init_rescale lm L Q fwd pre).bck.totscale
      = lm.log (fwd.xmx L p7X_SCALE) := by
    show lm.log (setX _ L p7X_SCALE (fwd.xmx L p7X_SCALE) L p7X_SCALE) = _
    simp [setX_apply]
  rw [hpost, hdpc]
  refine ⟨?_, htot, ?_⟩
  · by_cases h : 1 < fwd.xmx L p7X_SCALE
    · rw [if_pos h]
      have hfr := bck_scale_row_frame Q (mm_set1_ps (1 / fwd.xmx L p7X_SCALE))
        { pre with xE := pre.xE / fwd.xmx L p7X_SCALE,
                   xN := pre.xN / fwd.xmx L p7X_SCALE,
                   xC := pre.xC / fwd.xmx L p7X_SCALE,
                   xJ := pre.xJ / fwd.xmx L p7X_SCALE,
                   xB := pre.xB / fwd.xmx L p7X_SCALE,
                   xEv := mm_set1_ps (1 / fwd.xmx L p7X_SCALE) }
      simp only [bck_frame, Prod.mk.injEq] at hfr
      obtain ⟨_, _, _, _, _, fN, fC, fJ, fB, fE, fdpc, _⟩ := hfr
      have hcell := bck_scale_loop_cells (mm_set1_ps (1 / fwd.xmx L p7X_SCALE)) Q
        { pre with xE := pre.xE / fwd.xmx L p7X_SCALE,
                   xN := pre.xN / fwd.xmx L p7X_SCALE,
                   xC := pre.xC / fwd.xmx L p7X_SCALE,
                   xJ := pre.xJ / fwd.xmx L p7X_SCALE,
                   xB := pre.xB / fwd.xmx L p7X_SCALE,
                   xEv := mm_set1_ps (1 / fwd.xmx L p7X_SCALE) }
      unfold bck_scale_row at fN fC fJ fB fE fdpc ⊢
      refine ⟨?_, ?_, ?_, ?_, ?_, ?_⟩
      · intro n hn
        have hq : n % Q < Q := Nat.mod_lt n hQ
        have c1 := hcell pre.dpc (n % Q)
        simp only [hq, and_self, if_true, MMO, DMO, IMO] at c1
        obtain ⟨cM, cD, cI⟩ := c1
        simp only [bck_flat, flat, fdpc]
        rw [cM, cD, cI]
        simp only [mm_mul_ps, mm_set1_ps]
        refine ⟨by ring, by ring, by ring⟩
      · exact fN.trans (by show pre.xN / _ = 1 / _ * pre.xN; ring)
      · exact fJ.trans (by show pre.xJ / _ = 1 / _ * pre.xJ; ring)
      · exact fC.trans (by show pre.xC / _ = 1 / _ * pre.xC; ring)
      · exact fB.trans (by show pre.xB / _ = 1 / _ * pre.xB; ring)
      · exact fE.trans (by show pre.xE / _ = 1 / _ * pre.xE; ring)
    · have h1 : fwd.xmx L p7X_SCALE = 1 := by
        rcases hf with h1 | h1
        · exact h1
        · exact absurd h1 h
      rw [if_neg h, h1]
      refine ⟨?_, ?_, ?_, ?_, ?_, ?_⟩
      · intro n hn
        refine ⟨by ring, by ring, by ring⟩
      · show pre.xN = 1 / 1 * pre.xN; ring
      · show pre.xJ = 1 / 1 * pre.xJ; ring
      · show pre.xC = 1 / 1 * pre.xC; ring
      · show pre.xB = 1 / 1 * pre.xB; ring
      · show pre.xE = 1 / 1 * pre.xE; ring
  · by_cases h : 1 < fwd.xmx L p7X_SCALE
    · rw [if_pos h]
      have hfr := bck_scale_row_frame Q (mm_set1_ps (1 / fwd.xmx L p7X_SCALE))
        { pre with xE := pre.xE / fwd.xmx L p7X_SCALE,
                   xN := pre.xN / fwd.xmx L p7X_SCALE,
                   xC := pre.xC / fwd.xmx L p7X_SCALE,
                   xJ := pre.xJ / fwd.xmx L p7X_SCALE,
                   xB := pre.xB / fwd.xmx L p7X_SCALE,
                   xEv := mm_set1_ps (1 / fwd.xmx L p7X_SCALE) }
      simp only [bck_frame, Prod.mk.injEq] at hfr
      exact hfr.2.2.2.2.2.2.2.2.2.2.1
    · rw [if_neg h]

/-- Row L of `backward_engine`: it pairs with any Forward row with a closed
Delete chain to `C * xf[C][MOVE]`, divided by the scale factor of row L. -/
theorem bck_init_flat (lm : LibM α) (do_full : Bool) (L Q : Nat) (om : P7_OPROFILE α)
    (fwd bck : P7_OMX α) (hQ : 0 < Q)
    (hf : fwd.xmx L p7X_SCALE = 1 ∨ 1 < fwd.xmx L p7X_SCALE)
    (f : FlatRow α) (hfok : FwdRowOK (4 * Q) (om_chain Q om) om.xf f) :
    (bck_init lm do_full L Q om fwd bck).dpc = L * do_full.toNat ∧
    BckRowOK om.xf (bck_flat Q (bck_init lm do_full L Q om fwd bck)) ∧
    (bck_init lm do_full L Q om fwd bck).bck.totscale = lm.log (fwd.xmx L p7X_SCALE) ∧
    pairing (4 * Q) f (bck_flat Q (bck_init lm do_full L Q om fwd bck)) * fwd.xmx L p7X_SCALE
      = f.C * om.xf p7O_C p7O_MOVE := by
  obtain ⟨bdpc, bN, bJ, bC, bE, bcell⟩ := bck_init_begin_cells do_full L Q om bck
  have hv : ∀ q, q < Q → DMO (bck_init_begin do_full L Q om bck).bck.dpf
      (bck_init_begin do_full L Q om bck).dpc q
        = mm_set1_ps (om.xf p7O_C p7O_MOVE * om.xf p7O_E p7O_MOVE) := by
    intro q hq; rw [bdpc]; exact (bcell q hq).2.1
  obtain ⟨ddpc, dI, dcell⟩ := bck_init_dd_cells om Q (bck_init_begin do_full L Q om bck) hQ _ hv
  rw [bdpc] at ddpc dcell
  have hfr : bck_frame (bck_init_dd Q om (bck_init_begin do_full L Q om bck))
      = bck_frame (bck_init_begin do_full L Q om bck) := by
    unfold bck_init_dd
    simp only
    exact (bck_frame_md Q om _).trans ((bck_frame_dd_passes Q om 3 _).trans
      ((forDown_proj bck_frame (bck_dd_first_body om) (fun _ _ => rfl) Q _).trans rfl))
  simp only [bck_frame, Prod.mk.injEq] at hfr
  obtain ⟨_, _, _, _, _, fN, fC, fJ, _, fE, _, _⟩ := hfr
  rw [bN] at fN
  rw [bC] at fC
  rw [bJ] at fJ
  rw [bE] at fE
  obtain ⟨pre, hpre⟩ : ∃ pre, pre = bck_init_dd Q om (bck_init_begin do_full L Q om bck) :=
    ⟨_, rfl⟩
  rw [← hpre] at ddpc dI dcell fN fC fJ fE
  have hdefi : bck_init lm do_full L Q om fwd bck = bck_init_rescale lm L Q fwd pre := by
    rw [hpre]; rfl
  obtain ⟨rsc, rtot, rdpc⟩ := bck_init_rescale_flat lm L Q fwd pre hQ hf
  rw [← hdefi] at rsc rtot rdpc
  have hfDm : ∀ m, m < 4 * Q → (bck_flat Q pre).D m
      = flat Q (fun r => DMO pre.bck.dpf (L * do_full.toNat) r) m := by
    intro m _
    simp only [bck_flat, ddpc]
    rfl
  have hpreE : (bck_flat Q pre).E = om.xf p7O_C p7O_MOVE * om.xf p7O_E p7O_MOVE := fE
  have hlast : pairing (4 * Q) f (bck_flat Q pre) = f.C * (bck_flat Q pre).C := by
    apply pairing_last (4 * Q) (om_chain Q om) om.xf f (bck_flat Q pre) hfok
    · intro n hn
      obtain ⟨z, q, hz, hq, rfl⟩ := flat_decomp Q n hn
      obtain ⟨_, hM⟩ := dcell q hq ⟨z, hz⟩
      rw [shl_congr (4 * Q) _ _ hfDm, shl_flat Q _ z q hz hq, hpreE]
      simp only [bck_flat, om_chain, fun v => flat_mk Q v z q hz hq, ddpc]
      rw [mul_comm (om.tfv (7 * q + 4) ⟨z, hz⟩)]
      refine hM.trans ?_
      rw [(bcell q hq).1]
      rfl
    · intro n hn
      obtain ⟨z, q, hz, hq, rfl⟩ := flat_decomp Q n hn
      obtain ⟨hD, _⟩ := dcell q hq ⟨z, hz⟩
      rw [shl_congr (4 * Q) _ _ hfDm, shl_flat Q _ z q hz hq, hpreE]
      simp only [bck_flat, om_chain, fun v => flat_mk Q v z q hz hq, ddpc]
      exact hD
    · intro n hn
      simp only [bck_flat, flat, ddpc]
      have := dI (L * do_full.toNat) (n % Q)
      simp only [IMO] at this
      rw [this]
      have h2 := (bcell (n % Q) (Nat.mod_lt n hQ)).2.2
      simp only [IMO] at h2
      rw [h2]
      rfl
    · exact fN
    · exact fJ
  have hpreok : BckRowOK om.xf (bck_flat Q pre) := by
    show pre.xE = pre.xC * _ + pre.xJ * _
    rw [fE, fC, fJ]; ring
  have hscpos : 0 < fwd.xmx L p7X_SCALE := by
    rcases hf with h | h
    · rw [h]; exact one_pos
    · linarith
  refine ⟨rdpc.trans ddpc, bckRowOK_scaled (4 * Q) om.xf _ _ _ hpreok rsc, rtot, ?_⟩
  rw [pairing_scaled_right (4 * Q) _ f _ _ rsc, hlast]
  show 1 / fwd.xmx L p7X_SCALE * (f.C * pre.xC) * fwd.xmx L p7X_SCALE = _
  rw [fC]
  field_simp

end BackwardInitFlat

/-! ## Termination of backward_engine and the returned score -/

section BackwardTermination

variable {α : Type} [LinearOrderedField α]

theorem bck_term_loop (om : P7_OPROFILE α) (x Q : Nat) (s0 : BckVars α)
    (hrp : s0.rp = 0) (htp : s0.tp = 0) (hxBv : s0.xBv = mm_setzero_ps) :
    (forUp Q (bck_term_body om x) s0).xN = s0.xN ∧
    (forUp Q (bck_term_body om x) s0).bck = s0.bck ∧
    (∀ z, (forUp Q (bck_term_body om x) s0).xBv z
      = ∑ q in Finset.range Q,
          MMO s0.bck.dpf s0.dpp q z * om.rfv x q z * om.tfv (7 * q) z) := by
  have key := forUp_induction
    (fun n (t : BckVars α) => t.rp = n ∧ t.tp = 7 * n ∧ t.bck = s0.bck ∧ t.dpp = s0.dpp ∧
      t.xN = s0.xN ∧
      ∀ z, t.xBv z = ∑ q in Finset.range n,
        MMO s0.bck.dpf s0.dpp q z * om.rfv x q z * om.tfv (7 * q) z)
    (bck_term_body om x) Q s0
    ⟨hrp, by rw [htp], rfl, rfl, rfl, by intro z; rw [hxBv]; simp [mm_setzero_ps]⟩
    (by
      intro q t _ hI
      obtain ⟨h1, h2, h3, h4, h5, h6⟩ := hI
      refine ⟨?_, ?_, h3, h4, h5, ?_⟩
      · show t.rp + 1 = q + 1
        rw [h1]
      · show t.tp + 7 = 7 * (q + 1)
        omega
      · intro z
        rw [Finset.sum_range_succ, ← h6 z]
        show (mm_add_ps t.xBv (mm_mul_ps (mm_mul_ps (MMO t.bck.dpf t.dpp q) (om.rfv x t.rp))
          (om.tfv t.tp))) z = _
        rw [h1, h2, h3, h4]
        rfl)
  exact ⟨key.2.2.2.2.1, key.2.2.1, key.2.2.2.2.2⟩

/-- The termination step: the N value of position 0 is the B->Mk sum over row
1 times `xf[N][MOVE]`, plus the N value of row 1 times `xf[N][LOOP]`. -/
theorem bck_term_flat (do_full : Bool) (dsq : Nat → Nat) (Q : Nat) (om : P7_OPROFILE α)
    (s : BckVars α) (hdpc : s.dpc = 1 * do_full.toNat) :
    (bck_term do_full dsq Q om s).xN
      = (∑ n in Finset.range (4 * Q),
          (bck_flat Q s).M n * flat Q (om.rfv (dsq 1)) n * (om_chain Q om).BM n)
          * om.xf p7O_N p7O_MOVE
        + (bck_flat Q s).N * om.xf p7O_N p7O_LOOP ∧
    (bck_term do_full dsq Q om s).bck.totscale = s.bck.totscale := by
  obtain ⟨l1, l2, l3⟩ := bck_term_loop om (dsq 1) Q
    { s with dpp := 1 * do_full.toNat, tp := 0, rp := 0, xBv := mm_setzero_ps } rfl rfl rfl
  constructor
  · show hsum (forUp Q (bck_term_body om (dsq 1))
        { s with dpp := 1 * do_full.toNat, tp := 0, rp := 0, xBv := mm_setzero_ps }).xBv
          * om.xf p7O_N p7O_MOVE
        + (forUp Q (bck_term_body om (dsq 1))
            { s with dpp := 1 * do_full.toNat, tp := 0, rp := 0, xBv := mm_setzero_ps }).xN
          * om.xf p7O_N p7O_LOOP = _
    rw [l1, hsum_eq, l3 0, l3 1, l3 2, l3 3]
    have hsumflat : ∑ n in Finset.range (4 * Q),
          (bck_flat Q s).M n * flat Q (om.rfv (dsq 1)) n * (om_chain Q om).BM n
        = ∑ n in Finset.range (4 * Q),
            flat Q (fun q => mm_mul_ps (mm_mul_ps (MMO s.bck.dpf (1 * do_full.toNat) q)
              (om.rfv (dsq 1) q)) (om.tfv (7 * q))) n := by
      apply Finset.sum_congr rfl
      intro n _
      simp only [bck_flat, om_chain, hdpc]
      rfl
    rw [hsumflat, sum_flat_lanes, sum_lanes]
    rfl
  · show (forUp Q (bck_term_body om (dsq 1))
        { s with dpp := 1 * do_full.toNat, tp := 0, rp := 0, xBv := mm_setzero_ps }).bck.totscale
      = _
    rw [l2]

variable {β : Type} [Zero β] [One β] [Add β] [Mul β] [Div β] [NatCast β]
  [LT β] [DecidableRel (fun (x y : β) => x < y)] [DecidableEq β]

theorem bck_rows_ok_no_cancel (lm : LibM β) (cancelFlag : Nat → Bool) (do_full : Bool)
    (dsq : Nat → Nat) (Q : Nat) (om : P7_OPROFILE β) (fwd : P7_OMX β) (n : Nat)
    (s s1 : BckVars β)
    (h : bck_rows lm cancelFlag do_full dsq Q om fwd n s = .ok s1) :
    ∀ i, 1 ≤ i → i ≤ n → cancelFlag i = false := by
  induction n generalizing s with
  | zero => intro i h1 h2; omega
  | succ k ih =>
    by_cases hc : cancelFlag (k + 1) = true
    · simp [bck_rows, hc] at h
    · have hc2 : cancelFlag (k + 1) = false := by simpa using hc
      simp only [bck_rows, hc2] at h
      intro i h1 h2
      rcases Nat.lt_or_ge i (k + 1) with hlt | hge
      · exact ih _ h i h1 (by omega)
      · have : i = k + 1 := by omega
        rw [this]; exact hc2

/-- What a call of `backward_engine` that returns `eslOK` did: no cancellation
was seen, the final N value passed the range tests, and the score is computed
from the variables reached after the termination step. -/
theorem backward_engine_ok (p7O_NQF : Nat → Nat) (lm : LibM β)
    (cancelFlag : Nat → Bool) (do_full : Bool) (dsq : Nat → Nat) (L : Nat)
    (om : P7_OPROFILE β) (fwd bck : P7_OMX β) (opt_sc : Bool)
    (hok : (backward_engine p7O_NQF lm cancelFlag do_full dsq L om fwd bck opt_sc).1 = eslOK) :
    (backward_engine p7O_NQF lm cancelFlag do_full dsq L om fwd bck opt_sc).2.1
      = (bck_term do_full dsq (p7O_NQF om.M) om
          (bck_state lm do_full dsq (p7O_NQF om.M) om fwd L
            (bck_init lm do_full L (p7O_NQF om.M) om fwd bck) (L - 1))).bck ∧
    (backward_engine p7O_NQF lm cancelFlag do_full dsq L om fwd bck opt_sc).2.2
      = (if opt_sc then
          some ((bck_term do_full dsq (p7O_NQF om.M) om
              (bck_state lm do_full dsq (p7O_NQF om.M) om fwd L
                (bck_init lm do_full L (p7O_NQF om.M) om fwd bck) (L - 1))).bck.totscale
            + lm.log (bck_term do_full dsq (p7O_NQF om.M) om
              (bck_state lm do_full dsq (p7O_NQF om.M) om fwd L
                (bck_init lm do_full L (p7O_NQF om.M) om fwd bck) (L - 1))).xN)
         else none) ∧
    ¬ (0 < L ∧ (bck_term do_full dsq (p7O_NQF om.M) om
          (bck_state lm do_full dsq (p7O_NQF om.M) om fwd L
            (bck_init lm do_full L (p7O_NQF om.M) om fwd bck) (L - 1))).xN = 0) := by
  have hnc : ∀ i, 1 ≤ i → i ≤ L - 1 → cancelFlag i = false := by
    cases h : bck_rows lm cancelFlag do_full dsq (p7O_NQF om.M) om fwd (L - 1)
        (bck_init lm do_full L (p7O_NQF om.M) om fwd bck) with
    | error e =>
      have := bck_rows_error lm cancelFlag do_full dsq (p7O_NQF om.M) om fwd (L - 1) _ e h
      obtain ⟨st, s⟩ := e
      simp only at this
      simp [backward_engine, h, this] at hok
    | ok s => exact bck_rows_ok_no_cancel lm cancelFlag do_full dsq _ om fwd (L - 1) _ s h
  have h := bck_rows_of_no_cancel lm cancelFlag do_full dsq (p7O_NQF om.M) om fwd L
    (bck_init lm do_full L (p7O_NQF om.M) om fwd bck) (L - 1) le_rfl hnc
  rw [Nat.sub_self] at h
  simp only [bck_state] at h
  simp only [backward_engine, h] at hok ⊢
  split_ifs at hok ⊢ with h1 h2 h3 <;> simp_all

end BackwardTermination

/-! ## The pairing of the Forward run with the Backward run -/

section PairingTrace

variable {α : Type} [LinearOrderedField α]

/-- One step of the two runs: Backward row `i` and Forward row `i+1` change the
pairing by the two scale factors. -/
theorem pairing_row_step (lm : LibM α) (hlog1 : lm.log 1 = 0) (dfF dfB : Bool)
    (dsq : Nat → Nat) (Q : Nat) (om : P7_OPROFILE α) (hQ : 0 < Q) (hom : OmNonneg om)
    (i : Nat) (Fi : FwdVars α) (Bn : BckVars α) (fwd : P7_OMX α)
    (hFnn : FwdNonneg Q Fi)
    (hFok : FwdRowOK (4 * Q) (om_chain Q om) om.xf (fwd_flat Q Fi))
    (hBok : BckRowOK om.xf (bck_flat Q Bn)) (hBdpc : Bn.dpc = (i + 1) * dfB.toNat)
    (hf : fwd.xmx i p7X_SCALE = 1 ∨ 1 < fwd.xmx i p7X_SCALE) :
    0 < (bck_row lm dfB dsq Q om fwd i Bn).bck.xmx i p7X_SCALE ∧
    (bck_row lm dfB dsq Q om fwd i Bn).dpc = i * dfB.toNat ∧
    BckRowOK om.xf (bck_flat Q (bck_row lm dfB dsq Q om fwd i Bn)) ∧
    (bck_row lm dfB dsq Q om fwd i Bn).bck.totscale
      = Bn.bck.totscale + lm.log ((bck_row lm dfB dsq Q om fwd i Bn).bck.xmx i p7X_SCALE) ∧
    pairing (4 * Q) (fwd_flat Q Fi) (bck_flat Q (bck_row lm dfB dsq Q om fwd i Bn))
        * (bck_row lm dfB dsq Q om fwd i Bn).bck.xmx i p7X_SCALE
      = pairing (4 * Q) (fwd_flat Q (fwd_row lm dfF dsq Q om (i + 1) Fi)) (bck_flat Q Bn)
        * (fwd_row lm dfF dsq Q om (i + 1) Fi).ox.xmx (i + 1) p7X_SCALE := by
  have hbstep := bck_step_flat dfB dsq Q om i Bn hQ hBdpc
  have hcdpc := (bck_row_compute_cells dfB dsq Q om i Bn hQ).1
  obtain ⟨bpos, bsc, btot, bdpc⟩ := bck_rescale_flat lm hlog1 Q fwd i
    (bck_row_compute dfB dsq Q om i Bn) hQ hf
  obtain ⟨fstep, _, _, _⟩ := fwd_compute_flat dfF dsq Q om (i + 1) Fi hQ hom hFnn
  obtain ⟨fpos, fsc, _⟩ := fwd_rescale_flat lm Q (i + 1)
    (fwd_row_compute dfF dsq Q om (i + 1) Fi) hQ
  have hfx := bck_row_compute_frame_x dfB dsq Q om i Bn
  simp only [bck_frame_x, Prod.mk.injEq] at hfx
  have hbdef : bck_row lm dfB dsq Q om fwd i Bn
      = bck_row_rescale lm Q fwd i (bck_row_compute dfB dsq Q om i Bn) := rfl
  have hfdef : fwd_row lm dfF dsq Q om (i + 1) Fi
      = fwd_row_rescale lm Q (i + 1) (fwd_row_compute dfF dsq Q om (i + 1) Fi) := rfl
  rw [hbdef, hfdef]
  have hpreok : BckRowOK om.xf (bck_flat Q (bck_row_compute dfB dsq Q om i Bn)) :=
    hbstep.2.2.2.2.2.1
  have hstep := pairing_step (4 * Q) (om_chain Q om) om.xf (flat Q (om.rfv (dsq (i + 1))))
    (fwd_flat Q Fi) (fwd_flat Q (fwd_row_compute dfF dsq Q om (i + 1) Fi)) (bck_flat Q Bn)
    (bck_flat Q (bck_row_compute dfB dsq Q om i Bn)) hFok fstep hBok hbstep
  refine ⟨bpos, bdpc.trans hcdpc, bckRowOK_scaled (4 * Q) om.xf _ _ _ hpreok bsc, ?_, ?_⟩
  · rw [btot, hfx.2.1]
  · rw [pairing_scaled_right (4 * Q) _ _ _ _ bsc, pairing_scaled_left (4 * Q) _ _ _ _ fsc,
      hstep]
    have hb0 := ne_of_gt bpos
    have hf0 := ne_of_gt fpos
    field_simp

/-- The pairing along the two runs: after `k` passes of the Backward
recursion, the pairing of Forward row `L-k` with Backward row `L-k`, times the
product `pb` of the Backward scale factors used so far, is the final Forward C
value times `xf[C][MOVE]` times the Forward scale factors of the rows above. -/
theorem pairing_trace (lm : LibM α) (hlog1 : lm.log 1 = 0)
    (hlogmul : ∀ a b : α, 0 < a → 0 < b → lm.log (a * b) = lm.log a + lm.log b)
    (dfF dfB : Bool) (dsq : Nat → Nat) (Q L : Nat) (om : P7_OPROFILE α)
    (ox bck : P7_OMX α) (hQ : 0 < Q) (hom : OmNonneg om) (k : Nat) (hk : k ≤ L - 1)
    (hL : 1 ≤ L) :
    (bck_state lm dfB dsq Q om (fwd_state lm dfF dsq Q om (fwd_init L Q om ox) L).ox L
        (bck_init lm dfB L Q om (fwd_state lm dfF dsq Q om (fwd_init L Q om ox) L).ox bck)
        k).dpc = (L - k) * dfB.toNat ∧
    BckRowOK om.xf (bck_flat Q
      (bck_state lm dfB dsq Q om (fwd_state lm dfF dsq Q om (fwd_init L Q om ox) L).ox L
        (bck_init lm dfB L Q om (fwd_state lm dfF dsq Q om (fwd_init L Q om ox) L).ox bck) k)) ∧
    ∃ pb : α, 0 < pb ∧
      (bck_state lm dfB dsq Q om (fwd_state lm dfF dsq Q om (fwd_init L Q om ox) L).ox L
        (bck_init lm dfB L Q om (fwd_state lm dfF dsq Q om (fwd_init L Q om ox) L).ox bck)
        k).bck.totscale = lm.log pb ∧
      pairing (4 * Q) (fwd_flat Q (fwd_state lm dfF dsq Q om (fwd_init L Q om ox) (L - k)))
          (bck_flat Q
            (bck_state lm dfB dsq Q om (fwd_state lm dfF dsq Q om (fwd_init L Q om ox) L).ox L
              (bck_init lm dfB L Q om (fwd_state lm dfF dsq Q om (fwd_init L Q om ox) L).ox bck)
              k)) * pb
        = (fwd_state lm dfF dsq Q om (fwd_init L Q om ox) L).xC * om.xf p7O_C p7O_MOVE
          * ∏ j in Finset.Ico (L - k + 1) (L + 1),
              (fwd_state lm dfF dsq Q om (fwd_init L Q om ox) j).ox.xmx j p7X_SCALE := by
  have hfwdsc : ∀ j, j ≤ L →
      (fwd_state lm dfF dsq Q om (fwd_init L Q om ox) L).ox.xmx j p7X_SCALE
        = (fwd_state lm dfF dsq Q om (fwd_init L Q om ox) j).ox.xmx j p7X_SCALE :=
    fun j hj => congrFun (fwd_state_xmx_stable lm dfF dsq Q om _ j L hj) p7X_SCALE
  have hf : ∀ j, j ≤ L →
      (fwd_state lm dfF dsq Q om (fwd_init L Q om ox) L).ox.xmx j p7X_SCALE = 1 ∨
      1 < (fwd_state lm dfF dsq Q om (fwd_init L Q om ox) L).ox.xmx j p7X_SCALE := by
    intro j hj
    rw [hfwdsc j hj]
    rcases fwd_state_scale_cases lm dfF dsq Q L om ox j with h | h
    · exact Or.inl h
    · exact Or.inr (by linarith)
  induction k with
  | zero =>
    obtain ⟨_, hok⟩ := fwd_state_flat lm dfF dsq Q L om ox hQ hom L
    obtain ⟨i1, i2, i3, i4⟩ := bck_init_flat lm dfB L Q om
      (fwd_state lm dfF dsq Q om (fwd_init L Q om ox) L).ox bck hQ (hf L le_rfl) _ hok
    refine ⟨i1, i2, _, ?_, i3, ?_⟩
    · rcases hf L le_rfl with h | h
      · rw [h]; exact one_pos
      · linarith
    · show pairing (4 * Q) _ (bck_flat Q (bck_init lm dfB L Q om _ bck)) * _ = _
      rw [Nat.sub_zero, Finset.Ico_self, Finset.prod_empty, mul_one]
      exact i4
  | succ m ih =>
    obtain ⟨hdpc, hBok, pb, hpb, htot, hpair⟩ := ih (by omega)
    obtain ⟨i, hi⟩ : ∃ i, L - (m + 1) = i := ⟨_, rfl⟩
    have hi1 : L - m = i + 1 := by omega
    have hi2 : L - 1 - m = i := by omega
    have hiL : i ≤ L := by omega
    obtain ⟨hFnn, hFok⟩ := fwd_state_flat lm dfF dsq Q L om ox hQ hom i
    rw [hi1] at hdpc hpair
    obtain ⟨s1, s2, s3, s4, s5⟩ := pairing_row_step lm hlog1 dfF dfB dsq Q om hQ hom i
      (fwd_state lm dfF dsq Q om (fwd_init L Q om ox) i) _
      (fwd_state lm dfF dsq Q om (fwd_init L Q om ox) L).ox hFnn hFok hBok hdpc (hf i hiL)
    have hBdef : bck_state lm dfB dsq Q om
        (fwd_state lm dfF dsq Q om (fwd_init L Q om ox) L).ox L
        (bck_init lm dfB L Q om (fwd_state lm dfF dsq Q om (fwd_init L Q om ox) L).ox bck)
        (m + 1)
        = bck_row lm dfB dsq Q om (fwd_state lm dfF dsq Q om (fwd_init L Q om ox) L).ox i
          (bck_state lm dfB dsq Q om
            (fwd_state lm dfF dsq Q om (fwd_init L Q om ox) L).ox L
            (bck_init lm dfB L Q om (fwd_state lm dfF dsq Q om (fwd_init L Q om ox) L).ox bck)
            m) := by
      show bck_row lm dfB dsq Q om _ (L - 1 - m) _ = _
      rw [hi2]
    have hFdef : fwd_state lm dfF dsq Q om (fwd_init L Q om ox) (i + 1)
        = fwd_row lm dfF dsq Q om (i + 1)
          (fwd_state lm dfF dsq Q om (fwd_init L Q om ox) i) := rfl
    rw [hBdef, hi]
    rw [← hFdef] at s5
    refine ⟨s2, s3, _, mul_pos s1 hpb, ?_, ?_⟩
    · rw [s4, htot, mul_comm, hlogmul _ _ hpb s1]
    · rw [Finset.prod_eq_prod_Ico_succ_bot (by omega : i + 1 < L + 1)]
      have e1 : pairing (4 * Q) (fwd_flat Q (fwd_state lm dfF dsq Q om (fwd_init L Q om ox) i))
          (bck_flat Q (bck_row lm dfB dsq Q om
            (fwd_state lm dfF dsq Q om (fwd_init L Q om ox) L).ox i
            (bck_state lm dfB dsq Q om
              (fwd_state lm dfF dsq Q om (fwd_init L Q om ox) L).ox L
              (bck_init lm dfB L Q om
                (fwd_state lm dfF dsq Q om (fwd_init L Q om ox) L).ox bck) m)))
          * ((bck_row lm dfB dsq Q om
            (fwd_state lm dfF dsq Q om (fwd_init L Q om ox) L).ox i
            (bck_state lm dfB dsq Q om
              (fwd_state lm dfF dsq Q om (fwd_init L Q om ox) L).ox L
              (bck_init lm dfB L Q om
                (fwd_state lm dfF dsq Q om (fwd_init L Q om ox) L).ox bck) m)).bck.xmx i
              p7X_SCALE * pb)
          = (pairing (4 * Q)
              (fwd_flat Q (fwd_state lm dfF dsq Q om (fwd_init L Q om ox) (i + 1)))
              (bck_flat Q (bck_state lm dfB dsq Q om
                (fwd_state lm dfF dsq Q om (fwd_init L Q om ox) L).ox L
                (bck_init lm dfB L Q om
                  (fwd_state lm dfF dsq Q om (fwd_init L Q om ox) L).ox bck) m)) * pb)
            * (fwd_state lm dfF dsq Q om (fwd_init L Q om ox) (i + 1)).ox.xmx (i + 1)
                p7X_SCALE := by
        rw [← mul_assoc, s5]; ring
      rw [e1, hpair]
      ring

end PairingTrace

section ScoreAgreement

/-- In exact arithmetic the value `N_0` computed by the termination of
`backward_engine`, times the product `pb` of its scale factors, is the final C
value of `forward_engine` times `xf[C][MOVE]` times the product of the scale
factors of the Forward matrix. -/
theorem backward_total (lm : LibM ℝ) (hlog : lm.log = Real.log)
    (dfF dfB : Bool) (dsq : Nat → Nat) (Q L : Nat) (om : P7_OPROFILE ℝ)
    (ox bck : P7_OMX ℝ) (hQ : 0 < Q) (hom : OmNonneg om) (hL : 1 ≤ L) :
    ∃ pb : ℝ, 0 < pb ∧
      (bck_term dfB dsq Q om
        (bck_state lm dfB dsq Q om (fwd_state lm dfF dsq Q om (fwd_init L Q om ox) L).ox L
          (bck_init lm dfB L Q om (fwd_state lm dfF dsq Q om (fwd_init L Q om ox) L).ox bck)
          (L - 1))).bck.totscale = Real.log pb ∧
      (bck_term dfB dsq Q om
        (bck_state lm dfB dsq Q om (fwd_state lm dfF dsq Q om (fwd_init L Q om ox) L).ox L
          (bck_init lm dfB L Q om (fwd_state lm dfF dsq Q om (fwd_init L Q om ox) L).ox bck)
          (L - 1))).xN * pb
        = (fwd_state lm dfF dsq Q om (fwd_init L Q om ox) L).xC * om.xf p7O_C p7O_MOVE
          * ∏ j in Finset.Icc 1 L,
              (fwd_state lm dfF dsq Q om (fwd_init L Q om ox) j).ox.xmx j p7X_SCALE := by
  have hlog1 : lm.log 1 = 0 := by rw [hlog]; exact Real.log_one
  have hlogmul : ∀ a b : ℝ, 0 < a → 0 < b → lm.log (a * b) = lm.log a + lm.log b := by
    intro a b ha hb
    rw [hlog]
    exact Real.log_mul (ne_of_gt ha) (ne_of_gt hb)
  obtain ⟨hdpc, hBok, pb, hpb, htot, hpair⟩ := pairing_trace lm hlog1 hlogmul dfF dfB dsq Q L om
    ox bck hQ hom (L - 1) le_rfl hL
  have h1 : L - (L - 1) = 1 := by omega
  rw [h1] at hdpc hpair
  obtain ⟨tN, ttot⟩ := bck_term_flat dfB dsq Q om _ hdpc
  obtain ⟨hnn0, _⟩ := fwd_state_flat lm dfF dsq Q L om ox hQ hom 0
  obtain ⟨fstep, _, _, _⟩ := fwd_compute_flat dfF dsq Q om 1
    (fwd_state lm dfF dsq Q om (fwd_init L Q om ox) 0) hQ hom hnn0
  obtain ⟨fpos, fsc, _⟩ := fwd_rescale_flat lm Q 1
    (fwd_row_compute dfF dsq Q om 1 (fwd_state lm dfF dsq Q om (fwd_init L Q om ox) 0)) hQ
  have hF1 : fwd_state lm dfF dsq Q om (fwd_init L Q om ox) 1
      = fwd_row_rescale lm Q 1
        (fwd_row_compute dfF dsq Q om 1 (fwd_state lm dfF dsq Q om (fwd_init L Q om ox) 0)) :=
    rfl
  rw [← hF1] at fpos fsc
  have hcell : ∀ q, q < Q →
      ((fwd_init L Q om ox).ox.dpf (fwd_init L Q om ox).dpc).mmo q = mm_setzero_ps ∧
      ((fwd_init L Q om ox).ox.dpf (fwd_init L Q om ox).dpc).dmo q = mm_setzero_ps ∧
      ((fwd_init L Q om ox).ox.dpf (fwd_init L Q om ox).dpc).imo q = mm_setzero_ps :=
    fun q hq => fwd_init_cells L Q om ox q hq
  have hF0 : fwd_state lm dfF dsq Q om (fwd_init L Q om ox) 0 = fwd_init L Q om ox := rfl
  have hfirst := pairing_first (4 * Q) (om_chain Q om) om.xf (flat Q (om.rfv (dsq 1)))
    (fwd_flat Q (fwd_state lm dfF dsq Q om (fwd_init L Q om ox) 0)) _ _ fstep hBok
    (by
      intro n hn
      rw [hF0]
      simp only [fwd_flat, flat]
      rw [(hcell (n % Q) (Nat.mod_lt n hQ)).1]; rfl)
    (by
      intro n hn
      rw [hF0]
      simp only [fwd_flat, flat]
      rw [(hcell (n % Q) (Nat.mod_lt n hQ)).2.2]; rfl)
    (by
      intro n hn
      rw [hF0]
      simp only [fwd_flat, flat]
      rw [(hcell (n % Q) (Nat.mod_lt n hQ)).2.1]; rfl)
    rfl rfl rfl rfl
  rw [← tN] at hfirst
  have hsc := pairing_scaled_left (4 * Q) _ _ _
    (bck_flat Q (bck_state lm dfB dsq Q om
      (fwd_state lm dfF dsq Q om (fwd_init L Q om ox) L).ox L
      (bck_init lm dfB L Q om (fwd_state lm dfF dsq Q om (fwd_init L Q om ox) L).ox bck)
      (L - 1))) fsc
  rw [hfirst] at hsc
  refine ⟨pb, hpb, by rw [ttot, htot, hlog], ?_⟩
  have hIcc : Finset.Icc 1 L = Finset.Ico 1 (L + 1) := by
    ext j
    simp only [Finset.mem_Icc, Finset.mem_Ico]
    omega
  rw [hIcc, Finset.prod_eq_prod_Ico_succ_bot (by omega : 1 < L + 1)]
  have hf0 := ne_of_gt fpos
  rw [hsc] at hpair
  field_simp at hpair
  linear_combination hpair

end ScoreAgreement

/-! ## Agreement of the Forward and Backward scores -/

section ScoreClaims

/-- In exact arithmetic, with a library that classifies nothing as NaN or
infinite, a run of `backward_engine` without cancellation returns `eslOK` as
soon as the final N value is not zero. -/
theorem backward_engine_ok_of_ne_zero (p7O_NQF : Nat → Nat) (lm : LibM ℝ)
    (cancelFlag : Nat → Bool) (do_full : Bool) (dsq : Nat → Nat) (L : Nat)
    (om : P7_OPROFILE ℝ) (fwd bck : P7_OMX ℝ) (opt_sc : Bool)
    (hnc : ∀ i, 1 ≤ i → i ≤ L - 1 → cancelFlag i = false)
    (hnan : ∀ x, lm.isnan x = false) (hinf : ∀ x, lm.isinf x ≠ 1)
    (hN : (bck_term do_full dsq (p7O_NQF om.M) om
        (bck_state lm do_full dsq (p7O_NQF om.M) om fwd L
          (bck_init lm do_full L (p7O_NQF om.M) om fwd bck) (L - 1))).xN ≠ 0) :
    (backward_engine p7O_NQF lm cancelFlag do_full dsq L om fwd bck opt_sc).1 = eslOK := by
  have h := bck_rows_of_no_cancel lm cancelFlag do_full dsq (p7O_NQF om.M) om fwd L
    (bck_init lm do_full L (p7O_NQF om.M) om fwd bck) (L - 1) le_rfl hnc
  rw [Nat.sub_self] at h
  simp only [bck_state] at h
  simp only [backward_engine, h]
  simp [hnan, hinf, hN]

theorem demo_om_nonneg (mode : p7_mode) : OmNonneg (demo_om (1 : ℝ) mode) := by
  refine ⟨fun _ _ _ => zero_le_one, ?_, fun _ _ => zero_le_one⟩
  intro j z
  show (0 : ℝ) ≤ if j = 0 then 1 else 0
  split_ifs
  · exact zero_le_one
  · exact le_rfl

/-- The toy model on a sequence of length 1, over the reals: `backward_engine`
run with the matrix filled by `forward_engine` returns `eslOK`. -/
theorem demo_backward_ok :
    (backward_engine demo_NQF (demo_lm Real.log) (fun _ => false) true (fun _ => 0) 1
      (demo_om (1 : ℝ) p7_LOCAL)
      (forward_engine demo_NQF (demo_lm Real.log) (fun _ => false) true (fun _ => 0) 1
        (demo_om (1 : ℝ) p7_LOCAL) demo_ox true).2.1 demo_ox true).1 = eslOK := by
  have hokF := demo_forward_ok Real.log true (fun _ => 0) p7_LOCAL (demo_ox : P7_OMX ℝ) true
  obtain ⟨fox, _, _⟩ := forward_engine_ok demo_NQF (demo_lm Real.log) (fun _ => false) true
    (fun _ => 0) 1 (demo_om (1 : ℝ) p7_LOCAL) demo_ox true hokF
  rw [fox]
  apply backward_engine_ok_of_ne_zero demo_NQF (demo_lm Real.log) (fun _ => false) true
    (fun _ => 0) 1 (demo_om (1 : ℝ) p7_LOCAL) _ demo_ox true (fun _ _ _ => rfl) (fun _ => rfl)
  · intro x
    show (0 : Int) ≠ 1
    decide
  · obtain ⟨pb, hpb, _, hprod⟩ := backward_total (demo_lm Real.log) rfl true true (fun _ => 0)
      1 1 (demo_om (1 : ℝ) p7_LOCAL) demo_ox demo_ox Nat.one_pos (demo_om_nonneg p7_LOCAL) le_rfl
    have hC := (demo_state1 (demo_lm Real.log) true (fun _ => 0) p7_LOCAL
      (demo_ox : P7_OMX ℝ)).1
    have hsc := fwd_state_scale_cases (demo_lm Real.log) true (fun _ => 0) 1 1
      (demo_om (1 : ℝ) p7_LOCAL) (demo_ox : P7_OMX ℝ) 1
    have hscpos : (0 : ℝ) < (fwd_state (demo_lm Real.log) true (fun _ => 0) 1
        (demo_om (1 : ℝ) p7_LOCAL) (fwd_init 1 1 (demo_om (1 : ℝ) p7_LOCAL) demo_ox)
        1).ox.xmx 1 p7X_SCALE := by
      rcases hsc with h | h
      · rw [h]; exact one_pos
      · linarith
    rw [hC, Finset.Icc_self, Finset.prod_singleton] at hprod
    intro hzero
    have hz : (bck_term true (fun _ => 0) 1 (demo_om (1 : ℝ) p7_LOCAL)
        (bck_state (demo_lm Real.log) true (fun _ => 0) 1 (demo_om (1 : ℝ) p7_LOCAL)
          (fwd_state (demo_lm Real.log) true (fun _ => 0) 1 (demo_om (1 : ℝ) p7_LOCAL)
            (fwd_init 1 1 (demo_om (1 : ℝ) p7_LOCAL) demo_ox) 1).ox 1
          (bck_init (demo_lm Real.log) true 1 1 (demo_om (1 : ℝ) p7_LOCAL)
            (fwd_state (demo_lm Real.log) true (fun _ => 0) 1 (demo_om (1 : ℝ) p7_LOCAL)
              (fwd_init 1 1 (demo_om (1 : ℝ) p7_LOCAL) demo_ox) 1).ox demo_ox)
          (1 - 1))).xN = 0 := hzero
    rw [hz, zero_mul] at hprod
    have hne : (4 : ℝ) * (demo_om (1 : ℝ) p7_LOCAL).xf p7O_C p7O_MOVE
        * (fwd_state (demo_lm Real.log) true (fun _ => 0) 1
          (demo_om (1 : ℝ) p7_LOCAL) (fwd_init 1 1 (demo_om (1 : ℝ) p7_LOCAL) demo_ox)
          1).ox.xmx 1 p7X_SCALE ≠ 0 := by
      have h1 : (demo_om (1 : ℝ) p7_LOCAL).xf p7O_C p7O_MOVE = 1 := rfl
      rw [h1]
      exact ne_of_gt (by positivity)
    exact hne hprod.symm

/-- Claim C2.  In exact (real-number) arithmetic, for every optimized model
with non-negative odds ratios (as `fb_conversion` builds them), with at least
one vector per row, and every sequence of length `L >= 1` for which both calls
return `eslOK`, the score returned by `backward_engine`, run with the matrix
filled by `forward_engine` for the same model and sequence, equals the score
returned by `forward_engine`: `bck->totscale + ln N_0` equals
`fwd->totscale + ln(C_L * xf[C][MOVE])`.  The two calls may differ in their
`do_full` flag and in what their cancellation checkpoints read. -/
theorem C2_forward_backward_scores_agree (p7O_NQF : Nat → Nat) (lm : LibM ℝ)
    (cancelF cancelB : Nat → Bool) (dfF dfB : Bool) (dsq : Nat → Nat) (L : Nat)
    (om : P7_OPROFILE ℝ) (ox bck : P7_OMX ℝ) (opt_sc : Bool)
    (hlog : lm.log = Real.log) (hQ : 0 < p7O_NQF om.M) (hL : 1 ≤ L) (hom : OmNonneg om)
    (hokF : (forward_engine p7O_NQF lm cancelF dfF dsq L om ox opt_sc).1 = eslOK)
    (hokB : (backward_engine p7O_NQF lm cancelB dfB dsq L om
        (forward_engine p7O_NQF lm cancelF dfF dsq L om ox opt_sc).2.1 bck opt_sc).1 = eslOK) :
    (backward_engine p7O_NQF lm cancelB dfB dsq L om
        (forward_engine p7O_NQF lm cancelF dfF dsq L om ox opt_sc).2.1 bck opt_sc).2.2
      = (forward_engine p7O_NQF lm cancelF dfF dsq L om ox opt_sc).2.2 ∧
    (backward_engine p7O_NQF lm cancelB dfB dsq L om
        (forward_engine p7O_NQF lm cancelF dfF dsq L om ox opt_sc).2.1 bck opt_sc).2.1.totscale
      + Real.log ((backward_engine p7O_NQF lm cancelB dfB dsq L om
        (forward_engine p7O_NQF lm cancelF dfF dsq L om ox opt_sc).2.1 bck opt_sc).2.1.xmx
          0 p7X_N)
      = (forward_engine p7O_NQF lm cancelF dfF dsq L om ox opt_sc).2.1.totscale
        + Real.log ((forward_engine p7O_NQF lm cancelF dfF dsq L om ox opt_sc).2.1.xmx L p7X_C
            * om.xf p7O_C p7O_MOVE) := by
  obtain ⟨fox, fsc, _⟩ := forward_engine_ok p7O_NQF lm cancelF dfF dsq L om ox opt_sc hokF
  rw [fox] at hokB ⊢
  obtain ⟨box, bsc, bnz⟩ := backward_engine_ok p7O_NQF lm cancelB dfB dsq L om _ bck opt_sc hokB
  obtain ⟨pb, hpb, htot, hprod⟩ := backward_total lm hlog dfF dfB dsq (p7O_NQF om.M) L om ox bck
    hQ hom hL
  have hlog1 : lm.log 1 = 0 := by rw [hlog]; exact Real.log_one
  have hscpos : ∀ j ∈ Finset.Icc 1 L,
      (fwd_state lm dfF dsq (p7O_NQF om.M) om (fwd_init L (p7O_NQF om.M) om ox) j).ox.xmx j
        p7X_SCALE ≠ 0 := by
    intro j _
    rcases fwd_state_scale_cases lm dfF dsq (p7O_NQF om.M) L om ox j with h | h
    · rw [h]; exact one_ne_zero
    · exact ne_of_gt (by linarith)
  have hprodne : (∏ j in Finset.Icc 1 L,
      (fwd_state lm dfF dsq (p7O_NQF om.M) om (fwd_init L (p7O_NQF om.M) om ox) j).ox.xmx j
        p7X_SCALE) ≠ 0 := Finset.prod_ne_zero_iff.mpr hscpos
  have hftot : (fwd_state lm dfF dsq (p7O_NQF om.M) om
      (fwd_init L (p7O_NQF om.M) om ox) L).ox.totscale
      = Real.log (∏ j in Finset.Icc 1 L,
          (fwd_state lm dfF dsq (p7O_NQF om.M) om (fwd_init L (p7O_NQF om.M) om ox) j).ox.xmx j
            p7X_SCALE) := by
    rw [fwd_state_totscale lm hlog1, hlog, Real.log_prod _ _ hscpos]
  have hN : (bck_term dfB dsq (p7O_NQF om.M) om
      (bck_state lm dfB dsq (p7O_NQF om.M) om
        (fwd_state lm dfF dsq (p7O_NQF om.M) om (fwd_init L (p7O_NQF om.M) om ox) L).ox L
        (bck_init lm dfB L (p7O_NQF om.M) om
          (fwd_state lm dfF dsq (p7O_NQF om.M) om (fwd_init L (p7O_NQF om.M) om ox) L).ox bck)
        (L - 1))).xN ≠ 0 := fun h => bnz ⟨hL, h⟩
  have hCne : (fwd_state lm dfF dsq (p7O_NQF om.M) om
      (fwd_init L (p7O_NQF om.M) om ox) L).xC * om.xf p7O_C p7O_MOVE ≠ 0 := by
    intro h
    rw [h, zero_mul] at hprod
    exact mul_ne_zero hN (ne_of_gt hpb) hprod
  have hscore : (bck_term dfB dsq (p7O_NQF om.M) om
      (bck_state lm dfB dsq (p7O_NQF om.M) om
        (fwd_state lm dfF dsq (p7O_NQF om.M) om (fwd_init L (p7O_NQF om.M) om ox) L).ox L
        (bck_init lm dfB L (p7O_NQF om.M) om
          (fwd_state lm dfF dsq (p7O_NQF om.M) om (fwd_init L (p7O_NQF om.M) om ox) L).ox bck)
        (L - 1))).bck.totscale
      + Real.log (bck_term dfB dsq (p7O_NQF om.M) om
      (bck_state lm dfB dsq (p7O_NQF om.M) om
        (fwd_state lm dfF dsq (p7O_NQF om.M) om (fwd_init L (p7O_NQF om.M) om ox) L).ox L
        (bck_init lm dfB L (p7O_NQF om.M) om
          (fwd_state lm dfF dsq (p7O_NQF om.M) om (fwd_init L (p7O_NQF om.M) om ox) L).ox bck)
        (L - 1))).xN
      = (fwd_state lm dfF dsq (p7O_NQF om.M) om
          (fwd_init L (p7O_NQF om.M) om ox) L).ox.totscale
        + Real.log ((fwd_state lm dfF dsq (p7O_NQF om.M) om
          (fwd_init L (p7O_NQF om.M) om ox) L).xC * om.xf p7O_C p7O_MOVE) := by
    rw [htot, hftot, ← Real.log_mul (ne_of_gt hpb) hN, ← Real.log_mul hprodne hCne,
      mul_comm pb, hprod, mul_comm]
  constructor
  · rw [bsc, fsc, hlog]
    split_ifs
    · rw [hscore]
    · rfl
  · rw [box, fwd_state_xC_stored lm dfF dsq (p7O_NQF om.M) L om ox L]
    have hx0 : (bck_term dfB dsq (p7O_NQF om.M) om
        (bck_state lm dfB dsq (p7O_NQF om.M) om
          (fwd_state lm dfF dsq (p7O_NQF om.M) om (fwd_init L (p7O_NQF om.M) om ox) L).ox L
          (bck_init lm dfB L (p7O_NQF om.M) om
            (fwd_state lm dfF dsq (p7O_NQF om.M) om (fwd_init L (p7O_NQF om.M) om ox) L).ox bck)
          (L - 1))).bck.xmx 0 p7X_N
        = (bck_term dfB dsq (p7O_NQF om.M) om
        (bck_state lm dfB dsq (p7O_NQF om.M) om
          (fwd_state lm dfF dsq (p7O_NQF om.M) om (fwd_init L (p7O_NQF om.M) om ox) L).ox L
          (bck_init lm dfB L (p7O_NQF om.M) om
            (fwd_state lm dfF dsq (p7O_NQF om.M) om (fwd_init L (p7O_NQF om.M) om ox) L).ox bck)
          (L - 1))).xN := by
      simp [bck_term, setX_apply]
    rw [hx0]
    exact hscore

/-- Claim C2, checked on the toy model with a sequence of length 1: both
engines return `eslOK` and return the same score. -/
theorem C2_forward_backward_scores_agree_witness :
    (0 < demo_NQF (demo_om (1 : ℝ) p7_LOCAL).M ∧ 1 ≤ 1 ∧ OmNonneg (demo_om (1 : ℝ) p7_LOCAL) ∧
      (forward_engine demo_NQF (demo_lm Real.log) (fun _ => false) true (fun _ => 0) 1
        (demo_om (1 : ℝ) p7_LOCAL) demo_ox true).1 = eslOK ∧
      (backward_engine demo_NQF (demo_lm Real.log) (fun _ => false) true (fun _ => 0) 1
        (demo_om (1 : ℝ) p7_LOCAL)
        (forward_engine demo_NQF (demo_lm Real.log) (fun _ => false) true (fun _ => 0) 1
          (demo_om (1 : ℝ) p7_LOCAL) demo_ox true).2.1 demo_ox true).1 = eslOK) ∧
    (backward_engine demo_NQF (demo_lm Real.log) (fun _ => false) true (fun _ => 0) 1
        (demo_om (1 : ℝ) p7_LOCAL)
        (forward_engine demo_NQF (demo_lm Real.log) (fun _ => false) true (fun _ => 0) 1
          (demo_om (1 : ℝ) p7_LOCAL) demo_ox true).2.1 demo_ox true).2.2
      = (forward_engine demo_NQF (demo_lm Real.log) (fun _ => false) true (fun _ => 0) 1
          (demo_om (1 : ℝ) p7_LOCAL) demo_ox true).2.2 :=
  ⟨⟨Nat.one_pos, le_rfl, demo_om_nonneg p7_LOCAL,
      demo_forward_ok Real.log true (fun _ => 0) p7_LOCAL demo_ox true, demo_backward_ok⟩,
   (C2_forward_backward_scores_agree demo_NQF (demo_lm Real.log) (fun _ => false)
      (fun _ => false) true true (fun _ => 0) 1 (demo_om (1 : ℝ) p7_LOCAL) demo_ox demo_ox true
      rfl Nat.one_pos le_rfl (demo_om_nonneg p7_LOCAL)
      (demo_forward_ok Real.log true (fun _ => 0) p7_LOCAL demo_ox true) demo_backward_ok).1⟩

end ScoreClaims

/-! ## The parsing mode of forward_engine computes what the full mode does -/

section ParserCongr

variable {α : Type} [Zero α] [One α] [Add α] [Mul α] [Div α] [NatCast α]
  [LT α] [DecidableRel (fun (x y : α) => x < y)] [DecidableEq α]

theorem fwd_prev_congr (Q : Nat) (v w : Nat → M128 α) (hQ : 0 < Q)
    (h : ∀ q, q < Q → v q = w q) (q : Nat) (hq : q ≤ Q) :
    fwd_prev Q v q = fwd_prev Q w q := by
  unfold fwd_prev
  split_ifs with h0
  · rw [h (Q - 1) (by omega)]
  · exact h (q - 1) (by omega)

theorem fwd_pure_M_congr (om : P7_OPROFILE α) (x Q : Nat) (xB : α) (P P1 : DPRow α)
    (hQ : 0 < Q) (h : RowAgree Q P P1) (q : Nat) (hq : q ≤ Q) :
    fwd_pure_M om x Q xB P q = fwd_pure_M om x Q xB P1 q := by
  unfold fwd_pure_M
  rw [fwd_prev_congr Q P.mmo P1.mmo hQ (fun q hq => (h q hq).1) q hq,
    fwd_prev_congr Q P.imo P1.imo hQ (fun q hq => (h q hq).2.2) q hq,
    fwd_prev_congr Q P.dmo P1.dmo hQ (fun q hq => (h q hq).2.1) q hq]

theorem fwd_pure_I_congr (om : P7_OPROFILE α) (Q : Nat) (P P1 : DPRow α)
    (h : RowAgree Q P P1) (q : Nat) (hq : q < Q) :
    fwd_pure_I om P q = fwd_pure_I om P1 q := by
  unfold fwd_pure_I
  rw [(h q hq).1, (h q hq).2.2]

theorem fwd_pure_Y_congr (om : P7_OPROFILE α) (x Q : Nat) (xB : α) (P P1 : DPRow α)
    (hQ : 0 < Q) (h : RowAgree Q P P1) (q : Nat) (hq : q ≤ Q) :
    fwd_pure_Y om x Q xB P q = fwd_pure_Y om x Q xB P1 q := by
  unfold fwd_pure_Y
  split_ifs with h0
  · rfl
  · rw [fwd_pure_M_congr om x Q xB P P1 hQ h (q - 1) (by omega)]

theorem fwd_pure_xEv_congr (om : P7_OPROFILE α) (x Q : Nat) (xB : α) (P P1 : DPRow α)
    (hQ : 0 < Q) (h : RowAgree Q P P1) (n : Nat) (hn : n ≤ Q) :
    fwd_pure_xEv om x Q xB P n = fwd_pure_xEv om x Q xB P1 n := by
  induction n with
  | zero => rfl
  | succ k ih =>
    simp only [fwd_pure_xEv]
    rw [ih (by omega), fwd_pure_M_congr om x Q xB P P1 hQ h k (by omega)]

theorem fwd_pure_first_agree (om : P7_OPROFILE α) (x Q : Nat) (xB : α) (P P1 : DPRow α)
    (hQ : 0 < Q) (h : RowAgree Q P P1) :
    PairAgree Q (fwd_pure_first om x Q xB P) (fwd_pure_first om x Q xB P1) := by
  have hY : ∀ q, q ≤ Q → fwd_pure_Y om x Q xB P q = fwd_pure_Y om x Q xB P1 q :=
    fun q hq => fwd_pure_Y_congr om x Q xB P P1 hQ h q hq
  have hc : ∀ n, n ≤ Q →
      fwd_dd_c om Q (fwd_pure_Y om x Q xB P)
          (esl_sse_rightshift_ps (fwd_pure_Y om x Q xB P Q) mm_setzero_ps) n
        = fwd_dd_c om Q (fwd_pure_Y om x Q xB P1)
          (esl_sse_rightshift_ps (fwd_pure_Y om x Q xB P1 Q) mm_setzero_ps) n := by
    intro n hn
    rw [hY Q le_rfl]
    exact fwd_dd_c_congr om Q _ _ _ n (fun q hq => hY q (by omega))
  constructor
  · exact hc Q le_rfl
  · intro q hq
    show mm_add_ps _ _ = mm_add_ps _ _
    rw [hc q (by omega), hY q (by omega)]

theorem fwd_dd_e_eq (om : P7_OPROFILE α) (Q : Nat) (e0 e1 : M128 α) (h : e0 = e1) (n : Nat) :
    fwd_dd_e om Q e0 n = fwd_dd_e om Q e1 n := by
  rw [h]

theorem fwd_pure_pass_agree (om : P7_OPROFILE α) (Q : Nat) (A B : (Nat → M128 α) × M128 α)
    (h : PairAgree Q A B) : PairAgree Q (fwd_pure_pass om Q A) (fwd_pure_pass om Q B) := by
  obtain ⟨h2, h1⟩ := h
  constructor
  · show fwd_dd_e om Q _ Q = fwd_dd_e om Q _ Q
    rw [h2]
  · intro q hq
    show mm_add_ps (fwd_dd_e om Q _ q) (A.1 q) = mm_add_ps (fwd_dd_e om Q _ q) (B.1 q)
    rw [h2, h1 q hq]

theorem fwd_pure_serial_agree (om : P7_OPROFILE α) (Q : Nat) (n : Nat)
    (A B : (Nat → M128 α) × M128 α) (h : PairAgree Q A B) :
    PairAgree Q (fwd_pure_serial om Q n A) (fwd_pure_serial om Q n B) := by
  induction n generalizing A B with
  | zero => exact h
  | succ k ih =>
    simp only [fwd_pure_serial]
    exact ih _ _ (fwd_pure_pass_agree om Q A B h)

theorem fwd_pure_par_agree (om : P7_OPROFILE α) (Q : Nat) (n : Nat)
    (A B : (Nat → M128 α) × M128 α) (h : PairAgree Q A B) :
    PairAgree Q (fwd_pure_par om Q n A) (fwd_pure_par om Q n B) := by
  induction n generalizing A B with
  | zero => exact h
  | succ k ih =>
    have hcv : fwd_dd_cv om Q A.1 (esl_sse_rightshift_ps A.2 mm_setzero_ps) Q
        = fwd_dd_cv om Q B.1 (esl_sse_rightshift_ps B.2 mm_setzero_ps) Q := by
      rw [h.1]
      exact fwd_dd_cv_congr om Q _ _ _ Q h.2
    simp only [fwd_pure_par, hcv]
    split_ifs
    · exact fwd_pure_pass_agree om Q A B h
    · exact ih _ _ (fwd_pure_pass_agree om Q A B h)

theorem fwd_pure_D_congr (om : P7_OPROFILE α) (x Q : Nat) (xB : α) (P P1 : DPRow α)
    (hQ : 0 < Q) (h : RowAgree Q P P1) (q : Nat) (hq : q < Q) :
    fwd_pure_D om x Q xB P q = fwd_pure_D om x Q xB P1 q := by
  have hf := fwd_pure_first_agree om x Q xB P P1 hQ h
  unfold fwd_pure_D
  split_ifs
  · exact (fwd_pure_serial_agree om Q 3 _ _ hf).2 q hq
  · exact (fwd_pure_par_agree om Q 3 _ _ hf).2 q hq

theorem fwd_pure_xE_congr (om : P7_OPROFILE α) (x Q : Nat) (xB : α) (P P1 : DPRow α)
    (hQ : 0 < Q) (h : RowAgree Q P P1) :
    fwd_pure_xE om x Q xB P = fwd_pure_xE om x Q xB P1 := by
  unfold fwd_pure_xE
  rw [fwd_pure_xEv_congr om x Q xB P P1 hQ h Q le_rfl]
  exact congrArg hsum (fwd_pure_xEvD_congr _ _ _ Q
    (fun q hq => fwd_pure_D_congr om x Q xB P P1 hQ h q hq))

/-- With no blocks at all the End value of a row is the horizontal sum of the
zero vector, whatever the mode and the variables. -/
theorem fwd_row_vectors_xE_zero (do_full : Bool) (dsq : Nat → Nat) (om : P7_OPROFILE α)
    (i : Nat) (s : FwdVars α) :
    (fwd_row_vectors do_full dsq 0 om i s).xE = hsum mm_setzero_ps := by
  unfold fwd_row_vectors fwd_dd_rest
  split_ifs
  · rfl
  · simp only [fwd_dd_par, forUp_zero]
    have : mm_movemask_ps (fun (_ : Fin 4) => false) = 0 := rfl
    simp only [this, if_true]
    rfl

/-- Row `i` before the special states, run in two modes from variables that
agree in the Begin value and in the blocks of the previous row: the End value
and the blocks of the new row agree. -/
theorem fwd_row_vectors_agree (d1 d2 : Bool) (dsq : Nat → Nat) (Q : Nat)
    (om : P7_OPROFILE α) (i : Nat) (s t : FwdVars α) (hxB : s.xB = t.xB)
    (hrow : RowAgree Q (s.ox.dpf s.dpc) (t.ox.dpf t.dpc)) :
    (fwd_row_vectors d1 dsq Q om i s).xE = (fwd_row_vectors d2 dsq Q om i t).xE ∧
    RowAgree Q ((fwd_row_vectors d1 dsq Q om i s).ox.dpf (d1.toNat * i))
      ((fwd_row_vectors d2 dsq Q om i t).ox.dpf (d2.toNat * i)) := by
  rcases Nat.eq_zero_or_pos Q with hQ | hQ
  · subst hQ
    refine ⟨?_, fun q hq => absurd hq (Nat.not_lt_zero q)⟩
    rw [fwd_row_vectors_xE_zero, fwd_row_vectors_xE_zero]
  · obtain ⟨a1, _, a3⟩ := fwd_row_vectors_spec d1 dsq Q om i s hQ
    obtain ⟨b1, _, b3⟩ := fwd_row_vectors_spec d2 dsq Q om i t hQ
    constructor
    · rw [a3, b3, hxB]
      exact fwd_pure_xE_congr om (dsq i) Q t.xB _ _ hQ hrow
    · intro q hq
      obtain ⟨m1, m2, m3⟩ := a1 q hq
      obtain ⟨n1, n2, n3⟩ := b1 q hq
      unfold MMO at m1 n1
      unfold DMO at m2 n2
      unfold IMO at m3 n3
      rw [m1, m2, m3, n1, n2, n3, hxB]
      exact ⟨fwd_pure_M_congr om (dsq i) Q t.xB _ _ hQ hrow q (by omega),
        fwd_pure_D_congr om (dsq i) Q t.xB _ _ hQ hrow q hq,
        fwd_pure_I_congr om Q _ _ hrow q hq⟩

end ParserCongr
section ParserRows

variable {α : Type} [Zero α] [One α] [Add α] [Mul α] [Div α] [NatCast α]
  [LT α] [DecidableRel (fun (x y : α) => x < y)] [DecidableEq α]

/-- The initialization clears the blocks `q < Q` of row 0, for every carrier
of the floats. -/
theorem fwd_init_cleared (L Q : Nat) (om : P7_OPROFILE α) (ox : P7_OMX α) (q : Nat)
    (hq : q < Q) :
    MMO (fwd_init L Q om ox).ox.dpf 0 q = mm_setzero_ps ∧
    DMO (fwd_init L Q om ox).ox.dpf 0 q = mm_setzero_ps ∧
    IMO (fwd_init L Q om ox).ox.dpf 0 q = mm_setzero_ps := by
  have hloop : ∀ n, ∀ q, q < n →
      MMO (forUp n (fwd_init_body (α := α) 0)
        { ox with M := om.M, L := L, has_own_scales := true }).dpf 0 q = mm_setzero_ps ∧
      DMO (forUp n (fwd_init_body (α := α) 0)
        { ox with M := om.M, L := L, has_own_scales := true }).dpf 0 q = mm_setzero_ps ∧
      IMO (forUp n (fwd_init_body (α := α) 0)
        { ox with M := om.M, L := L, has_own_scales := true }).dpf 0 q = mm_setzero_ps := by
    intro n
    induction n with
    | zero => intro q hq; omega
    | succ k ih =>
      intro q hq
      rw [forUp_succ]
      simp only [fwd_init_body, MMO_setMMO, MMO_setDMO, MMO_setIMO, DMO_setMMO, DMO_setDMO,
        DMO_setIMO, IMO_setMMO, IMO_setDMO, IMO_setIMO, true_and]
      by_cases hqk : q = k
      · simp [hqk]
      · simp only [hqk, if_false]
        exact ih q (by omega)
  exact hloop Q q hq

/-- The initializations of two runs agree, whatever the matrices held. -/
theorem fwd_init_same (L Q : Nat) (om : P7_OPROFILE α) (ox1 ox2 : P7_OMX α) :
    FwdSame Q 0 (fwd_init L Q om ox1) (fwd_init L Q om ox2) := by
  refine ⟨rfl, rfl, rfl, rfl, rfl, rfl, ?_, ?_⟩
  · intro j hj
    have hj0 : j = 0 := Nat.le_zero.mp hj
    subst hj0
    funext c
    cases c <;> simp [fwd_init]
  · intro q hq
    obtain ⟨a1, a2, a3⟩ := fwd_init_cleared L Q om ox1 q hq
    obtain ⟨b1, b2, b3⟩ := fwd_init_cleared L Q om ox2 q hq
    unfold MMO at a1 b1
    unfold DMO at a2 b2
    unfold IMO at a3 b3
    have d1 : (fwd_init L Q om ox1).dpc = 0 := rfl
    have d2 : (fwd_init L Q om ox2).dpc = 0 := rfl
    rw [d1, d2, a1, a2, a3, b1, b2, b3]
    exact ⟨rfl, rfl, rfl⟩

/-- Row `i` before rescaling keeps two runs in agreement, whatever their
modes. -/
theorem fwd_row_compute_same (d1 d2 : Bool) (dsq : Nat → Nat) (Q : Nat)
    (om : P7_OPROFILE α) (i n : Nat) (s t : FwdVars α) (h : FwdSame Q n s t) :
    FwdSame Q n (fwd_row_compute d1 dsq Q om i s) (fwd_row_compute d2 dsq Q om i t) := by
  obtain ⟨hN, hC, hJ, hB, _, hT, hX, hR⟩ := h
  obtain ⟨a1, a2, _, a4, _, a6, a7, a8, a9, a10, a11⟩ :=
    fwd_row_compute_specials d1 dsq Q om i s
  obtain ⟨b1, b2, _, b4, _, b6, b7, b8, b9, b10, b11⟩ :=
    fwd_row_compute_specials d2 dsq Q om i t
  obtain ⟨hE, hrow⟩ := fwd_row_vectors_agree d1 d2 dsq Q om i s t hB hR
  have eE : (fwd_row_compute d1 dsq Q om i s).xE = (fwd_row_compute d2 dsq Q om i t).xE := by
    rw [a11, b11, hE]
  have eN : (fwd_row_compute d1 dsq Q om i s).xN = (fwd_row_compute d2 dsq Q om i t).xN := by
    rw [a6, b6, hN]
  have eJ : (fwd_row_compute d1 dsq Q om i s).xJ = (fwd_row_compute d2 dsq Q om i t).xJ := by
    rw [a8, b8, hJ, eE]
  refine ⟨eN, ?_, eJ, ?_, eE, ?_, ?_, ?_⟩
  · rw [a7, b7, hC, eE]
  · rw [a9, b9, eJ, eN]
  · rw [a2, b2, hT]
  · intro j hj
    rw [a1, b1]
    exact hX j hj
  · rw [a4, b4, a10, b10]
    exact hrow

/-- The sparse rescaling and storage of row `n+1` keeps two runs in
agreement, and makes row `n+1` of their traces agree. -/
theorem fwd_row_rescale_same (lm : LibM α) (Q n : Nat) (s t : FwdVars α)
    (h : FwdSame Q n s t) :
    FwdSame Q (n + 1) (fwd_row_rescale lm Q (n + 1) s) (fwd_row_rescale lm Q (n + 1) t) := by
  obtain ⟨hN, hC, hJ, hB, hE, hT, hX, hR⟩ := h
  obtain ⟨p1, p2, p3, p4, p5⟩ := fwd_row_rescale_stored lm Q (n + 1) s
  obtain ⟨q1, q2, q3, q4, q5⟩ := fwd_row_rescale_stored lm Q (n + 1) t
  by_cases hs : ((10000 : Nat) : α) < s.xE
  · have ht : ((10000 : Nat) : α) < t.xE := by rw [← hE]; exact hs
    obtain ⟨a1, a2, a3, a4, a5, a6, a7, a8, _, a10, aM, aD, aI⟩ :=
      fwd_row_rescale_event lm Q (n + 1) s hs
    obtain ⟨b1, b2, b3, b4, b5, b6, b7, b8, _, b10, bM, bD, bI⟩ :=
      fwd_row_rescale_event lm Q (n + 1) t ht
    have eN : (fwd_row_rescale lm Q (n + 1) s).xN = (fwd_row_rescale lm Q (n + 1) t).xN := by
      rw [a4, b4, hN, hE]
    have eC : (fwd_row_rescale lm Q (n + 1) s).xC = (fwd_row_rescale lm Q (n + 1) t).xC := by
      rw [a5, b5, hC, hE]
    have eJ : (fwd_row_rescale lm Q (n + 1) s).xJ = (fwd_row_rescale lm Q (n + 1) t).xJ := by
      rw [a6, b6, hJ, hE]
    have eB : (fwd_row_rescale lm Q (n + 1) s).xB = (fwd_row_rescale lm Q (n + 1) t).xB := by
      rw [a7, b7, hB, hE]
    have eE : (fwd_row_rescale lm Q (n + 1) s).xE = (fwd_row_rescale lm Q (n + 1) t).xE := by
      rw [a3, b3]
    refine ⟨eN, eC, eJ, eB, eE, ?_, ?_, ?_⟩
    · rw [a2, b2, hT, hE]
    · intro j hj
      by_cases hjn : j = n + 1
      · subst hjn
        funext c
        cases c
        · rw [p1, q1, eE]
        · rw [p2, q2, eN]
        · rw [p3, q3, eJ]
        · rw [p4, q4, eB]
        · rw [p5, q5, eC]
        · rw [a1, b1, hE]
      · rw [a10 j hjn, b10 j hjn]
        exact hX j (by omega)
    · intro q hq
      have mM := aM s.dpc q
      have mD := aD s.dpc q
      have mI := aI s.dpc q
      have nM := bM t.dpc q
      have nD := bD t.dpc q
      have nI := bI t.dpc q
      simp only [hq, and_self, if_true, MMO, DMO, IMO] at mM mD mI nM nD nI
      rw [a8, b8, mM, mD, mI, nM, nD, nI, (hR q hq).1, (hR q hq).2.1, (hR q hq).2.2, hE]
      exact ⟨rfl, rfl, rfl⟩
  · have ht : ¬ ((10000 : Nat) : α) < t.xE := by rw [← hE]; exact hs
    obtain ⟨a1, a2, a3, a4, a5, a6, a7, a8, _, a10, a11⟩ :=
      fwd_row_rescale_none lm Q (n + 1) s hs
    obtain ⟨b1, b2, b3, b4, b5, b6, b7, b8, _, b10, b11⟩ :=
      fwd_row_rescale_none lm Q (n + 1) t ht
    have eN : (fwd_row_rescale lm Q (n + 1) s).xN = (fwd_row_rescale lm Q (n + 1) t).xN := by
      rw [a4, b4, hN]
    have eC : (fwd_row_rescale lm Q (n + 1) s).xC = (fwd_row_rescale lm Q (n + 1) t).xC := by
      rw [a5, b5, hC]
    have eJ : (fwd_row_rescale lm Q (n + 1) s).xJ = (fwd_row_rescale lm Q (n + 1) t).xJ := by
      rw [a6, b6, hJ]
    have eB : (fwd_row_rescale lm Q (n + 1) s).xB = (fwd_row_rescale lm Q (n + 1) t).xB := by
      rw [a7, b7, hB]
    have eE : (fwd_row_rescale lm Q (n + 1) s).xE = (fwd_row_rescale lm Q (n + 1) t).xE := by
      rw [a3, b3, hE]
    refine ⟨eN, eC, eJ, eB, eE, ?_, ?_, ?_⟩
    · rw [a2, b2, hT]
    · intro j hj
      by_cases hjn : j = n + 1
      · subst hjn
        funext c
        cases c
        · rw [p1, q1, eE]
        · rw [p2, q2, eN]
        · rw [p3, q3, eJ]
        · rw [p4, q4, eB]
        · rw [p5, q5, eC]
        · rw [a1, b1]
      · rw [a10 j hjn, b10 j hjn]
        exact hX j (by omega)
    · rw [a8, b8, a11, b11]
      exact hR

/-- After any number of rows two runs of `forward_engine` on the same model
and sequence agree, whatever their modes and the matrices they started from. -/
theorem fwd_state_same (lm : LibM α) (d1 d2 : Bool) (dsq : Nat → Nat) (Q L : Nat)
    (om : P7_OPROFILE α) (ox1 ox2 : P7_OMX α) (n : Nat) :
    FwdSame Q n (fwd_state lm d1 dsq Q om (fwd_init L Q om ox1) n)
      (fwd_state lm d2 dsq Q om (fwd_init L Q om ox2) n) := by
  induction n with
  | zero => exact fwd_init_same L Q om ox1 ox2
  | succ k ih =>
    exact fwd_row_rescale_same lm Q k _ _
      (fwd_row_compute_same d1 d2 dsq Q om (k + 1) k _ _ ih)

/-- A cancellation flag that is set somewhere in `1..n` is set at a first
position. -/
theorem cancel_first (cancelFlag : Nat → Bool) (n : Nat)
    (h : ¬ ∀ i, 1 ≤ i → i ≤ n → cancelFlag i = false) :
    ∃ i, 1 ≤ i ∧ i ≤ n ∧ cancelFlag i = true ∧
      ∀ j, 1 ≤ j → j < i → cancelFlag j = false := by
  have hex : ∃ i, (1 ≤ i ∧ i ≤ n) ∧ cancelFlag i = true := by
    by_contra hne
    apply h
    intro i h1 h2
    by_contra hc
    exact hne ⟨i, ⟨h1, h2⟩, by simpa using hc⟩
  classical
  have hi : (1 ≤ Nat.find hex ∧ Nat.find hex ≤ n) ∧ cancelFlag (Nat.find hex) = true :=
    Nat.find_spec hex
  refine ⟨Nat.find hex, hi.1.1, hi.1.2, hi.2, ?_⟩
  intro j h1 h2
  have := Nat.find_min hex h2
  by_contra hc
  exact this ⟨⟨h1, by omega⟩, by simpa using hc⟩

/-- Two runs of `forward_engine` on the same model and sequence, in any two
modes and on any two matrices, return the same status and score and leave the
same `totscale`; the rows of the trace that were computed agree, and after a
complete run so do the blocks of the last row. -/
theorem forward_engine_modes (p7O_NQF : Nat → Nat) (lm : LibM α) (cancelFlag : Nat → Bool)
    (d1 d2 : Bool) (dsq : Nat → Nat) (L : Nat) (om : P7_OPROFILE α) (ox1 ox2 : P7_OMX α)
    (opt_sc : Bool) :
    (forward_engine p7O_NQF lm cancelFlag d1 dsq L om ox1 opt_sc).1
      = (forward_engine p7O_NQF lm cancelFlag d2 dsq L om ox2 opt_sc).1 ∧
    (forward_engine p7O_NQF lm cancelFlag d1 dsq L om ox1 opt_sc).2.2
      = (forward_engine p7O_NQF lm cancelFlag d2 dsq L om ox2 opt_sc).2.2 ∧
    (forward_engine p7O_NQF lm cancelFlag d1 dsq L om ox1 opt_sc).2.1.totscale
      = (forward_engine p7O_NQF lm cancelFlag d2 dsq L om ox2 opt_sc).2.1.totscale ∧
    (∀ i, i ≤ L → (∀ k, 1 ≤ k → k ≤ i → cancelFlag k = false) →
      (forward_engine p7O_NQF lm cancelFlag d1 dsq L om ox1 opt_sc).2.1.xmx i
        = (forward_engine p7O_NQF lm cancelFlag d2 dsq L om ox2 opt_sc).2.1.xmx i) ∧
    ((∀ k, 1 ≤ k → k ≤ L → cancelFlag k = false) →
      RowAgree (p7O_NQF om.M)
        ((forward_engine p7O_NQF lm cancelFlag d1 dsq L om ox1 opt_sc).2.1.dpf (d1.toNat * L))
        ((forward_engine p7O_NQF lm cancelFlag d2 dsq L om ox2 opt_sc).2.1.dpf
          (d2.toNat * L))) := by
  by_cases hnc : ∀ i, 1 ≤ i → i ≤ L → cancelFlag i = false
  · have e1 := fwd_rows_of_no_cancel lm cancelFlag d1 dsq (p7O_NQF om.M) om
      (fwd_init L (p7O_NQF om.M) om ox1) L hnc
    have e2 := fwd_rows_of_no_cancel lm cancelFlag d2 dsq (p7O_NQF om.M) om
      (fwd_init L (p7O_NQF om.M) om ox2) L hnc
    obtain ⟨_, hC, _, _, _, hT, hX, hR⟩ :=
      fwd_state_same lm d1 d2 dsq (p7O_NQF om.M) L om ox1 ox2 L
    have o1 := forward_engine_ox p7O_NQF lm cancelFlag d1 dsq L om ox1 opt_sc hnc
    have o2 := forward_engine_ox p7O_NQF lm cancelFlag d2 dsq L om ox2 opt_sc hnc
    rw [fwd_state_dpc, fwd_state_dpc] at hR
    refine ⟨?_, ?_, ?_, ?_, ?_⟩
    · simp only [forward_engine, e1, e2, hC]
      split_ifs <;> rfl
    · simp only [forward_engine, e1, e2, hC, hT]
      split_ifs <;> rfl
    · rw [o1, o2]; exact hT
    · intro i hi _
      rw [o1, o2]; exact hX i hi
    · intro _
      rw [o1, o2]; exact hR
  · obtain ⟨i, hi1, hin, hc, hfirst⟩ := cancel_first cancelFlag L hnc
    have e1 := fwd_rows_of_cancel lm cancelFlag d1 dsq (p7O_NQF om.M) om
      (fwd_init L (p7O_NQF om.M) om ox1) L i hi1 hin hc hfirst
    have e2 := fwd_rows_of_cancel lm cancelFlag d2 dsq (p7O_NQF om.M) om
      (fwd_init L (p7O_NQF om.M) om ox2) L i hi1 hin hc hfirst
    obtain ⟨_, _, _, _, _, hT, hX, _⟩ :=
      fwd_state_same lm d1 d2 dsq (p7O_NQF om.M) L om ox1 ox2 (i - 1)
    simp only [forward_engine, e1, e2]
    refine ⟨trivial, trivial, hT, ?_, fun h => absurd h hnc⟩
    intro j _ hj
    apply hX
    by_contra hlt
    have := hj i hi1 (by omega)
    rw [hc] at this
    exact Bool.noConfusion this

end ParserRows
section ParserClaim

variable {α : Type} [Zero α] [One α] [Add α] [Mul α] [Div α] [NatCast α]
  [LT α] [DecidableRel (fun (x y : α) => x < y)] [DecidableEq α]

/-- C11: for every model, sequence and cancellation behaviour, and whatever the
two matrices held before, `p7_ForwardParser` (one row, updated in place)
returns the same status and the same score as `p7_Forward` (full matrix).
Unless the calls were rejected with `eslEINVAL`, it also leaves the same
`totscale` and the same special-state trace (E, N, J, B, C and scale factor)
in every row `0..L` that was computed, and after a complete run its single row
`dpf[0]` holds in every block the Match, Delete and Insert vectors of row `L`
of the full matrix.  In a build with `p7_DEBUGGING` each matrix is assumed to
be allocated as its function asks (`L+1` rows for the full matrix, one row for
the parser). -/
theorem C11_parser_matches_full (p7_DEBUGGING : Bool) (p7O_NQF : Nat → Nat) (lm : LibM α)
    (cancelFlag : Nat → Bool) (dsq : Nat → Nat) (L : Nat) (om : P7_OPROFILE α)
    (alF alP : OmxAlloc) (oxF oxP : P7_OMX α) (opt_sc : Bool)
    (hF : p7_DEBUGGING = true →
      om.M ≤ alF.allocQ4 * 4 ∧ L < alF.validR ∧ L < alF.allocXR)
    (hP : p7_DEBUGGING = true →
      om.M ≤ alP.allocQ4 * 4 ∧ 1 ≤ alP.validR ∧ L < alP.allocXR) :
    (p7_ForwardParser p7_DEBUGGING p7O_NQF lm cancelFlag dsq L om alP oxP opt_sc).1
      = (p7_Forward p7_DEBUGGING p7O_NQF lm cancelFlag dsq L om alF oxF opt_sc).1 ∧
    (p7_ForwardParser p7_DEBUGGING p7O_NQF lm cancelFlag dsq L om alP oxP opt_sc).2.2
      = (p7_Forward p7_DEBUGGING p7O_NQF lm cancelFlag dsq L om alF oxF opt_sc).2.2 ∧
    ((p7_Forward p7_DEBUGGING p7O_NQF lm cancelFlag dsq L om alF oxF opt_sc).1 ≠ eslEINVAL →
      (p7_ForwardParser p7_DEBUGGING p7O_NQF lm cancelFlag dsq L om alP oxP opt_sc).2.1.totscale
        = (p7_Forward p7_DEBUGGING p7O_NQF lm cancelFlag dsq L om alF oxF opt_sc).2.1.totscale ∧
      (∀ i, i ≤ L → (∀ k, 1 ≤ k → k ≤ i → cancelFlag k = false) →
        ∀ c, (p7_ForwardParser p7_DEBUGGING p7O_NQF lm cancelFlag dsq L om alP oxP
                opt_sc).2.1.xmx i c
          = (p7_Forward p7_DEBUGGING p7O_NQF lm cancelFlag dsq L om alF oxF
                opt_sc).2.1.xmx i c) ∧
      ((∀ k, 1 ≤ k → k ≤ L → cancelFlag k = false) →
        ∀ q, q < p7O_NQF om.M →
          MMO (p7_ForwardParser p7_DEBUGGING p7O_NQF lm cancelFlag dsq L om alP oxP
                opt_sc).2.1.dpf 0 q
            = MMO (p7_Forward p7_DEBUGGING p7O_NQF lm cancelFlag dsq L om alF oxF
                opt_sc).2.1.dpf L q ∧
          DMO (p7_ForwardParser p7_DEBUGGING p7O_NQF lm cancelFlag dsq L om alP oxP
                opt_sc).2.1.dpf 0 q
            = DMO (p7_Forward p7_DEBUGGING p7O_NQF lm cancelFlag dsq L om alF oxF
                opt_sc).2.1.dpf L q ∧
          IMO (p7_ForwardParser p7_DEBUGGING p7O_NQF lm cancelFlag dsq L om alP oxP
                opt_sc).2.1.dpf 0 q
            = IMO (p7_Forward p7_DEBUGGING p7O_NQF lm cancelFlag dsq L om alF oxF
                opt_sc).2.1.dpf L q)) := by
  by_cases hdbg : p7_DEBUGGING = true ∧ ¬ p7_oprofile_IsLocal om = true
  · have eF : p7_Forward p7_DEBUGGING p7O_NQF lm cancelFlag dsq L om alF oxF opt_sc
        = (eslEINVAL, oxF, none) := by
      unfold p7_Forward
      split_ifs <;> rfl
    have eP : p7_ForwardParser p7_DEBUGGING p7O_NQF lm cancelFlag dsq L om alP oxP opt_sc
        = (eslEINVAL, oxP, none) := by
      unfold p7_ForwardParser
      split_ifs <;> rfl
    rw [eF, eP]
    exact ⟨rfl, rfl, fun h => absurd rfl h⟩
  · have eF : p7_Forward p7_DEBUGGING p7O_NQF lm cancelFlag dsq L om alF oxF opt_sc
        = forward_engine p7O_NQF lm cancelFlag true dsq L om oxF opt_sc := by
      unfold p7_Forward
      split_ifs with h1 h2 h3
      · have := hF h1.1; omega
      · have := hF h2.1; omega
      · have := hF h3.1; omega
      · rfl
    have eP : p7_ForwardParser p7_DEBUGGING p7O_NQF lm cancelFlag dsq L om alP oxP opt_sc
        = forward_engine p7O_NQF lm cancelFlag false dsq L om oxP opt_sc := by
      unfold p7_ForwardParser
      split_ifs with h1 h2 h3
      · have := hP h1.1; omega
      · have := hP h2.1; omega
      · have := hP h3.1; omega
      · rfl
    rw [eF, eP]
    obtain ⟨h1, h2, h3, h4, h5⟩ :=
      forward_engine_modes p7O_NQF lm cancelFlag false true dsq L om oxP oxF opt_sc
    refine ⟨h1, h2, fun _ => ⟨h3, ?_, ?_⟩⟩
    · intro i hi hc c
      rw [h4 i hi hc]
    · intro hc q hq
      have h := h5 hc q hq
      have z0 : false.toNat * L = 0 := by simp
      have z1 : true.toNat * L = L := by simp
      rw [z0, z1] at h
      exact h

/-- Witness for C11: the toy model on a sequence of length 1 in a build with
`p7_DEBUGGING`, the full matrix allocated with two rows and the parsing matrix
with one. -/
theorem C11_parser_matches_full_witness :
    (p7_ForwardParser true demo_NQF (demo_lm (fun x : ℚ => x)) (fun _ => false) (fun _ => 0) 1
        (demo_om (1 : ℚ) p7_LOCAL) ⟨1, 1, 2⟩ demo_ox true).1
      = (p7_Forward true demo_NQF (demo_lm (fun x : ℚ => x)) (fun _ => false) (fun _ => 0) 1
        (demo_om (1 : ℚ) p7_LOCAL) ⟨1, 2, 2⟩ demo_ox true).1 :=
  (C11_parser_matches_full true demo_NQF (demo_lm (fun x : ℚ => x)) (fun _ => false)
    (fun _ => 0) 1 (demo_om (1 : ℚ) p7_LOCAL) ⟨1, 2, 2⟩ ⟨1, 1, 2⟩ demo_ox demo_ox true
    (fun _ => by decide) (fun _ => by decide)).1

end ParserClaim

/-! ## The early exit of the delete passes -/

section DeleteEarlyExit

variable {α : Type} [LinearOrderedField α]

theorem rightshift_zero (c : M128 α) (hc : ∀ z, c z = 0) (z : Fin 4) :
    esl_sse_rightshift_ps c mm_setzero_ps z = 0 := by
  fin_cases z
  · rfl
  · exact hc 0
  · exact hc 1
  · exact hc 2

/-- An extra delete pass entered with a zero carry changes no Delete vector
and leaves a zero carry. -/
theorem fwd_pure_pass_of_zero (om : P7_OPROFILE α) (Q : Nat) (Dc : (Nat → M128 α) × M128 α)
    (hc : ∀ z, Dc.2 z = 0) :
    (fwd_pure_pass om Q Dc).1 = Dc.1 ∧ ∀ z, (fwd_pure_pass om Q Dc).2 z = 0 := by
  have he : ∀ q z, fwd_dd_e om Q (esl_sse_rightshift_ps Dc.2 mm_setzero_ps) q z = 0 :=
    fun q z => fwd_dd_e_zero om Q _ z (rightshift_zero Dc.2 hc z) q
  constructor
  · funext q z
    show fwd_dd_e om Q _ q z + Dc.1 q z = Dc.1 q z
    rw [he q z, zero_add]
  · intro z
    exact he Q z

/-- Extra delete passes of the serialized version entered with a zero carry
change no Delete vector. -/
theorem fwd_pure_serial_of_zero (om : P7_OPROFILE α) (Q n : Nat)
    (Dc : (Nat → M128 α) × M128 α) (hc : ∀ z, Dc.2 z = 0) :
    (fwd_pure_serial om Q n Dc).1 = Dc.1 := by
  induction n generalizing Dc with
  | zero => rfl
  | succ k ih =>
    obtain ⟨h1, h2⟩ := fwd_pure_pass_of_zero om Q Dc hc
    simp only [fwd_pure_serial]
    rw [ih _ h2, h1]

theorem fwd_dd_e_nonneg_dd (om : P7_OPROFILE α) (Q : Nat) (e0 : M128 α) (he : ∀ z, 0 ≤ e0 z)
    (hdd : ∀ q, q < Q → ∀ z, 0 ≤ om.tfv (7 * Q + q) z) (q : Nat) (hq : q ≤ Q) (z : Fin 4) :
    0 ≤ fwd_dd_e om Q e0 q z := by
  induction q with
  | zero => exact he z
  | succ k ih => exact mul_nonneg (ih (by omega)) (hdd k (by omega) z)

/-- With a non-negative carry and non-negative D->D weights the passes with the
early exit compute the Delete vectors of the serialized passes. -/
theorem fwd_pure_par_eq_serial (om : P7_OPROFILE α) (Q : Nat) (hQ : 0 < Q)
    (hdd : ∀ q, q < Q → ∀ z, 0 ≤ om.tfv (7 * Q + q) z) (n : Nat)
    (Dc : (Nat → M128 α) × M128 α) (hc : ∀ z, 0 ≤ Dc.2 z) :
    (fwd_pure_par om Q n Dc).1 = (fwd_pure_serial om Q n Dc).1 := by
  induction n generalizing Dc with
  | zero => rfl
  | succ k ih =>
    have he : ∀ z, 0 ≤ esl_sse_rightshift_ps Dc.2 mm_setzero_ps z := rightshift_nonneg Dc.2 hc
    simp only [fwd_pure_par, fwd_pure_serial]
    split_ifs with hm
    · have hz : ∀ z, (fwd_pure_pass om Q Dc).2 z = 0 := by
        intro z
        apply fwd_dd_e_zero
        have hle := fwd_dd_cv_false om Q Dc.1 _ Q z (movemask_zero _ hm z) 0 hQ
        exact le_antisymm hle (he z)
      rw [fwd_pure_serial_of_zero om Q k _ hz]
    · exact ih _ (fun z => fwd_dd_e_nonneg_dd om Q _ he hdd Q le_rfl z)

/-- From any variables with a non-negative carry `dcv`, and with non-negative
D->D weights, the passes with the early exit leave the matrix that the
serialized passes leave. -/
theorem fwd_dd_par_eq_serial (om : P7_OPROFILE α) (Q : Nat) (s : FwdVars α)
    (hdd : ∀ q, q < Q → ∀ z, 0 ≤ om.tfv (7 * Q + q) z) (hc : ∀ z, 0 ≤ s.dcv z) :
    (fwd_dd_par Q om 3 s).ox.dpf = (fwd_dd_serial Q om 3 s).ox.dpf := by
  have hrel : FwdDDRel Q s (fun q => DMO s.ox.dpf s.dpc q, s.dcv) := ⟨rfl, fun _ _ => rfl⟩
  obtain ⟨⟨_, pD⟩, pK⟩ := fwd_dd_par_spec om Q 3 s _ hrel
  obtain ⟨⟨_, sD⟩, sK⟩ := fwd_dd_serial_spec om Q 3 s _ hrel
  have pdpc := FwdDDKeep.dpc pK
  have sdpc := FwdDDKeep.dpc sK
  obtain ⟨_, _, pMI, pRest⟩ := pK
  obtain ⟨_, _, sMI, sRest⟩ := sK
  apply dpf_ext
  · intro r q
    rw [(pMI r q).1, (sMI r q).1]
  · intro r q
    by_cases h : r = s.dpc ∧ q < Q
    · obtain ⟨hr, hq⟩ := h
      subst hr
      have a := pD q hq
      have b := sD q hq
      rw [pdpc] at a
      rw [sdpc] at b
      rw [a, b, fwd_pure_par_eq_serial om Q (by omega) hdd 3 _ hc]
    · have h1 : r ≠ s.dpc ∨ Q ≤ q := by
        by_cases hr : r = s.dpc
        · exact Or.inr (by
            by_contra hlt
            exact h ⟨hr, by omega⟩)
        · exact Or.inl hr
      rw [pRest r q h1, sRest r q h1]
  · intro r q
    rw [(pMI r q).2, (sMI r q).2]

/-- C12: in every row of `forward_engine` whose inputs are non-negative (the
odds ratios of the model, the Begin value and the previous row), the delete
passes of the large-model branch (which are left after a pass in which no
Delete lane increased) leave exactly the matrix that the three unconditional
passes of the small-model branch leave, so the Delete values of the row are
the same in exact arithmetic.  The two branches are run from the variables
reached after the main loop and the first delete pass of row `i`. -/
theorem C12_delete_early_exit_exact (do_full : Bool) (dsq : Nat → Nat) (Q : Nat)
    (om : P7_OPROFILE α) (i : Nat) (s : FwdVars α)
    (hom : OmNonneg om) (hB : 0 ≤ s.xB) (hP : RowNonneg Q (s.ox.dpf s.dpc)) :
    (fwd_dd_par Q om 3 (fwd_dd_first Q om
        (forUp Q (fwd_main_body om (dsq i)) (fwd_row_begin do_full Q i s)))).ox.dpf
      = (fwd_dd_serial Q om 3 (fwd_dd_first Q om
        (forUp Q (fwd_main_body om (dsq i)) (fwd_row_begin do_full Q i s)))).ox.dpf := by
  apply fwd_dd_par_eq_serial om Q _ (fun q _ z => hom.2.1 _ z)
  rcases Nat.eq_zero_or_pos Q with hQ | hQ
  · subst hQ
    intro z
    show 0 ≤ esl_sse_rightshift_ps (mm_setzero_ps : M128 α) mm_setzero_ps z
    exact rightshift_nonneg _ (fun _ => le_rfl) z
  · have hmain := fwd_main_spec do_full om (dsq i) Q i s
    obtain ⟨_, _, hdpc, _, _, _, _, _, hdcv, _, hdone, _⟩ := hmain
    obtain ⟨⟨h1, _⟩, _⟩ := fwd_dd_first_spec om (dsq i) Q s.xB (s.ox.dpf s.dpc)
      (forUp Q (fwd_main_body om (dsq i)) (fwd_row_begin do_full Q i s)) hQ hdcv
      (fun q hq => by rw [hdpc]; exact (hdone q hq).2.1)
    intro z
    rw [h1]
    exact (fwd_pure_first_nonneg om (dsq i) Q s.xB (s.ox.dpf s.dpc) hom hB hP).2 z

theorem demo_init_nonneg :
    RowNonneg 1 ((fwd_init 1 1 (demo_om (1 : ℝ) p7_LOCAL) demo_ox).ox.dpf
      (fwd_init 1 1 (demo_om (1 : ℝ) p7_LOCAL) demo_ox).dpc) := by
  intro q hq z
  obtain ⟨a1, a2, a3⟩ := fwd_init_cells 1 1 (demo_om (1 : ℝ) p7_LOCAL) demo_ox q hq
  unfold MMO at a1
  unfold DMO at a2
  unfold IMO at a3
  have d : (fwd_init 1 1 (demo_om (1 : ℝ) p7_LOCAL) demo_ox).dpc = 0 := rfl
  rw [d, a1, a2, a3]
  exact ⟨le_rfl, le_rfl, le_rfl⟩

/-- Witness for C12: row 1 of the toy model, entered from the initialized
variables. -/
theorem C12_delete_early_exit_exact_witness :
    (OmNonneg (demo_om (1 : ℝ) p7_LOCAL) ∧
      0 ≤ (fwd_init 1 1 (demo_om (1 : ℝ) p7_LOCAL) demo_ox).xB ∧
      RowNonneg 1 ((fwd_init 1 1 (demo_om (1 : ℝ) p7_LOCAL) demo_ox).ox.dpf
        (fwd_init 1 1 (demo_om (1 : ℝ) p7_LOCAL) demo_ox).dpc)) ∧
    (fwd_dd_par 1 (demo_om (1 : ℝ) p7_LOCAL) 3 (fwd_dd_first 1 (demo_om (1 : ℝ) p7_LOCAL)
        (forUp 1 (fwd_main_body (demo_om (1 : ℝ) p7_LOCAL) 0)
          (fwd_row_begin true 1 1 (fwd_init 1 1 (demo_om (1 : ℝ) p7_LOCAL) demo_ox))))).ox.dpf
      = (fwd_dd_serial 1 (demo_om (1 : ℝ) p7_LOCAL) 3 (fwd_dd_first 1 (demo_om (1 : ℝ) p7_LOCAL)
        (forUp 1 (fwd_main_body (demo_om (1 : ℝ) p7_LOCAL) 0)
          (fwd_row_begin true 1 1 (fwd_init 1 1 (demo_om (1 : ℝ) p7_LOCAL) demo_ox))))).ox.dpf :=
  ⟨⟨demo_om_nonneg p7_LOCAL, zero_le_one, demo_init_nonneg⟩,
   C12_delete_early_exit_exact true (fun _ => 0) 1 (demo_om (1 : ℝ) p7_LOCAL) 1
     (fwd_init 1 1 (demo_om (1 : ℝ) p7_LOCAL) demo_ox)
     (demo_om_nonneg p7_LOCAL) zero_le_one demo_init_nonneg⟩

end DeleteEarlyExit

/-! ## The Begin value of a Forward row -/

section BeginReached

variable {α : Type} [Zero α] [One α] [Add α] [Mul α] [Div α] [NatCast α]
  [LT α] [DecidableRel (fun (x y : α) => x < y)] [DecidableEq α]

/-- Row `i` of the trace returned by `forward_engine` is the row stored when
position `i` was processed, provided no cancellation was seen up to `i`. -/
theorem forward_engine_xmx_reached (p7O_NQF : Nat → Nat) (lm : LibM α)
    (cancelFlag : Nat → Bool) (do_full : Bool) (dsq : Nat → Nat) (L : Nat)
    (om : P7_OPROFILE α) (ox : P7_OMX α) (opt_sc : Bool) (i : Nat) (hi : i ≤ L)
    (hnc : ∀ k, 1 ≤ k → k ≤ i → cancelFlag k = false) :
    (forward_engine p7O_NQF lm cancelFlag do_full dsq L om ox opt_sc).2.1.xmx i
      = (fwd_state lm do_full dsq (p7O_NQF om.M) om
          (fwd_init L (p7O_NQF om.M) om ox) i).ox.xmx i := by
  by_cases hall : ∀ k, 1 ≤ k → k ≤ L → cancelFlag k = false
  · rw [forward_engine_ox p7O_NQF lm cancelFlag do_full dsq L om ox opt_sc hall]
    exact fwd_state_xmx_stable lm do_full dsq _ om _ i L hi
  · obtain ⟨j, hj1, hjL, hc, hfirst⟩ := cancel_first cancelFlag L hall
    have e := fwd_rows_of_cancel lm cancelFlag do_full dsq (p7O_NQF om.M) om
      (fwd_init L (p7O_NQF om.M) om ox) L j hj1 hjL hc hfirst
    have hij : i ≤ j - 1 := by
      by_contra hlt
      have := hnc j hj1 (by omega)
      rw [hc] at this
      exact Bool.noConfusion this
    simp only [forward_engine, e]
    exact fwd_state_xmx_stable lm do_full dsq _ om _ i (j - 1) hij

end BeginReached

section BeginValue

variable {α : Type} [LinearOrderedField α]

/-- In the trace of the iterated rows, in exact arithmetic: the Begin value of
row `k+1` is built from the J and N values of the same row, and the N value is
the N value of row `k` times the N loop parameter, divided by the scale factor
of row `k+1`. -/
theorem fwd_state_begin (lm : LibM α) (do_full : Bool) (dsq : Nat → Nat) (Q L : Nat)
    (om : P7_OPROFILE α) (ox : P7_OMX α) (k : Nat) :
    (fwd_state lm do_full dsq Q om (fwd_init L Q om ox) (k + 1)).ox.xmx (k + 1) p7X_B
      = (fwd_state lm do_full dsq Q om (fwd_init L Q om ox) (k + 1)).ox.xmx (k + 1) p7X_J
          * om.xf p7O_J p7O_MOVE
        + (fwd_state lm do_full dsq Q om (fwd_init L Q om ox) (k + 1)).ox.xmx (k + 1) p7X_N
          * om.xf p7O_N p7O_MOVE ∧
    (fwd_state lm do_full dsq Q om (fwd_init L Q om ox) (k + 1)).ox.xmx (k + 1) p7X_N
      = (fwd_state lm do_full dsq Q om (fwd_init L Q om ox) k).ox.xmx k p7X_N
          * om.xf p7O_N p7O_LOOP
        / (fwd_state lm do_full dsq Q om (fwd_init L Q om ox) (k + 1)).ox.xmx (k + 1)
            p7X_SCALE := by
  obtain ⟨sN, _, _, _⟩ := fwd_state_stored lm do_full dsq Q L om ox k
  obtain ⟨_, _, _, _, _, cN, _, _, cB, _, _⟩ := fwd_row_compute_specials do_full dsq Q om (k + 1)
    (fwd_state lm do_full dsq Q om (fwd_init L Q om ox) k)
  obtain ⟨_, pN, pJ, pB, _⟩ := fwd_row_rescale_stored lm Q (k + 1)
    (fwd_row_compute do_full dsq Q om (k + 1)
      (fwd_state lm do_full dsq Q om (fwd_init L Q om ox) k))
  have hst : fwd_state lm do_full dsq Q om (fwd_init L Q om ox) (k + 1)
      = fwd_row_rescale lm Q (k + 1) (fwd_row_compute do_full dsq Q om (k + 1)
          (fwd_state lm do_full dsq Q om (fwd_init L Q om ox) k)) := rfl
  rw [hst, pN, pJ, pB, sN]
  by_cases h : ((10000 : Nat) : α) < (fwd_row_compute do_full dsq Q om (k + 1)
      (fwd_state lm do_full dsq Q om (fwd_init L Q om ox) k)).xE
  · obtain ⟨a1, _, _, a4, _, a6, a7, _⟩ := fwd_row_rescale_event lm Q (k + 1) _ h
    rw [a1, a4, a6, a7, cB, cN]
    constructor
    · ring
    · rfl
  · obtain ⟨a1, _, _, a4, _, a6, a7, _⟩ := fwd_row_rescale_none lm Q (k + 1) _ h
    rw [a1, a4, a6, a7, cB, cN, div_one]
    exact ⟨rfl, rfl⟩

/-- Row 1 of the toy model with all special-state parameters 1/2, over the
rationals: no rescaling takes place, J is 1, N is 1/2 and B is 3/4. -/
theorem demo_half_row1 :
    (fwd_state (demo_lm (fun x : ℚ => x)) true (fun _ => 0) 1 (demo_om (1 / 2 : ℚ) p7_LOCAL)
      (fwd_init 1 1 (demo_om (1 / 2 : ℚ) p7_LOCAL) demo_ox) 1).ox.xmx 1 p7X_J = 1 ∧
    (fwd_state (demo_lm (fun x : ℚ => x)) true (fun _ => 0) 1 (demo_om (1 / 2 : ℚ) p7_LOCAL)
      (fwd_init 1 1 (demo_om (1 / 2 : ℚ) p7_LOCAL) demo_ox) 1).ox.xmx 1 p7X_B = 3 / 4 := by
  obtain ⟨cM, cD, cI⟩ :=
    fwd_init_cells 1 1 (demo_om (1 / 2 : ℚ) p7_LOCAL) demo_ox 0 Nat.zero_lt_one
  have hE : (fwd_row_compute true (fun _ => 0) 1 (demo_om (1 / 2 : ℚ) p7_LOCAL) 1
      (fwd_init 1 1 (demo_om (1 / 2 : ℚ) p7_LOCAL) demo_ox)).xE = 2 := by
    rw [(fwd_row_compute_spec true (fun _ => 0) 1 (demo_om (1 / 2 : ℚ) p7_LOCAL) 1 _
      Nat.zero_lt_one).1]
    have := demo_xE 0 (1 / 2 : ℚ) p7_LOCAL
      ((fwd_init 1 1 (demo_om (1 / 2 : ℚ) p7_LOCAL) demo_ox).ox.dpf
        (fwd_init 1 1 (demo_om (1 / 2 : ℚ) p7_LOCAL) demo_ox).dpc) cM cD cI
    have hB : (fwd_init 1 1 (demo_om (1 / 2 : ℚ) p7_LOCAL) demo_ox).xB = 1 / 2 := rfl
    rw [hB, this]
    norm_num
  obtain ⟨_, _, _, _, _, cN, _, cJ, cB, _, _⟩ := fwd_row_compute_specials true (fun _ => 0) 1
    (demo_om (1 / 2 : ℚ) p7_LOCAL) 1 (fwd_init 1 1 (demo_om (1 / 2 : ℚ) p7_LOCAL) demo_ox)
  have hno : ¬ ((10000 : Nat) : ℚ) < (fwd_row_compute true (fun _ => 0) 1
      (demo_om (1 / 2 : ℚ) p7_LOCAL) 1
      (fwd_init 1 1 (demo_om (1 / 2 : ℚ) p7_LOCAL) demo_ox)).xE := by
    rw [hE]; norm_num
  obtain ⟨_, _, _, _, _, a6, a7, _⟩ :=
    fwd_row_rescale_none (demo_lm (fun x : ℚ => x)) 1 1 _ hno
  obtain ⟨_, _, pJ, pB, _⟩ := fwd_row_rescale_stored (demo_lm (fun x : ℚ => x)) 1 1
    (fwd_row_compute true (fun _ => 0) 1 (demo_om (1 / 2 : ℚ) p7_LOCAL) 1
      (fwd_init 1 1 (demo_om (1 / 2 : ℚ) p7_LOCAL) demo_ox))
  have hst : fwd_state (demo_lm (fun x : ℚ => x)) true (fun _ => 0) 1
      (demo_om (1 / 2 : ℚ) p7_LOCAL) (fwd_init 1 1 (demo_om (1 / 2 : ℚ) p7_LOCAL) demo_ox) 1
      = fwd_row_rescale (demo_lm (fun x : ℚ => x)) 1 1
          (fwd_row_compute true (fun _ => 0) 1 (demo_om (1 / 2 : ℚ) p7_LOCAL) 1
            (fwd_init 1 1 (demo_om (1 / 2 : ℚ) p7_LOCAL) demo_ox)) := rfl
  have hJ : (fwd_row_compute true (fun _ => 0) 1 (demo_om (1 / 2 : ℚ) p7_LOCAL) 1
      (fwd_init 1 1 (demo_om (1 / 2 : ℚ) p7_LOCAL) demo_ox)).xJ = 1 := by
    rw [cJ, hE]
    simp [fwd_init, demo_om]
  have hN : (fwd_row_compute true (fun _ => 0) 1 (demo_om (1 / 2 : ℚ) p7_LOCAL) 1
      (fwd_init 1 1 (demo_om (1 / 2 : ℚ) p7_LOCAL) demo_ox)).xN = 1 / 2 := by
    rw [cN]
    simp [fwd_init, demo_om]
  rw [hst, pJ, pB, a6, a7, cB, hJ, hN]
  constructor
  · rfl
  · simp [demo_om]
    norm_num

/-- C13 (as the claim states it, refuted): on the toy model with all
special-state parameters 1/2 and a sequence of length 1, the Begin value
stored for row 1 is 3/4, whereas the new J of row 1 times `xf[J][MOVE]` plus
the old N of row 0 times `xf[N][MOVE]` is 1. -/
theorem C13_begin_not_from_old_N :
    (forward_engine demo_NQF (demo_lm (fun x : ℚ => x)) (fun _ => false) true (fun _ => 0) 1
      (demo_om (1 / 2 : ℚ) p7_LOCAL) demo_ox true).2.1.xmx 1 p7X_B = 3 / 4 ∧
    (forward_engine demo_NQF (demo_lm (fun x : ℚ => x)) (fun _ => false) true (fun _ => 0) 1
      (demo_om (1 / 2 : ℚ) p7_LOCAL) demo_ox true).2.1.xmx 1 p7X_J
        * (demo_om (1 / 2 : ℚ) p7_LOCAL).xf p7O_J p7O_MOVE
      + (forward_engine demo_NQF (demo_lm (fun x : ℚ => x)) (fun _ => false) true (fun _ => 0) 1
      (demo_om (1 / 2 : ℚ) p7_LOCAL) demo_ox true).2.1.xmx 0 p7X_N
        * (demo_om (1 / 2 : ℚ) p7_LOCAL).xf p7O_N p7O_MOVE = 1 := by
  have h1 := forward_engine_xmx_reached demo_NQF (demo_lm (fun x : ℚ => x)) (fun _ => false)
    true (fun _ => 0) 1 (demo_om (1 / 2 : ℚ) p7_LOCAL) demo_ox true 1 le_rfl (fun _ _ _ => rfl)
  have h0 := forward_engine_xmx_reached demo_NQF (demo_lm (fun x : ℚ => x)) (fun _ => false)
    true (fun _ => 0) 1 (demo_om (1 / 2 : ℚ) p7_LOCAL) demo_ox true 0 (Nat.zero_le 1)
    (fun _ _ _ => rfl)
  obtain ⟨hJ, hB⟩ := demo_half_row1
  have hQ : demo_NQF (demo_om (1 / 2 : ℚ) p7_LOCAL).M = 1 := rfl
  rw [hQ] at h1 h0
  rw [h1, h0, hJ, hB]
  refine ⟨rfl, ?_⟩
  simp [fwd_state, fwd_init, demo_om]
  norm_num

/-- C13 (amended): in exact arithmetic, at every position `i` in `1..L` that
`forward_engine` reaches (no cancellation up to `i`), the stored Begin value is
`B_i = J_i * xf[J][MOVE] + N_i * xf[N][MOVE]`, computed from the new J and the
new N of row `i`, where `N_i = N_(i-1) * xf[N][LOOP] / scale_i`: N is multiplied
by the N loop parameter before B is computed. -/
theorem C13_begin_from_new_J_and_new_N (p7O_NQF : Nat → Nat) (lm : LibM α)
    (cancelFlag : Nat → Bool) (do_full : Bool) (dsq : Nat → Nat) (L : Nat)
    (om : P7_OPROFILE α) (ox : P7_OMX α) (opt_sc : Bool) (i : Nat)
    (hi1 : 1 ≤ i) (hiL : i ≤ L) (hnc : ∀ k, 1 ≤ k → k ≤ i → cancelFlag k = false) :
    (forward_engine p7O_NQF lm cancelFlag do_full dsq L om ox opt_sc).2.1.xmx i p7X_B
      = (forward_engine p7O_NQF lm cancelFlag do_full dsq L om ox opt_sc).2.1.xmx i p7X_J
          * om.xf p7O_J p7O_MOVE
        + (forward_engine p7O_NQF lm cancelFlag do_full dsq L om ox opt_sc).2.1.xmx i p7X_N
          * om.xf p7O_N p7O_MOVE ∧
    (forward_engine p7O_NQF lm cancelFlag do_full dsq L om ox opt_sc).2.1.xmx i p7X_N
      = (forward_engine p7O_NQF lm cancelFlag do_full dsq L om ox opt_sc).2.1.xmx (i - 1) p7X_N
          * om.xf p7O_N p7O_LOOP
        / (forward_engine p7O_NQF lm cancelFlag do_full dsq L om ox opt_sc).2.1.xmx i
            p7X_SCALE := by
  obtain ⟨k, rfl⟩ : ∃ k, i = k + 1 := ⟨i - 1, by omega⟩
  have h1 := forward_engine_xmx_reached p7O_NQF lm cancelFlag do_full dsq L om ox opt_sc
    (k + 1) hiL hnc
  have h0 := forward_engine_xmx_reached p7O_NQF lm cancelFlag do_full dsq L om ox opt_sc
    k (by omega) (fun j hj1 hj2 => hnc j hj1 (by omega))
  rw [Nat.add_sub_cancel, h1, h0]
  exact fwd_state_begin lm do_full dsq (p7O_NQF om.M) L om ox k

/-- Witness for C13 (amended): the toy model with all special-state parameters
1/2 on a sequence of length 1. -/
theorem C13_begin_from_new_J_and_new_N_witness :
    (forward_engine demo_NQF (demo_lm (fun x : ℚ => x)) (fun _ => false) true (fun _ => 0) 1
      (demo_om (1 / 2 : ℚ) p7_LOCAL) demo_ox true).2.1.xmx 1 p7X_B
      = (forward_engine demo_NQF (demo_lm (fun x : ℚ => x)) (fun _ => false) true (fun _ => 0) 1
          (demo_om (1 / 2 : ℚ) p7_LOCAL) demo_ox true).2.1.xmx 1 p7X_J
          * (demo_om (1 / 2 : ℚ) p7_LOCAL).xf p7O_J p7O_MOVE
        + (forward_engine demo_NQF (demo_lm (fun x : ℚ => x)) (fun _ => false) true
          (fun _ => 0) 1 (demo_om (1 / 2 : ℚ) p7_LOCAL) demo_ox true).2.1.xmx 1 p7X_N
          * (demo_om (1 / 2 : ℚ) p7_LOCAL).xf p7O_N p7O_MOVE :=
  (C13_begin_from_new_J_and_new_N demo_NQF (demo_lm (fun x : ℚ => x)) (fun _ => false) true
    (fun _ => 0) 1 (demo_om (1 / 2 : ℚ) p7_LOCAL) demo_ox true 1 le_rfl le_rfl
    (fun _ _ _ => rfl)).1

end BeginValue

/-! ## Rounding and integer casts -/

section RoundFacts

variable {α : Type} [LinearOrderedField α] [FloorRing α]

theorem roundHalfAway_nonneg (x : α) (hx : 0 ≤ x) : 0 ≤ roundHalfAway x := by
  unfold roundHalfAway
  rw [if_pos hx]
  apply Int.floor_nonneg.mpr
  have : (0 : α) ≤ 1 / 2 := by norm_num
  linarith

theorem roundHalfAway_nonpos (x : α) (hx : x ≤ 0) : roundHalfAway x ≤ 0 := by
  unfold roundHalfAway
  split_ifs with h
  · have h0 : x = 0 := le_antisymm hx h
    subst h0
    have : ⌊(0 : α) + 1 / 2⌋ = 0 := by
      rw [Int.floor_eq_iff]
      constructor <;> norm_num
    rw [this]
  · have : 0 ≤ ⌊-x + 1 / 2⌋ := by
      apply Int.floor_nonneg.mpr
      have : (0 : α) ≤ 1 / 2 := by norm_num
      linarith
    omega

/-- Rounding half away from zero is odd. -/
theorem roundHalfAway_neg (x : α) : roundHalfAway (-x) = -roundHalfAway x := by
  unfold roundHalfAway
  rcases lt_trichotomy x 0 with h | h | h
  · have h1 : (0 : α) ≤ -x := by linarith
    have h2 : ¬ (0 : α) ≤ x := not_le.mpr h
    rw [if_pos h1, if_neg h2, neg_neg]
  · subst h
    have hf : ⌊(2 : α)⁻¹⌋ = 0 := by
      rw [Int.floor_eq_iff]
      constructor <;> norm_num
    simp [hf]
  · have h1 : ¬ (0 : α) ≤ -x := by
      rw [not_le]; linarith
    have h2 : (0 : α) ≤ x := le_of_lt h
    rw [if_neg h1, if_pos h2, neg_neg]

/-- Rounding half away from zero is monotone. -/
theorem roundHalfAway_mono (x y : α) (h : x ≤ y) : roundHalfAway x ≤ roundHalfAway y := by
  by_cases hx : 0 ≤ x
  · have hy : 0 ≤ y := le_trans hx h
    unfold roundHalfAway
    rw [if_pos hx, if_pos hy]
    exact Int.floor_mono (by linarith)
  · by_cases hy : 0 ≤ y
    · exact le_trans (roundHalfAway_nonpos x (le_of_lt (not_le.mp hx)))
        (roundHalfAway_nonneg y hy)
    · unfold roundHalfAway
      rw [if_neg hx, if_neg hy]
      have : ⌊-y + 1 / 2⌋ ≤ ⌊-x + 1 / 2⌋ := Int.floor_mono (by linarith)
      omega

/-- An integer rounds to itself. -/
theorem roundHalfAway_intCast (n : Int) : roundHalfAway ((n : α)) = n := by
  unfold roundHalfAway
  have hhalf : ∀ m : Int, ⌊(m : α) + 1 / 2⌋ = m := by
    intro m
    rw [Int.floor_eq_iff]
    constructor
    · have : (0 : α) ≤ 1 / 2 := by norm_num
      linarith
    · have : (1 : α) / 2 < 1 := by norm_num
      linarith
  split_ifs with h
  · exact hhalf n
  · have := hhalf (-n)
    rw [Int.cast_neg] at this
    rw [this, neg_neg]

/-- The truncation of an integer-valued float is that integer. -/
theorem toInt_fin_intCast (n : Int) : Flt.toInt (.fin ((n : α))) = n := by
  show (if (0 : α) ≤ (n : α) then ⌊(n : α)⌋ else ⌈(n : α)⌉) = n
  split_ifs
  · exact Int.floor_intCast n
  · exact Int.ceil_intCast n

theorem wrap_int16_of_range (i : Int) (h1 : -32768 ≤ i) (h2 : i ≤ 32767) : wrap_int16 i = i := by
  unfold wrap_int16
  omega

theorem wrap_int16_range (i : Int) : -32768 ≤ wrap_int16 i ∧ wrap_int16 i ≤ 32767 := by
  unfold wrap_int16
  omega

theorem cast_int16_intCast (n : Int) (h1 : -32768 ≤ n) (h2 : n ≤ 32767) :
    cast_int16 (.fin ((n : α))) = n := by
  unfold cast_int16
  rw [toInt_fin_intCast, wrap_int16_of_range n h1 h2]

theorem cast_uint8_intCast (n : Int) : cast_uint8 (.fin ((n : α))) = (n % 256).toNat := by
  unfold cast_uint8
  rw [toInt_fin_intCast]

theorem cast_uint8_lt (f : Flt α) : cast_uint8 f < 256 := by
  unfold cast_uint8
  omega

end RoundFacts

/-! ## The quantizers wordify, biased_byteify and unbiased_byteify -/

section Wordify

variable {α : Type} [LinearOrderedField α] [FloorRing α]

/-- With a finite scale `c`, `wordify` of a finite score is the rounded
product, clamped to the range of a signed 16-bit word. -/
theorem wordify_fin (om : P7_OM α) (c x : α) (hc : om.scale_w = .fin c) :
    wordify om (.fin x) = max (-32768) (min 32767 (roundHalfAway (c * x))) := by
  unfold wordify
  simp only [hc, Flt.mul, roundf, Flt.ge, Flt.le, Int.cast_le, decide_eq_true_eq]
  have e1 : ((32767 : α) ≤ ((roundHalfAway (c * x) : Int) : α)) ↔ 32767 ≤ roundHalfAway (c * x) := by
    have : ((32767 : Int) : α) = 32767 := by norm_num
    rw [← this, Int.cast_le]
  have e2 : (((roundHalfAway (c * x) : Int) : α) ≤ -32768) ↔ roundHalfAway (c * x) ≤ -32768 := by
    have : ((-32768 : Int) : α) = -32768 := by norm_num
    rw [← this, Int.cast_le]
  split_ifs with h1 h2
  · rw [e1] at h1
    omega
  · rw [e1] at h1
    rw [e2] at h2
    omega
  · rw [e1] at h1
    rw [e2] at h2
    rw [cast_int16_intCast _ (by omega) (by omega)]
    omega

/-- With a positive finite scale, plus infinity becomes 32767 and minus
infinity becomes -32768. -/
theorem wordify_inf (om : P7_OM α) (c : α) (hc : om.scale_w = .fin c) (hpos : 0 < c) :
    wordify om .pinf = 32767 ∧ wordify om .ninf = -32768 := by
  have hn : ¬ c < 0 := not_lt.mpr (le_of_lt hpos)
  constructor
  · simp [wordify, hc, Flt.mul, Flt.signed, hpos, roundf, Flt.ge, Flt.le]
  · simp [wordify, hc, Flt.mul, Flt.signed, hpos, roundf, Flt.ge, Flt.le]

theorem wordify_range (om : P7_OM α) (s : Flt α) :
    -32768 ≤ wordify om s ∧ wordify om s ≤ 32767 := by
  unfold wordify
  simp only
  split_ifs
  · omega
  · omega
  · exact wrap_int16_range _

/-- With a positive finite scale, `wordify` is monotone in the score. -/
theorem wordify_mono (om : P7_OM α) (c : α) (hc : om.scale_w = .fin c) (hpos : 0 < c)
    (s t : Flt α) (hst : Flt.le s t = true) : wordify om s ≤ wordify om t := by
  obtain ⟨hp, hn⟩ := wordify_inf om c hc hpos
  cases s with
  | fin x =>
    cases t with
    | fin y =>
      rw [wordify_fin om c x hc, wordify_fin om c y hc]
      have hxy : x ≤ y := by simpa [Flt.le] using hst
      have := roundHalfAway_mono (c * x) (c * y) (mul_le_mul_of_nonneg_left hxy (le_of_lt hpos))
      omega
    | pinf => rw [hp]; exact (wordify_range om _).2
    | ninf => simp [Flt.le] at hst
    | nan => simp [Flt.le] at hst
  | pinf =>
    cases t with
    | pinf => exact le_rfl
    | fin y => simp [Flt.le] at hst
    | ninf => simp [Flt.le] at hst
    | nan => simp [Flt.le] at hst
  | ninf => rw [hn]; exact (wordify_range om _).1
  | nan => cases t <;> simp [Flt.le] at hst

/-- C19: with the scale `scale_w` finite and positive (as `vf_conversion` sets
it), `wordify` returns for every finite score `s` the product `scale_w * s`
rounded to the nearest integer, halfway cases away from zero, clamped to the
signed 16-bit range `[-32768, 32767]`, and for an infinite score the end of
that range on its side; it is monotone non-decreasing in the score; and with
the scale 500 the score 3.2 becomes 1600. -/
theorem C19_wordify_rounds_and_clamps (om : P7_OM α) (c : α) (hc : om.scale_w = .fin c)
    (hpos : 0 < c) :
    (∀ x : α, wordify om (.fin x) = max (-32768) (min 32767 (roundHalfAway (c * x)))) ∧
    wordify om .pinf = 32767 ∧ wordify om .ninf = -32768 ∧
    (∀ s t : Flt α, Flt.le s t = true → wordify om s ≤ wordify om t) ∧
    (∀ om1 : P7_OM α, om1.scale_w = .fin 500 → wordify om1 (.fin (32 / 10)) = 1600) := by
  refine ⟨fun x => wordify_fin om c x hc, (wordify_inf om c hc hpos).1,
    (wordify_inf om c hc hpos).2, wordify_mono om c hc hpos, ?_⟩
  intro om1 h1
  rw [wordify_fin om1 500 _ h1]
  have : (500 : α) * (32 / 10) = ((1600 : Int) : α) := by norm_num
  rw [this, roundHalfAway_intCast]
  rfl

end Wordify
/-! ## Loops that fill tables -/

section FillLoops

variable {σ β : Type}

/-- A loop whose body rewrites one component of the state, read by `get` and
written by `put`, as a function `upd` of that component alone (for states
satisfying `P`, which `put` preserves), is the loop of `upd` on that
component. -/
theorem forUp_lens (get : σ → β) (put : β → σ → σ) (P : σ → Prop) (upd : Nat → β → β)
    (body : Nat → σ → σ) (n : Nat) (s : σ) (hP : P s)
    (hPput : ∀ b s, P s → P (put b s))
    (hput : ∀ b c s, put c (put b s) = put c s)
    (hget : ∀ b s, get (put b s) = b)
    (hid : ∀ s, put (get s) s = s)
    (hbody : ∀ q s, P s → body q s = put (upd q (get s)) s) :
    forUp n body s = put (forUp n upd (get s)) s := by
  induction n with
  | zero => exact (hid s).symm
  | succ k ih =>
    rw [forUp_succ, forUp_succ, ih, hbody k _ (hPput _ _ hP), hget, hput]

/-- Filling row `x` of a two-level table, block by block. -/
theorem forUp_set2_row (v : Nat → β) (x n : Nat) (T : Nat → Nat → β) :
    forUp n (fun q T => set2 T x q (v q)) T
      = fun x1 q1 => if x1 = x ∧ q1 < n then v q1 else T x1 q1 := by
  induction n with
  | zero =>
    funext x1 q1
    simp [forUp]
  | succ k ih =>
    rw [forUp_succ, ih]
    funext x1 q1
    unfold set2
    by_cases hx : x1 = x
    · subst hx
      by_cases hq : q1 = k
      · subst hq
        simp
      · have : q1 < k + 1 ↔ q1 < k := by omega
        simp [hq, this]
    · simp [hx]

/-- Filling the rows `x < m`, each in the blocks `q < n`. -/
theorem forUp_set2_rows (v : Nat → Nat → β) (m n : Nat) (T : Nat → Nat → β) :
    forUp m (fun x T => forUp n (fun q T => set2 T x q (v x q)) T) T
      = fun x1 q1 => if x1 < m ∧ q1 < n then v x1 q1 else T x1 q1 := by
  induction m with
  | zero =>
    funext x1 q1
    simp [forUp]
  | succ k ih =>
    rw [forUp_succ, ih, forUp_set2_row]
    funext x1 q1
    by_cases hx : x1 = k
    · subst hx
      by_cases hq : q1 < n
      · simp [hq]
      · simp [hq]
    · have : x1 < k + 1 ↔ x1 < k := by omega
      simp [hx, this]

/-- Storing `n` values at consecutive indices counted by `j`. -/
theorem forUp_push (v : Nat → β) (n : Nat) (T : Nat → β) (j0 : Nat) :
    forUp n (fun t (s : (Nat → β) × Nat) => (Function.update s.1 s.2 (v t), s.2 + 1)) (T, j0)
      = (fun i => if j0 ≤ i ∧ i < j0 + n then v (i - j0) else T i, j0 + n) := by
  induction n with
  | zero =>
    simp only [forUp, Nat.add_zero]
    congr 1
    funext i
    have : ¬ (j0 ≤ i ∧ i < j0) := by omega
    simp [this]
  | succ k ih =>
    rw [forUp_succ, ih]
    simp only
    congr 1
    funext i
    by_cases hi : i = j0 + k
    · subst hi
      have h1 : j0 ≤ j0 + k ∧ j0 + k < j0 + (k + 1) := by omega
      simp [h1]
    · have h2 : (j0 ≤ i ∧ i < j0 + (k + 1)) ↔ (j0 ≤ i ∧ i < j0 + k) := by omega
      simp [hi, h2]

/-- Storing `n` groups of `m` values at consecutive indices counted by `j`. -/
theorem forUp_push_groups (v : Nat → Nat → β) (m n : Nat) (T : Nat → β) :
    forUp n (fun q (s : (Nat → β) × Nat) =>
        forUp m (fun t (s : (Nat → β) × Nat) => (Function.update s.1 s.2 (v q t), s.2 + 1)) s)
      (T, 0)
      = (fun i => if i < m * n then v (i / m) (i % m) else T i, m * n) := by
  induction n with
  | zero =>
    simp [forUp]
  | succ k ih =>
    rw [forUp_succ, ih, forUp_push]
    have e : m * k + m = m * (k + 1) := by ring
    rw [e]
    congr 1
    funext i
    rcases Nat.eq_zero_or_pos m with hm | hm
    · subst hm
      simp
    · by_cases h1 : i < m * k
      · have h2 : i < m * (k + 1) := by nlinarith
        have h3 : ¬ (m * k ≤ i ∧ i < m * (k + 1)) := by omega
        simp [h1, h2, h3]
      · by_cases h2 : i < m * (k + 1)
        · have h3 : m * k ≤ i ∧ i < m * (k + 1) := ⟨by omega, h2⟩
          have hd : i / m = k := by
            apply Nat.div_eq_of_lt_le
            · rw [Nat.mul_comm]; omega
            · rw [Nat.mul_comm]; exact h2
          have hmod : i % m = i - m * k := by
            have := Nat.div_add_mod i m
            rw [hd] at this
            omega
          simp [h1, h2, h3, hd, hmod]
        · have h3 : ¬ (m * k ≤ i ∧ i < m * (k + 1)) := by omega
          simp [h1, h2, h3]

/-- Storing one value per index `z < n`. -/
theorem forUp_update_each (v : Nat → β) (n : Nat) (T : Nat → β) :
    forUp n (fun z T => Function.update T z (v z)) T
      = fun i => if i < n then v i else T i := by
  induction n with
  | zero =>
    funext i
    simp [forUp]
  | succ k ih =>
    rw [forUp_succ, ih]
    funext i
    by_cases hi : i = k
    · subst hi
      simp
    · have : i < k + 1 ↔ i < k := by omega
      simp [hi, this]

end FillLoops
/-! ## The conversions in closed form -/

section ConversionForms

variable {α : Type} [LinearOrderedField α] [FloorRing α]

theorem biased_byteify_eq (om : P7_OM α) (sc : Flt α) :
    biased_byteify om sc = biased_cost om.scale_b om.bias_b sc := rfl

theorem unbiased_byteify_eq (om : P7_OM α) (sc : Flt α) :
    unbiased_byteify om sc = unbiased_cost om.scale_b sc := rfl

theorem wordify_eq (om : P7_OM α) (sc : Flt α) : wordify om sc = word_cost om.scale_w sc := rfl

/-- The loops of `mf_conversion` over residues and blocks fill `rbv`. -/
theorem mf_stripes (h : Headers α) (gm : P7_PROFILE α) (om : P7_OM α)
    (hs : om.scale_b = mf_scale h) (hb : om.bias_b = mf_bias h gm) :
    forUp gm.abc.Kp (fun x om => forUp (h.p7O_NQB gm.M) (mf_stripe_body gm (h.p7O_NQB gm.M) x) om)
        om
      = { om with rbv := fun x q =>
            if x < gm.abc.Kp ∧ q < h.p7O_NQB gm.M then mf_rbv h gm x q else om.rbv x q } := by
  have inner : ∀ x (s : P7_OM α), (s.scale_b = mf_scale h ∧ s.bias_b = mf_bias h gm) →
      forUp (h.p7O_NQB gm.M) (mf_stripe_body gm (h.p7O_NQB gm.M) x) s
        = { s with rbv := forUp (h.p7O_NQB gm.M)
                              (fun q T => set2 T x q (mf_rbv h gm x q)) s.rbv } := by
    intro x s hP
    apply forUp_lens (fun s : P7_OM α => s.rbv) (fun b s => { s with rbv := b })
      (fun s => s.scale_b = mf_scale h ∧ s.bias_b = mf_bias h gm)
      (fun q T => set2 T x q (mf_rbv h gm x q)) _ _ s hP
    · intro b s hs; exact hs
    · intro b c s; rfl
    · intro b s; rfl
    · intro s; rfl
    · intro q s hs
      obtain ⟨h1, h2⟩ := hs
      unfold mf_stripe_body
      have : (fun z : Fin 16 =>
          if q + 1 + z.val * h.p7O_NQB gm.M ≤ gm.M then
            biased_byteify s (p7P_MSC gm (q + 1 + z.val * h.p7O_NQB gm.M) x) else 255)
          = mf_rbv h gm x q := by
        funext z
        unfold mf_rbv
        rw [biased_byteify_eq, h1, h2]
      simp only [this]
  have outer := forUp_lens (fun s : P7_OM α => s.rbv) (fun b s => { s with rbv := b })
    (fun s => s.scale_b = mf_scale h ∧ s.bias_b = mf_bias h gm)
    (fun x T => forUp (h.p7O_NQB gm.M) (fun q T => set2 T x q (mf_rbv h gm x q)) T)
    (fun x om => forUp (h.p7O_NQB gm.M) (mf_stripe_body gm (h.p7O_NQB gm.M) x) om)
    gm.abc.Kp om ⟨hs, hb⟩ (fun b s hs => hs) (fun b c s => rfl) (fun b s => rfl) (fun s => rfl)
    (fun x s hP => inner x s hP)
  rw [outer, forUp_set2_rows]

/-- A call of `mf_conversion` on a profile with enough byte vectors returns
`eslOK` and leaves `mf_fill`. -/
theorem mf_conversion_eq (h : Headers α) (gm : P7_PROFILE α) (om : P7_OM α)
    (hcap : h.p7O_NQB gm.M ≤ om.allocQ16) :
    mf_conversion h gm om = (eslOK, mf_fill h gm om) := by
  unfold mf_conversion
  simp only [not_lt.mpr hcap, if_false]
  rw [mf_stripes h gm _ rfl rfl]
  rfl

/-- A call of `mf_conversion` on a profile with too few byte vectors returns
`eslEINVAL` and leaves the profile as it was. -/
theorem mf_conversion_small (h : Headers α) (gm : P7_PROFILE α) (om : P7_OM α)
    (hcap : om.allocQ16 < h.p7O_NQB gm.M) :
    mf_conversion h gm om = (eslEINVAL, om) := by
  unfold mf_conversion
  simp only [hcap, if_true]

/-- The loops of `vf_conversion` over residues and blocks fill `rwv`. -/
theorem vf_stripes (h : Headers α) (gm : P7_PROFILE α) (om : P7_OM α)
    (hs : om.scale_w = vf_scale h) :
    forUp gm.abc.Kp (fun x om => forUp (h.p7O_NQW gm.M) (vf_stripe_body gm (h.p7O_NQW gm.M) x) om)
        om
      = { om with rwv := fun x q =>
            if x < gm.abc.Kp ∧ q < h.p7O_NQW gm.M then vf_rwv h gm x q else om.rwv x q } := by
  have inner : ∀ x (s : P7_OM α), s.scale_w = vf_scale h →
      forUp (h.p7O_NQW gm.M) (vf_stripe_body gm (h.p7O_NQW gm.M) x) s
        = { s with rwv := forUp (h.p7O_NQW gm.M)
                              (fun q T => set2 T x q (vf_rwv h gm x q)) s.rwv } := by
    intro x s hP
    apply forUp_lens (fun s : P7_OM α => s.rwv) (fun b s => { s with rwv := b })
      (fun s => s.scale_w = vf_scale h)
      (fun q T => set2 T x q (vf_rwv h gm x q)) _ _ s hP
    · intro b s hs; exact hs
    · intro b c s; rfl
    · intro b s; rfl
    · intro s; rfl
    · intro q s hs
      unfold vf_stripe_body
      have : (fun z : Fin 8 =>
          if q + 1 + z.val * h.p7O_NQW gm.M ≤ gm.M then
            wordify s (p7P_MSC gm (q + 1 + z.val * h.p7O_NQW gm.M) x) else -32768)
          = vf_rwv h gm x q := by
        funext z
        unfold vf_rwv
        rw [wordify_eq, hs]
      simp only [this]
  have outer := forUp_lens (fun s : P7_OM α => s.rwv) (fun b s => { s with rwv := b })
    (fun s => s.scale_w = vf_scale h)
    (fun x T => forUp (h.p7O_NQW gm.M) (fun q T => set2 T x q (vf_rwv h gm x q)) T)
    (fun x om => forUp (h.p7O_NQW gm.M) (vf_stripe_body gm (h.p7O_NQW gm.M) x) om)
    gm.abc.Kp om hs (fun b s hs => hs) (fun b c s => rfl) (fun b s => rfl) (fun s => rfl)
    (fun x s hP => inner x s hP)
  rw [outer, forUp_set2_rows]

/-- The loop of `vf_conversion` over blocks and transitions fills
`twv[0 .. 7*nq-1]` and leaves the counter at `7*nq`. -/
theorem vf_transitions (h : Headers α) (gm : P7_PROFILE α) (om : P7_OM α)
    (hs : om.scale_w = vf_scale h) :
    forUp (h.p7O_NQW gm.M) (fun q s => forUp 7 (vf_trans_body gm (h.p7O_NQW gm.M) q) s) (om, 0)
      = ({ om with twv := fun i =>
             if i < 7 * h.p7O_NQW gm.M then vf_twv h gm (i / 7) (i % 7) else om.twv i },
         7 * h.p7O_NQW gm.M) := by
  have inner : ∀ q (s : P7_OM α × Nat), s.1.scale_w = vf_scale h →
      forUp 7 (vf_trans_body gm (h.p7O_NQW gm.M) q) s
        = ({ s.1 with twv := (forUp 7 (fun t (b : (Nat → Fin 8 → Int) × Nat) =>
                (Function.update b.1 b.2 (vf_twv h gm q t), b.2 + 1)) (s.1.twv, s.2)).1 },
           (forUp 7 (fun t (b : (Nat → Fin 8 → Int) × Nat) =>
                (Function.update b.1 b.2 (vf_twv h gm q t), b.2 + 1)) (s.1.twv, s.2)).2) := by
    intro q s hP
    exact forUp_lens (fun s : P7_OM α × Nat => (s.1.twv, s.2))
      (fun b s => ({ s.1 with twv := b.1 }, b.2))
      (fun s => s.1.scale_w = vf_scale h)
      (fun t (b : (Nat → Fin 8 → Int) × Nat) =>
        (Function.update b.1 b.2 (vf_twv h gm q t), b.2 + 1))
      (vf_trans_body gm (h.p7O_NQW gm.M) q) 7 s hP
      (fun b s hs => hs) (fun b c s => rfl) (fun b s => rfl) (fun s => rfl)
      (fun t s hs => by
        unfold vf_trans_body
        have : (fun z : Fin 8 =>
            let val : Int :=
              if (vf_switch t (q + 1)).2.1 + z.val * h.p7O_NQW gm.M < gm.M then
                wordify s.1 (p7P_TSC gm ((vf_switch t (q + 1)).2.1 + z.val * h.p7O_NQW gm.M)
                  (vf_switch t (q + 1)).1)
              else -32768
            if val ≤ (vf_switch t (q + 1)).2.2 then val else (vf_switch t (q + 1)).2.2)
            = vf_twv h gm q t := by
          funext z
          unfold vf_twv
          rw [wordify_eq, hs]
        simp only [this])
  have outer := forUp_lens (fun s : P7_OM α × Nat => (s.1.twv, s.2))
    (fun b s => ({ s.1 with twv := b.1 }, b.2))
    (fun s => s.1.scale_w = vf_scale h)
    (fun q (b : (Nat → Fin 8 → Int) × Nat) =>
      forUp 7 (fun t (b : (Nat → Fin 8 → Int) × Nat) =>
        (Function.update b.1 b.2 (vf_twv h gm q t), b.2 + 1)) b)
    (fun q s => forUp 7 (vf_trans_body gm (h.p7O_NQW gm.M) q) s)
    (h.p7O_NQW gm.M) (om, 0) hs (fun b s hs => hs) (fun b c s => rfl) (fun b s => rfl)
    (fun s => rfl) (fun q s hP => inner q s hP)
  rw [outer]
  have hp := forUp_push_groups (fun q t => vf_twv h gm q t) 7 (h.p7O_NQW gm.M) om.twv
  simp only at hp ⊢
  rw [hp]

/-- The loop of `vf_conversion` over blocks storing the DD vectors fills
`twv[j0 .. j0+nq-1]`. -/
theorem vf_dds (h : Headers α) (gm : P7_PROFILE α) (om : P7_OM α) (j0 : Nat)
    (hs : om.scale_w = vf_scale h) :
    forUp (h.p7O_NQW gm.M) (vf_dd_body gm (h.p7O_NQW gm.M)) (om, j0)
      = ({ om with twv := fun i =>
             if j0 ≤ i ∧ i < j0 + h.p7O_NQW gm.M then vf_ddv h gm (i - j0) else om.twv i },
         j0 + h.p7O_NQW gm.M) := by
  have l := forUp_lens (fun s : P7_OM α × Nat => (s.1.twv, s.2))
    (fun b s => ({ s.1 with twv := b.1 }, b.2))
    (fun s => s.1.scale_w = vf_scale h)
    (fun q (b : (Nat → Fin 8 → Int) × Nat) =>
      (Function.update b.1 b.2 (vf_ddv h gm q), b.2 + 1))
    (vf_dd_body gm (h.p7O_NQW gm.M)) (h.p7O_NQW gm.M) (om, j0) hs
    (fun b s hs => hs) (fun b c s => rfl) (fun b s => rfl) (fun s => rfl)
    (fun q s hs => by
      unfold vf_dd_body
      have : (fun z : Fin 8 =>
          if q + 1 + z.val * h.p7O_NQW gm.M < gm.M then
            wordify s.1 (p7P_TSC gm (q + 1 + z.val * h.p7O_NQW gm.M) p7P_DD) else -32768)
          = vf_ddv h gm q := by
        funext z
        unfold vf_ddv
        rw [wordify_eq, hs]
      simp only [this])
  rw [l]
  have hp := forUp_push (fun q => vf_ddv h gm q) (h.p7O_NQW gm.M) om.twv j0
  simp only at hp ⊢
  rw [hp]

/-- The loop of `vf_conversion` that finds the DD bound. -/
theorem vf_ddbound_loop (h : Headers α) (gm : P7_PROFILE α) (n : Nat) (om : P7_OM α)
    (hs : om.scale_w = vf_scale h) :
    forUp n (vf_ddbound_body gm) om
      = { om with ddbound_w := forUp n (vf_ddbound_upd h gm) om.ddbound_w } := by
  exact forUp_lens (fun s : P7_OM α => s.ddbound_w) (fun b s => { s with ddbound_w := b })
    (fun s => s.scale_w = vf_scale h) (vf_ddbound_upd h gm) (vf_ddbound_body gm) n om hs
    (fun b s hs => hs) (fun b c s => rfl) (fun b s => rfl) (fun s => rfl)
    (fun i s hs => by
      unfold vf_ddbound_body vf_ddbound_upd
      simp only [wordify_eq, hs])

/-- The eight stores of `vf_conversion` into `xw` set the whole table. -/
theorem vf_xw_stores (W : Flt α) (gm : P7_PROFILE α) (xw : p7o_xstates_e → p7o_xtransitions_e → Int)
    (h : Headers α) (hW : W = vf_scale h) :
    set2x (set2x (set2x (set2x (set2x (set2x (set2x (set2x xw
      p7O_E p7O_LOOP (word_cost W (gm.xsc p7P_E p7P_LOOP)))
      p7O_E p7O_MOVE (word_cost W (gm.xsc p7P_E p7P_MOVE)))
      p7O_N p7O_MOVE (word_cost W (gm.xsc p7P_N p7P_MOVE)))
      p7O_N p7O_LOOP 0)
      p7O_C p7O_MOVE (word_cost W (gm.xsc p7P_C p7P_MOVE)))
      p7O_C p7O_LOOP 0)
      p7O_J p7O_MOVE (word_cost W (gm.xsc p7P_J p7P_MOVE)))
      p7O_J p7O_LOOP 0
      = vf_xw h gm := by
  subst hW
  funext s t
  cases s <;> cases t <;> simp [set2x, vf_xw]

/-- A call of `vf_conversion` on a profile with enough word vectors returns
`eslOK` and leaves `vf_fill`. -/
theorem vf_conversion_eq (h : Headers α) (gm : P7_PROFILE α) (om : P7_OM α)
    (hcap : h.p7O_NQW gm.M ≤ om.allocQ8) :
    vf_conversion h gm om = (eslOK, vf_fill h gm om) := by
  unfold vf_conversion
  simp only [not_lt.mpr hcap, if_false]
  rw [vf_stripes h gm _ rfl, vf_transitions h gm _ rfl]
  simp only
  rw [vf_dds h gm _ _ rfl]
  simp only [wordify_eq]
  rw [vf_ddbound_loop h gm _ _ rfl]
  simp only
  rw [vf_xw_stores ((Flt.fin 500).div h.eslCONST_LOG2) gm _ h rfl]
  rfl

theorem vf_conversion_small (h : Headers α) (gm : P7_PROFILE α) (om : P7_OM α)
    (hcap : om.allocQ8 < h.p7O_NQW gm.M) :
    vf_conversion h gm om = (eslEINVAL, om) := by
  unfold vf_conversion
  simp only [hcap, if_true]

/-- The loops of `fb_conversion` over residues and blocks fill `rfv`. -/
theorem fb_stripes (h : Headers α) (gm : P7_PROFILE α) (om : P7_OM α) :
    forUp gm.abc.Kp
        (fun x om => forUp (h.p7O_NQF gm.M) (fb_stripe_body h gm (h.p7O_NQF gm.M) x) om) om
      = { om with rfv := fun x q =>
            if x < gm.abc.Kp ∧ q < h.p7O_NQF gm.M then fb_rfv h gm x q else om.rfv x q } := by
  have inner : ∀ x (s : P7_OM α), True →
      forUp (h.p7O_NQF gm.M) (fb_stripe_body h gm (h.p7O_NQF gm.M) x) s
        = { s with rfv := forUp (h.p7O_NQF gm.M)
                              (fun q T => set2 T x q (fb_rfv h gm x q)) s.rfv } := by
    intro x s hP
    exact forUp_lens (fun s : P7_OM α => s.rfv) (fun b s => { s with rfv := b })
      (fun _ => True)
      (fun q T => set2 T x q (fb_rfv h gm x q)) _ _ s hP
      (fun b s hs => hs) (fun b c s => rfl) (fun b s => rfl) (fun s => rfl)
      (fun q s hs => rfl)
  have outer := forUp_lens (fun s : P7_OM α => s.rfv) (fun b s => { s with rfv := b })
    (fun _ => True)
    (fun x T => forUp (h.p7O_NQF gm.M) (fun q T => set2 T x q (fb_rfv h gm x q)) T)
    (fun x om => forUp (h.p7O_NQF gm.M) (fb_stripe_body h gm (h.p7O_NQF gm.M) x) om)
    gm.abc.Kp om trivial (fun b s hs => hs) (fun b c s => rfl) (fun b s => rfl) (fun s => rfl)
    (fun x s hP => inner x s hP)
  rw [outer, forUp_set2_rows]

/-- The loop of `fb_conversion` over blocks and transitions fills
`tfv[0 .. 7*nq-1]` and leaves the counter at `7*nq`. -/
theorem fb_transitions (h : Headers α) (gm : P7_PROFILE α) (om : P7_OM α) :
    forUp (h.p7O_NQF gm.M) (fun q s => forUp 7 (fb_trans_body h gm (h.p7O_NQF gm.M) q) s) (om, 0)
      = ({ om with tfv := fun i =>
             if i < 7 * h.p7O_NQF gm.M then fb_tfv h gm (i / 7) (i % 7) else om.tfv i },
         7 * h.p7O_NQF gm.M) := by
  have inner : ∀ q (s : P7_OM α × Nat), True →
      forUp 7 (fb_trans_body h gm (h.p7O_NQF gm.M) q) s
        = ({ s.1 with tfv := (forUp 7 (fun t (b : (Nat → M128 (Flt α)) × Nat) =>
                (Function.update b.1 b.2 (fb_tfv h gm q t), b.2 + 1)) (s.1.tfv, s.2)).1 },
           (forUp 7 (fun t (b : (Nat → M128 (Flt α)) × Nat) =>
                (Function.update b.1 b.2 (fb_tfv h gm q t), b.2 + 1)) (s.1.tfv, s.2)).2) := by
    intro q s hP
    exact forUp_lens (fun s : P7_OM α × Nat => (s.1.tfv, s.2))
      (fun b s => ({ s.1 with tfv := b.1 }, b.2))
      (fun _ => True)
      (fun t (b : (Nat → M128 (Flt α)) × Nat) =>
        (Function.update b.1 b.2 (fb_tfv h gm q t), b.2 + 1))
      (fb_trans_body h gm (h.p7O_NQF gm.M) q) 7 s hP
      (fun b s hs => hs) (fun b c s => rfl) (fun b s => rfl) (fun s => rfl)
      (fun t s hs => rfl)
  have outer := forUp_lens (fun s : P7_OM α × Nat => (s.1.tfv, s.2))
    (fun b s => ({ s.1 with tfv := b.1 }, b.2))
    (fun _ => True)
    (fun q (b : (Nat → M128 (Flt α)) × Nat) =>
      forUp 7 (fun t (b : (Nat → M128 (Flt α)) × Nat) =>
        (Function.update b.1 b.2 (fb_tfv h gm q t), b.2 + 1)) b)
    (fun q s => forUp 7 (fb_trans_body h gm (h.p7O_NQF gm.M) q) s)
    (h.p7O_NQF gm.M) (om, 0) trivial (fun b s hs => hs) (fun b c s => rfl) (fun b s => rfl)
    (fun s => rfl) (fun q s hP => inner q s hP)
  rw [outer]
  have hp := forUp_push_groups (fun q t => fb_tfv h gm q t) 7 (h.p7O_NQF gm.M) om.tfv
  simp only at hp ⊢
  rw [hp]

/-- The loop of `fb_conversion` over blocks storing the DD vectors fills
`tfv[j0 .. j0+nq-1]`. -/
theorem fb_dds (h : Headers α) (gm : P7_PROFILE α) (om : P7_OM α) (j0 : Nat) :
    forUp (h.p7O_NQF gm.M) (fb_dd_body h gm (h.p7O_NQF gm.M)) (om, j0)
      = ({ om with tfv := fun i =>
             if j0 ≤ i ∧ i < j0 + h.p7O_NQF gm.M then fb_ddv h gm (i - j0) else om.tfv i },
         j0 + h.p7O_NQF gm.M) := by
  have l := forUp_lens (fun s : P7_OM α × Nat => (s.1.tfv, s.2))
    (fun b s => ({ s.1 with tfv := b.1 }, b.2))
    (fun _ => True)
    (fun q (b : (Nat → M128 (Flt α)) × Nat) =>
      (Function.update b.1 b.2 (fb_ddv h gm q), b.2 + 1))
    (fb_dd_body h gm (h.p7O_NQF gm.M)) (h.p7O_NQF gm.M) (om, j0) trivial
    (fun b s hs => hs) (fun b c s => rfl) (fun b s => rfl) (fun s => rfl)
    (fun q s hs => rfl)
  rw [l]
  have hp := forUp_push (fun q => fb_ddv h gm q) (h.p7O_NQF gm.M) om.tfv j0
  simp only at hp ⊢
  rw [hp]

/-- The eight stores of `fb_conversion` into `xf` set the whole table. -/
theorem fb_xf_stores (h : Headers α) (gm : P7_PROFILE α)
    (xf : p7o_xstates_e → p7o_xtransitions_e → Flt α) :
    set2x (set2x (set2x (set2x (set2x (set2x (set2x (set2x xf
      p7O_E p7O_LOOP (h.expf (gm.xsc p7P_E p7P_LOOP)))
      p7O_E p7O_MOVE (h.expf (gm.xsc p7P_E p7P_MOVE)))
      p7O_N p7O_LOOP (h.expf (gm.xsc p7P_N p7P_LOOP)))
      p7O_N p7O_MOVE (h.expf (gm.xsc p7P_N p7P_MOVE)))
      p7O_C p7O_LOOP (h.expf (gm.xsc p7P_C p7P_LOOP)))
      p7O_C p7O_MOVE (h.expf (gm.xsc p7P_C p7P_MOVE)))
      p7O_J p7O_LOOP (h.expf (gm.xsc p7P_J p7P_LOOP)))
      p7O_J p7O_MOVE (h.expf (gm.xsc p7P_J p7P_MOVE))
      = fb_xf h gm := by
  funext s t
  cases s <;> cases t <;> simp [set2x, fb_xf]

/-- A call of `fb_conversion` on a profile with enough float vectors returns
`eslOK` and leaves `fb_fill`. -/
theorem fb_conversion_eq (h : Headers α) (gm : P7_PROFILE α) (om : P7_OM α)
    (hcap : h.p7O_NQF gm.M ≤ om.allocQ4) :
    fb_conversion h gm om = (eslOK, fb_fill h gm om) := by
  unfold fb_conversion
  simp only [not_lt.mpr hcap, if_false]
  rw [fb_stripes h gm _, fb_transitions h gm _]
  simp only
  rw [fb_dds h gm _ _]
  simp only
  rw [fb_xf_stores h gm _]
  rfl

theorem fb_conversion_small (h : Headers α) (gm : P7_PROFILE α) (om : P7_OM α)
    (hcap : om.allocQ4 < h.p7O_NQF gm.M) :
    fb_conversion h gm om = (eslEINVAL, om) := by
  unfold fb_conversion
  simp only [hcap, if_true]

/-- The copy of the annotation and of the scalar fields at the end of
`p7_oprofile_Convert`. -/
theorem copy_loops (h : Headers α) (gm : P7_PROFILE α) (om : P7_OM α) :
    forUp h.p7_MAXABET (fun z (om : P7_OM α) =>
        { om with compo := Function.update om.compo z (gm.compo z) })
      (forUp h.p7_NCUTOFFS (fun z (om : P7_OM α) =>
        { om with cutoff := Function.update om.cutoff z (gm.cutoff z) })
      (forUp h.p7_NEVPARAM (fun z (om : P7_OM α) =>
        { om with evparam := Function.update om.evparam z (gm.evparam z) }) om))
      = { om with
          evparam := fun z => if z < h.p7_NEVPARAM then gm.evparam z else om.evparam z
          cutoff := fun z => if z < h.p7_NCUTOFFS then gm.cutoff z else om.cutoff z
          compo := fun z => if z < h.p7_MAXABET then gm.compo z else om.compo z } := by
  have l1 : ∀ (n : Nat) (s : P7_OM α),
      forUp n (fun z (om : P7_OM α) =>
        { om with evparam := Function.update om.evparam z (gm.evparam z) }) s
      = { s with evparam := forUp n (fun z T => Function.update T z (gm.evparam z)) s.evparam } :=
    fun n s => forUp_lens (fun s : P7_OM α => s.evparam) (fun b s => { s with evparam := b })
      (fun _ => True) (fun z T => Function.update T z (gm.evparam z)) _ n s trivial
      (fun b s hs => hs) (fun b c s => rfl) (fun b s => rfl) (fun s => rfl) (fun q s hs => rfl)
  have l2 : ∀ (n : Nat) (s : P7_OM α),
      forUp n (fun z (om : P7_OM α) =>
        { om with cutoff := Function.update om.cutoff z (gm.cutoff z) }) s
      = { s with cutoff := forUp n (fun z T => Function.update T z (gm.cutoff z)) s.cutoff } :=
    fun n s => forUp_lens (fun s : P7_OM α => s.cutoff) (fun b s => { s with cutoff := b })
      (fun _ => True) (fun z T => Function.update T z (gm.cutoff z)) _ n s trivial
      (fun b s hs => hs) (fun b c s => rfl) (fun b s => rfl) (fun s => rfl) (fun q s hs => rfl)
  have l3 : ∀ (n : Nat) (s : P7_OM α),
      forUp n (fun z (om : P7_OM α) =>
        { om with compo := Function.update om.compo z (gm.compo z) }) s
      = { s with compo := forUp n (fun z T => Function.update T z (gm.compo z)) s.compo } :=
    fun n s => forUp_lens (fun s : P7_OM α => s.compo) (fun b s => { s with compo := b })
      (fun _ => True) (fun z T => Function.update T z (gm.compo z)) _ n s trivial
      (fun b s hs => hs) (fun b c s => rfl) (fun b s => rfl) (fun s => rfl) (fun q s hs => rfl)
  rw [l1, l2, l3]
  simp only [forUp_update_each]

end ConversionForms
/-! ## p7_oprofile_Convert -/

section ConvertFacts

variable {α : Type} [LinearOrderedField α] [FloorRing α]

/-- What `p7_oprofile_Create` returns when it finds memory: the allocation
fields are those of `allocM`, the alphabet is `abc`. -/
theorem p7_oprofile_Create_some (h : Headers α) (alloc_ok : Bool) (uninit : P7_OM α)
    (allocM : Nat) (abc : ESL_ALPHABET) (om : P7_OM α)
    (hc : p7_oprofile_Create h alloc_ok uninit allocM abc = some om) :
    OmAllocated h om ∧ om.allocM = allocM ∧ om.abc = abc := by
  unfold p7_oprofile_Create at hc
  simp only at hc
  split_ifs at hc with h1
  have hc := (Option.some.inj hc).symm
  have l1 : ∀ (n : Nat) (s : P7_OM α),
      forUp n (fun x (om : P7_OM α) => { om with offs := Function.update om.offs x (-1) }) s
      = { s with offs := forUp n (fun x T => Function.update T x (-1)) s.offs } :=
    fun n s => forUp_lens (fun s : P7_OM α => s.offs) (fun b s => { s with offs := b })
      (fun _ => True) (fun x T => Function.update T x (-1)) _ n s trivial
      (fun b s hs => hs) (fun b c s => rfl) (fun b s => rfl) (fun s => rfl) (fun q s hs => rfl)
  have l2 : ∀ (n : Nat) (s : P7_OM α),
      forUp n (fun x (om : P7_OM α) =>
        { om with evparam := Function.update om.evparam x h.p7_EVPARAM_UNSET }) s
      = { s with evparam :=
            forUp n (fun x T => Function.update T x h.p7_EVPARAM_UNSET) s.evparam } :=
    fun n s => forUp_lens (fun s : P7_OM α => s.evparam) (fun b s => { s with evparam := b })
      (fun _ => True) (fun x T => Function.update T x h.p7_EVPARAM_UNSET) _ n s trivial
      (fun b s hs => hs) (fun b c s => rfl) (fun b s => rfl) (fun s => rfl) (fun q s hs => rfl)
  have l3 : ∀ (n : Nat) (s : P7_OM α),
      forUp n (fun x (om : P7_OM α) =>
        { om with cutoff := Function.update om.cutoff x h.p7_CUTOFF_UNSET }) s
      = { s with cutoff :=
            forUp n (fun x T => Function.update T x h.p7_CUTOFF_UNSET) s.cutoff } :=
    fun n s => forUp_lens (fun s : P7_OM α => s.cutoff) (fun b s => { s with cutoff := b })
      (fun _ => True) (fun x T => Function.update T x h.p7_CUTOFF_UNSET) _ n s trivial
      (fun b s hs => hs) (fun b c s => rfl) (fun b s => rfl) (fun s => rfl) (fun q s hs => rfl)
  have l4 : ∀ (n : Nat) (s : P7_OM α),
      forUp n (fun x (om : P7_OM α) =>
        { om with compo := Function.update om.compo x h.p7_COMPO_UNSET }) s
      = { s with compo :=
            forUp n (fun x T => Function.update T x h.p7_COMPO_UNSET) s.compo } :=
    fun n s => forUp_lens (fun s : P7_OM α => s.compo) (fun b s => { s with compo := b })
      (fun _ => True) (fun x T => Function.update T x h.p7_COMPO_UNSET) _ n s trivial
      (fun b s hs => hs) (fun b c s => rfl) (fun b s => rfl) (fun s => rfl) (fun q s hs => rfl)
  rw [l1, l2, l3, l4] at hc
  subst hc
  exact ⟨⟨rfl, rfl, rfl⟩, rfl, rfl⟩

/-- The two argument checks of `p7_oprofile_Convert`: a different alphabet type
or too many nodes give `eslEINVAL` at once, with the profile untouched. -/
theorem p7_oprofile_Convert_rejects (h : Headers α) (mem : Nat → Bool) (gm : P7_PROFILE α)
    (om : P7_OM α) (hbad : gm.abc.type ≠ om.abc.type ∨ om.allocM < gm.M) :
    p7_oprofile_Convert h mem gm om = (eslEINVAL, om) := by
  unfold p7_oprofile_Convert
  by_cases h1 : gm.abc.type ≠ om.abc.type
  · rw [if_pos h1]
  · rw [if_neg h1]
    rcases hbad with hb | hb
    · exact absurd hb h1
    · rw [if_pos hb]

/-- With monotone vector counts, a profile allocated for `allocM` nodes has
room for the three tracks of every model of at most `allocM` nodes. -/
theorem capacity_of_allocated (h : Headers α) (gm : P7_PROFILE α) (om : P7_OM α)
    (hmono : HeadersMono h) (halloc : OmAllocated h om) (hM : gm.M ≤ om.allocM) :
    h.p7O_NQB gm.M ≤ om.allocQ16 ∧ h.p7O_NQW gm.M ≤ om.allocQ8 ∧
    h.p7O_NQF gm.M ≤ om.allocQ4 := by
  obtain ⟨m1, m2, m3⟩ := hmono
  obtain ⟨a1, a2, a3⟩ := halloc
  rw [a1, a2, a3]
  exact ⟨m1 hM, m2 hM, m3 hM⟩

theorem esl_strdup_ok (b : Bool) (s : Option (List Char)) (hs : s = none ∨ b = true) :
    esl_strdup b s = (eslOK, s) := by
  unfold esl_strdup
  rcases hs with hs | hs
  · subst hs; rfl
  · subst hs
    cases s <;> rfl

theorem esl_strdup_cases (b : Bool) (s : Option (List Char)) :
    esl_strdup b s = (eslOK, s) ∨ esl_strdup b s = (eslEMEM, none) := by
  unfold esl_strdup
  cases s with
  | none => left; rfl
  | some t =>
    cases b
    · right; rfl
    · left; rfl

/-- Past its argument checks, with room for the three tracks,
`p7_oprofile_Convert` writes the three tracks and then either copies the
annotation and returns `eslOK`, or returns `eslEMEM` from a failed string
duplication with only `name`, `acc` and `desc` touched beyond the tracks. -/
theorem p7_oprofile_Convert_cases (h : Headers α) (mem : Nat → Bool) (gm : P7_PROFILE α)
    (om : P7_OM α) (ht : gm.abc.type = om.abc.type) (hM : gm.M ≤ om.allocM)
    (hcap : h.p7O_NQB gm.M ≤ om.allocQ16 ∧ h.p7O_NQW gm.M ≤ om.allocQ8 ∧
      h.p7O_NQF gm.M ≤ om.allocQ4) :
    (StrdupOK mem gm ∧ p7_oprofile_Convert h mem gm om = (eslOK, convert_fill h gm om)) ∨
    (¬ StrdupOK mem gm ∧ ∃ n a d, p7_oprofile_Convert h mem gm om
      = (eslEMEM, { tracks_fill h gm om with name := n, acc := a, desc := d })) := by
  obtain ⟨c1, c2, c3⟩ := hcap
  have e1 := mf_conversion_eq h gm om c1
  have e2 := vf_conversion_eq h gm (mf_fill h gm om) c2
  have e3 := fb_conversion_eq h gm (vf_fill h gm (mf_fill h gm om)) c3
  have hpre : p7_oprofile_Convert h mem gm om =
      (let om := tracks_fill h gm om
       let d := esl_strdup (mem 0) gm.name
       let om := { om with name := d.2 }
       if d.1 ≠ eslOK then (d.1, om)
       else
         let d := esl_strdup (mem 1) gm.acc
         let om := { om with acc := d.2 }
         if d.1 ≠ eslOK then (d.1, om)
         else
           let d := esl_strdup (mem 2) gm.desc
           let om := { om with desc := d.2 }
           if d.1 ≠ eslOK then (d.1, om)
           else
             let om := { om with rf := gm.rf }
             let om := { om with cs := gm.cs }
             let om := { om with consensus := gm.consensus }
             let om := forUp h.p7_NEVPARAM (fun z (om : P7_OM α) =>
               { om with evparam := Function.update om.evparam z (gm.evparam z) }) om
             let om := forUp h.p7_NCUTOFFS (fun z (om : P7_OM α) =>
               { om with cutoff := Function.update om.cutoff z (gm.cutoff z) }) om
             let om := forUp h.p7_MAXABET (fun z (om : P7_OM α) =>
               { om with compo := Function.update om.compo z (gm.compo z) }) om
             let om := { om with mode := gm.mode }
             let om := { om with L := gm.L }
             let om := { om with M := gm.M }
             let om := { om with nj := gm.nj }
             (eslOK, om)) := by
    unfold p7_oprofile_Convert
    simp only [ht, ne_eq, not_true_eq_false, if_false, not_lt.mpr hM, e1, e2, e3]
    rfl
  rw [hpre]
  simp only
  rcases esl_strdup_cases (mem 0) gm.name with s0 | s0
  · rcases esl_strdup_cases (mem 1) gm.acc with s1 | s1
    · rcases esl_strdup_cases (mem 2) gm.desc with s2 | s2
      · left
        have hok : StrdupOK mem gm := by
          refine ⟨?_, ?_, ?_⟩
          · by_contra hc
            push_neg at hc
            obtain ⟨a, b⟩ := hc
            cases hn : gm.name with
            | none => exact a hn
            | some t =>
              have hb : mem 0 = false := by simpa using b
              rw [hn, hb] at s0
              simp [esl_strdup] at s0
          · by_contra hc
            push_neg at hc
            obtain ⟨a, b⟩ := hc
            cases hn : gm.acc with
            | none => exact a hn
            | some t =>
              have hb : mem 1 = false := by simpa using b
              rw [hn, hb] at s1
              simp [esl_strdup] at s1
          · by_contra hc
            push_neg at hc
            obtain ⟨a, b⟩ := hc
            cases hn : gm.desc with
            | none => exact a hn
            | some t =>
              have hb : mem 2 = false := by simpa using b
              rw [hn, hb] at s2
              simp [esl_strdup] at s2
        refine ⟨hok, ?_⟩
        rw [s0, s1, s2]
        simp only [ne_eq, not_true_eq_false, if_false]
        rw [copy_loops]
        rfl
      · right
        refine ⟨?_, gm.name, gm.acc, none, ?_⟩
        · rintro ⟨_, _, h3⟩
          rw [esl_strdup_ok _ _ h3] at s2
          simp at s2
        · rw [s0, s1, s2]
          simp
    · right
      refine ⟨?_, gm.name, none, (tracks_fill h gm om).desc, ?_⟩
      · rintro ⟨_, h2, _⟩
        rw [esl_strdup_ok _ _ h2] at s1
        simp at s1
      · rw [s0, s1]
        simp
  · right
    refine ⟨?_, none, (tracks_fill h gm om).acc, (tracks_fill h gm om).desc, ?_⟩
    · rintro ⟨h1, _, _⟩
      rw [esl_strdup_ok _ _ h1] at s0
      simp at s0
    · rw [s0]
      simp

end ConvertFacts
/-! ## Claims about p7_oprofile_Convert -/

section ConvertClaims

variable {α : Type} [LinearOrderedField α] [FloorRing α]

theorem demo_headers_mono : HeadersMono demo_headers := by
  refine ⟨?_, ?_, ?_⟩
  · intro a b hab
    show max 2 ((a - 1) / 16 + 1) ≤ max 2 ((b - 1) / 16 + 1)
    have : (a - 1) / 16 ≤ (b - 1) / 16 := Nat.div_le_div_right (by omega)
    omega
  · intro a b hab
    show max 2 ((a - 1) / 8 + 1) ≤ max 2 ((b - 1) / 8 + 1)
    have : (a - 1) / 8 ≤ (b - 1) / 8 := Nat.div_le_div_right (by omega)
    omega
  · intro a b hab
    show max 2 ((a - 1) / 4 + 1) ≤ max 2 ((b - 1) / 4 + 1)
    have : (a - 1) / 4 ≤ (b - 1) / 4 := Nat.div_le_div_right (by omega)
    omega

theorem demo_created_some (allocM : Nat) (abc : ESL_ALPHABET) :
    p7_oprofile_Create demo_headers true demo_uninit allocM abc
      = some (demo_created allocM abc) := rfl

/-- C14: for a profile `om` made by `p7_oprofile_Create(allocM, abc)`, with
vector counts monotone in the model length, `p7_oprofile_Convert(gm, om)`
returns `eslEINVAL` if and only if the alphabet types differ or
`gm->M > om->allocM`; none of the capacity checks of `mf_conversion`,
`vf_conversion` and `fb_conversion` fails when `gm->M <= om->allocM`; and
whenever `eslEINVAL` is returned, `om` is left exactly as it was. -/
theorem C14_convert_einval_iff (h : Headers α) (alloc_ok : Bool) (uninit : P7_OM α)
    (allocM : Nat) (abc : ESL_ALPHABET) (om : P7_OM α) (mem : Nat → Bool) (gm : P7_PROFILE α)
    (hmono : HeadersMono h)
    (hcreate : p7_oprofile_Create h alloc_ok uninit allocM abc = some om) :
    ((p7_oprofile_Convert h mem gm om).1 = eslEINVAL
      ↔ (gm.abc.type ≠ om.abc.type ∨ om.allocM < gm.M)) ∧
    (gm.M ≤ om.allocM →
      (mf_conversion h gm om).1 = eslOK ∧
      (vf_conversion h gm (mf_conversion h gm om).2).1 = eslOK ∧
      (fb_conversion h gm (vf_conversion h gm (mf_conversion h gm om).2).2).1 = eslOK) ∧
    ((p7_oprofile_Convert h mem gm om).1 = eslEINVAL →
      (p7_oprofile_Convert h mem gm om).2 = om) := by
  obtain ⟨halloc, _, _⟩ := p7_oprofile_Create_some h alloc_ok uninit allocM abc om hcreate
  have key : (p7_oprofile_Convert h mem gm om).1 = eslEINVAL
      ↔ (gm.abc.type ≠ om.abc.type ∨ om.allocM < gm.M) := by
    constructor
    · intro hst
      by_contra hgood
      push_neg at hgood
      obtain ⟨ht, hM⟩ := hgood
      have hcap := capacity_of_allocated h gm om hmono halloc hM
      rcases p7_oprofile_Convert_cases h mem gm om ht hM hcap with ⟨_, e⟩ | ⟨_, n, a, d, e⟩
      · rw [e] at hst
        exact Status.noConfusion hst
      · rw [e] at hst
        exact Status.noConfusion hst
    · intro hbad
      rw [p7_oprofile_Convert_rejects h mem gm om hbad]
  refine ⟨key, ?_, ?_⟩
  · intro hM
    obtain ⟨c1, c2, c3⟩ := capacity_of_allocated h gm om hmono halloc hM
    rw [mf_conversion_eq h gm om c1, vf_conversion_eq h gm (mf_fill h gm om) c2,
      fb_conversion_eq h gm (vf_fill h gm (mf_fill h gm om)) c3]
    exact ⟨rfl, rfl, rfl⟩
  · intro hst
    rw [p7_oprofile_Convert_rejects h mem gm om (key.mp hst)]

/-- Witness for C14: a profile created for 4 nodes over a DNA-type alphabet
and a generic profile of 2 nodes over an amino-type alphabet. -/
theorem C14_convert_einval_iff_witness :
    (HeadersMono demo_headers ∧
      p7_oprofile_Create demo_headers true demo_uninit 4 (demo_abc eslDNA 4 18)
        = some (demo_created 4 (demo_abc eslDNA 4 18))) ∧
    ((p7_oprofile_Convert demo_headers (fun _ => true)
        (demo_gm (demo_abc eslAMINO 20 29) (fun _ _ => .fin 0))
        (demo_created 4 (demo_abc eslDNA 4 18))).1 = eslEINVAL
      ↔ ((demo_gm (demo_abc eslAMINO 20 29) (fun _ _ => .fin 0)).abc.type
            ≠ (demo_created 4 (demo_abc eslDNA 4 18)).abc.type ∨
          (demo_created 4 (demo_abc eslDNA 4 18)).allocM
            < (demo_gm (demo_abc eslAMINO 20 29) (fun _ _ => .fin 0)).M)) :=
  ⟨⟨demo_headers_mono, rfl⟩,
   (C14_convert_einval_iff demo_headers true demo_uninit 4 (demo_abc eslDNA 4 18)
      (demo_created 4 (demo_abc eslDNA 4 18)) (fun _ => true)
      (demo_gm (demo_abc eslAMINO 20 29) (fun _ _ => .fin 0)) demo_headers_mono rfl).1⟩

/-- C15 (as the claim states it, refuted): the two custom alphabets made by
`esl_alphabet_CreateCustom` from "AB-X*~" (K = 2, Kp = 6) and "ABC-X*~"
(K = 3, Kp = 7) differ in size and symbols but have the same type, and
`p7_oprofile_Convert` of a generic profile over the first into an optimized
profile created over the second returns `eslOK`. -/
theorem C15_same_type_alphabets_accepted :
    esl_alphabet_CreateCustom true "AB-X*~".toList 2 6
      = some (demo_custom "AB-X*~".toList 2 6) ∧
    esl_alphabet_CreateCustom true "ABC-X*~".toList 3 7
      = some (demo_custom "ABC-X*~".toList 3 7) ∧
    (demo_custom "AB-X*~".toList 2 6).K ≠ (demo_custom "ABC-X*~".toList 3 7).K ∧
    (demo_custom "AB-X*~".toList 2 6).Kp ≠ (demo_custom "ABC-X*~".toList 3 7).Kp ∧
    (demo_custom "AB-X*~".toList 2 6).sym ≠ (demo_custom "ABC-X*~".toList 3 7).sym ∧
    (p7_oprofile_Convert demo_headers (fun _ => true)
      (demo_gm (demo_custom "AB-X*~".toList 2 6) (fun _ _ => .fin 0))
      (demo_created 4 (demo_custom "ABC-X*~".toList 3 7))).1 = eslOK := by
  refine ⟨rfl, rfl, by decide, by decide, by decide, ?_⟩
  obtain ⟨halloc, hM, _⟩ := p7_oprofile_Create_some demo_headers true demo_uninit 4
    (demo_custom "ABC-X*~".toList 3 7) _ (demo_created_some 4 _)
  have hcap := capacity_of_allocated demo_headers
    (demo_gm (demo_custom "AB-X*~".toList 2 6) (fun _ _ => .fin 0))
    (demo_created 4 (demo_custom "ABC-X*~".toList 3 7)) demo_headers_mono halloc
    (by rw [hM]; decide)
  rcases p7_oprofile_Convert_cases demo_headers (fun _ => true)
    (demo_gm (demo_custom "AB-X*~".toList 2 6) (fun _ _ => .fin 0))
    (demo_created 4 (demo_custom "ABC-X*~".toList 3 7)) rfl (by rw [hM]; decide) hcap
    with ⟨_, e⟩ | ⟨hno, _⟩
  · rw [e]
  · exact absurd ⟨Or.inl rfl, Or.inl rfl, Or.inl rfl⟩ hno

/-- C15 (amended): `p7_oprofile_Convert(gm, om)` returns `eslEINVAL`, leaving
`om` untouched, whenever the type of the generic model's alphabet differs
from the type of the target's alphabet, for every pair of alphabets. -/
theorem C15_convert_rejects_other_type (h : Headers α) (mem : Nat → Bool) (gm : P7_PROFILE α)
    (om : P7_OM α) (ht : gm.abc.type ≠ om.abc.type) :
    p7_oprofile_Convert h mem gm om = (eslEINVAL, om) :=
  p7_oprofile_Convert_rejects h mem gm om (Or.inl ht)

/-- Witness for C15 (amended): an amino-type generic profile and a DNA-type
target. -/
theorem C15_convert_rejects_other_type_witness :
    (demo_gm (demo_abc eslAMINO 20 29) (fun _ _ => .fin 0)).abc.type
      ≠ (demo_created 4 (demo_abc eslDNA 4 18)).abc.type ∧
    p7_oprofile_Convert demo_headers (fun _ => true)
      (demo_gm (demo_abc eslAMINO 20 29) (fun _ _ => .fin 0))
      (demo_created 4 (demo_abc eslDNA 4 18))
      = (eslEINVAL, demo_created 4 (demo_abc eslDNA 4 18)) :=
  ⟨by decide,
   C15_convert_rejects_other_type demo_headers (fun _ => true)
     (demo_gm (demo_abc eslAMINO 20 29) (fun _ _ => .fin 0))
     (demo_created 4 (demo_abc eslDNA 4 18)) (by decide)⟩

/-- A call of `p7_oprofile_Convert` that returns `eslOK` passed the two
argument checks and the three capacity checks, and left `convert_fill`. -/
theorem p7_oprofile_Convert_ok (h : Headers α) (mem : Nat → Bool) (gm : P7_PROFILE α)
    (om : P7_OM α) (hok : (p7_oprofile_Convert h mem gm om).1 = eslOK) :
    gm.abc.type = om.abc.type ∧ gm.M ≤ om.allocM ∧
    (h.p7O_NQB gm.M ≤ om.allocQ16 ∧ h.p7O_NQW gm.M ≤ om.allocQ8 ∧
      h.p7O_NQF gm.M ≤ om.allocQ4) ∧
    p7_oprofile_Convert h mem gm om = (eslOK, convert_fill h gm om) := by
  by_cases ht : gm.abc.type = om.abc.type
  swap
  · rw [p7_oprofile_Convert_rejects h mem gm om (Or.inl ht)] at hok
    exact Status.noConfusion hok
  by_cases hM : gm.M ≤ om.allocM
  swap
  · rw [p7_oprofile_Convert_rejects h mem gm om (Or.inr (not_le.mp hM))] at hok
    exact Status.noConfusion hok
  by_cases c1 : h.p7O_NQB gm.M ≤ om.allocQ16
  swap
  · have e := mf_conversion_small h gm om (not_le.mp c1)
    have : p7_oprofile_Convert h mem gm om = (eslEINVAL, om) := by
      unfold p7_oprofile_Convert
      simp [ht, not_lt.mpr hM, e]
    rw [this] at hok
    exact Status.noConfusion hok
  have e1 := mf_conversion_eq h gm om c1
  by_cases c2 : h.p7O_NQW gm.M ≤ om.allocQ8
  swap
  · have e := vf_conversion_small h gm (mf_fill h gm om) (not_le.mp c2)
    have : p7_oprofile_Convert h mem gm om = (eslEINVAL, mf_fill h gm om) := by
      unfold p7_oprofile_Convert
      simp [ht, not_lt.mpr hM, e1, e]
    rw [this] at hok
    exact Status.noConfusion hok
  have e2 := vf_conversion_eq h gm (mf_fill h gm om) c2
  by_cases c3 : h.p7O_NQF gm.M ≤ om.allocQ4
  swap
  · have e := fb_conversion_small h gm (vf_fill h gm (mf_fill h gm om)) (not_le.mp c3)
    have : p7_oprofile_Convert h mem gm om = (eslEINVAL, vf_fill h gm (mf_fill h gm om)) := by
      unfold p7_oprofile_Convert
      simp [ht, not_lt.mpr hM, e1, e2, e]
    rw [this] at hok
    exact Status.noConfusion hok
  refine ⟨ht, hM, ⟨c1, c2, c3⟩, ?_⟩
  rcases p7_oprofile_Convert_cases h mem gm om ht hM ⟨c1, c2, c3⟩ with ⟨_, e⟩ | ⟨_, n, a, d, e⟩
  · exact e
  · rw [e] at hok
    exact Status.noConfusion hok

/-- Writing the three tracks of `gm` again into a converted profile changes
nothing. -/
theorem tracks_fill_convert_fill (h : Headers α) (gm : P7_PROFILE α) (om : P7_OM α) :
    tracks_fill h gm (convert_fill h gm om) = convert_fill h gm om := by
  simp only [tracks_fill, convert_fill, copy_fill, fb_fill, vf_fill, mf_fill]
  congr 1
  · funext x q
    split_ifs <;> rfl
  · funext x q
    split_ifs <;> rfl
  · funext i
    split_ifs <;> rfl
  · funext x q
    split_ifs <;> rfl
  · funext i
    split_ifs <;> rfl

/-- Converting `gm` again into a converted profile changes nothing. -/
theorem convert_fill_idem (h : Headers α) (gm : P7_PROFILE α) (om : P7_OM α) :
    convert_fill h gm (convert_fill h gm om) = convert_fill h gm om := by
  have e : convert_fill h gm (convert_fill h gm om)
      = copy_fill h gm (tracks_fill h gm (convert_fill h gm om)) := rfl
  rw [e, tracks_fill_convert_fill]
  simp only [convert_fill, copy_fill, fb_fill, vf_fill, mf_fill]
  congr 1
  · funext z
    split_ifs <;> rfl
  · funext z
    split_ifs <;> rfl
  · funext z
    split_ifs <;> rfl

/-- The tables and scalar parameters that a conversion of `gm` leaves, as
functions of `gm` alone. -/
theorem convert_fill_contents (h : Headers α) (gm : P7_PROFILE α) (om : P7_OM α) :
    (convert_fill h gm om).scale_b = mf_scale h ∧
    (convert_fill h gm om).base_b = 190 ∧
    (convert_fill h gm om).bias_b = mf_bias h gm ∧
    (convert_fill h gm om).tbm_b = (mf_fill h gm om).tbm_b ∧
    (convert_fill h gm om).tec_b = (mf_fill h gm om).tec_b ∧
    (convert_fill h gm om).tjb_b = (mf_fill h gm om).tjb_b ∧
    (∀ x q, x < gm.abc.Kp → q < h.p7O_NQB gm.M →
      (convert_fill h gm om).rbv x q = mf_rbv h gm x q) ∧
    (convert_fill h gm om).scale_w = vf_scale h ∧
    (convert_fill h gm om).base_w = 12000 ∧
    (convert_fill h gm om).ddbound_w
      = forUp (gm.M - 1 - 2) (vf_ddbound_upd h gm) (-32768) ∧
    (convert_fill h gm om).ncj_roundoff = .fin 0 ∧
    (convert_fill h gm om).xw = vf_xw h gm ∧
    (∀ x q, x < gm.abc.Kp → q < h.p7O_NQW gm.M →
      (convert_fill h gm om).rwv x q = vf_rwv h gm x q) ∧
    (∀ i, i < 7 * h.p7O_NQW gm.M →
      (convert_fill h gm om).twv i = vf_twv h gm (i / 7) (i % 7)) ∧
    (∀ i, 7 * h.p7O_NQW gm.M ≤ i → i < 7 * h.p7O_NQW gm.M + h.p7O_NQW gm.M →
      (convert_fill h gm om).twv i = vf_ddv h gm (i - 7 * h.p7O_NQW gm.M)) ∧
    (∀ x q, x < gm.abc.Kp → q < h.p7O_NQF gm.M →
      (convert_fill h gm om).rfv x q = fb_rfv h gm x q) ∧
    (∀ i, i < 7 * h.p7O_NQF gm.M →
      (convert_fill h gm om).tfv i = fb_tfv h gm (i / 7) (i % 7)) ∧
    (∀ i, 7 * h.p7O_NQF gm.M ≤ i → i < 7 * h.p7O_NQF gm.M + h.p7O_NQF gm.M →
      (convert_fill h gm om).tfv i = fb_ddv h gm (i - 7 * h.p7O_NQF gm.M)) ∧
    (convert_fill h gm om).xf = fb_xf h gm ∧
    (convert_fill h gm om).mode = gm.mode ∧
    (convert_fill h gm om).L = gm.L ∧
    (convert_fill h gm om).M = gm.M ∧
    (convert_fill h gm om).nj = gm.nj := by
  refine ⟨rfl, rfl, rfl, rfl, rfl, rfl, ?_, rfl, rfl, rfl, rfl, rfl, ?_, ?_, ?_, ?_, ?_, ?_,
    rfl, rfl, rfl, rfl, rfl⟩
  · intro x q hx hq
    show (if x < gm.abc.Kp ∧ q < h.p7O_NQB gm.M then mf_rbv h gm x q else om.rbv x q) = _
    rw [if_pos ⟨hx, hq⟩]
  · intro x q hx hq
    show (if x < gm.abc.Kp ∧ q < h.p7O_NQW gm.M then vf_rwv h gm x q else _) = _
    rw [if_pos ⟨hx, hq⟩]
  · intro i hi
    show (if 7 * h.p7O_NQW gm.M ≤ i ∧ i < 7 * h.p7O_NQW gm.M + h.p7O_NQW gm.M then _
      else if i < 7 * h.p7O_NQW gm.M then vf_twv h gm (i / 7) (i % 7) else _) = _
    rw [if_neg (by omega), if_pos hi]
  · intro i h1 h2
    show (if 7 * h.p7O_NQW gm.M ≤ i ∧ i < 7 * h.p7O_NQW gm.M + h.p7O_NQW gm.M then
        vf_ddv h gm (i - 7 * h.p7O_NQW gm.M)
      else _) = _
    rw [if_pos ⟨h1, h2⟩]
  · intro x q hx hq
    show (if x < gm.abc.Kp ∧ q < h.p7O_NQF gm.M then fb_rfv h gm x q else _) = _
    rw [if_pos ⟨hx, hq⟩]
  · intro i hi
    show (if 7 * h.p7O_NQF gm.M ≤ i ∧ i < 7 * h.p7O_NQF gm.M + h.p7O_NQF gm.M then _
      else if i < 7 * h.p7O_NQF gm.M then fb_tfv h gm (i / 7) (i % 7) else _) = _
    rw [if_neg (by omega), if_pos hi]
  · intro i h1 h2
    show (if 7 * h.p7O_NQF gm.M ≤ i ∧ i < 7 * h.p7O_NQF gm.M + h.p7O_NQF gm.M then
        fb_ddv h gm (i - 7 * h.p7O_NQF gm.M)
      else _) = _
    rw [if_pos ⟨h1, h2⟩]

/-- C16: quantization is idempotent.  If `p7_oprofile_Convert(gm, om)` returned
`eslOK`, a second call with the same `gm` on the result does not return
`eslEINVAL` and leaves every field of the profile unchanged, except that a
failed string duplication (`eslEMEM`) may reset `name`, `acc` or `desc`; in
particular every score table (byte, word and float tracks), every
special-state table and every scalar parameter is unchanged.  And the
converted contents depend only on `gm`: a successful conversion of `gm` into
any other profile `om2` leaves the same scalar parameters, the same
special-state tables, and the same vectors in every block the conversion
writes. -/
theorem C16_convert_idempotent (h : Headers α) (mem mem1 mem2 : Nat → Bool)
    (gm : P7_PROFILE α) (om om2 : P7_OM α)
    (hok : (p7_oprofile_Convert h mem gm om).1 = eslOK)
    (hok2 : (p7_oprofile_Convert h mem2 gm om2).1 = eslOK) :
    let r := (p7_oprofile_Convert h mem gm om).2
    let again := p7_oprofile_Convert h mem1 gm r
    let r2 := (p7_oprofile_Convert h mem2 gm om2).2
    again.1 ≠ eslEINVAL ∧
    (again.1 = eslOK → again.2 = r) ∧
    { again.2 with name := r.name, acc := r.acc, desc := r.desc } = r ∧
    (r.scale_b = r2.scale_b ∧ r.base_b = r2.base_b ∧ r.bias_b = r2.bias_b ∧
      r.tbm_b = r2.tbm_b ∧ r.tec_b = r2.tec_b ∧ r.tjb_b = r2.tjb_b ∧
      (∀ x q, x < gm.abc.Kp → q < h.p7O_NQB gm.M → r.rbv x q = r2.rbv x q) ∧
      r.scale_w = r2.scale_w ∧ r.base_w = r2.base_w ∧ r.ddbound_w = r2.ddbound_w ∧
      r.ncj_roundoff = r2.ncj_roundoff ∧ r.xw = r2.xw ∧
      (∀ x q, x < gm.abc.Kp → q < h.p7O_NQW gm.M → r.rwv x q = r2.rwv x q) ∧
      (∀ i, i < 8 * h.p7O_NQW gm.M → r.twv i = r2.twv i) ∧
      (∀ x q, x < gm.abc.Kp → q < h.p7O_NQF gm.M → r.rfv x q = r2.rfv x q) ∧
      (∀ i, i < 8 * h.p7O_NQF gm.M → r.tfv i = r2.tfv i) ∧
      r.xf = r2.xf ∧
      r.mode = r2.mode ∧ r.L = r2.L ∧ r.M = r2.M ∧ r.nj = r2.nj) := by
  intro r again r2
  obtain ⟨ht, hM, hcap, e⟩ := p7_oprofile_Convert_ok h mem gm om hok
  obtain ⟨_, _, _, e2⟩ := p7_oprofile_Convert_ok h mem2 gm om2 hok2
  have hr : r = convert_fill h gm om := by
    show (p7_oprofile_Convert h mem gm om).2 = _
    rw [e]
  have hr2 : r2 = convert_fill h gm om2 := by
    show (p7_oprofile_Convert h mem2 gm om2).2 = _
    rw [e2]
  have hcases := p7_oprofile_Convert_cases h mem1 gm (convert_fill h gm om) ht hM hcap
  have hagain : again = p7_oprofile_Convert h mem1 gm (convert_fill h gm om) := by
    show p7_oprofile_Convert h mem1 gm r = _
    rw [hr]
  refine ⟨?_, ?_, ?_, ?_⟩
  · rw [hagain]
    rcases hcases with ⟨_, c⟩ | ⟨_, n, a, d, c⟩
    · rw [c]; exact fun hh => Status.noConfusion hh
    · rw [c]; exact fun hh => Status.noConfusion hh
  · intro hst
    rw [hagain] at hst ⊢
    rcases hcases with ⟨_, c⟩ | ⟨_, n, a, d, c⟩
    · rw [c, hr, convert_fill_idem]
    · rw [c] at hst
      exact Status.noConfusion hst
  · rw [hagain, hr]
    rcases hcases with ⟨_, c⟩ | ⟨_, n, a, d, c⟩
    · rw [c, convert_fill_idem]
    · rw [c, tracks_fill_convert_fill]
  · obtain ⟨a1, a2, a3, a4, a5, a6, a7, a8, a9, a10, a11, a12, a13, a14, a15, a16, a17, a18,
      a19, a20, a21, a22, a23⟩ := convert_fill_contents h gm om
    obtain ⟨b1, b2, b3, b4, b5, b6, b7, b8, b9, b10, b11, b12, b13, b14, b15, b16, b17, b18,
      b19, b20, b21, b22, b23⟩ := convert_fill_contents h gm om2
    rw [hr, hr2]
    refine ⟨a1.trans b1.symm, a2.trans b2.symm, a3.trans b3.symm, ?_, ?_, ?_, ?_,
      a8.trans b8.symm, a9.trans b9.symm, a10.trans b10.symm, a11.trans b11.symm,
      a12.trans b12.symm, ?_, ?_, ?_, ?_, a19.trans b19.symm, a20.trans b20.symm,
      a21.trans b21.symm, a22.trans b22.symm, a23.trans b23.symm⟩
    · rw [a4, b4]; rfl
    · rw [a5, b5]; rfl
    · rw [a6, b6]; rfl
    · intro x q hx hq
      rw [a7 x q hx hq, b7 x q hx hq]
    · intro x q hx hq
      rw [a13 x q hx hq, b13 x q hx hq]
    · intro i hi
      by_cases hlt : i < 7 * h.p7O_NQW gm.M
      · rw [a14 i hlt, b14 i hlt]
      · rw [a15 i (by omega) (by omega), b15 i (by omega) (by omega)]
    · intro x q hx hq
      rw [a16 x q hx hq, b16 x q hx hq]
    · intro i hi
      by_cases hlt : i < 7 * h.p7O_NQF gm.M
      · rw [a17 i hlt, b17 i hlt]
      · rw [a18 i (by omega) (by omega), b18 i (by omega) (by omega)]

/-- The conversion of the two-node example over a custom alphabet into a
profile created for four nodes succeeds. -/
theorem demo_convert_ok (rsc : Nat → Nat → Flt ℚ) (mem : Nat → Bool) (K Kp : Nat) :
    (p7_oprofile_Convert demo_headers mem (demo_gm (demo_abc eslDNA K Kp) rsc)
      (demo_created 4 (demo_abc eslDNA K Kp))).1 = eslOK := by
  obtain ⟨halloc, hM, _⟩ := p7_oprofile_Create_some demo_headers true demo_uninit 4
    (demo_abc eslDNA K Kp) _ (demo_created_some 4 _)
  have hcap := capacity_of_allocated demo_headers (demo_gm (demo_abc eslDNA K Kp) rsc)
    (demo_created 4 (demo_abc eslDNA K Kp)) demo_headers_mono halloc (by rw [hM]; show 2 ≤ 4; omega)
  rcases p7_oprofile_Convert_cases demo_headers mem (demo_gm (demo_abc eslDNA K Kp) rsc)
    (demo_created 4 (demo_abc eslDNA K Kp)) rfl (by rw [hM]; show 2 ≤ 4; omega) hcap
    with ⟨_, e⟩ | ⟨hno, _⟩
  · rw [e]
  · exact absurd ⟨Or.inl rfl, Or.inl rfl, Or.inl rfl⟩ hno

/-- Witness for C16: the two-node example converted into a profile created for
four nodes, and converted again. -/
theorem C16_convert_idempotent_witness :
    ((p7_oprofile_Convert demo_headers (fun _ => true)
        (demo_gm (demo_abc eslDNA 4 18) (fun _ _ => .fin 0))
        (demo_created 4 (demo_abc eslDNA 4 18))).1 = eslOK) ∧
    (p7_oprofile_Convert demo_headers (fun _ => true)
        (demo_gm (demo_abc eslDNA 4 18) (fun _ _ => .fin 0))
        (p7_oprofile_Convert demo_headers (fun _ => true)
          (demo_gm (demo_abc eslDNA 4 18) (fun _ _ => .fin 0))
          (demo_created 4 (demo_abc eslDNA 4 18))).2).1 ≠ eslEINVAL :=
  ⟨demo_convert_ok _ _ 4 18,
   (C16_convert_idempotent demo_headers (fun _ => true) (fun _ => true) (fun _ => true)
      (demo_gm (demo_abc eslDNA 4 18) (fun _ _ => .fin 0))
      (demo_created 4 (demo_abc eslDNA 4 18)) (demo_created 4 (demo_abc eslDNA 4 18))
      (demo_convert_ok _ _ 4 18) (demo_convert_ok _ _ 4 18)).1⟩

end ConvertClaims
/-! ## Claims about the word and byte tracks -/

section TrackClaims

variable {α : Type} [LinearOrderedField α] [FloorRing α]

theorem vf_conversion_ok (h : Headers α) (gm : P7_PROFILE α) (om : P7_OM α)
    (hok : (vf_conversion h gm om).1 = eslOK) :
    vf_conversion h gm om = (eslOK, vf_fill h gm om) := by
  by_cases c : h.p7O_NQW gm.M ≤ om.allocQ8
  · exact vf_conversion_eq h gm om c
  · rw [vf_conversion_small h gm om (not_le.mp c)] at hok
    exact Status.noConfusion hok

theorem mf_conversion_ok (h : Headers α) (gm : P7_PROFILE α) (om : P7_OM α)
    (hok : (mf_conversion h gm om).1 = eslOK) :
    mf_conversion h gm om = (eslOK, mf_fill h gm om) := by
  by_cases c : h.p7O_NQB gm.M ≤ om.allocQ16
  · exact mf_conversion_eq h gm om c
  · rw [mf_conversion_small h gm om (not_le.mp c)] at hok
    exact Status.noConfusion hok

/-- Every lane stored for a non-DD transition is at most the largest value
allowed for it. -/
theorem vf_twv_le (h : Headers α) (gm : P7_PROFILE α) (q t : Nat) (z : Fin 8) :
    vf_twv h gm q t z ≤ (vf_switch t (q + 1)).2.2 := by
  unfold vf_twv
  simp only
  split_ifs <;> first | assumption | exact le_rfl

/-- C20: after a successful `vf_conversion`, for every generic model, every
lane of every insert->insert transition vector of the word track
(`twv[7*q + p7O_II]` for `q < nq`) is at most -1, hence never 0, and every
lane of the other six non-DD transition vectors is at most 0. -/
theorem C20_word_transitions_nonpositive (h : Headers α) (gm : P7_PROFILE α) (om : P7_OM α)
    (hok : (vf_conversion h gm om).1 = eslOK) :
    ∀ q, q < h.p7O_NQW gm.M → ∀ z : Fin 8,
      (vf_conversion h gm om).2.twv (7 * q + p7o_tsc_e.toNat p7O_II) z ≤ -1 ∧
      ∀ t : p7o_tsc_e, t ≠ p7O_DD → t ≠ p7O_II →
        (vf_conversion h gm om).2.twv (7 * q + t.toNat) z ≤ 0 := by
  intro q hq z
  rw [vf_conversion_ok h gm om hok]
  have key : ∀ t, t < 7 → (vf_fill h gm om).twv (7 * q + t) = vf_twv h gm q t := by
    intro t ht
    show (if 7 * h.p7O_NQW gm.M ≤ 7 * q + t ∧ 7 * q + t < 7 * h.p7O_NQW gm.M + h.p7O_NQW gm.M
      then _ else if 7 * q + t < 7 * h.p7O_NQW gm.M then
        vf_twv h gm ((7 * q + t) / 7) ((7 * q + t) % 7) else _) = _
    rw [if_neg (by omega), if_pos (by omega)]
    have e1 : (7 * q + t) / 7 = q := by omega
    have e2 : (7 * q + t) % 7 = t := by omega
    rw [e1, e2]
  constructor
  · show (vf_fill h gm om).twv (7 * q + 6) z ≤ -1
    rw [key 6 (by omega)]
    exact vf_twv_le h gm q 6 z
  · intro t h1 h2
    cases t
    · show (vf_fill h gm om).twv (7 * q + 0) z ≤ 0
      rw [key 0 (by omega)]
      exact vf_twv_le h gm q 0 z
    · show (vf_fill h gm om).twv (7 * q + 1) z ≤ 0
      rw [key 1 (by omega)]
      exact vf_twv_le h gm q 1 z
    · show (vf_fill h gm om).twv (7 * q + 2) z ≤ 0
      rw [key 2 (by omega)]
      exact vf_twv_le h gm q 2 z
    · show (vf_fill h gm om).twv (7 * q + 3) z ≤ 0
      rw [key 3 (by omega)]
      exact vf_twv_le h gm q 3 z
    · show (vf_fill h gm om).twv (7 * q + 4) z ≤ 0
      rw [key 4 (by omega)]
      exact vf_twv_le h gm q 4 z
    · show (vf_fill h gm om).twv (7 * q + 5) z ≤ 0
      rw [key 5 (by omega)]
      exact vf_twv_le h gm q 5 z
    · exact absurd rfl h2
    · exact absurd rfl h1

/-- The byte cost with bias of a finite score under a finite scale: the
rounded cost, saturated at 255 above `255 - bias`, and otherwise added to the
bias in 8-bit arithmetic. -/
theorem biased_cost_fin (c s : α) (bias : Nat) :
    biased_cost (.fin c) bias (.fin s)
      = (if 255 - (bias : Int) < roundHalfAway (-c * s) then 255
         else (roundHalfAway (-c * s) % 256).toNat + bias) % 256 := by
  have hr : roundHalfAway (-c * s) = -roundHalfAway (c * s) := by
    rw [neg_mul, roundHalfAway_neg]
  have hcast : (-1 : α) * ((roundHalfAway (c * s) : Int) : α)
      = ((-roundHalfAway (c * s) : Int) : α) := by
    push_cast; ring
  unfold biased_cost
  simp only [Flt.mul, roundf, Flt.gt, Flt.lt, Flt.ofInt]
  rw [hcast, hr, cast_uint8_intCast]
  simp only [decide_eq_true_eq, Int.cast_lt]

/-- The byte cost with bias of the score minus infinity under a positive
finite scale is 255. -/
theorem biased_cost_ninf (c : α) (hc : 0 < c) (bias : Nat) :
    biased_cost (.fin c) bias .ninf = 255 := by
  have h1 : ¬ c < 0 := not_lt.mpr (le_of_lt hc)
  have h10 : ¬ (1 : α) < 0 := not_lt.mpr zero_le_one
  simp [biased_cost, Flt.mul, Flt.signed, hc, roundf, Flt.gt, Flt.lt, Flt.ofInt, h10]

/-- The byte cost without bias of a finite score under a finite scale. -/
theorem unbiased_cost_fin (c s : α) :
    unbiased_cost (.fin c) (.fin s)
      = (if 255 < roundHalfAway (-c * s) then 255
         else (roundHalfAway (-c * s) % 256).toNat) % 256 := by
  have hr : roundHalfAway (-c * s) = -roundHalfAway (c * s) := by
    rw [neg_mul, roundHalfAway_neg]
  have hcast : (-1 : α) * ((roundHalfAway (c * s) : Int) : α)
      = ((-roundHalfAway (c * s) : Int) : α) := by
    push_cast; ring
  unfold unbiased_cost
  simp only [Flt.mul, roundf, Flt.gt, Flt.lt]
  rw [hcast, hr, cast_uint8_intCast]
  have h255 : (255 : α) = ((255 : Int) : α) := by norm_num
  rw [h255]
  simp only [decide_eq_true_eq, Int.cast_lt]

theorem mf_scale_fin (h : Headers α) (l : α) (hl : h.eslCONST_LOG2 = .fin l) (hpos : 0 < l) :
    mf_scale h = .fin (3 / l) := by
  unfold mf_scale
  rw [hl]
  simp [Flt.div, ne_of_gt hpos]

/-- The entries of the byte track after a successful `mf_conversion`. -/
theorem mf_conversion_rbv (h : Headers α) (gm : P7_PROFILE α) (om : P7_OM α)
    (hok : (mf_conversion h gm om).1 = eslOK) (x q : Nat) (hx : x < gm.abc.Kp)
    (hq : q < h.p7O_NQB gm.M) :
    (mf_conversion h gm om).2.rbv x q = mf_rbv h gm x q ∧
    (mf_conversion h gm om).2.bias_b = mf_bias h gm ∧
    (mf_conversion h gm om).2.scale_b = mf_scale h := by
  rw [mf_conversion_ok h gm om hok]
  refine ⟨?_, rfl, rfl⟩
  show (if x < gm.abc.Kp ∧ q < h.p7O_NQB gm.M then mf_rbv h gm x q else om.rbv x q) = _
  rw [if_pos ⟨hx, hq⟩]

/-- C17 (amended): after a successful `mf_conversion`, with
`scale_b = 3 / eslCONST_LOG2` for a positive finite constant, for every
residue code `x < Kp`, block `q < nq` and lane `z < 16` with node
`k = q + 1 + z*nq`: if `k > M` the byte-track entry is 255; if `k <= M` and
the match score is minus infinity the entry is 255; if `k <= M` and the match
score is finite, the entry is 255 when the rounded cost
`round(-scale_b * score)` exceeds `255 - bias_b`, and otherwise it is the sum
`round(-scale_b * score) + bias_b` reduced modulo 256, which is the sum itself
whenever the sum is not negative. -/
theorem C17_byte_track_entries (h : Headers α) (gm : P7_PROFILE α) (om : P7_OM α) (l : α)
    (hok : (mf_conversion h gm om).1 = eslOK) (hl : h.eslCONST_LOG2 = .fin l) (hlpos : 0 < l) :
    (mf_conversion h gm om).2.scale_b = .fin (3 / l) ∧
    ∀ x q, ∀ z : Fin 16, x < gm.abc.Kp → q < h.p7O_NQB gm.M →
      (gm.M < q + 1 + z.val * h.p7O_NQB gm.M → (mf_conversion h gm om).2.rbv x q z = 255) ∧
      (q + 1 + z.val * h.p7O_NQB gm.M ≤ gm.M →
        (p7P_MSC gm (q + 1 + z.val * h.p7O_NQB gm.M) x = .ninf →
          (mf_conversion h gm om).2.rbv x q z = 255) ∧
        ∀ s : α, p7P_MSC gm (q + 1 + z.val * h.p7O_NQB gm.M) x = .fin s →
          (255 - ((mf_conversion h gm om).2.bias_b : Int) < roundHalfAway (-(3 / l) * s) →
            (mf_conversion h gm om).2.rbv x q z = 255) ∧
          (roundHalfAway (-(3 / l) * s) ≤ 255 - ((mf_conversion h gm om).2.bias_b : Int) →
            (((mf_conversion h gm om).2.rbv x q z : Nat) : Int)
              = (roundHalfAway (-(3 / l) * s) + ((mf_conversion h gm om).2.bias_b : Int))
                  % 256) ∧
          (roundHalfAway (-(3 / l) * s) ≤ 255 - ((mf_conversion h gm om).2.bias_b : Int) →
            0 ≤ roundHalfAway (-(3 / l) * s) + ((mf_conversion h gm om).2.bias_b : Int) →
            (((mf_conversion h gm om).2.rbv x q z : Nat) : Int)
              = roundHalfAway (-(3 / l) * s) + ((mf_conversion h gm om).2.bias_b : Int))) := by
  have hscale := mf_scale_fin h l hl hlpos
  have h3l : (0 : α) < 3 / l := div_pos (by norm_num) hlpos
  constructor
  · rw [mf_conversion_ok h gm om hok]
    exact hscale
  intro x q z hx hq
  obtain ⟨e1, e2, _⟩ := mf_conversion_rbv h gm om hok x q hx hq
  rw [e1, e2]
  constructor
  · intro hk
    unfold mf_rbv
    rw [if_neg (by omega)]
  · intro hk
    have hv : mf_rbv h gm x q z = biased_cost (.fin (3 / l)) (mf_bias h gm)
        (p7P_MSC gm (q + 1 + z.val * h.p7O_NQB gm.M) x) := by
      unfold mf_rbv
      rw [if_pos hk, hscale]
    rw [hv]
    constructor
    · intro hs
      rw [hs]
      exact biased_cost_ninf (3 / l) h3l _
    · intro s hs
      rw [hs, biased_cost_fin]
      refine ⟨?_, ?_, ?_⟩
      · intro hgt
        rw [if_pos hgt]
      · intro hle
        rw [if_neg (by omega)]
        omega
      · intro hle hnn
        rw [if_neg (by omega)]
        omega

end TrackClaims

/-! ## The bias of the byte track -/

section BiasClaims

variable {α : Type} [LinearOrderedField α] [FloorRing α]

theorem score_le_refl (a : Flt α) (ha : IsScore a) : Flt.le a a = true := by
  rcases ha with rfl | ⟨s, rfl⟩ <;> simp [Flt.le]

theorem score_le_trans (a b c : Flt α) (hab : Flt.le a b = true) (hbc : Flt.le b c = true) :
    Flt.le a c = true := by
  cases a <;> cases b <;> cases c <;> simp [Flt.le] at hab hbc ⊢
  exact le_trans hab hbc

theorem score_le_of_gt (a b : Flt α) (h : Flt.gt a b = true) : Flt.le b a = true := by
  cases a <;> cases b <;> simp [Flt.gt, Flt.lt, Flt.le] at h ⊢
  exact le_of_lt h

theorem score_le_of_not_gt (a b : Flt α) (ha : IsScore a) (hb : IsScore b)
    (h : ¬ Flt.gt a b = true) : Flt.le a b = true := by
  rcases ha with rfl | ⟨s, rfl⟩ <;> rcases hb with rfl | ⟨t, rfl⟩ <;>
    simp [Flt.gt, Flt.lt, Flt.le] at h ⊢
  exact h

/-- A loop that keeps the larger of the running value and the next score ends
with a score that bounds the start value and every score seen, and that is the
start value or one of the scores seen. -/
theorem forUp_max_spec (f : Flt α → Flt α → Flt α)
    (hf : ∀ a b, IsScore a → IsScore b →
      (f a b = a ∨ f a b = b) ∧ Flt.le a (f a b) = true ∧ Flt.le b (f a b) = true)
    (w : Nat → Flt α) (b0 : Flt α) (h0 : IsScore b0) :
    ∀ n, (∀ i, i < n → IsScore (w i)) →
      IsScore (forUp n (fun i best => f best (w i)) b0) ∧
      Flt.le b0 (forUp n (fun i best => f best (w i)) b0) = true ∧
      (∀ i, i < n → Flt.le (w i) (forUp n (fun i best => f best (w i)) b0) = true) ∧
      (forUp n (fun i best => f best (w i)) b0 = b0 ∨
        ∃ i, i < n ∧ forUp n (fun i best => f best (w i)) b0 = w i) := by
  intro n
  induction n with
  | zero =>
    intro _
    exact ⟨h0, score_le_refl b0 h0, fun i hi => absurd hi (Nat.not_lt_zero i), Or.inl rfl⟩
  | succ n ih =>
    intro hw
    obtain ⟨i1, i2, i3, i4⟩ := ih (fun i hi => hw i (Nat.lt_succ_of_lt hi))
    obtain ⟨g1, g2, g3⟩ := hf _ _ i1 (hw n (Nat.lt_succ_self n))
    show IsScore (f (forUp n (fun i best => f best (w i)) b0) (w n)) ∧
      Flt.le b0 (f (forUp n (fun i best => f best (w i)) b0) (w n)) = true ∧
      (∀ i, i < n + 1 → Flt.le (w i) (f (forUp n (fun i best => f best (w i)) b0) (w n)) = true) ∧
      (f (forUp n (fun i best => f best (w i)) b0) (w n) = b0 ∨
        ∃ i, i < n + 1 ∧ f (forUp n (fun i best => f best (w i)) b0) (w n) = w i)
    refine ⟨?_, score_le_trans _ _ _ i2 g2, ?_, ?_⟩
    · rcases g1 with e | e
      · rw [e]; exact i1
      · rw [e]; exact hw n (Nat.lt_succ_self n)
    · intro i hi
      rcases Nat.lt_succ_iff_lt_or_eq.mp hi with c | c
      · exact score_le_trans _ _ _ (i3 i c) g2
      · rw [c]; exact g3
    · rcases g1 with e | e
      · rw [e]
        rcases i4 with e4 | ⟨i, hi, e4⟩
        · exact Or.inl e4
        · exact Or.inr ⟨i, Nat.lt_succ_of_lt hi, e4⟩
      · exact Or.inr ⟨n, Nat.lt_succ_self n, e⟩

/-- The step of `esl_vec_FMax` keeps the larger score. -/
theorem fmax_step (a b : Flt α) (ha : IsScore a) (hb : IsScore b) :
    ((if Flt.gt b a then b else a) = a ∨ (if Flt.gt b a then b else a) = b) ∧
    Flt.le a (if Flt.gt b a then b else a) = true ∧
    Flt.le b (if Flt.gt b a then b else a) = true := by
  by_cases c : Flt.gt b a = true
  · rw [if_pos c]
    exact ⟨Or.inr rfl, score_le_of_gt b a c, score_le_refl b hb⟩
  · rw [if_neg c]
    exact ⟨Or.inl rfl, score_le_refl a ha, score_le_of_not_gt b a hb ha c⟩

/-- The macro `ESL_MAX` keeps the larger score. -/
theorem ESL_MAX_step (a b : Flt α) (ha : IsScore a) (hb : IsScore b) :
    (ESL_MAX a b = a ∨ ESL_MAX a b = b) ∧
    Flt.le a (ESL_MAX a b) = true ∧ Flt.le b (ESL_MAX a b) = true := by
  unfold ESL_MAX
  by_cases c : Flt.gt a b = true
  · rw [if_pos c]
    exact ⟨Or.inl rfl, score_le_refl a ha, score_le_of_gt a b c⟩
  · rw [if_neg c]
    exact ⟨Or.inr rfl, score_le_of_not_gt a b ha hb c, score_le_refl b hb⟩

/-- The largest element of a vector of scores: `esl_vec_FMax` returns one of
the elements, and it bounds them all. -/
theorem esl_vec_FMax_spec (vec : Nat → Flt α) (n : Nat) (hn : 0 < n)
    (hv : ∀ i, i < n → IsScore (vec i)) :
    IsScore (esl_vec_FMax vec n) ∧
    (∀ i, i < n → Flt.le (vec i) (esl_vec_FMax vec n) = true) ∧
    ∃ i, i < n ∧ esl_vec_FMax vec n = vec i := by
  obtain ⟨a1, a2, a3, a4⟩ := forUp_max_spec (fun a b => if Flt.gt b a then b else a) fmax_step
    (fun i => vec (i + 1)) (vec 0) (hv 0 hn) (n - 1) (fun i hi => hv (i + 1) (by omega))
  refine ⟨a1, ?_, ?_⟩
  · intro i hi
    rcases Nat.eq_zero_or_pos i with c | c
    · rw [c]; exact a2
    · have := a3 (i - 1) (by omega)
      rwa [Nat.sub_add_cancel c] at this
  · rcases a4 with e | ⟨i, hi, e⟩
    · exact ⟨0, hn, e⟩
    · exact ⟨i + 1, by omega, e⟩

/-- The value `max` of `mf_conversion` is the larger of 0 and the largest
emission score of the canonical residues. -/
theorem mf_max_spec (gm : P7_PROFILE α)
    (hsc : ∀ x i, x < gm.abc.K → i < (gm.M + 1) * 2 → IsScore (gm.rsc x i)) :
    ∃ m : α, mf_max gm = .fin m ∧ 0 ≤ m ∧
      (∀ x i, x < gm.abc.K → i < (gm.M + 1) * 2 → Flt.le (gm.rsc x i) (.fin m) = true) ∧
      (m = 0 ∨ ∃ x i, x < gm.abc.K ∧ i < (gm.M + 1) * 2 ∧ gm.rsc x i = .fin m) := by
  have hn : 0 < (gm.M + 1) * 2 := by omega
  obtain ⟨a1, a2, a3, a4⟩ := forUp_max_spec ESL_MAX ESL_MAX_step
    (fun x => esl_vec_FMax (gm.rsc x) ((gm.M + 1) * 2)) (.fin 0) (Or.inr ⟨0, rfl⟩) gm.abc.K
    (fun x hx => (esl_vec_FMax_spec (gm.rsc x) _ hn (fun i hi => hsc x i hx hi)).1)
  have hmax : mf_max gm = forUp gm.abc.K
      (fun x best => ESL_MAX best (esl_vec_FMax (gm.rsc x) ((gm.M + 1) * 2))) (.fin 0) := rfl
  rw [← hmax] at a1 a2 a3 a4
  rcases a1 with e | ⟨m, e⟩
  · rw [e] at a2
    simp [Flt.le] at a2
  · refine ⟨m, e, ?_, ?_, ?_⟩
    · rw [e] at a2
      simpa [Flt.le] using a2
    · intro x i hx hi
      rw [← e]
      exact score_le_trans _ _ _
        ((esl_vec_FMax_spec (gm.rsc x) _ hn (fun i hi => hsc x i hx hi)).2.1 i hi) (a3 x hx)
    · rcases a4 with c | ⟨x, hx, c⟩
      · rw [e] at c
        exact Or.inl (Flt.fin.inj c)
      · obtain ⟨i, hi, c2⟩ :=
          (esl_vec_FMax_spec (gm.rsc x) _ hn (fun i hi => hsc x i hx hi)).2.2
        exact Or.inr ⟨x, i, hx, hi, by rw [← c2, ← c, e]⟩

/-- The bias of the byte track when the value `max` is finite and not
negative. -/
theorem mf_bias_fin (h : Headers α) (gm : P7_PROFILE α) (l m : α)
    (hl : h.eslCONST_LOG2 = .fin l) (hlpos : 0 < l) (hm : mf_max gm = .fin m) (hm0 : 0 ≤ m) :
    ((mf_bias h gm : Nat) : Int) = min 255 (roundHalfAway (3 / l * m)) := by
  unfold mf_bias
  rw [mf_scale_fin h l hl hlpos, hm]
  show ((unbiased_cost (.fin (3 / l)) (.fin (-1 * m)) : Nat) : Int) = _
  rw [unbiased_cost_fin]
  have e : -(3 / l) * (-1 * m) = 3 / l * m := by ring
  rw [e]
  have h0 : 0 ≤ roundHalfAway (3 / l * m) :=
    roundHalfAway_nonneg _ (mul_nonneg (le_of_lt (div_pos (by norm_num) hlpos)) hm0)
  split_ifs with c
  · rw [min_eq_left (by omega)]
    rfl
  · rw [min_eq_right (by omega)]
    omega

/-- C18: after a successful `mf_conversion`, with `eslCONST_LOG2` a positive
finite constant `l` and every emission score of the canonical residues finite
or minus infinity, `scale_b = 3 / l` and there is a value `m`, the larger of 0
and the largest emission score over the canonical residues `x < K` and all
model positions, with `bias_b = min(255, round(scale_b * m))`; and whenever
`round(scale_b * m) <= 255`, every score `s <= m` has a biased cost
`round(-scale_b * s) + bias_b` that is not negative. -/
theorem C18_bias_is_worst_case_cost (h : Headers α) (gm : P7_PROFILE α) (om : P7_OM α) (l : α)
    (hok : (mf_conversion h gm om).1 = eslOK) (hl : h.eslCONST_LOG2 = .fin l) (hlpos : 0 < l)
    (hsc : ∀ x i, x < gm.abc.K → i < (gm.M + 1) * 2 → IsScore (gm.rsc x i)) :
    (mf_conversion h gm om).2.scale_b = .fin (3 / l) ∧
    ∃ m : α, 0 ≤ m ∧
      (∀ x i, x < gm.abc.K → i < (gm.M + 1) * 2 → Flt.le (gm.rsc x i) (.fin m) = true) ∧
      (m = 0 ∨ ∃ x i, x < gm.abc.K ∧ i < (gm.M + 1) * 2 ∧ gm.rsc x i = .fin m) ∧
      (((mf_conversion h gm om).2.bias_b : Nat) : Int) = min 255 (roundHalfAway (3 / l * m)) ∧
      (roundHalfAway (3 / l * m) ≤ 255 → ∀ s : α, s ≤ m →
        0 ≤ roundHalfAway (-(3 / l) * s) + (((mf_conversion h gm om).2.bias_b : Nat) : Int)) := by
  obtain ⟨m, hm, hm0, hub, hatt⟩ := mf_max_spec gm hsc
  have hb := mf_bias_fin h gm l m hl hlpos hm hm0
  rw [mf_conversion_ok h gm om hok]
  refine ⟨mf_scale_fin h l hl hlpos, m, hm0, hub, hatt, hb, ?_⟩
  intro hle s hs
  show 0 ≤ roundHalfAway (-(3 / l) * s) + ((mf_bias h gm : Nat) : Int)
  rw [hb, min_eq_right hle]
  have e : -(3 / l) * s = -(3 / l * s) := by ring
  rw [e, roundHalfAway_neg]
  have := roundHalfAway_mono (3 / l * s) (3 / l * m)
    (mul_le_mul_of_nonneg_left hs (le_of_lt (div_pos (by norm_num) hlpos)))
  omega

/-- The profile created for four nodes has room for the two-node example. -/
theorem demo_capacity (rsc : Nat → Nat → Flt ℚ) (K Kp : Nat) :
    demo_headers.p7O_NQB (demo_gm (demo_abc eslDNA K Kp) rsc).M
        ≤ (demo_created 4 (demo_abc eslDNA K Kp)).allocQ16 ∧
    demo_headers.p7O_NQW (demo_gm (demo_abc eslDNA K Kp) rsc).M
        ≤ (demo_created 4 (demo_abc eslDNA K Kp)).allocQ8 ∧
    demo_headers.p7O_NQF (demo_gm (demo_abc eslDNA K Kp) rsc).M
        ≤ (demo_created 4 (demo_abc eslDNA K Kp)).allocQ4 := by
  obtain ⟨halloc, hM, _⟩ := p7_oprofile_Create_some demo_headers true demo_uninit 4
    (demo_abc eslDNA K Kp) _ (demo_created_some 4 _)
  exact capacity_of_allocated demo_headers (demo_gm (demo_abc eslDNA K Kp) rsc)
    (demo_created 4 (demo_abc eslDNA K Kp)) demo_headers_mono halloc
    (by rw [hM]; show 2 ≤ 4; omega)

/-- The byte track of the two-node example is built with success. -/
theorem demo_mf_ok (rsc : Nat → Nat → Flt ℚ) (K Kp : Nat) :
    (mf_conversion demo_headers (demo_gm (demo_abc eslDNA K Kp) rsc)
      (demo_created 4 (demo_abc eslDNA K Kp))).1 = eslOK := by
  rw [mf_conversion_eq _ _ _ (demo_capacity rsc K Kp).1]

/-- The word track of the two-node example is built with success. -/
theorem demo_vf_ok (rsc : Nat → Nat → Flt ℚ) (K Kp : Nat) :
    (vf_conversion demo_headers (demo_gm (demo_abc eslDNA K Kp) rsc)
      (demo_created 4 (demo_abc eslDNA K Kp))).1 = eslOK := by
  rw [vf_conversion_eq _ _ _ (demo_capacity rsc K Kp).2.1]

/-- Witness for C18: the two-node example with all emission scores 0. -/
theorem C18_bias_is_worst_case_cost_witness :
    (mf_conversion demo_headers (demo_gm (demo_abc eslDNA 4 18) (fun _ _ => .fin 0))
      (demo_created 4 (demo_abc eslDNA 4 18))).1 = eslOK ∧
    demo_headers.eslCONST_LOG2 = .fin (693147 / 1000000) ∧
    (0 : ℚ) < 693147 / 1000000 ∧
    (mf_conversion demo_headers (demo_gm (demo_abc eslDNA 4 18) (fun _ _ => .fin 0))
      (demo_created 4 (demo_abc eslDNA 4 18))).2.scale_b = .fin (3 / (693147 / 1000000)) :=
  ⟨demo_mf_ok _ 4 18, rfl, by norm_num,
   (C18_bias_is_worst_case_cost demo_headers (demo_gm (demo_abc eslDNA 4 18) (fun _ _ => .fin 0))
      (demo_created 4 (demo_abc eslDNA 4 18)) (693147 / 1000000) (demo_mf_ok _ 4 18) rfl
      (by norm_num) (fun _ _ _ _ => Or.inr ⟨0, rfl⟩)).1⟩

/-- Witness for C17: the two-node example with all emission scores 0. -/
theorem C17_byte_track_entries_witness :
    (mf_conversion demo_headers (demo_gm (demo_abc eslDNA 4 18) (fun _ _ => .fin 0))
      (demo_created 4 (demo_abc eslDNA 4 18))).1 = eslOK ∧
    demo_headers.eslCONST_LOG2 = .fin (693147 / 1000000) ∧
    (0 : ℚ) < 693147 / 1000000 ∧
    (mf_conversion demo_headers (demo_gm (demo_abc eslDNA 4 18) (fun _ _ => .fin 0))
      (demo_created 4 (demo_abc eslDNA 4 18))).2.scale_b = .fin (3 / (693147 / 1000000)) :=
  ⟨demo_mf_ok _ 4 18, rfl, by norm_num,
   (C17_byte_track_entries demo_headers (demo_gm (demo_abc eslDNA 4 18) (fun _ _ => .fin 0))
      (demo_created 4 (demo_abc eslDNA 4 18)) (693147 / 1000000) (demo_mf_ok _ 4 18) rfl
      (by norm_num)).1⟩

/-- Witness for C19: a profile with the scale 500 and the score 3.2. -/
theorem C19_wordify_rounds_and_clamps_witness :
    ({ demo_uninit with scale_w := .fin 500 } : P7_OM ℚ).scale_w = .fin 500 ∧
    (0 : ℚ) < 500 ∧
    wordify ({ demo_uninit with scale_w := .fin 500 } : P7_OM ℚ) (.fin (32 / 10))
      = max (-32768) (min 32767 (roundHalfAway ((500 : ℚ) * (32 / 10)))) :=
  ⟨rfl, by norm_num,
   (C19_wordify_rounds_and_clamps ({ demo_uninit with scale_w := .fin 500 } : P7_OM ℚ) 500 rfl
      (by norm_num)).1 (32 / 10)⟩

/-- Witness for C20: the two-node example with all scores 0. -/
theorem C20_word_transitions_nonpositive_witness :
    (vf_conversion demo_headers (demo_gm (demo_abc eslDNA 4 18) (fun _ _ => .fin 0))
      (demo_created 4 (demo_abc eslDNA 4 18))).1 = eslOK ∧
    (vf_conversion demo_headers (demo_gm (demo_abc eslDNA 4 18) (fun _ _ => .fin 0))
      (demo_created 4 (demo_abc eslDNA 4 18))).2.twv (7 * 0 + p7o_tsc_e.toNat p7O_II) 0 ≤ -1 :=
  ⟨demo_vf_ok _ 4 18,
   ((C20_word_transitions_nonpositive demo_headers
      (demo_gm (demo_abc eslDNA 4 18) (fun _ _ => .fin 0))
      (demo_created 4 (demo_abc eslDNA 4 18)) (demo_vf_ok _ 4 18)) 0 (by decide) 0).1⟩

/-- The rounded product of the byte scale and the score 60. -/
theorem demo_round_high : roundHalfAway ((3 : ℚ) / (693147 / 1000000) * 60) = 260 := by
  unfold roundHalfAway
  rw [if_pos (by norm_num)]
  rw [Int.floor_eq_iff]
  constructor <;> norm_num

/-- The value `max` of the example with a score of 60. -/
theorem demo_max_high : mf_max (demo_gm (demo_abc eslDNA 2 6) demo_rsc_high) = .fin 60 := by
  have hsc : ∀ x i, x < (demo_gm (demo_abc eslDNA 2 6) demo_rsc_high).abc.K →
      i < ((demo_gm (demo_abc eslDNA 2 6) demo_rsc_high).M + 1) * 2 →
      IsScore ((demo_gm (demo_abc eslDNA 2 6) demo_rsc_high).rsc x i) := by
    intro x i _ _
    show IsScore (if x = 0 ∧ i = 2 then Flt.fin 60 else Flt.fin 0)
    split_ifs
    · exact Or.inr ⟨60, rfl⟩
    · exact Or.inr ⟨0, rfl⟩
  obtain ⟨m, hm, _, hub, hatt⟩ := mf_max_spec _ hsc
  rw [hm]
  have h60 : (60 : ℚ) ≤ m := by
    have := hub 0 2 (by show 0 < 2; omega) (by show 2 < (2 + 1) * 2; omega)
    have e : (demo_gm (demo_abc eslDNA 2 6) demo_rsc_high).rsc 0 2 = .fin 60 := rfl
    rw [e] at this
    simpa [Flt.le] using this
  rcases hatt with c | ⟨x, i, _, _, c⟩
  · rw [c] at h60
    norm_num at h60
  · have e : (demo_gm (demo_abc eslDNA 2 6) demo_rsc_high).rsc x i
        = (if x = 0 ∧ i = 2 then Flt.fin 60 else Flt.fin 0) := rfl
    rw [e] at c
    split_ifs at c
    · rw [← c]
    · have := Flt.fin.inj c
      rw [← this] at h60
      norm_num at h60

/-- C17 (counterexample): in the two-node example whose largest emission score
is 60, `mf_conversion` succeeds with `scale_b = 3 / 0.693147` and
`bias_b = 255`; the match score of residue 0 at node 1 is 60 and its rounded
cost is -260, which does not exceed `255 - bias_b = 0`, so the claim gives
the sum `-260 + 255 = -5` for the entry of block 0, lane 0; the entry stored is
251. -/
theorem C17_entry_is_not_the_sum :
    (mf_conversion demo_headers (demo_gm (demo_abc eslDNA 2 6) demo_rsc_high)
      (demo_created 4 (demo_abc eslDNA 2 6))).1 = eslOK ∧
    (mf_conversion demo_headers (demo_gm (demo_abc eslDNA 2 6) demo_rsc_high)
      (demo_created 4 (demo_abc eslDNA 2 6))).2.scale_b = .fin (3 / (693147 / 1000000)) ∧
    (mf_conversion demo_headers (demo_gm (demo_abc eslDNA 2 6) demo_rsc_high)
      (demo_created 4 (demo_abc eslDNA 2 6))).2.bias_b = 255 ∧
    p7P_MSC (demo_gm (demo_abc eslDNA 2 6) demo_rsc_high) (0 + 1 + 0 * 2) 0 = .fin 60 ∧
    roundHalfAway (-((3 : ℚ) / (693147 / 1000000)) * 60) = -260 ∧
    (mf_conversion demo_headers (demo_gm (demo_abc eslDNA 2 6) demo_rsc_high)
      (demo_created 4 (demo_abc eslDNA 2 6))).2.rbv 0 0 0 = 251 := by
  have hok := demo_mf_ok demo_rsc_high 2 6
  have hcost : roundHalfAway (-((3 : ℚ) / (693147 / 1000000)) * 60) = -260 := by
    have e : -((3 : ℚ) / (693147 / 1000000)) * 60 = -((3 : ℚ) / (693147 / 1000000) * 60) := by
      ring
    rw [e, roundHalfAway_neg, demo_round_high]
  have hb : mf_bias demo_headers (demo_gm (demo_abc eslDNA 2 6) demo_rsc_high) = 255 := by
    have := mf_bias_fin demo_headers (demo_gm (demo_abc eslDNA 2 6) demo_rsc_high)
      (693147 / 1000000) 60 rfl (by norm_num) demo_max_high (by norm_num)
    rw [demo_round_high] at this
    have h2 : min (255 : Int) 260 = 255 := by decide
    rw [h2] at this
    exact_mod_cast this
  obtain ⟨e1, e2, e3⟩ := mf_conversion_rbv demo_headers
    (demo_gm (demo_abc eslDNA 2 6) demo_rsc_high) (demo_created 4 (demo_abc eslDNA 2 6)) hok 0 0
    (by show 0 < 6; omega) (by show 0 < max 2 ((2 - 1) / 16 + 1); omega)
  have hs := mf_scale_fin demo_headers (693147 / 1000000) rfl (by norm_num)
  refine ⟨hok, by rw [e3, hs], by rw [e2, hb], rfl, hcost, ?_⟩
  rw [e1]
  show (if 0 + 1 + 0 * 2 ≤ 2 then
      biased_cost (mf_scale demo_headers)
        (mf_bias demo_headers (demo_gm (demo_abc eslDNA 2 6) demo_rsc_high)) (.fin 60)
    else 255) = 251
  rw [if_pos (by omega), hs, hb, biased_cost_fin, hcost]
  decide

end BiasClaims

/-! ## Reconfiguration of the length model -/

section ReconfigClaims

variable {α : Type} [LinearOrderedField α] [FloorRing α]

theorem set2x_apply {β : Type} (t : p7o_xstates_e → p7o_xtransitions_e → β) (s : p7o_xstates_e)
    (u : p7o_xtransitions_e) (v : β) (s1 : p7o_xstates_e) (u1 : p7o_xtransitions_e) :
    set2x t s u v s1 u1 = if s1 = s ∧ u1 = u then v else t s1 u1 := by
  unfold set2x
  by_cases hs : s1 = s
  · subst hs
    by_cases hu : u1 = u
    · subst hu; simp
    · simp [hu]
  · simp [hs]

/-- The profile left by `p7_oprofile_ReconfigMSVLength`. -/
theorem p7_oprofile_ReconfigMSVLength_eq (h : Headers α) (om : P7_OM α) (L : Nat) :
    p7_oprofile_ReconfigMSVLength h om L
      = (eslOK, { om with
          tjb_b := unbiased_cost om.scale_b
            (h.logf (Flt.div (.fin 3) (Flt.ofInt ((L : Int) + 3)))) }) := rfl

/-- The move and loop probabilities computed by
`p7_oprofile_ReconfigRestLength`. -/
theorem reconfig_pmove_fin (nj : Flt α) (n : α) (w : Nat) (hnj : nj = .fin n)
    (hden : (w : α) + 2 + n ≠ 0) :
    Flt.div (Flt.add (.fin 2) nj) (Flt.add (Flt.add (Flt.ofInt (w : Int)) (.fin 2)) nj)
      = .fin ((2 + n) / ((w : α) + 2 + n)) ∧
    Flt.sub (.fin 1)
        (Flt.div (Flt.add (.fin 2) nj) (Flt.add (Flt.add (Flt.ofInt (w : Int)) (.fin 2)) nj))
      = .fin (1 - (2 + n) / ((w : α) + 2 + n)) := by
  subst hnj
  have e : Flt.div (Flt.add (.fin 2) (.fin n))
      (Flt.add (Flt.add (Flt.ofInt (w : Int)) (.fin 2)) (.fin n))
      = .fin ((2 + n) / ((w : α) + 2 + n)) := by
    show (if (((w : Int) : α) + 2 + n) = 0 then _ else Flt.fin ((2 + n) / (((w : Int) : α) + 2 + n)))
      = _
    have hc : (((w : Int) : α)) = (w : α) := by push_cast; rfl
    rw [hc, if_neg hden]
  refine ⟨e, ?_⟩
  rw [e]
  show Flt.fin (1 + -((2 + n) / ((w : α) + 2 + n))) = _
  congr 1
  ring

/-- The special-state parameters and the length left by
`p7_oprofile_ReconfigRestLength`. -/
theorem p7_oprofile_ReconfigRestLength_xf (h : Headers α) (om : P7_OM α) (L wholeSz : Nat) :
    (p7_oprofile_ReconfigRestLength h om L wholeSz).1 = eslOK ∧
    (p7_oprofile_ReconfigRestLength h om L wholeSz).2.L = L ∧
    (∀ s, s ≠ p7O_E →
      (p7_oprofile_ReconfigRestLength h om L wholeSz).2.xf s p7O_MOVE
        = Flt.div (Flt.add (.fin 2) om.nj)
            (Flt.add (Flt.add (Flt.ofInt (wholeSz : Int)) (.fin 2)) om.nj) ∧
      (p7_oprofile_ReconfigRestLength h om L wholeSz).2.xf s p7O_LOOP
        = Flt.sub (.fin 1) (Flt.div (Flt.add (.fin 2) om.nj)
            (Flt.add (Flt.add (Flt.ofInt (wholeSz : Int)) (.fin 2)) om.nj))) ∧
    (∀ t, (p7_oprofile_ReconfigRestLength h om L wholeSz).2.xf p7O_E t = om.xf p7O_E t) ∧
    (∀ s, (p7_oprofile_ReconfigRestLength h om L wholeSz).2.xw s p7O_LOOP = om.xw s p7O_LOOP) ∧
    (∀ t, (p7_oprofile_ReconfigRestLength h om L wholeSz).2.xw p7O_E t = om.xw p7O_E t) := by
  refine ⟨rfl, rfl, ?_, ?_, ?_, ?_⟩
  · intro s hs
    cases s
    · exact absurd rfl hs
    all_goals
      constructor <;>
        simp [p7_oprofile_ReconfigRestLength, set2x_apply]
  · intro t
    cases t <;> simp [p7_oprofile_ReconfigRestLength, set2x_apply]
  · intro s
    cases s <;> simp [p7_oprofile_ReconfigRestLength, set2x_apply]
  · intro t
    cases t <;> simp [p7_oprofile_ReconfigRestLength, set2x_apply]

/-- C24: for every optimized profile `om` and arguments `L`, `wholeSz`, calling
`p7_oprofile_ReconfigMSVLength(om, wholeSz)` and then
`p7_oprofile_ReconfigRestLength(om, L, wholeSz)` leaves the same profile as
`p7_oprofile_ReconfigLength(om, L, wholeSz)`, and all of them return `eslOK`;
the first update writes only `tjb_b`, the second writes only `xf`, `xw` and
`L`; and applying the two updates in the opposite order gives the same
profile. -/
theorem C24_reconfig_length_split (h : Headers α) (om : P7_OM α) (L wholeSz : Nat) :
    (p7_oprofile_ReconfigRestLength h (p7_oprofile_ReconfigMSVLength h om wholeSz).2 L wholeSz).2
      = (p7_oprofile_ReconfigLength h om L wholeSz).2 ∧
    (p7_oprofile_ReconfigMSVLength h om wholeSz).1 = eslOK ∧
    (p7_oprofile_ReconfigRestLength h (p7_oprofile_ReconfigMSVLength h om wholeSz).2 L wholeSz).1
      = eslOK ∧
    (p7_oprofile_ReconfigLength h om L wholeSz).1 = eslOK ∧
    (p7_oprofile_ReconfigMSVLength h om wholeSz).2
      = { om with tjb_b := (p7_oprofile_ReconfigMSVLength h om wholeSz).2.tjb_b } ∧
    (p7_oprofile_ReconfigRestLength h om L wholeSz).2
      = { om with xf := (p7_oprofile_ReconfigRestLength h om L wholeSz).2.xf
                  xw := (p7_oprofile_ReconfigRestLength h om L wholeSz).2.xw
                  L := (p7_oprofile_ReconfigRestLength h om L wholeSz).2.L } ∧
    (p7_oprofile_ReconfigMSVLength h (p7_oprofile_ReconfigRestLength h om L wholeSz).2 wholeSz).2
      = (p7_oprofile_ReconfigRestLength h (p7_oprofile_ReconfigMSVLength h om wholeSz).2 L
          wholeSz).2 := by
  refine ⟨rfl, rfl, rfl, rfl, rfl, rfl, rfl⟩

theorem p7_oprofile_ReconfigLength_frame (h : Headers α) (om : P7_OM α) (L wholeSz : Nat) :
    ReconfigFrame om (p7_oprofile_ReconfigLength h om L wholeSz).2 := by
  have hx := (p7_oprofile_ReconfigRestLength_xf h
    (p7_oprofile_ReconfigMSVLength h om wholeSz).2 L wholeSz).2.2.2.2.1
  exact ⟨rfl, rfl, rfl, rfl, rfl, rfl, rfl, rfl, rfl, rfl, rfl, rfl, rfl, rfl, rfl, rfl,
    hx p7O_N, hx p7O_C, hx p7O_J⟩

/-- C25: `p7_oprofile_ReconfigLength`, `p7_oprofile_ReconfigMultihit` and
`p7_oprofile_ReconfigUnihit` leave unchanged, for every profile and arguments,
the striped emission tables `rbv`, `rwv`, `rfv`, the striped transition tables
`twv`, `tfv`, the fields `tbm_b`, `tec_b`, `scale_b`, `base_b`, `bias_b`,
`scale_w`, `base_w`, `ddbound_w`, `M`, `allocM`, `mode`, and the word-track
costs `xw[N][LOOP]`, `xw[C][LOOP]`, `xw[J][LOOP]`. -/
theorem C25_reconfig_frame (h : Headers α) (om : P7_OM α) (L wholeSz : Nat) :
    ReconfigFrame om (p7_oprofile_ReconfigLength h om L wholeSz).2 ∧
    ReconfigFrame om (p7_oprofile_ReconfigMultihit h om L wholeSz).2 ∧
    ReconfigFrame om (p7_oprofile_ReconfigUnihit h om L wholeSz).2 := by
  refine ⟨p7_oprofile_ReconfigLength_frame h om L wholeSz, ?_, ?_⟩
  · obtain ⟨a1, a2, a3, a4, a5, a6, a7, a8, a9, a10, a11, a12, a13, a14, a15, a16, a17, a18,
      a19⟩ := p7_oprofile_ReconfigLength_frame h
        ({ om with
            xf := set2x (set2x om.xf p7O_E p7O_MOVE (.fin (1 / 2))) p7O_E p7O_LOOP (.fin (1 / 2))
            nj := .fin 1
            xw := set2x (set2x om.xw p7O_E p7O_MOVE (wordify om (Flt.neg h.eslCONST_LOG2)))
              p7O_E p7O_LOOP (wordify om (Flt.neg h.eslCONST_LOG2)) }) L wholeSz
    refine ⟨a1, a2, a3, a4, a5, a6, a7, a8, a9, a10, a11, a12, a13, a14, a15, a16, ?_, ?_, ?_⟩
    · exact a17.trans (by simp [set2x_apply])
    · exact a18.trans (by simp [set2x_apply])
    · exact a19.trans (by simp [set2x_apply])
  · obtain ⟨a1, a2, a3, a4, a5, a6, a7, a8, a9, a10, a11, a12, a13, a14, a15, a16, a17, a18,
      a19⟩ := p7_oprofile_ReconfigLength_frame h
        ({ om with
            xf := set2x (set2x om.xf p7O_E p7O_MOVE (.fin 1)) p7O_E p7O_LOOP (.fin 0)
            nj := .fin 0
            xw := set2x (set2x om.xw p7O_E p7O_MOVE 0) p7O_E p7O_LOOP (-32768) }) L wholeSz
    refine ⟨a1, a2, a3, a4, a5, a6, a7, a8, a9, a10, a11, a12, a13, a14, a15, a16, ?_, ?_, ?_⟩
    · exact a17.trans (by simp [set2x_apply])
    · exact a18.trans (by simp [set2x_apply])
    · exact a19.trans (by simp [set2x_apply])

/-- The float-track parameters of N, C and J and the length left by
`p7_oprofile_ReconfigLength`, for a finite `nj`. -/
theorem p7_oprofile_ReconfigLength_xf (h : Headers α) (om : P7_OM α) (L wholeSeqSz : Nat)
    (n : α) (hnj : om.nj = .fin n) (hden : (wholeSeqSz : α) + 2 + n ≠ 0) :
    (p7_oprofile_ReconfigLength h om L wholeSeqSz).1 = eslOK ∧
    (p7_oprofile_ReconfigLength h om L wholeSeqSz).2.L = L ∧
    ∀ s, s ≠ p7O_E →
      (p7_oprofile_ReconfigLength h om L wholeSeqSz).2.xf s p7O_MOVE
        = .fin ((2 + n) / ((wholeSeqSz : α) + 2 + n)) ∧
      (p7_oprofile_ReconfigLength h om L wholeSeqSz).2.xf s p7O_LOOP
        = .fin (1 - (2 + n) / ((wholeSeqSz : α) + 2 + n)) := by
  obtain ⟨e1, e2, e3, _⟩ := p7_oprofile_ReconfigRestLength_xf h
    (p7_oprofile_ReconfigMSVLength h om wholeSeqSz).2 L wholeSeqSz
  have hnj2 : (p7_oprofile_ReconfigMSVLength h om wholeSeqSz).2.nj = .fin n := hnj
  obtain ⟨p1, p2⟩ := reconfig_pmove_fin _ n wholeSeqSz hnj2 hden
  refine ⟨rfl, e2, ?_⟩
  intro s hs
  obtain ⟨m1, m2⟩ := e3 s hs
  exact ⟨m1.trans p1, m2.trans p2⟩

/-- C26 (as the claim states it, refuted): a profile with `nj = 0` reconfigured
by `p7_oprofile_ReconfigLength(om, 100, 200)` gets the N move probability
2/202, not 2/(100 + 2), while `om->L` becomes 100. -/
theorem C26_move_not_from_second_argument :
    (p7_oprofile_ReconfigLength demo_headers demo_uninit 100 200).2.xf p7O_N p7O_MOVE
      = .fin (2 / 202) ∧
    (Flt.fin (2 / 202) : Flt ℚ) ≠ .fin ((2 + 0) / (100 + 2 + 0)) ∧
    (p7_oprofile_ReconfigLength demo_headers demo_uninit 100 200).2.L = 100 := by
  obtain ⟨_, e2, e3⟩ := p7_oprofile_ReconfigLength_xf demo_headers demo_uninit 100 200 0 rfl
    (by norm_num)
  refine ⟨?_, ?_, e2⟩
  · rw [(e3 p7O_N (by decide)).1]
    congr 1
    norm_num
  · intro hc
    have := Flt.fin.inj hc
    norm_num at this

/-- C26 (amended): after `p7_oprofile_ReconfigLength(om, L, wholeSeqSz)` on a
profile with a finite `nj` (with `wholeSeqSz + 2 + nj` not zero), the
float-track move probability of each of the N, C and J states is
`(2 + nj) / (wholeSeqSz + 2 + nj)` for the size `wholeSeqSz` given as the third
argument, the loop probability is 1 minus that, `om->L` is the second argument
`L`, and the call returns `eslOK`; after `p7_oprofile_ReconfigUnihit` the move
probability is `2 / (wholeSeqSz + 2)` and after `p7_oprofile_ReconfigMultihit`
it is `3 / (wholeSeqSz + 3)`. -/
theorem C26_reconfig_length_float_track (h : Headers α) (om : P7_OM α) (L wholeSeqSz : Nat)
    (n : α) (hnj : om.nj = .fin n) (hden : (wholeSeqSz : α) + 2 + n ≠ 0) :
    (p7_oprofile_ReconfigLength h om L wholeSeqSz).1 = eslOK ∧
    (p7_oprofile_ReconfigLength h om L wholeSeqSz).2.L = L ∧
    (∀ s, s = p7O_N ∨ s = p7O_C ∨ s = p7O_J →
      (p7_oprofile_ReconfigLength h om L wholeSeqSz).2.xf s p7O_MOVE
        = .fin ((2 + n) / ((wholeSeqSz : α) + 2 + n)) ∧
      (p7_oprofile_ReconfigLength h om L wholeSeqSz).2.xf s p7O_LOOP
        = .fin (1 - (2 + n) / ((wholeSeqSz : α) + 2 + n))) ∧
    (∀ s, s = p7O_N ∨ s = p7O_C ∨ s = p7O_J →
      (p7_oprofile_ReconfigUnihit h om L wholeSeqSz).2.xf s p7O_MOVE
        = .fin (2 / ((wholeSeqSz : α) + 2)) ∧
      (p7_oprofile_ReconfigUnihit h om L wholeSeqSz).2.xf s p7O_LOOP
        = .fin (1 - 2 / ((wholeSeqSz : α) + 2))) ∧
    (∀ s, s = p7O_N ∨ s = p7O_C ∨ s = p7O_J →
      (p7_oprofile_ReconfigMultihit h om L wholeSeqSz).2.xf s p7O_MOVE
        = .fin (3 / ((wholeSeqSz : α) + 3)) ∧
      (p7_oprofile_ReconfigMultihit h om L wholeSeqSz).2.xf s p7O_LOOP
        = .fin (1 - 3 / ((wholeSeqSz : α) + 3))) := by
  have hne : ∀ s, s = p7O_N ∨ s = p7O_C ∨ s = p7O_J → s ≠ p7O_E := by
    intro s hs
    rcases hs with rfl | rfl | rfl <;> decide
  have hw : (0 : α) ≤ (wholeSeqSz : α) := Nat.cast_nonneg _
  obtain ⟨e1, e2, e3⟩ := p7_oprofile_ReconfigLength_xf h om L wholeSeqSz n hnj hden
  refine ⟨e1, e2, fun s hs => e3 s (hne s hs), ?_, ?_⟩
  · intro s hs
    obtain ⟨_, _, u3⟩ := p7_oprofile_ReconfigLength_xf h
      ({ om with
          xf := set2x (set2x om.xf p7O_E p7O_MOVE (.fin 1)) p7O_E p7O_LOOP (.fin 0)
          nj := .fin 0
          xw := set2x (set2x om.xw p7O_E p7O_MOVE 0) p7O_E p7O_LOOP (-32768) })
      L wholeSeqSz 0 rfl (by positivity)
    obtain ⟨m1, m2⟩ := u3 s (hne s hs)
    have k : (2 + (0 : α)) / ((wholeSeqSz : α) + 2 + 0) = 2 / ((wholeSeqSz : α) + 2) := by
      rw [add_zero, add_zero]
    rw [k] at m1 m2
    exact ⟨m1, m2⟩
  · intro s hs
    obtain ⟨_, _, u3⟩ := p7_oprofile_ReconfigLength_xf h
      ({ om with
          xf := set2x (set2x om.xf p7O_E p7O_MOVE (.fin (1 / 2))) p7O_E p7O_LOOP (.fin (1 / 2))
          nj := .fin 1
          xw := set2x (set2x om.xw p7O_E p7O_MOVE (wordify om (Flt.neg h.eslCONST_LOG2)))
            p7O_E p7O_LOOP (wordify om (Flt.neg h.eslCONST_LOG2)) })
      L wholeSeqSz 1 rfl (by positivity)
    obtain ⟨m1, m2⟩ := u3 s (hne s hs)
    have k : (2 + (1 : α)) / ((wholeSeqSz : α) + 2 + 1) = 3 / ((wholeSeqSz : α) + 3) := by
      congr 1
      · norm_num
      · ring
    rw [k] at m1 m2
    exact ⟨m1, m2⟩

/-- Witness for C26 (amended): a profile with `nj = 0`, `L = 100` and
`wholeSeqSz = 200`. -/
theorem C26_reconfig_length_float_track_witness :
    demo_uninit.nj = .fin 0 ∧ ((200 : Nat) : ℚ) + 2 + 0 ≠ 0 ∧
    (p7_oprofile_ReconfigLength demo_headers demo_uninit 100 200).2.L = 100 :=
  ⟨rfl, by norm_num,
   (C26_reconfig_length_float_track demo_headers demo_uninit 100 200 0 rfl (by norm_num)).2.1⟩

end ReconfigClaims
/-! ## The DD bound of the word track -/

section BoundClaims

variable {α : Type} [LinearOrderedField α] [FloorRing α]

theorem vf_scale_fin (h : Headers α) (l : α) (hl : h.eslCONST_LOG2 = .fin l) (hpos : 0 < l) :
    vf_scale h = .fin (500 / l) := by
  unfold vf_scale
  rw [hl]
  show (if l = 0 then _ else Flt.fin (500 / l)) = _
  rw [if_neg (ne_of_gt hpos)]

theorem word_cost_range (c s : Flt α) : -32768 ≤ word_cost c s ∧ word_cost c s ≤ 32767 := by
  unfold word_cost
  simp only
  split_ifs
  · omega
  · omega
  · exact wrap_int16_range _

/-- The sums formed on the profile left by a successful `vf_conversion` are
those the loop formed. -/
theorem dd_sum_fill (h : Headers α) (gm : P7_PROFILE α) (om : P7_OM α) (k : Nat) :
    dd_sum (vf_fill h gm om) gm k
      = word_cost (vf_scale h) (p7P_TSC gm k p7P_DD)
        + word_cost (vf_scale h) (p7P_TSC gm (k + 1) p7P_DM)
        - word_cost (vf_scale h) (p7P_TSC gm (k + 1) p7P_BM) := rfl

/-- The loop that finds the DD bound, as long as no sum exceeds 32767: the
result is the largest of -32768 and the sums seen. -/
theorem vf_ddbound_fold (h : Headers α) (gm : P7_PROFILE α) (om : P7_OM α) :
    ∀ n, (∀ i, i < n → dd_sum (vf_fill h gm om) gm (i + 2) ≤ 32767) →
      -32768 ≤ forUp n (vf_ddbound_upd h gm) (-32768) ∧
      forUp n (vf_ddbound_upd h gm) (-32768) ≤ 32767 ∧
      (∀ i, i < n →
        dd_sum (vf_fill h gm om) gm (i + 2) ≤ forUp n (vf_ddbound_upd h gm) (-32768)) ∧
      (forUp n (vf_ddbound_upd h gm) (-32768) = -32768 ∨
        ∃ i, i < n ∧
          forUp n (vf_ddbound_upd h gm) (-32768) = dd_sum (vf_fill h gm om) gm (i + 2)) := by
  intro n
  induction n with
  | zero =>
    intro _
    refine ⟨le_rfl, by show (-32768 : Int) ≤ 32767; omega,
      fun i hi => absurd hi (Nat.not_lt_zero i), Or.inl rfl⟩
  | succ n ih =>
    intro hfit
    obtain ⟨i1, i2, i3, i4⟩ := ih (fun i hi => hfit i (Nat.lt_succ_of_lt hi))
    have hS := hfit n (Nat.lt_succ_self n)
    have hstep : forUp (n + 1) (vf_ddbound_upd h gm) (-32768)
        = wrap_int16 (if forUp n (vf_ddbound_upd h gm) (-32768)
              > dd_sum (vf_fill h gm om) gm (n + 2)
            then forUp n (vf_ddbound_upd h gm) (-32768)
            else dd_sum (vf_fill h gm om) gm (n + 2)) := rfl
    rw [hstep]
    by_cases c : forUp n (vf_ddbound_upd h gm) (-32768) > dd_sum (vf_fill h gm om) gm (n + 2)
    · rw [if_pos c, wrap_int16_of_range _ i1 i2]
      refine ⟨i1, i2, ?_, ?_⟩
      · intro i hi
        rcases Nat.lt_succ_iff_lt_or_eq.mp hi with d | d
        · exact i3 i d
        · rw [d]; omega
      · rcases i4 with e | ⟨i, hi, e⟩
        · exact Or.inl e
        · exact Or.inr ⟨i, Nat.lt_succ_of_lt hi, e⟩
    · rw [if_neg c, wrap_int16_of_range _ (by omega) hS]
      refine ⟨by omega, hS, ?_, ?_⟩
      · intro i hi
        rcases Nat.lt_succ_iff_lt_or_eq.mp hi with d | d
        · have := i3 i d
          omega
        · rw [d]
      · exact Or.inr ⟨n, Nat.lt_succ_self n, rfl⟩

/-- C21 (amended): after a successful `vf_conversion`, provided none of the
sums `wordify(tDD(k)) + wordify(tDM(k+1)) - wordify(tBM(k+1))` for
`2 <= k <= M-2` exceeds 32767, `ddbound_w` is the maximum of -32768 and these
sums: it is at least -32768, at least every sum, and equal to -32768 or to one
of the sums.  Whatever the sums, `ddbound_w` is -32768 for every model with
`M <= 3`, and it depends only on `gm`, not on the profile converted into. -/
theorem C21_ddbound_is_maximum (h : Headers α) (gm : P7_PROFILE α) (om : P7_OM α)
    (hok : (vf_conversion h gm om).1 = eslOK)
    (hfit : ∀ k, 2 ≤ k → k + 2 ≤ gm.M → dd_sum (vf_conversion h gm om).2 gm k ≤ 32767) :
    -32768 ≤ (vf_conversion h gm om).2.ddbound_w ∧
    (∀ k, 2 ≤ k → k + 2 ≤ gm.M →
      dd_sum (vf_conversion h gm om).2 gm k ≤ (vf_conversion h gm om).2.ddbound_w) ∧
    ((vf_conversion h gm om).2.ddbound_w = -32768 ∨
      ∃ k, 2 ≤ k ∧ k + 2 ≤ gm.M ∧
        (vf_conversion h gm om).2.ddbound_w = dd_sum (vf_conversion h gm om).2 gm k) ∧
    (gm.M ≤ 3 → (vf_conversion h gm om).2.ddbound_w = -32768) ∧
    (∀ om2 : P7_OM α, (vf_conversion h gm om2).1 = eslOK →
      (vf_conversion h gm om2).2.ddbound_w = (vf_conversion h gm om).2.ddbound_w) := by
  rw [vf_conversion_ok h gm om hok] at hfit ⊢
  have hd : (vf_fill h gm om).ddbound_w = forUp (gm.M - 1 - 2) (vf_ddbound_upd h gm) (-32768) :=
    rfl
  obtain ⟨f1, _, f3, f4⟩ := vf_ddbound_fold h gm om (gm.M - 1 - 2) (fun i hi => by
    have := hfit (i + 2) (by omega) (by omega)
    exact this)
  refine ⟨?_, ?_, ?_, ?_, ?_⟩
  · show -32768 ≤ (vf_fill h gm om).ddbound_w
    rw [hd]; exact f1
  · intro k h1 h2
    show dd_sum (vf_fill h gm om) gm k ≤ (vf_fill h gm om).ddbound_w
    rw [hd]
    have := f3 (k - 2) (by omega)
    rwa [Nat.sub_add_cancel h1] at this
  · show (vf_fill h gm om).ddbound_w = -32768 ∨ ∃ k, 2 ≤ k ∧ k + 2 ≤ gm.M ∧
      (vf_fill h gm om).ddbound_w = dd_sum (vf_fill h gm om) gm k
    rw [hd]
    rcases f4 with e | ⟨i, hi, e⟩
    · exact Or.inl e
    · exact Or.inr ⟨i + 2, by omega, by omega, e⟩
  · intro hM
    show (vf_fill h gm om).ddbound_w = -32768
    rw [hd]
    have : gm.M - 1 - 2 = 0 := by omega
    rw [this]
    rfl
  · intro om2 hok2
    rw [vf_conversion_ok h gm om2 hok2]
    rfl

/-- With a finite scale, the word cost of the score 0 is 0. -/
theorem word_cost_zero (om : P7_OM α) (c : α) (hc : om.scale_w = .fin c) :
    wordify om (.fin 0) = 0 := by
  rw [wordify_fin om c 0 hc]
  have e : c * 0 = ((0 : Int) : α) := by simp
  rw [e, roundHalfAway_intCast]
  rfl

/-- The sums of the four-node example: the sum for `k = 2` is 32768 when the
entry score of node 3 is minus infinity. -/
theorem demo_dd_sum (om : P7_OM ℚ) (c : ℚ) (hc : om.scale_w = .fin c) (hpos : 0 < c)
    (abc : ESL_ALPHABET) :
    dd_sum om (demo_gm4 abc demo_tsc_dd) 2 = 32768 ∧
    dd_sum om (demo_gm4 abc (fun _ => .fin 0)) 2 = 0 := by
  have w0 := word_cost_zero om c hc
  have wn := (wordify_inf om c hc hpos).2
  constructor
  · show wordify om (demo_tsc_dd (2 * 8 + 5)) + wordify om (demo_tsc_dd (3 * 8 + 2))
      - wordify om (demo_tsc_dd (3 * 8 + 3)) = 32768
    have e1 : demo_tsc_dd (2 * 8 + 5) = .fin 0 := rfl
    have e2 : demo_tsc_dd (3 * 8 + 2) = .fin 0 := rfl
    have e3 : demo_tsc_dd (3 * 8 + 3) = .ninf := rfl
    rw [e1, e2, e3, w0, wn]
    rfl
  · show wordify om (.fin 0) + wordify om (.fin 0) - wordify om (.fin 0) = 0
    rw [w0]
    rfl

/-- The profile created for four nodes has room for the four-node example. -/
theorem demo_vf4_ok (abc : ESL_ALPHABET) (tsc : Nat → Flt ℚ) :
    vf_conversion demo_headers (demo_gm4 abc tsc) (demo_created 4 abc)
      = (eslOK, vf_fill demo_headers (demo_gm4 abc tsc) (demo_created 4 abc)) := by
  obtain ⟨halloc, hM, _⟩ := p7_oprofile_Create_some demo_headers true demo_uninit 4
    abc _ (demo_created_some 4 _)
  exact vf_conversion_eq _ _ _ (capacity_of_allocated demo_headers (demo_gm4 abc tsc)
    (demo_created 4 abc) demo_headers_mono halloc (by rw [hM]; show 4 ≤ 4; omega)).2.1

/-- C21 (as the claim states it, refuted): in the four-node example whose
scores `tDD(2)` and `tDM(3)` are 0 and whose entry score `tBM(3)` is minus
infinity, `vf_conversion` succeeds, the only sum (`k = 2`) is
`0 + 0 - (-32768) = 32768`, so the maximum of -32768 and the sums is 32768; the
16-bit field `ddbound_w` holds -32768. -/
theorem C21_ddbound_overflow :
    (vf_conversion demo_headers (demo_gm4 (demo_abc eslDNA 4 18) demo_tsc_dd)
      (demo_created 4 (demo_abc eslDNA 4 18))).1 = eslOK ∧
    dd_sum (vf_conversion demo_headers (demo_gm4 (demo_abc eslDNA 4 18) demo_tsc_dd)
      (demo_created 4 (demo_abc eslDNA 4 18))).2
      (demo_gm4 (demo_abc eslDNA 4 18) demo_tsc_dd) 2 = 32768 ∧
    (vf_conversion demo_headers (demo_gm4 (demo_abc eslDNA 4 18) demo_tsc_dd)
      (demo_created 4 (demo_abc eslDNA 4 18))).2.ddbound_w = -32768 := by
  rw [demo_vf4_ok]
  have hs : (vf_fill demo_headers (demo_gm4 (demo_abc eslDNA 4 18) demo_tsc_dd)
      (demo_created 4 (demo_abc eslDNA 4 18))).scale_w = .fin (500 / (693147 / 1000000)) :=
    vf_scale_fin demo_headers (693147 / 1000000) rfl (by norm_num)
  have hsum := (demo_dd_sum _ _ hs (by norm_num) (demo_abc eslDNA 4 18)).1
  refine ⟨rfl, hsum, ?_⟩
  show wrap_int16 (if (-32768 : Int)
      > dd_sum (vf_fill demo_headers (demo_gm4 (demo_abc eslDNA 4 18) demo_tsc_dd)
          (demo_created 4 (demo_abc eslDNA 4 18))) (demo_gm4 (demo_abc eslDNA 4 18) demo_tsc_dd) 2
    then -32768
    else dd_sum (vf_fill demo_headers (demo_gm4 (demo_abc eslDNA 4 18) demo_tsc_dd)
          (demo_created 4 (demo_abc eslDNA 4 18))) (demo_gm4 (demo_abc eslDNA 4 18) demo_tsc_dd) 2)
    = -32768
  rw [hsum]
  decide

/-- Witness for C21 (amended): the four-node example with all scores 0, whose
only sum is 0. -/
theorem C21_ddbound_is_maximum_witness :
    (vf_conversion demo_headers (demo_gm4 (demo_abc eslDNA 4 18) (fun _ => .fin 0))
      (demo_created 4 (demo_abc eslDNA 4 18))).1 = eslOK ∧
    dd_sum (vf_conversion demo_headers (demo_gm4 (demo_abc eslDNA 4 18) (fun _ => .fin 0))
      (demo_created 4 (demo_abc eslDNA 4 18))).2
      (demo_gm4 (demo_abc eslDNA 4 18) (fun _ => .fin 0)) 2 ≤ 32767 ∧
    -32768 ≤ (vf_conversion demo_headers (demo_gm4 (demo_abc eslDNA 4 18) (fun _ => .fin 0))
      (demo_created 4 (demo_abc eslDNA 4 18))).2.ddbound_w := by
  have hok : (vf_conversion demo_headers (demo_gm4 (demo_abc eslDNA 4 18) (fun _ => .fin 0))
      (demo_created 4 (demo_abc eslDNA 4 18))).1 = eslOK := by rw [demo_vf4_ok]
  have hs : (vf_conversion demo_headers (demo_gm4 (demo_abc eslDNA 4 18) (fun _ => .fin 0))
      (demo_created 4 (demo_abc eslDNA 4 18))).2.scale_w = .fin (500 / (693147 / 1000000)) := by
    rw [demo_vf4_ok]
    exact vf_scale_fin demo_headers (693147 / 1000000) rfl (by norm_num)
  have hsum := (demo_dd_sum _ _ hs (by norm_num) (demo_abc eslDNA 4 18)).2
  have hfit : ∀ k, 2 ≤ k → k + 2 ≤ (demo_gm4 (demo_abc eslDNA 4 18) (fun _ => .fin 0)).M →
      dd_sum (vf_conversion demo_headers (demo_gm4 (demo_abc eslDNA 4 18) (fun _ => .fin 0))
        (demo_created 4 (demo_abc eslDNA 4 18))).2
        (demo_gm4 (demo_abc eslDNA 4 18) (fun _ => .fin 0)) k ≤ 32767 := by
    intro k h1 h2
    have h3 : k + 2 ≤ 4 := h2
    have hk : k = 2 := by omega
    rw [hk, hsum]
    decide
  exact ⟨hok, by rw [hsum]; decide,
    (C21_ddbound_is_maximum demo_headers (demo_gm4 (demo_abc eslDNA 4 18) (fun _ => .fin 0))
      (demo_created 4 (demo_abc eslDNA 4 18)) hok hfit).1⟩

end BoundClaims
/-! ## The float track and the striping of the three tracks -/

section FloatTrackClaims

variable {α : Type} [LinearOrderedField α] [FloorRing α]

theorem fb_conversion_ok (h : Headers α) (gm : P7_PROFILE α) (om : P7_OM α)
    (hok : (fb_conversion h gm om).1 = eslOK) :
    fb_conversion h gm om = (eslOK, fb_fill h gm om) := by
  by_cases c : h.p7O_NQF gm.M ≤ om.allocQ4
  · exact fb_conversion_eq h gm om c
  · rw [fb_conversion_small h gm om (not_le.mp c)] at hok
    exact Status.noConfusion hok

/-- Where the profile left by `fb_conversion` holds the vector of transition
`t` of block `q`, and the DD vector of block `q`. -/
theorem fb_fill_tfv (h : Headers α) (gm : P7_PROFILE α) (om : P7_OM α) (q : Nat)
    (hq : q < h.p7O_NQF gm.M) :
    (∀ t, t < 7 → (fb_fill h gm om).tfv (7 * q + t) = fb_tfv h gm q t) ∧
    (fb_fill h gm om).tfv (7 * h.p7O_NQF gm.M + q) = fb_ddv h gm q := by
  constructor
  · intro t ht
    show (if 7 * h.p7O_NQF gm.M ≤ 7 * q + t ∧ 7 * q + t < 7 * h.p7O_NQF gm.M + h.p7O_NQF gm.M
      then _ else if 7 * q + t < 7 * h.p7O_NQF gm.M then
        fb_tfv h gm ((7 * q + t) / 7) ((7 * q + t) % 7) else _) = _
    rw [if_neg (by omega), if_pos (by omega)]
    have e1 : (7 * q + t) / 7 = q := by omega
    have e2 : (7 * q + t) % 7 = t := by omega
    rw [e1, e2]
  · show (if 7 * h.p7O_NQF gm.M ≤ 7 * h.p7O_NQF gm.M + q ∧
        7 * h.p7O_NQF gm.M + q < 7 * h.p7O_NQF gm.M + h.p7O_NQF gm.M
      then fb_ddv h gm (7 * h.p7O_NQF gm.M + q - 7 * h.p7O_NQF gm.M) else _) = _
    rw [if_pos ⟨by omega, by omega⟩]
    have e : 7 * h.p7O_NQF gm.M + q - 7 * h.p7O_NQF gm.M = q := by omega
    rw [e]

theorem fb_fill_rfv (h : Headers α) (gm : P7_PROFILE α) (om : P7_OM α) (x q : Nat)
    (hx : x < gm.abc.Kp) (hq : q < h.p7O_NQF gm.M) :
    (fb_fill h gm om).rfv x q = fb_rfv h gm x q := by
  show (if x < gm.abc.Kp ∧ q < h.p7O_NQF gm.M then fb_rfv h gm x q else om.rfv x q) = _
  rw [if_pos ⟨hx, hq⟩]

theorem fb_fill_xf (h : Headers α) (gm : P7_PROFILE α) (om : P7_OM α)
    (s : p7o_xstates_e) (t : p7o_xtransitions_e) :
    (fb_fill h gm om).xf s t = h.expf (gm.xsc (xstate_gm s) (xtrans_gm t)) := by
  cases s <;> cases t <;> rfl

/-- C22: after a successful `fb_conversion`, with `esl_sse_expf` the lane-wise
`expf` and `expf(-infinity) = 0`, the float track holds odds ratios: for every
residue `x`, block `q < nq` and lane `z < 4` with `k = q + 1 + z*nq`,
`rfv[x][q][z]` is `expf(score(k, x))` if `k <= M` and 0 otherwise; the entry
of transition `t` (other than DD) of block `q` is `expf` of the transition
score that the `switch` selects for `t` at node `kb + z*nq`, and 0 in the
padding lanes (`kb + z*nq >= M`); the DD entry of block `q` is
`expf(tDD(k))`, and 0 in the padding lanes; `xf[s][t] = expf(gm->xsc[s][t])`
for every special state and transition.  Hence, when `expf` is not negative on
every argument that is not a NaN and no score of `gm` is a NaN, every one of
these entries is at least 0. -/
theorem C22_float_track_odds_ratios (h : Headers α) (gm : P7_PROFILE α) (om : P7_OM α)
    (hok : (fb_conversion h gm om).1 = eslOK)
    (hv : ∀ (v : M128 (Flt α)) (z : Fin 4), h.esl_sse_expf v z = h.expf (v z))
    (h0 : h.expf .ninf = .fin 0) :
    (∀ x q (z : Fin 4), x < gm.abc.Kp → q < h.p7O_NQF gm.M →
      (fb_conversion h gm om).2.rfv x q z
        = if q + 1 + z.val * h.p7O_NQF gm.M ≤ gm.M then
            h.expf (p7P_MSC gm (q + 1 + z.val * h.p7O_NQF gm.M) x)
          else .fin 0) ∧
    (∀ q (t : p7o_tsc_e) (z : Fin 4), q < h.p7O_NQF gm.M → t ≠ p7O_DD →
      (fb_conversion h gm om).2.tfv (7 * q + t.toNat) z
        = if (fb_switch t.toNat (q + 1)).2 + z.val * h.p7O_NQF gm.M < gm.M then
            h.expf (p7P_TSC gm ((fb_switch t.toNat (q + 1)).2 + z.val * h.p7O_NQF gm.M)
              (fb_switch t.toNat (q + 1)).1)
          else .fin 0) ∧
    (∀ q (z : Fin 4), q < h.p7O_NQF gm.M →
      (fb_conversion h gm om).2.tfv (7 * h.p7O_NQF gm.M + q) z
        = if q + 1 + z.val * h.p7O_NQF gm.M < gm.M then
            h.expf (p7P_TSC gm (q + 1 + z.val * h.p7O_NQF gm.M) p7P_DD)
          else .fin 0) ∧
    (∀ s t, (fb_conversion h gm om).2.xf s t = h.expf (gm.xsc (xstate_gm s) (xtrans_gm t))) ∧
    ((∀ s : Flt α, s ≠ .nan → Flt.le (.fin 0) (h.expf s) = true) →
      (∀ x i, gm.rsc x i ≠ .nan) → (∀ i, gm.tsc i ≠ .nan) → (∀ s t, gm.xsc s t ≠ .nan) →
      (∀ x q (z : Fin 4), x < gm.abc.Kp → q < h.p7O_NQF gm.M →
        Flt.le (.fin 0) ((fb_conversion h gm om).2.rfv x q z) = true) ∧
      (∀ i (z : Fin 4), i < 8 * h.p7O_NQF gm.M →
        Flt.le (.fin 0) ((fb_conversion h gm om).2.tfv i z) = true) ∧
      (∀ s t, Flt.le (.fin 0) ((fb_conversion h gm om).2.xf s t) = true)) := by
  rw [fb_conversion_ok h gm om hok]
  have hninf : Flt.neg (.pinf : Flt α) = .ninf := rfl
  have hR : ∀ x q (z : Fin 4), x < gm.abc.Kp → q < h.p7O_NQF gm.M →
      (fb_fill h gm om).rfv x q z
        = if q + 1 + z.val * h.p7O_NQF gm.M ≤ gm.M then
            h.expf (p7P_MSC gm (q + 1 + z.val * h.p7O_NQF gm.M) x)
          else .fin 0 := by
    intro x q z hx hq
    rw [fb_fill_rfv h gm om x q hx hq]
    unfold fb_rfv
    rw [hv]
    split_ifs
    · rfl
    · rw [hninf, h0]
  have hT : ∀ q t (z : Fin 4), q < h.p7O_NQF gm.M → t < 7 →
      (fb_fill h gm om).tfv (7 * q + t) z
        = if (fb_switch t (q + 1)).2 + z.val * h.p7O_NQF gm.M < gm.M then
            h.expf (p7P_TSC gm ((fb_switch t (q + 1)).2 + z.val * h.p7O_NQF gm.M)
              (fb_switch t (q + 1)).1)
          else .fin 0 := by
    intro q t z hq ht
    rw [(fb_fill_tfv h gm om q hq).1 t ht]
    unfold fb_tfv
    rw [hv]
    split_ifs
    · rfl
    · rw [hninf, h0]
  have hD : ∀ q (z : Fin 4), q < h.p7O_NQF gm.M →
      (fb_fill h gm om).tfv (7 * h.p7O_NQF gm.M + q) z
        = if q + 1 + z.val * h.p7O_NQF gm.M < gm.M then
            h.expf (p7P_TSC gm (q + 1 + z.val * h.p7O_NQF gm.M) p7P_DD)
          else .fin 0 := by
    intro q z hq
    rw [(fb_fill_tfv h gm om q hq).2]
    unfold fb_ddv
    rw [hv]
    split_ifs
    · rfl
    · rw [hninf, h0]
  have hz : Flt.le (.fin (0 : α)) (.fin 0) = true := by simp [Flt.le]
  refine ⟨hR, ?_, hD, fb_fill_xf h gm om, ?_⟩
  · intro q t z hq ht
    have h7 : t.toNat < 7 := by
      cases t <;> first | exact absurd rfl ht | (show _ < 7; decide)
    exact hT q t.toNat z hq h7
  · intro hexp hr ht hx
    refine ⟨?_, ?_, ?_⟩
    · intro x q z hx1 hq
      show Flt.le (.fin 0) ((fb_fill h gm om).rfv x q z) = true
      rw [hR x q z hx1 hq]
      split_ifs
      · exact hexp _ (hr _ _)
      · exact hz
    · intro i z hi
      show Flt.le (.fin 0) ((fb_fill h gm om).tfv i z) = true
      by_cases c : i < 7 * h.p7O_NQF gm.M
      · have e : i = 7 * (i / 7) + i % 7 := by omega
        rw [e, hT (i / 7) (i % 7) z (by omega) (by omega)]
        split_ifs
        · exact hexp _ (ht _)
        · exact hz
      · have e : i = 7 * h.p7O_NQF gm.M + (i - 7 * h.p7O_NQF gm.M) := by omega
        rw [e, hD (i - 7 * h.p7O_NQF gm.M) z (by omega)]
        split_ifs
        · exact hexp _ (ht _)
        · exact hz
    · intro s t
      show Flt.le (.fin 0) ((fb_fill h gm om).xf s t) = true
      rw [fb_fill_xf]
      exact hexp _ (hx _ _)

/-- The float track of the two-node example is built with success. -/
theorem demo_fb_ok (rsc : Nat → Nat → Flt ℚ) (K Kp : Nat) :
    (fb_conversion demo_headers (demo_gm (demo_abc eslDNA K Kp) rsc)
      (demo_created 4 (demo_abc eslDNA K Kp))).1 = eslOK := by
  rw [fb_conversion_eq _ _ _ (demo_capacity rsc K Kp).2.2]

/-- Witness for C22: the two-node example, with the stand-in for `expf` that
is 0 everywhere. -/
theorem C22_float_track_odds_ratios_witness :
    (fb_conversion demo_headers (demo_gm (demo_abc eslDNA 4 18) (fun _ _ => .fin 0))
      (demo_created 4 (demo_abc eslDNA 4 18))).1 = eslOK ∧
    (∀ (v : M128 (Flt ℚ)) (z : Fin 4), demo_headers.esl_sse_expf v z = demo_headers.expf (v z)) ∧
    demo_headers.expf .ninf = .fin 0 ∧
    (fb_conversion demo_headers (demo_gm (demo_abc eslDNA 4 18) (fun _ _ => .fin 0))
      (demo_created 4 (demo_abc eslDNA 4 18))).2.xf p7O_N p7O_MOVE
      = demo_headers.expf ((demo_gm (demo_abc eslDNA 4 18) (fun _ _ => .fin 0)).xsc
          (xstate_gm p7O_N) (xtrans_gm p7O_MOVE)) :=
  ⟨demo_fb_ok _ 4 18, fun _ _ => rfl, rfl,
   (C22_float_track_odds_ratios demo_headers (demo_gm (demo_abc eslDNA 4 18) (fun _ _ => .fin 0))
      (demo_created 4 (demo_abc eslDNA 4 18)) (demo_fb_ok _ 4 18) (fun _ _ => rfl) rfl).2.2.2.1
      p7O_N p7O_MOVE⟩

end FloatTrackClaims
/-! ## The striping of the nodes over blocks and lanes -/

section StripingClaims

variable {α : Type} [LinearOrderedField α] [FloorRing α]

/-- Block and lane are recovered from `q + z*nq` by remainder and quotient. -/
theorem stripe_mod_div (nq q z : Nat) (hq : q < nq) :
    (q + z * nq) % nq = q ∧ (q + z * nq) / nq = z := by
  have hpos : 0 < nq := by omega
  constructor
  · rw [Nat.add_mul_mod_self_right, Nat.mod_eq_of_lt hq]
  · rw [Nat.add_mul_div_right q z hpos, Nat.div_eq_of_lt hq, Nat.zero_add]

/-- The block and lane of node `k`. -/
theorem stripe_of_node (nq W k : Nat) (hnq : 1 ≤ nq) (h1 : 1 ≤ k) (h2 : k ≤ nq * W) :
    (k - 1) % nq < nq ∧ (k - 1) / nq < W ∧ (k - 1) % nq + 1 + (k - 1) / nq * nq = k := by
  refine ⟨Nat.mod_lt _ (by omega), ?_, ?_⟩
  · exact Nat.div_lt_of_lt_mul (by omega)
  · have := Nat.mod_add_div (k - 1) nq
    rw [Nat.mul_comm] at this
    omega

theorem vf_fill_rwv (h : Headers α) (gm : P7_PROFILE α) (om : P7_OM α) (x q : Nat)
    (hx : x < gm.abc.Kp) (hq : q < h.p7O_NQW gm.M) :
    (vf_fill h gm om).rwv x q = vf_rwv h gm x q := by
  show (if x < gm.abc.Kp ∧ q < h.p7O_NQW gm.M then vf_rwv h gm x q else om.rwv x q) = _
  rw [if_pos ⟨hx, hq⟩]

/-- C23: for every block count `nq >= 1` and lane width `W >= 1`, the map
`(q, z) -> k = q + 1 + z*nq` sends the pairs with `q < nq`, `z < W` one-to-one
onto the nodes `1..nq*W`: every image is in that range, two pairs with the
same image are equal, and node `k` is the image of `q = (k-1) mod nq`,
`z = (k-1) div nq`.  And for every model with `M <= nq*W` (`W` = 16, 8, 4 and
`nq` the block count of the track), that block and lane is where a successful
`mf_conversion` stores the byte cost of the match score of node `k`, a
successful `vf_conversion` its word cost, and where a successful
`fb_conversion` puts the match score in the vector it hands to
`esl_sse_expf`. -/
theorem C23_striping_bijection (nq W : Nat) (hnq : 1 ≤ nq) (hW : 1 ≤ W) :
    (∀ q z, q < nq → z < W → 1 ≤ q + 1 + z * nq ∧ q + 1 + z * nq ≤ nq * W) ∧
    (∀ q z q1 z1, q < nq → q1 < nq → q + 1 + z * nq = q1 + 1 + z1 * nq → q = q1 ∧ z = z1) ∧
    (∀ k, 1 ≤ k → k ≤ nq * W →
      (k - 1) % nq < nq ∧ (k - 1) / nq < W ∧ (k - 1) % nq + 1 + (k - 1) / nq * nq = k) ∧
    (∀ (h : Headers α) (gm : P7_PROFILE α) (om : P7_OM α) (x k : Nat),
      (mf_conversion h gm om).1 = eslOK → gm.M ≤ h.p7O_NQB gm.M * 16 →
      x < gm.abc.Kp → 1 ≤ k → k ≤ gm.M →
      ∃ hz : (k - 1) / h.p7O_NQB gm.M < 16,
        (mf_conversion h gm om).2.rbv x ((k - 1) % h.p7O_NQB gm.M)
            ⟨(k - 1) / h.p7O_NQB gm.M, hz⟩
          = biased_byteify (mf_conversion h gm om).2 (p7P_MSC gm k x)) ∧
    (∀ (h : Headers α) (gm : P7_PROFILE α) (om : P7_OM α) (x k : Nat),
      (vf_conversion h gm om).1 = eslOK → gm.M ≤ h.p7O_NQW gm.M * 8 →
      x < gm.abc.Kp → 1 ≤ k → k ≤ gm.M →
      ∃ hz : (k - 1) / h.p7O_NQW gm.M < 8,
        (vf_conversion h gm om).2.rwv x ((k - 1) % h.p7O_NQW gm.M)
            ⟨(k - 1) / h.p7O_NQW gm.M, hz⟩
          = wordify (vf_conversion h gm om).2 (p7P_MSC gm k x)) ∧
    (∀ (h : Headers α) (gm : P7_PROFILE α) (om : P7_OM α) (x k : Nat),
      (fb_conversion h gm om).1 = eslOK → gm.M ≤ h.p7O_NQF gm.M * 4 →
      x < gm.abc.Kp → 1 ≤ k → k ≤ gm.M →
      ∃ (hz : (k - 1) / h.p7O_NQF gm.M < 4) (v : M128 (Flt α)),
        (fb_conversion h gm om).2.rfv x ((k - 1) % h.p7O_NQF gm.M) = h.esl_sse_expf v ∧
        v ⟨(k - 1) / h.p7O_NQF gm.M, hz⟩ = p7P_MSC gm k x) := by
  refine ⟨?_, ?_, fun k h1 h2 => stripe_of_node nq W k hnq h1 h2, ?_, ?_, ?_⟩
  · intro q z hq hz
    constructor
    · omega
    · have h1 : (z + 1) * nq ≤ W * nq := Nat.mul_le_mul_right nq hz
      have h2 : (z + 1) * nq = z * nq + nq := Nat.succ_mul z nq
      have h3 : W * nq = nq * W := Nat.mul_comm W nq
      omega
  · intro q z q1 z1 hq hq1 he
    have he2 : q + z * nq = q1 + z1 * nq := by omega
    obtain ⟨a1, a2⟩ := stripe_mod_div nq q z hq
    obtain ⟨b1, b2⟩ := stripe_mod_div nq q1 z1 hq1
    rw [he2] at a1 a2
    exact ⟨a1.symm.trans b1, a2.symm.trans b2⟩
  · intro h gm om x k hok hM hx h1 h2
    have hn : 1 ≤ h.p7O_NQB gm.M := by
      rcases Nat.eq_zero_or_pos (h.p7O_NQB gm.M) with c | c
      · rw [c] at hM; omega
      · exact c
    obtain ⟨s1, s2, s3⟩ := stripe_of_node (h.p7O_NQB gm.M) 16 k hn h1 (le_trans h2 hM)
    refine ⟨s2, ?_⟩
    obtain ⟨e1, _, _⟩ := mf_conversion_rbv h gm om hok x _ hx s1
    rw [e1, mf_conversion_ok h gm om hok]
    show (if (k - 1) % h.p7O_NQB gm.M + 1 + (k - 1) / h.p7O_NQB gm.M * h.p7O_NQB gm.M ≤ gm.M
      then biased_cost (mf_scale h) (mf_bias h gm)
        (p7P_MSC gm ((k - 1) % h.p7O_NQB gm.M + 1 + (k - 1) / h.p7O_NQB gm.M * h.p7O_NQB gm.M) x)
      else 255) = biased_cost (mf_scale h) (mf_bias h gm) (p7P_MSC gm k x)
    rw [s3, if_pos h2]
  · intro h gm om x k hok hM hx h1 h2
    have hn : 1 ≤ h.p7O_NQW gm.M := by
      rcases Nat.eq_zero_or_pos (h.p7O_NQW gm.M) with c | c
      · rw [c] at hM; omega
      · exact c
    obtain ⟨s1, s2, s3⟩ := stripe_of_node (h.p7O_NQW gm.M) 8 k hn h1 (le_trans h2 hM)
    refine ⟨s2, ?_⟩
    rw [vf_conversion_ok h gm om hok]
    show (vf_fill h gm om).rwv x ((k - 1) % h.p7O_NQW gm.M) ⟨(k - 1) / h.p7O_NQW gm.M, s2⟩
      = word_cost (vf_scale h) (p7P_MSC gm k x)
    rw [vf_fill_rwv h gm om x _ hx s1]
    show (if (k - 1) % h.p7O_NQW gm.M + 1 + (k - 1) / h.p7O_NQW gm.M * h.p7O_NQW gm.M ≤ gm.M
      then word_cost (vf_scale h)
        (p7P_MSC gm ((k - 1) % h.p7O_NQW gm.M + 1 + (k - 1) / h.p7O_NQW gm.M * h.p7O_NQW gm.M) x)
      else -32768) = word_cost (vf_scale h) (p7P_MSC gm k x)
    rw [s3, if_pos h2]
  · intro h gm om x k hok hM hx h1 h2
    have hn : 1 ≤ h.p7O_NQF gm.M := by
      rcases Nat.eq_zero_or_pos (h.p7O_NQF gm.M) with c | c
      · rw [c] at hM; omega
      · exact c
    obtain ⟨s1, s2, s3⟩ := stripe_of_node (h.p7O_NQF gm.M) 4 k hn h1 (le_trans h2 hM)
    refine ⟨s2, (fun z : Fin 4 =>
      if (k - 1) % h.p7O_NQF gm.M + 1 + z.val * h.p7O_NQF gm.M ≤ gm.M then
        p7P_MSC gm ((k - 1) % h.p7O_NQF gm.M + 1 + z.val * h.p7O_NQF gm.M) x
      else Flt.neg .pinf), ?_, ?_⟩
    · rw [fb_conversion_ok h gm om hok, fb_fill_rfv h gm om x _ hx s1]
      rfl
    · show (if (k - 1) % h.p7O_NQF gm.M + 1 + (k - 1) / h.p7O_NQF gm.M * h.p7O_NQF gm.M ≤ gm.M
        then p7P_MSC gm
          ((k - 1) % h.p7O_NQF gm.M + 1 + (k - 1) / h.p7O_NQF gm.M * h.p7O_NQF gm.M) x
        else Flt.neg .pinf) = p7P_MSC gm k x
      rw [s3, if_pos h2]

/-- Witness for C23: two blocks of sixteen lanes. -/
theorem C23_striping_bijection_witness :
    1 ≤ 2 ∧ 1 ≤ 16 ∧ (17 - 1) % 2 + 1 + (17 - 1) / 2 * 2 = 17 :=
  ⟨by decide, by decide,
   ((C23_striping_bijection (α := ℚ) 2 16 (by decide) (by decide)).2.2.1 17 (by decide)
      (by decide)).2.2⟩

end StripingClaims
/-! ## What p7_oprofile_Compare compares -/

section CompareClaims

variable {α : Type} [LinearOrderedField α] [FloorRing α]

theorem cmp_any_iff (n : Nat) (bad : Nat → Bool) :
    cmp_any n bad = true ↔ ∃ i, i < n ∧ bad i = true := by
  unfold cmp_any
  induction n with
  | zero => simp [forUp]
  | succ n ih =>
    show (forUp n (fun i found => found || bad i) false || bad n) = true ↔ _
    rw [Bool.or_eq_true, ih]
    constructor
    · rintro (⟨i, hi, hb⟩ | hb)
      · exact ⟨i, Nat.lt_succ_of_lt hi, hb⟩
      · exact ⟨n, Nat.lt_succ_self n, hb⟩
    · rintro ⟨i, hi, hb⟩
      rcases Nat.lt_succ_iff_lt_or_eq.mp hi with c | c
      · exact Or.inl ⟨i, c, hb⟩
      · rw [c] at hb; exact Or.inr hb

theorem cmp_any_congr (n : Nat) (bad bad1 : Nat → Bool) (hb : ∀ i, i < n → bad i = bad1 i) :
    cmp_any n bad = cmp_any n bad1 := by
  rw [Bool.eq_iff_iff, cmp_any_iff, cmp_any_iff]
  constructor
  · rintro ⟨i, hi, e⟩
    exact ⟨i, hi, by rw [← hb i hi]; exact e⟩
  · rintro ⟨i, hi, e⟩
    exact ⟨i, hi, by rw [hb i hi]; exact e⟩

theorem cmp_any_none (n : Nat) : cmp_any n (fun _ => false) = false := by
  rw [Bool.eq_false_iff]
  intro hc
  obtain ⟨i, _, hb⟩ := (cmp_any_iff n _).mp hc
  exact Bool.noConfusion hb

theorem cmp_lanes_iff {n : Nat} (bad : Fin n → Bool) :
    cmp_lanes bad = true ↔ ∃ r, bad r = true := by
  unfold cmp_lanes
  rw [cmp_any_iff]
  constructor
  · rintro ⟨i, hi, hb⟩
    rw [dif_pos hi] at hb
    exact ⟨⟨i, hi⟩, hb⟩
  · rintro ⟨r, hb⟩
    exact ⟨r.val, r.isLt, by rw [dif_pos r.isLt]; exact hb⟩

theorem cmp_lanes_none {n : Nat} : cmp_lanes (fun _ : Fin n => false) = false := by
  rw [Bool.eq_false_iff]
  intro hc
  obtain ⟨_, hb⟩ := (cmp_lanes_iff _).mp hc
  exact Bool.noConfusion hb

theorem flt_ne_self (a : Flt α) (ha : a ≠ .nan) : Flt.ne a a = false := by
  cases a with
  | nan => exact absurd rfl ha
  | fin x => simp [Flt.ne]
  | pinf => simp [Flt.ne]
  | ninf => simp [Flt.ne]

/-- A profile without NaN parameters compares equal to itself, when the
library comparisons accept equal arguments. -/
theorem p7_oprofile_Compare_self (h : Headers α) (lib : EaselCmp α) (om : P7_OM α)
    (tol : Flt α) (hnj : om.nj ≠ .nan) (hsb : om.scale_b ≠ .nan) (hsw : om.scale_w ≠ .nan)
    (htf : ∀ q r, om.tfv q r ≠ .nan) (hF : ∀ a, lib.esl_FCompare a a tol = eslOK)
    (hV : ∀ v n, lib.esl_vec_FCompare v v n tol = eslOK) (hS : ∀ s, lib.esl_strcmp s s = 0) :
    p7_oprofile_Compare h lib om om tol = eslOK := by
  unfold p7_oprofile_Compare
  simp [cmp_any_none, cmp_lanes_none, flt_ne_self, hnj, hsb, hsw, htf, hF, hV, hS]

/-- The word-track transition vectors from index `8 * p7O_NQB(M)` on are not
looked at: changing them in the second profile does not change the result. -/
theorem p7_oprofile_Compare_twv_blind (h : Headers α) (lib : EaselCmp α) (om1 om2 : P7_OM α)
    (tol : Flt α) (twv : Nat → Fin 8 → Int)
    (hlow : ∀ q, q < 8 * h.p7O_NQB om1.M → twv q = om2.twv q) :
    p7_oprofile_Compare h lib om1 { om2 with twv := twv } tol
      = p7_oprofile_Compare h lib om1 om2 tol := by
  have key : cmp_any (8 * h.p7O_NQB om1.M) (fun q =>
        cmp_lanes (fun r : Fin 8 => decide (om1.twv q r ≠ twv q r)))
      = cmp_any (8 * h.p7O_NQB om1.M) (fun q =>
        cmp_lanes (fun r : Fin 8 => decide (om1.twv q r ≠ om2.twv q r))) :=
    cmp_any_congr _ _ _ (fun q hq => by rw [hlow q hq])
  unfold p7_oprofile_Compare
  simp only [key]

/-- A chain of checks fails when a later check fails. -/
theorem fail_chain {c : Prop} [Decidable c] {x : Status} (hx : x = eslFAIL) :
    (if c then eslFAIL else x) = eslFAIL := by
  split_ifs
  · rfl
  · exact hx

/-- A difference in a word-track transition vector with index below
`8 * p7O_NQB(M)` makes the comparison fail. -/
theorem p7_oprofile_Compare_fail_twv (h : Headers α) (lib : EaselCmp α) (om1 om2 : P7_OM α)
    (tol : Flt α) (q : Nat) (r : Fin 8) (hq : q < 8 * h.p7O_NQB om1.M)
    (hd : om1.twv q r ≠ om2.twv q r) :
    p7_oprofile_Compare h lib om1 om2 tol = eslFAIL := by
  have c : cmp_any (8 * h.p7O_NQB om1.M) (fun q =>
      cmp_lanes (fun r : Fin 8 => decide (om1.twv q r ≠ om2.twv q r))) = true :=
    (cmp_any_iff _ _).mpr ⟨q, hq, (cmp_lanes_iff _).mpr ⟨r, by simpa using hd⟩⟩
  unfold p7_oprofile_Compare
  iterate 13 (refine fail_chain ?_)
  exact if_pos c

/-- C29 (the code at the failing input): the two profiles of 17 nodes agree in
`M` and differ in every lane of the word-track transition vector `twv[16]`,
one of the `8 * p7O_NQW(17) = 24` vectors of the word track; the comparison
loop stops at `8 * p7O_NQB(17) = 16`, and `p7_oprofile_Compare` returns
`eslOK`. -/
theorem C29_compare_misses_word_transitions :
    demo_om17.M = demo_om17_changed.M ∧
    8 * demo_headers.p7O_NQB demo_om17.M = 16 ∧
    8 * demo_headers.p7O_NQW demo_om17.M = 24 ∧
    (∀ r : Fin 8, demo_om17.twv 16 r ≠ demo_om17_changed.twv 16 r) ∧
    p7_oprofile_Compare demo_headers demo_cmp demo_om17 demo_om17_changed (.fin 0) = eslOK := by
  refine ⟨rfl, rfl, rfl, ?_, ?_⟩
  · intro r
    show (0 : Int) ≠ Function.update demo_om17.twv 16 (fun _ => 1) 16 r
    rw [Function.update_same]
    decide
  · have hb := p7_oprofile_Compare_twv_blind demo_headers demo_cmp demo_om17 demo_om17
      (.fin 0) (Function.update demo_om17.twv 16 (fun _ => 1)) (fun q hq => by
        have h16 : q < 16 := hq
        rw [Function.update_noteq (by omega)])
    have hs := p7_oprofile_Compare_self demo_headers demo_cmp demo_om17 (.fin 0)
      (by intro hc; exact Flt.noConfusion hc) (by intro hc; exact Flt.noConfusion hc)
      (by intro hc; exact Flt.noConfusion hc) (fun _ _ hc => Flt.noConfusion hc)
      (fun a => by simp [demo_cmp]) (fun v n => by simp [demo_cmp])
      (fun s => by simp [demo_cmp])
    exact hb.trans hs

end CompareClaims
/-! ## The digitized sequence -/

section DigitizeClaims

theorem kept_chars_cons (a : ESL_ALPHABET) (c : Char) (cs : List Char) :
    kept_chars a (c :: cs)
      = if a.inmap c.toNat = eslDSQ_IGNORED then kept_chars a cs else c :: kept_chars a cs := by
  unfold kept_chars
  by_cases hc : a.inmap c.toNat = eslDSQ_IGNORED
  · rw [if_pos hc, List.filter_cons_of_neg (by simp [hc])]
  · rw [if_neg hc, List.filter_cons_of_pos (by simp [hc])]

/-- One step of the loop on a character that is kept. -/
theorem esl_abc_Digitize_body_kept (a : ESL_ALPHABET) (hlo : 3 ≤ a.Kp) (hhi : a.Kp ≤ 258)
    (c : Char) (s : DigitizeVars) (hc : a.inmap c.toNat ≠ eslDSQ_IGNORED) :
    (esl_abc_Digitize_body a c s).j = s.j + 1 ∧
    (esl_abc_Digitize_body a c s).dsq = Function.update s.dsq s.j (digit_of a c) ∧
    (esl_abc_Digitize_body a c s).status
      = if a.inmap c.toNat < a.Kp then s.status else eslEINVAL := by
  unfold esl_abc_Digitize_body digit_of esl_abc_XIsValid esl_abc_XGetUnknown
  simp only [if_neg hc]
  by_cases hv : a.inmap c.toNat < a.Kp
  · simp [hv]
  · have e : (((a.Kp : Int) - 3) % 256).toNat = a.Kp - 3 := by omega
    simp [hv, e]

/-- The loop of `esl_abc_Digitize` from any state: the position advances by
the number of kept characters, their codes are stored from the position on,
the rest of the array is untouched, and the status changes (to `eslEINVAL`)
exactly when a kept character is not valid. -/
theorem esl_abc_Digitize_fold (a : ESL_ALPHABET) (hlo : 3 ≤ a.Kp) (hhi : a.Kp ≤ 258) :
    ∀ (seq : List Char) (s : DigitizeVars),
      (seq.foldl (fun s c => esl_abc_Digitize_body a c s) s).j
        = s.j + (kept_chars a seq).length ∧
      (∀ i, i < s.j ∨ s.j + (kept_chars a seq).length ≤ i →
        (seq.foldl (fun s c => esl_abc_Digitize_body a c s) s).dsq i = s.dsq i) ∧
      (∀ t c, (kept_chars a seq).get? t = some c →
        (seq.foldl (fun s c => esl_abc_Digitize_body a c s) s).dsq (s.j + t) = digit_of a c) ∧
      ((∀ c, c ∈ kept_chars a seq → a.inmap c.toNat < a.Kp) →
        (seq.foldl (fun s c => esl_abc_Digitize_body a c s) s).status = s.status) ∧
      (¬ (∀ c, c ∈ kept_chars a seq → a.inmap c.toNat < a.Kp) →
        (seq.foldl (fun s c => esl_abc_Digitize_body a c s) s).status = eslEINVAL) := by
  intro seq
  induction seq with
  | nil =>
    intro s
    refine ⟨rfl, fun _ _ => rfl, ?_, fun _ => rfl, ?_⟩
    · intro t c hc
      simp [kept_chars] at hc
    · intro hn
      exact absurd (fun c hc => by simp [kept_chars] at hc) hn
  | cons c cs ih =>
    intro s
    rw [List.foldl_cons, kept_chars_cons]
    by_cases hc : a.inmap c.toNat = eslDSQ_IGNORED
    · have hb : esl_abc_Digitize_body a c s = s := by
        unfold esl_abc_Digitize_body
        simp only [if_pos hc]
      rw [hb, if_pos hc]
      exact ih s
    · rw [if_neg hc]
      obtain ⟨b1, b2, b3⟩ := esl_abc_Digitize_body_kept a hlo hhi c s hc
      obtain ⟨i1, i2, i3, i4, i5⟩ := ih (esl_abc_Digitize_body a c s)
      rw [b1] at i1 i2 i3
      refine ⟨?_, ?_, ?_, ?_, ?_⟩
      · rw [i1, List.length_cons]; omega
      · intro i hi
        rw [List.length_cons] at hi
        rw [i2 i (by omega), b2, Function.update_noteq (by omega)]
      · intro t d hd
        cases t with
        | zero =>
          have hd2 : c = d := by simpa using hd
          rw [← hd2, Nat.add_zero, i2 s.j (Or.inl (Nat.lt_succ_self _)), b2,
            Function.update_same]
        | succ t =>
          have hd2 : (kept_chars a cs).get? t = some d := by simpa using hd
          have := i3 t d hd2
          rw [show s.j + (t + 1) = s.j + 1 + t by omega]
          exact this
      · intro hall
        have hcv : a.inmap c.toNat < a.Kp := hall c (List.mem_cons_self _ _)
        rw [i4 (fun d hd => hall d (List.mem_cons_of_mem _ hd)), b3, if_pos hcv]
      · intro hnall
        by_cases hrest : ∀ d, d ∈ kept_chars a cs → a.inmap d.toNat < a.Kp
        · have hcv : ¬ a.inmap c.toNat < a.Kp := by
            intro hcv
            apply hnall
            intro d hd
            rcases List.mem_cons.mp hd with e | e
            · rw [e]; exact hcv
            · exact hrest d e
          rw [i4 hrest, b3, if_neg hcv]
        · exact i5 hrest

/-- C30: for an alphabet with `3 <= Kp <= 258`, let `c_1..c_n` be the
characters of `seq` whose input-map code is not `eslDSQ_IGNORED`, in order.
After `esl_abc_Digitize(a, seq, dsq)`, `dsq[0] = dsq[n+1] = eslDSQ_SENTINEL`;
for `1 <= j <= n`, `dsq[j]` is the input-map code of `c_j` if that code is
valid (below `Kp`) and the code `Kp - 3` of the unknown residue otherwise; the
cells beyond `n+1` are untouched; and the value returned is `eslOK` if every
`c_j` is valid and `eslEINVAL` otherwise. -/
theorem C30_digitize (a : ESL_ALPHABET) (seq : List Char) (dsq : Nat → Nat)
    (hlo : 3 ≤ a.Kp) (hhi : a.Kp ≤ 258) :
    (esl_abc_Digitize a seq dsq).2 0 = eslDSQ_SENTINEL ∧
    (esl_abc_Digitize a seq dsq).2 ((kept_chars a seq).length + 1) = eslDSQ_SENTINEL ∧
    (∀ j c, (kept_chars a seq).get? j = some c →
      (esl_abc_Digitize a seq dsq).2 (j + 1) = digit_of a c) ∧
    (∀ i, (kept_chars a seq).length + 1 < i → (esl_abc_Digitize a seq dsq).2 i = dsq i) ∧
    ((∀ c, c ∈ kept_chars a seq → a.inmap c.toNat < a.Kp) →
      (esl_abc_Digitize a seq dsq).1 = eslOK) ∧
    (¬ (∀ c, c ∈ kept_chars a seq → a.inmap c.toNat < a.Kp) →
      (esl_abc_Digitize a seq dsq).1 = eslEINVAL) := by
  obtain ⟨f1, f2, f3, f4, f5⟩ := esl_abc_Digitize_fold a hlo hhi seq
    { status := eslOK, j := 1, dsq := Function.update dsq 0 eslDSQ_SENTINEL }
  have hj : (seq.foldl (fun s c => esl_abc_Digitize_body a c s)
      ({ status := eslOK, j := 1, dsq := Function.update dsq 0 eslDSQ_SENTINEL } :
        DigitizeVars)).j = (kept_chars a seq).length + 1 := by
    rw [f1]; show 1 + _ = _; omega
  have hres : ∀ i, (esl_abc_Digitize a seq dsq).2 i
      = Function.update (seq.foldl (fun s c => esl_abc_Digitize_body a c s)
          ({ status := eslOK, j := 1, dsq := Function.update dsq 0 eslDSQ_SENTINEL } :
            DigitizeVars)).dsq ((kept_chars a seq).length + 1) eslDSQ_SENTINEL i := by
    intro i
    show Function.update _ _ _ i = _
    rw [hj]
  refine ⟨?_, ?_, ?_, ?_, f4, f5⟩
  · rw [hres, Function.update_noteq (by omega), f2 0 (Or.inl (by show 0 < 1; omega))]
    show Function.update dsq 0 eslDSQ_SENTINEL 0 = eslDSQ_SENTINEL
    rw [Function.update_same]
  · rw [hres, Function.update_same]
  · intro j c hc
    have hlt : j < (kept_chars a seq).length := by
      by_contra hge
      rw [List.get?_eq_none.mpr (by omega)] at hc
      exact Option.noConfusion hc
    rw [hres, Function.update_noteq (by omega)]
    have := f3 j c hc
    rw [show j + 1 = 1 + j by omega]
    exact this
  · intro i hi
    rw [hres, Function.update_noteq (by omega), f2 i (Or.inr (by show 1 + _ ≤ i; omega))]
    show Function.update dsq 0 eslDSQ_SENTINEL i = dsq i
    rw [Function.update_noteq (by omega)]

/-- Witness for C30: a sequence of two characters over an alphabet of 18 codes
whose input map sends every character to code 0. -/
theorem C30_digitize_witness :
    3 ≤ (demo_abc eslDNA 4 18).Kp ∧ (demo_abc eslDNA 4 18).Kp ≤ 258 ∧
    (esl_abc_Digitize (demo_abc eslDNA 4 18) [Char.ofNat 65, Char.ofNat 67] (fun _ => 0)).2 0
      = eslDSQ_SENTINEL :=
  ⟨by decide, by decide,
   (C30_digitize (demo_abc eslDNA 4 18) [Char.ofNat 65, Char.ofNat 67] (fun _ => 0) (by decide)
      (by decide)).1⟩

end DigitizeClaims
/-! ## The progress of the backward scan -/

section ProgressClaims

/-- Truncation toward zero is monotone. -/
theorem toInt_fin_mono {α : Type} [LinearOrderedField α] [FloorRing α] (x y : α) (h : x ≤ y) :
    Flt.toInt (.fin x) ≤ Flt.toInt (.fin y) := by
  show (if 0 ≤ x then ⌊x⌋ else ⌈x⌉) ≤ (if 0 ≤ y then ⌊y⌋ else ⌈y⌉)
  split_ifs with hx hy hy
  · exact Int.floor_mono h
  · exact absurd (le_trans hx h) hy
  · have h1 : ⌈x⌉ ≤ 0 := Int.ceil_le.mpr (by push_cast; exact le_of_lt (not_le.mp hx))
    have h2 : 0 ≤ ⌊y⌋ := Int.floor_nonneg.mpr hy
    omega
  · exact Int.ceil_mono h

/-- In exact arithmetic, for a non-negative `percentBorder` and `L >= 1`, the
value written at position `i` is at most the value written at position
`i + 1`: the values written while `i` runs downward never increase. -/
theorem progress_at_mono {α : Type} [LinearOrderedField α] [FloorRing α]
    (progressStart percentBorder : Int) (L i : Nat) (hp : 0 ≤ percentBorder) (hL : 1 ≤ L) :
    progress_at (α := α) progressStart percentBorder L i
      ≤ progress_at (α := α) progressStart percentBorder L (i + 1) := by
  unfold progress_at
  have hL0 : (((L : Int) : α)) ≠ 0 := by
    have : (0 : α) < ((L : Int) : α) := by exact_mod_cast hL
    exact ne_of_gt this
  have e : ∀ j : Nat, Flt.mul (Flt.div (Flt.ofInt percentBorder : Flt α) (Flt.ofInt (L : Int)))
      (Flt.ofInt (j : Int))
      = .fin ((percentBorder : α) / ((L : Int) : α) * ((j : Int) : α)) := by
    intro j
    show Flt.mul (if ((L : Int) : α) = 0 then _ else Flt.fin _) _ = _
    rw [if_neg hL0]
    rfl
  rw [e i, e (i + 1)]
  have hq : (0 : α) ≤ (percentBorder : α) / ((L : Int) : α) := by
    apply div_nonneg
    · exact_mod_cast hp
    · exact_mod_cast (by omega : (0 : Int) ≤ (L : Int))
  have hij : (((i : Nat) : Int) : α) ≤ ((((i + 1 : Nat)) : Int) : α) := by
    push_cast
    linarith
  have := toInt_fin_mono _ _ (mul_le_mul_of_nonneg_left hij hq)
  omega

/-- The value written at position `i` for `percentBorder = 100` and `L = 4`,
starting from 0. -/
theorem demo_progress_at (i : Nat) : progress_at (α := ℚ) 0 100 4 i = 25 * i := by
  unfold progress_at
  show (0 : Int) + Flt.toInt (Flt.fin (((100 : Int) : ℚ) / (((4 : Nat) : Int) : ℚ)
    * (((i : Nat) : Int) : ℚ))) = 25 * i
  have e : (((100 : Int) : ℚ) / (((4 : Nat) : Int) : ℚ) * (((i : Nat) : Int) : ℚ))
      = (((25 * (i : Int) : Int)) : ℚ) := by
    push_cast
    ring
  rw [e, toInt_fin_intCast]
  omega

/-- C28 (the code at the failing input): with `percentBorder = 100` and
`L = 4`, starting from progress 0 and without cancellation, the main recursion
of `backward_engine` writes the values 75, 50, 25 to `ti.progress`, in this
order: each value is smaller than the one written before it. -/
theorem C28_backward_progress_decreases :
    bck_progress_writes (α := ℚ) (fun _ => false) 0 100 4 (4 - 1) = [75, 50, 25] := by
  show [progress_at (α := ℚ) 0 100 4 3, progress_at (α := ℚ) 0 100 4 2,
    progress_at (α := ℚ) 0 100 4 1] = [75, 50, 25]
  rw [demo_progress_at 3, demo_progress_at 2, demo_progress_at 1]
  rfl

end ProgressClaims
/-! ## Every value stored by forward_engine is non-negative -/

section ForwardNonneg

variable {α : Type} [LinearOrderedField α]

/-- Row `i` leaves the other rows of the matrix alone. -/
theorem fwd_row_other_rows (lm : LibM α) (do_full : Bool) (dsq : Nat → Nat) (Q : Nat)
    (om : P7_OPROFILE α) (i : Nat) (s : FwdVars α) (hQ : 0 < Q) (r : Nat)
    (hr : r ≠ do_full.toNat * i) (q : Nat) :
    MMO (fwd_row lm do_full dsq Q om i s).ox.dpf r q = MMO s.ox.dpf r q ∧
    DMO (fwd_row lm do_full dsq Q om i s).ox.dpf r q = DMO s.ox.dpf r q ∧
    IMO (fwd_row lm do_full dsq Q om i s).ox.dpf r q = IMO s.ox.dpf r q := by
  have hv := (fwd_row_vectors_spec do_full dsq Q om i s hQ).2.1 r q (Or.inl hr)
  obtain ⟨_, _, _, hdpc, _, _, _, _, _, hdpf, _⟩ := fwd_row_compute_specials do_full dsq Q om i s
  rw [← hdpf] at hv
  unfold fwd_row
  by_cases h : ((10000 : Nat) : α) < (fwd_row_compute do_full dsq Q om i s).xE
  · obtain ⟨_, _, _, _, _, _, _, _, _, _, eM, eD, eI⟩ := fwd_row_rescale_event lm Q i _ h
    rw [eM r q, eD r q, eI r q, hdpc, if_neg (fun hc => hr hc.1), if_neg (fun hc => hr hc.1),
      if_neg (fun hc => hr hc.1)]
    exact hv
  · rw [(fwd_row_rescale_none lm Q i _ h).2.2.2.2.2.2.2.2.2.2]
    exact hv

/-- The End value after a row is not negative. -/
theorem fwd_row_xE_nonneg (lm : LibM α) (do_full : Bool) (dsq : Nat → Nat) (Q : Nat)
    (om : P7_OPROFILE α) (i : Nat) (s : FwdVars α) (hQ : 0 < Q) (hom : OmNonneg om)
    (hs : FwdNonneg Q s) : 0 ≤ (fwd_row lm do_full dsq Q om i s).xE := by
  have hE := (fwd_compute_flat do_full dsq Q om i s hQ hom hs).2.2.2
  unfold fwd_row
  by_cases h : ((10000 : Nat) : α) < (fwd_row_compute do_full dsq Q om i s).xE
  · rw [(fwd_row_rescale_event lm Q i _ h).2.2.1]
    exact zero_le_one
  · rw [(fwd_row_rescale_none lm Q i _ h).2.2.1]
    exact hE

/-- After `n` rows, every row stored so far and every special-state value
stored so far is non-negative. -/
theorem fwd_state_all_nonneg (lm : LibM α) (do_full : Bool) (dsq : Nat → Nat) (Q L : Nat)
    (om : P7_OPROFILE α) (ox : P7_OMX α) (hQ : 0 < Q) (hom : OmNonneg om) (n : Nat) :
    ∀ r, r ≤ n →
      RowNonneg Q ((fwd_state lm do_full dsq Q om (fwd_init L Q om ox) n).ox.dpf
        (do_full.toNat * r)) ∧
      0 ≤ (fwd_state lm do_full dsq Q om (fwd_init L Q om ox) n).ox.xmx r p7X_E ∧
      0 ≤ (fwd_state lm do_full dsq Q om (fwd_init L Q om ox) n).ox.xmx r p7X_N ∧
      0 ≤ (fwd_state lm do_full dsq Q om (fwd_init L Q om ox) n).ox.xmx r p7X_J ∧
      0 ≤ (fwd_state lm do_full dsq Q om (fwd_init L Q om ox) n).ox.xmx r p7X_B ∧
      0 ≤ (fwd_state lm do_full dsq Q om (fwd_init L Q om ox) n).ox.xmx r p7X_C := by
  induction n with
  | zero =>
    intro r hr
    have hr0 : r = 0 := Nat.le_zero.mp hr
    subst hr0
    obtain ⟨hrow, hB, hN, hJ, hC⟩ := (fwd_state_flat lm do_full dsq Q L om ox hQ hom 0).1
    obtain ⟨sN, sJ, sB, sC⟩ := fwd_state_stored lm do_full dsq Q L om ox 0
    have hd := fwd_state_dpc lm do_full dsq Q L om ox 0
    rw [hd] at hrow
    refine ⟨hrow, ?_, by rw [sN]; exact hN, by rw [sJ]; exact hJ, by rw [sB]; exact hB,
      by rw [sC]; exact hC⟩
    have hE : (fwd_state lm do_full dsq Q om (fwd_init L Q om ox) 0).ox.xmx 0 p7X_E = 0 := by
      simp [fwd_state, fwd_init, setX_apply]
    rw [hE]
  | succ n ih =>
    intro r hr
    obtain ⟨hnn, _⟩ := fwd_state_flat lm do_full dsq Q L om ox hQ hom n
    obtain ⟨hrow, hB, hN, hJ, hC⟩ := (fwd_state_flat lm do_full dsq Q L om ox hQ hom (n + 1)).1
    have hd := fwd_state_dpc lm do_full dsq Q L om ox (n + 1)
    rw [hd] at hrow
    rcases Nat.lt_or_ge r (n + 1) with hlt | hge
    · obtain ⟨i1, i2, i3, i4, i5, i6⟩ := ih r (Nat.lt_succ_iff.mp hlt)
      have hx : (fwd_state lm do_full dsq Q om (fwd_init L Q om ox) (n + 1)).ox.xmx r
          = (fwd_state lm do_full dsq Q om (fwd_init L Q om ox) n).ox.xmx r :=
        fwd_row_xmx_other lm do_full dsq Q om (n + 1) _ r (by omega)
      rw [hx]
      refine ⟨?_, i2, i3, i4, i5, i6⟩
      cases do_full with
      | false =>
        have e1 : Bool.toNat false * r = Bool.toNat false * (n + 1) := by simp
        rw [e1]
        exact hrow
      | true =>
        have hne : Bool.toNat true * r ≠ Bool.toNat true * (n + 1) := by
          simp only [Bool.toNat_true, Nat.one_mul]
          omega
        intro q hq z
        obtain ⟨m1, m2, m3⟩ := fwd_row_other_rows lm true dsq Q om (n + 1)
          (fwd_state lm true dsq Q om (fwd_init L Q om ox) n) hQ _ hne q
        have := i1 q hq z
        show 0 ≤ MMO (fwd_row lm true dsq Q om (n + 1) _).ox.dpf _ q z ∧
          0 ≤ DMO (fwd_row lm true dsq Q om (n + 1) _).ox.dpf _ q z ∧
          0 ≤ IMO (fwd_row lm true dsq Q om (n + 1) _).ox.dpf _ q z
        rw [m1, m2, m3]
        exact this
    · have hr1 : r = n + 1 := le_antisymm hr hge
      subst hr1
      obtain ⟨sE, sN, sJ, sB, sC⟩ := fwd_row_rescale_stored lm Q (n + 1)
        (fwd_row_compute do_full dsq Q om (n + 1)
          (fwd_state lm do_full dsq Q om (fwd_init L Q om ox) n))
      have hE := fwd_row_xE_nonneg lm do_full dsq Q om (n + 1)
        (fwd_state lm do_full dsq Q om (fwd_init L Q om ox) n) hQ hom hnn
      refine ⟨hrow, ?_, ?_, ?_, ?_, ?_⟩
      · exact sE.symm ▸ hE
      · exact sN.symm ▸ hN
      · exact sJ.symm ▸ hJ
      · exact sB.symm ▸ hB
      · exact sC.symm ▸ hC

/-- The matrix returned by `forward_engine` is the one reached after some
number of rows, and every row up to the first cancellation was processed. -/
theorem forward_engine_reached (p7O_NQF : Nat → Nat) (lm : LibM α)
    (cancelFlag : Nat → Bool) (do_full : Bool) (dsq : Nat → Nat) (L : Nat)
    (om : P7_OPROFILE α) (ox : P7_OMX α) (opt_sc : Bool) (i : Nat) (hi : i ≤ L)
    (hnc : ∀ k, 1 ≤ k → k ≤ i → cancelFlag k = false) :
    ∃ m, i ≤ m ∧
      (forward_engine p7O_NQF lm cancelFlag do_full dsq L om ox opt_sc).2.1
        = (fwd_state lm do_full dsq (p7O_NQF om.M) om
            (fwd_init L (p7O_NQF om.M) om ox) m).ox := by
  by_cases hall : ∀ k, 1 ≤ k → k ≤ L → cancelFlag k = false
  · exact ⟨L, hi, forward_engine_ox p7O_NQF lm cancelFlag do_full dsq L om ox opt_sc hall⟩
  · obtain ⟨j, hj1, hjL, hc, hfirst⟩ := cancel_first cancelFlag L hall
    have e := fwd_rows_of_cancel lm cancelFlag do_full dsq (p7O_NQF om.M) om
      (fwd_init L (p7O_NQF om.M) om ox) L j hj1 hjL hc hfirst
    have hij : i ≤ j - 1 := by
      by_contra hlt
      have := hnc j hj1 (by omega)
      rw [hc] at this
      exact Bool.noConfusion this
    refine ⟨j - 1, hij, ?_⟩
    simp only [forward_engine, e]

/-- C27: in exact arithmetic, for every model whose float-track emission,
transition and special-state weights are all non-negative (and that has at
least one float vector), every value `forward_engine` stores is non-negative:
for every position `i` in `0..L` reached before a cancellation, the Match,
Delete and Insert lanes of the row stored for `i` (row `i` of the full matrix,
row 0 in parser mode) and the E, N, J, B and C values of row `i` of the
special-state trace. -/
theorem C27_forward_values_nonneg (p7O_NQF : Nat → Nat) (lm : LibM α)
    (cancelFlag : Nat → Bool) (do_full : Bool) (dsq : Nat → Nat) (L : Nat)
    (om : P7_OPROFILE α) (ox : P7_OMX α) (opt_sc : Bool) (hQ : 0 < p7O_NQF om.M)
    (hom : OmNonneg om) (i : Nat) (hi : i ≤ L)
    (hnc : ∀ k, 1 ≤ k → k ≤ i → cancelFlag k = false) :
    RowNonneg (p7O_NQF om.M)
      ((forward_engine p7O_NQF lm cancelFlag do_full dsq L om ox opt_sc).2.1.dpf
        (do_full.toNat * i)) ∧
    0 ≤ (forward_engine p7O_NQF lm cancelFlag do_full dsq L om ox opt_sc).2.1.xmx i p7X_E ∧
    0 ≤ (forward_engine p7O_NQF lm cancelFlag do_full dsq L om ox opt_sc).2.1.xmx i p7X_N ∧
    0 ≤ (forward_engine p7O_NQF lm cancelFlag do_full dsq L om ox opt_sc).2.1.xmx i p7X_J ∧
    0 ≤ (forward_engine p7O_NQF lm cancelFlag do_full dsq L om ox opt_sc).2.1.xmx i p7X_B ∧
    0 ≤ (forward_engine p7O_NQF lm cancelFlag do_full dsq L om ox opt_sc).2.1.xmx i p7X_C := by
  obtain ⟨m, him, e⟩ := forward_engine_reached p7O_NQF lm cancelFlag do_full dsq L om ox opt_sc
    i hi hnc
  rw [e]
  exact fwd_state_all_nonneg lm do_full dsq (p7O_NQF om.M) L om ox hQ hom m i him

/-- Witness for C27: the toy model on a sequence of length 1, over the
reals. -/
theorem C27_forward_values_nonneg_witness :
    0 < demo_NQF (demo_om (1 : ℝ) p7_LOCAL).M ∧ OmNonneg (demo_om (1 : ℝ) p7_LOCAL) ∧
    1 ≤ 1 ∧ (∀ k, 1 ≤ k → k ≤ 1 → (fun _ : Nat => false) k = false) ∧
    0 ≤ (forward_engine demo_NQF (demo_lm Real.log) (fun _ => false) true (fun _ => 0) 1
      (demo_om (1 : ℝ) p7_LOCAL) demo_ox true).2.1.xmx 1 p7X_B :=
  ⟨Nat.one_pos, demo_om_nonneg p7_LOCAL, le_rfl, fun _ _ _ => rfl,
   (C27_forward_values_nonneg demo_NQF (demo_lm Real.log) (fun _ => false) true (fun _ => 0) 1
      (demo_om (1 : ℝ) p7_LOCAL) demo_ox true Nat.one_pos (demo_om_nonneg p7_LOCAL) 1 le_rfl
      (fun _ _ _ => rfl)).2.2.2.2.1⟩

end ForwardNonneg

/-! ## The complement table of the nucleic acid alphabets -/

section ComplementClaims

set_option maxRecDepth 200000

/-- The table left by the seventeen assignments of `define_complementarity`
in memory with content `fresh`. -/
theorem define_complementarity_table (fresh : Nat → Nat) (a : ESL_ALPHABET) (x : Nat) :
    ((define_complementarity true fresh a).2.complement.getD id) x
      = if x < 17 then [3, 2, 1, 0, 4, 6, 5, 8, 7, 9, 10, 14, 13, 12, 11, 15, 16].getD x 0
        else fresh x := by
  by_cases hx : x < 17
  · rw [if_pos hx]
    interval_cases x <;> rfl
  · rw [if_neg hx]
    simp only [define_complementarity, if_false, Bool.true_eq_false, Option.getD_some]
    repeat rw [Function.update_noteq (by omega)]

/-- The degeneracy rows of the DNA alphabet are carried over by the
complement table of `define_complementarity`. -/
theorem create_dna_degen_complement :
    ∀ x, x < 17 → ∀ y, y < 4 →
      ((create_dna true true (fun _ => 0)).getD (demo_abc eslUNKNOWN 0 0)).degen
          ([3, 2, 1, 0, 4, 6, 5, 8, 7, 9, 10, 14, 13, 12, 11, 15, 16].getD x 0)
          ([3, 2, 1, 0, 4, 6, 5, 8, 7, 9, 10, 14, 13, 12, 11, 15, 16].getD y 0)
        = ((create_dna true true (fun _ => 0)).getD (demo_abc eslUNKNOWN 0 0)).degen x y := by
  decide

/-- The degeneracy rows of the RNA alphabet are carried over by the
complement table of `define_complementarity`. -/
theorem create_rna_degen_complement :
    ∀ x, x < 17 → ∀ y, y < 4 →
      ((create_rna true true (fun _ => 0)).getD (demo_abc eslUNKNOWN 0 0)).degen
          ([3, 2, 1, 0, 4, 6, 5, 8, 7, 9, 10, 14, 13, 12, 11, 15, 16].getD x 0)
          ([3, 2, 1, 0, 4, 6, 5, 8, 7, 9, 10, 14, 13, 12, 11, 15, 16].getD y 0)
        = ((create_rna true true (fun _ => 0)).getD (demo_abc eslUNKNOWN 0 0)).degen x y := by
  decide

/-- The table `[3, 2, 1, 0, 4, 6, 5, 8, 7, 9, 10, 14, 13, 12, 11, 15, 16]` is
an involution of the codes `0..16`. -/
theorem complement_table_involution :
    ∀ x, x < 17 →
      [3, 2, 1, 0, 4, 6, 5, 8, 7, 9, 10, 14, 13, 12, 11, 15, 16].getD x 0 < 17 ∧
      [3, 2, 1, 0, 4, 6, 5, 8, 7, 9, 10, 14, 13, 12, 11, 15, 16].getD
        ([3, 2, 1, 0, 4, 6, 5, 8, 7, 9, 10, 14, 13, 12, 11, 15, 16].getD x 0) 0 = x := by
  decide

/-- C40 (the code at the codes 0..17): for every content `fresh` of the memory
handed out for the table, `create_dna` and `create_rna` succeed and give an
alphabet of `Kp = 18` codes with a complement table `c`.  On the codes
`0..16` the table is the one written by `define_complementarity`: an
involution, and the canonical bases of `c[x]` are the complements of the
canonical bases of `x`.  The cell of code 17, the missing-data symbol, is
never assigned: `c[17]` is whatever the allocation left there, so for memory
holding zeros `c[17] = 0` and `c[c[17]] = 3`, not 17. -/
theorem C40_complement_of_missing_data_unset (fresh : Nat → Nat) :
    (∃ a c, create_dna true true fresh = some a ∧ a.complement = some c ∧ a.Kp = 18 ∧
      c 17 = fresh 17 ∧
      (∀ x, x < 17 → c (c x) = x ∧ ∀ y, y < 4 → a.degen (c x) (c y) = a.degen x y)) ∧
    (∃ a c, create_rna true true fresh = some a ∧ a.complement = some c ∧ a.Kp = 18 ∧
      c 17 = fresh 17 ∧
      (∀ x, x < 17 → c (c x) = x ∧ ∀ y, y < 4 → a.degen (c x) (c y) = a.degen x y)) ∧
    (∃ a c, create_dna true true (fun _ => 0) = some a ∧ a.complement = some c ∧
      c 17 = 0 ∧ c (c 17) = 3) := by
  have key : ∀ (A A0 : ESL_ALPHABET), (define_complementarity true fresh A).2 = A →
      A.degen = A0.degen →
      (∀ x, x < 17 → ∀ y, y < 4 →
        A0.degen ([3, 2, 1, 0, 4, 6, 5, 8, 7, 9, 10, 14, 13, 12, 11, 15, 16].getD x 0)
          ([3, 2, 1, 0, 4, 6, 5, 8, 7, 9, 10, 14, 13, 12, 11, 15, 16].getD y 0)
          = A0.degen x y) →
      ∀ x, x < 17 → (A.complement.getD id) ((A.complement.getD id) x) = x ∧
        ∀ y, y < 4 → A.degen ((A.complement.getD id) x) ((A.complement.getD id) y)
          = A.degen x y := by
    intro A A0 hA hd h0 x hx
    have ht : ∀ z, z < 17 → (A.complement.getD id) z
        = [3, 2, 1, 0, 4, 6, 5, 8, 7, 9, 10, 14, 13, 12, 11, 15, 16].getD z 0 := by
      intro z hz
      have := define_complementarity_table fresh A z
      rw [hA, if_pos hz] at this
      exact this
    obtain ⟨i1, i2⟩ := complement_table_involution x hx
    refine ⟨?_, ?_⟩
    · rw [ht x hx, ht _ i1, i2]
    · intro y hy
      rw [ht x hx, ht y (by omega), hd]
      exact h0 x hx y hy
  refine ⟨⟨(create_dna true true fresh).getD (demo_abc eslUNKNOWN 0 0),
      ((create_dna true true fresh).getD (demo_abc eslUNKNOWN 0 0)).complement.getD id,
      rfl, rfl, rfl, rfl, ?_⟩,
    ⟨(create_rna true true fresh).getD (demo_abc eslUNKNOWN 0 0),
      ((create_rna true true fresh).getD (demo_abc eslUNKNOWN 0 0)).complement.getD id,
      rfl, rfl, rfl, rfl, ?_⟩,
    ⟨(create_dna true true (fun _ => 0)).getD (demo_abc eslUNKNOWN 0 0),
      ((create_dna true true (fun _ => 0)).getD (demo_abc eslUNKNOWN 0 0)).complement.getD id,
      rfl, rfl, rfl, rfl⟩⟩
  · exact key _ ((create_dna true true (fun _ => 0)).getD (demo_abc eslUNKNOWN 0 0)) rfl rfl
      create_dna_degen_complement
  · exact key _ ((create_rna true true (fun _ => 0)).getD (demo_abc eslUNKNOWN 0 0)) rfl rfl
      create_rna_degen_complement

end ComplementClaims
/-! ## esl_abc_Match on the DNA alphabet -/

section MatchClaims

set_option maxRecDepth 200000

/-- The base size and the degeneracy rows of A, C, gap, R and N in the DNA
alphabet. -/
theorem create_dna_degen_rows :
    ((create_dna true true (fun _ => 0)).getD (demo_abc eslUNKNOWN 0 0)).K = 4 ∧
    ((create_dna true true (fun _ => 0)).getD (demo_abc eslUNKNOWN 0 0)).Kp = 18 ∧
    ∀ i, i < 4 →
      ((create_dna true true (fun _ => 0)).getD (demo_abc eslUNKNOWN 0 0)).degen 0 i
        = [1, 0, 0, 0].getD i 0 ∧
      ((create_dna true true (fun _ => 0)).getD (demo_abc eslUNKNOWN 0 0)).degen 1 i
        = [0, 1, 0, 0].getD i 0 ∧
      ((create_dna true true (fun _ => 0)).getD (demo_abc eslUNKNOWN 0 0)).degen 4 i = 0 ∧
      ((create_dna true true (fun _ => 0)).getD (demo_abc eslUNKNOWN 0 0)).degen 5 i
        = [1, 0, 1, 0].getD i 0 ∧
      ((create_dna true true (fun _ => 0)).getD (demo_abc eslUNKNOWN 0 0)).degen 15 i = 1 := by
  decide

/-- C32 (the code on the four pairs): on the DNA alphabet made by `create_dna`,
with `p = NULL`, `esl_abc_Match` returns 1 for the pair (R, A) and 0.5 for
(N, R), where the function's comment promises 0.5 and 0.25; it returns 0.25
for (C, N) and 0.5 for (R, R), as promised.  The codes are A = 0, C = 1,
R = 5, N = 15; all the values are exact in binary floating point. -/
theorem C32_match_counts_first_symbol_twice :
    esl_abc_Match (α := ℚ) ((create_dna true true (fun _ => 0)).getD (demo_abc eslUNKNOWN 0 0))
      5 0 none = .fin 1 ∧
    esl_abc_Match (α := ℚ) ((create_dna true true (fun _ => 0)).getD (demo_abc eslUNKNOWN 0 0))
      1 15 none = .fin (1 / 4) ∧
    esl_abc_Match (α := ℚ) ((create_dna true true (fun _ => 0)).getD (demo_abc eslUNKNOWN 0 0))
      15 5 none = .fin (1 / 2) ∧
    esl_abc_Match (α := ℚ) ((create_dna true true (fun _ => 0)).getD (demo_abc eslUNKNOWN 0 0))
      5 5 none = .fin (1 / 2) := by
  obtain ⟨hK, hKp, hd⟩ := create_dna_degen_rows
  obtain ⟨a0, c0, g0, r0, n0⟩ := hd 0 (by omega)
  obtain ⟨a1, c1, g1, r1, n1⟩ := hd 1 (by omega)
  obtain ⟨a2, c2, g2, r2, n2⟩ := hd 2 (by omega)
  obtain ⟨a3, c3, g3, r3, n3⟩ := hd 3 (by omega)
  refine ⟨?_, ?_, ?_, ?_⟩ <;>
  · simp only [esl_abc_Match, esl_abc_XIsCanonical, esl_abc_XIsResidue, hK, hKp, forUp,
      esl_abc_Match_body, a0, a1, a2, a3, c0, c1, c2, c3, r0, r1, r2, r3, n0, n1, n2, n3]
    norm_num [Flt.add, Flt.mul, Flt.div, Flt.ofInt, Flt.signed]

/-- When the first symbol `x` is not a residue code, `esl_abc_Match` returns
0.0, whatever `y` and `p` are. -/
theorem esl_abc_Match_first_not_residue (abc : ESL_ALPHABET) (x y : Nat)
    (p : Option (Nat → Flt ℚ)) (hx : esl_abc_XIsResidue abc x = false) :
    esl_abc_Match abc x y p = .fin 0 := by
  have hc : esl_abc_XIsCanonical abc x = false := by
    unfold esl_abc_XIsResidue at hx
    unfold esl_abc_XIsCanonical
    simp only [Bool.or_eq_false_iff] at hx
    exact hx.1
  unfold esl_abc_Match
  simp [hc, hx]

/-- C33 (the code on a residue and a gap): on the DNA alphabet made by
`create_dna`, with `p = NULL`, `esl_abc_Match` on the residue A (code 0) and
the gap symbol (code 4) does not return 0.0: the second test looks at `x`
twice and lets the gap through, `sy` stays 0 and the quotient
`prob / (sx * sy)` is plus infinity. -/
theorem C33_match_gap_not_rejected :
    esl_abc_XIsResidue ((create_dna true true (fun _ => 0)).getD (demo_abc eslUNKNOWN 0 0)) 4
      = false ∧
    esl_abc_Match (α := ℚ) ((create_dna true true (fun _ => 0)).getD (demo_abc eslUNKNOWN 0 0))
      0 4 none = .pinf := by
  obtain ⟨hK, hKp, hd⟩ := create_dna_degen_rows
  obtain ⟨a0, c0, g0, r0, n0⟩ := hd 0 (by omega)
  obtain ⟨a1, c1, g1, r1, n1⟩ := hd 1 (by omega)
  obtain ⟨a2, c2, g2, r2, n2⟩ := hd 2 (by omega)
  obtain ⟨a3, c3, g3, r3, n3⟩ := hd 3 (by omega)
  refine ⟨?_, ?_⟩
  · simp [esl_abc_XIsResidue, hK, hKp]
  · simp only [esl_abc_Match, esl_abc_XIsCanonical, esl_abc_XIsResidue, hK, hKp, forUp,
      esl_abc_Match_body, a0, a1, a2, a3, g0, g1, g2, g3]
    norm_num [Flt.add, Flt.mul, Flt.div, Flt.ofInt, Flt.signed]

end MatchClaims
/-! ## esl_abc_GuessAlphabet -/

section GuessClaims

set_option maxRecDepth 200000

/-- Counts below `2^31` pass through the `int` variable `x` unchanged: the
tally of a list of letters is then the sum of their counts, the number of
letters seen is at most the length of the list, and it is 0 exactly when the
sum is 0. -/
theorem guess_tally_spec (ct : Nat → Int)
    (hct : ∀ i, 0 ≤ ct i ∧ ct i < 2147483648) (letters : List Char) :
    ∀ (s : Int × Int), 0 ≤ s.1 → 0 ≤ s.2 → s.1 + 2147483648 * letters.length < 2147483648 * 64 →
      s.2 + letters.length < 64 → (0 < s.1 ↔ 0 < s.2) →
      let r := letters.foldl (fun (s : Int × Int) c =>
        let x := wrap_int32 (ct (c.toNat - 65))
        if 0 < x then (wrap_int64 (s.1 + x), wrap_int32 (s.2 + 1)) else s) s
      r.1 = s.1 + (letters.map (fun c => ct (c.toNat - 65))).sum ∧
      s.2 ≤ r.2 ∧ r.2 ≤ s.2 + letters.length ∧ (0 < r.1 ↔ 0 < r.2) := by
  induction letters with
  | nil =>
    intro s h1 h2 h3 h4 h5
    simp only [List.foldl_nil, List.map_nil, List.sum_nil, List.length_nil]
    refine ⟨by omega, le_refl _, by simp, h5⟩
  | cons c cs ih =>
    intro s h1 h2 h3 h4 h5
    obtain ⟨c0, c1⟩ := hct (c.toNat - 65)
    have hw : wrap_int32 (ct (c.toNat - 65)) = ct (c.toNat - 65) := by
      unfold wrap_int32; omega
    rw [List.length_cons] at h3 h4
    push_cast at h3 h4
    simp only [List.foldl_cons, List.map_cons, List.sum_cons, List.length_cons, hw]
    by_cases hp : 0 < ct (c.toNat - 65)
    · rw [if_pos hp]
      have e1 : wrap_int64 (s.1 + ct (c.toNat - 65)) = s.1 + ct (c.toNat - 65) := by
        unfold wrap_int64; omega
      have e2 : wrap_int32 (s.2 + 1) = s.2 + 1 := by
        unfold wrap_int32; omega
      rw [e1, e2]
      have := ih (s.1 + ct (c.toNat - 65), s.2 + 1) (by show 0 ≤ s.1 + _; omega)
        (by show 0 ≤ s.2 + 1; omega) (by show s.1 + _ + _ < _; omega)
        (by show s.2 + 1 + _ < _; omega)
        (by show 0 < s.1 + _ ↔ 0 < s.2 + 1; constructor <;> intro _ <;> omega)
      obtain ⟨r1, r2, r3, r4⟩ := this
      simp only at r1 r2 r3 r4
      refine ⟨by rw [r1]; ring, by omega, by push_cast; omega, r4⟩
    · rw [if_neg hp]
      have hz : ct (c.toNat - 65) = 0 := by omega
      obtain ⟨r1, r2, r3, r4⟩ := ih s h1 h2 (by omega) (by omega) h5
      simp only at r1 r2 r3 r4
      refine ⟨by rw [r1, hz]; ring, r2, by push_cast; omega, r4⟩

/-- A sum of non-negative counts is positive exactly when one of them is. -/
theorem sum_counts_pos (ct : Nat → Int) (hct : ∀ i, 0 ≤ ct i) (letters : List Char) :
    0 ≤ (letters.map (fun c => ct (c.toNat - 65))).sum ∧
    (0 < (letters.map (fun c => ct (c.toNat - 65))).sum
      ↔ ∃ c, c ∈ letters ∧ 0 < ct (c.toNat - 65)) := by
  induction letters with
  | nil => simp
  | cons c cs ih =>
    obtain ⟨i1, i2⟩ := ih
    have h0 := hct (c.toNat - 65)
    simp only [List.map_cons, List.sum_cons, List.mem_cons, exists_eq_or_imp]
    refine ⟨by omega, ?_⟩
    rw [← i2]
    constructor
    · intro h
      by_cases hc : 0 < ct (c.toNat - 65)
      · exact Or.inl hc
      · exact Or.inr (by omega)
    · rintro (h | h) <;> omega

/-- The total `n` of `esl_abc_GuessAlphabet` for counts below `2^31`. -/
theorem guess_total_spec (ct : Nat → Int) (hct : ∀ i, 0 ≤ ct i ∧ ct i < 2147483648) :
    ∀ k, k ≤ 26 →
      forUp k (fun i n => wrap_int64 (n + ct i)) 0 = ∑ i in Finset.range k, ct i ∧
      0 ≤ ∑ i in Finset.range k, ct i ∧
      ∑ i in Finset.range k, ct i ≤ 2147483648 * k := by
  intro k
  induction k with
  | zero => intro _; simp [forUp]
  | succ k ih =>
    intro hk
    obtain ⟨i1, i2, i3⟩ := ih (by omega)
    obtain ⟨c0, c1⟩ := hct k
    rw [forUp_succ, i1, Finset.sum_range_succ]
    have hk2 : (k : Int) ≤ 25 := by omega
    refine ⟨by unfold wrap_int64; omega, by omega, by push_cast; omega⟩

theorem ite_pair_snd {β γ : Type} (c : Prop) [Decidable c] (a b : β) (t : γ) :
    (if c then (a, t) else (b, t)).2 = t := by
  split_ifs <;> rfl

theorem ite_pair_fst {β γ : Type} (c : Prop) [Decidable c] (a b : β) (t : γ) :
    (if c then (a, t) else (b, t)).1 = if c then a else b := by
  split_ifs <;> rfl

/-- The last three branches do not answer `eslAMINO` when the test of the
last one fails. -/
theorem guess_chain_ne {A B C : Prop} [Decidable A] [Decidable B] [Decidable C] (hC : ¬ C) :
    (if A then eslDNA else if B then eslRNA else if C then eslAMINO else eslUNKNOWN)
      ≠ eslAMINO := by
  by_cases hA : A
  · rw [if_pos hA]; decide
  · rw [if_neg hA]
    by_cases hB : B
    · rw [if_pos hB]; decide
    · rw [if_neg hB, if_neg hC]; decide

/-- For counts below `2^31`, which the `int` variable `x` holds unchanged,
`esl_abc_GuessAlphabet` answers `eslAMINO` exactly when the total exceeds 10
and one of the letters EFIJLOPQZ occurs; the last branch of the function is
never the deciding one. -/
theorem esl_abc_GuessAlphabet_amino_iff (ct : Nat → Int)
    (hct : ∀ i, 0 ≤ ct i ∧ ct i < 2147483648) :
    ((esl_abc_GuessAlphabet ct).2 = eslAMINO
      ↔ 10 < ∑ i in Finset.range 26, ct i
        ∧ ∃ c, c ∈ "EFIJLOPQZ".toList ∧ 0 < ct (c.toNat - 65)) ∧
    ((esl_abc_GuessAlphabet ct).1 = eslOK ↔ (esl_abc_GuessAlphabet ct).2 ≠ eslUNKNOWN) := by
  obtain ⟨hn, -, -⟩ := guess_total_spec ct hct 26 le_rfl
  have t1 := guess_tally_spec ct hct "EFIJLOPQZ".toList (0, 0) le_rfl le_rfl (by decide)
    (by decide) (by simp)
  have t2 := guess_tally_spec ct hct "ACG".toList (0, 0) le_rfl le_rfl (by decide)
    (by decide) (by simp)
  have t3 := guess_tally_spec ct hct "DHKMRSVWY".toList (0, 0) le_rfl le_rfl (by decide)
    (by decide) (by simp)
  obtain ⟨a1, a2, a3, a4⟩ := t1
  obtain ⟨b1, b2, b3, b4⟩ := t2
  obtain ⟨c1, c2, c3, c4⟩ := t3
  obtain ⟨p0, p1⟩ := sum_counts_pos ct (fun i => (hct i).1) "EFIJLOPQZ".toList
  have hl1 : ("EFIJLOPQZ".toList.length : Int) = 9 := by decide
  have hl2 : ("ACG".toList.length : Int) = 3 := by decide
  have hl3 : ("DHKMRSVWY".toList.length : Int) = 9 := by decide
  rw [hl1] at a3
  rw [hl2] at b3
  rw [hl3] at c3
  simp only [zero_add] at a1 a2 a3 b1 b2 b3 c1 c2 c3
  have hg : ∀ l, guess_tally ct l = l.foldl (fun (s : Int × Int) c =>
      let x := wrap_int32 (ct (c.toNat - 65))
      if 0 < x then (wrap_int64 (s.1 + x), wrap_int32 (s.2 + 1)) else s) (0, 0) := fun _ => rfl
  rw [← hg] at a1 a2 a3 a4 b1 b2 b3 b4 c1 c2 c3 c4
  rw [← a1] at p0 p1
  have hty : (esl_abc_GuessAlphabet ct).2 = eslAMINO
      ↔ 10 < ∑ i in Finset.range 26, ct i
        ∧ ∃ c, c ∈ "EFIJLOPQZ".toList ∧ 0 < ct (c.toNat - 65) := by
    rw [← p1, ← hn]
    unfold esl_abc_GuessAlphabet
    simp only [ite_pair_snd]
    by_cases h10 : forUp 26 (fun i n => wrap_int64 (n + ct i)) 0 ≤ 10
    · simp only [if_pos h10]
      constructor
      · intro h; simp at h
      · intro h; omega
    · simp only [if_neg h10]
      by_cases hn1 : 0 < (guess_tally ct "EFIJLOPQZ".toList).1
      · simp only [if_pos hn1]
        constructor
        · intro _; exact ⟨by omega, hn1⟩
        · intro _; simp
      · simp only [if_neg hn1]
        have hx1 : (guess_tally ct "EFIJLOPQZ".toList).2 = 0 := by
          have : ¬ 0 < (guess_tally ct "EFIJLOPQZ".toList).2 := fun h => hn1 (a4.mpr h)
          omega
        have hxt : (if 0 < ct (84 - 65) then (1 : Int) else 0) ≤ 1 := by split_ifs <;> omega
        have hxt0 : (0 : Int) ≤ (if 0 < ct (84 - 65) then (1 : Int) else 0) := by
          split_ifs <;> omega
        have hlast : ¬ 15 ≤ wrap_int32 (wrap_int32 (wrap_int32 (wrap_int32
            ((guess_tally ct "EFIJLOPQZ".toList).2 + (guess_tally ct "ACG".toList).2)
            + (guess_tally ct "DHKMRSVWY".toList).2) + 0)
            + (if 0 < ct (84 - 65) then (1 : Int) else 0)) := by
          rw [hx1]
          unfold wrap_int32
          omega
        constructor
        · intro h
          exact absurd h (guess_chain_ne (fun q => hlast q.2.2))
        · intro h; exact absurd h.2 hn1
  refine ⟨hty, ?_⟩
  generalize hT : (esl_abc_GuessAlphabet ct).2 = T
  have hS : (esl_abc_GuessAlphabet ct).1 = if T = eslUNKNOWN then eslEAMBIGUOUS else eslOK := by
    rw [← hT]
    unfold esl_abc_GuessAlphabet
    simp only [ite_pair_fst, ite_pair_snd]
  rw [hS]
  split_ifs with h <;> simp [h]

/-- C34 (the code on a count of `2^32`): for the counts with `2^32`
occurrences of E and nothing else, the total exceeds 10 and the
amino-specific letter E occurs, but `esl_abc_GuessAlphabet` answers
`eslUNKNOWN` with `eslEAMBIGUOUS`: the count passes through the `int`
variable `x`, where it becomes 0. -/
theorem C34_guess_narrows_counts :
    esl_abc_GuessAlphabet demo_ct_E = (eslEAMBIGUOUS, eslUNKNOWN) ∧
    10 < ∑ i in Finset.range 26, demo_ct_E i ∧
    0 < demo_ct_E ((Char.ofNat 69).toNat - 65) ∧
    wrap_int32 (demo_ct_E ((Char.ofNat 69).toNat - 65)) = 0 := by
  refine ⟨by decide, ?_, by decide, by decide⟩
  simp [Finset.sum_range_succ, demo_ct_E]

end GuessClaims
/-! ## Digitizing and textizing -/

section RoundTrip

set_option maxRecDepth 200000

/-- The cells written by `esl_abc_Digitize` and its status, for an alphabet
with `3 <= Kp <= 258`. -/
theorem esl_abc_Digitize_cells (a : ESL_ALPHABET) (seq : List Char) (dsq : Nat → Nat)
    (hlo : 3 ≤ a.Kp) (hhi : a.Kp ≤ 258) :
    (∀ j c, (kept_chars a seq).get? j = some c →
      (esl_abc_Digitize a seq dsq).2 (j + 1) = digit_of a c) ∧
    ((esl_abc_Digitize a seq dsq).1 = eslOK
      ↔ ∀ c, c ∈ kept_chars a seq → a.inmap c.toNat < a.Kp) := by
  obtain ⟨f1, f2, f3, f4, f5⟩ := esl_abc_Digitize_fold a hlo hhi seq
    { status := eslOK, j := 1, dsq := Function.update dsq 0 eslDSQ_SENTINEL }
  have hj : (seq.foldl (fun s c => esl_abc_Digitize_body a c s)
      ({ status := eslOK, j := 1, dsq := Function.update dsq 0 eslDSQ_SENTINEL } :
        DigitizeVars)).j = (kept_chars a seq).length + 1 := by
    rw [f1]; show 1 + _ = _; omega
  have hres : ∀ i, (esl_abc_Digitize a seq dsq).2 i
      = Function.update (seq.foldl (fun s c => esl_abc_Digitize_body a c s)
          ({ status := eslOK, j := 1, dsq := Function.update dsq 0 eslDSQ_SENTINEL } :
            DigitizeVars)).dsq ((kept_chars a seq).length + 1) eslDSQ_SENTINEL i := by
    intro i
    show Function.update _ _ _ i = _
    rw [hj]
  refine ⟨?_, ?_⟩
  · intro j c hc
    have hlt : j < (kept_chars a seq).length := by
      by_contra hge
      rw [List.get?_eq_none.mpr (by omega)] at hc
      exact Option.noConfusion hc
    rw [hres, Function.update_noteq (by omega)]
    have := f3 j c hc
    rw [show j + 1 = 1 + j by omega]
    exact this
  · constructor
    · intro hok
      by_contra hn
      have h5 : (esl_abc_Digitize a seq dsq).1 = eslEINVAL := f5 hn
      rw [h5] at hok
      exact Status.noConfusion hok
    · intro hall
      exact f4 hall

/-- The buffer left by `esl_abc_Textize`. -/
theorem esl_abc_Textize_cells (a : ESL_ALPHABET) (dsq : Nat → Nat) (L : Nat)
    (seq : Nat → Char) :
    (esl_abc_Textize a dsq L seq).1 = eslOK ∧
    (esl_abc_Textize a dsq L seq).2 L = Char.ofNat 0 ∧
    ∀ i, i < L →
      (esl_abc_Textize a dsq L seq).2 i = a.sym.getD (dsq (i + 1)) (Char.ofNat 0) := by
  have key : ∀ n i, i < n →
      forUp n (fun i seq => Function.update seq i (a.sym.getD (dsq (i + 1)) (Char.ofNat 0)))
        seq i = a.sym.getD (dsq (i + 1)) (Char.ofNat 0) := by
    intro n
    induction n with
    | zero => intro i hi; omega
    | succ k ih =>
      intro i hi
      rw [forUp_succ]
      by_cases hik : i = k
      · rw [hik, Function.update_same]
      · rw [Function.update_noteq hik]
        exact ih i (by omega)
  refine ⟨rfl, ?_, ?_⟩
  · show Function.update _ L _ L = _
    rw [Function.update_same]
  · intro i hi
    show Function.update _ L _ i = _
    rw [Function.update_noteq (by omega)]
    exact key L i hi

/-- Textizing a digitized text: when no character of `seq` is ignored and
`esl_abc_Digitize` returns `eslOK`, `esl_abc_Textize` with the length of
`seq` writes, for each character, the internal symbol of its code, and the
terminating NUL. -/
theorem textize_digitize (a : ESL_ALPHABET) (seq : List Char) (dsq : Nat → Nat)
    (buf : Nat → Char) (hlo : 3 ≤ a.Kp) (hhi : a.Kp ≤ 258)
    (hs : ∀ c, c ∈ seq → a.inmap c.toNat ≠ eslDSQ_IGNORED)
    (hok : (esl_abc_Digitize a seq dsq).1 = eslOK) :
    (esl_abc_Textize a (esl_abc_Digitize a seq dsq).2 seq.length buf).1 = eslOK ∧
    (esl_abc_Textize a (esl_abc_Digitize a seq dsq).2 seq.length buf).2 seq.length
      = Char.ofNat 0 ∧
    ∀ i c, seq.get? i = some c →
      (esl_abc_Textize a (esl_abc_Digitize a seq dsq).2 seq.length buf).2 i
        = a.sym.getD (a.inmap c.toNat) (Char.ofNat 0) := by
  obtain ⟨t1, t2, t3⟩ := esl_abc_Textize_cells a (esl_abc_Digitize a seq dsq).2 seq.length buf
  obtain ⟨d1, d2⟩ := esl_abc_Digitize_cells a seq dsq hlo hhi
  have hk : kept_chars a seq = seq := by
    unfold kept_chars
    rw [List.filter_eq_self]
    intro c hc
    simpa using hs c hc
  rw [hk] at d1 d2
  refine ⟨t1, t2, ?_⟩
  intro i c hc
  have hlt : i < seq.length := by
    by_contra hge
    rw [List.get?_eq_none.mpr (by omega)] at hc
    exact Option.noConfusion hc
  have hmem : c ∈ seq := List.get?_mem hc
  have hv := d2.mp hok c hmem
  rw [t3 i hlt, d1 i c hc]
  unfold digit_of
  rw [if_pos hv]

end RoundTrip
section RoundTripClaims

set_option maxRecDepth 200000

theorem create_dna_round_trip :
    RoundTripOK ((create_dna true true (fun _ => 0)).getD (demo_abc eslUNKNOWN 0 0)).Kp
      ((create_dna true true (fun _ => 0)).getD (demo_abc eslUNKNOWN 0 0)).sym
      ((create_dna true true (fun _ => 0)).getD (demo_abc eslUNKNOWN 0 0)).inmap := by
  decide

theorem create_rna_round_trip :
    RoundTripOK ((create_rna true true (fun _ => 0)).getD (demo_abc eslUNKNOWN 0 0)).Kp
      ((create_rna true true (fun _ => 0)).getD (demo_abc eslUNKNOWN 0 0)).sym
      ((create_rna true true (fun _ => 0)).getD (demo_abc eslUNKNOWN 0 0)).inmap := by
  decide

theorem create_amino_round_trip :
    RoundTripOK ((create_amino true).getD (demo_abc eslUNKNOWN 0 0)).Kp
      ((create_amino true).getD (demo_abc eslUNKNOWN 0 0)).sym
      ((create_amino true).getD (demo_abc eslUNKNOWN 0 0)).inmap := by
  decide

/-- The alphabets made by `esl_alphabet_Create` for DNA, RNA and amino acids
have what the round trip needs. -/
theorem esl_alphabet_Create_round_trip (alloc_ok compl_ok : Bool) (fresh : Nat → Nat)
    (t : esl_alphabet_type) (a : ESL_ALPHABET)
    (ht : t = eslDNA ∨ t = eslRNA ∨ t = eslAMINO)
    (ha : esl_alphabet_Create alloc_ok compl_ok fresh t = some a) :
    RoundTripOK a.Kp a.sym a.inmap := by
  have hal : alloc_ok = true := by
    cases alloc_ok
    · exfalso
      rcases ht with h | h | h <;> subst h <;> exact Option.noConfusion ha
    · rfl
  subst hal
  rcases ht with h | h | h
  · subst h
    have hc : compl_ok = true := by
      cases compl_ok
      · exact Option.noConfusion ha
      · rfl
    subst hc
    have e : a = (create_dna true true fresh).getD (demo_abc eslUNKNOWN 0 0) :=
      (congrArg (fun o => o.getD (demo_abc eslUNKNOWN 0 0)) ha).symm
    rw [e]
    exact create_dna_round_trip
  · subst h
    have hc : compl_ok = true := by
      cases compl_ok
      · exact Option.noConfusion ha
      · rfl
    subst hc
    have e : a = (create_rna true true fresh).getD (demo_abc eslUNKNOWN 0 0) :=
      (congrArg (fun o => o.getD (demo_abc eslUNKNOWN 0 0)) ha).symm
    rw [e]
    exact create_rna_round_trip
  · subst h
    have e : a = (create_amino true).getD (demo_abc eslUNKNOWN 0 0) :=
      (congrArg (fun o => o.getD (demo_abc eslUNKNOWN 0 0)) ha).symm
    rw [e]
    exact create_amino_round_trip

/-- C39: let `a` be the alphabet made by `esl_alphabet_Create` for DNA, RNA or
amino acids.  For a text `seq` of internal symbols of `a`,
`esl_abc_Digitize` returns `eslOK`, and `esl_abc_Textize` on the result with
the length of `seq` returns `eslOK` and writes `seq` itself, followed by NUL.
For a text of characters of the input map (7-bit characters) that
`esl_abc_Digitize` accepts with `eslOK`, `esl_abc_Textize` writes, for each
character, the internal symbol of its code, followed by NUL. -/
theorem C39_textize_undoes_digitize (alloc_ok compl_ok : Bool) (fresh : Nat → Nat)
    (t : esl_alphabet_type) (a : ESL_ALPHABET) (seq : List Char) (dsq : Nat → Nat)
    (buf : Nat → Char)
    (ht : t = eslDNA ∨ t = eslRNA ∨ t = eslAMINO)
    (ha : esl_alphabet_Create alloc_ok compl_ok fresh t = some a) :
    ((∀ c, c ∈ seq → c ∈ a.sym) →
      (esl_abc_Digitize a seq dsq).1 = eslOK ∧
      (esl_abc_Textize a (esl_abc_Digitize a seq dsq).2 seq.length buf).1 = eslOK ∧
      (esl_abc_Textize a (esl_abc_Digitize a seq dsq).2 seq.length buf).2 seq.length
        = Char.ofNat 0 ∧
      ∀ i c, seq.get? i = some c →
        (esl_abc_Textize a (esl_abc_Digitize a seq dsq).2 seq.length buf).2 i = c) ∧
    ((∀ c, c ∈ seq → c.toNat < 128) → (esl_abc_Digitize a seq dsq).1 = eslOK →
      (esl_abc_Textize a (esl_abc_Digitize a seq dsq).2 seq.length buf).1 = eslOK ∧
      (esl_abc_Textize a (esl_abc_Digitize a seq dsq).2 seq.length buf).2 seq.length
        = Char.ofNat 0 ∧
      ∀ i c, seq.get? i = some c →
        (esl_abc_Textize a (esl_abc_Digitize a seq dsq).2 seq.length buf).2 i
          = a.sym.getD (a.inmap c.toNat) (Char.ofNat 0)) := by
  obtain ⟨hlo, hhi, hign, hsym⟩ := esl_alphabet_Create_round_trip alloc_ok compl_ok fresh t a ht ha
  refine ⟨?_, ?_⟩
  · intro hs
    have hs1 : ∀ c, c ∈ seq → a.inmap c.toNat ≠ eslDSQ_IGNORED :=
      fun c hc => hign _ (hsym c (hs c hc)).1
    have hk : kept_chars a seq = seq := by
      unfold kept_chars
      rw [List.filter_eq_self]
      intro c hc
      simpa using hs1 c hc
    have hok : (esl_abc_Digitize a seq dsq).1 = eslOK := by
      rw [(esl_abc_Digitize_cells a seq dsq hlo hhi).2, hk]
      exact fun c hc => (hsym c (hs c hc)).2.1
    obtain ⟨r1, r2, r3⟩ := textize_digitize a seq dsq buf hlo hhi hs1 hok
    refine ⟨hok, r1, r2, ?_⟩
    intro i c hc
    rw [r3 i c hc]
    exact (hsym c (hs c (List.get?_mem hc))).2.2
  · intro hs hok
    exact textize_digitize a seq dsq buf hlo hhi (fun c hc => hign _ (hs c hc)) hok

/-- Witness for C39: the DNA alphabet and the text `ACGT`. -/
theorem C39_textize_undoes_digitize_witness :
    (eslDNA = eslDNA ∨ eslDNA = eslRNA ∨ eslDNA = eslAMINO) ∧
    esl_alphabet_Create true true (fun _ => 0) eslDNA
      = some ((create_dna true true (fun _ => 0)).getD (demo_abc eslUNKNOWN 0 0)) ∧
    (esl_abc_Digitize ((create_dna true true (fun _ => 0)).getD (demo_abc eslUNKNOWN 0 0))
      [Char.ofNat 65, Char.ofNat 67, Char.ofNat 71, Char.ofNat 84] (fun _ => 0)).1 = eslOK :=
  ⟨Or.inl rfl, rfl,
   ((C39_textize_undoes_digitize true true (fun _ => 0) eslDNA
      ((create_dna true true (fun _ => 0)).getD (demo_abc eslUNKNOWN 0 0))
      [Char.ofNat 65, Char.ofNat 67, Char.ofNat 71, Char.ofNat 84] (fun _ => 0)
      (fun _ => Char.ofNat 0) (Or.inl rfl) rfl).1 (by decide)).1⟩

end RoundTripClaims
/-! ## esl_abc_dsqcat on a NULL sequence -/

section DsqcatClaims

set_option maxRecDepth 200000

/-- When the code 253 is not a valid code, one step of the loop of
`esl_abc_dsqcat` does what one step of the loop of `esl_abc_Digitize` does. -/
theorem esl_abc_dsqcat_body_eq (a : ESL_ALPHABET) (hK : a.Kp ≤ 253) (c : Char)
    (s : DigitizeVars) :
    esl_abc_dsqcat_body a c { status := s.status, xpos := s.j, dsq := s.dsq }
      = { status := (esl_abc_Digitize_body a c s).status
          xpos := (esl_abc_Digitize_body a c s).j
          dsq := (esl_abc_Digitize_body a c s).dsq } := by
  unfold esl_abc_dsqcat_body esl_abc_Digitize_body esl_abc_XIsValid
  by_cases hi : a.inmap c.toNat = eslDSQ_IGNORED
  · have hv : ¬ a.inmap c.toNat < a.Kp := by
      rw [hi]; unfold eslDSQ_IGNORED; omega
    have hK2 : a.Kp ≤ eslDSQ_IGNORED := hK
    simp [hi, hv, hK2]
  · by_cases hv : a.inmap c.toNat < a.Kp
    · simp [hi, hv]
    · simp [hi, hv]

/-- The loops of `esl_abc_dsqcat` and `esl_abc_Digitize` from corresponding
states. -/
theorem esl_abc_dsqcat_fold_eq (a : ESL_ALPHABET) (hK : a.Kp ≤ 253) (t : List Char) :
    ∀ s : DigitizeVars,
      t.foldl (fun v c => esl_abc_dsqcat_body a c v)
          { status := s.status, xpos := s.j, dsq := s.dsq }
        = { status := (t.foldl (fun s c => esl_abc_Digitize_body a c s) s).status
            xpos := (t.foldl (fun s c => esl_abc_Digitize_body a c s) s).j
            dsq := (t.foldl (fun s c => esl_abc_Digitize_body a c s) s).dsq } := by
  induction t with
  | nil => intro s; rfl
  | cons c cs ih =>
    intro s
    rw [List.foldl_cons, List.foldl_cons, esl_abc_dsqcat_body_eq a hK c s]
    exact ih (esl_abc_Digitize_body a c s)

/-- The position reached by the loop of `esl_abc_Digitize` is one more than
the number of kept characters (the kept characters are those that either loop
stores). -/
theorem esl_abc_Digitize_j (a : ESL_ALPHABET) (t : List Char) :
    ∀ s : DigitizeVars,
      (t.foldl (fun s c => esl_abc_Digitize_body a c s) s).j = s.j + (kept_chars a t).length := by
  induction t with
  | nil => intro s; rfl
  | cons c cs ih =>
    intro s
    rw [List.foldl_cons, ih, kept_chars_cons]
    unfold esl_abc_Digitize_body
    by_cases hi : a.inmap c.toNat = eslDSQ_IGNORED
    · simp [hi]
    · simp only [if_neg hi, List.length_cons]
      have e : ∀ (p : Prop) [Decidable p] (u v : DigitizeVars), u.j = s.j → v.j = s.j →
          (if p then u else v).j = s.j := by
        intro p _ u v hu hv
        split_ifs <;> assumption
      have e2 := e (esl_abc_XIsValid a (a.inmap c.toNat) = true)
        { status := s.status, j := s.j, dsq := Function.update s.dsq s.j (a.inmap c.toNat) }
        { status := eslEINVAL, j := s.j,
          dsq := Function.update s.dsq s.j (esl_abc_XGetUnknown a % 256).toNat } rfl rfl
      rw [e2]
      omega

/-- C31 (as the claim states it, refuted): for the empty text,
`esl_abc_dsqcat` on a NULL sequence hands NULL back with length 0 and
`eslOK`, while `esl_abc_CreateDsq` allocates a sequence (of two sentinels).
And in an alphabet of 254 codes whose character B has the code 253,
`esl_abc_dsqcat` stores the B of the text `B` as a residue (length 1), while
`esl_abc_CreateDsq` ignores it. -/
theorem C31_dsqcat_empty_text_stays_null :
    esl_abc_dsqcat ((create_dna true true (fun _ => 0)).getD (demo_abc eslUNKNOWN 0 0)) true
        (fun _ => 0) 0 none 0 (some []) 0 = some (eslOK, none, 0) ∧
    esl_abc_dsqcat ((create_dna true true (fun _ => 0)).getD (demo_abc eslUNKNOWN 0 0)) true
        (fun _ => 0) 0 none (-1) (some []) (-1) = some (eslOK, none, 0) ∧
    ((esl_abc_CreateDsq ((create_dna true true (fun _ => 0)).getD (demo_abc eslUNKNOWN 0 0)) true
        (fun _ => 0) [] false).2.map (fun d => (d 0, d 1)))
      = some (eslDSQ_SENTINEL, eslDSQ_SENTINEL) ∧
    ((esl_abc_dsqcat demo_abc254 true (fun _ => 0) 0 none 0 (some [Char.ofNat 66]) 1).map
        (fun r => (r.1, r.2.1.map (fun d => (d 0, d 1, d 2)), r.2.2)))
      = some (eslOK, some (eslDSQ_SENTINEL, 253, eslDSQ_SENTINEL), 1) ∧
    ((esl_abc_CreateDsq demo_abc254 true (fun _ => 0) [Char.ofNat 66] false).2.map
        (fun d => (d 0, d 1)))
      = some (eslDSQ_SENTINEL, eslDSQ_SENTINEL) := by
  refine ⟨rfl, rfl, by decide, by decide, by decide⟩

/-- C31 (amended): for every alphabet in which the code 253 of ignored
characters is not a valid code (`Kp <= 253`) and every non-empty text `s`,
`esl_abc_dsqcat` with `*dsq = NULL`, `*L` 0 or -1 and `n` the length of `s`
or -1 returns the status of `esl_abc_CreateDsq(a, s)` and the same digital
sequence, for the same outcome of the allocation and the same content of the
allocated memory; the length it reports is the number of characters of `s`
that are not ignored (0 when the allocation fails, where both return
`eslEMEM` and NULL). -/
theorem C31_dsqcat_from_null (a : ESL_ALPHABET) (alloc_ok : Bool) (fresh : Nat → Nat)
    (fuel : Nat) (s : List Char) (L n : Int)
    (hK : a.Kp ≤ 253) (hs : s ≠ []) (hL : L = 0 ∨ L = -1)
    (hn : n = (s.length : Int) ∨ n = -1) :
    esl_abc_dsqcat a alloc_ok fresh fuel none L (some s) n
      = some ((esl_abc_CreateDsq a alloc_ok fresh s false).1,
          (esl_abc_CreateDsq a alloc_ok fresh s false).2,
          if alloc_ok then ((kept_chars a s).length : Int) else 0) := by
  have hlen : (s.length : Int) ≠ 0 := by
    intro h
    apply hs
    exact List.length_eq_zero.mp (by exact_mod_cast h)
  have hnewL : (if L < 0 then (some 0 : Option Int) else some L) = some 0 := by
    rcases hL with h | h <;> subst h <;> rfl
  have hn2 : (if n < 0 then (s.length : Int) else n) = (s.length : Int) := by
    rcases hn with h | h
    · subst h
      rw [if_neg (by omega)]
    · subst h
      rw [if_pos (by omega)]
  unfold esl_abc_dsqcat esl_abc_CreateDsq
  simp only [hnewL, hn2, if_neg hlen]
  cases alloc_ok
  · rfl
  · simp only [Bool.true_eq_false, if_false, if_true]
    have hf := esl_abc_dsqcat_fold_eq a hK s
      { status := eslOK, j := 1, dsq := Function.update fresh 0 eslDSQ_SENTINEL }
    have hj := esl_abc_Digitize_j a s
      { status := eslOK, j := 1, dsq := Function.update fresh 0 eslDSQ_SENTINEL }
    have h1 : ((0 : Int) + 1).toNat = 1 := rfl
    rw [h1, hf]
    simp only [esl_abc_Digitize, hj]
    have e3 : (1 : Int) + ((kept_chars a s).length : Int) - 1 = ((kept_chars a s).length : Int) := by
      omega
    push_cast
    rw [e3]

/-- Witness for C31 (amended): the DNA alphabet and the text `AC`. -/
theorem C31_dsqcat_from_null_witness :
    (((create_dna true true (fun _ => 0)).getD (demo_abc eslUNKNOWN 0 0)).Kp ≤ 253 ∧
      [Char.ofNat 65, Char.ofNat 67] ≠ [] ∧ ((0 : Int) = 0 ∨ (0 : Int) = -1) ∧
      ((2 : Int) = (([Char.ofNat 65, Char.ofNat 67] : List Char).length : Int) ∨ (2 : Int) = -1)) ∧
    esl_abc_dsqcat ((create_dna true true (fun _ => 0)).getD (demo_abc eslUNKNOWN 0 0)) true
        (fun _ => 0) 0 none 0 (some [Char.ofNat 65, Char.ofNat 67]) 2
      = some ((esl_abc_CreateDsq ((create_dna true true (fun _ => 0)).getD
            (demo_abc eslUNKNOWN 0 0)) true (fun _ => 0) [Char.ofNat 65, Char.ofNat 67] false).1,
          (esl_abc_CreateDsq ((create_dna true true (fun _ => 0)).getD
            (demo_abc eslUNKNOWN 0 0)) true (fun _ => 0) [Char.ofNat 65, Char.ofNat 67] false).2,
          if true then ((kept_chars ((create_dna true true (fun _ => 0)).getD
            (demo_abc eslUNKNOWN 0 0)) [Char.ofNat 65, Char.ofNat 67]).length : Int) else 0) :=
  ⟨⟨by decide, by decide, Or.inl rfl, Or.inl rfl⟩,
   C31_dsqcat_from_null ((create_dna true true (fun _ => 0)).getD (demo_abc eslUNKNOWN 0 0)) true
     (fun _ => 0) 0 [Char.ofNat 65, Char.ofNat 67] 0 2 (by decide) (by decide) (Or.inl rfl)
     (Or.inl rfl)⟩

end DsqcatClaims

/-! ## The later reconfiguration of the hit mode decides -/

section ReconfigModeClaims

variable {α : Type} [LinearOrderedField α] [FloorRing α]

/-- Unihit after Multihit is Unihit. -/
theorem reconfig_unihit_after_multihit (h : Headers α) (om : P7_OM α) (L1 W1 L2 W2 : Nat) :
    p7_oprofile_ReconfigUnihit h (p7_oprofile_ReconfigMultihit h om L1 W1).2 L2 W2
      = p7_oprofile_ReconfigUnihit h om L2 W2 := by
  simp only [p7_oprofile_ReconfigUnihit, p7_oprofile_ReconfigMultihit,
    p7_oprofile_ReconfigLength, p7_oprofile_ReconfigMSVLength, p7_oprofile_ReconfigRestLength,
    ne_eq, not_true_eq_false, if_false, wordify_eq, unbiased_byteify_eq]
  simp only [Prod.mk.injEq, P7_OM.mk.injEq, true_and, and_true]
  constructor
  · funext s u
    cases s <;> cases u <;> simp [set2x_apply]
  · funext s u
    cases s <;> cases u <;> simp [set2x_apply]

/-- Multihit after Unihit is Multihit. -/
theorem reconfig_multihit_after_unihit (h : Headers α) (om : P7_OM α) (L1 W1 L2 W2 : Nat) :
    p7_oprofile_ReconfigMultihit h (p7_oprofile_ReconfigUnihit h om L1 W1).2 L2 W2
      = p7_oprofile_ReconfigMultihit h om L2 W2 := by
  simp only [p7_oprofile_ReconfigUnihit, p7_oprofile_ReconfigMultihit,
    p7_oprofile_ReconfigLength, p7_oprofile_ReconfigMSVLength, p7_oprofile_ReconfigRestLength,
    ne_eq, not_true_eq_false, if_false, wordify_eq, unbiased_byteify_eq]
  simp only [Prod.mk.injEq, P7_OM.mk.injEq, true_and, and_true]
  constructor
  · funext s u
    cases s <;> cases u <;> simp [set2x_apply]
  · funext s u
    cases s <;> cases u <;> simp [set2x_apply]

/-- Unihit after Unihit is the later Unihit. -/
theorem reconfig_unihit_after_unihit (h : Headers α) (om : P7_OM α) (L1 W1 L2 W2 : Nat) :
    p7_oprofile_ReconfigUnihit h (p7_oprofile_ReconfigUnihit h om L1 W1).2 L2 W2
      = p7_oprofile_ReconfigUnihit h om L2 W2 := by
  simp only [p7_oprofile_ReconfigUnihit,
    p7_oprofile_ReconfigLength, p7_oprofile_ReconfigMSVLength, p7_oprofile_ReconfigRestLength,
    ne_eq, not_true_eq_false, if_false, wordify_eq, unbiased_byteify_eq]
  simp only [Prod.mk.injEq, P7_OM.mk.injEq, true_and, and_true]
  constructor
  · funext s u
    cases s <;> cases u <;> simp [set2x_apply]
  · funext s u
    cases s <;> cases u <;> simp [set2x_apply]

/-- Multihit after Multihit is the later Multihit. -/
theorem reconfig_multihit_after_multihit (h : Headers α) (om : P7_OM α) (L1 W1 L2 W2 : Nat) :
    p7_oprofile_ReconfigMultihit h (p7_oprofile_ReconfigMultihit h om L1 W1).2 L2 W2
      = p7_oprofile_ReconfigMultihit h om L2 W2 := by
  simp only [p7_oprofile_ReconfigMultihit,
    p7_oprofile_ReconfigLength, p7_oprofile_ReconfigMSVLength, p7_oprofile_ReconfigRestLength,
    ne_eq, not_true_eq_false, if_false, wordify_eq, unbiased_byteify_eq]
  simp only [Prod.mk.injEq, P7_OM.mk.injEq, true_and, and_true]
  constructor
  · funext s u
    cases s <;> cases u <;> simp [set2x_apply]
  · funext s u
    cases s <;> cases u <;> simp [set2x_apply]

/-- C37: for every profile `om` and all arguments,
`p7_oprofile_ReconfigUnihit(L2, W2)` applied to the profile left by
`p7_oprofile_ReconfigMultihit(L1, W1)` returns the same status and the same
profile as `p7_oprofile_ReconfigUnihit(L2, W2)` applied to `om`, and the same
with the two functions exchanged; each function applied twice with the same
arguments gives what it gives applied once. -/
theorem C37_later_hit_mode_decides (h : Headers α) (om : P7_OM α) (L1 W1 L2 W2 : Nat) :
    p7_oprofile_ReconfigUnihit h (p7_oprofile_ReconfigMultihit h om L1 W1).2 L2 W2
      = p7_oprofile_ReconfigUnihit h om L2 W2 ∧
    p7_oprofile_ReconfigMultihit h (p7_oprofile_ReconfigUnihit h om L1 W1).2 L2 W2
      = p7_oprofile_ReconfigMultihit h om L2 W2 ∧
    p7_oprofile_ReconfigUnihit h (p7_oprofile_ReconfigUnihit h om L2 W2).2 L2 W2
      = p7_oprofile_ReconfigUnihit h om L2 W2 ∧
    p7_oprofile_ReconfigMultihit h (p7_oprofile_ReconfigMultihit h om L2 W2).2 L2 W2
      = p7_oprofile_ReconfigMultihit h om L2 W2 :=
  ⟨reconfig_unihit_after_multihit h om L1 W1 L2 W2,
   reconfig_multihit_after_unihit h om L1 W1 L2 W2,
   reconfig_unihit_after_unihit h om L2 W2 L2 W2,
   reconfig_multihit_after_multihit h om L2 W2 L2 W2⟩

end ReconfigModeClaims
/-! ## The positions of the digital sequence read by the engines -/

section DsqReads

variable {α : Type} [Zero α] [One α] [Add α] [Mul α] [Div α] [NatCast α]
  [LT α] [DecidableRel (fun (x y : α) => x < y)] [DecidableEq α]

/-- Row `i` of `forward_engine` reads the digital sequence at position `i`
only. -/
theorem fwd_row_dsq_congr (lm : LibM α) (do_full : Bool) (dsq dsq1 : Nat → Nat) (Q : Nat)
    (om : P7_OPROFILE α) (i : Nat) (s : FwdVars α) (h : dsq i = dsq1 i) :
    fwd_row lm do_full dsq Q om i s = fwd_row lm do_full dsq1 Q om i s := by
  unfold fwd_row fwd_row_compute
  rw [h]

/-- The rows `1..n` of `forward_engine` read the positions `1..n` only. -/
theorem fwd_rows_dsq_congr (lm : LibM α) (cancelFlag : Nat → Bool) (do_full : Bool)
    (dsq dsq1 : Nat → Nat) (Q : Nat) (om : P7_OPROFILE α) (n : Nat) (s : FwdVars α)
    (h : ∀ i, 1 ≤ i → i ≤ n → dsq i = dsq1 i) :
    fwd_rows lm cancelFlag do_full dsq Q om n s
      = fwd_rows lm cancelFlag do_full dsq1 Q om n s := by
  induction n with
  | zero => rfl
  | succ k ih =>
    unfold fwd_rows
    have e : ∀ t, fwd_row lm do_full dsq Q om (k + 1) t = fwd_row lm do_full dsq1 Q om (k + 1) t :=
      fun t => fwd_row_dsq_congr lm do_full dsq dsq1 Q om (k + 1) t (h (k + 1) (by omega) le_rfl)
    rw [ih (fun i h1 h2 => h i h1 (by omega))]
    simp only [e]

/-- The function `forward_engine` reads the digital sequence at the positions
`1..L` only: two arrays that agree there give the same result. -/
theorem forward_engine_dsq_congr (p7O_NQF : Nat → Nat) (lm : LibM α)
    (cancelFlag : Nat → Bool) (do_full : Bool) (dsq dsq1 : Nat → Nat) (L : Nat)
    (om : P7_OPROFILE α) (ox : P7_OMX α) (opt_sc : Bool)
    (h : ∀ i, 1 ≤ i → i ≤ L → dsq i = dsq1 i) :
    forward_engine p7O_NQF lm cancelFlag do_full dsq L om ox opt_sc
      = forward_engine p7O_NQF lm cancelFlag do_full dsq1 L om ox opt_sc := by
  unfold forward_engine
  simp only []
  rw [fwd_rows_dsq_congr lm cancelFlag do_full dsq dsq1 _ om L _ h]

/-- Row `i` of the main recursion of `backward_engine` reads the digital
sequence at position `i + 1` only. -/
theorem bck_row_dsq_congr (lm : LibM α) (do_full : Bool) (dsq dsq1 : Nat → Nat) (Q : Nat)
    (om : P7_OPROFILE α) (fwd : P7_OMX α) (i : Nat) (s : BckVars α)
    (h : dsq (i + 1) = dsq1 (i + 1)) :
    bck_row lm do_full dsq Q om fwd i s = bck_row lm do_full dsq1 Q om fwd i s := by
  unfold bck_row bck_row_compute bck_row_begin
  rw [h]

/-- The rows `n..1` of the main recursion of `backward_engine` read the
positions `2..n+1` only. -/
theorem bck_rows_dsq_congr (lm : LibM α) (cancelFlag : Nat → Bool) (do_full : Bool)
    (dsq dsq1 : Nat → Nat) (Q : Nat) (om : P7_OPROFILE α) (fwd : P7_OMX α) (n : Nat)
    (s : BckVars α) (h : ∀ i, 2 ≤ i → i ≤ n + 1 → dsq i = dsq1 i) :
    bck_rows lm cancelFlag do_full dsq Q om fwd n s
      = bck_rows lm cancelFlag do_full dsq1 Q om fwd n s := by
  induction n generalizing s with
  | zero => rfl
  | succ k ih =>
    unfold bck_rows
    rw [bck_row_dsq_congr lm do_full dsq dsq1 Q om fwd (k + 1) s (h (k + 2) (by omega) le_rfl)]
    rw [ih _ (fun i h1 h2 => h i h1 (by omega))]

/-- The termination step of `backward_engine` reads the digital sequence at
position 1 only. -/
theorem bck_term_dsq_congr (do_full : Bool) (dsq dsq1 : Nat → Nat) (Q : Nat)
    (om : P7_OPROFILE α) (s : BckVars α) (h : dsq 1 = dsq1 1) :
    bck_term do_full dsq Q om s = bck_term do_full dsq1 Q om s := by
  unfold bck_term
  rw [h]

/-- For a sequence of length `L >= 1`, `backward_engine` reads the digital
sequence at the positions `1..L` only: two arrays that agree there give the
same result. -/
theorem backward_engine_dsq_congr (p7O_NQF : Nat → Nat) (lm : LibM α)
    (cancelFlag : Nat → Bool) (do_full : Bool) (dsq dsq1 : Nat → Nat) (L : Nat)
    (om : P7_OPROFILE α) (fwd bck : P7_OMX α) (opt_sc : Bool) (hL : 1 ≤ L)
    (h : ∀ i, 1 ≤ i → i ≤ L → dsq i = dsq1 i) :
    backward_engine p7O_NQF lm cancelFlag do_full dsq L om fwd bck opt_sc
      = backward_engine p7O_NQF lm cancelFlag do_full dsq1 L om fwd bck opt_sc := by
  unfold backward_engine
  simp only []
  rw [bck_rows_dsq_congr lm cancelFlag do_full dsq dsq1 _ om fwd (L - 1) _
    (fun i h1 h2 => h i (by omega) (by omega))]
  simp only [bck_term_dsq_congr do_full dsq dsq1 _ om _ (h 1 le_rfl hL)]

end DsqReads

section DsqReadsTerm

variable {α : Type} [LinearOrderedField α]

/-- The Begin value stored for position 0 by the termination step: the sum
over the row `1 * do_full` of the Match values times the match odds ratios of
the code `dsq[1]` times the B->Mk transitions. -/
theorem bck_term_xB (do_full : Bool) (dsq : Nat → Nat) (Q : Nat) (om : P7_OPROFILE α)
    (s : BckVars α) :
    (bck_term do_full dsq Q om s).bck.xmx 0 p7X_B
      = ∑ z : Fin 4, ∑ q in Finset.range Q,
          MMO s.bck.dpf (1 * do_full.toNat) q z * om.rfv (dsq 1) q z * om.tfv (7 * q) z := by
  obtain ⟨l1, l2, l3⟩ := bck_term_loop om (dsq 1) Q
    { s with dpp := 1 * do_full.toNat, tp := 0, rp := 0, xBv := mm_setzero_ps } rfl rfl rfl
  have e : (bck_term do_full dsq Q om s).bck.xmx 0 p7X_B
      = hsum (forUp Q (bck_term_body om (dsq 1))
          { s with dpp := 1 * do_full.toNat, tp := 0, rp := 0, xBv := mm_setzero_ps }).xBv := by
    unfold bck_term
    simp [setX, Function.update, hsum]
  rw [e, hsum_eq, l3 0, l3 1, l3 2, l3 3, Fin.sum_univ_four]

end DsqReadsTerm

section DsqReadsDemo

/-- The result of `backward_engine` on the toy model for `L = 0`. -/
theorem demo_backward_empty (dsq : Nat → Nat) :
    (backward_engine demo_NQF (demo_lm (fun x : ℚ => x)) (fun _ => false) false dsq 0
      (demo_om_codes 1) demo_ox demo_ox true).2.1
      = (bck_term false dsq 1 (demo_om_codes 1)
          (bck_init (demo_lm (fun x : ℚ => x)) false 0 1 (demo_om_codes 1) demo_ox
            demo_ox)).bck := by
  have hQ : demo_NQF (demo_om_codes 1).M = 1 := rfl
  simp only [backward_engine, bck_rows, hQ]
  simp [demo_lm]

/-- The Match cells of row 0 after the initialization of `backward_engine` on
the toy model for `L = 0`. -/
theorem demo_backward_init_cells (z : Fin 4) :
    MMO (bck_init (demo_lm (fun x : ℚ => x)) false 0 1 (demo_om_codes 1) demo_ox
      demo_ox).bck.dpf 0 0 z = 1 := by
  obtain ⟨bdpc, bN, bJ, bC, bE, bcell⟩ := bck_init_begin_cells false 0 1 (demo_om_codes 1)
    (demo_ox : P7_OMX ℚ)
  have hv : ∀ q, q < 1 → DMO (bck_init_begin false 0 1 (demo_om_codes 1) demo_ox).bck.dpf
      (bck_init_begin false 0 1 (demo_om_codes 1) demo_ox).dpc q
        = mm_set1_ps ((demo_om_codes 1).xf p7O_C p7O_MOVE * (demo_om_codes 1).xf p7O_E p7O_MOVE) := by
    intro q hq; rw [bdpc]; exact (bcell q hq).2.1
  obtain ⟨ddpc, dI, dcell⟩ := bck_init_dd_cells (demo_om_codes 1) 1
    (bck_init_begin false 0 1 (demo_om_codes 1) demo_ox) Nat.one_pos _ hv
  rw [bdpc] at ddpc dcell
  have hm := (dcell 0 Nat.one_pos z).2
  have hpre : MMO (bck_init (demo_lm (fun x : ℚ => x)) false 0 1 (demo_om_codes 1) demo_ox
      demo_ox).bck.dpf 0 0 z
      = MMO (bck_init_dd 1 (demo_om_codes 1)
          (bck_init_begin false 0 1 (demo_om_codes 1) demo_ox)).bck.dpf 0 0 z := by
    have hs : ¬ (1 : ℚ) < (demo_ox : P7_OMX ℚ).xmx 0 p7X_SCALE := by simp [demo_ox]
    unfold bck_init bck_init_rescale
    simp only [if_neg hs]
    rfl
  rw [hpre]
  have h00 : (0 : Nat) * false.toNat = 0 := rfl
  rw [h00] at hm bcell
  rw [hm, (bcell 0 Nat.one_pos).1]
  simp [demo_om_codes, mm_set1_ps]


/-- C38 (the code on the empty sequence): for `L = 0` the digital sequence is
the two sentinels at the positions 0 and 1.  The termination step of
`backward_engine` reads the code at position 1 = `L + 1` and takes the row
`om->rfv[255]`: on a toy model whose table `rfv` has 18 rows (an index beyond
them reading zeros) the Begin value stored for position 0 is 0, and it is 4
when the cell at position 1 alone is changed to the code 0. -/
theorem C38_backward_reads_sentinel_of_empty_sequence :
    demo_dsq_empty 0 = eslDSQ_SENTINEL ∧ demo_dsq_empty (0 + 1) = eslDSQ_SENTINEL ∧
    (∀ i, i ≠ 0 + 1 → demo_dsq_other i = demo_dsq_empty i) ∧
    (backward_engine demo_NQF (demo_lm (fun x : ℚ => x)) (fun _ => false) false demo_dsq_empty 0
      (demo_om_codes 1) demo_ox demo_ox true).2.1.xmx 0 p7X_B = 0 ∧
    (backward_engine demo_NQF (demo_lm (fun x : ℚ => x)) (fun _ => false) false demo_dsq_other 0
      (demo_om_codes 1) demo_ox demo_ox true).2.1.xmx 0 p7X_B = 4 := by
  refine ⟨rfl, rfl, ?_, ?_, ?_⟩
  · intro i hi
    unfold demo_dsq_other demo_dsq_empty
    rw [if_neg hi]
  · rw [demo_backward_empty, bck_term_xB]
    simp [demo_om_codes, demo_dsq_empty, eslDSQ_SENTINEL]
  · rw [demo_backward_empty, bck_term_xB]
    have h00 : (1 : Nat) * false.toNat = 0 := rfl
    simp only [h00, Finset.sum_range_one, demo_backward_init_cells]
    simp [demo_om_codes, demo_dsq_other]

end DsqReadsDemo
/-! ## The scalar recurrences of a Forward row -/

section ForwardNodes

variable {α : Type} [LinearOrderedField α]

theorem node_val_succ (Q : Nat) (v : Nat → M128 α) (n : Nat) :
    node_val Q v (n + 1) = flat Q v n := by
  unfold node_val flat
  rw [if_neg (Nat.succ_ne_zero n), Nat.add_sub_cancel]

theorem node_val_shr (Q : Nat) (v : Nat → M128 α) (n : Nat) :
    node_val Q v n = shr (flat Q v) n := by
  unfold shr
  cases n with
  | zero => simp [node_val]
  | succ k => rw [node_val_succ, if_neg (Nat.succ_ne_zero k), Nat.add_sub_cancel]

/-- In the fully serialized version the four delete passes close the Delete
chain, whatever the values are. -/
theorem fwd_pure_D_final_serial (om : P7_OPROFILE α) (x Q : Nat) (xB : α) (P : DPRow α)
    (hQ : 0 < Q) (hser : om.M < 100) :
    FwdDDFinal om Q (fwd_pure_Y om x Q xB P) (fwd_pure_D om x Q xB P) := by
  have h0 := fwd_dd_first_inv om x Q xB P hQ
  unfold fwd_pure_D
  rw [if_pos hser]
  exact fwd_serial_final om Q _ hQ 3 0 _ h0 rfl

/-- The closed Delete chain of the fully serialized version, block by block. -/
theorem fwd_pure_D_prev_serial (om : P7_OPROFILE α) (x Q : Nat) (xB : α) (P : DPRow α)
    (hQ : 0 < Q) (hser : om.M < 100) (q : Nat) (hq : q < Q) (z : Fin 4) :
    fwd_pure_D om x Q xB P q z
      = fwd_prev Q (fun r => mm_add_ps
          (mm_mul_ps (fwd_pure_M om x Q xB P r) (om.tfv (7 * r + 4)))
          (mm_mul_ps (fwd_pure_D om x Q xB P r) (om.tfv (7 * Q + r)))) q z := by
  obtain ⟨ha, hb⟩ := fwd_pure_D_final_serial om x Q xB P hQ hser
  unfold fwd_prev
  split_ifs with h0
  · subst h0
    rw [hb z]
    have hY : fwd_pure_Y om x Q xB P Q
        = mm_mul_ps (fwd_pure_M om x Q xB P (Q - 1)) (om.tfv (7 * (Q - 1) + 4)) := by
      unfold fwd_pure_Y
      rw [if_neg (by omega)]
    rw [hY]
  · obtain ⟨k, rfl⟩ : ∃ k, q = k + 1 := ⟨q - 1, by omega⟩
    rw [ha k hq z]
    simp only [fwd_pure_Y, Nat.add_sub_cancel, mm_add_ps]
    rw [if_neg (Nat.succ_ne_zero k)]
    rfl

/-- The Match and Insert values of row `i` before rescaling, along the chain
of nodes, from the row before; no assumption on the values is needed. -/
theorem fwd_compute_flat_MI (do_full : Bool) (dsq : Nat → Nat) (Q : Nat)
    (om : P7_OPROFILE α) (i : Nat) (s : FwdVars α) (hQ : 0 < Q) :
    (∀ n, n < 4 * Q → (fwd_flat Q (fwd_row_compute do_full dsq Q om i s)).M n
      = ((fwd_flat Q s).B * (om_chain Q om).BM n + shr (fwd_flat Q s).M n * (om_chain Q om).MM n
          + shr (fwd_flat Q s).I n * (om_chain Q om).IM n
          + shr (fwd_flat Q s).D n * (om_chain Q om).DM n) * flat Q (om.rfv (dsq i)) n) ∧
    (∀ n, n < 4 * Q → (fwd_flat Q (fwd_row_compute do_full dsq Q om i s)).I n
      = (fwd_flat Q s).M n * (om_chain Q om).MI n
        + (fwd_flat Q s).I n * (om_chain Q om).II n) := by
  obtain ⟨hE, hdpc, hcell⟩ := fwd_row_compute_spec do_full dsq Q om i s hQ
  have hMq : ∀ q, q < Q →
      ((fwd_row_compute do_full dsq Q om i s).ox.dpf
        (fwd_row_compute do_full dsq Q om i s).dpc).mmo q
      = fwd_pure_M om (dsq i) Q s.xB (s.ox.dpf s.dpc) q := by
    intro q hq; rw [hdpc]; exact (hcell q hq).1
  have hIq : ∀ q, q < Q →
      ((fwd_row_compute do_full dsq Q om i s).ox.dpf
        (fwd_row_compute do_full dsq Q om i s).dpc).imo q
      = fwd_pure_I om (s.ox.dpf s.dpc) q := by
    intro q hq; rw [hdpc]; exact (hcell q hq).2.2
  have hM : ∀ n, n < 4 * Q → (fwd_flat Q (fwd_row_compute do_full dsq Q om i s)).M n
      = flat Q (fwd_pure_M om (dsq i) Q s.xB (s.ox.dpf s.dpc)) n :=
    fun n hn => flat_congr Q _ _ hMq n hn
  have hI : ∀ n, n < 4 * Q → (fwd_flat Q (fwd_row_compute do_full dsq Q om i s)).I n
      = flat Q (fwd_pure_I om (s.ox.dpf s.dpc)) n :=
    fun n hn => flat_congr Q _ _ hIq n hn
  refine ⟨?_, ?_⟩
  · intro n hn
    obtain ⟨z, q, hz, hq, rfl⟩ := flat_decomp Q n hn
    rw [hM _ hn]
    simp only [fwd_flat, om_chain, fun v => flat_mk Q v z q hz hq,
      fun v => shr_flat Q v z q hz hq]
    rfl
  · intro n hn
    obtain ⟨z, q, hz, hq, rfl⟩ := flat_decomp Q n hn
    rw [hI _ hn]
    simp only [fwd_flat, om_chain, fun v => flat_mk Q v z q hz hq]
    rfl

/-- The Delete values and the End value of row `i` before rescaling in the
fully serialized version, along the chain of nodes. -/
theorem fwd_compute_flat_serial (do_full : Bool) (dsq : Nat → Nat) (Q : Nat)
    (om : P7_OPROFILE α) (i : Nat) (s : FwdVars α) (hQ : 0 < Q) (hser : om.M < 100) :
    (∀ n, n < 4 * Q → (fwd_flat Q (fwd_row_compute do_full dsq Q om i s)).D n
      = shr (fun m => (fwd_flat Q (fwd_row_compute do_full dsq Q om i s)).M m
            * (om_chain Q om).MD m
          + (fwd_flat Q (fwd_row_compute do_full dsq Q om i s)).D m
            * (om_chain Q om).DD m) n) ∧
    (fwd_row_compute do_full dsq Q om i s).xE
      = ∑ n in Finset.range (4 * Q),
          ((fwd_flat Q (fwd_row_compute do_full dsq Q om i s)).M n
            + (fwd_flat Q (fwd_row_compute do_full dsq Q om i s)).D n) := by
  obtain ⟨hE, hdpc, hcell⟩ := fwd_row_compute_spec do_full dsq Q om i s hQ
  have hMq : ∀ q, q < Q →
      ((fwd_row_compute do_full dsq Q om i s).ox.dpf
        (fwd_row_compute do_full dsq Q om i s).dpc).mmo q
      = fwd_pure_M om (dsq i) Q s.xB (s.ox.dpf s.dpc) q := by
    intro q hq; rw [hdpc]; exact (hcell q hq).1
  have hDq : ∀ q, q < Q →
      ((fwd_row_compute do_full dsq Q om i s).ox.dpf
        (fwd_row_compute do_full dsq Q om i s).dpc).dmo q
      = fwd_pure_D om (dsq i) Q s.xB (s.ox.dpf s.dpc) q := by
    intro q hq; rw [hdpc]; exact (hcell q hq).2.1
  have hM : ∀ n, n < 4 * Q → (fwd_flat Q (fwd_row_compute do_full dsq Q om i s)).M n
      = flat Q (fwd_pure_M om (dsq i) Q s.xB (s.ox.dpf s.dpc)) n :=
    fun n hn => flat_congr Q _ _ hMq n hn
  have hD : ∀ n, n < 4 * Q → (fwd_flat Q (fwd_row_compute do_full dsq Q om i s)).D n
      = flat Q (fwd_pure_D om (dsq i) Q s.xB (s.ox.dpf s.dpc)) n :=
    fun n hn => flat_congr Q _ _ hDq n hn
  refine ⟨?_, ?_⟩
  · intro n hn
    obtain ⟨z, q, hz, hq, rfl⟩ := flat_decomp Q n hn
    rw [hD _ hn, flat_mk Q _ z q hz hq,
      fwd_pure_D_prev_serial om (dsq i) Q s.xB _ hQ hser q hq,
      ← shr_flat Q _ z q hz hq]
    apply shr_congr (4 * Q) _ _ _ _ hn
    intro m hm
    show flat Q _ m = (fwd_flat Q _).M m * (om_chain Q om).MD m
      + (fwd_flat Q _).D m * (om_chain Q om).DD m
    rw [hM m hm, hD m hm]
    rfl
  · rw [hE, fwd_pure_xE_sum]
    apply Finset.sum_congr rfl
    intro n hn
    rw [Finset.mem_range] at hn
    rw [hM n hn, hD n hn]

/-- C36: let `om` be a model with `M < 100` nodes (the fully serialized
version of the delete passes) in `Q` vectors, `M <= 4*Q`, whose padding is
empty: the nodes beyond `M` have match odds ratio 0 for the residue of
position `i`, and the nodes from `M` on have M->D and D->D odds ratios 0.
Then in row `i` as `forward_engine` computes it from any row before, after the
four delete passes and before the rescaling, the Delete value of node 1 is 0,
the Delete value of every node `k` in `2..M` is
`M_i(k-1) * tMD(k-1) + D_i(k-1) * tDD(k-1)`, and the End value is the sum of
`M_i(k) + D_i(k)` over the nodes `k = 1..M`; node `k` is read in lane
`(k-1) / Q` of vector `(k-1) % Q`. -/
theorem C36_delete_chain_and_end (do_full : Bool) (dsq : Nat → Nat) (Q : Nat)
    (om : P7_OPROFILE α) (i : Nat) (s : FwdVars α)
    (hQ : 0 < Q) (hser : om.M < 100) (hM : om.M ≤ 4 * Q)
    (hpadE : ∀ k, om.M < k → k ≤ 4 * Q → node_val Q (om.rfv (dsq i)) k = 0)
    (hpadT : ∀ k, om.M ≤ k → k < 4 * Q →
      node_val Q (fun q => om.tfv (7 * q + 4)) k = 0 ∧
      node_val Q (fun q => om.tfv (7 * Q + q)) k = 0) :
    node_val Q ((fwd_row_compute do_full dsq Q om i s).ox.dpf
      (fwd_row_compute do_full dsq Q om i s).dpc).dmo 1 = 0 ∧
    (∀ k, 2 ≤ k → k ≤ om.M →
      node_val Q ((fwd_row_compute do_full dsq Q om i s).ox.dpf
          (fwd_row_compute do_full dsq Q om i s).dpc).dmo k
        = node_val Q ((fwd_row_compute do_full dsq Q om i s).ox.dpf
              (fwd_row_compute do_full dsq Q om i s).dpc).mmo (k - 1)
            * node_val Q (fun q => om.tfv (7 * q + 4)) (k - 1)
          + node_val Q ((fwd_row_compute do_full dsq Q om i s).ox.dpf
              (fwd_row_compute do_full dsq Q om i s).dpc).dmo (k - 1)
            * node_val Q (fun q => om.tfv (7 * Q + q)) (k - 1)) ∧
    (fwd_row_compute do_full dsq Q om i s).xE
      = ∑ k in Finset.Icc 1 om.M,
          (node_val Q ((fwd_row_compute do_full dsq Q om i s).ox.dpf
              (fwd_row_compute do_full dsq Q om i s).dpc).mmo k
            + node_val Q ((fwd_row_compute do_full dsq Q om i s).ox.dpf
              (fwd_row_compute do_full dsq Q om i s).dpc).dmo k) := by
  obtain ⟨hD, hE⟩ := fwd_compute_flat_serial do_full dsq Q om i s hQ hser
  obtain ⟨hMI, -⟩ := fwd_compute_flat_MI do_full dsq Q om i s hQ
  -- the chain equation at every node below 4*Q
  have hchain : ∀ n, n + 1 < 4 * Q →
      (fwd_flat Q (fwd_row_compute do_full dsq Q om i s)).D (n + 1)
        = (fwd_flat Q (fwd_row_compute do_full dsq Q om i s)).M n * (om_chain Q om).MD n
          + (fwd_flat Q (fwd_row_compute do_full dsq Q om i s)).D n * (om_chain Q om).DD n := by
    intro n hn
    rw [hD (n + 1) hn]
    unfold shr
    rw [if_neg (Nat.succ_ne_zero n), Nat.add_sub_cancel]
  have hMpad : ∀ n, om.M ≤ n → n < 4 * Q →
      (fwd_flat Q (fwd_row_compute do_full dsq Q om i s)).M n = 0 := by
    intro n h1 h2
    rw [hMI n h2]
    have := hpadE (n + 1) (by omega) (by omega)
    rw [node_val_succ] at this
    rw [this, mul_zero]
  have hDpad : ∀ n, om.M ≤ n → n < 4 * Q →
      (fwd_flat Q (fwd_row_compute do_full dsq Q om i s)).D n = 0 := by
    intro n h1 h2
    cases n with
    | zero =>
      rw [hD 0 h2]
      unfold shr
      rw [if_pos rfl]
    | succ m =>
      rw [hchain m h2]
      rcases Nat.lt_or_ge m om.M with hlt | hge
      · have hmM : om.M = m + 1 := by omega
        obtain ⟨p1, p2⟩ := hpadT (m + 1) (by omega) h2
        rw [node_val_succ] at p1 p2
        have e1 : (om_chain Q om).MD m = 0 := p1
        have e2 : (om_chain Q om).DD m = 0 := p2
        rw [e1, e2, mul_zero, mul_zero, add_zero]
      · obtain ⟨p1, p2⟩ := hpadT (m + 1) (by omega) h2
        rw [node_val_succ] at p1 p2
        have e1 : (om_chain Q om).MD m = 0 := p1
        have e2 : (om_chain Q om).DD m = 0 := p2
        rw [e1, e2, mul_zero, mul_zero, add_zero]
  refine ⟨?_, ?_, ?_⟩
  · rw [show (1 : Nat) = 0 + 1 from rfl, node_val_succ]
    have := hD 0 (by omega)
    unfold shr at this
    rw [if_pos rfl] at this
    exact this
  · intro k hk2 hkM
    obtain ⟨n, rfl⟩ : ∃ n, k = n + 2 := ⟨k - 2, by omega⟩
    rw [show n + 2 - 1 = n + 1 from rfl, node_val_succ, node_val_succ, node_val_succ,
      node_val_succ, node_val_succ]
    exact hchain n (by omega)
  · rw [hE]
    have hsplit : ∑ n in Finset.range (4 * Q),
          ((fwd_flat Q (fwd_row_compute do_full dsq Q om i s)).M n
            + (fwd_flat Q (fwd_row_compute do_full dsq Q om i s)).D n)
        = ∑ n in Finset.range om.M,
          ((fwd_flat Q (fwd_row_compute do_full dsq Q om i s)).M n
            + (fwd_flat Q (fwd_row_compute do_full dsq Q om i s)).D n) := by
      symm
      apply Finset.sum_subset
      · intro n hn
        rw [Finset.mem_range] at hn ⊢
        omega
      · intro n hn hnot
        rw [Finset.mem_range] at hn hnot
        rw [hMpad n (by omega) hn, hDpad n (by omega) hn, add_zero]
    rw [hsplit, Finset.range_eq_Ico, Finset.sum_Ico_eq_sum_range]
    have hIcc : Finset.Icc 1 om.M = Finset.Ico 1 (om.M + 1) := by
      ext k
      simp only [Finset.mem_Icc, Finset.mem_Ico]
      omega
    rw [hIcc, Finset.sum_Ico_eq_sum_range]
    apply Finset.sum_congr
    · simp
    · intro n _
      rw [show 1 + n = n + 1 by omega, node_val_succ, node_val_succ, Nat.zero_add]
      rfl

end ForwardNodes
/-! ## The entries of the float track by node -/

section EngineEntries

variable {α : Type} [LinearOrderedField α] [FloorRing α]

/-- Lane `n / nq` as an index of a four-lane register, for `n < 4 * nq`. -/
theorem lane_val (nq n : Nat) (hn : n < 4 * nq) :
    ((Fin.ofNat (n / nq) : Fin 4)).val = n / nq := by
  have hq : 0 < nq := by omega
  have : n / nq < 4 := (Nat.div_lt_iff_lt_mul hq).mpr hn
  show (n / nq) % 4 = n / nq
  exact Nat.mod_eq_of_lt this

/-- What the engines read for node `n + 1 <= M` in the float track left by a
successful `fb_conversion`, when `expf` has the finite values `E` on the
scores (finite or minus infinity) and the profile holds scores: the match
odds ratio of the node, the odds ratios of the transitions B->M, M->M, I->M
and D->M that lead into it (stored for node `n`), and of its transitions M->I
and I->I, which are `expf(-infinity)` for the last node. -/
theorem fb_engine_entries (h : Headers α) (gm : P7_PROFILE α) (om0 : P7_OM α)
    (E : Flt α → α) (n : Nat)
    (hok : (fb_conversion h gm om0).1 = eslOK)
    (hv : ∀ (v : M128 (Flt α)) (z : Fin 4), h.esl_sse_expf v z = h.expf (v z))
    (hE : ∀ s, IsScore s → h.expf s = .fin (E s))
    (hr : ∀ x j, IsScore (gm.rsc x j)) (ht : ∀ j, IsScore (gm.tsc j))
    (hM : gm.M ≤ 4 * h.p7O_NQF gm.M) (hn : n < gm.M) :
    (∀ x, x < gm.abc.Kp →
      (om_engine (fb_conversion h gm om0).2).rfv x (n % h.p7O_NQF gm.M)
        (Fin.ofNat (n / h.p7O_NQF gm.M)) = E (p7P_MSC gm (n + 1) x)) ∧
    (om_engine (fb_conversion h gm om0).2).tfv (7 * (n % h.p7O_NQF gm.M))
      (Fin.ofNat (n / h.p7O_NQF gm.M)) = E (p7P_TSC gm n p7P_BM) ∧
    (om_engine (fb_conversion h gm om0).2).tfv (7 * (n % h.p7O_NQF gm.M) + 1)
      (Fin.ofNat (n / h.p7O_NQF gm.M)) = E (p7P_TSC gm n p7P_MM) ∧
    (om_engine (fb_conversion h gm om0).2).tfv (7 * (n % h.p7O_NQF gm.M) + 2)
      (Fin.ofNat (n / h.p7O_NQF gm.M)) = E (p7P_TSC gm n p7P_IM) ∧
    (om_engine (fb_conversion h gm om0).2).tfv (7 * (n % h.p7O_NQF gm.M) + 3)
      (Fin.ofNat (n / h.p7O_NQF gm.M)) = E (p7P_TSC gm n p7P_DM) ∧
    (om_engine (fb_conversion h gm om0).2).tfv (7 * (n % h.p7O_NQF gm.M) + 5)
      (Fin.ofNat (n / h.p7O_NQF gm.M))
        = (if n + 1 < gm.M then E (p7P_TSC gm (n + 1) p7P_MI) else E .ninf) ∧
    (om_engine (fb_conversion h gm om0).2).tfv (7 * (n % h.p7O_NQF gm.M) + 6)
      (Fin.ofNat (n / h.p7O_NQF gm.M))
        = (if n + 1 < gm.M then E (p7P_TSC gm (n + 1) p7P_II) else E .ninf) := by
  have hn4 : n < 4 * h.p7O_NQF gm.M := by omega
  have hQ : 0 < h.p7O_NQF gm.M := by omega
  have hq : n % h.p7O_NQF gm.M < h.p7O_NQF gm.M := Nat.mod_lt n hQ
  have hz := lane_val (h.p7O_NQF gm.M) n hn4
  have hnode : n % h.p7O_NQF gm.M + (n / h.p7O_NQF gm.M) * h.p7O_NQF gm.M = n := by
    rw [Nat.mul_comm]; exact Nat.mod_add_div n _
  have hninf : Flt.neg (.pinf : Flt α) = .ninf := rfl
  rw [fb_conversion_ok h gm om0 hok]
  obtain ⟨hT, -⟩ := fb_fill_tfv h gm om0 (n % h.p7O_NQF gm.M) hq
  have key : ∀ t, t < 7 →
      (om_engine (fb_fill h gm om0)).tfv (7 * (n % h.p7O_NQF gm.M) + t)
        (Fin.ofNat (n / h.p7O_NQF gm.M))
      = if (fb_switch t (n % h.p7O_NQF gm.M + 1)).2 + (n / h.p7O_NQF gm.M) * h.p7O_NQF gm.M
            < gm.M then
          E (p7P_TSC gm ((fb_switch t (n % h.p7O_NQF gm.M + 1)).2
            + (n / h.p7O_NQF gm.M) * h.p7O_NQF gm.M) (fb_switch t (n % h.p7O_NQF gm.M + 1)).1)
        else E .ninf := by
    intro t htl
    show Flt.val ((fb_fill h gm om0).tfv (7 * (n % h.p7O_NQF gm.M) + t) _) = _
    rw [hT t htl]
    unfold fb_tfv
    rw [hv, hz]
    split_ifs
    · rw [hE (p7P_TSC gm _ _) (ht _)]; rfl
    · rw [hninf, hE _ (Or.inl rfl)]; rfl
  refine ⟨?_, ?_, ?_, ?_, ?_, ?_, ?_⟩
  · intro x hx
    show Flt.val ((fb_fill h gm om0).rfv x (n % h.p7O_NQF gm.M) _) = _
    rw [fb_fill_rfv h gm om0 x _ hx hq]
    unfold fb_rfv
    rw [hv, hz]
    have e : n % h.p7O_NQF gm.M + 1 + (n / h.p7O_NQF gm.M) * h.p7O_NQF gm.M = n + 1 := by omega
    rw [e, if_pos (by omega), hE (p7P_MSC gm _ _) (hr _ _)]
    rfl
  · have := key 0 (by omega)
    rw [Nat.add_zero] at this
    rw [this]
    show (if n % h.p7O_NQF gm.M + 1 - 1 + _ < gm.M then
      E (p7P_TSC gm (n % h.p7O_NQF gm.M + 1 - 1 + _) p7P_BM) else _) = _
    rw [Nat.add_sub_cancel, hnode, if_pos hn]
  · rw [key 1 (by omega)]
    show (if n % h.p7O_NQF gm.M + 1 - 1 + _ < gm.M then
      E (p7P_TSC gm (n % h.p7O_NQF gm.M + 1 - 1 + _) p7P_MM) else _) = _
    rw [Nat.add_sub_cancel, hnode, if_pos hn]
  · rw [key 2 (by omega)]
    show (if n % h.p7O_NQF gm.M + 1 - 1 + _ < gm.M then
      E (p7P_TSC gm (n % h.p7O_NQF gm.M + 1 - 1 + _) p7P_IM) else _) = _
    rw [Nat.add_sub_cancel, hnode, if_pos hn]
  · rw [key 3 (by omega)]
    show (if n % h.p7O_NQF gm.M + 1 - 1 + _ < gm.M then
      E (p7P_TSC gm (n % h.p7O_NQF gm.M + 1 - 1 + _) p7P_DM) else _) = _
    rw [Nat.add_sub_cancel, hnode, if_pos hn]
  · rw [key 5 (by omega)]
    have e : n % h.p7O_NQF gm.M + 1 + (n / h.p7O_NQF gm.M) * h.p7O_NQF gm.M = n + 1 := by omega
    show (if n % h.p7O_NQF gm.M + 1 + _ < gm.M then
      E (p7P_TSC gm (n % h.p7O_NQF gm.M + 1 + _) p7P_MI) else _) = _
    rw [e]
  · rw [key 6 (by omega)]
    have e : n % h.p7O_NQF gm.M + 1 + (n / h.p7O_NQF gm.M) * h.p7O_NQF gm.M = n + 1 := by omega
    show (if n % h.p7O_NQF gm.M + 1 + _ < gm.M then
      E (p7P_TSC gm (n % h.p7O_NQF gm.M + 1 + _) p7P_II) else _) = _
    rw [e]

/-- The padding of the float track left by a successful `fb_conversion`, as
the engines read it, when `expf(-infinity) = 0`: the nodes beyond `M` have
match odds ratio 0 for every residue, and the nodes from `M` on have M->D and
D->D odds ratios 0. -/
theorem fb_engine_padding (h : Headers α) (gm : P7_PROFILE α) (om0 : P7_OM α)
    (hok : (fb_conversion h gm om0).1 = eslOK)
    (hv : ∀ (v : M128 (Flt α)) (z : Fin 4), h.esl_sse_expf v z = h.expf (v z))
    (h0 : h.expf .ninf = .fin 0) :
    (∀ k x, gm.M < k → k ≤ 4 * h.p7O_NQF gm.M → x < gm.abc.Kp →
      node_val (h.p7O_NQF gm.M) ((om_engine (fb_conversion h gm om0).2).rfv x) k = 0) ∧
    (∀ k, gm.M ≤ k → k < 4 * h.p7O_NQF gm.M →
      node_val (h.p7O_NQF gm.M)
        (fun q => (om_engine (fb_conversion h gm om0).2).tfv (7 * q + 4)) k = 0 ∧
      node_val (h.p7O_NQF gm.M)
        (fun q => (om_engine (fb_conversion h gm om0).2).tfv (7 * h.p7O_NQF gm.M + q)) k = 0) := by
  have hninf : Flt.neg (.pinf : Flt α) = .ninf := rfl
  rw [fb_conversion_ok h gm om0 hok]
  constructor
  · intro k x hk1 hk2 hx
    obtain ⟨n, rfl⟩ : ∃ n, k = n + 1 := ⟨k - 1, by omega⟩
    have hn4 : n < 4 * h.p7O_NQF gm.M := by omega
    have hQ : 0 < h.p7O_NQF gm.M := by omega
    have hq : n % h.p7O_NQF gm.M < h.p7O_NQF gm.M := Nat.mod_lt n hQ
    have hz := lane_val (h.p7O_NQF gm.M) n hn4
    have hnode : n % h.p7O_NQF gm.M + (n / h.p7O_NQF gm.M) * h.p7O_NQF gm.M = n := by
      rw [Nat.mul_comm]; exact Nat.mod_add_div n _
    unfold node_val
    rw [if_neg (Nat.succ_ne_zero n), Nat.add_sub_cancel]
    show Flt.val ((fb_fill h gm om0).rfv x (n % h.p7O_NQF gm.M) _) = _
    rw [fb_fill_rfv h gm om0 x _ hx hq]
    unfold fb_rfv
    rw [hv, hz, if_neg (by omega), hninf, h0]
    rfl
  · intro k hk1 hk2
    rcases Nat.eq_zero_or_pos k with hk0 | hkpos
    · subst hk0
      exact ⟨rfl, rfl⟩
    · obtain ⟨n, rfl⟩ : ∃ n, k = n + 1 := ⟨k - 1, by omega⟩
      have hn4 : n < 4 * h.p7O_NQF gm.M := by omega
      have hQ : 0 < h.p7O_NQF gm.M := by omega
      have hq : n % h.p7O_NQF gm.M < h.p7O_NQF gm.M := Nat.mod_lt n hQ
      have hz := lane_val (h.p7O_NQF gm.M) n hn4
      have hnode : n % h.p7O_NQF gm.M + (n / h.p7O_NQF gm.M) * h.p7O_NQF gm.M = n := by
        rw [Nat.mul_comm]; exact Nat.mod_add_div n _
      obtain ⟨hT, hD⟩ := fb_fill_tfv h gm om0 (n % h.p7O_NQF gm.M) hq
      unfold node_val
      rw [if_neg (Nat.succ_ne_zero n), Nat.add_sub_cancel]
      constructor
      · show Flt.val ((fb_fill h gm om0).tfv (7 * (n % h.p7O_NQF gm.M) + 4) _) = _
        rw [hT 4 (by omega)]
        unfold fb_tfv
        rw [hv, hz]
        have hc : ¬ (fb_switch 4 (n % h.p7O_NQF gm.M + 1)).2
            + (n / h.p7O_NQF gm.M) * h.p7O_NQF gm.M < gm.M := by
          show ¬ n % h.p7O_NQF gm.M + 1 + (n / h.p7O_NQF gm.M) * h.p7O_NQF gm.M < gm.M
          omega
        rw [if_neg hc, hninf, h0]
        rfl
      · show Flt.val ((fb_fill h gm om0).tfv (7 * h.p7O_NQF gm.M + n % h.p7O_NQF gm.M) _) = _
        rw [hD]
        unfold fb_ddv
        rw [hv, hz, if_neg (by omega), hninf, h0]
        rfl

end EngineEntries
/-! ## The Match and Insert recurrences on a converted model -/

section ForwardNodeClaims

variable {α : Type} [LinearOrderedField α] [FloorRing α]

/-- C35: let the float track be built by a successful `fb_conversion` from a
generic profile `gm` of `M <= 4*Q` nodes in `Q = p7O_NQF(M)` vectors, with
`esl_sse_expf` the lane-wise `expf`, `expf` of finite values `E` on scores
(finite or minus infinity) with `E(-infinity) = 0`, and `gm` holding scores.  For every position `i` in `1..L` whose code is below
`Kp` and every node `k` in `1..M`, the Match and Insert values of row `i`
that `forward_engine` computes, before the rescaling of row `i`, are

`M_i(k) = e_k(x_i) * (B_(i-1) * tBM(k) + M_(i-1)(k-1) * tMM(k-1)
            + I_(i-1)(k-1) * tIM(k-1) + D_(i-1)(k-1) * tDM(k-1))`,
`I_i(k) = M_(i-1)(k) * tMI(k) + I_(i-1)(k) * tII(k)`,

over the stored row `i-1` (after its rescaling), where the values of node 0
are 0, `e_k(x) = E(msc(k, x))`, the odds ratios of the transitions into node
`k` are `E` of the scores stored with node `k-1`, and `tMI(k)`, `tII(k)` are
`E` of the scores of node `k`, 0 for the last node `k = M`, which has no
Insert state.  Node `k` is read in lane `(k-1) / Q` of vector `(k-1) % Q`. -/
theorem C35_match_insert_recurrences (h : Headers α) (gm : P7_PROFILE α) (om0 : P7_OM α)
    (E : Flt α → α) (lm : LibM α) (do_full : Bool) (dsq : Nat → Nat) (L : Nat)
    (ox : P7_OMX α) (i k : Nat)
    (hok : (fb_conversion h gm om0).1 = eslOK)
    (hv : ∀ (v : M128 (Flt α)) (z : Fin 4), h.esl_sse_expf v z = h.expf (v z))
    (hE : ∀ s, IsScore s → h.expf s = .fin (E s)) (hE0 : E .ninf = 0)
    (hr : ∀ x j, IsScore (gm.rsc x j)) (ht : ∀ j, IsScore (gm.tsc j))
    (hM : gm.M ≤ 4 * h.p7O_NQF gm.M)
    (hi1 : 1 ≤ i) (hiL : i ≤ L) (hx : dsq i < gm.abc.Kp) (hk1 : 1 ≤ k) (hkM : k ≤ gm.M) :
    node_val (h.p7O_NQF gm.M)
        ((fwd_pre lm do_full dsq (h.p7O_NQF gm.M) (om_engine (fb_conversion h gm om0).2)
            (fwd_init L (h.p7O_NQF gm.M) (om_engine (fb_conversion h gm om0).2) ox) i).ox.dpf
          (fwd_pre lm do_full dsq (h.p7O_NQF gm.M) (om_engine (fb_conversion h gm om0).2)
            (fwd_init L (h.p7O_NQF gm.M) (om_engine (fb_conversion h gm om0).2) ox) i).dpc).mmo k
      = E (p7P_MSC gm k (dsq i))
        * ((fwd_state lm do_full dsq (h.p7O_NQF gm.M) (om_engine (fb_conversion h gm om0).2)
              (fwd_init L (h.p7O_NQF gm.M) (om_engine (fb_conversion h gm om0).2) ox) (i - 1)).xB
            * E (p7P_TSC gm (k - 1) p7P_BM)
          + node_val (h.p7O_NQF gm.M)
              ((fwd_state lm do_full dsq (h.p7O_NQF gm.M)
                  (om_engine (fb_conversion h gm om0).2)
                  (fwd_init L (h.p7O_NQF gm.M) (om_engine (fb_conversion h gm om0).2) ox)
                  (i - 1)).ox.dpf
                (fwd_state lm do_full dsq (h.p7O_NQF gm.M)
                  (om_engine (fb_conversion h gm om0).2)
                  (fwd_init L (h.p7O_NQF gm.M) (om_engine (fb_conversion h gm om0).2) ox)
                  (i - 1)).dpc).mmo (k - 1)
            * E (p7P_TSC gm (k - 1) p7P_MM)
          + node_val (h.p7O_NQF gm.M)
              ((fwd_state lm do_full dsq (h.p7O_NQF gm.M)
                  (om_engine (fb_conversion h gm om0).2)
                  (fwd_init L (h.p7O_NQF gm.M) (om_engine (fb_conversion h gm om0).2) ox)
                  (i - 1)).ox.dpf
                (fwd_state lm do_full dsq (h.p7O_NQF gm.M)
                  (om_engine (fb_conversion h gm om0).2)
                  (fwd_init L (h.p7O_NQF gm.M) (om_engine (fb_conversion h gm om0).2) ox)
                  (i - 1)).dpc).imo (k - 1)
            * E (p7P_TSC gm (k - 1) p7P_IM)
          + node_val (h.p7O_NQF gm.M)
              ((fwd_state lm do_full dsq (h.p7O_NQF gm.M)
                  (om_engine (fb_conversion h gm om0).2)
                  (fwd_init L (h.p7O_NQF gm.M) (om_engine (fb_conversion h gm om0).2) ox)
                  (i - 1)).ox.dpf
                (fwd_state lm do_full dsq (h.p7O_NQF gm.M)
                  (om_engine (fb_conversion h gm om0).2)
                  (fwd_init L (h.p7O_NQF gm.M) (om_engine (fb_conversion h gm om0).2) ox)
                  (i - 1)).dpc).dmo (k - 1)
            * E (p7P_TSC gm (k - 1) p7P_DM)) ∧
    node_val (h.p7O_NQF gm.M)
        ((fwd_pre lm do_full dsq (h.p7O_NQF gm.M) (om_engine (fb_conversion h gm om0).2)
            (fwd_init L (h.p7O_NQF gm.M) (om_engine (fb_conversion h gm om0).2) ox) i).ox.dpf
          (fwd_pre lm do_full dsq (h.p7O_NQF gm.M) (om_engine (fb_conversion h gm om0).2)
            (fwd_init L (h.p7O_NQF gm.M) (om_engine (fb_conversion h gm om0).2) ox) i).dpc).imo k
      = node_val (h.p7O_NQF gm.M)
            ((fwd_state lm do_full dsq (h.p7O_NQF gm.M)
                (om_engine (fb_conversion h gm om0).2)
                (fwd_init L (h.p7O_NQF gm.M) (om_engine (fb_conversion h gm om0).2) ox)
                (i - 1)).ox.dpf
              (fwd_state lm do_full dsq (h.p7O_NQF gm.M)
                (om_engine (fb_conversion h gm om0).2)
                (fwd_init L (h.p7O_NQF gm.M) (om_engine (fb_conversion h gm om0).2) ox)
                (i - 1)).dpc).mmo k
          * (if k < gm.M then E (p7P_TSC gm k p7P_MI) else 0)
        + node_val (h.p7O_NQF gm.M)
            ((fwd_state lm do_full dsq (h.p7O_NQF gm.M)
                (om_engine (fb_conversion h gm om0).2)
                (fwd_init L (h.p7O_NQF gm.M) (om_engine (fb_conversion h gm om0).2) ox)
                (i - 1)).ox.dpf
              (fwd_state lm do_full dsq (h.p7O_NQF gm.M)
                (om_engine (fb_conversion h gm om0).2)
                (fwd_init L (h.p7O_NQF gm.M) (om_engine (fb_conversion h gm om0).2) ox)
                (i - 1)).dpc).imo k
          * (if k < gm.M then E (p7P_TSC gm k p7P_II) else 0) := by
  obtain ⟨n, rfl⟩ : ∃ n, k = n + 1 := ⟨k - 1, by omega⟩
  have hn : n < gm.M := by omega
  have hn4 : n < 4 * h.p7O_NQF gm.M := by omega
  have hQ : 0 < h.p7O_NQF gm.M := by omega
  obtain ⟨eR, eBM, eMM, eIM, eDM, eMI, eII⟩ :=
    fb_engine_entries h gm om0 E n hok hv hE hr ht hM hn
  generalize hprv : fwd_state lm do_full dsq (h.p7O_NQF gm.M)
    (om_engine (fb_conversion h gm om0).2)
    (fwd_init L (h.p7O_NQF gm.M) (om_engine (fb_conversion h gm om0).2) ox) (i - 1) = prv
  have hcur : fwd_pre lm do_full dsq (h.p7O_NQF gm.M) (om_engine (fb_conversion h gm om0).2)
      (fwd_init L (h.p7O_NQF gm.M) (om_engine (fb_conversion h gm om0).2) ox) i
      = fwd_row_compute do_full dsq (h.p7O_NQF gm.M) (om_engine (fb_conversion h gm om0).2) i
          prv := by
    unfold fwd_pre
    rw [hprv]
  rw [hcur]
  obtain ⟨hMf, hIf⟩ := fwd_compute_flat_MI do_full dsq (h.p7O_NQF gm.M)
    (om_engine (fb_conversion h gm om0).2) i prv hQ
  have hMn := hMf n hn4
  have hIn := hIf n hn4
  rw [Nat.add_sub_cancel]
  rw [node_val_succ, node_val_succ, node_val_succ, node_val_succ, node_val_shr, node_val_shr,
    node_val_shr]
  constructor
  · refine hMn.trans ?_
    have e1 : (om_chain (h.p7O_NQF gm.M) (om_engine (fb_conversion h gm om0).2)).BM n
        = E (p7P_TSC gm n p7P_BM) := eBM
    have e2 : (om_chain (h.p7O_NQF gm.M) (om_engine (fb_conversion h gm om0).2)).MM n
        = E (p7P_TSC gm n p7P_MM) := eMM
    have e3 : (om_chain (h.p7O_NQF gm.M) (om_engine (fb_conversion h gm om0).2)).IM n
        = E (p7P_TSC gm n p7P_IM) := eIM
    have e4 : (om_chain (h.p7O_NQF gm.M) (om_engine (fb_conversion h gm om0).2)).DM n
        = E (p7P_TSC gm n p7P_DM) := eDM
    have e5 : flat (h.p7O_NQF gm.M) ((om_engine (fb_conversion h gm om0).2).rfv (dsq i)) n
        = E (p7P_MSC gm (n + 1) (dsq i)) := eR (dsq i) hx
    rw [e1, e2, e3, e4, e5, mul_comm]
    rfl
  · refine hIn.trans ?_
    have e6 : (om_chain (h.p7O_NQF gm.M) (om_engine (fb_conversion h gm om0).2)).MI n
        = if n + 1 < gm.M then E (p7P_TSC gm (n + 1) p7P_MI) else 0 := by
      rw [← hE0]; exact eMI
    have e7 : (om_chain (h.p7O_NQF gm.M) (om_engine (fb_conversion h gm om0).2)).II n
        = if n + 1 < gm.M then E (p7P_TSC gm (n + 1) p7P_II) else 0 := by
      rw [← hE0]; exact eII
    rw [e6, e7]
    rfl

end ForwardNodeClaims
section NodeWitnesses

/-- Witness for C36: the three-node toy model in one vector, whose fourth
lane is padding. -/
theorem C36_delete_chain_and_end_witness :
    (0 < 1 ∧ demo_om3.M < 100 ∧ demo_om3.M ≤ 4 * 1) ∧
    (∀ k, demo_om3.M < k → k ≤ 4 * 1 → node_val 1 (demo_om3.rfv ((fun _ => 0) 1)) k = 0) ∧
    (∀ k, demo_om3.M ≤ k → k < 4 * 1 →
      node_val 1 (fun q => demo_om3.tfv (7 * q + 4)) k = 0 ∧
      node_val 1 (fun q => demo_om3.tfv (7 * 1 + q)) k = 0) ∧
    node_val 1 ((fwd_row_compute false (fun _ => 0) 1 demo_om3 1
        (fwd_init 1 1 demo_om3 demo_ox)).ox.dpf
      (fwd_row_compute false (fun _ => 0) 1 demo_om3 1
        (fwd_init 1 1 demo_om3 demo_ox)).dpc).dmo 1 = 0 := by
  have hE : ∀ k, demo_om3.M < k → k ≤ 4 * 1 →
      node_val 1 (demo_om3.rfv ((fun _ => 0) 1)) k = 0 := by
    intro k h1 h2
    have h3 : 3 < k := h1
    have hk : k = 4 := by omega
    subst hk
    show (if ((Fin.ofNat ((4 - 1) / 1) : Fin 4)).val < 3 then (1 : ℚ) else 0) = 0
    rw [if_neg (by decide)]
  have hT : ∀ k, demo_om3.M ≤ k → k < 4 * 1 →
      node_val 1 (fun q => demo_om3.tfv (7 * q + 4)) k = 0 ∧
      node_val 1 (fun q => demo_om3.tfv (7 * 1 + q)) k = 0 := by
    intro k h1 h2
    have h3 : 3 ≤ k := h1
    have hk : k = 3 := by omega
    subst hk
    simp [node_val, demo_om3]
  exact ⟨⟨by decide, by decide, by decide⟩, hE, hT,
    (C36_delete_chain_and_end false (fun _ => 0) 1 demo_om3 1 (fwd_init 1 1 demo_om3 demo_ox)
      (by decide) (by decide) (by decide) hE hT).1⟩

theorem demo_fb_exp_ok :
    (fb_conversion demo_headers_exp (demo_gm (demo_abc eslDNA 4 18) (fun _ _ => .fin 0))
      (demo_created 4 (demo_abc eslDNA 4 18))).1 = eslOK := by
  rw [fb_conversion_eq demo_headers_exp _ _ (demo_capacity (fun _ _ => .fin 0) 4 18).2.2]

/-- Witness for C35: the two-node example with all scores 0 and the stand-in
for `expf` that is 1 on them, position 1 of a sequence of length 1 and
node 1. -/
theorem C35_match_insert_recurrences_witness :
    ((fb_conversion demo_headers_exp (demo_gm (demo_abc eslDNA 4 18) (fun _ _ => .fin 0))
        (demo_created 4 (demo_abc eslDNA 4 18))).1 = eslOK ∧
      (∀ (v : M128 (Flt ℚ)) (z : Fin 4),
        demo_headers_exp.esl_sse_expf v z = demo_headers_exp.expf (v z)) ∧
      (∀ s, IsScore s → demo_headers_exp.expf s = .fin (demo_exp s)) ∧
      demo_exp .ninf = 0 ∧
      (∀ x j, IsScore ((demo_gm (demo_abc eslDNA 4 18) (fun _ _ => .fin 0)).rsc x j)) ∧
      (∀ j, IsScore ((demo_gm (demo_abc eslDNA 4 18) (fun _ _ => .fin 0)).tsc j)) ∧
      (demo_gm (demo_abc eslDNA 4 18) (fun _ _ => .fin 0)).M
        ≤ 4 * demo_headers_exp.p7O_NQF (demo_gm (demo_abc eslDNA 4 18) (fun _ _ => .fin 0)).M ∧
      1 ≤ 1 ∧ (fun _ => 0) 1 < (demo_gm (demo_abc eslDNA 4 18) (fun _ _ => .fin 0)).abc.Kp ∧
      1 ≤ (demo_gm (demo_abc eslDNA 4 18) (fun _ _ => .fin 0)).M) ∧
    node_val (demo_headers_exp.p7O_NQF (demo_gm (demo_abc eslDNA 4 18) (fun _ _ => .fin 0)).M)
        ((fwd_pre (demo_lm (fun x : ℚ => x)) false (fun _ => 0)
            (demo_headers_exp.p7O_NQF (demo_gm (demo_abc eslDNA 4 18) (fun _ _ => .fin 0)).M)
            (om_engine (fb_conversion demo_headers_exp
              (demo_gm (demo_abc eslDNA 4 18) (fun _ _ => .fin 0))
              (demo_created 4 (demo_abc eslDNA 4 18))).2)
            (fwd_init 1
              (demo_headers_exp.p7O_NQF (demo_gm (demo_abc eslDNA 4 18) (fun _ _ => .fin 0)).M)
              (om_engine (fb_conversion demo_headers_exp
                (demo_gm (demo_abc eslDNA 4 18) (fun _ _ => .fin 0))
                (demo_created 4 (demo_abc eslDNA 4 18))).2) demo_ox) 1).ox.dpf
          (fwd_pre (demo_lm (fun x : ℚ => x)) false (fun _ => 0)
            (demo_headers_exp.p7O_NQF (demo_gm (demo_abc eslDNA 4 18) (fun _ _ => .fin 0)).M)
            (om_engine (fb_conversion demo_headers_exp
              (demo_gm (demo_abc eslDNA 4 18) (fun _ _ => .fin 0))
              (demo_created 4 (demo_abc eslDNA 4 18))).2)
            (fwd_init 1
              (demo_headers_exp.p7O_NQF (demo_gm (demo_abc eslDNA 4 18) (fun _ _ => .fin 0)).M)
              (om_engine (fb_conversion demo_headers_exp
                (demo_gm (demo_abc eslDNA 4 18) (fun _ _ => .fin 0))
                (demo_created 4 (demo_abc eslDNA 4 18))).2) demo_ox) 1).dpc).imo 1
      = node_val
            (demo_headers_exp.p7O_NQF (demo_gm (demo_abc eslDNA 4 18) (fun _ _ => .fin 0)).M)
            ((fwd_state (demo_lm (fun x : ℚ => x)) false (fun _ => 0)
                (demo_headers_exp.p7O_NQF
                  (demo_gm (demo_abc eslDNA 4 18) (fun _ _ => .fin 0)).M)
                (om_engine (fb_conversion demo_headers_exp
                  (demo_gm (demo_abc eslDNA 4 18) (fun _ _ => .fin 0))
                  (demo_created 4 (demo_abc eslDNA 4 18))).2)
                (fwd_init 1
                  (demo_headers_exp.p7O_NQF
                    (demo_gm (demo_abc eslDNA 4 18) (fun _ _ => .fin 0)).M)
                  (om_engine (fb_conversion demo_headers_exp
                    (demo_gm (demo_abc eslDNA 4 18) (fun _ _ => .fin 0))
                    (demo_created 4 (demo_abc eslDNA 4 18))).2) demo_ox) (1 - 1)).ox.dpf
              (fwd_state (demo_lm (fun x : ℚ => x)) false (fun _ => 0)
                (demo_headers_exp.p7O_NQF
                  (demo_gm (demo_abc eslDNA 4 18) (fun _ _ => .fin 0)).M)
                (om_engine (fb_conversion demo_headers_exp
                  (demo_gm (demo_abc eslDNA 4 18) (fun _ _ => .fin 0))
                  (demo_created 4 (demo_abc eslDNA 4 18))).2)
                (fwd_init 1
                  (demo_headers_exp.p7O_NQF
                    (demo_gm (demo_abc eslDNA 4 18) (fun _ _ => .fin 0)).M)
                  (om_engine (fb_conversion demo_headers_exp
                    (demo_gm (demo_abc eslDNA 4 18) (fun _ _ => .fin 0))
                    (demo_created 4 (demo_abc eslDNA 4 18))).2) demo_ox) (1 - 1)).dpc).mmo 1
          * (if 1 < (demo_gm (demo_abc eslDNA 4 18) (fun _ _ => .fin 0)).M then
              demo_exp (p7P_TSC (demo_gm (demo_abc eslDNA 4 18) (fun _ _ => .fin 0)) 1
                p7P_MI) else 0)
        + node_val
            (demo_headers_exp.p7O_NQF (demo_gm (demo_abc eslDNA 4 18) (fun _ _ => .fin 0)).M)
            ((fwd_state (demo_lm (fun x : ℚ => x)) false (fun _ => 0)
                (demo_headers_exp.p7O_NQF
                  (demo_gm (demo_abc eslDNA 4 18) (fun _ _ => .fin 0)).M)
                (om_engine (fb_conversion demo_headers_exp
                  (demo_gm (demo_abc eslDNA 4 18) (fun _ _ => .fin 0))
                  (demo_created 4 (demo_abc eslDNA 4 18))).2)
                (fwd_init 1
                  (demo_headers_exp.p7O_NQF
                    (demo_gm (demo_abc eslDNA 4 18) (fun _ _ => .fin 0)).M)
                  (om_engine (fb_conversion demo_headers_exp
                    (demo_gm (demo_abc eslDNA 4 18) (fun _ _ => .fin 0))
                    (demo_created 4 (demo_abc eslDNA 4 18))).2) demo_ox) (1 - 1)).ox.dpf
              (fwd_state (demo_lm (fun x : ℚ => x)) false (fun _ => 0)
                (demo_headers_exp.p7O_NQF
                  (demo_gm (demo_abc eslDNA 4 18) (fun _ _ => .fin 0)).M)
                (om_engine (fb_conversion demo_headers_exp
                  (demo_gm (demo_abc eslDNA 4 18) (fun _ _ => .fin 0))
                  (demo_created 4 (demo_abc eslDNA 4 18))).2)
                (fwd_init 1
                  (demo_headers_exp.p7O_NQF
                    (demo_gm (demo_abc eslDNA 4 18) (fun _ _ => .fin 0)).M)
                  (om_engine (fb_conversion demo_headers_exp
                    (demo_gm (demo_abc eslDNA 4 18) (fun _ _ => .fin 0))
                    (demo_created 4 (demo_abc eslDNA 4 18))).2) demo_ox) (1 - 1)).dpc).imo 1
          * (if 1 < (demo_gm (demo_abc eslDNA 4 18) (fun _ _ => .fin 0)).M then
              demo_exp (p7P_TSC (demo_gm (demo_abc eslDNA 4 18) (fun _ _ => .fin 0)) 1
                p7P_II) else 0) :=
  ⟨⟨demo_fb_exp_ok, fun _ _ => rfl, fun _ _ => rfl, rfl, fun _ _ => Or.inr ⟨0, rfl⟩,
      fun _ => Or.inr ⟨0, rfl⟩, by decide, le_refl 1, by decide, by decide⟩,
   (C35_match_insert_recurrences demo_headers_exp
      (demo_gm (demo_abc eslDNA 4 18) (fun _ _ => .fin 0))
      (demo_created 4 (demo_abc eslDNA 4 18)) demo_exp (demo_lm (fun x : ℚ => x)) false
      (fun _ => 0) 1 demo_ox 1 1 demo_fb_exp_ok (fun _ _ => rfl) (fun _ _ => rfl) rfl
      (fun _ _ => Or.inr ⟨0, rfl⟩) (fun _ => Or.inr ⟨0, rfl⟩)
      (by decide) (le_refl 1) (le_refl 1) (by decide) (le_refl 1) (by decide)).2⟩

end NodeWitnesses

end Hmmer3
